import Mathlib

/-! # CRAM2VCF: alignment loader, gap structure and haplotype enumerator

A shallow embedding of `src/CRAM2VCF.cpp` (NovoGraph) and theorems about it.

Modelling conventions.

* A `std::string` is a `List Char`; `long long` and `int` values are `Int`,
  sizes and `unsigned int` values are `Nat`.  Every string is assumed shorter
  than `2^31`, so casts of lengths to `int` are exact.  The two places where an
  `unsigned int` that was parsed from the input is incremented or cast
  (`StrtoUI(..)+1`, `(int)startPos.first`) and the conversion of a `long long`
  to an `unsigned int` map key are modelled with explicit wrap-around.
* A `char` is a `Char`, standing for the byte of its value.  The type `char` is
  signed; this matters at one place, the assertion of line 527, which compares
  an `unsigned char` with a `char`.
* A failed `assert`, an uncaught `std::out_of_range` or `std::length_error` and
  the `runtime_error("Gap structure mismatch")` all end the run; they are the
  `Failure` values of the `Except` monad, labelled with the source line.
* A loop `for (i = 0; i < s.length(); i++)` that reads `s.at(i)` is a recursion
  over the list `s`; a loop that starts at an index `k` is a recursion over the
  suffix `s.drop k`.
* A `startingHaplotype*` is modelled by `HapPtr`: the heap record it points to
  (records are never modified after publication) together with the number of
  the allocation, which plays the role of the address.  The null pointer,
  meaning "reference", is `none`.
* Writes to `std::cout` and `std::cerr` are not modelled.  The output stream of
  `produceVCF` is the list of VCF lines written so far.
-/

namespace CRAM2VCF

/-! ## Data model -/

/-- Ways in which a run ends before completion. The number is the source line. -/
inductive Failure where
  | assertion (line : Nat)
  | outOfRange (line : Nat)
  | lengthError (line : Nat)
  | gapStructureMismatch
  deriving DecidableEq, Repr

/-- Computations that may stop with a `Failure`. -/
abbrev Run := Except Failure

/-- The C `assert` macro (assertions are compiled in). -/
def assertThat (line : Nat) (c : Prop) [Decidable c] : Run Unit :=
  if c then Except.ok () else Except.error (Failure.assertion line)

/-- A call of `at` or `substr` whose position has to satisfy `c`. -/
def rangeCheck (line : Nat) (c : Prop) [Decidable c] : Run Unit :=
  if c then Except.ok () else Except.error (Failure.outOfRange line)

/-- Class `startingHaplotype` (lines 39-57): one pairwise alignment. -/
structure startingHaplotype where
  ref : List Char
  query : List Char
  query_name : List Char
  aligment_start_pos : Int
  alignment_last_pos : Int
  deriving DecidableEq, Repr

/-- A `startingHaplotype*` that is not null: allocation number and pointee. -/
structure HapPtr where
  addr : Nat
  obj : startingHaplotype
  deriving DecidableEq, Repr

/-- The five tab-separated fields of one non-empty input line (line 136); the
two positions are the values returned by `StrtoUI`. -/
structure AlignmentLine where
  ref : List Char
  query : List Char
  query_name : List Char
  start : Nat
  last : Nat
  deriving DecidableEq, Repr

/-- Number of values of an `unsigned int`. -/
def UINT_RANGE : Nat := 4294967296

/-- The test `(c != '-') && (c != '*')` negated: `c` is a gap character. -/
def isGapCharacter (c : Char) : Bool := c == '-' || c == '*'

/-- Function `std::to_string` on a size. -/
def to_string (n : Nat) : List Char := Nat.toDigits 10 n

/-- Lines 138-143: the record built from the fields of a line. -/
def newStartingHaplotype (l : AlignmentLine) : startingHaplotype :=
  { ref := l.ref
    query := l.query
    query_name := l.query_name
    aligment_start_pos := ((l.start % UINT_RANGE : Nat) : Int)
    alignment_last_pos := (((l.last % UINT_RANGE + 1) % UINT_RANGE : Nat) : Int) }

/-! ## Expected alleles scan (lines 146-178) -/

/-- Local variables of the expected-alleles block. The field `expectedAlleles`
lists the `(position, allele)` pairs inserted into
`expectedAlleles[referenceSequenceID]`, oldest first. -/
structure AlleleScan where
  runningRefC_0based : Int
  runningRefAllele : List Char
  runningQueryAllele : List Char
  expectedAlleles : List (Int × List Char)
  deriving DecidableEq, Repr

/-- One pass through the body of the loop at lines 151-177. -/
def scanColumn (st : AlleleScan) (c_ref c_query : Char) : AlleleScan :=
  let st1 : AlleleScan :=
    if c_ref ≠ '-' ∧ c_ref ≠ '*' then
      { st with
        expectedAlleles :=
          if st.runningRefAllele.length = 1 ∧ st.runningQueryAllele.length = 1
              ∧ st.runningRefAllele ≠ st.runningQueryAllele then
            if st.runningRefAllele ≠ ['-'] ∧ st.runningRefAllele ≠ ['*']
                ∧ st.runningQueryAllele ≠ ['-'] ∧ st.runningQueryAllele ≠ ['*'] then
              st.expectedAlleles ++ [(st.runningRefC_0based, st.runningQueryAllele)]
            else st.expectedAlleles
          else st.expectedAlleles
        runningRefAllele := []
        runningQueryAllele := [] }
    else st
  let st2 : AlleleScan :=
    if c_ref ≠ '-' ∧ c_ref ≠ '*' then
      { st1 with runningRefC_0based := st1.runningRefC_0based + 1 }
    else st1
  { st2 with
    runningRefAllele := st2.runningRefAllele ++ [c_ref]
    runningQueryAllele := st2.runningQueryAllele ++ [c_query] }

/-- The loop at lines 151-177 over the columns `ref.at(i)`, `query.at(i)`. -/
def scanColumns : List Char → List Char → AlleleScan → Run AlleleScan
  | [], _, st => Except.ok st
  | _ :: _, [], _ => Except.error (Failure.outOfRange 154)
  | r :: rs, q :: qs, st => scanColumns rs qs (scanColumn st r q)

/-- Lines 146-178 for one alignment: the pairs it inserts, in order. -/
def expectedAllelesScan (h : startingHaplotype) : Run (List (Int × List Char)) :=
  match scanColumns h.ref h.query
      { runningRefC_0based := h.aligment_start_pos - 1
        runningRefAllele := []
        runningQueryAllele := []
        expectedAlleles := [] } with
  | Except.ok st => Except.ok st.expectedAlleles
  | Except.error e => Except.error e

/-! ## Start-zero hack (lines 181-188) -/

/-- Lines 181-188. -/
def startZeroHack (h : startingHaplotype) : Run startingHaplotype :=
  if h.aligment_start_pos = 0 then
    match h.ref[1]? with
    | none => Except.error (Failure.outOfRange 183)
    | some r1 =>
      if r1 = '-' then Except.error (Failure.assertion 183)
      else
        match h.query[1]? with
        | none => Except.error (Failure.outOfRange 184)
        | some q1 =>
          if q1 = '-' then Except.error (Failure.assertion 184)
          else
            Except.ok
              { h with
                aligment_start_pos := 1
                ref := h.ref.drop 1
                query := h.query.drop 1 }
  else Except.ok h

/-! ## Splitter (lines 190-351) -/

/-- Local variables of the splitter, lines 190-205. -/
structure SplitterState where
  lastPos_control : Int
  firstMatchPos_reference : Int
  lastMatchPos_reference : Int
  running_ref : List Char
  running_query : List Char
  runningNonMatchPositions : Int
  runningRefGapCharacters : Int
  runningQueryGapCharacters : Int
  runningRefPos : Int
  haplotype_parts : List startingHaplotype
  reconstituted_ref : List Char
  reconstituted_query : List Char
  deriving DecidableEq, Repr

/-- Lines 190-205: the state before the first column. -/
def splitterInit (h : startingHaplotype) : SplitterState :=
  { lastPos_control := h.aligment_start_pos - 1
    firstMatchPos_reference := -1
    lastMatchPos_reference := -1
    running_ref := []
    running_query := []
    runningNonMatchPositions := 0
    runningRefGapCharacters := 0
    runningQueryGapCharacters := 0
    runningRefPos := h.aligment_start_pos - 1
    haplotype_parts := []
    reconstituted_ref := []
    reconstituted_query := [] }

/-- Lines 230-285: close the current sub-alignment in front of the gap run. -/
def closeSubAlignment (h : startingHaplotype) (st : SplitterState) : Run SplitterState := do
  assertThat 232 (st.firstMatchPos_reference ≠ -1)
  let remainingCharacters : Int := (st.running_ref.length : Int) - st.runningNonMatchPositions
  assertThat 234 (remainingCharacters ≥ 0)
  assertThat 239
    (st.runningNonMatchPositions > 0 → (st.running_ref.length : Int) > remainingCharacters)
  rangeCheck 241
    (st.runningNonMatchPositions > 0 → remainingCharacters.toNat ≤ st.running_query.length)
  let removeRef : List Char :=
    if st.runningNonMatchPositions > 0 then st.running_ref.drop remainingCharacters.toNat else []
  let removeQuery : List Char :=
    if st.runningNonMatchPositions > 0 then st.running_query.drop remainingCharacters.toNat else []
  let running_ref := st.running_ref.take remainingCharacters.toNat
  let running_query := st.running_query.take remainingCharacters.toNat
  assertThat 245 ((running_ref.length : Int) = remainingCharacters)
  assertThat 246 ((running_query.length : Int) = remainingCharacters)
  let reconstituted_ref := st.reconstituted_ref ++ running_ref ++ removeRef
  let reconstituted_query := st.reconstituted_query ++ running_query ++ removeQuery
  let h_part : startingHaplotype :=
    { ref := running_ref
      query := running_query
      query_name := h.query_name ++ "_part".toList ++ to_string st.haplotype_parts.length
      aligment_start_pos := st.firstMatchPos_reference
      alignment_last_pos := st.lastMatchPos_reference }
  assertThat 280
    (running_ref.length ≠ 0 →
      ¬ (h_part.aligment_start_pos = 46398487 ∧ h_part.alignment_last_pos = 46398489))
  pure
    { st with
      running_ref := []
      running_query := []
      firstMatchPos_reference := -1
      reconstituted_ref := reconstituted_ref
      reconstituted_query := reconstituted_query
      haplotype_parts :=
        if running_ref.length ≠ 0 then st.haplotype_parts ++ [h_part] else st.haplotype_parts }

/-- One pass through the body of the loop at lines 207-315, for column `i` of
an alignment with `len` columns. -/
def splitterColumn (max_gap_length : Int) (h : startingHaplotype) (len i : Nat)
    (c_ref c_query : Char) (st : SplitterState) : Run SplitterState := do
  let runningRefPos : Int :=
    if c_ref ≠ '-' ∧ c_ref ≠ '*' then st.runningRefPos + 1 else st.runningRefPos
  let isMatchOrMismatch : Bool :=
    decide (c_ref ≠ '-' ∧ c_ref ≠ '*' ∧ c_query ≠ '-' ∧ c_query ≠ '*')
  let isRefGap : Bool := decide (c_ref = '-' ∨ c_ref = '*')
  let isQueryGap : Bool := decide (c_query = '-' ∨ c_query = '*')
  assertThat 223 (i = 0 ∨ i = len - 1 → isMatchOrMismatch = true)
  let st1 : SplitterState ←
    (if isMatchOrMismatch = true then
      bind
        (if st.runningQueryGapCharacters > max_gap_length then closeSubAlignment h st
         else pure st)
        (fun stc : SplitterState =>
          pure
            { stc with
              firstMatchPos_reference :=
                if stc.firstMatchPos_reference = -1 then runningRefPos
                else stc.firstMatchPos_reference
              lastMatchPos_reference := runningRefPos
              runningNonMatchPositions := 0
              runningRefGapCharacters := 0
              runningQueryGapCharacters := 0 })
    else
      pure
        { st with
          runningNonMatchPositions := st.runningNonMatchPositions + 1
          runningRefGapCharacters :=
            if isRefGap = true ∧ ¬ isQueryGap = true then st.runningRefGapCharacters + 1
            else st.runningRefGapCharacters
          runningQueryGapCharacters :=
            if isQueryGap = true ∧ ¬ isRefGap = true then st.runningQueryGapCharacters + 1
            else st.runningQueryGapCharacters })
  pure
    { st1 with
      runningRefPos := runningRefPos
      running_ref := st1.running_ref ++ [c_ref]
      running_query := st1.running_query ++ [c_query]
      lastPos_control :=
        if c_ref ≠ '-' ∧ c_ref ≠ '*' then st1.lastPos_control + 1 else st1.lastPos_control }

/-- The loop at lines 207-315, from column `i` on; the two lists are the
columns not yet read. -/
def splitterLoop (max_gap_length : Int) (h : startingHaplotype) (len : Nat) :
    Nat → List Char → List Char → SplitterState → Run SplitterState
  | _, [], _, st => Except.ok st
  | _, _ :: _, [], _ => Except.error (Failure.outOfRange 210)
  | i, r :: rs, q :: qs, st =>
    match splitterColumn max_gap_length h len i r q st with
    | Except.ok st1 => splitterLoop max_gap_length h len (i + 1) rs qs st1
    | Except.error e => Except.error e

/-- Lines 318-351: the checks after the loop and the trailing sub-alignment.
The result is the final value of `haplotype_parts`. -/
def splitterFinish (max_gap_length : Int) (h : startingHaplotype) (st : SplitterState) :
    Run (List startingHaplotype) := do
  assertThat 325 (st.lastPos_control = h.alignment_last_pos)
  assertThat 334 (st.lastPos_control = st.lastMatchPos_reference)
  assertThat 335 (st.runningNonMatchPositions ≤ max_gap_length)
  let h_part : startingHaplotype :=
    { ref := st.running_ref
      query := st.running_query
      query_name := ([] : List Char) ++ "_part".toList ++ to_string st.haplotype_parts.length
      aligment_start_pos := st.firstMatchPos_reference
      alignment_last_pos := st.lastMatchPos_reference }
  let haplotype_parts :=
    if st.running_ref.length ≠ 0 then st.haplotype_parts ++ [h_part] else st.haplotype_parts
  let reconstituted_ref :=
    if st.running_ref.length ≠ 0 then st.reconstituted_ref ++ st.running_ref
    else st.reconstituted_ref
  let reconstituted_query :=
    if st.running_ref.length ≠ 0 then st.reconstituted_query ++ st.running_query
    else st.reconstituted_query
  assertThat 350 (reconstituted_ref = h.ref)
  assertThat 351 (reconstituted_query = h.query)
  pure haplotype_parts

/-- Lines 190-351: the splitter applied to the alignment `h`. -/
def splitAlignment (max_gap_length : Int) (h : startingHaplotype) : Run (List startingHaplotype) :=
  match splitterLoop max_gap_length h h.ref.length 0 h.ref h.query (splitterInit h) with
  | Except.ok st => splitterFinish max_gap_length h st
  | Except.error e => Except.error e

/-! ## Index publication (lines 353-379) and the load loop (lines 130-423) -/

/-- The type `std::map<unsigned int, std::vector<startingHaplotype*>>`: the
entries by ascending key. -/
abbrev AlignmentIndex := List (Nat × List HapPtr)

/-- Conversion of a `long long` to an `unsigned int` map key. -/
def toUnsignedInt (x : Int) : Nat := (x % (UINT_RANGE : Int)).toNat

/-- The statement `m[key].push_back(p)`. -/
def indexPushBack : AlignmentIndex → Nat → HapPtr → AlignmentIndex
  | [], key, p => [(key, [p])]
  | (k, v) :: rest, key, p =>
    if key < k then (key, [p]) :: (k, v) :: rest
    else if key = k then (k, v ++ [p]) :: rest
    else (k, v) :: indexPushBack rest key p

/-- The vector `m.at(key)` when `m.count(key)`, and no element otherwise. -/
def indexAt : AlignmentIndex → Nat → List HapPtr
  | [], _ => []
  | (k, v) :: rest, key => if key = k then v else indexAt rest key

/-- Variables of `main` that the load loop updates. The field `allocations`
counts the published heap records and supplies their addresses. -/
structure LoaderState where
  alignments_starting_at : AlignmentIndex
  n_alignments_loaded : Int
  n_alignments_split : Int
  n_alignments_sub : Int
  expectedAlleles : List (Int × List Char)
  allocations : Nat
  deriving DecidableEq, Repr

/-- Lines 104-108: the state before the first alignment line. -/
def loaderInit : LoaderState :=
  { alignments_starting_at := []
    n_alignments_loaded := 0
    n_alignments_split := 0
    n_alignments_sub := 0
    expectedAlleles := []
    allocations := 0 }

/-- Lines 367-371: publish the parts of a split alignment. -/
def publishParts : List startingHaplotype → AlignmentIndex → Nat → AlignmentIndex
  | [], idx, _ => idx
  | hP :: rest, idx, allocations =>
    publishParts rest
      (indexPushBack idx (toUnsignedInt hP.aligment_start_pos)
        { addr := allocations + 1, obj := hP })
      (allocations + 1)

/-- Lines 136-379: the body of the load loop for one non-empty line. -/
def loadLine (max_gap_length : Int) (st : LoaderState) (l : AlignmentLine) : Run LoaderState := do
  let h0 := newStartingHaplotype l
  let alleles ← expectedAllelesScan h0
  let h ← startZeroHack h0
  let haplotype_parts ← splitAlignment max_gap_length h
  if haplotype_parts.length > 1 then
    pure
      { st with
        n_alignments_split := st.n_alignments_split + 1
        alignments_starting_at :=
          publishParts haplotype_parts st.alignments_starting_at st.allocations
        n_alignments_sub := st.n_alignments_sub + haplotype_parts.length
        expectedAlleles := st.expectedAlleles ++ alleles
        allocations := st.allocations + haplotype_parts.length }
  else
    match haplotype_parts with
    | [] => throw (Failure.outOfRange 377)
    | _ :: _ =>
      pure
        { st with
          alignments_starting_at :=
            indexPushBack st.alignments_starting_at (toUnsignedInt h.aligment_start_pos)
              { addr := st.allocations + 1, obj := h }
          n_alignments_loaded := st.n_alignments_loaded + 1
          expectedAlleles := st.expectedAlleles ++ alleles
          allocations := st.allocations + 1 }

/-- The load loop, lines 130-423, over the non-empty lines after the first. -/
def loadLines (max_gap_length : Int) : List AlignmentLine → LoaderState → Run LoaderState
  | [], st => Except.ok st
  | l :: rest, st =>
    match loadLine max_gap_length st l with
    | Except.ok st1 => loadLines max_gap_length rest st1
    | Except.error e => Except.error e

/-- The alignment index that `main` passes to `produceVCF`. -/
def loader (max_gap_length : Int) (lines : List AlignmentLine) : Run LoaderState :=
  loadLines max_gap_length lines loaderInit

/-! ## Gap structure (lines 479-534) -/

/-- Member `std::vector::at` with a signed index. -/
def vectorAt {α : Type} (v : List α) (i : Int) : Option α :=
  if 0 ≤ i then v[i.toNat]? else none

/-- The cast `(int)` of an `unsigned int`. -/
def castToInt (n : Nat) : Int :=
  if n % UINT_RANGE < 2147483648 then ((n % UINT_RANGE : Nat) : Int)
  else ((n % UINT_RANGE : Nat) : Int) - 4294967296

/-- Variables of the walk over one alignment, lines 490-492, with the two
vectors. -/
structure GapWalk where
  ref_pos : Int
  running_gaps : Int
  gap_structure : List Int
  coverage_structure : List Int
  deriving DecidableEq, Repr

/-- Lines 503-521: store the gap count in front of a non-gap column, or
compare it with the count stored before. The result is `gap_structure`. -/
def storeGaps (start_pos : Int) (w : GapWalk) : Run (List Int) :=
  if w.ref_pos ≠ start_pos then
    match vectorAt w.gap_structure w.ref_pos with
    | none => Except.error (Failure.outOfRange 505)
    | some g =>
      if g = -1 then Except.ok (w.gap_structure.set w.ref_pos.toNat w.running_gaps)
      else if g ≠ w.running_gaps then Except.error Failure.gapStructureMismatch
      else Except.ok w.gap_structure
  else Except.ok w.gap_structure

/-- One pass through the body of the loop at lines 494-529. The assertion of
line 527 compares the `unsigned char c_ref` with the `char` that
`referenceSequence.at` returns, which is signed: both sides are converted to
`int`, so they are equal only if they are the same character and its value is
below 128. -/
def gapWalkColumn (referenceSequence : List Char) (start_pos : Int) (w : GapWalk)
    (c_ref : Char) : Run GapWalk :=
  if c_ref = '-' ∨ c_ref = '*' then
    Except.ok { w with running_gaps := w.running_gaps + 1 }
  else
    match storeGaps start_pos w with
    | Except.error e => Except.error e
    | Except.ok gap_structure =>
      match vectorAt w.coverage_structure (w.ref_pos + 1) with
      | none => Except.error (Failure.outOfRange 525)
      | some n =>
        match vectorAt referenceSequence (w.ref_pos + 1) with
        | none => Except.error (Failure.outOfRange 527)
        | some r =>
          if c_ref = r ∧ r.toNat < 128 then
            Except.ok
              { ref_pos := w.ref_pos + 1
                running_gaps := 0
                gap_structure := gap_structure
                coverage_structure := w.coverage_structure.set (w.ref_pos + 1).toNat (n + 1) }
          else Except.error (Failure.assertion 527)

/-- The loop at lines 494-529. -/
def gapWalkColumns (referenceSequence : List Char) (start_pos : Int) :
    List Char → GapWalk → Run GapWalk
  | [], w => Except.ok w
  | c :: cs, w =>
    match gapWalkColumn referenceSequence start_pos w c with
    | Except.ok w1 => gapWalkColumns referenceSequence start_pos cs w1
    | Except.error e => Except.error e

/-- Lines 488-532: the walk over one alignment of the vector stored under
`key`, which is read as an `unsigned int`. The pair is `gap_structure`,
`coverage_structure`. -/
def gapWalkAlignment (referenceSequence : List Char) (key : Nat) (alignment : HapPtr)
    (vs : List Int × List Int) : Run (List Int × List Int) := do
  assertThat 488 (((key % UINT_RANGE : Nat) : Int) = alignment.obj.aligment_start_pos)
  let start_pos : Int := castToInt key - 1
  let w ← gapWalkColumns referenceSequence start_pos alignment.obj.ref
    { ref_pos := start_pos, running_gaps := 0, gap_structure := vs.1, coverage_structure := vs.2 }
  assertThat 532 (w.ref_pos = alignment.obj.alignment_last_pos)
  pure (w.gap_structure, w.coverage_structure)

/-- The loop at line 486 over the alignments stored under one key. -/
def gapWalkVector (referenceSequence : List Char) (key : Nat) :
    List HapPtr → List Int × List Int → Run (List Int × List Int)
  | [], vs => Except.ok vs
  | a :: rest, vs =>
    match gapWalkAlignment referenceSequence key a vs with
    | Except.ok vs1 => gapWalkVector referenceSequence key rest vs1
    | Except.error e => Except.error e

/-- The loop at line 484 over the entries of the index. -/
def gapWalkIndex (referenceSequence : List Char) :
    AlignmentIndex → List Int × List Int → Run (List Int × List Int)
  | [], vs => Except.ok vs
  | (key, v) :: rest, vs =>
    match gapWalkVector referenceSequence key v vs with
    | Except.ok vs1 => gapWalkIndex referenceSequence rest vs1
    | Except.error e => Except.error e

/-- Lines 479-534: the gap-structure builder. The result is the pair
`gap_structure`, `coverage_structure`. -/
def buildGapStructure (referenceSequence : List Char) (alignments_starting_at : AlignmentIndex) :
    Run (List Int × List Int) :=
  gapWalkIndex referenceSequence alignments_starting_at
    (List.replicate referenceSequence.length (-1), List.replicate referenceSequence.length 0)

/-! ## Haplotype enumerator (lines 563-1286) -/

/-- The tuple type `openHaplotype` of line 577: running sequence, pointer to
the alignment copied from (`none` is the null pointer, the reference), and the
last position copied. -/
abbrev openHaplotype := List Char × Option HapPtr × Int

/-- One line written to `outputStream`, field by field. -/
structure VCFLine where
  chrom : List Char
  pos : Int
  id : List Char
  ref : List Char
  alt : List Char
  qual : List Char
  filter : List Char
  info : List Char
  deriving DecidableEq, Repr

/-- Variables of `produceVCF` that live across iterations of the main loop. -/
structure EnumeratorState where
  open_haplotypes : List openHaplotype
  start_open_haplotypes : Int
  modifiedLastPos : Bool
  outputStream : List VCFLine
  deriving DecidableEq, Repr

/-- Operator `<<` on a signed integer. -/
def integerText : Int → List Char
  | Int.ofNat n => Nat.toDigits 10 n
  | Int.negSucc n => '-' :: Nat.toDigits 10 (n + 1)

/-- Operator `<<` on a pointer: the address in hexadecimal, `0` when null. -/
def pointerText : Option HapPtr → List Char
  | none => ['0']
  | some p => '0' :: 'x' :: Nat.toDigits 16 p.addr

/-- The key of lines 655-659 (and 673-677, 887-891, 957-961). -/
def haplotype_key (haplotype : openHaplotype) : List Char :=
  haplotype.1 ++ [';'] ++ pointerText haplotype.2.1 ++ [';'] ++ integerText haplotype.2.2

/-- The key of lines 1194-1197. -/
def uniqueRemainerKey (haplotype : openHaplotype) : List Char :=
  haplotype.1 ++ ['/', '/'] ++ pointerText haplotype.2.1 ++ ['/', '/']
    ++ integerText haplotype.2.2

/-- Operator `<` of `std::string`. -/
def stringLess : List Char → List Char → Bool
  | [], [] => false
  | [], _ :: _ => true
  | _ :: _, [] => false
  | a :: as, b :: bs =>
    if a.toNat < b.toNat then true
    else if b.toNat < a.toNat then false
    else stringLess as bs

/-- Member `insert` of `std::set<std::string>`; the set is the ascending list
of its elements. -/
def setInsert (x : List Char) : List (List Char) → List (List Char)
  | [] => [x]
  | y :: ys =>
    if stringLess x y then x :: y :: ys
    else if x = y then y :: ys
    else y :: setInsert x ys

/-- The first loop of the deduplication, lines 653-665: the value of
`duplicated`. -/
def countDuplicated : List openHaplotype → List (List Char) → Int → Int
  | [], _, duplicated => duplicated
  | haplotype :: rest, open_haplotypes_keys, duplicated =>
    countDuplicated rest (setInsert (haplotype_key haplotype) open_haplotypes_keys)
      (if haplotype_key haplotype ∈ open_haplotypes_keys then duplicated + 1 else duplicated)

/-- The second loop of the deduplication, lines 671-683: the value of
`new_open_haplotypes`. -/
def keepFirstKeys : List openHaplotype → List (List Char) → List openHaplotype
  | [], _ => []
  | haplotype :: rest, open_haplotypes_keys =>
    if haplotype_key haplotype ∈ open_haplotypes_keys then
      keepFirstKeys rest (setInsert (haplotype_key haplotype) open_haplotypes_keys)
    else
      haplotype :: keepFirstKeys rest (setInsert (haplotype_key haplotype) open_haplotypes_keys)

/-- Lines 649-689: the deduplication at the start of an iteration. -/
def deduplicate (st : EnumeratorState) : EnumeratorState :=
  if st.modifiedLastPos = true then
    { st with
      open_haplotypes :=
        if countDuplicated st.open_haplotypes [] 0 ≠ 0 then keepFirstKeys st.open_haplotypes []
        else st.open_haplotypes
      modifiedLastPos := false }
  else st

/-- Lines 702-708, 738-744 and 824-829: `gap_structure.at(i)`, with the unset
value `-1` read as `0`, as a string of that many dashes. The two numbers are
the lines of the `at` and of the `resize`, which fails on a negative size. -/
def gapString (atLine resizeLine : Nat) (gap_structure : List Int) (i : Int) :
    Run (List Char) :=
  match vectorAt gap_structure i with
  | none => Except.error (Failure.outOfRange atLine)
  | some g =>
    let n_gaps : Int := if g = -1 then 0 else g
    if n_gaps < 0 then Except.error (Failure.lengthError resizeLine)
    else Except.ok (List.replicate n_gaps.toNat '-')

/-- The loop at lines 722-726, from `nextPos` on; the list holds the characters
of `ref` from `nextPos` on. The result is `nextPos`, `additionalExtension`. -/
def consumeRefGaps (query : List Char) : List Char → Nat → List Char → Run (Nat × List Char)
  | [], nextPos, additionalExtension => Except.ok (nextPos, additionalExtension)
  | r :: rs, nextPos, additionalExtension =>
    if r = '-' ∨ r = '*' then
      if nextPos > query.length then Except.error (Failure.outOfRange 724)
      else consumeRefGaps query rs (nextPos + 1)
        (additionalExtension ++ (query.drop nextPos).take 1)
    else Except.ok (nextPos, additionalExtension)

/-- Lines 698-747: the body of the catch-up loop for one open haplotype. -/
def catchUpHaplotype (gap_structure : List Int) (posI : Nat) (haplotype : openHaplotype) :
    Run openHaplotype :=
  match haplotype with
  | (seq, some a, cursor) =>
    if cursor = (a.obj.ref.length : Int) - 1 then
      match gapString 702 707 gap_structure ((posI : Int) - 1) with
      | Except.ok gaps => Except.ok (seq ++ gaps, some a, cursor)
      | Except.error e => Except.error e
    else
      match vectorAt a.obj.ref cursor with
      | none => Except.error (Failure.outOfRange 713)
      | some _ =>
        match consumeRefGaps a.obj.query (a.obj.ref.drop (cursor + 1).toNat)
            (cursor + 1).toNat [] with
        | Except.ok (nextPos, additionalExtension) =>
          Except.ok (seq ++ additionalExtension, some a, (nextPos : Int) - 1)
        | Except.error e => Except.error e
  | (seq, none, cursor) =>
    if posI > 0 then
      match gapString 738 743 gap_structure ((posI : Int) - 1) with
      | Except.ok gaps => Except.ok (seq ++ gaps, none, cursor)
      | Except.error e => Except.error e
    else Except.ok (seq, none, cursor)

/-- The loop at lines 696-748. -/
def catchUp (gap_structure : List Int) (posI : Nat) :
    List openHaplotype → Run (List openHaplotype)
  | [] => Except.ok []
  | haplotype :: rest =>
    match catchUpHaplotype gap_structure posI haplotype with
    | Except.ok h1 =>
      match catchUp gap_structure posI rest with
      | Except.ok r1 => Except.ok (h1 :: r1)
      | Except.error e => Except.error e
    | Except.error e => Except.error e

/-- The loop at lines 1323-1341 of `printHaplotypesAroundPosition`, from column
`i` on; the list holds the characters of `ref` from `i` on. Only the call
`query.at(i)` of line 1326 can fail. -/
def plotColumns (query : List Char) : List Char → Nat → Run Unit
  | [], _ => Except.ok ()
  | _ :: rest, i =>
    match query[i]? with
    | none => Except.error (Failure.outOfRange 1326)
    | some _ => plotColumns query rest (i + 1)

/-- Lines 1305-1358: the body of the loops of `printHaplotypesAroundPosition`
for one alignment stored under `key`. The assertion of line 1305 compares the
`long long` start position with the `unsigned int` key, as `long long` values;
line 1306 converts the `long long` last position to `int`; the columns are
read only if one of the positions lies between `(int) key` and `stopPos`. The
output is not modelled. -/
def plotAlignment (positions : List Int) (key : Nat) (alignment : HapPtr) : Run Unit :=
  if alignment.obj.aligment_start_pos ≠ (key : Int) then
    Except.error (Failure.assertion 1305)
  else
    let stopPos : Int := castToInt (toUnsignedInt alignment.obj.alignment_last_pos)
    let interesting : Bool :=
      positions.any (fun interestingPos =>
        decide (interestingPos ≥ castToInt key ∧ interestingPos ≤ stopPos))
    if interesting then plotColumns alignment.obj.query alignment.obj.ref 0
    else Except.ok ()

/-- The loop at lines 1303-1359 over the alignments stored under `key`. -/
def plotAlignments (positions : List Int) (key : Nat) : List HapPtr → Run Unit
  | [] => Except.ok ()
  | alignment :: rest =>
    match plotAlignment positions key alignment with
    | Except.ok _ => plotAlignments positions key rest
    | Except.error e => Except.error e

/-- The loop at lines 1301-1360 over the entries of the index. -/
def plotIndex (positions : List Int) : AlignmentIndex → Run Unit
  | [] => Except.ok ()
  | startPos :: rest =>
    match plotAlignments positions startPos.1 startPos.2 with
    | Except.ok _ => plotIndex positions rest
    | Except.error e => Except.error e

/-- Function `printHaplotypesAroundPosition`, lines 1290-1363, as far as it can
fail; it does not read `referenceSequence`. The positions are those of
`posI - 2, …, posI + 2` that are not negative. -/
def printHaplotypesAroundPosition (_referenceSequence : List Char)
    (alignments_starting_at : AlignmentIndex) (posI : Int) : Run Unit :=
  let positions : List Int :=
    [posI - 2, posI - 1, posI, posI + 1, posI + 2].filter (fun i => decide (i ≥ 0))
  plotIndex positions alignments_starting_at

/-- The loop at lines 753-771: the column-length check. On a mismatch it calls
`printHaplotypesAroundPosition` (line 768), which can fail, in front of the
`assert(2 == 4)` of line 769, the failure `assertion 769`. -/
def columnLengthCheck (referenceSequence : List Char) (alignments_starting_at : AlignmentIndex)
    (posI : Nat) : List openHaplotype → Int → Run Unit
  | [], _ => Except.ok ()
  | haplotype :: rest, assembled_h_length =>
    let assembled : Int :=
      if assembled_h_length = -1 then (haplotype.1.length : Int) else assembled_h_length
    if assembled ≠ (haplotype.1.length : Int) then
      match printHaplotypesAroundPosition referenceSequence alignments_starting_at
          (posI : Int) with
      | Except.ok _ => Except.error (Failure.assertion 769)
      | Except.error e => Except.error e
    else columnLengthCheck referenceSequence alignments_starting_at posI rest assembled

/-- The loop at lines 820-831, with `n` iterations left, at index `refI`. -/
def referenceExtractionLoop (referenceSequence : List Char) (gap_structure : List Int) :
    Nat → Int → List Char → Run (List Char)
  | 0, _, referenceExtraction => Except.ok referenceExtraction
  | n + 1, refI, referenceExtraction =>
    match vectorAt referenceSequence refI with
    | none => Except.error (Failure.outOfRange 822)
    | some c =>
      match gapString 824 828 gap_structure refI with
      | Except.ok gaps =>
        referenceExtractionLoop referenceSequence gap_structure n (refI + 1)
          (referenceExtraction ++ [c] ++ gaps)
      | Except.error e => Except.error e

/-- Lines 792-851: the body of the loop over `new_haplotypes` for one new
alignment; `open_haplotypes_size` is the size taken at line 789. -/
def enterHaplotype (max_running_haplotypes_before_add : Nat) (referenceSequence : List Char)
    (gap_structure : List Int) (posI : Nat) (open_haplotypes_size : Nat)
    (st : EnumeratorState) (new_haplotype : HapPtr) : Run EnumeratorState :=
  if st.open_haplotypes.length ≤ max_running_haplotypes_before_add then
    if open_haplotypes_size > 0 then do
      let copies : List openHaplotype :=
        (st.open_haplotypes.take open_haplotypes_size).map
          (fun existing => (existing.1, some new_haplotype, (-1 : Int)))
      let start_reference_extraction : Int := st.start_open_haplotypes
      let stop_reference_extraction : Int := (posI : Int) - 1
      assertThat 817 (stop_reference_extraction ≥ start_reference_extraction)
      let referenceExtraction ← referenceExtractionLoop referenceSequence gap_structure
        (stop_reference_extraction - start_reference_extraction + 1).toNat
        start_reference_extraction []
      pure
        { st with
          open_haplotypes :=
            st.open_haplotypes ++ copies ++ [(referenceExtraction, some new_haplotype, -1)]
          modifiedLastPos := true }
    else pure st
  else pure st

/-- The loop at lines 790-852. -/
def enterHaplotypes (max_running_haplotypes_before_add : Nat) (referenceSequence : List Char)
    (gap_structure : List Int) (posI : Nat) (open_haplotypes_size : Nat) :
    List HapPtr → EnumeratorState → Run EnumeratorState
  | [], st => Except.ok st
  | new_haplotype :: rest, st =>
    match enterHaplotype max_running_haplotypes_before_add referenceSequence gap_structure posI
        open_haplotypes_size st new_haplotype with
    | Except.ok st1 =>
      enterHaplotypes max_running_haplotypes_before_add referenceSequence gap_structure posI
        open_haplotypes_size rest st1
    | Except.error e => Except.error e

/-- The test of lines 700, 881 and 939: the haplotype copies from an alignment
and has copied its last column. -/
def isExhausted (haplotype : openHaplotype) : Bool :=
  match haplotype.2.1 with
  | none => false
  | some a => decide (haplotype.2.2 = (a.obj.ref.length : Int) - 1)

/-- Variables of the exit-recombination block, lines 871-874. The two sets are
only asked for membership and are lists of the inserted elements. -/
structure ExitState where
  open_haplotypes : List openHaplotype
  inner_open_haplotypes_keys : List (List Char)
  exitedHaplotype : List Nat
  modifiedLastPos : Bool
  deriving DecidableEq, Repr

/-- Lines 913-982: the body of the inner loop of the exit recombination. The
assertions of lines 933-948 compare the length of one string with itself and
the source of a haplotype that was just set to null; they cannot fail. -/
def exitInner (max_running_haplotypes_before_add : Nat) (outer_haplotype_I : Nat)
    (es : ExitState) (existingHaploI : Nat) : Run ExitState :=
  match es.open_haplotypes[outer_haplotype_I]? with
  | none => Except.error (Failure.outOfRange 913)
  | some haplotype =>
    if existingHaploI = outer_haplotype_I then Except.ok es
    else if existingHaploI ∈ es.exitedHaplotype then Except.ok es
    else
      match es.open_haplotypes[existingHaploI]? with
      | none => Except.error (Failure.outOfRange 934)
      | some existing =>
        let new_haplotype_copy_this : openHaplotype := (haplotype.1, existing.2.1, existing.2.2)
        if isExhausted new_haplotype_copy_this = false then
          if haplotype_key new_haplotype_copy_this ∉ es.inner_open_haplotypes_keys then
            if es.open_haplotypes.length ≤ max_running_haplotypes_before_add then
              Except.ok
                { es with
                  open_haplotypes := es.open_haplotypes ++ [new_haplotype_copy_this]
                  inner_open_haplotypes_keys :=
                    setInsert (haplotype_key new_haplotype_copy_this)
                      es.inner_open_haplotypes_keys }
            else Except.ok es
          else Except.ok es
        else Except.ok es

/-- The loop at lines 911-983 over the indices still to visit. -/
def exitInnerLoop (max_running_haplotypes_before_add : Nat) (outer_haplotype_I : Nat) :
    List Nat → ExitState → Run ExitState
  | [], es => Except.ok es
  | existingHaploI :: rest, es =>
    match exitInner max_running_haplotypes_before_add outer_haplotype_I es existingHaploI with
    | Except.ok es1 => exitInnerLoop max_running_haplotypes_before_add outer_haplotype_I rest es1
    | Except.error e => Except.error e

/-- The loop at lines 885-893: the keys of all open haplotypes. -/
def allKeys : List openHaplotype → List (List Char) → List (List Char)
  | [], keys => keys
  | haplotype :: rest, keys => allKeys rest (setInsert (haplotype_key haplotype) keys)

/-- Lines 877-992: the body of the outer loop of the exit recombination;
`open_haplotypes_size` is the size taken at line 873. -/
def exitOuter (max_running_haplotypes_before_add : Nat) (open_haplotypes_size : Nat)
    (es : ExitState) (outer_haplotype_I : Nat) : Run ExitState :=
  match es.open_haplotypes[outer_haplotype_I]? with
  | none => Except.error (Failure.outOfRange 877)
  | some haplotype =>
    if isExhausted haplotype = true then
      let es1 : ExitState :=
        { open_haplotypes := es.open_haplotypes.set outer_haplotype_I (haplotype.1, none, -1)
          inner_open_haplotypes_keys :=
            if es.inner_open_haplotypes_keys.length = 0 then allKeys es.open_haplotypes []
            else es.inner_open_haplotypes_keys
          exitedHaplotype := outer_haplotype_I :: es.exitedHaplotype
          modifiedLastPos := true }
      if es1.open_haplotypes.length ≤ max_running_haplotypes_before_add then
        exitInnerLoop max_running_haplotypes_before_add outer_haplotype_I
          (List.range open_haplotypes_size) es1
      else Except.ok es1
    else Except.ok es

/-- The loop at lines 875-993 over the indices still to visit. -/
def exitOuterLoop (max_running_haplotypes_before_add : Nat) (open_haplotypes_size : Nat) :
    List Nat → ExitState → Run ExitState
  | [], es => Except.ok es
  | outer_haplotype_I :: rest, es =>
    match exitOuter max_running_haplotypes_before_add open_haplotypes_size es
        outer_haplotype_I with
    | Except.ok es1 =>
      exitOuterLoop max_running_haplotypes_before_add open_haplotypes_size rest es1
    | Except.error e => Except.error e

/-- Lines 871-993: the exit recombination. -/
def exitRecombination (max_running_haplotypes_before_add : Nat) (st : EnumeratorState) :
    Run EnumeratorState :=
  match exitOuterLoop max_running_haplotypes_before_add st.open_haplotypes.length
      (List.range st.open_haplotypes.length)
      { open_haplotypes := st.open_haplotypes
        inner_open_haplotypes_keys := []
        exitedHaplotype := []
        modifiedLastPos := st.modifiedLastPos } with
  | Except.ok es =>
    Except.ok { st with open_haplotypes := es.open_haplotypes, modifiedLastPos := es.modifiedLastPos }
  | Except.error e => Except.error e

/-- The do-while loops at lines 1059-1078 and 1122-1133, from position
`nextPosToConsume` on; the first list holds the characters of `ref` from that
position on. The result is `extension`. -/
def extendColumns (assertLine queryLine : Nat) (query : List Char) :
    List Char → Nat → List Char → Run (List Char)
  | [], _, _ => Except.error (Failure.assertion assertLine)
  | refC :: rest, nextPosToConsume, extension =>
    match query[nextPosToConsume]? with
    | none => Except.error (Failure.outOfRange queryLine)
    | some hapC =>
      if refC ≠ '-' ∧ refC ≠ '*' then Except.ok (extension ++ [hapC])
      else extendColumns assertLine queryLine query rest (nextPosToConsume + 1)
        (extension ++ [hapC])

/-- The extension that an alignment gives from the column after `cursor`. -/
def alignmentExtension (assertLine refLine queryLine : Nat) (a : HapPtr) (cursor : Int) :
    Run (List Char) :=
  if cursor + 1 < 0 then Except.error (Failure.outOfRange refLine)
  else
    extendColumns assertLine queryLine a.obj.query (a.obj.ref.drop (cursor + 1).toNat)
      (cursor + 1).toNat []

/-- The loop at lines 1043-1098: the value of `extensions_nonRef_length`. -/
def extensionLength : List openHaplotype → Int → Run Int
  | [], extensions_nonRef_length => Except.ok extensions_nonRef_length
  | haplotype :: rest, extensions_nonRef_length =>
    match haplotype.2.1 with
    | none => extensionLength rest extensions_nonRef_length
    | some a =>
      match alignmentExtension 1068 1069 1075 a haplotype.2.2 with
      | Except.error e => Except.error e
      | Except.ok extension =>
        if extension.length ≠ 0 then
          let len : Int :=
            if extensions_nonRef_length = -1 then (extension.length : Int)
            else extensions_nonRef_length
          if (extension.length : Int) = len then extensionLength rest len
          else Except.error (Failure.assertion 1089)
        else extensionLength rest extensions_nonRef_length

/-- Lines 1104-1137: the extension of one open haplotype; the result is the
haplotype after the extension and the string `extension`. -/
def extendHaplotype (refC : Char) (extensions_nonRef_length : Int) (haplotype : openHaplotype) :
    Run (openHaplotype × List Char) :=
  match haplotype with
  | (seq, none, cursor) =>
    if extensions_nonRef_length ≠ -1 then
      let missing : Int := extensions_nonRef_length - 1
      if missing ≥ 0 then
        Except.ok ((seq ++ ([refC] ++ List.replicate missing.toNat '*'), none, cursor),
          [refC] ++ List.replicate missing.toNat '*')
      else Except.error (Failure.assertion 1111)
    else Except.ok ((seq ++ [refC], none, cursor), [refC])
  | (seq, some a, cursor) =>
    match alignmentExtension 1124 1125 1130 a cursor with
    | Except.error e => Except.error e
    | Except.ok extension =>
      Except.ok ((seq ++ extension, some a, cursor + (extension.length : Int)), extension)

/-- The loop at lines 1102-1138: the open haplotypes after the extension and
the set `extensions`. -/
def extendHaplotypes (refC : Char) (extensions_nonRef_length : Int) :
    List openHaplotype → List (List Char) → Run (List openHaplotype × List (List Char))
  | [], extensions => Except.ok ([], extensions)
  | haplotype :: rest, extensions =>
    match extendHaplotype refC extensions_nonRef_length haplotype with
    | Except.error e => Except.error e
    | Except.ok (h1, extension) =>
      match extendHaplotypes refC extensions_nonRef_length rest (setInsert extension extensions) with
      | Except.error e => Except.error e
      | Except.ok (r1, extensions1) => Except.ok (h1 :: r1, extensions1)

/-- Function `removeGaps`, lines 1455-1467. -/
def removeGaps : List Char → List Char
  | [] => []
  | c :: rest =>
    if c ≠ '_' ∧ c ≠ '-' ∧ c ≠ '*' then c :: removeGaps rest else removeGaps rest

/-- The loop at lines 1443-1447 of `join`. -/
def joinLoop (delim : List Char) : List (List Char) → List Char → List Char
  | [], ret => ret
  | part :: rest, ret => joinLoop delim rest (ret ++ delim ++ part)

/-- Function `join`, lines 1436-1450. -/
def join (parts : List (List Char)) (delim : List Char) : List Char :=
  match parts with
  | [] => []
  | first :: rest => joinLoop delim rest first

/-- The loop at lines 1179-1208: the sets `alternativeSequences` and
`uniqueRemainers` and the vector `new_open_haplotypes`. -/
def flushHaplotypes (reference_sequence : List Char) (ref_span : Int) :
    List openHaplotype → List (List Char) → List (List Char) → List openHaplotype →
    Run (List (List Char) × List openHaplotype)
  | [], alternativeSequences, _, new_open_haplotypes =>
    Except.ok (alternativeSequences, new_open_haplotypes)
  | (seq, source, cursor) :: rest, alternativeSequences, uniqueRemainers, new_open_haplotypes =>
    if (seq.length : Int) ≥ ref_span + 1 then
      let haplotype_coveredSequence := removeGaps (seq.take (seq.length - 1))
      let alternativeSequences1 :=
        if haplotype_coveredSequence ≠ reference_sequence then
          setInsert haplotype_coveredSequence alternativeSequences
        else alternativeSequences
      let haplotype : openHaplotype := (seq.drop (seq.length - 1), source, cursor)
      if haplotype.1.length = 1 then
        if uniqueRemainerKey haplotype ∉ uniqueRemainers then
          flushHaplotypes reference_sequence ref_span rest alternativeSequences1
            (setInsert (uniqueRemainerKey haplotype) uniqueRemainers)
            (new_open_haplotypes ++ [haplotype])
        else
          flushHaplotypes reference_sequence ref_span rest alternativeSequences1
            uniqueRemainers new_open_haplotypes
      else Except.error (Failure.assertion 1191)
    else Except.error (Failure.assertion 1181)

/-- The loop at lines 1227-1230. -/
def checkFirstCharacters (reference_sequence : List Char) : List (List Char) → Run Unit
  | [] => Except.ok ()
  | a :: rest =>
    if a.take 1 = reference_sequence.take 1 then checkFirstCharacters reference_sequence rest
    else Except.error (Failure.assertion 1229)

/-- Lines 1214-1262: the line written for a flush, if any. -/
def vcfOutput (referenceSequenceID : List Char) (start_open_haplotypes : Int)
    (reference_sequence : List Char) (alternativeSequences : List (List Char)) :
    Run (List VCFLine) :=
  if alternativeSequences.length ≠ 0 then
    let all_alternativeAlleles_length_2 : Bool :=
      alternativeSequences.all (fun a => decide (a.length = 2))
    if reference_sequence.length = 2 ∧ all_alternativeAlleles_length_2 = true then
      match checkFirstCharacters reference_sequence alternativeSequences with
      | Except.error e => Except.error e
      | Except.ok _ =>
        let alternativeAlleles_reduced : List (List Char) :=
          alternativeSequences.map (fun a => (a.drop 1).take 1)
        Except.ok
          [{ chrom := referenceSequenceID
             pos := start_open_haplotypes + 2
             id := ['.']
             ref := (reference_sequence.drop 1).take 1
             alt := join alternativeAlleles_reduced [',']
             qual := ['.']
             filter := "PASS".toList
             info := ['.'] }]
    else
      Except.ok
        [{ chrom := referenceSequenceID
           pos := start_open_haplotypes + 1
           id := ['.']
           ref := reference_sequence
           alt := join alternativeSequences [',']
           qual := ['.']
           filter := "PASS".toList
           info := ['.'] }]
  else Except.ok []

/-- Lines 1168-1270: the flush. -/
def flush (referenceSequenceID : List Char) (referenceSequence : List Char) (posI : Nat)
    (st : EnumeratorState) : Run EnumeratorState := do
  let ref_span : Int := (posI : Int) - st.start_open_haplotypes
  assertThat 1172 (ref_span > 0)
  rangeCheck 1173
    (0 ≤ st.start_open_haplotypes ∧ st.start_open_haplotypes ≤ (referenceSequence.length : Int))
  let reference_sequence : List Char :=
    (referenceSequence.drop st.start_open_haplotypes.toNat).take ref_span.toNat
  let (alternativeSequences, new_open_haplotypes) ←
    flushHaplotypes reference_sequence ref_span st.open_haplotypes [] [] []
  let lines ← vcfOutput referenceSequenceID st.start_open_haplotypes reference_sequence
    alternativeSequences
  pure
    { st with
      open_haplotypes := new_open_haplotypes
      outputStream := st.outputStream ++ lines
      start_open_haplotypes := (posI : Int) }

/-- Lines 617-1283: one iteration of the main loop of `produceVCF`. -/
def enumeratorStep (max_running_haplotypes_before_add : Nat) (referenceSequenceID : List Char)
    (referenceSequence : List Char) (alignments_starting_at : AlignmentIndex)
    (gap_structure : List Int) (st : EnumeratorState) (posI : Nat) : Run EnumeratorState := do
  let st1 := deduplicate st
  let caughtUp ← catchUp gap_structure posI st1.open_haplotypes
  columnLengthCheck referenceSequence alignments_starting_at posI caughtUp (-1)
  match referenceSequence[posI]? with
  | none => throw (Failure.outOfRange 777)
  | some refC =>
    let new_haplotypes := indexAt alignments_starting_at posI
    let st2 ← enterHaplotypes max_running_haplotypes_before_add referenceSequence gap_structure
      posI caughtUp.length new_haplotypes { st1 with open_haplotypes := caughtUp }
    let st3 ← exitRecombination max_running_haplotypes_before_add st2
    let extensions_nonRef_length ← extensionLength st3.open_haplotypes (-1)
    let (extended, extensions) ←
      extendHaplotypes refC extensions_nonRef_length st3.open_haplotypes []
    assertThat 1139 (extensions.length ≠ 0)
    let this_all_equal : Bool := decide (extensions.length = 1 ∧ [refC] ∈ extensions)
    assertThat 1153 (posI = 0 → this_all_equal = true)
    let st4 : EnumeratorState := { st3 with open_haplotypes := extended }
    if this_all_equal = true ∧ posI > 0 then
      flush referenceSequenceID referenceSequence posI st4
    else pure st4

/-- The main loop, lines 615-1283, over the positions still to visit. -/
def enumeratorLoop (max_running_haplotypes_before_add : Nat) (referenceSequenceID : List Char)
    (referenceSequence : List Char) (alignments_starting_at : AlignmentIndex)
    (gap_structure : List Int) : List Nat → EnumeratorState → Run EnumeratorState
  | [], st => Except.ok st
  | posI :: rest, st =>
    match enumeratorStep max_running_haplotypes_before_add referenceSequenceID referenceSequence
        alignments_starting_at gap_structure st posI with
    | Except.ok st1 =>
      enumeratorLoop max_running_haplotypes_before_add referenceSequenceID referenceSequence
        alignments_starting_at gap_structure rest st1
    | Except.error e => Except.error e

/-- Lines 578-584 and 614: the state before the first iteration. -/
def enumeratorInit : EnumeratorState :=
  { open_haplotypes := [([], none, -1)]
    start_open_haplotypes := 0
    modifiedLastPos := false
    outputStream := [] }

/-- Function `produceVCF`, lines 458-1286: the lines written to the VCF. -/
def produceVCF (max_running_haplotypes_before_add : Nat) (referenceSequenceID : List Char)
    (referenceSequence : List Char) (alignments_starting_at : AlignmentIndex) :
    Run (List VCFLine) :=
  match buildGapStructure referenceSequence alignments_starting_at with
  | Except.error e => Except.error e
  | Except.ok (gap_structure, _) =>
    match enumeratorLoop max_running_haplotypes_before_add referenceSequenceID referenceSequence
        alignments_starting_at gap_structure (List.range referenceSequence.length)
        enumeratorInit with
    | Except.error e => Except.error e
    | Except.ok st => Except.ok st.outputStream

/-! ## Notions used to state the properties -/

/-- Number of characters of `s` that are not gap characters. -/
def nonGapCount (s : List Char) : Nat := s.countP (fun c => !isGapCharacter c)

/-- The reference position to which column `j` of the alignment `a` belongs:
`start - 1` plus the number of non-gap characters in `ref[0..j]`. For a column
with a non-gap `ref` character this is the value of `ref_pos` with which the
gap-structure builder reads `referenceSequence.at(ref_pos)`. -/
def refIndexOfColumn (a : startingHaplotype) (j : Nat) : Int :=
  a.aligment_start_pos - 1 + (nonGapCount (a.ref.take (j + 1)) : Int)

/-- Number of consecutive gap characters of `s` right after position `j`. -/
def gapRunAfter (s : List Char) (j : Nat) : Nat :=
  ((s.drop (j + 1)).takeWhile isGapCharacter).length

/-- Number of consecutive gap characters of `s` right before position `j`. -/
def gapRunBefore (s : List Char) (j : Nat) : Nat :=
  ((s.take j).reverse.takeWhile isGapCharacter).length

/-- The insertions of the expected-alleles scan, as a function of the columns
still to read, the running position and the column read last. -/
def snpEvents : Int → Option (Char × Char) → List Char → List Char → List (Int × List Char)
  | _, _, [], _ => []
  | _, _, _ :: _, [] => []
  | pos, previous, r :: rs, q :: qs =>
    (match previous with
      | none => []
      | some (pr, pq) =>
        if isGapCharacter r = false ∧ isGapCharacter pr = false ∧ isGapCharacter pq = false
            ∧ pr ≠ pq then [(pos, [pq])]
        else []) ++
    snpEvents (if isGapCharacter r = false then pos + 1 else pos) (some (r, q)) rs qs

/-- Invariant of the scan loop relative to the column read last. -/
def ScanInv (st : AlleleScan) : Option (Char × Char) → Prop
  | none => st.runningRefAllele = [] ∧ st.runningQueryAllele = []
  | some (pr, pq) =>
    ∃ A0 B0, st.runningRefAllele = A0 ++ [pr] ∧ st.runningQueryAllele = B0 ++ [pq] ∧
      A0.length = B0.length ∧ (isGapCharacter pr = false → A0 = [])

/-- An alignment with one substitution, used as a concrete input. -/
def exampleSubstitution : startingHaplotype :=
  { ref := "ACGT".toList
    query := "AGGT".toList
    query_name := "h1".toList
    aligment_start_pos := 1
    alignment_last_pos := 4 }

/-- A column `(ref character, query character)` is a match or mismatch. -/
def isMatchColumn (c : Char × Char) : Bool := !isGapCharacter c.1 && !isGapCharacter c.2

/-- A column with a gap in the query and a base in the ref. -/
def isQueryOnlyGap (c : Char × Char) : Bool := isGapCharacter c.2 && !isGapCharacter c.1

/-- The columns of an alignment. -/
def columns (a : startingHaplotype) : List (Char × Char) := List.zip a.ref a.query

/-- Number of query-only gap columns in the run of non-match columns that is
open after the columns `cs`, when `cur` were counted before them. -/
def runCountAfter : List (Char × Char) → Nat → Nat
  | [], cur => cur
  | c :: cs, cur =>
    runCountAfter cs (if isMatchColumn c then 0 else if isQueryOnlyGap c then cur + 1 else cur)

/-- The largest number of query-only gap columns that one run of consecutive
non-match columns of `cs` contains, when `cur` were counted before `cs`. -/
def queryGapsPerRun : List (Char × Char) → Nat → Nat
  | [], _ => 0
  | c :: cs, cur =>
    max (if isMatchColumn c then 0 else if isQueryOnlyGap c then cur + 1 else cur)
      (queryGapsPerRun cs
        (if isMatchColumn c then 0 else if isQueryOnlyGap c then cur + 1 else cur))

/-- Length of the longest run of consecutive elements of `l` that satisfy `p`,
when `cur` such elements precede `l`. -/
def longestRun {α : Type} (p : α → Bool) : List α → Nat → Nat
  | [], cur => cur
  | x :: xs, cur => if p x then longestRun p xs (cur + 1) else max cur (longestRun p xs 0)

/-- The strings `p₁ d₁ p₂ d₂ …` concatenated: parts with the runs dropped
after them. -/
def interleave : List (List Char) → List (List Char) → List Char
  | [], _ => []
  | p :: ps, [] => p ++ interleave ps []
  | p :: ps, d :: ds => p ++ d ++ interleave ps ds

/-- What the splitter guarantees of an emitted sub-alignment. -/
structure GoodPart (max_gap_length : Int) (P : startingHaplotype) : Prop where
  len : P.ref.length = P.query.length
  first : ∃ c, (columns P).head? = some c ∧ isMatchColumn c = true
  last : ∃ c, (columns P).getLast? = some c ∧ isMatchColumn c = true
  runs : (queryGapsPerRun (columns P) 0 : Int) ≤ max_gap_length

/-- Invariant of the splitter loop after the columns `pr`, `pq` of an alignment
with `len` columns. -/
structure SplitterInv (max_gap_length : Int) (len : Nat) (pr pq : List Char)
    (st : SplitterState) : Prop where
  recon_ref : st.reconstituted_ref ++ st.running_ref = pr
  recon_query : st.reconstituted_query ++ st.running_query = pq
  fresh : pr = [] → st.firstMatchPos_reference = -1
  shape : ∃ core tail : List (Char × Char),
    st.running_ref = (core ++ tail).map Prod.fst ∧
    st.running_query = (core ++ tail).map Prod.snd ∧
    st.runningNonMatchPositions = (tail.length : Int) ∧
    (∀ c ∈ tail, isMatchColumn c = false) ∧
    st.runningQueryGapCharacters = (tail.countP isQueryOnlyGap : Int) ∧
    (pr ≠ [] → 0 ≤ max_gap_length ∧ (queryGapsPerRun core 0 : Int) ≤ max_gap_length ∧
      ∃ c0 c1, core.head? = some c0 ∧ isMatchColumn c0 = true ∧
        core.getLast? = some c1 ∧ isMatchColumn c1 = true)
  parts : ∀ P ∈ st.haplotype_parts, GoodPart max_gap_length P
  drops : ∃ dropped : List (List Char × List Char),
    dropped.length = st.haplotype_parts.length ∧
    (∀ d ∈ dropped, d.1.length = d.2.length ∧ ∀ c ∈ List.zip d.1 d.2, isMatchColumn c = false) ∧
    st.reconstituted_ref =
      interleave (st.haplotype_parts.map startingHaplotype.ref) (dropped.map Prod.fst) ∧
    st.reconstituted_query =
      interleave (st.haplotype_parts.map startingHaplotype.query) (dropped.map Prod.snd)
  finished : pr.length = len → pr ≠ [] → st.runningNonMatchPositions = 0

/-- The failures of the splitter loop are not those of the reconstitution
checks. -/
def beforeFinish (e : Failure) : Prop :=
  e ≠ Failure.assertion 350 ∧ e ≠ Failure.assertion 351

/-- An alignment with a deletion of ten bases, used as a concrete input. -/
def exampleLongDeletion : startingHaplotype :=
  { ref := "AAAAAAAAAAAA".toList
    query := "A----------A".toList
    query_name := "h1".toList
    aligment_start_pos := 1
    alignment_last_pos := 12 }

/-- The two sub-alignments into which `exampleLongDeletion` is split when
`max_gap_length` is 5. -/
def exampleLongDeletionParts : List startingHaplotype :=
  [{ ref := ['A'], query := ['A'], query_name := "h1_part0".toList,
     aligment_start_pos := 1, alignment_last_pos := 1 },
   { ref := ['A'], query := ['A'], query_name := "_part1".toList,
     aligment_start_pos := 12, alignment_last_pos := 12 }]

/-- What the loader guarantees of an alignment stored in the index under
`key`. -/
structure Published (max_gap_length : Int) (key : Nat) (p : HapPtr) : Prop where
  good : GoodPart max_gap_length p.obj
  key_eq : key = toUnsignedInt p.obj.aligment_start_pos

/-- Every alignment stored in the index satisfies `P`. -/
def IndexAll (P : Nat → HapPtr → Prop) (idx : AlignmentIndex) : Prop :=
  ∀ key v, (key, v) ∈ idx → ∀ p ∈ v, P key p

/-- An input line with an insertion of one base, used as a concrete input. -/
def exampleInsertionLine : AlignmentLine :=
  { ref := "A-A".toList, query := "ATA".toList, query_name := "h1".toList, start := 1, last := 1 }

/-- An input line without gaps, used as a concrete input. -/
def exampleShortLine : AlignmentLine :=
  { ref := "AC".toList, query := "AC".toList, query_name := "h1".toList, start := 1, last := 1 }

/-- The input line of `exampleLongDeletion`. -/
def exampleLongDeletionLine : AlignmentLine :=
  { ref := "AAAAAAAAAAAA".toList, query := "A----------A".toList, query_name := "h1".toList,
    start := 1, last := 11 }

/-- The loader state after `exampleLongDeletionLine` when `max_gap_length` is 5. -/
def exampleLongDeletionLoaded : LoaderState :=
  { alignments_starting_at :=
      [(1, [{ addr := 1,
              obj := { ref := ['A'], query := ['A'], query_name := "h1_part0".toList,
                       aligment_start_pos := 1, alignment_last_pos := 1 } }]),
       (12, [{ addr := 2,
               obj := { ref := ['A'], query := ['A'], query_name := "_part1".toList,
                        aligment_start_pos := 12, alignment_last_pos := 12 } }])]
    n_alignments_loaded := 0
    n_alignments_split := 1
    n_alignments_sub := 2
    expectedAlleles := []
    allocations := 2 }

/-- The pairs `(ref_pos, running_gaps)` that the walk of lines 494-529 stores
into `gap_structure` or compares with it, for the columns still to read. -/
def gapSlots (start_pos : Int) : List Char → Int → Int → List (Int × Int)
  | [], _, _ => []
  | c :: cs, ref_pos, running_gaps =>
    if isGapCharacter c = true then gapSlots start_pos cs ref_pos (running_gaps + 1)
    else
      (if ref_pos ≠ start_pos then [(ref_pos, running_gaps)] else []) ++
        gapSlots start_pos cs (ref_pos + 1) 0

/-- The pairs of `gapSlots` for one alignment stored under `key`. -/
def alignmentSlots (key : Nat) (a : HapPtr) : List (Int × Int) :=
  gapSlots (castToInt key - 1) a.obj.ref (castToInt key - 1) 0

/-- The pairs of `gapSlots` for the alignments of a vector. -/
def vectorSlots (key : Nat) : List HapPtr → List (Int × Int)
  | [] => []
  | a :: rest => alignmentSlots key a ++ vectorSlots key rest

/-- The pairs of `gapSlots` for all alignments of the index. -/
def indexSlots : AlignmentIndex → List (Int × Int)
  | [] => []
  | (key, v) :: rest => vectorSlots key v ++ indexSlots rest

/-- Every count stored in `G` is stored in `G1` at the same position. -/
def GapsExtend (G G1 : List Int) : Prop :=
  G1.length = G.length ∧ ∀ p g, vectorAt G p = some g → g ≠ -1 → vectorAt G1 p = some g

/-- What a successful walk of the gap-structure builder establishes of the
alignment `a` stored under `key`. -/
structure Walked (referenceSequence : List Char) (key : Nat) (a : HapPtr) : Prop where
  key_eq : ((key % UINT_RANGE : Nat) : Int) = a.obj.aligment_start_pos
  last_eq : castToInt key - 1 + (nonGapCount a.obj.ref : Int) = a.obj.alignment_last_pos
  chars : ∀ j r, a.obj.ref[j]? = some r → isGapCharacter r = false →
    vectorAt referenceSequence
      (castToInt key - 1 + (nonGapCount (a.obj.ref.take (j + 1)) : Int)) = some r

/-- Column `j` of the ref string `s` holds a non-gap character and is not the
first column that does: the columns for which the gap-structure builder stores
or compares a count. -/
def isNonFirstColumn (s : List Char) (j : Nat) : Bool :=
  (match s[j]? with
    | some r => !isGapCharacter r
    | none => false) && decide (1 ≤ nonGapCount (s.take j))

/-- A reference sequence, used as a concrete input. -/
def exampleReference : List Char := "TACG".toList

/-- An alignment to `exampleReference` with one insertion, with its address. -/
def exampleWithInsertion : HapPtr :=
  { addr := 1
    obj := { ref := "AC-G".toList, query := "ACTG".toList, query_name := "h1".toList,
             aligment_start_pos := 1, alignment_last_pos := 3 } }

/-- An alignment to `exampleReference` without gaps, with its address. -/
def exampleWithoutGap : HapPtr :=
  { addr := 2
    obj := { ref := "ACG".toList, query := "ACG".toList, query_name := "h2".toList,
             aligment_start_pos := 1, alignment_last_pos := 3 } }

/-- An alignment whose last ref character differs from the reference `GAT`. -/
def exampleOffReference : HapPtr :=
  { addr := 1
    obj := { ref := "A-C".toList, query := "ATC".toList, query_name := "h1".toList,
             aligment_start_pos := 1, alignment_last_pos := 2 } }

/-- A second alignment whose last ref character differs from `GAT`. -/
def exampleOffReferenceNoGap : HapPtr :=
  { addr := 2
    obj := { ref := "AC".toList, query := "AC".toList, query_name := "h2".toList,
             aligment_start_pos := 1, alignment_last_pos := 2 } }

/-- An index in which two alignments to `exampleReference` disagree on the
number of gap columns after the second reference base they cover. -/
def exampleConflictingIndex : AlignmentIndex :=
  [(1, [exampleWithInsertion, exampleWithoutGap])]

/-- An index of two alignments that disagree with each other and with the
reference `GAT`. -/
def exampleOffReferenceIndex : AlignmentIndex :=
  [(1, [exampleOffReference, exampleOffReferenceNoGap])]

/-- An index with the single alignment `exampleWithInsertion`. -/
def exampleInsertionIndex : AlignmentIndex := [(1, [exampleWithInsertion])]

/-- The line has a position of at least 1 and its reference field is the
substring of `R` that starts at index `pos - 1`. -/
def RefMatches (R : List Char) (line : VCFLine) : Prop :=
  1 ≤ line.pos ∧ line.ref = (R.drop (line.pos - 1).toNat).take line.ref.length

/-- An index for the reference `TACGTA`: a substitution and an insertion. -/
def exampleVariantIndex : AlignmentIndex :=
  [(1, [{ addr := 1
          obj := { ref := "ACG".toList, query := "ATG".toList, query_name := "h1".toList,
                   aligment_start_pos := 1, alignment_last_pos := 3 } }]),
   (3, [{ addr := 2
          obj := { ref := "G-T".toList, query := "GAT".toList, query_name := "h2".toList,
                   aligment_start_pos := 3, alignment_last_pos := 4 } }])]

/-- The lines that `produceVCF` writes for `exampleVariantIndex`. -/
def exampleVariantLines : List VCFLine :=
  [{ chrom := "chr".toList, pos := 3, id := ['.'], ref := ['C'], alt := ['T'], qual := ['.'],
     filter := "PASS".toList, info := ['.'] },
   { chrom := "chr".toList, pos := 4, id := ['.'], ref := ['G'], alt := ['G', 'A'], qual := ['.'],
     filter := "PASS".toList, info := ['.'] }]

/-- The number of gap columns that the enumerator reads from
`gap_structure.at(i)`: the unset value `-1` counts as 0. -/
def gapCount (gap_structure : List Int) (i : Int) : Nat :=
  match vectorAt gap_structure i with
  | some g => (if g = -1 then 0 else g).toNat
  | none => 0

/-- The number of columns of the multiple alignment that belong to the `n`
reference positions from `refI` on: one column for each position and the gap
columns after it. -/
def spanLength (gap_structure : List Int) : Nat → Int → Nat
  | 0, _ => 0
  | n + 1, refI => 1 + gapCount gap_structure refI + spanLength gap_structure n (refI + 1)

/-- What the enumerator needs of an alignment: the strings have one length,
the ref string starts and ends with a non-gap character, and the gap structure
holds, for every two successive non-gap ref columns, the number of gap columns
between them. -/
structure Sync (gap_structure : List Int) (a : HapPtr) : Prop where
  len : a.obj.ref.length = a.obj.query.length
  head : ∃ r rs, a.obj.ref = r :: rs ∧ isGapCharacter r = false
  last : ∃ rs r, a.obj.ref = rs ++ [r] ∧ isGapCharacter r = false
  slots : ∀ pre x gs y post, a.obj.ref = pre ++ x :: (gs ++ y :: post) →
    isGapCharacter x = false → (∀ z ∈ gs, isGapCharacter z = true) →
    isGapCharacter y = false →
    vectorAt gap_structure (a.obj.aligment_start_pos - 1 + (nonGapCount (pre ++ [x]) : Int))
      = some (gs.length : Int)

/-- Every alignment that the index gives at a position satisfies `Sync` and
starts at that position. -/
def IndexSync (gap_structure : List Int) (idx : AlignmentIndex) : Prop :=
  ∀ (posI : Nat) (a : HapPtr), a ∈ indexAt idx posI →
    Sync gap_structure a ∧ a.obj.aligment_start_pos = (posI : Int)

/-- An open haplotype before iteration `posI`: if it copies from an alignment,
the last column copied holds the non-gap ref character of reference position
`posI - 1`. -/
def HapAt (gap_structure : List Int) (posI : Nat) (h : openHaplotype) : Prop :=
  match h.2.1 with
  | none => True
  | some a =>
    Sync gap_structure a ∧ 0 ≤ h.2.2 ∧
      ∃ x, a.obj.ref[h.2.2.toNat]? = some x ∧ isGapCharacter x = false ∧
        a.obj.aligment_start_pos - 1 + (nonGapCount (a.obj.ref.take (h.2.2.toNat + 1)) : Int)
          = (posI : Int) - 1

/-- An open haplotype in iteration `posI` that copies from an alignment and is
about to copy the non-gap ref column of reference position `posI`. -/
def HapReady (gap_structure : List Int) (posI : Nat) (h : openHaplotype) : Prop :=
  match h.2.1 with
  | none => True
  | some a =>
    Sync gap_structure a ∧ -1 ≤ h.2.2 ∧
      ∃ y, a.obj.ref[(h.2.2 + 1).toNat]? = some y ∧ isGapCharacter y = false ∧
        a.obj.aligment_start_pos - 1 + (nonGapCount (a.obj.ref.take (h.2.2 + 1).toNat) : Int)
          = (posI : Int) - 1

/-- An open haplotype after the catch-up of iteration `posI`: exhausted, or
ready to copy the column of reference position `posI`. -/
def HapMid (gap_structure : List Int) (posI : Nat) (h : openHaplotype) : Prop :=
  isExhausted h = true ∨ HapReady gap_structure posI h

/-- The invariant of the main loop before iteration `posI`: all open
haplotypes have the length of the columns from `start_open_haplotypes` to the
column of reference position `posI - 1`. -/
def Before (gap_structure : List Int) (posI : Nat) (st : EnumeratorState) : Prop :=
  ∃ s len : Nat, st.start_open_haplotypes = (s : Int) ∧
    (∀ h ∈ st.open_haplotypes, h.1.length = len) ∧
    (posI = 0 → s = 0 ∧ len = 0 ∧ ∀ h ∈ st.open_haplotypes, h.2.1 = none) ∧
    (0 < posI → s < posI ∧ len = spanLength gap_structure (posI - 1 - s) (s : Int) + 1) ∧
    (∀ h ∈ st.open_haplotypes, HapAt gap_structure posI h)

/-- The property that all open haplotypes have between catch-up and
extension in iteration `posI`. -/
def MidAll (G : List Int) (posI : Nat) (L : Nat) (haps : List openHaplotype) : Prop :=
  ∀ h ∈ haps, h.1.length = L ∧ HapMid G posI h

/-- The invariant of the loops of the exit recombination: `size` is the number
of open haplotypes at its start and `done` holds of the indices that the outer
loop has visited. -/
structure ExitInv (G : List Int) (posI L size : Nat) (done : Nat → Prop) (es : ExitState) :
    Prop where
  mid : MidAll G posI L es.open_haplotypes
  size_le : size ≤ es.open_haplotypes.length
  visited : ∀ i h, es.open_haplotypes[i]? = some h → (done i ∨ size ≤ i) → isExhausted h = false

/-- The property that all open haplotypes have after the exit recombination of
iteration `posI`: none is exhausted. -/
def ReadyAll (G : List Int) (posI : Nat) (L : Nat) (haps : List openHaplotype) : Prop :=
  ∀ h ∈ haps, h.1.length = L ∧ isExhausted h = false ∧ HapReady G posI h

/-- Two input lines with the same insertion column, used as a concrete input. -/
def exampleTwoLines : List AlignmentLine :=
  [{ ref := "AC-GT".toList, query := "ACTGT".toList, query_name := "h1".toList,
     start := 1, last := 3 },
   { ref := "AC-GT".toList, query := "AG-GT".toList, query_name := "h2".toList,
     start := 1, last := 3 }]

/-- The loader state after `exampleTwoLines`. -/
def exampleTwoLoaded : LoaderState :=
  { alignments_starting_at :=
      [(1, [{ addr := 1,
              obj := { ref := "AC-GT".toList, query := "ACTGT".toList,
                       query_name := "h1".toList,
                       aligment_start_pos := 1, alignment_last_pos := 4 } },
            { addr := 2,
              obj := { ref := "AC-GT".toList, query := "AG-GT".toList,
                       query_name := "h2".toList,
                       aligment_start_pos := 1, alignment_last_pos := 4 } }])]
    n_alignments_loaded := 2
    n_alignments_split := 0
    n_alignments_sub := 0
    expectedAlleles := []
    allocations := 2 }

/-- The statement `m[pos].insert(allele)` on the
`std::map<long long, std::set<std::string>>` of one reference id: the entries
by ascending position. -/
def alleleInsert : List (Int × List (List Char)) → Int → List Char →
    List (Int × List (List Char))
  | [], pos, allele => [(pos, [allele])]
  | (p, s) :: rest, pos, allele =>
    if pos < p then (pos, [allele]) :: (p, s) :: rest
    else if pos = p then (p, setInsert allele s) :: rest
    else (p, s) :: alleleInsert rest pos allele

/-- The map `expectedAlleles[referenceSequenceID]` after the insertions
`events`, oldest first. -/
def allelesMap : List (Int × List Char) → List (Int × List (List Char)) →
    List (Int × List (List Char))
  | [], m => m
  | e :: rest, m => allelesMap rest (alleleInsert m e.1 e.2)

/-- Lines 434-443: the lines written to the expected-SNPs file, as
`(reference id, position, allele)`. -/
def expectedSNPs (referenceSequenceID : List Char) (events : List (Int × List Char)) :
    List (List Char × Int × List Char) :=
  (allelesMap events []).flatMap
    (fun refPos => refPos.2.map (fun allele => (referenceSequenceID, refPos.1 + 1, allele)))

/-- Function `main`, lines 60-455, after the arguments and the reference line
are read: the lines of the VCF file and of the expected-SNPs file. The two
numbers are the global variables of lines 35 and 36. -/
def main (max_gap_length : Int) (max_running_haplotypes_before_add : Nat)
    (referenceSequenceID referenceSequence : List Char) (lines : List AlignmentLine) :
    Run (List VCFLine × List (List Char × Int × List Char)) :=
  match loader max_gap_length lines with
  | Except.error e => Except.error e
  | Except.ok st =>
    match produceVCF max_running_haplotypes_before_add referenceSequenceID referenceSequence
        st.alignments_starting_at with
    | Except.error e => Except.error e
    | Except.ok vcf => Except.ok (vcf, expectedSNPs referenceSequenceID st.expectedAlleles)

/-- The input line for the reference `R` aligned against itself, in the
coordinates that the loader accepts: start 0, inclusive end `|R| - 2`. -/
def selfLine (R name : List Char) : AlignmentLine :=
  { ref := R, query := R, query_name := name, start := 0, last := R.length - 2 }

/-- The record that the loader publishes for `selfLine`: the start-zero hack
has dropped the first column. -/
def selfAlignment (R name : List Char) : HapPtr :=
  { addr := 1
    obj := { ref := R.drop 1, query := R.drop 1, query_name := name,
             aligment_start_pos := 1, alignment_last_pos := (R.length : Int) - 1 } }

/-- No character of `R` is one that `removeGaps` deletes. -/
def Plain (R : List Char) : Prop := ∀ c ∈ R, c ≠ '-' ∧ c ≠ '*' ∧ c ≠ '_'

/-- The loader state after the single line `selfLine R name`. -/
def selfLoaded (R name : List Char) : LoaderState :=
  { alignments_starting_at := [(1, [selfAlignment R name])]
    n_alignments_loaded := 1
    n_alignments_split := 0
    n_alignments_sub := 0
    expectedAlleles := []
    allocations := 1 }

/-- What the iterations need of the reference, the gap structure and the
alignment `a` that covers the reference from its second character on. -/
structure SelfRun (R : List Char) (G : List Int) (a : HapPtr) : Prop where
  plain : Plain R
  ref_eq : a.obj.ref = R.drop 1
  query_eq : a.obj.query = R.drop 1
  no_gaps : ∀ (l1 l2 i : Nat), i < R.length → gapString l1 l2 G (i : Int) = Except.ok []

/-- The sub-alignments closed and the runs dropped by the splitter since a
state with the sub-alignments `base` and the reconstituted strings `r0`, `q0`:
each closed sub-alignment is followed by a dropped run of non-match columns of
which more than `max_gap_length` have a gap in the query only. -/
def DropInv (max_gap_length : Int) (base : List startingHaplotype) (r0 q0 : List Char)
    (st : SplitterState) : Prop :=
  ∃ (ps : List startingHaplotype) (dropped : List (List Char × List Char)),
    st.haplotype_parts = base ++ ps ∧
    dropped.length = ps.length ∧
    (∀ d ∈ dropped, d.1.length = d.2.length ∧
      (∀ c ∈ List.zip d.1 d.2, isMatchColumn c = false) ∧
      max_gap_length < ((List.zip d.1 d.2).countP isQueryOnlyGap : Int)) ∧
    st.reconstituted_ref = r0 ++ interleave (ps.map startingHaplotype.ref) (dropped.map Prod.fst) ∧
    st.reconstituted_query =
      q0 ++ interleave (ps.map startingHaplotype.query) (dropped.map Prod.snd)

/-- Invariant of the splitter loop on the positions: no sub-alignment of `h`
starts before `h`. -/
structure StartInv (h : startingHaplotype) (st : SplitterState) : Prop where
  pos : h.aligment_start_pos - 1 ≤ st.runningRefPos
  starts : ∀ P ∈ st.haplotype_parts, h.aligment_start_pos ≤ P.aligment_start_pos
  first : st.running_ref ≠ [] → h.aligment_start_pos ≤ st.firstMatchPos_reference
  recon_len : st.reconstituted_ref.length = st.reconstituted_query.length

/-- Lines 617-1153: the part of an iteration of the main loop of `produceVCF`
in front of the flush. The result is the state with the extended open
haplotypes, the set `extensions` and the reference character `refC`. -/
def stepBeforeFlush (max_running_haplotypes_before_add : Nat)
    (referenceSequence : List Char) (alignments_starting_at : AlignmentIndex)
    (gap_structure : List Int) (st : EnumeratorState) (posI : Nat) :
    Run (EnumeratorState × List (List Char) × Char) := do
  let st1 := deduplicate st
  let caughtUp ← catchUp gap_structure posI st1.open_haplotypes
  columnLengthCheck referenceSequence alignments_starting_at posI caughtUp (-1)
  match referenceSequence[posI]? with
  | none => throw (Failure.outOfRange 777)
  | some refC =>
    let new_haplotypes := indexAt alignments_starting_at posI
    let st2 ← enterHaplotypes max_running_haplotypes_before_add referenceSequence gap_structure
      posI caughtUp.length new_haplotypes { st1 with open_haplotypes := caughtUp }
    let st3 ← exitRecombination max_running_haplotypes_before_add st2
    let extensions_nonRef_length ← extensionLength st3.open_haplotypes (-1)
    let (extended, extensions) ←
      extendHaplotypes refC extensions_nonRef_length st3.open_haplotypes []
    assertThat 1139 (extensions.length ≠ 0)
    let this_all_equal : Bool := decide (extensions.length = 1 ∧ [refC] ∈ extensions)
    assertThat 1153 (posI = 0 → this_all_equal = true)
    pure ({ st3 with open_haplotypes := extended }, extensions, refC)

/-- An enumerator state with two open haplotypes, used as a concrete input. -/
def exampleTwoOpen : EnumeratorState :=
  { open_haplotypes := [(['A'], none, -1), (['A'], some exampleWithoutGap, 0)]
    start_open_haplotypes := 1
    modifiedLastPos := false
    outputStream := [] }

/-- The keys of the index ascend, as those of a `std::map`. -/
def IndexSorted (idx : AlignmentIndex) : Prop := (idx.map Prod.fst).Pairwise (· < ·)

/-- The pointers under which `publishParts` stores the parts, with their keys,
in the order of the parts. -/
def partPointers : List startingHaplotype → Nat → List (Nat × HapPtr)
  | [], _ => []
  | hP :: rest, allocations =>
    (toUnsignedInt hP.aligment_start_pos, { addr := allocations + 1, obj := hP }) ::
      partPointers rest (allocations + 1)

/-- A property `P` of the sequences and a property `Q` of the sources that
all open haplotypes have. -/
def AllOpen (P : List Char → Prop) (Q : Option HapPtr → Prop) (haps : List openHaplotype) :
    Prop :=
  ∀ h ∈ haps, P h.1 ∧ Q h.2.1

/-- The value of the digit that `Nat.digitChar` writes as `c`. -/
def digitValue (c : Char) : Nat :=
  ((List.range 16).find? (fun d => Nat.digitChar d = c)).getD 0

/-- The number that a string of digits denotes in base `b`. -/
def digitsValue (b : Nat) (cs : List Char) : Nat :=
  cs.foldl (fun acc c => acc * b + digitValue c) 0

/-- What identifies an open haplotype in the keys of lines 655 and 1194: the
sequence, the address of the alignment copied from, and the cursor. -/
def haplotypeIdentity (h : openHaplotype) : List Char × Option Nat × Int :=
  (h.1, h.2.1.map (fun a => a.addr), h.2.2)

/-- Line 1189: the haplotype with its sequence cut down to the last
character. -/
def trimToLast (h : openHaplotype) : openHaplotype :=
  (h.1.drop (h.1.length - 1), h.2.1, h.2.2)

/-- Lines 1182-1183: the sequence without its last character and without gap
characters. -/
def coveredSequence (h : openHaplotype) : List Char :=
  removeGaps (h.1.take (h.1.length - 1))

/-- The haplotypes of the list whose sequence, source and cursor no earlier
haplotype of the list, and no element of `seen`, has: first occurrences, in
the order of the list. -/
def keepFirstOccurrences :
    List openHaplotype → List (List Char × Option Nat × Int) → List openHaplotype
  | [], _ => []
  | h :: rest, seen =>
    if haplotypeIdentity h ∈ seen then keepFirstOccurrences rest seen
    else h :: keepFirstOccurrences rest (haplotypeIdentity h :: seen)

/-- The invariant of the main loop before iteration `posI >= 1` on the first
characters: the first open haplotype is on the reference and holds, gap
characters apart, the reference from `start_open_haplotypes` to `posI - 1`, and
the sequence of every open haplotype starts with the reference character at
`start_open_haplotypes`. -/
def Anchored (R : List Char) (posI : Nat) (st : EnumeratorState) : Prop :=
  ∃ (s : Nat) (c0 : Char) (seq : List Char) (cur : Int) (rest : List openHaplotype),
    st.start_open_haplotypes = (s : Int) ∧ s < posI ∧ R[s]? = some c0 ∧
    st.open_haplotypes = (seq, none, cur) :: rest ∧
    removeGaps seq = removeGaps ((R.drop s).take (posI - s)) ∧
    ∀ h ∈ st.open_haplotypes, ∃ t, h.1 = c0 :: t

/-- The enumerator state before iteration 3 of the run on
`exampleVariantIndex` and the reference `TACGTA`. -/
def exampleVariantState : EnumeratorState :=
  { open_haplotypes :=
      [("AC".toList, none, -1),
       ("AT".toList,
        some { addr := 1
               obj := { ref := "ACG".toList, query := "ATG".toList, query_name := "h1".toList,
                        aligment_start_pos := 1, alignment_last_pos := 3 } }, 1)]
    start_open_haplotypes := 1
    modifiedLastPos := false
    outputStream := [] }

/-- The enumerator state in front of the flush of iteration 3 of that run. -/
def exampleVariantExtended : EnumeratorState :=
  { open_haplotypes :=
      [("ACG".toList, none, -1),
       ("ATG".toList,
        some { addr := 1
               obj := { ref := "ACG".toList, query := "ATG".toList, query_name := "h1".toList,
                        aligment_start_pos := 1, alignment_last_pos := 3 } }, 2),
       ("ACG".toList,
        some { addr := 2
               obj := { ref := "G-T".toList, query := "GAT".toList, query_name := "h2".toList,
                        aligment_start_pos := 3, alignment_last_pos := 4 } }, 0),
       ("ATG".toList,
        some { addr := 2
               obj := { ref := "G-T".toList, query := "GAT".toList, query_name := "h2".toList,
                        aligment_start_pos := 3, alignment_last_pos := 4 } }, 0),
       ("ACG".toList,
        some { addr := 2
               obj := { ref := "G-T".toList, query := "GAT".toList, query_name := "h2".toList,
                        aligment_start_pos := 3, alignment_last_pos := 4 } }, 0)]
    start_open_haplotypes := 1
    modifiedLastPos := true
    outputStream := [] }

/-- The enumerator state after the flush of iteration 3 of the run on
`exampleVariantIndex` and the reference `TACGTA`. -/
def exampleVariantFlushed : EnumeratorState :=
  { open_haplotypes :=
      [(['G'], none, -1),
       (['G'],
        some { addr := 1
               obj := { ref := "ACG".toList, query := "ATG".toList, query_name := "h1".toList,
                        aligment_start_pos := 1, alignment_last_pos := 3 } }, 2),
       (['G'],
        some { addr := 2
               obj := { ref := "G-T".toList, query := "GAT".toList, query_name := "h2".toList,
                        aligment_start_pos := 3, alignment_last_pos := 4 } }, 0)]
    start_open_haplotypes := 3
    modifiedLastPos := true
    outputStream :=
      [{ chrom := "chr".toList, pos := 3, id := ['.'], ref := ['C'], alt := ['T'], qual := ['.'],
         filter := "PASS".toList, info := ['.'] }] }

/-- The characters that the enumerator writes into the sequence of an open
haplotype: those of the reference, those of the queries of the alignments of
the index, and the two padding characters. -/
def FromInput (R : List Char) (idx : AlignmentIndex) (c : Char) : Prop :=
  c ∈ R ∨ c = '-' ∨ c = '*' ∨ ∃ key a, a ∈ indexAt idx key ∧ c ∈ a.obj.query

/-- The source of an open haplotype is the reference or an alignment of the
index. -/
def FromIndex (idx : AlignmentIndex) (src : Option HapPtr) : Prop :=
  ∀ a, src = some a → ∃ key, a ∈ indexAt idx key

/-- The query of a published alignment consists of characters of the query of
an input line. -/
def FromLine (lines : List AlignmentLine) (_key : Nat) (p : HapPtr) : Prop :=
  ∃ l ∈ lines, ∀ c ∈ p.obj.query, c ∈ l.query

/-- Two alignment lines for the reference `TACGTA`; the loader publishes them as
`exampleVariantIndex`. -/
def exampleVariantInput : List AlignmentLine :=
  [{ ref := "ACG".toList, query := "ATG".toList, query_name := "h1".toList,
     start := 1, last := 2 },
   { ref := "G-T".toList, query := "GAT".toList, query_name := "h2".toList,
     start := 3, last := 3 }]

/-- The loader state after `exampleVariantInput`. -/
def exampleVariantLoaded : LoaderState :=
  { alignments_starting_at := exampleVariantIndex
    n_alignments_loaded := 2
    n_alignments_split := 0
    n_alignments_sub := 0
    expectedAlleles := [(2, ['T'])]
    allocations := 2 }

/-- Invariant of the splitter loop on the names: the sub-alignment closed as
number `i` has the name of the alignment followed by `_part` and `i`. -/
def NamesInv (h : startingHaplotype) (st : SplitterState) : Prop :=
  ∀ i P, st.haplotype_parts[i]? = some P →
    P.query_name = h.query_name ++ "_part".toList ++ to_string i

/-- Two alignments with different names and the same deletion of ten bases,
used as a concrete input. -/
def exampleTwoParents : List AlignmentLine :=
  [{ ref := "AAAAAAAAAAAA".toList, query := "A----------A".toList, query_name := "h1".toList,
     start := 1, last := 11 },
   { ref := "AAAAAAAAAAAA".toList, query := "A----------A".toList, query_name := "h2".toList,
     start := 1, last := 11 }]

/-- Lines 185-187: the record of a line with start 0 after the start-zero
hack: the first column is deleted and the start is 1. -/
def afterStartZeroHack (l : AlignmentLine) : startingHaplotype :=
  { ref := l.ref.drop 1
    query := l.query.drop 1
    query_name := l.query_name
    aligment_start_pos := 1
    alignment_last_pos := (newStartingHaplotype l).alignment_last_pos }

/-- An input line with start 0, used as a concrete input. -/
def exampleStartZeroLine : AlignmentLine :=
  { ref := "TACG".toList, query := "TAGG".toList, query_name := "h1".toList,
    start := 0, last := 2 }

/-- Invariant of the splitter loop on the reference positions, after the ref
columns `pr` of the alignment `h`: `runningRefPos` is the position of the last
non-gap ref character read, and every closed sub-alignment, like the running
one, starts and ends at the positions of its first and last column. -/
structure PosInv (h : startingHaplotype) (pr : List Char) (st : SplitterState) : Prop where
  recon : st.reconstituted_ref ++ st.running_ref = pr
  fresh : pr = [] → st.firstMatchPos_reference = -1
  running : pr ≠ [] → st.running_ref ≠ []
  bounds : 0 ≤ st.runningNonMatchPositions ∧
    st.runningNonMatchPositions ≤ (st.running_ref.length : Int)
  run : st.runningRefPos = h.aligment_start_pos - 1 + (nonGapCount pr : Int)
  first : pr ≠ [] →
    st.firstMatchPos_reference = h.aligment_start_pos + (nonGapCount st.reconstituted_ref : Int)
  last : pr ≠ [] →
    st.lastMatchPos_reference = h.aligment_start_pos - 1 +
      (nonGapCount (st.reconstituted_ref ++
        st.running_ref.take (st.running_ref.length - st.runningNonMatchPositions.toNat)) : Int)
  parts : ∀ P ∈ st.haplotype_parts, ∃ pre post, pr = pre ++ P.ref ++ post ∧
    P.aligment_start_pos = h.aligment_start_pos + (nonGapCount pre : Int) ∧
    P.alignment_last_pos = h.aligment_start_pos - 1 + (nonGapCount (pre ++ P.ref) : Int)

/-- The number of non-gap ref characters of a published alignment is
`last_pos - start_pos + 1`. -/
def Spanned (_key : Nat) (p : HapPtr) : Prop :=
  (nonGapCount p.obj.ref : Int) = p.obj.alignment_last_pos - p.obj.aligment_start_pos + 1

/-- The addresses of the records of the index: none is above `n`, the number
of allocations, and two records with the same address are the same record. -/
def AddrUnique (n : Nat) (idx : AlignmentIndex) : Prop :=
  (∀ key v, (key, v) ∈ idx → ∀ p ∈ v, p.addr ≤ n) ∧
  (∀ key v key1 v1 p p1, (key, v) ∈ idx → p ∈ v → (key1, v1) ∈ idx → p1 ∈ v1 →
    p.addr = p1.addr → p = p1)

/-- An enumerator state in which the second and the fourth open haplotype
repeat the first, used as a concrete input. -/
def exampleDuplicates : EnumeratorState :=
  { open_haplotypes :=
      [("A;C".toList, none, -1), ("A;C".toList, none, -1), ("A".toList, none, -1),
       ("A;C".toList, none, -1)]
    start_open_haplotypes := 0
    modifiedLastPos := true
    outputStream := [] }

/-- The reference from position `start` to position `posI - 1`, each character
followed by as many dashes as the gap structure holds for its position (the
unset value counts as 0). -/
def referenceSlice (R : List Char) (G : List Int) (start posI : Nat) : List Char :=
  (List.range' start (posI - start)).flatMap
    (fun i => R[i]?.toList ++ List.replicate (gapCount G (i : Int)) '-')

/-- The open haplotypes that the entry of the alignment `H` appends: a copy of
every haplotype of the snapshot `base` and the reference sequence `P`, all with
the source `H` and the cursor `-1`. -/
def entriesFor (base : List openHaplotype) (P : List Char) (H : HapPtr) : List openHaplotype :=
  base.map (fun existing => (existing.1, some H, (-1 : Int))) ++ [(P, some H, -1)]

/-- Lines 900-901: the exiting haplotype keeps its sequence and goes on with
the reference. -/
def switchToReference (h : openHaplotype) : openHaplotype := (h.1, none, -1)

/-- The triple that the exit recombination considers when the haplotype at
index `k` of the snapshot is exhausted and the haplotype at another index `j`
is not: the sequence of `k` with the source and the cursor of `j`. -/
def RecombinantOf (snap : List openHaplotype) (k j : Nat) (x : openHaplotype) : Prop :=
  ∃ hk hj, snap[k]? = some hk ∧ isExhausted hk = true ∧ j ≠ k ∧ snap[j]? = some hj ∧
    isExhausted hj = false ∧ x = (hk.1, hj.2.1, hj.2.2)

/-- Invariant of the loops of the exit recombination. The open haplotypes at
its start are `snap`, the outer loop has visited the indices in `done`, the
pairs of an exhausted and another haplotype met so far are those in `cand`, and
the recombinants appended so far are `added`. -/
structure ExitTrace (max : Nat) (snap : List openHaplotype) (flag : Bool) (done : Nat → Prop)
    (cand : Nat → Nat → Prop) (es : ExitState) (added : List openHaplotype) : Prop where
  kept : ∀ i h, snap[i]? = some h → ¬ (done i ∧ isExhausted h = true) →
    es.open_haplotypes[i]? = some h
  switched : ∀ i h, snap[i]? = some h → done i → isExhausted h = true →
    es.open_haplotypes[i]? = some (switchToReference h)
  appended : es.open_haplotypes.drop snap.length = added
  size : snap.length ≤ es.open_haplotypes.length
  exited : ∀ i, i ∈ es.exitedHaplotype ↔ done i ∧ ∃ h, snap[i]? = some h ∧ isExhausted h = true
  keys : (es.inner_open_haplotypes_keys = [] ∧ es.open_haplotypes = snap ∧
      es.exitedHaplotype = []) ∨
    (es.inner_open_haplotypes_keys ≠ [] ∧
      ∀ key, key ∈ es.inner_open_haplotypes_keys ↔ key ∈ (snap ++ added).map haplotype_key)
  fresh : ∀ pre x post, added = pre ++ x :: post →
    haplotype_key x ∉ (snap ++ pre).map haplotype_key
  recombinant : ∀ x ∈ added, ∃ k j, cand k j ∧ RecombinantOf snap k j x
  complete : es.open_haplotypes.length ≤ max → ∀ k j x, cand k j → RecombinantOf snap k j x →
    haplotype_key x ∈ (snap ++ added).map haplotype_key
  flagged : es.modifiedLastPos = (flag || !es.exitedHaplotype.isEmpty)

/-- An input line with a substitution in its last column, used as a concrete
input. -/
def exampleExitLine : AlignmentLine :=
  { ref := "AC".toList, query := "AG".toList, query_name := "h1".toList, start := 1, last := 1 }

/-- The record that the loader publishes for `exampleExitLine`. -/
def exampleExitAlignment : HapPtr :=
  { addr := 1
    obj := { ref := "AC".toList, query := "AG".toList, query_name := "h1".toList,
             aligment_start_pos := 1, alignment_last_pos := 2 } }

/-- The enumerator state before iteration 3 of the run on `exampleExitLine` and
the reference `TACT`; the exit recombination of that iteration starts with the
same open haplotypes, of which the second is exhausted. -/
def exampleExitState : EnumeratorState :=
  { open_haplotypes := [("AC".toList, none, -1), ("AG".toList, some exampleExitAlignment, 1)]
    start_open_haplotypes := 1
    modifiedLastPos := false
    outputStream := [] }

/-- The state after the exit recombination of `exampleExitState`. -/
def exampleExitResult : EnumeratorState :=
  { open_haplotypes :=
      [("AC".toList, none, -1), ("AG".toList, none, -1), ("AG".toList, none, -1)]
    start_open_haplotypes := 1
    modifiedLastPos := true
    outputStream := [] }

/-- The invariant of the written lines: their positions increase strictly and
none exceeds `start_open_haplotypes`. -/
def PositionsIncrease (st : EnumeratorState) : Prop :=
  (st.outputStream.map (fun line => line.pos)).Pairwise (fun a b => a < b) ∧
  ∀ line ∈ st.outputStream, line.pos ≤ st.start_open_haplotypes

/-- An index for the reference `TACGTA`: two alignments with different
substitutions at the same position. -/
def exampleTwoAlleles : AlignmentIndex :=
  [(1, [{ addr := 1
          obj := { ref := "ACG".toList, query := "ATG".toList, query_name := "h1".toList,
                   aligment_start_pos := 1, alignment_last_pos := 3 } },
        { addr := 2
          obj := { ref := "ACG".toList, query := "AGG".toList, query_name := "h2".toList,
                   aligment_start_pos := 1, alignment_last_pos := 3 } }])]

/-- The line that `produceVCF` writes for `exampleTwoAlleles`. -/
def exampleTwoAllelesLines : List VCFLine :=
  [{ chrom := "chr".toList, pos := 3, id := ['.'], ref := ['C'], alt := "G,T".toList,
     qual := ['.'], filter := "PASS".toList, info := ['.'] }]

/-- The property of the ALT field of a written line: it joins, with commas, a
list of alleles that is the set `alternativeSequences` of the flush (line
1252) or the list of the second characters of its elements (lines 1232-1234);
the set is not empty and ascends strictly in the order of `std::string`, and
so does the list of alleles, which has no element twice and does not hold the
REF field of the line. -/
def AllelesOrdered (line : VCFLine) : Prop :=
  ∃ alternativeSequences alleles : List (List Char),
    alternativeSequences ≠ [] ∧
    alternativeSequences.Pairwise (fun a b => stringLess a b = true) ∧
    (alleles = alternativeSequences ∨
      alleles = alternativeSequences.map (fun a => (a.drop 1).take 1)) ∧
    line.alt = join alleles [','] ∧
    alleles.Pairwise (fun a b => stringLess a b = true) ∧ alleles.Nodup ∧
    ∀ a ∈ alleles, a ≠ line.ref

/-- The sequence of the first open haplotype before iteration `posI >= 1`: the
reference from `start` to `posI - 1` with the dashes of the gap structure
after every character but the last. -/
def headSequence (R : List Char) (G : List Int) (start posI : Nat) : List Char :=
  referenceSlice R G start (posI - 1) ++ R[posI - 1]?.toList

/-- The invariant of the main loop before iteration `posI >= 1` on the first
open haplotype: it is on the reference, with the cursor `-1` and the sequence
`headSequence`. -/
def HeadSlice (R : List Char) (G : List Int) (posI : Nat) (st : EnumeratorState) : Prop :=
  ∃ (s : Nat) (rest : List openHaplotype), st.start_open_haplotypes = (s : Int) ∧ s < posI ∧
    st.open_haplotypes = (headSequence R G s posI, none, -1) :: rest

/-- Lines 881 and 900-901 for one open haplotype: an exhausted haplotype goes
on with the reference. -/
def exitSwitch (h : openHaplotype) : openHaplotype :=
  if isExhausted h = true then switchToReference h else h

/-- Two input lines for the reference `TACGTA`: the second alignment enters at
position 2, where the first has a substitution. -/
def exampleEntryInput : List AlignmentLine :=
  [{ ref := "ACG".toList, query := "ATG".toList, query_name := "h1".toList,
     start := 1, last := 2 },
   { ref := "CG".toList, query := "CG".toList, query_name := "h2".toList,
     start := 2, last := 2 }]

/-- The alignment of `exampleEntryInput` that enters at position 2. -/
def exampleEntering : HapPtr :=
  { addr := 2
    obj := { ref := "CG".toList, query := "CG".toList, query_name := "h2".toList,
             aligment_start_pos := 2, alignment_last_pos := 3 } }

/-- The loader state after `exampleEntryInput`. -/
def exampleEntryLoaded : LoaderState :=
  { alignments_starting_at :=
      [(1, [{ addr := 1
              obj := { ref := "ACG".toList, query := "ATG".toList, query_name := "h1".toList,
                       aligment_start_pos := 1, alignment_last_pos := 3 } }]),
       (2, [exampleEntering])]
    n_alignments_loaded := 2
    n_alignments_split := 0
    n_alignments_sub := 0
    expectedAlleles := [(2, ['T'])]
    allocations := 2 }

/-- The enumerator state before iteration 2 of the run on `exampleEntryInput`
and the reference `TACGTA`. -/
def exampleEntryState : EnumeratorState :=
  { open_haplotypes :=
      [(['A'], none, -1),
       (['A'],
        some { addr := 1
               obj := { ref := "ACG".toList, query := "ATG".toList, query_name := "h1".toList,
                        aligment_start_pos := 1, alignment_last_pos := 3 } }, 0)]
    start_open_haplotypes := 1
    modifiedLastPos := true
    outputStream := [] }

/-- The enumerator state after iteration 2 of that run, which does not
flush. -/
def exampleEntryExtended : EnumeratorState :=
  { open_haplotypes :=
      [("AC".toList, none, -1),
       ("AT".toList,
        some { addr := 1
               obj := { ref := "ACG".toList, query := "ATG".toList, query_name := "h1".toList,
                        aligment_start_pos := 1, alignment_last_pos := 3 } }, 1),
       ("AC".toList, some exampleEntering, 0),
       ("AC".toList, some exampleEntering, 0),
       ("AC".toList, some exampleEntering, 0)]
    start_open_haplotypes := 1
    modifiedLastPos := true
    outputStream := [] }

/-- The alignment of `exampleVariantIndex` that enters at position 3. -/
def exampleVariantEntering : HapPtr :=
  { addr := 2
    obj := { ref := "G-T".toList, query := "GAT".toList, query_name := "h2".toList,
             aligment_start_pos := 3, alignment_last_pos := 4 } }

/-- The columns of reference position `i` in an open haplotype that follows the
reference: the reference character `R[i]` and a dash for each gap column that
the gap structure holds for the position. -/
def referenceBlock (R : List Char) (G : List Int) (i : Nat) : List Char :=
  R[i]?.toList ++ List.replicate (gapCount G (i : Int)) '-'

/-- The columns of reference position `i` in an open haplotype that copies from
the alignment `a`, whose column `j` is the column of that position: the query
characters of column `j` and of the gap columns after it, and a dash for each
gap column of the position that the alignment does not have (lines 698-726 and
1124-1135). -/
def alignmentBlock (a : startingHaplotype) (G : List Int) (j i : Nat) : List Char :=
  let copied := (a.query.drop j).take (1 + gapCount G (i : Int))
  copied ++ List.replicate (1 + gapCount G (i : Int) - copied.length) '-'

/-- A block of columns that an open haplotype can hold for reference position
`i`: that of the reference, or that of an alignment of the index with a non-gap
ref character in the column of position `i`. -/
def BlockAt (R : List Char) (G : List Int) (idx : AlignmentIndex) (i : Nat) (b : List Char) :
    Prop :=
  b = referenceBlock R G i ∨
  ∃ (key : Nat) (a : HapPtr) (j : Nat) (r : Char),
    a ∈ indexAt idx key ∧ a.obj.ref[j]? = some r ∧ isGapCharacter r = false ∧
    refIndexOfColumn a.obj j = (i : Int) ∧ b = alignmentBlock a.obj G j i

/-- The sequence `seq` is made of one block for each reference position from
`s` to `posI - 1`, in this order. -/
def Blocked (R : List Char) (G : List Int) (idx : AlignmentIndex) (s posI : Nat)
    (seq : List Char) : Prop :=
  ∃ blocks : List (List Char), seq = blocks.flatten ∧ blocks.length = posI - s ∧
    ∀ (k : Nat) (b : List Char), blocks[k]? = some b → BlockAt R G idx (s + k) b

/-- The character `x` is the one that the source of the open haplotype `h`
holds for reference position `posI - 1`. -/
def HeadChar (R : List Char) (posI : Nat) (h : openHaplotype) (x : Char) : Prop :=
  match h.2.1 with
  | none => R[posI - 1]? = some x
  | some a => a.obj.query[h.2.2.toNat]? = some x

/-- The invariant of the main loop before iteration `posI` on the content of
the open haplotypes: a block for each position from `start_open_haplotypes` to
`posI - 2` and the first character of the block of position `posI - 1`. -/
def Provenance (R : List Char) (G : List Int) (idx : AlignmentIndex) (posI : Nat)
    (st : EnumeratorState) : Prop :=
  ∃ s : Nat, st.start_open_haplotypes = (s : Int) ∧ s < posI ∧
    ∀ h ∈ st.open_haplotypes, FromIndex idx h.2.1 ∧
      ∃ pre x, h.1 = pre ++ [x] ∧ Blocked R G idx s (posI - 1) pre ∧ HeadChar R posI h x

/-- The query of a published alignment is a piece of the query of an input
line. -/
def QueryOfLine (lines : List AlignmentLine) (_key : Nat) (p : HapPtr) : Prop :=
  ∃ l ∈ lines, ∃ pre post, l.query = pre ++ p.obj.query ++ post

/-- Two alignment lines for the reference `TACGTA`: the second starts at the
last position of the first, with another query character there. -/
def exampleChimeraInput : List AlignmentLine :=
  [{ ref := "ACG".toList, query := "ATG".toList, query_name := "h1".toList,
     start := 1, last := 2 },
   { ref := "GT".toList, query := "CT".toList, query_name := "h2".toList,
     start := 3, last := 3 }]

/-- The record that the loader publishes for the first line of
`exampleChimeraInput`. -/
def exampleChimeraFirst : HapPtr :=
  { addr := 1
    obj := { ref := "ACG".toList, query := "ATG".toList, query_name := "h1".toList,
             aligment_start_pos := 1, alignment_last_pos := 3 } }

/-- The record that the loader publishes for the second line of
`exampleChimeraInput`. -/
def exampleChimeraSecond : HapPtr :=
  { addr := 2
    obj := { ref := "GT".toList, query := "CT".toList, query_name := "h2".toList,
             aligment_start_pos := 3, alignment_last_pos := 4 } }

/-- The loader state after `exampleChimeraInput`. -/
def exampleChimeraLoaded : LoaderState :=
  { alignments_starting_at := [(1, [exampleChimeraFirst]), (3, [exampleChimeraSecond])]
    n_alignments_loaded := 2
    n_alignments_split := 0
    n_alignments_sub := 0
    expectedAlleles := [(2, ['T']), (3, ['C'])]
    allocations := 2 }

/-- The enumerator state before iteration 4 of the run on `exampleChimeraLoaded`
and the reference `TACGTA`. -/
def exampleChimeraState : EnumeratorState :=
  { open_haplotypes :=
      [("ACG".toList, none, -1),
       ("ATG".toList, some exampleChimeraFirst, 2),
       ("ACC".toList, some exampleChimeraSecond, 0),
       ("ATC".toList, some exampleChimeraSecond, 0),
       ("ACC".toList, some exampleChimeraSecond, 0)]
    start_open_haplotypes := 1
    modifiedLastPos := true
    outputStream := [] }

/-- The enumerator state in front of the flush of iteration 4 of that run. -/
def exampleChimeraExtended : EnumeratorState :=
  { open_haplotypes :=
      [("ACGT".toList, none, -1),
       ("ATGT".toList, none, -1),
       ("ACCT".toList, some exampleChimeraSecond, 1),
       ("ATCT".toList, some exampleChimeraSecond, 1),
       ("ATGT".toList, none, -1),
       ("ATGT".toList, some exampleChimeraSecond, 1)]
    start_open_haplotypes := 1
    modifiedLastPos := true
    outputStream := [] }

/-- The enumerator state after the flush of iteration 4 of that run. -/
def exampleChimeraFlushed : EnumeratorState :=
  { open_haplotypes :=
      [("T".toList, none, -1),
       ("T".toList, some exampleChimeraSecond, 1)]
    start_open_haplotypes := 4
    modifiedLastPos := true
    outputStream :=
      [{ chrom := "chr".toList, pos := 2, id := ['.'], ref := "ACG".toList,
         alt := "ACC,ATC,ATG".toList, qual := ['.'], filter := "PASS".toList, info := ['.'] }] }

/-! # Theorems -/

/-! ## Expected alleles scan -/

theorem isGapCharacter_eq_false_iff (c : Char) :
    isGapCharacter c = false ↔ c ≠ '-' ∧ c ≠ '*' := by
  simp [isGapCharacter]

theorem isGapCharacter_eq_true_iff (c : Char) :
    isGapCharacter c = true ↔ c = '-' ∨ c = '*' := by
  simp [isGapCharacter]

theorem scanColumn_inv (st : AlleleScan) (previous : Option (Char × Char)) (r q : Char)
    (hinv : ScanInv st previous) : ScanInv (scanColumn st r q) (some (r, q)) := by
  unfold scanColumn
  by_cases hr : r ≠ '-' ∧ r ≠ '*'
  · refine ⟨[], [], ?_, ?_, rfl, fun _ => rfl⟩ <;> simp [hr]
  · cases previous with
    | none =>
      obtain ⟨ha, hb⟩ := hinv
      refine ⟨[], [], ?_, ?_, rfl, fun _ => rfl⟩ <;> simp [hr, ha, hb]
    | some pc =>
      obtain ⟨pr, pq⟩ := pc
      obtain ⟨A0, B0, ha, hb, hl, _⟩ := hinv
      refine ⟨A0 ++ [pr], B0 ++ [pq], ?_, ?_, by simp [hl], ?_⟩
      · simp [hr, ha]
      · simp [hr, hb]
      · intro h
        exact absurd ((isGapCharacter_eq_false_iff r).1 h) hr

theorem scanColumn_pos (st : AlleleScan) (r q : Char) :
    (scanColumn st r q).runningRefC_0based =
      if isGapCharacter r = false then st.runningRefC_0based + 1 else st.runningRefC_0based := by
  unfold scanColumn
  by_cases hr : r ≠ '-' ∧ r ≠ '*'
  · simp [hr, (isGapCharacter_eq_false_iff r).2 hr]
  · have : ¬ isGapCharacter r = false := fun h => hr ((isGapCharacter_eq_false_iff r).1 h)
    simp [hr, this]

theorem scanColumn_alleles_gap (st : AlleleScan) (r q : Char) (hr : ¬ (r ≠ '-' ∧ r ≠ '*')) :
    (scanColumn st r q).expectedAlleles = st.expectedAlleles := by
  unfold scanColumn
  simp [hr]

theorem scanColumn_alleles_nongap (st : AlleleScan) (r q : Char) (hr : r ≠ '-' ∧ r ≠ '*') :
    (scanColumn st r q).expectedAlleles =
      if (st.runningRefAllele.length = 1 ∧ st.runningQueryAllele.length = 1
              ∧ st.runningRefAllele ≠ st.runningQueryAllele) ∧
          (st.runningRefAllele ≠ ['-'] ∧ st.runningRefAllele ≠ ['*']
                ∧ st.runningQueryAllele ≠ ['-'] ∧ st.runningQueryAllele ≠ ['*']) then
        st.expectedAlleles ++ [(st.runningRefC_0based, st.runningQueryAllele)]
      else st.expectedAlleles := by
  unfold scanColumn
  simp only [hr, and_self, if_true]
  split_ifs <;> simp_all

theorem scan_condition_iff (st : AlleleScan) (pr pq : Char) (hinv : ScanInv st (some (pr, pq))) :
    ((st.runningRefAllele.length = 1 ∧ st.runningQueryAllele.length = 1
              ∧ st.runningRefAllele ≠ st.runningQueryAllele) ∧
          (st.runningRefAllele ≠ ['-'] ∧ st.runningRefAllele ≠ ['*']
                ∧ st.runningQueryAllele ≠ ['-'] ∧ st.runningQueryAllele ≠ ['*'])) ↔
      (isGapCharacter pr = false ∧ isGapCharacter pq = false ∧ pr ≠ pq) ∧
        st.runningQueryAllele = [pq] := by
  obtain ⟨A0, B0, ha, hb, hl, hz⟩ := hinv
  constructor
  · rintro ⟨⟨h1, h2, h3⟩, h4, h5, h6, h7⟩
    have hA0 : A0 = [] := by
      apply List.eq_nil_of_length_eq_zero; rw [ha] at h1; simpa using h1
    have hB0 : B0 = [] := by
      apply List.eq_nil_of_length_eq_zero; rw [hb] at h2; simpa using h2
    subst hA0; subst hB0
    simp only [List.nil_append] at ha hb
    rw [ha] at h3 h4 h5
    rw [hb] at h3 h6 h7
    refine ⟨⟨?_, ?_, ?_⟩, hb⟩
    · rw [isGapCharacter_eq_false_iff]; exact ⟨fun h => h4 (by rw [h]), fun h => h5 (by rw [h])⟩
    · rw [isGapCharacter_eq_false_iff]; exact ⟨fun h => h6 (by rw [h]), fun h => h7 (by rw [h])⟩
    · intro h; exact h3 (by rw [h])
  · rintro ⟨⟨h1, h2, h3⟩, h4⟩
    have hA0 : A0 = [] := hz h1
    subst hA0
    simp only [List.nil_append] at ha
    rw [isGapCharacter_eq_false_iff] at h1 h2
    rw [ha, h4]
    refine ⟨⟨rfl, rfl, ?_⟩, ?_, ?_, ?_, ?_⟩
    · intro h; exact h3 (by simpa using h)
    · intro h; exact h1.1 (by simpa using h)
    · intro h; exact h1.2 (by simpa using h)
    · intro h; exact h2.1 (by simpa using h)
    · intro h; exact h2.2 (by simpa using h)

theorem scanColumn_events (st : AlleleScan) (previous : Option (Char × Char)) (r q : Char)
    (hinv : ScanInv st previous) :
    (scanColumn st r q).expectedAlleles = st.expectedAlleles ++
      (match previous with
        | none => []
        | some (pr, pq) =>
          if isGapCharacter r = false ∧ isGapCharacter pr = false ∧ isGapCharacter pq = false
              ∧ pr ≠ pq then [(st.runningRefC_0based, [pq])]
          else []) := by
  by_cases hr : r ≠ '-' ∧ r ≠ '*'
  · have hr2 : isGapCharacter r = false := (isGapCharacter_eq_false_iff r).2 hr
    rw [scanColumn_alleles_nongap st r q hr]
    cases previous with
    | none =>
      obtain ⟨ha, hb⟩ := hinv
      simp [ha, hb]
    | some pc =>
      obtain ⟨pr, pq⟩ := pc
      have hiff := scan_condition_iff st pr pq hinv
      by_cases hS : isGapCharacter pr = false ∧ isGapCharacter pq = false ∧ pr ≠ pq
      · by_cases hq : st.runningQueryAllele = [pq]
        · rw [if_pos (hiff.2 ⟨hS, hq⟩)]
          simp [hr2, hS, hq]
        · exfalso
          obtain ⟨A0, B0, ha, hb, hl, hz⟩ := hinv
          have hA0 : A0 = [] := hz hS.1
          have hB0 : B0 = [] := by
            apply List.eq_nil_of_length_eq_zero; rw [← hl, hA0]; rfl
          exact hq (by rw [hb, hB0]; rfl)
      · rw [if_neg (fun h => hS (hiff.1 h).1)]
        simp only [hr2, true_and]
        rw [if_neg hS]
        simp
  · have hr2 : ¬ isGapCharacter r = false := fun h => hr ((isGapCharacter_eq_false_iff r).1 h)
    rw [scanColumn_alleles_gap st r q hr]
    cases previous with
    | none => simp
    | some pc =>
      obtain ⟨pr, pq⟩ := pc
      simp [hr2]

theorem scanColumns_eq_snpEvents : ∀ (rs qs : List Char) (st : AlleleScan)
    (previous : Option (Char × Char)), rs.length ≤ qs.length → ScanInv st previous →
    ∃ st1, scanColumns rs qs st = Except.ok st1 ∧
      st1.expectedAlleles = st.expectedAlleles ++ snpEvents st.runningRefC_0based previous rs qs
  | [], qs, st, previous, _, _ => ⟨st, by simp [scanColumns], by simp [snpEvents]⟩
  | r :: rs, [], st, previous, hlen, _ => by simp at hlen
  | r :: rs, q :: qs, st, previous, hlen, hinv => by
    have hlen2 : rs.length ≤ qs.length := by simpa using hlen
    obtain ⟨st1, h1, h2⟩ := scanColumns_eq_snpEvents rs qs (scanColumn st r q) (some (r, q)) hlen2
      (scanColumn_inv st previous r q hinv)
    refine ⟨st1, by simpa [scanColumns] using h1, ?_⟩
    rw [h2, scanColumn_events st previous r q hinv, scanColumn_pos]
    simp only [snpEvents, List.append_assoc]
    cases previous <;> rfl


theorem mem_snpEvents : ∀ (rs qs : List Char) (pos : Int) (previous : Option (Char × Char))
    (p : Int) (a : List Char),
    (p, a) ∈ snpEvents pos previous rs qs ↔
      (∃ pr pq r, previous = some (pr, pq) ∧ rs[0]? = some r ∧ qs ≠ [] ∧
        isGapCharacter r = false ∧ isGapCharacter pr = false ∧ isGapCharacter pq = false ∧
        pr ≠ pq ∧ a = [pq] ∧ p = pos) ∨
      (∃ j rj rj1 qj, rs[j]? = some rj ∧ rs[j + 1]? = some rj1 ∧ qs[j]? = some qj ∧
        j + 1 < qs.length ∧
        isGapCharacter rj = false ∧ isGapCharacter rj1 = false ∧ isGapCharacter qj = false ∧
        qj ≠ rj ∧ a = [qj] ∧ p = pos + (nonGapCount (rs.take (j + 1)) : Int))
  | [], qs, pos, previous, p, a => by simp [snpEvents]
  | r :: rs, [], pos, previous, p, a => by simp [snpEvents]
  | r :: rs, q :: qs, pos, previous, p, a => by
    have ih := mem_snpEvents rs qs (if isGapCharacter r = false then pos + 1 else pos)
      (some (r, q)) p a
    simp only [snpEvents, List.mem_append, ih]
    constructor
    · rintro (h | h | h)
      · left
        cases previous with
        | none => simp at h
        | some pc =>
          obtain ⟨pr, pq⟩ := pc
          simp only at h
          split_ifs at h with hc
          · simp only [List.mem_singleton, Prod.mk.injEq] at h
            exact ⟨pr, pq, r, rfl, by simp, by simp, hc.1, hc.2.1, hc.2.2.1, hc.2.2.2, h.2, h.1⟩
          · simp at h
      · right
        obtain ⟨pr, pq, r1, hprev, hr1, hqs, h1, h2, h3, h4, h5, h6⟩ := h
        simp only [Option.some.injEq, Prod.mk.injEq] at hprev
        obtain ⟨rfl, rfl⟩ := hprev
        refine ⟨0, r, r1, q, by simp, by simpa using hr1, by simp, ?_, h2, h1, h3,
          fun h => h4 h.symm, h5, ?_⟩
        · cases qs with
          | nil => exact absurd rfl hqs
          | cons _ _ => simp
        · rw [h6]; simp [nonGapCount, h2]
      · right
        obtain ⟨j, rj, rj1, qj, e1, e2, e3, e4, h1, h2, h3, h4, h5, h6⟩ := h
        refine ⟨j + 1, rj, rj1, qj, by simpa using e1, by simpa using e2, by simpa using e3,
          by simpa using e4, h1, h2, h3, h4, h5, ?_⟩
        rw [h6]
        by_cases hr : isGapCharacter r = false
        · simp [nonGapCount, hr, List.countP_cons]; ring
        · simp [nonGapCount, hr, List.countP_cons]
    · rintro (h | h)
      · left
        obtain ⟨pr, pq, r1, hprev, hr1, hqs, h1, h2, h3, h4, h5, h6⟩ := h
        subst hprev
        simp only [List.getElem?_cons_zero, Option.some.injEq] at hr1
        subst hr1
        simp [h1, h2, h3, h4, h5, h6]
      · right
        obtain ⟨j, rj, rj1, qj, e1, e2, e3, e4, h1, h2, h3, h4, h5, h6⟩ := h
        cases j with
        | zero =>
          left
          simp only [List.getElem?_cons_zero, Option.some.injEq] at e1 e3
          subst e1; subst e3
          refine ⟨r, q, rj1, rfl, by simpa using e2, ?_, h2, h1, h3, fun h => h4 h.symm, h5, ?_⟩
          · intro h; simp [h] at e4
          · rw [h6]; simp [nonGapCount, h1]
        | succ j =>
          right
          refine ⟨j, rj, rj1, qj, by simpa using e1, by simpa using e2, by simpa using e3,
            by simpa using e4, h1, h2, h3, h4, h5, ?_⟩
          rw [h6]
          by_cases hr : isGapCharacter r = false
          · simp [nonGapCount, hr, List.countP_cons]; ring
          · simp [nonGapCount, hr, List.countP_cons]

/-- For an alignment whose query is at least as long as its ref, the
expected-alleles scan returns, and it inserts allele `q` at key `p` exactly
when some column `j` that is not the last has non-gap `ref[j]`, `ref[j+1]` and
`query[j]` with `query[j] ≠ ref[j]`, `q = query[j]` and
`p = start - 1 + ` (number of non-gap characters in `ref[0..j]`). -/
theorem expectedAllelesScan_columns (h : startingHaplotype)
    (hlen : h.ref.length ≤ h.query.length) :
    ∃ E, expectedAllelesScan h = Except.ok E ∧
      ∀ (p : Int) (q : List Char), (p, q) ∈ E ↔
        ∃ j rj rj1 qj, h.ref[j]? = some rj ∧ h.ref[j + 1]? = some rj1 ∧ h.query[j]? = some qj ∧
          isGapCharacter rj = false ∧ isGapCharacter rj1 = false ∧
          isGapCharacter qj = false ∧ qj ≠ rj ∧ q = [qj] ∧
          p = h.aligment_start_pos - 1 + (nonGapCount (h.ref.take (j + 1)) : Int) := by
  obtain ⟨st1, h1, h2⟩ := scanColumns_eq_snpEvents h.ref h.query
    { runningRefC_0based := h.aligment_start_pos - 1
      runningRefAllele := []
      runningQueryAllele := []
      expectedAlleles := [] } none hlen ⟨rfl, rfl⟩
  refine ⟨st1.expectedAlleles, by simp [expectedAllelesScan, h1], ?_⟩
  intro p q
  rw [h2, List.nil_append, mem_snpEvents]
  constructor
  · rintro (⟨pr, pq, r, hp, -⟩ | ⟨j, rj, rj1, qj, e1, e2, e3, -, rest⟩)
    · simp at hp
    · exact ⟨j, rj, rj1, qj, e1, e2, e3, rest⟩
  · rintro ⟨j, rj, rj1, qj, e1, e2, e3, rest⟩
    right
    refine ⟨j, rj, rj1, qj, e1, e2, e3, ?_, rest⟩
    have := (List.getElem?_eq_some_iff.1 e2).1
    omega

/-! ## Plumbing of the `Run` monad -/

theorem bind_eq_ok {α β : Type} (m : Run α) (f : α → Run β) (b : β) :
    bind m f = Except.ok b ↔ ∃ a, m = Except.ok a ∧ f a = Except.ok b := by
  cases m with
  | error e => simp [bind, Except.bind]
  | ok a => simp [bind, Except.bind]

theorem assertThat_eq_ok (n : Nat) (c : Prop) [Decidable c] (u : Unit) :
    assertThat n c = Except.ok u ↔ c := by
  unfold assertThat
  split_ifs with h <;> simp [h]

theorem rangeCheck_eq_ok (n : Nat) (c : Prop) [Decidable c] (u : Unit) :
    rangeCheck n c = Except.ok u ↔ c := by
  unfold rangeCheck
  split_ifs with h <;> simp [h]

theorem pure_eq_ok {α : Type} (a b : α) : (pure a : Run α) = Except.ok b ↔ a = b := by
  simp [pure, Except.pure]

/-! ## Splitter -/

theorem runCountAfter_append (a b : List (Char × Char)) (cur : Nat) :
    runCountAfter (a ++ b) cur = runCountAfter b (runCountAfter a cur) := by
  induction a generalizing cur with
  | nil => rfl
  | cons c cs ih => simp [runCountAfter, ih]

theorem queryGapsPerRun_append (a b : List (Char × Char)) (cur : Nat) :
    queryGapsPerRun (a ++ b) cur =
      max (queryGapsPerRun a cur) (queryGapsPerRun b (runCountAfter a cur)) := by
  induction a generalizing cur with
  | nil => simp [queryGapsPerRun, runCountAfter]
  | cons c cs ih => simp [queryGapsPerRun, runCountAfter, ih, max_assoc]

theorem runCountAfter_nonmatch (t : List (Char × Char)) (cur : Nat)
    (ht : ∀ c ∈ t, isMatchColumn c = false) :
    runCountAfter t cur = cur + t.countP isQueryOnlyGap := by
  induction t generalizing cur with
  | nil => simp [runCountAfter]
  | cons c cs ih =>
    have hc : isMatchColumn c = false := ht c (List.mem_cons_self _ _)
    have hcs : ∀ x ∈ cs, isMatchColumn x = false := fun x hx => ht x (List.mem_cons_of_mem _ hx)
    by_cases hq : isQueryOnlyGap c = true
    · simp [runCountAfter, hc, hq, ih _ hcs, List.countP_cons]; omega
    · simp [runCountAfter, hc, hq, ih _ hcs, List.countP_cons]

theorem queryGapsPerRun_nonmatch (t : List (Char × Char)) (cur : Nat)
    (ht : ∀ c ∈ t, isMatchColumn c = false) :
    queryGapsPerRun t cur ≤ cur + t.countP isQueryOnlyGap := by
  induction t generalizing cur with
  | nil => simp [queryGapsPerRun]
  | cons c cs ih =>
    have hc : isMatchColumn c = false := ht c (List.mem_cons_self _ _)
    have hcs : ∀ x ∈ cs, isMatchColumn x = false := fun x hx => ht x (List.mem_cons_of_mem _ hx)
    by_cases hq : isQueryOnlyGap c = true
    · have := ih (cur + 1) hcs
      simp [queryGapsPerRun, hc, hq, List.countP_cons]
      omega
    · have := ih cur hcs
      simp [queryGapsPerRun, hc, hq, List.countP_cons]
      omega

theorem runCountAfter_getLast (a : List (Char × Char)) (c : Char × Char) (cur : Nat)
    (hl : a.getLast? = some c) (hc : isMatchColumn c = true) : runCountAfter a cur = 0 := by
  obtain ⟨init, rfl⟩ : ∃ init, a = init ++ [c] := by
    rcases List.eq_nil_or_concat a with h | ⟨init, x, h⟩
    · simp [h] at hl
    · subst h
      have hx : x = c := by simpa using hl
      exact ⟨init, by rw [hx]; simp⟩
  simp [runCountAfter_append, runCountAfter, hc]

theorem interleave_snoc (ps ds : List (List Char)) (p d : List Char)
    (hlen : ds.length = ps.length) :
    interleave (ps ++ [p]) (ds ++ [d]) = interleave ps ds ++ p ++ d := by
  induction ps generalizing ds with
  | nil =>
    cases ds with
    | nil => simp [interleave]
    | cons _ _ => simp at hlen
  | cons x xs ih =>
    cases ds with
    | nil => simp at hlen
    | cons y ys =>
      simp only [List.length_cons, Nat.add_right_cancel_iff] at hlen
      simp [interleave, ih ys hlen]

theorem interleave_last (ps ds : List (List Char)) (p : List Char)
    (hlen : ds.length = ps.length) :
    interleave (ps ++ [p]) ds = interleave ps ds ++ p := by
  induction ps generalizing ds with
  | nil =>
    cases ds with
    | nil => simp [interleave]
    | cons _ _ => simp at hlen
  | cons x xs ih =>
    cases ds with
    | nil => simp at hlen
    | cons y ys =>
      simp only [List.length_cons, Nat.add_right_cancel_iff] at hlen
      simp [interleave, ih ys hlen]

theorem zip_map_fst_snd (l : List (Char × Char)) :
    List.zip (l.map Prod.fst) (l.map Prod.snd) = l := by
  induction l with
  | nil => rfl
  | cons c cs ih => simp [ih]

theorem closeSubAlignment_ok (h : startingHaplotype) (st stc : SplitterState)
    (hok : closeSubAlignment h st = Except.ok stc) :
    st.firstMatchPos_reference ≠ -1 ∧
    0 ≤ (st.running_ref.length : Int) - st.runningNonMatchPositions ∧
    stc = { st with
      running_ref := []
      running_query := []
      firstMatchPos_reference := -1
      reconstituted_ref := st.reconstituted_ref ++
        st.running_ref.take ((st.running_ref.length : Int) - st.runningNonMatchPositions).toNat ++
        (if st.runningNonMatchPositions > 0 then
          st.running_ref.drop ((st.running_ref.length : Int) - st.runningNonMatchPositions).toNat
         else [])
      reconstituted_query := st.reconstituted_query ++
        st.running_query.take ((st.running_ref.length : Int) - st.runningNonMatchPositions).toNat ++
        (if st.runningNonMatchPositions > 0 then
          st.running_query.drop ((st.running_ref.length : Int) - st.runningNonMatchPositions).toNat
         else [])
      haplotype_parts :=
        if (st.running_ref.take ((st.running_ref.length : Int)
            - st.runningNonMatchPositions).toNat).length ≠ 0 then
          st.haplotype_parts ++
            [{ ref := st.running_ref.take ((st.running_ref.length : Int)
                  - st.runningNonMatchPositions).toNat
               query := st.running_query.take ((st.running_ref.length : Int)
                  - st.runningNonMatchPositions).toNat
               query_name := h.query_name ++ "_part".toList ++ to_string st.haplotype_parts.length
               aligment_start_pos := st.firstMatchPos_reference
               alignment_last_pos := st.lastMatchPos_reference }]
        else st.haplotype_parts } := by
  unfold closeSubAlignment at hok
  simp only [bind_eq_ok, assertThat_eq_ok, rangeCheck_eq_ok, pure_eq_ok, exists_const] at hok
  obtain ⟨h1, h2, -, -, -, -, -, h3⟩ := hok
  exact ⟨h1, h2, h3.symm⟩

theorem isMatchColumn_iff (r q : Char) :
    isMatchColumn (r, q) = true ↔ r ≠ '-' ∧ r ≠ '*' ∧ q ≠ '-' ∧ q ≠ '*' := by
  simp [isMatchColumn, isGapCharacter, and_assoc]

theorem isQueryOnlyGap_iff (r q : Char) :
    isQueryOnlyGap (r, q) = true ↔ (q = '-' ∨ q = '*') ∧ ¬ (r = '-' ∨ r = '*') := by
  simp [isQueryOnlyGap, isGapCharacter]

theorem splitterColumn_nonmatch (max_gap_length : Int) (h : startingHaplotype) (len i : Nat)
    (r q : Char) (st st1 : SplitterState) (hm : isMatchColumn (r, q) = false)
    (hok : splitterColumn max_gap_length h len i r q st = Except.ok st1) :
    ¬ (i = 0 ∨ i = len - 1) ∧
    st1.reconstituted_ref = st.reconstituted_ref ∧
    st1.reconstituted_query = st.reconstituted_query ∧
    st1.running_ref = st.running_ref ++ [r] ∧
    st1.running_query = st.running_query ++ [q] ∧
    st1.haplotype_parts = st.haplotype_parts ∧
    st1.firstMatchPos_reference = st.firstMatchPos_reference ∧
    st1.lastMatchPos_reference = st.lastMatchPos_reference ∧
    st1.runningNonMatchPositions = st.runningNonMatchPositions + 1 ∧
    st1.runningQueryGapCharacters =
      (if isQueryOnlyGap (r, q) = true then st.runningQueryGapCharacters + 1
       else st.runningQueryGapCharacters) ∧
    st1.runningRefPos =
      (if isGapCharacter r = false then st.runningRefPos + 1 else st.runningRefPos) ∧
    st1.lastPos_control =
      (if isGapCharacter r = false then st.lastPos_control + 1 else st.lastPos_control) := by
  have hm2 : ¬ (r ≠ '-' ∧ r ≠ '*' ∧ q ≠ '-' ∧ q ≠ '*') := by
    rw [← isMatchColumn_iff]; simp [hm]
  have hd : decide (r ≠ '-' ∧ r ≠ '*' ∧ q ≠ '-' ∧ q ≠ '*') = false := by simpa using hm2
  unfold splitterColumn at hok
  simp only [hd, bind_eq_ok, assertThat_eq_ok, pure_eq_ok, exists_const, Bool.false_eq_true,
    if_false, decide_eq_true_eq] at hok
  obtain ⟨h1, a, rfl, rfl⟩ := hok
  refine ⟨by simpa using h1, rfl, rfl, rfl, rfl, rfl, rfl, rfl, rfl, ?_, ?_, ?_⟩
  · by_cases hq : isQueryOnlyGap (r, q) = true
    · have := (isQueryOnlyGap_iff r q).1 hq
      simp [hq, this]
    · have : ¬ ((q = '-' ∨ q = '*') ∧ ¬ (r = '-' ∨ r = '*')) := fun h => hq ((isQueryOnlyGap_iff r q).2 h)
      simp only [hq, Bool.false_eq_true, if_false]
      rw [if_neg this]
  · simp [isGapCharacter]
  · simp [isGapCharacter]

theorem splitterColumn_match (max_gap_length : Int) (h : startingHaplotype) (len i : Nat)
    (r q : Char) (st st1 : SplitterState) (hm : isMatchColumn (r, q) = true)
    (hok : splitterColumn max_gap_length h len i r q st = Except.ok st1) :
    ∃ stc : SplitterState,
      (if st.runningQueryGapCharacters > max_gap_length then
          closeSubAlignment h st = Except.ok stc
        else stc = st) ∧
      st1.reconstituted_ref = stc.reconstituted_ref ∧
      st1.reconstituted_query = stc.reconstituted_query ∧
      st1.running_ref = stc.running_ref ++ [r] ∧
      st1.running_query = stc.running_query ++ [q] ∧
      st1.haplotype_parts = stc.haplotype_parts ∧
      st1.firstMatchPos_reference =
        (if stc.firstMatchPos_reference = -1 then st.runningRefPos + 1
         else stc.firstMatchPos_reference) ∧
      st1.lastMatchPos_reference = st.runningRefPos + 1 ∧
      st1.runningNonMatchPositions = 0 ∧
      st1.runningQueryGapCharacters = 0 ∧
      st1.runningRefPos = st.runningRefPos + 1 ∧
      st1.lastPos_control = stc.lastPos_control + 1 := by
  have hm2 := (isMatchColumn_iff r q).1 hm
  have hr : r ≠ '-' ∧ r ≠ '*' := ⟨hm2.1, hm2.2.1⟩
  have hd : decide (r ≠ '-' ∧ r ≠ '*' ∧ q ≠ '-' ∧ q ≠ '*') = true := by simpa using hm2
  unfold splitterColumn at hok
  simp only [hd, bind_eq_ok, assertThat_eq_ok, pure_eq_ok, exists_const, if_true] at hok
  obtain ⟨-, st2, ⟨stc, h2, rfl⟩, rfl⟩ := hok
  refine ⟨stc, ?_, rfl, rfl, rfl, rfl, rfl, ?_, ?_, rfl, rfl, ?_, ?_⟩
  · split_ifs at h2 ⊢ with hc
    · exact h2
    · exact ((pure_eq_ok _ _).1 h2).symm
  · simp [hr]
  · simp [hr]
  · simp [hr]
  · simp [hr]

theorem head?_append_singleton_of_head? {α : Type} (l : List α) (x c : α)
    (h : l.head? = some c) : (l ++ [x]).head? = some c := by
  cases l with
  | nil => simp at h
  | cons a as => simpa using h

theorem splitterInv_nonmatch (max_gap_length : Int) (h : startingHaplotype) (len : Nat)
    (pr pq : List Char) (r q : Char) (st st1 : SplitterState)
    (hinv : SplitterInv max_gap_length len pr pq st)
    (hm : isMatchColumn (r, q) = false)
    (hok : splitterColumn max_gap_length h len pr.length r q st = Except.ok st1) :
    SplitterInv max_gap_length len (pr ++ [r]) (pq ++ [q]) st1 := by
  obtain ⟨hi, e1, e2, e3, e4, e5, e6, -, e8, e9, -, -⟩ :=
    splitterColumn_nonmatch max_gap_length h len pr.length r q st st1 hm hok
  have hpr : pr ≠ [] := by
    intro hnil; apply hi; left; simp [hnil]
  obtain ⟨core, tail, s1, s2, s3, s4, s5, s6⟩ := hinv.shape
  refine ⟨?_, ?_, ?_, ?_, ?_, ?_, ?_⟩
  · rw [e1, e3, ← List.append_assoc, hinv.recon_ref]
  · rw [e2, e4, ← List.append_assoc, hinv.recon_query]
  · intro hnil; simp at hnil
  · refine ⟨core, tail ++ [(r, q)], ?_, ?_, ?_, ?_, ?_, ?_⟩
    · rw [e3, s1]; simp
    · rw [e4, s2]; simp
    · rw [e8, s3]; simp
    · intro c hc
      rcases List.mem_append.1 hc with hc | hc
      · exact s4 c hc
      · rw [List.mem_singleton.1 hc]; exact hm
    · rw [e9, s5, List.countP_append]
      by_cases hq : isQueryOnlyGap (r, q) = true
      · simp [hq, List.countP_cons]
      · simp [hq, List.countP_cons]
    · intro _; exact s6 hpr
  · rw [e5]; exact hinv.parts
  · rw [e5, e1, e2]; exact hinv.drops
  · intro hl _
    exfalso; apply hi; right
    simp at hl; omega

theorem splitterInv_match (max_gap_length : Int) (h : startingHaplotype) (len : Nat)
    (pr pq : List Char) (r q : Char) (st st1 : SplitterState)
    (hinv : SplitterInv max_gap_length len pr pq st)
    (hm : isMatchColumn (r, q) = true)
    (hok : splitterColumn max_gap_length h len pr.length r q st = Except.ok st1) :
    SplitterInv max_gap_length len (pr ++ [r]) (pq ++ [q]) st1 := by
  obtain ⟨stc, hc, e1, e2, e3, e4, e5, -, -, e8, e9, -, -⟩ :=
    splitterColumn_match max_gap_length h len pr.length r q st st1 hm hok
  obtain ⟨core, tail, s1, s2, s3, s4, s5, s6⟩ := hinv.shape
  by_cases hclose : st.runningQueryGapCharacters > max_gap_length
  · -- the current sub-alignment is closed in front of the gap run
    rw [if_pos hclose] at hc
    obtain ⟨hfirst, -, hstc⟩ := closeSubAlignment_ok h st stc hc
    have hpr : pr ≠ [] := fun hnil => hfirst (hinv.fresh hnil)
    obtain ⟨hmax, hruns, c0, c1, hc0, hm0, hc1, hm1⟩ := s6 hpr
    have hcore : core ≠ [] := by
      intro hnil; simp [hnil] at hc0
    have hlen : ((st.running_ref.length : Int) - st.runningNonMatchPositions).toNat
        = core.length := by
      rw [s1, s3]; simp
    have htake_r : st.running_ref.take core.length = core.map Prod.fst := by
      rw [s1]; simp [List.take_append_eq_append_take]
    have htake_q : st.running_query.take core.length = core.map Prod.snd := by
      rw [s2]; simp [List.take_append_eq_append_take]
    have hdrop_r : (if st.runningNonMatchPositions > 0 then st.running_ref.drop core.length
        else []) = tail.map Prod.fst := by
      split_ifs with hn
      · rw [s1]; simp [List.drop_append_eq_append_drop]
      · have : tail = [] := by
          apply List.eq_nil_of_length_eq_zero
          rw [s3] at hn; omega
        simp [this]
    have hdrop_q : (if st.runningNonMatchPositions > 0 then st.running_query.drop core.length
        else []) = tail.map Prod.snd := by
      split_ifs with hn
      · rw [s2]; simp [List.drop_append_eq_append_drop]
      · have : tail = [] := by
          apply List.eq_nil_of_length_eq_zero
          rw [s3] at hn; omega
        simp [this]
    rw [hlen, htake_r, htake_q, hdrop_r, hdrop_q] at hstc
    have hne : (core.map Prod.fst).length ≠ 0 := by
      simp [hcore]
    rw [if_pos hne] at hstc
    subst hstc
    simp only at e1 e2 e3 e4 e5
    refine ⟨?_, ?_, ?_, ?_, ?_, ?_, ?_⟩
    · rw [e1, e3, ← hinv.recon_ref, s1]; simp
    · rw [e2, e4, ← hinv.recon_query, s2]; simp
    · intro hnil; simp at hnil
    · refine ⟨[(r, q)], [], by rw [e3]; rfl, by rw [e4]; rfl, by rw [e8]; rfl, by simp,
        by rw [e9]; rfl, ?_⟩
      intro _
      exact ⟨hmax, by simpa [queryGapsPerRun, hm] using hmax, (r, q), (r, q), rfl, hm, rfl, hm⟩
    · rw [e5]
      intro P hP
      rcases List.mem_append.1 hP with hP | hP
      · exact hinv.parts P hP
      · rw [List.mem_singleton.1 hP]
        refine ⟨by simp, ?_, ?_, ?_⟩
        · exact ⟨c0, by simpa [columns, zip_map_fst_snd] using hc0, hm0⟩
        · exact ⟨c1, by simpa [columns, zip_map_fst_snd] using hc1, hm1⟩
        · simpa [columns, zip_map_fst_snd] using hruns
    · obtain ⟨dropped, d1, d2, d3, d4⟩ := hinv.drops
      refine ⟨dropped ++ [(tail.map Prod.fst, tail.map Prod.snd)], ?_, ?_, ?_, ?_⟩
      · rw [e5]; simp [d1]
      · intro d hd
        rcases List.mem_append.1 hd with hd | hd
        · exact d2 d hd
        · rw [List.mem_singleton.1 hd]
          refine ⟨by simp, ?_⟩
          simpa [zip_map_fst_snd] using s4
      · rw [e1, e5, d3]
        simp only [List.map_append, List.map_cons, List.map_nil]
        rw [interleave_snoc _ _ _ _ (by simp [d1])]
      · rw [e2, e5, d4]
        simp only [List.map_append, List.map_cons, List.map_nil]
        rw [interleave_snoc _ _ _ _ (by simp [d1])]
    · intro _ _; exact e8
  · -- the column extends the current sub-alignment
    rw [if_neg hclose] at hc
    rw [hc] at e1 e2 e3 e4 e5
    have hmax : 0 ≤ max_gap_length := by
      by_cases hpr : pr = []
      · have hrun : st.running_ref = [] := by
          have := hinv.recon_ref
          rw [hpr] at this
          exact (List.append_eq_nil.1 this).2
        have htail : tail = [] := by
          rw [s1] at hrun
          have := List.map_eq_nil_iff.1 hrun
          exact (List.append_eq_nil.1 this).2
        rw [s5, htail] at hclose
        simpa using hclose
      · exact (s6 hpr).1
    refine ⟨?_, ?_, ?_, ?_, ?_, ?_, ?_⟩
    · rw [e1, e3, ← List.append_assoc, hinv.recon_ref]
    · rw [e2, e4, ← List.append_assoc, hinv.recon_query]
    · intro hnil; simp at hnil
    · refine ⟨core ++ tail ++ [(r, q)], [], by rw [e3, s1]; simp, by rw [e4, s2]; simp,
        by rw [e8]; rfl, by simp, by rw [e9]; rfl, ?_⟩
      intro _
      refine ⟨hmax, ?_, ?_⟩
      · rw [queryGapsPerRun_append, queryGapsPerRun_append]
        have htail : (queryGapsPerRun tail (runCountAfter core 0) : Int) ≤ max_gap_length := by
          by_cases hpr : pr = []
          · have hrun : st.running_ref = [] := by
              have := hinv.recon_ref
              rw [hpr] at this
              exact (List.append_eq_nil.1 this).2
            have htl : tail = [] := by
              rw [s1] at hrun
              have := List.map_eq_nil_iff.1 hrun
              exact (List.append_eq_nil.1 this).2
            rw [htl]; simpa [queryGapsPerRun] using hmax
          · obtain ⟨-, -, c0, c1, -, -, hc1, hm1⟩ := s6 hpr
            rw [runCountAfter_getLast core c1 0 hc1 hm1]
            have := queryGapsPerRun_nonmatch tail 0 s4
            rw [s5] at hclose
            omega
        have hcore : (queryGapsPerRun core 0 : Int) ≤ max_gap_length := by
          by_cases hpr : pr = []
          · have hrun : st.running_ref = [] := by
              have := hinv.recon_ref
              rw [hpr] at this
              exact (List.append_eq_nil.1 this).2
            have hcr : core = [] := by
              rw [s1] at hrun
              have := List.map_eq_nil_iff.1 hrun
              exact (List.append_eq_nil.1 this).1
            rw [hcr]; simpa [queryGapsPerRun] using hmax
          · exact (s6 hpr).2.1
        have hlast : (queryGapsPerRun [(r, q)] (runCountAfter (core ++ tail) 0) : Int)
            ≤ max_gap_length := by
          simpa [queryGapsPerRun, hm] using hmax
        simp only [Nat.cast_max]
        exact max_le (max_le hcore htail) hlast
      · by_cases hpr : pr = []
        · have hrun : st.running_ref = [] := by
            have := hinv.recon_ref
            rw [hpr] at this
            exact (List.append_eq_nil.1 this).2
          have hct : core ++ tail = [] := by
            rw [s1] at hrun
            exact List.map_eq_nil_iff.1 hrun
          rw [hct]
          exact ⟨(r, q), (r, q), rfl, hm, rfl, hm⟩
        · obtain ⟨-, -, c0, c1, hc0, hm0, -, -⟩ := s6 hpr
          refine ⟨c0, (r, q), ?_, hm0, by simp, hm⟩
          rw [List.append_assoc]
          cases core with
          | nil => simp at hc0
          | cons a as => simpa using hc0
    · rw [e5]; exact hinv.parts
    · rw [e5, e1, e2]; exact hinv.drops
    · intro _ _; exact e8

theorem splitterInv_column (max_gap_length : Int) (h : startingHaplotype) (len : Nat)
    (pr pq : List Char) (r q : Char) (st st1 : SplitterState)
    (hinv : SplitterInv max_gap_length len pr pq st)
    (hok : splitterColumn max_gap_length h len pr.length r q st = Except.ok st1) :
    SplitterInv max_gap_length len (pr ++ [r]) (pq ++ [q]) st1 := by
  cases hm : isMatchColumn (r, q) with
  | false => exact splitterInv_nonmatch max_gap_length h len pr pq r q st st1 hinv hm hok
  | true => exact splitterInv_match max_gap_length h len pr pq r q st st1 hinv hm hok

theorem splitterInv_init (max_gap_length : Int) (h : startingHaplotype) (len : Nat) :
    SplitterInv max_gap_length len [] [] (splitterInit h) := by
  refine ⟨rfl, rfl, fun _ => rfl, ⟨[], [], rfl, rfl, rfl, by simp, rfl, fun hne => absurd rfl hne⟩,
    by simp [splitterInit], ⟨[], rfl, by simp, rfl, rfl⟩, fun _ hne => absurd rfl hne⟩

theorem splitterLoop_inv (max_gap_length : Int) (h : startingHaplotype) (len : Nat) :
    ∀ (rs qs pr pq : List Char) (st st1 : SplitterState),
      SplitterInv max_gap_length len pr pq st →
      splitterLoop max_gap_length h len pr.length rs qs st = Except.ok st1 →
      rs.length ≤ qs.length ∧
        SplitterInv max_gap_length len (pr ++ rs) (pq ++ qs.take rs.length) st1
  | [], qs, pr, pq, st, st1, hinv, hok => by
    simp only [splitterLoop, Except.ok.injEq] at hok
    subst hok
    simpa using hinv
  | r :: rs, [], pr, pq, st, st1, hinv, hok => by
    simp [splitterLoop] at hok
  | r :: rs, q :: qs, pr, pq, st, st1, hinv, hok => by
    simp only [splitterLoop] at hok
    cases hcol : splitterColumn max_gap_length h len pr.length r q st with
    | error e => rw [hcol] at hok; simp at hok
    | ok st2 =>
      rw [hcol] at hok
      simp only at hok
      have hinv2 := splitterInv_column max_gap_length h len pr pq r q st st2 hinv hcol
      have hlen : (pr ++ [r]).length = pr.length + 1 := by simp
      rw [← hlen] at hok
      obtain ⟨h1, h2⟩ := splitterLoop_inv max_gap_length h len rs qs (pr ++ [r]) (pq ++ [q])
        st2 st1 hinv2 hok
      refine ⟨by simpa using h1, ?_⟩
      simpa using h2

theorem bind_eq_error {α β : Type} (m : Run α) (f : α → Run β) (e : Failure) :
    bind m f = Except.error e ↔ m = Except.error e ∨ ∃ a, m = Except.ok a ∧ f a = Except.error e := by
  cases m with
  | error e1 => simp [bind, Except.bind]
  | ok a => simp [bind, Except.bind]

theorem assertThat_eq_error (n : Nat) (c : Prop) [Decidable c] (e : Failure) :
    assertThat n c = Except.error e ↔ ¬ c ∧ e = Failure.assertion n := by
  unfold assertThat
  split_ifs with h <;> simp [h, eq_comm]

theorem rangeCheck_eq_error (n : Nat) (c : Prop) [Decidable c] (e : Failure) :
    rangeCheck n c = Except.error e ↔ ¬ c ∧ e = Failure.outOfRange n := by
  unfold rangeCheck
  split_ifs with h <;> simp [h, eq_comm]

theorem pure_ne_error {α : Type} (a : α) (e : Failure) : (pure a : Run α) ≠ Except.error e := by
  simp [pure, Except.pure]

theorem closeSubAlignment_error (h : startingHaplotype) (st : SplitterState) (e : Failure)
    (herr : closeSubAlignment h st = Except.error e) : beforeFinish e := by
  unfold closeSubAlignment at herr
  simp only [bind_eq_error, assertThat_eq_error, rangeCheck_eq_error, assertThat_eq_ok,
    rangeCheck_eq_ok, exists_const, pure_ne_error, or_false, and_false] at herr
  unfold beforeFinish
  rcases herr with h | ⟨-, h | ⟨-, h | ⟨-, h | ⟨-, h | ⟨-, h | ⟨-, h⟩⟩⟩⟩⟩⟩ <;>
    (rw [h.2]; constructor <;> simp)

theorem splitterColumn_error (max_gap_length : Int) (h : startingHaplotype) (len i : Nat)
    (r q : Char) (st : SplitterState) (e : Failure)
    (herr : splitterColumn max_gap_length h len i r q st = Except.error e) : beforeFinish e := by
  unfold splitterColumn at herr
  simp only [bind_eq_error, assertThat_eq_error, assertThat_eq_ok, exists_const,
    pure_ne_error, or_false, and_false] at herr
  rcases herr with h1 | ⟨-, h2⟩
  · rw [h1.2]; constructor <;> simp
  · by_cases hm : decide (r ≠ '-' ∧ r ≠ '*' ∧ q ≠ '-' ∧ q ≠ '*') = true
    · rw [if_pos hm] at h2
      simp only [bind_eq_error, pure_ne_error, and_false, exists_false, or_false] at h2
      by_cases hc : st.runningQueryGapCharacters > max_gap_length
      · rw [if_pos hc] at h2
        exact closeSubAlignment_error h st e h2
      · rw [if_neg hc] at h2
        exact absurd h2 (pure_ne_error _ _)
    · rw [if_neg hm] at h2
      simp only [pure_ne_error, exists_false, or_false] at h2

theorem splitterLoop_error (max_gap_length : Int) (h : startingHaplotype) (len : Nat) :
    ∀ (rs qs : List Char) (i : Nat) (st : SplitterState) (e : Failure),
      splitterLoop max_gap_length h len i rs qs st = Except.error e → beforeFinish e
  | [], qs, i, st, e, herr => by simp [splitterLoop] at herr
  | r :: rs, [], i, st, e, herr => by
    simp only [splitterLoop, Except.error.injEq] at herr
    rw [← herr]; constructor <;> simp
  | r :: rs, q :: qs, i, st, e, herr => by
    simp only [splitterLoop] at herr
    cases hcol : splitterColumn max_gap_length h len i r q st with
    | error e1 =>
      rw [hcol] at herr
      simp only [Except.error.injEq] at herr
      rw [← herr]
      exact splitterColumn_error max_gap_length h len i r q st e1 hcol
    | ok st2 =>
      rw [hcol] at herr
      exact splitterLoop_error max_gap_length h len rs qs (i + 1) st2 e herr

theorem splitterFinish_ok (max_gap_length : Int) (h : startingHaplotype) (st : SplitterState)
    (parts : List startingHaplotype)
    (hok : splitterFinish max_gap_length h st = Except.ok parts) :
    st.lastPos_control = h.alignment_last_pos ∧
    st.lastPos_control = st.lastMatchPos_reference ∧
    st.runningNonMatchPositions ≤ max_gap_length ∧
    parts = (if st.running_ref.length ≠ 0 then
      st.haplotype_parts ++
        [{ ref := st.running_ref
           query := st.running_query
           query_name := ([] : List Char) ++ "_part".toList ++ to_string st.haplotype_parts.length
           aligment_start_pos := st.firstMatchPos_reference
           alignment_last_pos := st.lastMatchPos_reference }]
      else st.haplotype_parts) ∧
    (if st.running_ref.length ≠ 0 then st.reconstituted_ref ++ st.running_ref
      else st.reconstituted_ref) = h.ref ∧
    (if st.running_ref.length ≠ 0 then st.reconstituted_query ++ st.running_query
      else st.reconstituted_query) = h.query := by
  unfold splitterFinish at hok
  simp only [bind_eq_ok, assertThat_eq_ok, pure_eq_ok, exists_const] at hok
  obtain ⟨h1, h2, h3, h5, h6, h4⟩ := hok
  exact ⟨h1, h2, h3, h4.symm, h5, h6⟩

theorem splitterFinish_error (max_gap_length : Int) (h : startingHaplotype) (len : Nat)
    (st : SplitterState) (e : Failure)
    (hinv : SplitterInv max_gap_length len h.ref h.query st)
    (herr : splitterFinish max_gap_length h st = Except.error e) : beforeFinish e := by
  unfold splitterFinish at herr
  simp only [bind_eq_error, assertThat_eq_error, assertThat_eq_ok, exists_const,
    pure_ne_error, or_false, and_false] at herr
  have hr : (if st.running_ref.length ≠ 0 then st.reconstituted_ref ++ st.running_ref
      else st.reconstituted_ref) = h.ref := by
    split_ifs with hne
    · exact hinv.recon_ref
    · have : st.running_ref = [] := List.eq_nil_of_length_eq_zero (by simpa using hne)
      rw [← hinv.recon_ref, this]; simp
  have hq : (if st.running_ref.length ≠ 0 then st.reconstituted_query ++ st.running_query
      else st.reconstituted_query) = h.query := by
    obtain ⟨core, tail, s1, s2, -⟩ := hinv.shape
    split_ifs with hne
    · exact hinv.recon_query
    · have : st.running_ref = [] := List.eq_nil_of_length_eq_zero (by simpa using hne)
      have hct : core ++ tail = [] := by
        rw [s1] at this; exact List.map_eq_nil_iff.1 this
      rw [← hinv.recon_query, s2, hct]; simp
  rcases herr with h1 | ⟨-, h1 | ⟨-, h1 | ⟨-, h1 | ⟨-, h1⟩⟩⟩⟩
  · rw [h1.2]; constructor <;> simp
  · rw [h1.2]; constructor <;> simp
  · rw [h1.2]; constructor <;> simp
  · exact absurd hr h1.1
  · exact absurd hq h1.1

theorem splitAlignment_ok (max_gap_length : Int) (h : startingHaplotype)
    (parts : List startingHaplotype) (hok : splitAlignment max_gap_length h = Except.ok parts) :
    ∃ st, SplitterInv max_gap_length h.ref.length h.ref (h.query.take h.ref.length) st ∧
      h.ref.length ≤ h.query.length ∧
      splitterLoop max_gap_length h h.ref.length 0 h.ref h.query (splitterInit h) = Except.ok st ∧
      splitterFinish max_gap_length h st = Except.ok parts := by
  unfold splitAlignment at hok
  cases hloop : splitterLoop max_gap_length h h.ref.length 0 h.ref h.query (splitterInit h) with
  | error e => rw [hloop] at hok; simp at hok
  | ok st =>
    rw [hloop] at hok
    obtain ⟨h1, h2⟩ := splitterLoop_inv max_gap_length h h.ref.length h.ref h.query [] []
      (splitterInit h) st (splitterInv_init max_gap_length h h.ref.length) hloop
    exact ⟨st, by simpa using h2, h1, rfl, hok⟩

theorem splitAlignment_goodParts (max_gap_length : Int) (h : startingHaplotype)
    (parts : List startingHaplotype) (hok : splitAlignment max_gap_length h = Except.ok parts) :
    ∀ P ∈ parts, GoodPart max_gap_length P := by
  obtain ⟨st, hinv, -, -, hfin⟩ := splitAlignment_ok max_gap_length h parts hok
  obtain ⟨-, -, -, hparts, -, -⟩ := splitterFinish_ok max_gap_length h st parts hfin
  intro P hP
  rw [hparts] at hP
  split_ifs at hP with hne
  · rcases List.mem_append.1 hP with hP | hP
    · exact hinv.parts P hP
    · rw [List.mem_singleton.1 hP]
      obtain ⟨core, tail, s1, s2, s3, s4, s5, s6⟩ := hinv.shape
      have hpr : h.ref ≠ [] := by
        intro hnil
        have := hinv.recon_ref
        rw [hnil] at this
        exact hne (by rw [(List.append_eq_nil.1 this).2]; rfl)
      have hn := hinv.finished rfl hpr
      have htail : tail = [] := by
        apply List.eq_nil_of_length_eq_zero
        rw [s3] at hn; exact_mod_cast hn
      subst htail
      simp only [List.append_nil] at s1 s2
      obtain ⟨-, hruns, c0, c1, hc0, hm0, hc1, hm1⟩ := s6 hpr
      refine ⟨by simp [s1, s2], ?_, ?_, ?_⟩
      · exact ⟨c0, by simpa [columns, s1, s2, zip_map_fst_snd] using hc0, hm0⟩
      · exact ⟨c1, by simpa [columns, s1, s2, zip_map_fst_snd] using hc1, hm1⟩
      · simpa [columns, s1, s2, zip_map_fst_snd] using hruns
  · exact hinv.parts P hP

theorem goodPart_ref_ne_nil (max_gap_length : Int) (P : startingHaplotype)
    (hP : GoodPart max_gap_length P) : P.ref ≠ [] := by
  obtain ⟨c, hc, -⟩ := hP.first
  intro hnil
  simp [columns, hnil] at hc

/-- C4. Every sub-alignment that the splitter emits is non-empty, has as many
query as ref characters, and its first and its last column are match or
mismatch columns. -/
theorem splitter_parts_first_last_match (max_gap_length : Int) (h : startingHaplotype)
    (parts : List startingHaplotype) (hok : splitAlignment max_gap_length h = Except.ok parts) :
    ∀ P ∈ parts, P.ref ≠ [] ∧ P.ref.length = P.query.length ∧
      (∃ c, (columns P).head? = some c ∧ isMatchColumn c = true) ∧
      (∃ c, (columns P).getLast? = some c ∧ isMatchColumn c = true) := by
  intro P hP
  have hg := splitAlignment_goodParts max_gap_length h parts hok P hP
  exact ⟨goodPart_ref_ne_nil max_gap_length P hg, hg.len, hg.first, hg.last⟩

/-- C3. For an alignment with as many query as ref characters whose first
column is a match or mismatch column, and for every `max_gap_length`, the
splitter never fails at the reconstitution assertions of lines 350 and
351; when it returns, the emitted sub-alignments, each followed by the gap run
dropped after it, concatenate to the input `ref` and `query`. -/
theorem splitter_reconstitution (max_gap_length : Int) (h : startingHaplotype)
    (hlen : h.ref.length = h.query.length)
    (hfirst : ∃ c, (columns h).head? = some c ∧ isMatchColumn c = true) :
    splitAlignment max_gap_length h ≠ Except.error (Failure.assertion 350) ∧
    splitAlignment max_gap_length h ≠ Except.error (Failure.assertion 351) ∧
    ∀ parts, splitAlignment max_gap_length h = Except.ok parts →
      ∃ dropped : List (List Char × List Char),
        dropped.length + 1 = parts.length ∧
        (∀ d ∈ dropped, d.1.length = d.2.length ∧
          ∀ c ∈ List.zip d.1 d.2, isMatchColumn c = false) ∧
        interleave (parts.map startingHaplotype.ref) (dropped.map Prod.fst) = h.ref ∧
        interleave (parts.map startingHaplotype.query) (dropped.map Prod.snd) = h.query := by
  have hq : h.query.take h.ref.length = h.query := by
    rw [hlen]; exact List.take_length _
  have herr : ∀ e, splitAlignment max_gap_length h = Except.error e → beforeFinish e := by
    intro e he
    unfold splitAlignment at he
    cases hloop : splitterLoop max_gap_length h h.ref.length 0 h.ref h.query (splitterInit h) with
    | error e1 =>
      rw [hloop] at he
      simp only [Except.error.injEq] at he
      rw [← he]
      exact splitterLoop_error max_gap_length h h.ref.length h.ref h.query 0 _ e1 hloop
    | ok st =>
      rw [hloop] at he
      obtain ⟨-, h2⟩ := splitterLoop_inv max_gap_length h h.ref.length h.ref h.query [] []
        (splitterInit h) st (splitterInv_init max_gap_length h h.ref.length) hloop
      simp only [List.nil_append, hq] at h2
      exact splitterFinish_error max_gap_length h h.ref.length st e h2 he
  refine ⟨fun he => (herr _ he).1 rfl, fun he => (herr _ he).2 rfl, ?_⟩
  intro parts hok
  obtain ⟨st, hinv, -, -, hfin⟩ := splitAlignment_ok max_gap_length h parts hok
  rw [hq] at hinv
  obtain ⟨-, -, -, hparts, -, -⟩ := splitterFinish_ok max_gap_length h st parts hfin
  obtain ⟨dropped, d1, d2, d3, d4⟩ := hinv.drops
  have hpr : h.ref ≠ [] := by
    obtain ⟨c, hc, -⟩ := hfirst
    intro hnil
    simp [columns, hnil] at hc
  have hrun : st.running_ref.length ≠ 0 := by
    obtain ⟨core, tail, s1, -, -, -, -, s6⟩ := hinv.shape
    obtain ⟨-, -, c0, c1, hc0, -⟩ := s6 hpr
    rw [s1]
    cases core with
    | nil => simp at hc0
    | cons a as => simp
  rw [if_pos hrun] at hparts
  refine ⟨dropped, by rw [hparts]; simp [d1], d2, ?_, ?_⟩
  · rw [hparts]
    simp only [List.map_append, List.map_cons, List.map_nil]
    rw [interleave_last _ _ _ (by simp [d1]), ← d3]
    exact hinv.recon_ref
  · rw [hparts]
    simp only [List.map_append, List.map_cons, List.map_nil]
    rw [interleave_last _ _ _ (by simp [d1]), ← d4]
    exact hinv.recon_query

theorem exampleLongDeletion_split :
    splitAlignment 5 exampleLongDeletion = Except.ok exampleLongDeletionParts := by
  rfl

/-- Witness for C4. -/
theorem splitter_parts_first_last_match_witness :
    splitAlignment 5 exampleLongDeletion = Except.ok exampleLongDeletionParts ∧
    ∀ P ∈ exampleLongDeletionParts, P.ref ≠ [] ∧ P.ref.length = P.query.length ∧
      (∃ c, (columns P).head? = some c ∧ isMatchColumn c = true) ∧
      (∃ c, (columns P).getLast? = some c ∧ isMatchColumn c = true) :=
  ⟨exampleLongDeletion_split,
    splitter_parts_first_last_match 5 exampleLongDeletion exampleLongDeletionParts
      exampleLongDeletion_split⟩

/-- Witness for C3: the theorem at `exampleLongDeletion` with
`max_gap_length = 5`. -/
theorem splitter_reconstitution_witness :
    (exampleLongDeletion.ref.length = exampleLongDeletion.query.length ∧
      ∃ c, (columns exampleLongDeletion).head? = some c ∧ isMatchColumn c = true) ∧
    (splitAlignment 5 exampleLongDeletion ≠ Except.error (Failure.assertion 350) ∧
    splitAlignment 5 exampleLongDeletion ≠ Except.error (Failure.assertion 351) ∧
    ∀ parts, splitAlignment 5 exampleLongDeletion = Except.ok parts →
      ∃ dropped : List (List Char × List Char),
        dropped.length + 1 = parts.length ∧
        (∀ d ∈ dropped, d.1.length = d.2.length ∧
          ∀ c ∈ List.zip d.1 d.2, isMatchColumn c = false) ∧
        interleave (parts.map startingHaplotype.ref) (dropped.map Prod.fst)
          = exampleLongDeletion.ref ∧
        interleave (parts.map startingHaplotype.query) (dropped.map Prod.snd)
          = exampleLongDeletion.query) :=
  ⟨⟨by decide, ⟨('A', 'A'), by decide, by decide⟩⟩,
    splitter_reconstitution 5 exampleLongDeletion (by decide) ⟨('A', 'A'), by decide, by decide⟩⟩


/-! ## Loader -/

theorem splitAlignment_interleave (max_gap_length : Int) (h : startingHaplotype)
    (parts : List startingHaplotype) (hok : splitAlignment max_gap_length h = Except.ok parts)
    (hne : h.ref ≠ []) :
    ∃ dropped : List (List Char × List Char),
      dropped.length + 1 = parts.length ∧
      (∀ d ∈ dropped, d.1.length = d.2.length ∧
        ∀ c ∈ List.zip d.1 d.2, isMatchColumn c = false) ∧
      interleave (parts.map startingHaplotype.ref) (dropped.map Prod.fst) = h.ref ∧
      interleave (parts.map startingHaplotype.query) (dropped.map Prod.snd) = h.query := by
  obtain ⟨st, hinv, -, -, hfin⟩ := splitAlignment_ok max_gap_length h parts hok
  obtain ⟨-, -, -, hparts, hr, hq⟩ := splitterFinish_ok max_gap_length h st parts hfin
  obtain ⟨dropped, d1, d2, d3, d4⟩ := hinv.drops
  have hrun : st.running_ref.length ≠ 0 := by
    obtain ⟨core, tail, s1, -, -, -, -, s6⟩ := hinv.shape
    obtain ⟨-, -, c0, c1, hc0, -⟩ := s6 hne
    rw [s1]
    cases core with
    | nil => simp at hc0
    | cons a as => simp
  rw [if_pos hrun] at hparts hr hq
  refine ⟨dropped, by rw [hparts]; simp [d1], d2, ?_, ?_⟩
  · rw [hparts]
    simp only [List.map_append, List.map_cons, List.map_nil]
    rw [interleave_last _ _ _ (by simp [d1]), ← d3]
    exact hr
  · rw [hparts]
    simp only [List.map_append, List.map_cons, List.map_nil]
    rw [interleave_last _ _ _ (by simp [d1]), ← d4]
    exact hq

theorem splitAlignment_ref_ne_nil (max_gap_length : Int) (h : startingHaplotype)
    (parts : List startingHaplotype) (hok : splitAlignment max_gap_length h = Except.ok parts)
    (hparts : parts ≠ []) : h.ref ≠ [] := by
  intro hnil
  obtain ⟨st, -, -, hloop, hfin⟩ := splitAlignment_ok max_gap_length h parts hok
  rw [hnil] at hloop
  simp only [splitterLoop, Except.ok.injEq] at hloop
  obtain ⟨-, -, -, hp, -, -⟩ := splitterFinish_ok max_gap_length h st parts hfin
  rw [← hloop] at hp
  simp [splitterInit] at hp
  exact hparts hp

theorem splitAlignment_single (max_gap_length : Int) (h P : startingHaplotype)
    (hok : splitAlignment max_gap_length h = Except.ok [P]) :
    P.ref = h.ref ∧ P.query = h.query := by
  have hne := splitAlignment_ref_ne_nil max_gap_length h [P] hok (by simp)
  obtain ⟨dropped, d1, -, d3, d4⟩ := splitAlignment_interleave max_gap_length h [P] hok hne
  have : dropped = [] := List.eq_nil_of_length_eq_zero (by simpa using d1)
  subst this
  simp only [List.map_cons, List.map_nil, interleave, List.append_nil] at d3 d4
  exact ⟨d3, d4⟩

theorem mem_indexPushBack (idx : AlignmentIndex) (key : Nat) (p : HapPtr) (k : Nat)
    (v : List HapPtr) (hmem : (k, v) ∈ indexPushBack idx key p) :
    ∀ x ∈ v, (x = p ∧ k = key) ∨ ∃ v0, (k, v0) ∈ idx ∧ x ∈ v0 := by
  induction idx with
  | nil =>
    simp only [indexPushBack, List.mem_singleton, Prod.mk.injEq] at hmem
    obtain ⟨rfl, rfl⟩ := hmem
    intro x hx
    left; exact ⟨by simpa using hx, rfl⟩
  | cons e rest ih =>
    obtain ⟨k0, v0⟩ := e
    simp only [indexPushBack] at hmem
    intro x hx
    split_ifs at hmem with h1 h2
    · rcases List.mem_cons.1 hmem with h | h
      · simp only [Prod.mk.injEq] at h
        obtain ⟨rfl, rfl⟩ := h
        left; exact ⟨by simpa using hx, rfl⟩
      · right; exact ⟨v, h, hx⟩
    · rcases List.mem_cons.1 hmem with h | h
      · simp only [Prod.mk.injEq] at h
        obtain ⟨rfl, rfl⟩ := h
        rcases List.mem_append.1 hx with hx | hx
        · right; exact ⟨v0, List.mem_cons_self _ _, hx⟩
        · left; exact ⟨by simpa using hx, h2.symm⟩
      · right; exact ⟨v, List.mem_cons_of_mem _ h, hx⟩
    · rcases List.mem_cons.1 hmem with h | h
      · right; exact ⟨v, by rw [h]; exact List.mem_cons_self _ _, hx⟩
      · rcases ih h x hx with h3 | ⟨v1, h3, h4⟩
        · left; exact h3
        · right; exact ⟨v1, List.mem_cons_of_mem _ h3, h4⟩

theorem indexAll_pushBack (P : Nat → HapPtr → Prop) (idx : AlignmentIndex) (key : Nat)
    (p : HapPtr) (hidx : IndexAll P idx) (hp : P key p) :
    IndexAll P (indexPushBack idx key p) := by
  intro k v hmem x hx
  rcases mem_indexPushBack idx key p k v hmem x hx with ⟨rfl, rfl⟩ | ⟨v0, h1, h2⟩
  · exact hp
  · exact hidx k v0 h1 x h2

theorem indexAll_publishParts (P : Nat → HapPtr → Prop) :
    ∀ (parts : List startingHaplotype) (idx : AlignmentIndex) (allocations : Nat),
      IndexAll P idx →
      (∀ hP ∈ parts, ∀ addr, P (toUnsignedInt hP.aligment_start_pos) { addr := addr, obj := hP }) →
      IndexAll P (publishParts parts idx allocations)
  | [], idx, _, hidx, _ => hidx
  | hP :: rest, idx, allocations, hidx, hparts => by
    simp only [publishParts]
    apply indexAll_publishParts P rest _ _ _ (fun x hx => hparts x (List.mem_cons_of_mem _ hx))
    exact indexAll_pushBack P idx _ _ hidx (hparts hP (List.mem_cons_self _ _) _)

theorem loadLine_ok (max_gap_length : Int) (st st1 : LoaderState) (l : AlignmentLine)
    (hok : loadLine max_gap_length st l = Except.ok st1) :
    ∃ alleles h parts,
      expectedAllelesScan (newStartingHaplotype l) = Except.ok alleles ∧
      startZeroHack (newStartingHaplotype l) = Except.ok h ∧
      splitAlignment max_gap_length h = Except.ok parts ∧ parts ≠ [] ∧
      st1.expectedAlleles = st.expectedAlleles ++ alleles ∧
      ((1 < parts.length ∧
          st1.alignments_starting_at =
            publishParts parts st.alignments_starting_at st.allocations ∧
          st1.n_alignments_loaded = st.n_alignments_loaded ∧
          st1.n_alignments_split = st.n_alignments_split + 1 ∧
          st1.n_alignments_sub = st.n_alignments_sub + parts.length ∧
          st1.allocations = st.allocations + parts.length) ∨
        (parts.length = 1 ∧
          st1.alignments_starting_at =
            indexPushBack st.alignments_starting_at (toUnsignedInt h.aligment_start_pos)
              { addr := st.allocations + 1, obj := h } ∧
          st1.n_alignments_loaded = st.n_alignments_loaded + 1 ∧
          st1.n_alignments_split = st.n_alignments_split ∧
          st1.n_alignments_sub = st.n_alignments_sub ∧
          st1.allocations = st.allocations + 1)) := by
  unfold loadLine at hok
  simp only [bind_eq_ok] at hok
  obtain ⟨alleles, h1, h, h2, parts, h3, h4⟩ := hok
  refine ⟨alleles, h, parts, h1, h2, h3, ?_⟩
  split_ifs at h4 with hlen
  · rw [pure_eq_ok] at h4
    subst h4
    refine ⟨?_, rfl, Or.inl ⟨hlen, rfl, rfl, rfl, rfl, rfl⟩⟩
    intro hnil; simp [hnil] at hlen
  · cases parts with
    | nil => simp [throw, throwThe, MonadExceptOf.throw] at h4
    | cons P rest =>
      simp only [pure_eq_ok] at h4
      subst h4
      have hrest : rest = [] := by
        have h5 : (P :: rest).length ≤ 1 := Nat.le_of_not_gt hlen
        cases rest with
        | nil => rfl
        | cons a b => simp at h5
      subst hrest
      exact ⟨by simp, rfl, Or.inr ⟨rfl, rfl, rfl, rfl, rfl, rfl⟩⟩

theorem loadLine_published (max_gap_length : Int) (st st1 : LoaderState) (l : AlignmentLine)
    (hidx : IndexAll (Published max_gap_length) st.alignments_starting_at)
    (hok : loadLine max_gap_length st l = Except.ok st1) :
    IndexAll (Published max_gap_length) st1.alignments_starting_at := by
  obtain ⟨alleles, h, parts, -, -, hsplit, hne, -, hcase⟩ := loadLine_ok max_gap_length st st1 l hok
  have hgood := splitAlignment_goodParts max_gap_length h parts hsplit
  rcases hcase with ⟨-, hi, -⟩ | ⟨hlen, hi, -⟩
  · rw [hi]
    apply indexAll_publishParts _ _ _ _ hidx
    intro hP hmem addr
    exact ⟨hgood hP hmem, rfl⟩
  · rw [hi]
    apply indexAll_pushBack _ _ _ _ hidx
    refine ⟨?_, rfl⟩
    cases parts with
    | nil => exact absurd rfl hne
    | cons P rest =>
      have hrest : rest = [] := by
        apply List.eq_nil_of_length_eq_zero
        simpa using hlen
      subst hrest
      obtain ⟨e1, e2⟩ := splitAlignment_single max_gap_length h P hsplit
      have hg := hgood P (List.mem_cons_self _ _)
      have hcols : columns h = columns P := by simp [columns, e1, e2]
      exact ⟨by rw [← e1, ← e2]; exact hg.len, by rw [hcols]; exact hg.first,
        by rw [hcols]; exact hg.last, by rw [hcols]; exact hg.runs⟩

theorem loadLines_published (max_gap_length : Int) :
    ∀ (lines : List AlignmentLine) (st st1 : LoaderState),
      IndexAll (Published max_gap_length) st.alignments_starting_at →
      loadLines max_gap_length lines st = Except.ok st1 →
      IndexAll (Published max_gap_length) st1.alignments_starting_at
  | [], st, st1, hidx, hok => by
    simp only [loadLines, Except.ok.injEq] at hok
    rw [← hok]; exact hidx
  | l :: rest, st, st1, hidx, hok => by
    simp only [loadLines] at hok
    cases hl : loadLine max_gap_length st l with
    | error e => rw [hl] at hok; simp at hok
    | ok st2 =>
      rw [hl] at hok
      exact loadLines_published max_gap_length rest st2 st1
        (loadLine_published max_gap_length st st2 l hidx hl) hok

theorem loader_published (max_gap_length : Int) (lines : List AlignmentLine) (st : LoaderState)
    (hok : loader max_gap_length lines = Except.ok st) :
    IndexAll (Published max_gap_length) st.alignments_starting_at := by
  apply loadLines_published max_gap_length lines loaderInit st _ hok
  intro key v hmem
  simp [loaderInit] at hmem

theorem longestRun_le_queryGapsPerRun (cs : List (Char × Char)) (k c : Nat) (hk : k ≤ c) :
    longestRun isQueryOnlyGap cs k ≤ max c (queryGapsPerRun cs c) := by
  induction cs generalizing k c with
  | nil => simp [longestRun, queryGapsPerRun, hk]
  | cons x xs ih =>
    by_cases hq : isQueryOnlyGap x = true
    · have hm : isMatchColumn x = false := by
        simp only [isQueryOnlyGap, Bool.and_eq_true, Bool.not_eq_true'] at hq
        simp [isMatchColumn, hq.1]
      have := ih (k + 1) (c + 1) (by omega)
      simp only [longestRun, queryGapsPerRun, hq, hm, if_true, Bool.false_eq_true, if_false]
      omega
    · have h0 := ih 0 c (by omega)
      have h1 := ih 0 0 (by omega)
      by_cases hm : isMatchColumn x = true
      · simp only [longestRun, queryGapsPerRun, hq, hm, if_true, Bool.false_eq_true, if_false]
        omega
      · simp only [longestRun, queryGapsPerRun, hq, hm, if_true, Bool.false_eq_true, if_false]
        omega

/-- C5 (amended). In every alignment that the loader publishes, each run of
consecutive non-match columns contains at most `max_gap_length` columns with a
gap in the query and none in the ref; in particular no run of consecutive such
columns is longer than `max_gap_length`. -/
theorem published_query_gaps_bounded (max_gap_length : Int) (lines : List AlignmentLine)
    (st : LoaderState) (hok : loader max_gap_length lines = Except.ok st) :
    ∀ key v, (key, v) ∈ st.alignments_starting_at → ∀ p ∈ v,
      (queryGapsPerRun (columns p.obj) 0 : Int) ≤ max_gap_length ∧
      (longestRun isQueryOnlyGap (columns p.obj) 0 : Int) ≤ max_gap_length := by
  intro key v hmem p hp
  have hpub := loader_published max_gap_length lines st hok key v hmem p hp
  refine ⟨hpub.good.runs, le_trans ?_ hpub.good.runs⟩
  have := longestRun_le_queryGapsPerRun (columns p.obj) 0 0 (le_refl 0)
  simp only [Nat.zero_le, max_eq_right] at this
  exact_mod_cast this

theorem exampleLongDeletionLine_loaded :
    loader 5 [exampleLongDeletionLine] = Except.ok exampleLongDeletionLoaded := by
  rfl

/-- Witness for C5: the amended theorem at `exampleLongDeletionLine`. -/
theorem published_query_gaps_bounded_witness :
    loader 5 [exampleLongDeletionLine] = Except.ok exampleLongDeletionLoaded ∧
    ∀ key v, (key, v) ∈ exampleLongDeletionLoaded.alignments_starting_at → ∀ p ∈ v,
      (queryGapsPerRun (columns p.obj) 0 : Int) ≤ 5 ∧
      (longestRun isQueryOnlyGap (columns p.obj) 0 : Int) ≤ 5 :=
  ⟨exampleLongDeletionLine_loaded,
    published_query_gaps_bounded 5 [exampleLongDeletionLine] exampleLongDeletionLoaded
      exampleLongDeletionLine_loaded⟩

/-- C5, counterexample. With `max_gap_length = 0` the loader publishes the
alignment `A-A` / `ATA` intact, although its ref contains a run of one gap
character, which is longer than `max_gap_length`. -/
theorem published_ref_gap_run_unbounded :
    ∃ st p, loader 0 [exampleInsertionLine] = Except.ok st ∧
      p ∈ indexAt st.alignments_starting_at 1 ∧
      p.obj.ref = exampleInsertionLine.ref ∧
      ((0 : Int) < (longestRun isGapCharacter p.obj.ref 0 : Int)) :=
  ⟨_, { addr := 1, obj := newStartingHaplotype exampleInsertionLine }, rfl, by decide, rfl,
    by decide⟩

theorem splitterColumn_lastPos (max_gap_length : Int) (h : startingHaplotype) (len i : Nat)
    (r q : Char) (st st1 : SplitterState)
    (hok : splitterColumn max_gap_length h len i r q st = Except.ok st1) :
    st1.lastPos_control = st.lastPos_control + (nonGapCount [r] : Int) := by
  cases hm : isMatchColumn (r, q) with
  | false =>
    obtain ⟨-, -, -, -, -, -, -, -, -, -, -, e⟩ :=
      splitterColumn_nonmatch max_gap_length h len i r q st st1 hm hok
    rw [e]
    by_cases hr : isGapCharacter r = false <;> simp [nonGapCount, hr]
  | true =>
    obtain ⟨stc, hc, -, -, -, -, -, -, -, -, -, -, e⟩ :=
      splitterColumn_match max_gap_length h len i r q st st1 hm hok
    have hr : isGapCharacter r = false := by
      simp only [isMatchColumn, Bool.and_eq_true, Bool.not_eq_true'] at hm
      exact hm.1
    have hstc : stc.lastPos_control = st.lastPos_control := by
      split_ifs at hc with hclose
      · obtain ⟨-, -, hs⟩ := closeSubAlignment_ok h st stc hc
        rw [hs]
      · rw [hc]
    rw [e, hstc]
    simp [nonGapCount, hr]

theorem splitterLoop_lastPos (max_gap_length : Int) (h : startingHaplotype) (len : Nat) :
    ∀ (rs qs : List Char) (i : Nat) (st st1 : SplitterState),
      splitterLoop max_gap_length h len i rs qs st = Except.ok st1 →
      st1.lastPos_control = st.lastPos_control + (nonGapCount rs : Int)
  | [], qs, i, st, st1, hok => by
    simp only [splitterLoop, Except.ok.injEq] at hok
    rw [← hok]; simp [nonGapCount]
  | r :: rs, [], i, st, st1, hok => by simp [splitterLoop] at hok
  | r :: rs, q :: qs, i, st, st1, hok => by
    simp only [splitterLoop] at hok
    cases hcol : splitterColumn max_gap_length h len i r q st with
    | error e => rw [hcol] at hok; simp at hok
    | ok st2 =>
      rw [hcol] at hok
      rw [splitterLoop_lastPos max_gap_length h len rs qs (i + 1) st2 st1 hok,
        splitterColumn_lastPos max_gap_length h len i r q st st2 hcol]
      simp only [nonGapCount, List.countP_cons, List.countP_nil]
      push_cast
      ring

theorem goodPart_ref_head (max_gap_length : Int) (P : startingHaplotype)
    (hP : GoodPart max_gap_length P) :
    ∃ r rs, P.ref = r :: rs ∧ isGapCharacter r = false := by
  obtain ⟨c, hc, hm⟩ := hP.first
  simp only [isMatchColumn, Bool.and_eq_true, Bool.not_eq_true'] at hm
  cases hr : P.ref with
  | nil => simp [columns, hr] at hc
  | cons r rs =>
    cases hq : P.query with
    | nil => simp [columns, hq] at hc
    | cons q qs =>
      simp only [columns, hr, hq, List.zip_cons_cons, List.head?_cons, Option.some.injEq] at hc
      refine ⟨r, rs, rfl, ?_⟩
      rw [← hc] at hm
      exact hm.1

theorem goodPart_ref_last (max_gap_length : Int) (P : startingHaplotype)
    (hP : GoodPart max_gap_length P) :
    ∃ rs r, P.ref = rs ++ [r] ∧ isGapCharacter r = false := by
  obtain ⟨c, hc, hm⟩ := hP.last
  simp only [isMatchColumn, Bool.and_eq_true, Bool.not_eq_true'] at hm
  have hmap : (columns P).map Prod.fst = P.ref := by
    unfold columns
    exact List.map_fst_zip _ _ (le_of_eq hP.len)
  have hlast : P.ref.getLast? = some c.1 := by
    rw [← hmap, List.getLast?_map, hc]; rfl
  rcases List.eq_nil_or_concat P.ref with hnil | ⟨rs, r, hr⟩
  · simp [hnil] at hlast
  · rw [hr] at hlast
    have : r = c.1 := by simpa using hlast
    exact ⟨rs, r, by simpa using hr, by rw [this]; exact hm.1⟩

theorem startZeroHack_ok (h0 h : startingHaplotype) (hok : startZeroHack h0 = Except.ok h) :
    h.alignment_last_pos = h0.alignment_last_pos ∧
    h.aligment_start_pos = (if h0.aligment_start_pos = 0 then 1 else h0.aligment_start_pos) ∧
    h.ref = (if h0.aligment_start_pos = 0 then h0.ref.drop 1 else h0.ref) ∧
    h.query = (if h0.aligment_start_pos = 0 then h0.query.drop 1 else h0.query) ∧
    h.query_name = h0.query_name := by
  unfold startZeroHack at hok
  by_cases hz : h0.aligment_start_pos = 0
  · simp only [hz, if_true] at hok ⊢
    split at hok
    · simp at hok
    · split_ifs at hok
      split at hok
      · simp at hok
      · split_ifs at hok
        simp only [Except.ok.injEq] at hok
        rw [← hok]
        exact ⟨rfl, rfl, rfl, rfl, rfl⟩
  · simp only [hz, if_false, Except.ok.injEq] at hok ⊢
    rw [← hok]
    exact ⟨rfl, rfl, rfl, rfl, rfl⟩

theorem loadLine_count (max_gap_length : Int) (st st1 : LoaderState) (l : AlignmentLine)
    (hok : loadLine max_gap_length st l = Except.ok st1) :
    ∃ h, startZeroHack (newStartingHaplotype l) = Except.ok h ∧
      h.aligment_start_pos - 1 + (nonGapCount h.ref : Int) = h.alignment_last_pos ∧
      1 ≤ nonGapCount h.ref := by
  obtain ⟨alleles, h, parts, -, hhack, hsplit, hne, -, -⟩ :=
    loadLine_ok max_gap_length st st1 l hok
  refine ⟨h, hhack, ?_, ?_⟩
  · obtain ⟨s, -, -, hloop, hfin⟩ := splitAlignment_ok max_gap_length h parts hsplit
    obtain ⟨h1, -⟩ := splitterFinish_ok max_gap_length h s parts hfin
    have := splitterLoop_lastPos max_gap_length h h.ref.length h.ref h.query 0 _ s hloop
    rw [← h1, this]
    simp [splitterInit]
  · have hrne := splitAlignment_ref_ne_nil max_gap_length h parts hsplit hne
    obtain ⟨dropped, d1, -, d3, -⟩ := splitAlignment_interleave max_gap_length h parts hsplit hrne
    cases parts with
    | nil => exact absurd rfl hne
    | cons P rest =>
      have hg := splitAlignment_goodParts max_gap_length h (P :: rest) hsplit P
        (List.mem_cons_self _ _)
      obtain ⟨r, rs, hr, hgap⟩ := goodPart_ref_head max_gap_length P hg
      have hhead : ∃ tl, h.ref = r :: tl := by
        rw [← d3]
        cases hd : dropped.map Prod.fst with
        | nil => exact ⟨rs ++ interleave (rest.map startingHaplotype.ref) [],
            by simp [interleave, hr]⟩
        | cons d ds => exact ⟨rs ++ (d ++ interleave (rest.map startingHaplotype.ref) ds),
            by simp [interleave, hr]⟩
      obtain ⟨tl, htl⟩ := hhead
      rw [htl]
      simp [nonGapCount, List.countP_cons, hgap]

/-- C6 (amended). For every input line that the loader accepts, with
`start_pos` the start after the start-zero hack (the parsed start, or 1 when
that is 0), `last_pos` the parsed inclusive end plus 1 and `ref` the ref string
after the hack, the number of non-gap characters in `ref` is
`last_pos - start_pos + 1`. -/
theorem loaded_nonGapCount (max_gap_length : Int) (st st1 : LoaderState) (l : AlignmentLine)
    (hok : loadLine max_gap_length st l = Except.ok st1) :
    ∃ h, startZeroHack (newStartingHaplotype l) = Except.ok h ∧
      h.aligment_start_pos =
        (if l.start % UINT_RANGE = 0 then 1 else ((l.start % UINT_RANGE : Nat) : Int)) ∧
      h.alignment_last_pos = ((l.last % UINT_RANGE : Nat) : Int) + 1 ∧
      (nonGapCount h.ref : Int) = h.alignment_last_pos - h.aligment_start_pos + 1 := by
  obtain ⟨h, hhack, hcount, hpos⟩ := loadLine_count max_gap_length st st1 l hok
  obtain ⟨e1, e2, -⟩ := startZeroHack_ok _ h hhack
  have hstart : h.aligment_start_pos =
      (if l.start % UINT_RANGE = 0 then 1 else ((l.start % UINT_RANGE : Nat) : Int)) := by
    rw [e2]
    simp only [newStartingHaplotype]
    by_cases hz : l.start % UINT_RANGE = 0
    · have : ((l.start % UINT_RANGE : Nat) : Int) = 0 := by exact_mod_cast hz
      rw [if_pos this, if_pos hz]
    · have : ¬ ((l.start % UINT_RANGE : Nat) : Int) = 0 := by exact_mod_cast hz
      rw [if_neg this, if_neg hz]
  have hge : 1 ≤ h.aligment_start_pos := by
    rw [hstart]
    split_ifs with hz
    · exact le_refl 1
    · have : 1 ≤ l.start % UINT_RANGE := Nat.one_le_iff_ne_zero.2 hz
      exact_mod_cast this
  have hlast : h.alignment_last_pos = ((l.last % UINT_RANGE : Nat) : Int) + 1 := by
    have hpos1 : 1 ≤ h.alignment_last_pos := by
      have : (1 : Int) ≤ (nonGapCount h.ref : Int) := by exact_mod_cast hpos
      omega
    rw [e1] at hpos1 ⊢
    simp only [newStartingHaplotype] at hpos1 ⊢
    have hlt : l.last % UINT_RANGE < UINT_RANGE := Nat.mod_lt _ (by decide)
    by_cases hw : l.last % UINT_RANGE + 1 < UINT_RANGE
    · rw [Nat.mod_eq_of_lt hw]; push_cast; ring
    · have heq : l.last % UINT_RANGE + 1 = UINT_RANGE := by omega
      rw [heq, Nat.mod_self] at hpos1
      simp at hpos1
  exact ⟨h, hhack, hstart, hlast, by omega⟩

theorem exampleShortLine_loaded :
    loadLine 5000 loaderInit exampleShortLine =
      Except.ok
        { alignments_starting_at :=
            [(1, [{ addr := 1, obj := newStartingHaplotype exampleShortLine }])]
          n_alignments_loaded := 1
          n_alignments_split := 0
          n_alignments_sub := 0
          expectedAlleles := []
          allocations := 1 } := by
  rfl

/-- Witness for C6: the amended theorem at `exampleShortLine`. -/
theorem loaded_nonGapCount_witness :
    loadLine 5000 loaderInit exampleShortLine =
      Except.ok
        { alignments_starting_at :=
            [(1, [{ addr := 1, obj := newStartingHaplotype exampleShortLine }])]
          n_alignments_loaded := 1
          n_alignments_split := 0
          n_alignments_sub := 0
          expectedAlleles := []
          allocations := 1 } ∧
    ∃ h, startZeroHack (newStartingHaplotype exampleShortLine) = Except.ok h ∧
      h.aligment_start_pos =
        (if exampleShortLine.start % UINT_RANGE = 0 then 1
         else ((exampleShortLine.start % UINT_RANGE : Nat) : Int)) ∧
      h.alignment_last_pos = ((exampleShortLine.last % UINT_RANGE : Nat) : Int) + 1 ∧
      (nonGapCount h.ref : Int) = h.alignment_last_pos - h.aligment_start_pos + 1 :=
  ⟨exampleShortLine_loaded,
    loaded_nonGapCount 5000 loaderInit _ exampleShortLine exampleShortLine_loaded⟩

/-- C6, counterexample. The loader accepts the line `AC` / `AC` with start 1
and inclusive end 1, so `start_pos = 1` and `last_pos = 2`; its ref has two
non-gap characters, not `last_pos - start_pos = 1`. -/
theorem loaded_nonGapCount_not_difference :
    (∃ st, loader 5000 [exampleShortLine] = Except.ok st) ∧
    (nonGapCount exampleShortLine.ref : Int) ≠
      ((exampleShortLine.last + 1 : Nat) : Int) - ((exampleShortLine.start : Nat) : Int) :=
  ⟨⟨_, rfl⟩, by decide⟩

/-! ## Gap structure -/

theorem vectorAt_set_self {α : Type} (v : List α) (i : Int) (x y : α)
    (h : vectorAt v i = some y) : vectorAt (v.set i.toNat x) i = some x := by
  unfold vectorAt at h ⊢
  split_ifs at h ⊢ with h0
  have hlt : i.toNat < v.length := (List.getElem?_eq_some_iff.1 h).1
  simp [List.getElem?_set, hlt]

theorem vectorAt_set_ne {α : Type} (v : List α) (i p : Int) (x : α) (h0 : 0 ≤ i)
    (hne : p ≠ i) : vectorAt (v.set i.toNat x) p = vectorAt v p := by
  unfold vectorAt
  split_ifs with hp
  · have : i.toNat ≠ p.toNat := by omega
    simp [List.getElem?_set, this]
  · rfl

theorem vectorAt_nonneg {α : Type} (v : List α) (i : Int) (x : α)
    (h : vectorAt v i = some x) : 0 ≤ i ∧ i.toNat < v.length := by
  unfold vectorAt at h
  split_ifs at h with h0
  exact ⟨h0, (List.getElem?_eq_some_iff.1 h).1⟩

theorem vectorAt_replicate (n : Nat) (x y : Int) (i : Int)
    (h : vectorAt (List.replicate n x) i = some y) : y = x := by
  unfold vectorAt at h
  split_ifs at h with h0
  obtain ⟨hlt, hget⟩ := List.getElem?_eq_some_iff.1 h
  simp at hget
  exact hget.symm

theorem gapsExtend_refl (G : List Int) : GapsExtend G G := ⟨rfl, fun _ _ h _ => h⟩

theorem gapsExtend_trans (G G1 G2 : List Int) (h1 : GapsExtend G G1) (h2 : GapsExtend G1 G2) :
    GapsExtend G G2 :=
  ⟨h2.1.trans h1.1, fun p g hp hg => h2.2 p g (h1.2 p g hp hg) hg⟩

theorem storeGaps_ok (start_pos : Int) (w : GapWalk) (G1 : List Int)
    (hok : storeGaps start_pos w = Except.ok G1) :
    GapsExtend w.gap_structure G1 ∧
    (w.ref_pos ≠ start_pos → vectorAt G1 w.ref_pos = some w.running_gaps) ∧
    (∀ p g, vectorAt G1 p = some g → g ≠ -1 →
      vectorAt w.gap_structure p = some g ∨
        (w.ref_pos ≠ start_pos ∧ p = w.ref_pos ∧ g = w.running_gaps)) := by
  unfold storeGaps at hok
  by_cases hs : w.ref_pos ≠ start_pos
  · rw [if_pos hs] at hok
    cases hv : vectorAt w.gap_structure w.ref_pos with
    | none => rw [hv] at hok; simp at hok
    | some g0 =>
      rw [hv] at hok
      simp only at hok
      have h0 := (vectorAt_nonneg _ _ _ hv).1
      by_cases hm : g0 = -1
      · rw [if_pos hm] at hok
        simp only [Except.ok.injEq] at hok
        subst hok
        refine ⟨⟨by simp, ?_⟩, fun _ => vectorAt_set_self _ _ _ _ hv, ?_⟩
        · intro p g hp hgne
          by_cases hpe : p = w.ref_pos
          · rw [hpe, hv] at hp
            simp only [Option.some.injEq] at hp
            exact absurd (hp ▸ hm) hgne
          · rw [vectorAt_set_ne _ _ _ _ h0 hpe]; exact hp
        · intro p g hp hgne
          by_cases hpe : p = w.ref_pos
          · right
            rw [hpe, vectorAt_set_self _ _ _ _ hv] at hp
            simp only [Option.some.injEq] at hp
            exact ⟨hs, hpe, hp.symm⟩
          · left
            rw [vectorAt_set_ne _ _ _ _ h0 hpe] at hp; exact hp
      · rw [if_neg hm] at hok
        by_cases hne : g0 ≠ w.running_gaps
        · rw [if_pos hne] at hok; simp at hok
        · rw [if_neg hne] at hok
          simp only [Except.ok.injEq] at hok
          subst hok
          have heq : g0 = w.running_gaps := not_not.1 hne
          exact ⟨gapsExtend_refl _, fun _ => by rw [hv, heq], fun p g hp _ => Or.inl hp⟩
  · rw [if_neg hs] at hok
    simp only [Except.ok.injEq] at hok
    subst hok
    exact ⟨gapsExtend_refl _, fun h => absurd h hs, fun p g hp _ => Or.inl hp⟩

theorem storeGaps_error (start_pos : Int) (w : GapWalk) (e : Failure)
    (herr : storeGaps start_pos w = Except.error e) :
    e = Failure.outOfRange 505 ∨
    (e = Failure.gapStructureMismatch ∧ w.ref_pos ≠ start_pos ∧
      ∃ g, vectorAt w.gap_structure w.ref_pos = some g ∧ g ≠ -1 ∧ g ≠ w.running_gaps) := by
  unfold storeGaps at herr
  by_cases hs : w.ref_pos ≠ start_pos
  · rw [if_pos hs] at herr
    cases hv : vectorAt w.gap_structure w.ref_pos with
    | none =>
      rw [hv] at herr
      simp only [Except.error.injEq] at herr
      left; exact herr.symm
    | some g0 =>
      rw [hv] at herr
      simp only at herr
      by_cases hm : g0 = -1
      · rw [if_pos hm] at herr; simp at herr
      · rw [if_neg hm] at herr
        by_cases hne : g0 ≠ w.running_gaps
        · rw [if_pos hne] at herr
          simp only [Except.error.injEq] at herr
          right; exact ⟨herr.symm, hs, g0, rfl, hm, hne⟩
        · rw [if_neg hne] at herr; simp at herr
  · rw [if_neg hs] at herr; simp at herr

theorem gapWalkColumn_gap (R : List Char) (start_pos : Int) (w : GapWalk) (c : Char)
    (hc : isGapCharacter c = true) :
    gapWalkColumn R start_pos w c = Except.ok { w with running_gaps := w.running_gaps + 1 } := by
  have : c = '-' ∨ c = '*' := (isGapCharacter_eq_true_iff c).1 hc
  unfold gapWalkColumn
  rw [if_pos this]

theorem gapWalkColumn_nongap_ok (R : List Char) (start_pos : Int) (w w1 : GapWalk) (c : Char)
    (hc : isGapCharacter c = false)
    (hok : gapWalkColumn R start_pos w c = Except.ok w1) :
    ∃ G1, storeGaps start_pos w = Except.ok G1 ∧ w1.gap_structure = G1 ∧
      w1.ref_pos = w.ref_pos + 1 ∧ w1.running_gaps = 0 ∧
      vectorAt R (w.ref_pos + 1) = some c ∧
      w1.coverage_structure.length = w.coverage_structure.length := by
  have hn : ¬ (c = '-' ∨ c = '*') := by
    rw [← isGapCharacter_eq_true_iff]; simp [hc]
  unfold gapWalkColumn at hok
  rw [if_neg hn] at hok
  cases hs : storeGaps start_pos w with
  | error e => rw [hs] at hok; simp at hok
  | ok G1 =>
    rw [hs] at hok
    simp only at hok
    cases hcv : vectorAt w.coverage_structure (w.ref_pos + 1) with
    | none => rw [hcv] at hok; simp at hok
    | some n =>
      rw [hcv] at hok
      simp only at hok
      cases hrv : vectorAt R (w.ref_pos + 1) with
      | none => rw [hrv] at hok; simp at hok
      | some r =>
        rw [hrv] at hok
        simp only at hok
        by_cases hcr : c = r ∧ r.toNat < 128
        · rw [if_pos hcr] at hok
          simp only [Except.ok.injEq] at hok
          subst hok
          exact ⟨G1, rfl, rfl, rfl, rfl, by rw [hcr.1], by simp⟩
        · rw [if_neg hcr] at hok; simp at hok

theorem gapWalkColumn_nongap_value (R : List Char) (start_pos : Int) (w w1 : GapWalk) (c : Char)
    (hc : isGapCharacter c = false)
    (hok : gapWalkColumn R start_pos w c = Except.ok w1) : c.toNat < 128 := by
  have hn : ¬ (c = '-' ∨ c = '*') := by
    rw [← isGapCharacter_eq_true_iff]; simp [hc]
  unfold gapWalkColumn at hok
  rw [if_neg hn] at hok
  cases hs : storeGaps start_pos w with
  | error e => rw [hs] at hok; simp at hok
  | ok G1 =>
    rw [hs] at hok
    simp only at hok
    cases hcv : vectorAt w.coverage_structure (w.ref_pos + 1) with
    | none => rw [hcv] at hok; simp at hok
    | some n =>
      rw [hcv] at hok
      simp only at hok
      cases hrv : vectorAt R (w.ref_pos + 1) with
      | none => rw [hrv] at hok; simp at hok
      | some r =>
        rw [hrv] at hok
        simp only at hok
        by_cases hcr : c = r ∧ r.toNat < 128
        · rw [hcr.1]; exact hcr.2
        · rw [if_neg hcr] at hok; simp at hok

theorem gapWalkColumn_nongap_error (R : List Char) (start_pos : Int) (w : GapWalk) (c : Char)
    (e : Failure) (hc : isGapCharacter c = false)
    (herr : gapWalkColumn R start_pos w c = Except.error e) :
    storeGaps start_pos w = Except.error e ∨ e ≠ Failure.gapStructureMismatch := by
  have hn : ¬ (c = '-' ∨ c = '*') := by
    rw [← isGapCharacter_eq_true_iff]; simp [hc]
  unfold gapWalkColumn at herr
  rw [if_neg hn] at herr
  cases hs : storeGaps start_pos w with
  | error e1 =>
    rw [hs] at herr
    simp only [Except.error.injEq] at herr
    left; rw [herr]
  | ok G1 =>
    rw [hs] at herr
    simp only at herr
    right
    cases hcv : vectorAt w.coverage_structure (w.ref_pos + 1) with
    | none => rw [hcv] at herr; simp only [Except.error.injEq] at herr; rw [← herr]; simp
    | some n =>
      rw [hcv] at herr
      simp only at herr
      cases hrv : vectorAt R (w.ref_pos + 1) with
      | none => rw [hrv] at herr; simp only [Except.error.injEq] at herr; rw [← herr]; simp
      | some r =>
        rw [hrv] at herr
        simp only at herr
        by_cases hcr : c = r ∧ r.toNat < 128
        · rw [if_pos hcr] at herr; simp at herr
        · rw [if_neg hcr] at herr; simp only [Except.error.injEq] at herr; rw [← herr]; simp

theorem gapSlots_nonneg (start_pos : Int) : ∀ (cs : List Char) (ref_pos g0 : Int),
    0 ≤ g0 → ∀ s ∈ gapSlots start_pos cs ref_pos g0, 0 ≤ s.2
  | [], _, _, _, s, hs => by simp [gapSlots] at hs
  | c :: cs, ref_pos, g0, hg, s, hs => by
    simp only [gapSlots] at hs
    split_ifs at hs with hc hne
    · exact gapSlots_nonneg start_pos cs ref_pos (g0 + 1) (by omega) s hs
    · rcases List.mem_append.1 hs with h | h
      · rw [List.mem_singleton.1 h]; exact hg
      · exact gapSlots_nonneg start_pos cs (ref_pos + 1) 0 (le_refl 0) s h
    · rw [List.nil_append] at hs
      exact gapSlots_nonneg start_pos cs (ref_pos + 1) 0 (le_refl 0) s hs

theorem gapWalkColumns_ok (R : List Char) (start_pos : Int) :
    ∀ (cs : List Char) (w w1 : GapWalk), 0 ≤ w.running_gaps →
      gapWalkColumns R start_pos cs w = Except.ok w1 →
      GapsExtend w.gap_structure w1.gap_structure ∧
      (∀ s ∈ gapSlots start_pos cs w.ref_pos w.running_gaps,
        vectorAt w1.gap_structure s.1 = some s.2) ∧
      (∀ p g, vectorAt w1.gap_structure p = some g → g ≠ -1 →
        vectorAt w.gap_structure p = some g ∨
          (p, g) ∈ gapSlots start_pos cs w.ref_pos w.running_gaps) ∧
      w1.ref_pos = w.ref_pos + (nonGapCount cs : Int) ∧
      (∀ j r, cs[j]? = some r → isGapCharacter r = false →
        vectorAt R (w.ref_pos + (nonGapCount (cs.take (j + 1)) : Int)) = some r) ∧
      w1.coverage_structure.length = w.coverage_structure.length
  | [], w, w1, _, hok => by
    simp only [gapWalkColumns, Except.ok.injEq] at hok
    subst hok
    exact ⟨gapsExtend_refl _, by simp [gapSlots], fun p g hp _ => Or.inl hp,
      by simp [nonGapCount], by simp, rfl⟩
  | c :: cs, w, w1, hg, hok => by
    simp only [gapWalkColumns] at hok
    cases hc : isGapCharacter c with
    | true =>
      rw [gapWalkColumn_gap R start_pos w c hc] at hok
      simp only at hok
      obtain ⟨h1, h2, h3, h4, h5, h6⟩ := gapWalkColumns_ok R start_pos cs _ w1
        (by simp only; omega) hok
      simp only at h1 h2 h3 h4 h5 h6
      refine ⟨h1, ?_, ?_, ?_, ?_, h6⟩
      · simpa [gapSlots, hc] using h2
      · simpa [gapSlots, hc] using h3
      · rw [h4]; simp [nonGapCount, List.countP_cons, hc]
      · intro j r hj hr
        cases j with
        | zero =>
          simp only [List.getElem?_cons_zero, Option.some.injEq] at hj
          rw [hj] at hc; rw [hc] at hr; exact absurd hr (by simp)
        | succ j =>
          have := h5 j r (by simpa using hj) hr
          simpa [nonGapCount, List.countP_cons, hc] using this
    | false =>
      cases hcol : gapWalkColumn R start_pos w c with
      | error e => rw [hcol] at hok; simp at hok
      | ok w2 =>
        rw [hcol] at hok
        simp only at hok
        obtain ⟨G1, hs, e1, e2, e3, e4, e5⟩ :=
          gapWalkColumn_nongap_ok R start_pos w w2 c hc hcol
        obtain ⟨s1, s2, s3⟩ := storeGaps_ok start_pos w G1 hs
        obtain ⟨h1, h2, h3, h4, h5, h6⟩ := gapWalkColumns_ok R start_pos cs w2 w1
          (by rw [e3]) hok
        rw [e1] at h1 h3
        rw [e2, e3] at h2 h3
        rw [e2] at h4 h5
        refine ⟨gapsExtend_trans _ _ _ s1 h1, ?_, ?_, ?_, ?_, by rw [h6, e5]⟩
        · intro s hmem
          simp only [gapSlots, hc, Bool.false_eq_true, if_false] at hmem
          rcases List.mem_append.1 hmem with h | h
          · split_ifs at h with hne
            · rw [List.mem_singleton.1 h]
              simp only
              apply h1.2 _ _ (s2 hne)
              omega
            · simp at h
          · exact h2 s h
        · intro p g hp hgne
          simp only [gapSlots, hc, Bool.false_eq_true, if_false, List.mem_append]
          rcases h3 p g hp hgne with h | h
          · rcases s3 p g h hgne with h' | ⟨hne, hp', hg'⟩
            · left; exact h'
            · right; left
              rw [if_pos hne, hp', hg']; simp
          · right; right; exact h
        · rw [h4]; simp [nonGapCount, List.countP_cons, hc]; ring
        · intro j r hj hr
          cases j with
          | zero =>
            simp only [List.getElem?_cons_zero, Option.some.injEq] at hj
            rw [← hj]
            simpa [nonGapCount, List.countP_cons, hc] using e4
          | succ j =>
            have := h5 j r (by simpa using hj) hr
            simp only [List.take_succ_cons, nonGapCount, List.countP_cons, hc, Bool.not_false,
              if_true] at this ⊢
            rw [← this]
            congr 1
            push_cast
            ring

theorem gapWalkColumns_mismatch (R : List Char) (start_pos : Int) :
    ∀ (cs : List Char) (w : GapWalk),
      gapWalkColumns R start_pos cs w = Except.error Failure.gapStructureMismatch →
      ∃ p g g1, (p, g) ∈ gapSlots start_pos cs w.ref_pos w.running_gaps ∧ g1 ≠ -1 ∧ g1 ≠ g ∧
        (vectorAt w.gap_structure p = some g1 ∨
          (p, g1) ∈ gapSlots start_pos cs w.ref_pos w.running_gaps)
  | [], w, herr => by simp [gapWalkColumns] at herr
  | c :: cs, w, herr => by
    simp only [gapWalkColumns] at herr
    cases hc : isGapCharacter c with
    | true =>
      rw [gapWalkColumn_gap R start_pos w c hc] at herr
      simp only at herr
      obtain ⟨p, g, g1, h1, h2, h3, h4⟩ := gapWalkColumns_mismatch R start_pos cs _ herr
      simp only at h1 h4
      exact ⟨p, g, g1, by simpa [gapSlots, hc] using h1, h2, h3, by simpa [gapSlots, hc] using h4⟩
    | false =>
      cases hcol : gapWalkColumn R start_pos w c with
      | error e =>
        rw [hcol] at herr
        simp only [Except.error.injEq] at herr
        subst herr
        rcases gapWalkColumn_nongap_error R start_pos w c _ hc hcol with h | h
        · rcases storeGaps_error start_pos w _ h with h' | ⟨-, hne, g1, hv, hg1, hg2⟩
          · simp at h'
          · refine ⟨w.ref_pos, w.running_gaps, g1, ?_, hg1, hg2, Or.inl hv⟩
            simp [gapSlots, hc, hne]
        · exact absurd rfl h
      | ok w2 =>
        rw [hcol] at herr
        simp only at herr
        obtain ⟨G1, hs, e1, e2, e3, -, -⟩ := gapWalkColumn_nongap_ok R start_pos w w2 c hc hcol
        obtain ⟨-, -, s3⟩ := storeGaps_ok start_pos w G1 hs
        obtain ⟨p, g, g1, h1, h2, h3, h4⟩ := gapWalkColumns_mismatch R start_pos cs w2 herr
        rw [e2, e3] at h1 h4
        rw [e1] at h4
        refine ⟨p, g, g1, ?_, h2, h3, ?_⟩
        · simp only [gapSlots, hc, Bool.false_eq_true, if_false, List.mem_append]
          right; exact h1
        · simp only [gapSlots, hc, Bool.false_eq_true, if_false, List.mem_append]
          rcases h4 with h | h
          · rcases s3 p g1 h h2 with h' | ⟨hne, hp', hg'⟩
            · left; exact h'
            · right; left; rw [if_pos hne, hp', hg']; simp
          · right; right; exact h

theorem gapWalkAlignment_ok (R : List Char) (key : Nat) (a : HapPtr)
    (vs vs1 : List Int × List Int)
    (hok : gapWalkAlignment R key a vs = Except.ok vs1) :
    Walked R key a ∧ GapsExtend vs.1 vs1.1 ∧
    (∀ s ∈ alignmentSlots key a, vectorAt vs1.1 s.1 = some s.2) ∧
    (∀ p g, vectorAt vs1.1 p = some g → g ≠ -1 →
      vectorAt vs.1 p = some g ∨ (p, g) ∈ alignmentSlots key a) ∧
    vs1.2.length = vs.2.length := by
  unfold gapWalkAlignment at hok
  simp only [bind_eq_ok, assertThat_eq_ok, pure_eq_ok, exists_const] at hok
  obtain ⟨hkey, w, hw, hlast, rfl⟩ := hok
  obtain ⟨h1, h2, h3, h4, h5, h6⟩ := gapWalkColumns_ok R (castToInt key - 1) a.obj.ref _ w
    (by simp) hw
  simp only at h1 h2 h3 h4 h5 h6
  exact ⟨⟨hkey, by rw [← hlast, h4], h5⟩, h1, h2, h3, h6⟩

theorem gapWalkAlignment_mismatch (R : List Char) (key : Nat) (a : HapPtr)
    (vs : List Int × List Int)
    (herr : gapWalkAlignment R key a vs = Except.error Failure.gapStructureMismatch) :
    ∃ p g g1, (p, g) ∈ alignmentSlots key a ∧ g1 ≠ -1 ∧ g1 ≠ g ∧
      (vectorAt vs.1 p = some g1 ∨ (p, g1) ∈ alignmentSlots key a) := by
  unfold gapWalkAlignment at herr
  simp only [bind_eq_error, assertThat_eq_error, assertThat_eq_ok, exists_const,
    pure_ne_error, or_false, and_false] at herr
  rcases herr with h | ⟨-, h | ⟨w, -, h⟩⟩
  · simp at h
  · exact gapWalkColumns_mismatch R (castToInt key - 1) a.obj.ref _ h
  · simp at h

theorem gapWalkVector_ok (R : List Char) (key : Nat) :
    ∀ (v : List HapPtr) (vs vs1 : List Int × List Int),
      gapWalkVector R key v vs = Except.ok vs1 →
      (∀ a ∈ v, Walked R key a) ∧ GapsExtend vs.1 vs1.1 ∧
      (∀ s ∈ vectorSlots key v, vectorAt vs1.1 s.1 = some s.2) ∧
      (∀ p g, vectorAt vs1.1 p = some g → g ≠ -1 →
        vectorAt vs.1 p = some g ∨ (p, g) ∈ vectorSlots key v) ∧
      vs1.2.length = vs.2.length
  | [], vs, vs1, hok => by
    simp only [gapWalkVector, Except.ok.injEq] at hok
    subst hok
    exact ⟨by simp, gapsExtend_refl _, by simp [vectorSlots], fun p g hp _ => Or.inl hp, rfl⟩
  | a :: rest, vs, vs1, hok => by
    simp only [gapWalkVector] at hok
    cases ha : gapWalkAlignment R key a vs with
    | error e => rw [ha] at hok; simp at hok
    | ok vs2 =>
      rw [ha] at hok
      simp only at hok
      obtain ⟨a1, a2, a3, a4, a5⟩ := gapWalkAlignment_ok R key a vs vs2 ha
      obtain ⟨r1, r2, r3, r4, r5⟩ := gapWalkVector_ok R key rest vs2 vs1 hok
      refine ⟨?_, gapsExtend_trans _ _ _ a2 r2, ?_, ?_, by rw [r5, a5]⟩
      · intro x hx
        rcases List.mem_cons.1 hx with h | h
        · rw [h]; exact a1
        · exact r1 x h
      · intro s hs
        simp only [vectorSlots, List.mem_append] at hs
        rcases hs with h | h
        · apply r2.2 _ _ (a3 s h)
          have := gapSlots_nonneg _ _ _ _ (le_refl 0) s h
          omega
        · exact r3 s h
      · intro p g hp hg
        simp only [vectorSlots, List.mem_append]
        rcases r4 p g hp hg with h | h
        · rcases a4 p g h hg with h' | h'
          · left; exact h'
          · right; left; exact h'
        · right; right; exact h

theorem gapWalkVector_mismatch (R : List Char) (key : Nat) :
    ∀ (v : List HapPtr) (vs : List Int × List Int),
      gapWalkVector R key v vs = Except.error Failure.gapStructureMismatch →
      ∃ p g g1, (p, g) ∈ vectorSlots key v ∧ g1 ≠ -1 ∧ g1 ≠ g ∧
        (vectorAt vs.1 p = some g1 ∨ (p, g1) ∈ vectorSlots key v)
  | [], vs, herr => by simp [gapWalkVector] at herr
  | a :: rest, vs, herr => by
    simp only [gapWalkVector] at herr
    cases ha : gapWalkAlignment R key a vs with
    | error e =>
      rw [ha] at herr
      simp only [Except.error.injEq] at herr
      subst herr
      obtain ⟨p, g, g1, h1, h2, h3, h4⟩ := gapWalkAlignment_mismatch R key a vs ha
      refine ⟨p, g, g1, by simp [vectorSlots, h1], h2, h3, ?_⟩
      rcases h4 with h | h
      · left; exact h
      · right; simp [vectorSlots, h]
    | ok vs2 =>
      rw [ha] at herr
      simp only at herr
      obtain ⟨-, -, -, a4, -⟩ := gapWalkAlignment_ok R key a vs vs2 ha
      obtain ⟨p, g, g1, h1, h2, h3, h4⟩ := gapWalkVector_mismatch R key rest vs2 herr
      refine ⟨p, g, g1, by simp [vectorSlots, h1], h2, h3, ?_⟩
      rcases h4 with h | h
      · rcases a4 p g1 h h2 with h' | h'
        · left; exact h'
        · right; simp [vectorSlots, h']
      · right; simp [vectorSlots, h]

theorem gapWalkIndex_ok (R : List Char) :
    ∀ (idx : AlignmentIndex) (vs vs1 : List Int × List Int),
      gapWalkIndex R idx vs = Except.ok vs1 →
      IndexAll (Walked R) idx ∧ GapsExtend vs.1 vs1.1 ∧
      (∀ s ∈ indexSlots idx, vectorAt vs1.1 s.1 = some s.2) ∧
      (∀ p g, vectorAt vs1.1 p = some g → g ≠ -1 →
        vectorAt vs.1 p = some g ∨ (p, g) ∈ indexSlots idx) ∧
      vs1.2.length = vs.2.length
  | [], vs, vs1, hok => by
    simp only [gapWalkIndex, Except.ok.injEq] at hok
    subst hok
    exact ⟨fun k v h => by simp at h, gapsExtend_refl _, by simp [indexSlots],
      fun p g hp _ => Or.inl hp, rfl⟩
  | (key, v) :: rest, vs, vs1, hok => by
    simp only [gapWalkIndex] at hok
    cases ha : gapWalkVector R key v vs with
    | error e => rw [ha] at hok; simp at hok
    | ok vs2 =>
      rw [ha] at hok
      simp only at hok
      obtain ⟨a1, a2, a3, a4, a5⟩ := gapWalkVector_ok R key v vs vs2 ha
      obtain ⟨r1, r2, r3, r4, r5⟩ := gapWalkIndex_ok R rest vs2 vs1 hok
      refine ⟨?_, gapsExtend_trans _ _ _ a2 r2, ?_, ?_, by rw [r5, a5]⟩
      · intro k v0 hmem x hx
        rcases List.mem_cons.1 hmem with h | h
        · simp only [Prod.mk.injEq] at h
          obtain ⟨rfl, rfl⟩ := h
          exact a1 x hx
        · exact r1 k v0 h x hx
      · intro s hs
        simp only [indexSlots, List.mem_append] at hs
        rcases hs with h | h
        · apply r2.2 _ _ (a3 s h)
          have hnn : ∀ (l : List HapPtr), ∀ s ∈ vectorSlots key l, 0 ≤ s.2 := by
            intro l
            induction l with
            | nil => intro s hs; simp [vectorSlots] at hs
            | cons y ys ih =>
              intro s hs
              simp only [vectorSlots, List.mem_append] at hs
              rcases hs with h | h
              · exact gapSlots_nonneg _ _ _ _ (le_refl 0) s h
              · exact ih s h
          have := hnn v s h
          omega
        · exact r3 s h
      · intro p g hp hg
        simp only [indexSlots, List.mem_append]
        rcases r4 p g hp hg with h | h
        · rcases a4 p g h hg with h' | h'
          · left; exact h'
          · right; left; exact h'
        · right; right; exact h

theorem gapWalkIndex_mismatch (R : List Char) :
    ∀ (idx : AlignmentIndex) (vs : List Int × List Int),
      gapWalkIndex R idx vs = Except.error Failure.gapStructureMismatch →
      ∃ p g g1, (p, g) ∈ indexSlots idx ∧ g1 ≠ -1 ∧ g1 ≠ g ∧
        (vectorAt vs.1 p = some g1 ∨ (p, g1) ∈ indexSlots idx)
  | [], vs, herr => by simp [gapWalkIndex] at herr
  | (key, v) :: rest, vs, herr => by
    simp only [gapWalkIndex] at herr
    cases ha : gapWalkVector R key v vs with
    | error e =>
      rw [ha] at herr
      simp only [Except.error.injEq] at herr
      subst herr
      obtain ⟨p, g, g1, h1, h2, h3, h4⟩ := gapWalkVector_mismatch R key v vs ha
      refine ⟨p, g, g1, by simp [indexSlots, h1], h2, h3, ?_⟩
      rcases h4 with h | h
      · left; exact h
      · right; simp [indexSlots, h]
    | ok vs2 =>
      rw [ha] at herr
      simp only at herr
      obtain ⟨-, -, -, a4, -⟩ := gapWalkVector_ok R key v vs vs2 ha
      obtain ⟨p, g, g1, h1, h2, h3, h4⟩ := gapWalkIndex_mismatch R rest vs2 herr
      refine ⟨p, g, g1, by simp [indexSlots, h1], h2, h3, ?_⟩
      rcases h4 with h | h
      · rcases a4 p g1 h h2 with h' | h'
        · left; exact h'
        · right; simp [indexSlots, h']
      · right; simp [indexSlots, h]

theorem buildGapStructure_ok (R : List Char) (idx : AlignmentIndex) (G C : List Int)
    (hok : buildGapStructure R idx = Except.ok (G, C)) :
    IndexAll (Walked R) idx ∧ G.length = R.length ∧ C.length = R.length ∧
    (∀ s ∈ indexSlots idx, vectorAt G s.1 = some s.2) ∧
    (∀ p g, vectorAt G p = some g → g ≠ -1 → (p, g) ∈ indexSlots idx) := by
  unfold buildGapStructure at hok
  obtain ⟨h1, h2, h3, h4, h5⟩ := gapWalkIndex_ok R idx _ _ hok
  simp only at h2 h3 h4 h5
  refine ⟨h1, by simpa using h2.1, by simpa using h5, h3, ?_⟩
  intro p g hp hg
  rcases h4 p g hp hg with h | h
  · exact absurd (vectorAt_replicate _ _ _ _ h) hg
  · exact h

theorem buildGapStructure_mismatch (R : List Char) (idx : AlignmentIndex)
    (herr : buildGapStructure R idx = Except.error Failure.gapStructureMismatch) :
    ∃ p g g1, (p, g) ∈ indexSlots idx ∧ (p, g1) ∈ indexSlots idx ∧ g1 ≠ g := by
  unfold buildGapStructure at herr
  obtain ⟨p, g, g1, h1, h2, h3, h4⟩ := gapWalkIndex_mismatch R idx _ herr
  rcases h4 with h | h
  · exact absurd (vectorAt_replicate _ _ _ _ h) h2
  · exact ⟨p, g, g1, h1, h, h3⟩

theorem nonGapCount_append (a b : List Char) :
    nonGapCount (a ++ b) = nonGapCount a + nonGapCount b := by
  simp [nonGapCount, List.countP_append]

theorem nonGapCount_cons (c : Char) (cs : List Char) :
    nonGapCount (c :: cs) = (if isGapCharacter c = false then 1 else 0) + nonGapCount cs := by
  by_cases h : isGapCharacter c = false
  · simp [nonGapCount, List.countP_cons, h]; omega
  · simp [nonGapCount, List.countP_cons, h]

theorem nonGapCount_gaps (gs : List Char) (h : ∀ z ∈ gs, isGapCharacter z = true) :
    nonGapCount gs = 0 := by
  simp only [nonGapCount, List.countP_eq_zero]
  intro z hz
  simp [h z hz]

theorem mem_gapSlots (start_pos : Int) : ∀ (cs : List Char) (ref_pos g0 p g : Int),
    (p, g) ∈ gapSlots start_pos cs ref_pos g0 ↔
      (∃ gs y post, cs = gs ++ y :: post ∧ (∀ z ∈ gs, isGapCharacter z = true) ∧
        isGapCharacter y = false ∧ p = ref_pos ∧ ref_pos ≠ start_pos ∧
        g = g0 + (gs.length : Int)) ∨
      (∃ pre x gs y post, cs = pre ++ x :: (gs ++ y :: post) ∧
        isGapCharacter x = false ∧ (∀ z ∈ gs, isGapCharacter z = true) ∧
        isGapCharacter y = false ∧ p = ref_pos + (nonGapCount (pre ++ [x]) : Int) ∧
        p ≠ start_pos ∧ g = (gs.length : Int))
  | [], ref_pos, g0, p, g => by
    simp [gapSlots]
  | c :: cs, ref_pos, g0, p, g => by
    cases hc : isGapCharacter c with
    | true =>
      simp only [gapSlots, hc, if_true]
      rw [mem_gapSlots start_pos cs ref_pos (g0 + 1) p g]
      constructor
      · rintro (⟨gs, y, post, e, h1, h2, h3, h4, h5⟩ | ⟨pre, x, gs, y, post, e, h1, h2, h3, h4, h5, h6⟩)
        · left
          refine ⟨c :: gs, y, post, by rw [e]; rfl, ?_, h2, h3, h4, ?_⟩
          · intro z hz
            rcases List.mem_cons.1 hz with h | h
            · rw [h]; exact hc
            · exact h1 z h
          · rw [h5]; simp; ring
        · right
          refine ⟨c :: pre, x, gs, y, post, by rw [e]; rfl, h1, h2, h3, ?_, h5, h6⟩
          rw [h4]
          simp [nonGapCount_cons, hc]
      · rintro (⟨gs, y, post, e, h1, h2, h3, h4, h5⟩ | ⟨pre, x, gs, y, post, e, h1, h2, h3, h4, h5, h6⟩)
        · left
          cases gs with
          | nil =>
            simp only [List.nil_append, List.cons.injEq] at e
            rw [e.1] at hc; rw [hc] at h2; exact absurd h2 (by simp)
          | cons z zs =>
            simp only [List.cons_append, List.cons.injEq] at e
            refine ⟨zs, y, post, e.2, fun w hw => h1 w (List.mem_cons_of_mem _ hw), h2, h3, h4, ?_⟩
            rw [h5]; simp; ring
        · right
          cases pre with
          | nil =>
            simp only [List.nil_append, List.cons.injEq] at e
            rw [e.1] at hc; rw [hc] at h1; exact absurd h1 (by simp)
          | cons z zs =>
            simp only [List.cons_append, List.cons.injEq] at e
            refine ⟨zs, x, gs, y, post, e.2, h1, h2, h3, ?_, h5, h6⟩
            rw [h4, ← e.1]
            simp [nonGapCount_cons, hc]
    | false =>
      simp only [gapSlots, hc, Bool.false_eq_true, if_false, List.mem_append]
      rw [mem_gapSlots start_pos cs (ref_pos + 1) 0 p g]
      constructor
      · rintro (h | ⟨gs, y, post, e, h1, h2, h3, h4, h5⟩ | ⟨pre, x, gs, y, post, e, h1, h2, h3, h4, h5, h6⟩)
        · left
          split_ifs at h with hne
          · simp only [List.mem_singleton, Prod.mk.injEq] at h
            exact ⟨[], c, cs, rfl, by simp, hc, h.1, hne, by rw [h.2]; simp⟩
          · simp at h
        · right
          refine ⟨[], c, gs, y, post, by rw [e]; rfl, hc, h1, h2, ?_, ?_, by rw [h5]; simp⟩
          · rw [h3]; simp [nonGapCount_cons, hc, nonGapCount]
          · rw [h3]; exact h4
        · right
          refine ⟨c :: pre, x, gs, y, post, by rw [e]; rfl, h1, h2, h3, ?_, h5, h6⟩
          rw [h4]
          simp only [List.cons_append, nonGapCount_cons, hc, if_true]
          push_cast; ring
      · rintro (⟨gs, y, post, e, h1, h2, h3, h4, h5⟩ | ⟨pre, x, gs, y, post, e, h1, h2, h3, h4, h5, h6⟩)
        · left
          cases gs with
          | nil =>
            rw [if_pos h4, h3, h5]; simp
          | cons z zs =>
            simp only [List.cons_append, List.cons.injEq] at e
            have := h1 z (List.mem_cons_self _ _)
            rw [← e.1, hc] at this; exact absurd this (by simp)
        · right
          cases pre with
          | nil =>
            simp only [List.nil_append, List.cons.injEq] at e
            left
            refine ⟨gs, y, post, e.2, h2, h3, ?_, ?_, by rw [h6]; simp⟩
            · rw [h4]; simp [nonGapCount_cons, h1, nonGapCount]
            · intro hcon
              apply h5
              rw [h4, ← hcon]; simp [nonGapCount_cons, h1, nonGapCount]
          | cons z zs =>
            simp only [List.cons_append, List.cons.injEq] at e
            right
            refine ⟨zs, x, gs, y, post, e.2, h1, h2, h3, ?_, h5, h6⟩
            rw [h4, ← e.1]
            simp only [List.cons_append, nonGapCount_cons, hc, if_true]
            push_cast; ring

theorem mem_alignmentSlots (key : Nat) (a : HapPtr) (p g : Int) :
    (p, g) ∈ alignmentSlots key a ↔
      ∃ pre x gs y post, a.obj.ref = pre ++ x :: (gs ++ y :: post) ∧
        isGapCharacter x = false ∧ (∀ z ∈ gs, isGapCharacter z = true) ∧
        isGapCharacter y = false ∧
        p = castToInt key - 1 + (nonGapCount (pre ++ [x]) : Int) ∧ g = (gs.length : Int) := by
  unfold alignmentSlots
  rw [mem_gapSlots]
  constructor
  · rintro (⟨gs, y, post, e, h1, h2, h3, h4, h5⟩ | ⟨pre, x, gs, y, post, e, h1, h2, h3, h4, h5, h6⟩)
    · exact absurd rfl h4
    · exact ⟨pre, x, gs, y, post, e, h1, h2, h3, h4, h6⟩
  · rintro ⟨pre, x, gs, y, post, e, h1, h2, h3, h4, h6⟩
    right
    refine ⟨pre, x, gs, y, post, e, h1, h2, h3, h4, ?_, h6⟩
    have h1x : nonGapCount [x] = 1 := by simp [nonGapCount_cons, h1, nonGapCount]
    rw [h4, nonGapCount_append, h1x]
    push_cast
    omega

theorem getElem?_append_cons_length {α : Type} (l r : List α) (a : α) :
    (l ++ a :: r)[l.length]? = some a := by
  induction l with
  | nil => simp
  | cons _ _ ih => simpa using ih

theorem takeWhile_gaps_append (gs : List Char) (y : Char) (post : List Char)
    (hgs : ∀ z ∈ gs, isGapCharacter z = true) (hy : isGapCharacter y = false) :
    (gs ++ y :: post).takeWhile isGapCharacter = gs := by
  induction gs with
  | nil => simp [List.takeWhile, hy]
  | cons z zs ih =>
    have hz := hgs z (List.mem_cons_self _ _)
    simp [List.takeWhile, hz, ih (fun w hw => hgs w (List.mem_cons_of_mem _ hw))]

theorem gap_prefix_decomp (l : List Char) (h : 1 ≤ nonGapCount l) :
    ∃ gs y post, l = gs ++ y :: post ∧ (∀ z ∈ gs, isGapCharacter z = true) ∧
      isGapCharacter y = false := by
  induction l with
  | nil => simp [nonGapCount] at h
  | cons c cs ih =>
    cases hc : isGapCharacter c with
    | false => exact ⟨[], c, cs, rfl, by simp, hc⟩
    | true =>
      have : 1 ≤ nonGapCount cs := by
        rw [nonGapCount_cons, hc] at h; simpa using h
      obtain ⟨gs, y, post, e, h1, h2⟩ := ih this
      refine ⟨c :: gs, y, post, by rw [e]; rfl, ?_, h2⟩
      intro z hz
      rcases List.mem_cons.1 hz with h | h
      · rw [h]; exact hc
      · exact h1 z h

theorem gap_suffix_decomp (l : List Char) (h : 1 ≤ nonGapCount l) :
    ∃ pre x gs, l = pre ++ x :: gs ∧ isGapCharacter x = false ∧
      (∀ z ∈ gs, isGapCharacter z = true) := by
  induction l using List.reverseRecOn with
  | nil => simp [nonGapCount] at h
  | append_singleton cs c ih =>
    cases hc : isGapCharacter c with
    | false => exact ⟨cs, c, [], rfl, hc, by simp⟩
    | true =>
      have : 1 ≤ nonGapCount cs := by
        rw [nonGapCount_append, nonGapCount_cons, hc] at h
        simpa [nonGapCount] using h
      obtain ⟨pre, x, gs, e, h1, h2⟩ := ih this
      refine ⟨pre, x, gs ++ [c], by rw [e]; simp, h1, ?_⟩
      intro z hz
      rcases List.mem_append.1 hz with h | h
      · exact h2 z h
      · rw [List.mem_singleton.1 h]; exact hc

theorem decomp_index (cs pre gs post : List Char) (x y : Char)
    (e : cs = pre ++ x :: (gs ++ y :: post))
    (hx : isGapCharacter x = false) (hgs : ∀ z ∈ gs, isGapCharacter z = true)
    (hy : isGapCharacter y = false) :
    cs[pre.length]? = some x ∧ cs[pre.length + 1 + gs.length]? = some y ∧
    cs.take (pre.length + 1) = pre ++ [x] ∧
    cs.take (pre.length + 1 + gs.length) = pre ++ x :: gs ∧
    cs.drop (pre.length + 1) = gs ++ y :: post ∧
    gapRunAfter cs pre.length = gs.length ∧
    gapRunBefore cs (pre.length + 1 + gs.length) = gs.length ∧
    nonGapCount (cs.take (pre.length + 1 + gs.length)) = nonGapCount (pre ++ [x]) ∧
    nonGapCount (cs.take (pre.length + 1 + gs.length + 1)) = nonGapCount (pre ++ [x]) + 1 := by
  have e2 : cs = (pre ++ x :: gs) ++ y :: post := by rw [e]; simp
  have hlen : (pre ++ x :: gs).length = pre.length + 1 + gs.length := by simp; omega
  have htake1 : cs.take (pre.length + 1) = pre ++ [x] := by
    rw [e]
    have : pre ++ x :: (gs ++ y :: post) = (pre ++ [x]) ++ (gs ++ y :: post) := by simp
    rw [this, List.take_left' (by simp)]
  have htake2 : cs.take (pre.length + 1 + gs.length) = pre ++ x :: gs := by
    rw [e2, List.take_left' hlen]
  have hdrop : cs.drop (pre.length + 1) = gs ++ y :: post := by
    rw [e]
    have : pre ++ x :: (gs ++ y :: post) = (pre ++ [x]) ++ (gs ++ y :: post) := by simp
    rw [this, List.drop_left' (by simp)]
  refine ⟨?_, ?_, htake1, htake2, hdrop, ?_, ?_, ?_, ?_⟩
  · rw [e]; exact getElem?_append_cons_length _ _ _
  · rw [e2, ← hlen]; exact getElem?_append_cons_length _ _ _
  · unfold gapRunAfter
    rw [hdrop, takeWhile_gaps_append gs y post hgs hy]
  · unfold gapRunBefore
    rw [htake2]
    have : (pre ++ x :: gs).reverse = gs.reverse ++ x :: pre.reverse := by simp
    rw [this, takeWhile_gaps_append gs.reverse x pre.reverse (by simpa using hgs) hx]
    simp
  · rw [htake2]
    have : pre ++ x :: gs = (pre ++ [x]) ++ gs := by simp
    rw [this, nonGapCount_append, nonGapCount_gaps gs hgs]; rfl
  · have : cs.take (pre.length + 1 + gs.length + 1) = (pre ++ [x]) ++ gs ++ [y] := by
      rw [e]
      have h2 : pre ++ x :: (gs ++ y :: post) = ((pre ++ [x]) ++ gs ++ [y]) ++ post := by simp
      rw [h2, List.take_left' (by simp; omega)]
    rw [this, nonGapCount_append, nonGapCount_append, nonGapCount_gaps gs hgs]
    simp [nonGapCount_cons, hy, nonGapCount]

theorem index_decomp (cs : List Char) (j : Nat) (y : Char) (hj : cs[j]? = some y)
    (hcount : 1 ≤ nonGapCount (cs.take j)) :
    ∃ pre x gs post, cs = pre ++ x :: (gs ++ y :: post) ∧ isGapCharacter x = false ∧
      (∀ z ∈ gs, isGapCharacter z = true) ∧ j = pre.length + 1 + gs.length := by
  obtain ⟨pre, x, gs, e, h1, h2⟩ := gap_suffix_decomp (cs.take j) hcount
  obtain ⟨hlt, hget⟩ := List.getElem?_eq_some_iff.1 hj
  have hsplit : cs = cs.take j ++ y :: cs.drop (j + 1) := by
    conv_lhs => rw [← List.take_append_drop j cs]
    rw [List.drop_eq_getElem_cons hlt, hget]
  refine ⟨pre, x, gs, cs.drop (j + 1), ?_, h1, h2, ?_⟩
  · conv_lhs => rw [hsplit, e]
    simp
  · have := congrArg List.length e
    simp only [List.length_take, List.length_append, List.length_cons] at this
    omega

theorem cursor_decomp (cs : List Char) (c : Nat) (x : Char) (hc : cs[c]? = some x)
    (hlater : 1 ≤ nonGapCount (cs.drop (c + 1))) :
    ∃ gs y post, cs = cs.take c ++ x :: (gs ++ y :: post) ∧
      (∀ z ∈ gs, isGapCharacter z = true) ∧ isGapCharacter y = false := by
  obtain ⟨gs, y, post, e, h1, h2⟩ := gap_prefix_decomp (cs.drop (c + 1)) hlater
  obtain ⟨hlt, hget⟩ := List.getElem?_eq_some_iff.1 hc
  refine ⟨gs, y, post, ?_, h1, h2⟩
  conv_lhs => rw [← List.take_append_drop c cs]
  rw [List.drop_eq_getElem_cons hlt, hget, e]

theorem castToInt_of_nonneg (key : Nat) (h : 0 ≤ castToInt key) :
    castToInt key = ((key % UINT_RANGE : Nat) : Int) := by
  unfold castToInt at h ⊢
  split_ifs at h ⊢ with hlt
  · rfl
  · have : key % UINT_RANGE < UINT_RANGE := Nat.mod_lt _ (by decide)
    have h2 : ((key % UINT_RANGE : Nat) : Int) < 4294967296 := by
      have : (UINT_RANGE : Int) = 4294967296 := by decide
      omega
    omega

theorem nonGapCount_singleton (y : Char) (h : isGapCharacter y = false) :
    nonGapCount [y] = 1 := by
  simp [nonGapCount, h]

theorem walked_start (R : List Char) (key : Nat) (a : HapPtr) (hw : Walked R key a)
    (hcount : 1 ≤ nonGapCount a.obj.ref) :
    castToInt key = a.obj.aligment_start_pos ∧ 0 ≤ a.obj.aligment_start_pos := by
  obtain ⟨gs, y, post, e, h1, h2⟩ := gap_prefix_decomp a.obj.ref hcount
  have hy : a.obj.ref[gs.length]? = some y := by
    rw [e]; exact getElem?_append_cons_length _ _ _
  have htake : a.obj.ref.take (gs.length + 1) = gs ++ [y] := by
    rw [e]
    have : gs ++ y :: post = (gs ++ [y]) ++ post := by simp
    rw [this, List.take_left' (by simp)]
  have := hw.chars gs.length y hy h2
  rw [htake, nonGapCount_append, nonGapCount_gaps gs h1, nonGapCount_singleton y h2] at this
  have h0 := (vectorAt_nonneg _ _ _ this).1
  simp only [zero_add, Nat.cast_one] at h0
  have h3 : 0 ≤ castToInt key := by omega
  have h4 := castToInt_of_nonneg key h3
  rw [hw.key_eq] at h4
  exact ⟨h4, by rw [← h4]; exact h3⟩

theorem isNonFirstColumn_iff (s : List Char) (j : Nat) :
    isNonFirstColumn s j = true ↔
      (∃ y, s[j]? = some y ∧ isGapCharacter y = false) ∧ 1 ≤ nonGapCount (s.take j) := by
  unfold isNonFirstColumn
  cases h : s[j]? with
  | none => simp
  | some y => simp

theorem slot_of_column (R : List Char) (key : Nat) (a : HapPtr) (hw : Walked R key a) (j : Nat)
    (hj : isNonFirstColumn a.obj.ref j = true) :
    (refIndexOfColumn a.obj j - 1, (gapRunBefore a.obj.ref j : Int)) ∈ alignmentSlots key a := by
  obtain ⟨⟨y, hy, hgy⟩, hcount⟩ := (isNonFirstColumn_iff _ _).1 hj
  obtain ⟨pre, x, gs, post, e, hx, hgs, hjeq⟩ := index_decomp a.obj.ref j y hy hcount
  obtain ⟨-, -, -, -, -, -, d7, d8, d9⟩ := decomp_index a.obj.ref pre gs post x y e hx hgs hgy
  have hc1 : 1 ≤ nonGapCount a.obj.ref := by
    rw [e, nonGapCount_append, nonGapCount_cons, hx]; simp only [if_true]; omega
  obtain ⟨hstart, -⟩ := walked_start R key a hw hc1
  rw [mem_alignmentSlots]
  refine ⟨pre, x, gs, y, post, e, hx, hgs, hgy, ?_, ?_⟩
  · unfold refIndexOfColumn
    rw [hjeq, d9, hstart]
    push_cast; ring
  · rw [hjeq, d7]

theorem column_of_slot (R : List Char) (key : Nat) (a : HapPtr) (hw : Walked R key a)
    (p g : Int) (hs : (p, g) ∈ alignmentSlots key a) :
    ∃ j, isNonFirstColumn a.obj.ref j = true ∧ p = refIndexOfColumn a.obj j - 1 ∧
      g = (gapRunBefore a.obj.ref j : Int) := by
  rw [mem_alignmentSlots] at hs
  obtain ⟨pre, x, gs, y, post, e, hx, hgs, hgy, hp, hg⟩ := hs
  obtain ⟨-, d2, -, -, -, -, d7, d8, d9⟩ := decomp_index a.obj.ref pre gs post x y e hx hgs hgy
  have hc1 : 1 ≤ nonGapCount a.obj.ref := by
    rw [e, nonGapCount_append, nonGapCount_cons, hx]; simp only [if_true]; omega
  obtain ⟨hstart, -⟩ := walked_start R key a hw hc1
  refine ⟨pre.length + 1 + gs.length, ?_, ?_, by rw [hg, d7]⟩
  · rw [isNonFirstColumn_iff]
    refine ⟨⟨y, d2, hgy⟩, ?_⟩
    rw [d8, nonGapCount_append, nonGapCount_singleton x hx]; omega
  · unfold refIndexOfColumn
    rw [hp, d9, hstart]
    push_cast; ring

theorem mem_vectorSlots (key : Nat) (v : List HapPtr) (s : Int × Int) :
    s ∈ vectorSlots key v ↔ ∃ a ∈ v, s ∈ alignmentSlots key a := by
  induction v with
  | nil => simp [vectorSlots]
  | cons x xs ih => simp [vectorSlots, ih]

theorem mem_indexSlots (idx : AlignmentIndex) (s : Int × Int) :
    s ∈ indexSlots idx ↔ ∃ key v a, (key, v) ∈ idx ∧ a ∈ v ∧ s ∈ alignmentSlots key a := by
  induction idx with
  | nil => simp [indexSlots]
  | cons e rest ih =>
    obtain ⟨k, v⟩ := e
    simp only [indexSlots, List.mem_append, mem_vectorSlots, ih, List.mem_cons, Prod.mk.injEq]
    constructor
    · rintro (⟨a, ha, hs⟩ | ⟨key, v0, a, hm, ha, hs⟩)
      · exact ⟨k, v, a, Or.inl ⟨rfl, rfl⟩, ha, hs⟩
      · exact ⟨key, v0, a, Or.inr hm, ha, hs⟩
    · rintro ⟨key, v0, a, (⟨rfl, rfl⟩ | hm), ha, hs⟩
      · left; exact ⟨a, ha, hs⟩
      · right; exact ⟨key, v0, a, hm, ha, hs⟩

theorem vectorAt_of_length {α β : Type} (v : List α) (v1 : List β) (i : Int) (x : α)
    (hlen : v.length = v1.length) (h : vectorAt v i = some x) : ∃ y, vectorAt v1 i = some y := by
  obtain ⟨h0, hlt⟩ := vectorAt_nonneg v i x h
  unfold vectorAt
  rw [if_pos h0]
  rw [hlen] at hlt
  exact ⟨v1[i.toNat], List.getElem?_eq_getElem hlt⟩

theorem storeGaps_length (start_pos : Int) (w : GapWalk) (G1 : List Int)
    (hok : storeGaps start_pos w = Except.ok G1) : G1.length = w.gap_structure.length :=
  (storeGaps_ok start_pos w G1 hok).1.1

theorem storeGaps_sim (start_pos : Int) (w w1 : GapWalk) (G1 : List Int)
    (hpos : w.ref_pos = w1.ref_pos) (hlen : w.gap_structure.length = w1.gap_structure.length)
    (hok : storeGaps start_pos w1 = Except.ok G1) :
    (∃ G, storeGaps start_pos w = Except.ok G) ∨
      storeGaps start_pos w = Except.error Failure.gapStructureMismatch := by
  unfold storeGaps at hok ⊢
  by_cases hs : w.ref_pos ≠ start_pos
  · have hs1 : w1.ref_pos ≠ start_pos := by rw [← hpos]; exact hs
    rw [if_pos hs1] at hok
    rw [if_pos hs]
    cases hv1 : vectorAt w1.gap_structure w1.ref_pos with
    | none => rw [hv1] at hok; simp at hok
    | some g1 =>
      obtain ⟨g0, hv⟩ := vectorAt_of_length w1.gap_structure w.gap_structure w1.ref_pos g1
        hlen.symm hv1
      rw [← hpos] at hv
      rw [hv]
      simp only
      by_cases hm : g0 = -1
      · left; rw [if_pos hm]; exact ⟨_, rfl⟩
      · rw [if_neg hm]
        by_cases hne : g0 ≠ w.running_gaps
        · right; rw [if_pos hne]
        · left; rw [if_neg hne]; exact ⟨_, rfl⟩
  · left; rw [if_neg hs]; exact ⟨_, rfl⟩

theorem gapWalkColumn_sim (R : List Char) (start_pos : Int) (w w1 w3 : GapWalk) (c : Char)
    (hpos : w.ref_pos = w1.ref_pos) (hlen : w.gap_structure.length = w1.gap_structure.length)
    (hlenC : w.coverage_structure.length = w1.coverage_structure.length)
    (hok : gapWalkColumn R start_pos w1 c = Except.ok w3) :
    (∃ w2, gapWalkColumn R start_pos w c = Except.ok w2 ∧ w2.ref_pos = w3.ref_pos ∧
      w2.gap_structure.length = w3.gap_structure.length ∧
      w2.coverage_structure.length = w3.coverage_structure.length) ∨
    gapWalkColumn R start_pos w c = Except.error Failure.gapStructureMismatch := by
  cases hc : isGapCharacter c with
  | true =>
    rw [gapWalkColumn_gap R start_pos w1 c hc] at hok
    simp only [Except.ok.injEq] at hok
    subst hok
    left
    exact ⟨_, gapWalkColumn_gap R start_pos w c hc, hpos, hlen, hlenC⟩
  | false =>
    obtain ⟨G3, hs3, e1, e2, -, e4, e5⟩ := gapWalkColumn_nongap_ok R start_pos w1 w3 c hc hok
    have hn : ¬ (c = '-' ∨ c = '*') := by
      rw [← isGapCharacter_eq_true_iff]; simp [hc]
    rcases storeGaps_sim start_pos w w1 G3 hpos hlen hs3 with ⟨G, hs⟩ | hs
    · left
      obtain ⟨n3, hn3⟩ : ∃ n, vectorAt w1.coverage_structure (w1.ref_pos + 1) = some n := by
        unfold gapWalkColumn at hok
        rw [if_neg hn, hs3] at hok
        simp only at hok
        cases hcv : vectorAt w1.coverage_structure (w1.ref_pos + 1) with
        | none => rw [hcv] at hok; simp at hok
        | some n => exact ⟨n, rfl⟩
      obtain ⟨n, hcv⟩ := vectorAt_of_length w1.coverage_structure w.coverage_structure _ n3
        hlenC.symm hn3
      rw [← hpos] at hcv e4
      refine ⟨{ ref_pos := w.ref_pos + 1, running_gaps := 0, gap_structure := G,
                coverage_structure := w.coverage_structure.set (w.ref_pos + 1).toNat (n + 1) },
        ?_, by rw [e2, hpos], ?_, ?_⟩
      · have h7 := gapWalkColumn_nongap_value R start_pos w1 w3 c hc hok
        unfold gapWalkColumn
        rw [if_neg hn, hs]
        simp only [hcv, e4, h7, and_self, if_true]
      · simp only
        rw [storeGaps_length start_pos w G hs, e1, storeGaps_length start_pos w1 G3 hs3, hlen]
      · simp only [List.length_set]
        rw [e5, hlenC]
    · right
      unfold gapWalkColumn
      rw [if_neg hn, hs]

theorem gapWalkColumns_sim (R : List Char) (start_pos : Int) :
    ∀ (cs : List Char) (w w1 w3 : GapWalk),
      w.ref_pos = w1.ref_pos → w.gap_structure.length = w1.gap_structure.length →
      w.coverage_structure.length = w1.coverage_structure.length →
      gapWalkColumns R start_pos cs w1 = Except.ok w3 →
      (∃ w2, gapWalkColumns R start_pos cs w = Except.ok w2 ∧ w2.ref_pos = w3.ref_pos ∧
        w2.gap_structure.length = w3.gap_structure.length ∧
        w2.coverage_structure.length = w3.coverage_structure.length) ∨
      gapWalkColumns R start_pos cs w = Except.error Failure.gapStructureMismatch
  | [], w, w1, w3, hpos, hlen, hlenC, hok => by
    simp only [gapWalkColumns, Except.ok.injEq] at hok
    subst hok
    left; exact ⟨w, rfl, hpos, hlen, hlenC⟩
  | c :: cs, w, w1, w3, hpos, hlen, hlenC, hok => by
    simp only [gapWalkColumns] at hok ⊢
    cases hcol : gapWalkColumn R start_pos w1 c with
    | error e => rw [hcol] at hok; simp at hok
    | ok w4 =>
      rw [hcol] at hok
      simp only at hok
      rcases gapWalkColumn_sim R start_pos w w1 w4 c hpos hlen hlenC hcol with
        ⟨w2, h1, h2, h3, h4⟩ | h
      · rw [h1]
        simp only
        exact gapWalkColumns_sim R start_pos cs w2 w4 w3 h2 h3 h4 hok
      · right; rw [h]

theorem gapWalkAlignment_sim (R : List Char) (key : Nat) (a : HapPtr)
    (vs vs1 vs3 : List Int × List Int) (hlen : vs.1.length = vs1.1.length)
    (hlenC : vs.2.length = vs1.2.length)
    (hok : gapWalkAlignment R key a vs1 = Except.ok vs3) :
    (∃ vs2, gapWalkAlignment R key a vs = Except.ok vs2 ∧ vs2.1.length = vs.1.length ∧
      vs2.2.length = vs.2.length) ∨
    gapWalkAlignment R key a vs = Except.error Failure.gapStructureMismatch := by
  unfold gapWalkAlignment at hok
  simp only [bind_eq_ok, assertThat_eq_ok, pure_eq_ok, exists_const] at hok
  obtain ⟨hkey, w3, hw, hlast, -⟩ := hok
  rcases gapWalkColumns_sim R (castToInt key - 1) a.obj.ref
    { ref_pos := castToInt key - 1, running_gaps := 0, gap_structure := vs.1,
      coverage_structure := vs.2 }
    { ref_pos := castToInt key - 1, running_gaps := 0, gap_structure := vs1.1,
      coverage_structure := vs1.2 } w3 rfl hlen hlenC hw with ⟨w2, h1, h2, -, -⟩ | h
  · left
    obtain ⟨g1, -, -, -, -, g6⟩ := gapWalkColumns_ok R (castToInt key - 1) a.obj.ref _ w2
      (by simp) h1
    refine ⟨(w2.gap_structure, w2.coverage_structure), ?_, g1.1, g6⟩
    unfold gapWalkAlignment
    simp only [bind_eq_ok, assertThat_eq_ok, pure_eq_ok, exists_const]
    exact ⟨hkey, w2, h1, by rw [h2]; exact hlast, rfl⟩
  · right
    unfold gapWalkAlignment
    simp only [bind_eq_error, assertThat_eq_error, assertThat_eq_ok, exists_const]
    right
    exact ⟨hkey, Or.inl h⟩

theorem gapWalkVector_solo (R : List Char) (key : Nat) (n : Nat) :
    ∀ (v : List HapPtr) (vs : List Int × List Int),
      vs.1.length = n → vs.2.length = n →
      (∀ a ∈ v, ∃ vs3, gapWalkAlignment R key a
        (List.replicate n (-1), List.replicate n 0) = Except.ok vs3) →
      (∃ vs2, gapWalkVector R key v vs = Except.ok vs2 ∧ vs2.1.length = n ∧ vs2.2.length = n) ∨
      gapWalkVector R key v vs = Except.error Failure.gapStructureMismatch
  | [], vs, h1, h2, _ => Or.inl ⟨vs, rfl, h1, h2⟩
  | a :: rest, vs, h1, h2, hsolo => by
    obtain ⟨vs3, h3⟩ := hsolo a (List.mem_cons_self _ _)
    simp only [gapWalkVector]
    rcases gapWalkAlignment_sim R key a vs _ vs3 (by simp [h1]) (by simp [h2]) h3 with
      ⟨vs2, e1, e2, e3⟩ | h
    · rw [e1]
      simp only
      exact gapWalkVector_solo R key n rest vs2 (by rw [e2, h1]) (by rw [e3, h2])
        (fun x hx => hsolo x (List.mem_cons_of_mem _ hx))
    · right; rw [h]

theorem gapWalkIndex_solo (R : List Char) (n : Nat) :
    ∀ (idx : AlignmentIndex) (vs : List Int × List Int),
      vs.1.length = n → vs.2.length = n →
      (∀ key v a, (key, v) ∈ idx → a ∈ v → ∃ vs3, gapWalkAlignment R key a
        (List.replicate n (-1), List.replicate n 0) = Except.ok vs3) →
      (∃ vs2, gapWalkIndex R idx vs = Except.ok vs2) ∨
      gapWalkIndex R idx vs = Except.error Failure.gapStructureMismatch
  | [], vs, _, _, _ => Or.inl ⟨vs, rfl⟩
  | (key, v) :: rest, vs, h1, h2, hsolo => by
    simp only [gapWalkIndex]
    rcases gapWalkVector_solo R key n v vs h1 h2
      (fun a ha => hsolo key v a (List.mem_cons_self _ _) ha) with ⟨vs2, e1, e2, e3⟩ | h
    · rw [e1]
      simp only
      exact gapWalkIndex_solo R n rest vs2 e2 e3
        (fun k v0 a hm ha => hsolo k v0 a (List.mem_cons_of_mem _ hm) ha)
    · right; rw [h]

theorem buildGapStructure_single (R : List Char) (key : Nat) (a : HapPtr) :
    buildGapStructure R [(key, [a])] =
      gapWalkAlignment R key a
        (List.replicate R.length (-1), List.replicate R.length 0) := by
  unfold buildGapStructure
  simp only [gapWalkIndex, gapWalkVector]
  cases gapWalkAlignment R key a (List.replicate R.length (-1), List.replicate R.length 0) <;> rfl

/-! ## Gap structure: what is stored, and when the builder throws -/

theorem walked_of_solo (R : List Char) (key : Nat) (a : HapPtr) (vs : List Int × List Int)
    (hok : buildGapStructure R [(key, [a])] = Except.ok vs) : Walked R key a := by
  obtain ⟨G, C⟩ := vs
  exact (buildGapStructure_ok R _ G C hok).1 key [a] (List.mem_singleton.2 rfl) a
    (List.mem_singleton.2 rfl)

/-- C7 (amended). Provided every alignment of the index on its own passes the
gap-structure builder, the builder throws "Gap structure mismatch" if and only
if two non-first non-gap ref columns that map to the same reference index are
preceded by different numbers of consecutive ref-gap columns; and when the
builder succeeds, every non-first non-gap ref column of every alignment that
maps to reference index `i` has exactly `G[i-1]` ref-gap columns immediately
before it. -/
theorem gapStructure_mismatch_iff (R : List Char) (idx : AlignmentIndex)
    (hsolo : ∀ key v a, (key, v) ∈ idx → a ∈ v →
      ∃ vs, buildGapStructure R [(key, [a])] = Except.ok vs) :
    (buildGapStructure R idx = Except.error Failure.gapStructureMismatch ↔
      ∃ key v a j key1 v1 a1 j1, (key, v) ∈ idx ∧ a ∈ v ∧ (key1, v1) ∈ idx ∧ a1 ∈ v1 ∧
        isNonFirstColumn a.obj.ref j = true ∧ isNonFirstColumn a1.obj.ref j1 = true ∧
        refIndexOfColumn a.obj j = refIndexOfColumn a1.obj j1 ∧
        gapRunBefore a.obj.ref j ≠ gapRunBefore a1.obj.ref j1) ∧
    (∀ G C, buildGapStructure R idx = Except.ok (G, C) →
      ∀ key v a j, (key, v) ∈ idx → a ∈ v → isNonFirstColumn a.obj.ref j = true →
        vectorAt G (refIndexOfColumn a.obj j - 1) = some (gapRunBefore a.obj.ref j : Int)) := by
  have hwalked : ∀ key v a, (key, v) ∈ idx → a ∈ v → Walked R key a := by
    intro key v a hm ha
    obtain ⟨vs, hvs⟩ := hsolo key v a hm ha
    exact walked_of_solo R key a vs hvs
  have hstored : ∀ G C, buildGapStructure R idx = Except.ok (G, C) →
      ∀ key v a j, (key, v) ∈ idx → a ∈ v → isNonFirstColumn a.obj.ref j = true →
        vectorAt G (refIndexOfColumn a.obj j - 1) = some (gapRunBefore a.obj.ref j : Int) := by
    intro G C hok key v a j hm ha hj
    obtain ⟨-, -, -, h4, -⟩ := buildGapStructure_ok R idx G C hok
    exact h4 _ ((mem_indexSlots idx _).2
      ⟨key, v, a, hm, ha, slot_of_column R key a (hwalked key v a hm ha) j hj⟩)
  refine ⟨⟨?_, ?_⟩, hstored⟩
  · intro herr
    obtain ⟨p, g, g1, h1, h2, h3⟩ := buildGapStructure_mismatch R idx herr
    obtain ⟨key, v, a, hm, ha, hs⟩ := (mem_indexSlots idx _).1 h1
    obtain ⟨key1, v1, a1, hm1, ha1, hs1⟩ := (mem_indexSlots idx _).1 h2
    obtain ⟨j, c1, c2, c3⟩ := column_of_slot R key a (hwalked key v a hm ha) p g hs
    obtain ⟨j1, d1, d2, d3⟩ := column_of_slot R key1 a1 (hwalked key1 v1 a1 hm1 ha1) p g1 hs1
    refine ⟨key, v, a, j, key1, v1, a1, j1, hm, ha, hm1, ha1, c1, d1, by omega, ?_⟩
    intro heq
    apply h3
    rw [c3, d3, heq]
  · rintro ⟨key, v, a, j, key1, v1, a1, j1, hm, ha, hm1, ha1, c1, d1, hidx, hne⟩
    have hfresh : ∀ key v a, (key, v) ∈ idx → a ∈ v → ∃ vs3, gapWalkAlignment R key a
        (List.replicate R.length (-1), List.replicate R.length 0) = Except.ok vs3 := by
      intro key v a hm ha
      obtain ⟨vs, hvs⟩ := hsolo key v a hm ha
      rw [buildGapStructure_single] at hvs
      exact ⟨vs, hvs⟩
    rcases gapWalkIndex_solo R R.length idx
      (List.replicate R.length (-1), List.replicate R.length 0) (by simp) (by simp) hfresh with
      ⟨vs2, hok⟩ | herr
    · exfalso
      obtain ⟨G, C⟩ := vs2
      have e1 := hstored G C hok key v a j hm ha c1
      have e2 := hstored G C hok key1 v1 a1 j1 hm1 ha1 d1
      rw [hidx, e2] at e1
      simp only [Option.some.injEq, Nat.cast_inj] at e1
      exact hne e1.symm
    · exact herr

theorem exampleConflictingIndex_solo : ∀ key v a, (key, v) ∈ exampleConflictingIndex → a ∈ v →
    ∃ vs, buildGapStructure exampleReference [(key, [a])] = Except.ok vs := by
  intro key v a hm ha
  simp only [exampleConflictingIndex, List.mem_singleton, Prod.mk.injEq] at hm
  obtain ⟨rfl, rfl⟩ := hm
  simp only [List.mem_cons, List.mem_singleton, List.not_mem_nil, or_false] at ha
  rcases ha with rfl | rfl
  · exact ⟨_, rfl⟩
  · exact ⟨_, rfl⟩

/-- The amended C7 at `exampleConflictingIndex`: each alignment alone is
accepted, the builder throws the mismatch, and two conflicting columns exist. -/
theorem gapStructure_mismatch_iff_witness :
    (∀ key v a, (key, v) ∈ exampleConflictingIndex → a ∈ v →
      ∃ vs, buildGapStructure exampleReference [(key, [a])] = Except.ok vs) ∧
    buildGapStructure exampleReference exampleConflictingIndex
      = Except.error Failure.gapStructureMismatch ∧
    ∃ key v a j key1 v1 a1 j1, (key, v) ∈ exampleConflictingIndex ∧ a ∈ v ∧
      (key1, v1) ∈ exampleConflictingIndex ∧ a1 ∈ v1 ∧
      isNonFirstColumn a.obj.ref j = true ∧ isNonFirstColumn a1.obj.ref j1 = true ∧
      refIndexOfColumn a.obj j = refIndexOfColumn a1.obj j1 ∧
      gapRunBefore a.obj.ref j ≠ gapRunBefore a1.obj.ref j1 :=
  ⟨exampleConflictingIndex_solo, rfl,
    (gapStructure_mismatch_iff exampleReference exampleConflictingIndex
      exampleConflictingIndex_solo).1.1 rfl⟩

/-- C7 fails as stated. On the reference `GAT` the alignments `A-C` and `AC`,
both starting at 1, have conflicting second non-gap columns, and the builder
stops at the assertion of line 527 instead of throwing the mismatch. On the
reference `TACG` the builder accepts the alignment `AC-G` starting at 1; its
column 3 is checked against `R[3]` and has one gap column before it, and
`G[3]` is not 1. -/
theorem gapStructure_mismatch_iff_fails :
    (buildGapStructure "GAT".toList exampleOffReferenceIndex
        = Except.error (Failure.assertion 527) ∧
      isNonFirstColumn exampleOffReference.obj.ref 2 = true ∧
      isNonFirstColumn exampleOffReferenceNoGap.obj.ref 1 = true ∧
      refIndexOfColumn exampleOffReference.obj 2
        = refIndexOfColumn exampleOffReferenceNoGap.obj 1 ∧
      gapRunBefore exampleOffReference.obj.ref 2
        ≠ gapRunBefore exampleOffReferenceNoGap.obj.ref 1) ∧
    (buildGapStructure exampleReference exampleInsertionIndex
        = Except.ok ([-1, 0, 1, -1], [0, 1, 1, 1]) ∧
      isNonFirstColumn exampleWithInsertion.obj.ref 3 = true ∧
      refIndexOfColumn exampleWithInsertion.obj 3 = 3 ∧
      vectorAt exampleReference 3 = exampleWithInsertion.obj.ref[3]? ∧
      gapRunBefore exampleWithInsertion.obj.ref 3 = 1 ∧
      vectorAt ([-1, 0, 1, -1] : List Int) 3 ≠ some 1) :=
  ⟨⟨rfl, by decide⟩, ⟨rfl, by decide⟩⟩

/-- C8 (amended). After the gap-structure builder succeeds, for every reference
position `i` at which it stored a value, `G[i]` is the number of ref-gap
columns lying between the alignment column that the builder checks against
`R[i]` and the alignment column that it checks against `R[i+1]`: some alignment
has such a pair of columns with `G[i]` gap columns between them, and so has
every alignment with a later non-gap column after the one at index `i`. -/
theorem gap_structure_counts_gaps_after (R : List Char) (idx : AlignmentIndex)
    (G C : List Int) (hok : buildGapStructure R idx = Except.ok (G, C)) :
    ∀ i g, vectorAt G i = some g → g ≠ -1 →
      (∃ key v a pre x gs y post, (key, v) ∈ idx ∧ a ∈ v ∧
        a.obj.ref = pre ++ x :: (gs ++ y :: post) ∧ isGapCharacter x = false ∧
        (∀ z ∈ gs, isGapCharacter z = true) ∧ isGapCharacter y = false ∧
        refIndexOfColumn a.obj pre.length = i ∧
        refIndexOfColumn a.obj (pre.length + 1 + gs.length) = i + 1 ∧
        vectorAt R i = some x ∧ vectorAt R (i + 1) = some y ∧ g = (gs.length : Int)) ∧
      (∀ key v a pre x gs y post, (key, v) ∈ idx → a ∈ v →
        a.obj.ref = pre ++ x :: (gs ++ y :: post) → isGapCharacter x = false →
        (∀ z ∈ gs, isGapCharacter z = true) → isGapCharacter y = false →
        refIndexOfColumn a.obj pre.length = i → g = (gs.length : Int)) := by
  obtain ⟨hwalked, -, -, hslots, hjust⟩ := buildGapStructure_ok R idx G C hok
  have hfacts : ∀ key v a pre x gs y post, (key, v) ∈ idx → a ∈ v →
      a.obj.ref = pre ++ x :: (gs ++ y :: post) → isGapCharacter x = false →
      (∀ z ∈ gs, isGapCharacter z = true) → isGapCharacter y = false →
      refIndexOfColumn a.obj pre.length
          = castToInt key - 1 + (nonGapCount (pre ++ [x]) : Int) ∧
        refIndexOfColumn a.obj (pre.length + 1 + gs.length)
          = castToInt key - 1 + (nonGapCount (pre ++ [x]) : Int) + 1 ∧
        vectorAt R (castToInt key - 1 + (nonGapCount (pre ++ [x]) : Int)) = some x ∧
        vectorAt R (castToInt key - 1 + (nonGapCount (pre ++ [x]) : Int) + 1) = some y := by
    intro key v a pre x gs y post hm ha e hx hgs hy
    have hw := hwalked key v hm a ha
    obtain ⟨d1, d2, d3, -, -, -, -, -, d9⟩ := decomp_index a.obj.ref pre gs post x y e hx hgs hy
    have hc1 : 1 ≤ nonGapCount a.obj.ref := by
      rw [e, nonGapCount_append, nonGapCount_cons, hx]; simp only [if_true]; omega
    obtain ⟨hstart, -⟩ := walked_start R key a hw hc1
    have c1 := hw.chars pre.length x d1 hx
    have c2 := hw.chars (pre.length + 1 + gs.length) y d2 hy
    rw [d3] at c1
    rw [d9] at c2
    refine ⟨?_, ?_, c1, ?_⟩
    · unfold refIndexOfColumn; rw [d3, hstart]
    · unfold refIndexOfColumn; rw [d9, hstart]; push_cast; ring
    · rw [← c2]; congr 1; push_cast; ring
  intro i g hv hg
  constructor
  · obtain ⟨key, v, a, hm, ha, hs⟩ := (mem_indexSlots idx _).1 (hjust i g hv hg)
    obtain ⟨pre, x, gs, y, post, e, hx, hgs, hy, hp, hgl⟩ := (mem_alignmentSlots key a i g).1 hs
    obtain ⟨f1, f2, f3, f4⟩ := hfacts key v a pre x gs y post hm ha e hx hgs hy
    rw [← hp] at f1 f2 f3 f4
    exact ⟨key, v, a, pre, x, gs, y, post, hm, ha, e, hx, hgs, hy, f1, f2, f3, f4, hgl⟩
  · intro key v a pre x gs y post hm ha e hx hgs hy hi
    obtain ⟨f1, -, -, -⟩ := hfacts key v a pre x gs y post hm ha e hx hgs hy
    have hs : (i, (gs.length : Int)) ∈ alignmentSlots key a :=
      (mem_alignmentSlots key a i _).2 ⟨pre, x, gs, y, post, e, hx, hgs, hy, by rw [← hi, f1], rfl⟩
    have := hslots _ ((mem_indexSlots idx _).2 ⟨key, v, a, hm, ha, hs⟩)
    simp only at this
    rw [hv] at this
    exact Option.some.inj this

/-- The amended C8 at `exampleInsertionIndex`, position 2, where the builder
stored 1. -/
theorem gap_structure_counts_gaps_after_witness :
    buildGapStructure exampleReference exampleInsertionIndex
      = Except.ok ([-1, 0, 1, -1], [0, 1, 1, 1]) ∧
    vectorAt ([-1, 0, 1, -1] : List Int) 2 = some 1 ∧
    ((∃ key v a pre x gs y post, (key, v) ∈ exampleInsertionIndex ∧ a ∈ v ∧
        a.obj.ref = pre ++ x :: (gs ++ y :: post) ∧ isGapCharacter x = false ∧
        (∀ z ∈ gs, isGapCharacter z = true) ∧ isGapCharacter y = false ∧
        refIndexOfColumn a.obj pre.length = 2 ∧
        refIndexOfColumn a.obj (pre.length + 1 + gs.length) = 2 + 1 ∧
        vectorAt exampleReference 2 = some x ∧ vectorAt exampleReference (2 + 1) = some y ∧
        (1 : Int) = (gs.length : Int)) ∧
      (∀ key v a pre x gs y post, (key, v) ∈ exampleInsertionIndex → a ∈ v →
        a.obj.ref = pre ++ x :: (gs ++ y :: post) → isGapCharacter x = false →
        (∀ z ∈ gs, isGapCharacter z = true) → isGapCharacter y = false →
        refIndexOfColumn a.obj pre.length = 2 → (1 : Int) = (gs.length : Int))) :=
  ⟨rfl, rfl,
    gap_structure_counts_gaps_after exampleReference exampleInsertionIndex
      [-1, 0, 1, -1] [0, 1, 1, 1] rfl 2 1 rfl (by decide)⟩

/-- C8 fails as stated. On the reference `TACG` the builder accepts the
alignment `AC-G` starting at 1 and stores `G[2] = 1`; the column it checks
against `R[1]` is column 0 and the column it checks against `R[2]` is column
1, and no gap column lies between them. -/
theorem gap_structure_not_gaps_before :
    buildGapStructure exampleReference exampleInsertionIndex
      = Except.ok ([-1, 0, 1, -1], [0, 1, 1, 1]) ∧
    vectorAt ([-1, 0, 1, -1] : List Int) 2 = some 1 ∧
    refIndexOfColumn exampleWithInsertion.obj 0 = 1 ∧
    vectorAt exampleReference 1 = exampleWithInsertion.obj.ref[0]? ∧
    refIndexOfColumn exampleWithInsertion.obj 1 = 2 ∧
    vectorAt exampleReference 2 = exampleWithInsertion.obj.ref[1]? ∧
    gapRunBefore exampleWithInsertion.obj.ref 1 = 0 :=
  ⟨rfl, by decide⟩

/-! ## The start position of an alignment -/

theorem mem_indexAt (idx : AlignmentIndex) (key : Nat) (a : HapPtr) (h : a ∈ indexAt idx key) :
    ∃ v, (key, v) ∈ idx ∧ a ∈ v := by
  induction idx with
  | nil => simp [indexAt] at h
  | cons e rest ih =>
    obtain ⟨k, v⟩ := e
    unfold indexAt at h
    by_cases hk : key = k
    · rw [if_pos hk] at h
      exact ⟨v, by rw [hk]; exact List.mem_cons_self _ _, h⟩
    · rw [if_neg hk] at h
      obtain ⟨v1, h1, h2⟩ := ih h
      exact ⟨v1, List.mem_cons_of_mem _ h1, h2⟩

theorem indexAt_of_mem (idx : AlignmentIndex) (key : Nat) (v : List HapPtr)
    (hkeys : (idx.map Prod.fst).Nodup) (hm : (key, v) ∈ idx) : indexAt idx key = v := by
  induction idx with
  | nil => simp at hm
  | cons e rest ih =>
    obtain ⟨k, w⟩ := e
    simp only [List.map_cons, List.nodup_cons] at hkeys
    unfold indexAt
    rcases List.mem_cons.1 hm with h | h
    · simp only [Prod.mk.injEq] at h
      obtain ⟨rfl, rfl⟩ := h
      rw [if_pos rfl]
    · have hne : key ≠ k := by
        intro hk
        apply hkeys.1
        rw [← hk]
        exact List.mem_map.2 ⟨(key, v), h, rfl⟩
      rw [if_neg hne]
      exact ih hkeys.2 h

/-- For an index with distinct keys that the gap-structure builder accepted,
let the alignment `H`, with start_pos `s`, be stored in the index and let `y`
be the first non-gap character of its ref string. Then the builder checked `y`
against the character of `R` at 0-based index `s`, and the index gives `H` at
the position `s` and at no other. -/
theorem index_start_pos (R : List Char) (idx : AlignmentIndex)
    (G C : List Int) (hok : buildGapStructure R idx = Except.ok (G, C))
    (hkeys : (idx.map Prod.fst).Nodup)
    (key : Nat) (v : List HapPtr) (H : HapPtr) (hm : (key, v) ∈ idx) (hH : H ∈ v)
    (hkey : key < UINT_RANGE)
    (gs : List Char) (y : Char) (post : List Char) (href : H.obj.ref = gs ++ y :: post)
    (hgs : ∀ z ∈ gs, isGapCharacter z = true) (hy : isGapCharacter y = false) :
    refIndexOfColumn H.obj gs.length = H.obj.aligment_start_pos ∧
      vectorAt R H.obj.aligment_start_pos = some y ∧
      ∀ posI : Nat, posI < UINT_RANGE →
        (H ∈ indexAt idx posI ↔ (posI : Int) = H.obj.aligment_start_pos) := by
  have hwalked := (buildGapStructure_ok R idx G C hok).1
  have hw : Walked R key H := hwalked key v hm H hH
  have hyat : H.obj.ref[gs.length]? = some y := by
    rw [href]; exact getElem?_append_cons_length _ _ _
  have htake : H.obj.ref.take (gs.length + 1) = gs ++ [y] := by
    rw [href]
    have : gs ++ y :: post = (gs ++ [y]) ++ post := by simp
    rw [this, List.take_left' (by simp)]
  have hcount : nonGapCount (gs ++ [y]) = 1 := by
    rw [nonGapCount_append, nonGapCount_gaps gs hgs, nonGapCount_singleton y hy]
  have hc1 : 1 ≤ nonGapCount H.obj.ref := by
    rw [href, nonGapCount_append, nonGapCount_cons, hy]; simp only [if_true]; omega
  obtain ⟨hstart, -⟩ := walked_start R key H hw hc1
  have hkeyeq := hw.key_eq
  rw [Nat.mod_eq_of_lt hkey] at hkeyeq
  have hchk := hw.chars gs.length y hyat hy
  rw [htake, hcount, hstart] at hchk
  refine ⟨?_, ?_, ?_⟩
  · unfold refIndexOfColumn
    rw [htake, hcount]; push_cast; ring
  · rw [← hchk]; congr 1; push_cast; ring
  · intro posI hpos
    constructor
    · intro hin
      obtain ⟨v1, hm1, hv1⟩ := mem_indexAt idx posI H hin
      have hk1 := (hwalked posI v1 hm1 H hv1).key_eq
      rw [Nat.mod_eq_of_lt hpos] at hk1
      exact hk1
    · intro heq
      have : posI = key := by omega
      rw [this, indexAt_of_mem idx key v hkeys hm]
      exact hH

/-- C9 fails as stated. On the reference `TACG` the builder accepts the
alignment `AC-G` with start_pos 1, whose first non-gap ref character `A` is not
the character of `R` at index `1 - 1` but the one at index 1; and the index
gives the enumerator no alignment at iteration 0 and this alignment at
iteration 1: after iteration 0 the reference is the only open haplotype, after
iteration 1 an open haplotype copies from the alignment. -/
theorem start_pos_not_one_based :
    buildGapStructure exampleReference exampleInsertionIndex
      = Except.ok ([-1, 0, 1, -1], [0, 1, 1, 1]) ∧
    exampleWithInsertion.obj.aligment_start_pos = 1 ∧
    exampleWithInsertion.obj.ref[0]? = some 'A' ∧
    vectorAt exampleReference (1 - 1) = some 'T' ∧
    vectorAt exampleReference 1 = some 'A' ∧
    indexAt exampleInsertionIndex (1 - 1) = [] ∧
    indexAt exampleInsertionIndex 1 = [exampleWithInsertion] ∧
    enumeratorLoop 5000 "chr".toList exampleReference exampleInsertionIndex [-1, 0, 1, -1]
        (List.range 1) enumeratorInit
      = Except.ok
        { open_haplotypes := [(['T'], none, -1)], start_open_haplotypes := 0,
          modifiedLastPos := false, outputStream := [] } ∧
    enumeratorLoop 5000 "chr".toList exampleReference exampleInsertionIndex [-1, 0, 1, -1]
        (List.range 2) enumeratorInit
      = Except.ok
        { open_haplotypes := [(['A'], none, -1), (['A'], some exampleWithInsertion, 0)],
          start_open_haplotypes := 1, modifiedLastPos := true, outputStream := [] } :=
  ⟨rfl, rfl, rfl, rfl, rfl, rfl, rfl, rfl, rfl⟩

/-! ## The reference field of the lines written -/

theorem vcfOutput_lines (refID : List Char) (start : Int) (refseq : List Char)
    (alts : List (List Char)) (lines : List VCFLine)
    (hok : vcfOutput refID start refseq alts = Except.ok lines) :
    ∀ line ∈ lines,
      (line.pos = start + 2 ∧ refseq.length = 2 ∧ line.ref = (refseq.drop 1).take 1) ∨
      (line.pos = start + 1 ∧ line.ref = refseq) := by
  unfold vcfOutput at hok
  by_cases h1 : alts.length ≠ 0
  · rw [if_pos h1] at hok
    dsimp only at hok
    by_cases h2 : refseq.length = 2 ∧ (alts.all fun a => decide (a.length = 2)) = true
    · rw [if_pos h2] at hok
      cases hc : checkFirstCharacters refseq alts with
      | error e => rw [hc] at hok; simp at hok
      | ok u =>
        rw [hc] at hok
        simp only [Except.ok.injEq] at hok
        subst hok
        intro line hl
        simp only [List.mem_singleton] at hl
        subst hl
        exact Or.inl ⟨rfl, h2.1, rfl⟩
    · rw [if_neg h2] at hok
      simp only [Except.ok.injEq] at hok
      subst hok
      intro line hl
      simp only [List.mem_singleton] at hl
      subst hl
      exact Or.inr ⟨rfl, rfl⟩
  · rw [if_neg h1] at hok
    simp only [Except.ok.injEq] at hok
    subst hok
    intro line hl
    simp at hl

theorem take_length_take {α : Type} (L : List α) (n : Nat) :
    L.take (L.take n).length = L.take n := by
  rw [List.length_take]
  rcases Nat.le_total n L.length with h | h
  · rw [Nat.min_eq_left h]
  · rw [Nat.min_eq_right h, List.take_length]
    exact (List.take_of_length_le h).symm

theorem take_one_drop_one {α : Type} (L : List α) (n : Nat) (h : (L.take n).length = 2) :
    ((L.take n).drop 1).take 1 = (L.drop 1).take 1 := by
  rw [List.length_take] at h
  have hn : 2 ≤ n := by omega
  rw [List.drop_take, List.take_take, Nat.min_eq_left (by omega)]

theorem flush_lines (refID R : List Char) (posI : Nat) (st st1 : EnumeratorState)
    (hok : flush refID R posI st = Except.ok st1) :
    0 ≤ st.start_open_haplotypes ∧ st.start_open_haplotypes < (posI : Int) ∧
    st1.start_open_haplotypes = (posI : Int) ∧
    ∃ new, st1.outputStream = st.outputStream ++ new ∧
      ∀ line ∈ new,
        ((line.pos = st.start_open_haplotypes + 2 ∧ line.ref.length = 1) ∨
          (line.pos = st.start_open_haplotypes + 1 ∧
            line.ref = (R.drop st.start_open_haplotypes.toNat).take
              ((posI : Int) - st.start_open_haplotypes).toNat)) ∧
        1 ≤ line.pos ∧ line.ref = (R.drop (line.pos - 1).toNat).take line.ref.length := by
  unfold flush at hok
  simp only [bind_eq_ok, assertThat_eq_ok, rangeCheck_eq_ok, pure_eq_ok] at hok
  obtain ⟨-, hspan, -, ⟨h0, hlen⟩, ⟨alts, haps⟩, hfl, lines, hvcf, rfl⟩ := hok
  refine ⟨h0, by omega, rfl, lines, rfl, ?_⟩
  intro line hl
  have hcase := vcfOutput_lines _ _ _ _ _ hvcf line hl
  obtain ⟨s, hs⟩ : ∃ s : Nat, st.start_open_haplotypes = (s : Int) :=
    ⟨st.start_open_haplotypes.toNat, (Int.toNat_of_nonneg h0).symm⟩
  rw [hs] at hcase ⊢
  simp only [Int.toNat_ofNat] at hcase ⊢
  rcases hcase with ⟨hp, h2, hr⟩ | ⟨hp, hr⟩
  · rw [take_one_drop_one _ _ h2, List.drop_drop] at hr
    have hl2 : 2 ≤ (R.drop s).length := by
      rw [List.length_take] at h2; omega
    have hl1 : line.ref.length = 1 := by
      rw [hr, List.length_take, List.length_drop]
      rw [List.length_drop] at hl2
      omega
    refine ⟨Or.inl ⟨hp, hl1⟩, by omega, ?_⟩
    have e1 : (line.pos - 1).toNat = s + 1 := by omega
    rw [e1, hl1, hr]
  · refine ⟨Or.inr ⟨hp, hr⟩, by omega, ?_⟩
    have e1 : (line.pos - 1).toNat = s := by omega
    rw [e1]
    conv_lhs => rw [hr]
    rw [hr, take_length_take]

theorem deduplicate_output (st : EnumeratorState) :
    (deduplicate st).outputStream = st.outputStream ∧
      (deduplicate st).start_open_haplotypes = st.start_open_haplotypes := by
  unfold deduplicate
  by_cases h : st.modifiedLastPos = true
  · rw [if_pos h]; exact ⟨rfl, rfl⟩
  · rw [if_neg h]; exact ⟨rfl, rfl⟩

theorem enterHaplotype_output (max : Nat) (R : List Char) (G : List Int) (posI n : Nat)
    (st st1 : EnumeratorState) (a : HapPtr)
    (hok : enterHaplotype max R G posI n st a = Except.ok st1) :
    st1.outputStream = st.outputStream ∧
      st1.start_open_haplotypes = st.start_open_haplotypes := by
  unfold enterHaplotype at hok
  by_cases h1 : st.open_haplotypes.length ≤ max
  · rw [if_pos h1] at hok
    by_cases h2 : n > 0
    · rw [if_pos h2] at hok
      simp only [bind_eq_ok, assertThat_eq_ok, pure_eq_ok] at hok
      obtain ⟨-, -, ext, -, rfl⟩ := hok
      exact ⟨rfl, rfl⟩
    · rw [if_neg h2] at hok
      rw [pure_eq_ok] at hok
      subst hok; exact ⟨rfl, rfl⟩
  · rw [if_neg h1] at hok
    rw [pure_eq_ok] at hok
    subst hok; exact ⟨rfl, rfl⟩

theorem enterHaplotypes_output (max : Nat) (R : List Char) (G : List Int) (posI n : Nat)
    (new : List HapPtr) (st st1 : EnumeratorState)
    (hok : enterHaplotypes max R G posI n new st = Except.ok st1) :
    st1.outputStream = st.outputStream ∧
      st1.start_open_haplotypes = st.start_open_haplotypes := by
  induction new generalizing st with
  | nil =>
    simp only [enterHaplotypes, Except.ok.injEq] at hok
    subst hok; exact ⟨rfl, rfl⟩
  | cons a rest ih =>
    unfold enterHaplotypes at hok
    cases h : enterHaplotype max R G posI n st a with
    | error e => rw [h] at hok; simp at hok
    | ok st2 =>
      rw [h] at hok
      simp only at hok
      obtain ⟨h1, h2⟩ := enterHaplotype_output max R G posI n st st2 a h
      obtain ⟨h3, h4⟩ := ih st2 hok
      exact ⟨h3.trans h1, h4.trans h2⟩

theorem exitRecombination_output (max : Nat) (st st1 : EnumeratorState)
    (hok : exitRecombination max st = Except.ok st1) :
    st1.outputStream = st.outputStream ∧
      st1.start_open_haplotypes = st.start_open_haplotypes := by
  unfold exitRecombination at hok
  split at hok
  · simp only [Except.ok.injEq] at hok
    subst hok; exact ⟨rfl, rfl⟩
  · simp at hok

/-- The parts of a successful iteration of the main loop. -/
theorem enumeratorStep_ok (max : Nat) (refID R : List Char) (idx : AlignmentIndex)
    (G : List Int) (st st5 : EnumeratorState) (posI : Nat)
    (hok : enumeratorStep max refID R idx G st posI = Except.ok st5) :
    ∃ caughtUp refC st2 st3 len extended extensions,
      catchUp G posI (deduplicate st).open_haplotypes = Except.ok caughtUp ∧
      columnLengthCheck R idx posI caughtUp (-1) = Except.ok () ∧
      R[posI]? = some refC ∧
      enterHaplotypes max R G posI caughtUp.length (indexAt idx posI)
        { deduplicate st with open_haplotypes := caughtUp } = Except.ok st2 ∧
      exitRecombination max st2 = Except.ok st3 ∧
      extensionLength st3.open_haplotypes (-1) = Except.ok len ∧
      extendHaplotypes refC len st3.open_haplotypes [] = Except.ok (extended, extensions) ∧
      (if decide (extensions.length = 1 ∧ [refC] ∈ extensions) = true ∧ posI > 0 then
          flush refID R posI { st3 with open_haplotypes := extended }
        else pure { st3 with open_haplotypes := extended }) = Except.ok st5 := by
  unfold enumeratorStep at hok
  simp only [bind_eq_ok] at hok
  obtain ⟨caughtUp, h1, u, h2, hrest⟩ := hok
  cases hr : R[posI]? with
  | none => rw [hr] at hrest; simp [throw, throwThe, MonadExceptOf.throw] at hrest
  | some refC =>
    rw [hr] at hrest
    simp only [bind_eq_ok, assertThat_eq_ok] at hrest
    obtain ⟨st2, h3, st3, h4, len, h5, ⟨extended, extensions⟩, h6, -, -, -, -, h7⟩ := hrest
    exact ⟨caughtUp, refC, st2, st3, len, extended, extensions, h1, h2, rfl, h3, h4, h5, h6, h7⟩

theorem enumeratorStep_output (max : Nat) (refID R : List Char) (idx : AlignmentIndex)
    (G : List Int) (st st5 : EnumeratorState) (posI : Nat)
    (hok : enumeratorStep max refID R idx G st posI = Except.ok st5) :
    ∃ new, st5.outputStream = st.outputStream ++ new ∧ ∀ line ∈ new, RefMatches R line := by
  obtain ⟨caughtUp, refC, st2, st3, len, extended, extensions, -, -, -, h3, h4, -, -, h7⟩ :=
    enumeratorStep_ok max refID R idx G st st5 posI hok
  have e2 := (enterHaplotypes_output _ _ _ _ _ _ _ _ h3).1
  have e3 := (exitRecombination_output _ _ _ h4).1
  have e0 : st3.outputStream = st.outputStream := by
    rw [e3, e2]; exact (deduplicate_output st).1
  by_cases hc : decide (extensions.length = 1 ∧ [refC] ∈ extensions) = true ∧ posI > 0
  · rw [if_pos hc] at h7
    obtain ⟨-, -, -, new, hnew, hlines⟩ := flush_lines refID R posI _ st5 h7
    refine ⟨new, by rw [hnew]; simp only [e0], ?_⟩
    intro line hl
    exact (hlines line hl).2
  · rw [if_neg hc, pure_eq_ok] at h7
    subst h7
    exact ⟨[], by simp [e0], by simp⟩

theorem enumeratorLoop_output (max : Nat) (refID R : List Char) (idx : AlignmentIndex)
    (G : List Int) (positions : List Nat) (st st1 : EnumeratorState)
    (hok : enumeratorLoop max refID R idx G positions st = Except.ok st1)
    (hst : ∀ line ∈ st.outputStream, RefMatches R line) :
    ∀ line ∈ st1.outputStream, RefMatches R line := by
  induction positions generalizing st with
  | nil =>
    simp only [enumeratorLoop, Except.ok.injEq] at hok
    subst hok; exact hst
  | cons posI rest ih =>
    unfold enumeratorLoop at hok
    cases h : enumeratorStep max refID R idx G st posI with
    | error e => rw [h] at hok; simp at hok
    | ok st2 =>
      rw [h] at hok
      simp only at hok
      obtain ⟨new, hnew, hlines⟩ := enumeratorStep_output max refID R idx G st st2 posI h
      apply ih st2 hok
      intro line hl
      rw [hnew, List.mem_append] at hl
      rcases hl with hl | hl
      · exact hst line hl
      · exact hlines line hl

/-- C2. Every flush writes lines whose position is `start_open_haplotypes + 2`
with a reference field of one character (SNP path) or
`start_open_haplotypes + 1` with the extracted reference sequence (general
path), and in both cases the reference field is the substring of `R` of its
length that starts at the 0-based index `POS - 1`; hence this holds for every
line written by `produceVCF`. -/
theorem vcf_ref_is_reference_substring (max : Nat) (refID R : List Char)
    (idx : AlignmentIndex) :
    (∀ posI st st1, flush refID R posI st = Except.ok st1 →
      ∃ new, st1.outputStream = st.outputStream ++ new ∧
        ∀ line ∈ new,
          ((line.pos = st.start_open_haplotypes + 2 ∧ line.ref.length = 1) ∨
            (line.pos = st.start_open_haplotypes + 1 ∧
              line.ref = (R.drop st.start_open_haplotypes.toNat).take
                ((posI : Int) - st.start_open_haplotypes).toNat)) ∧
          1 ≤ line.pos ∧ line.ref = (R.drop (line.pos - 1).toNat).take line.ref.length) ∧
    (∀ lines, produceVCF max refID R idx = Except.ok lines →
      ∀ line ∈ lines,
        1 ≤ line.pos ∧ line.ref = (R.drop (line.pos - 1).toNat).take line.ref.length) := by
  constructor
  · intro posI st st1 hok
    exact (flush_lines refID R posI st st1 hok).2.2.2
  · intro lines hok
    unfold produceVCF at hok
    cases hb : buildGapStructure R idx with
    | error e => rw [hb] at hok; simp at hok
    | ok GC =>
      obtain ⟨G, C⟩ := GC
      rw [hb] at hok
      simp only at hok
      cases hl : enumeratorLoop max refID R idx G (List.range R.length) enumeratorInit with
      | error e => rw [hl] at hok; simp at hok
      | ok st =>
        rw [hl] at hok
        simp only [Except.ok.injEq] at hok
        subst hok
        exact enumeratorLoop_output max refID R idx G _ _ st hl (by simp [enumeratorInit])

/-- C2 on the run of `produceVCF` for `exampleVariantIndex`, which writes one
line on the SNP path and one on the general path. -/
theorem vcf_ref_is_reference_substring_witness :
    produceVCF 5000 "chr".toList "TACGTA".toList exampleVariantIndex
      = Except.ok exampleVariantLines ∧
    ∀ line ∈ exampleVariantLines,
      1 ≤ line.pos ∧
        line.ref = (("TACGTA".toList).drop (line.pos - 1).toNat).take line.ref.length :=
  ⟨rfl, (vcf_ref_is_reference_substring 5000 "chr".toList "TACGTA".toList
    exampleVariantIndex).2 exampleVariantLines rfl⟩

/-! ## Column synchrony of the enumerator -/

theorem gapString_length (l1 l2 : Nat) (G : List Int) (i : Int) (gaps : List Char)
    (h : gapString l1 l2 G i = Except.ok gaps) : gaps.length = gapCount G i := by
  unfold gapString at h
  unfold gapCount
  cases hv : vectorAt G i with
  | none => rw [hv] at h; simp at h
  | some g =>
    rw [hv] at h
    simp only at h ⊢
    by_cases hn : (if g = -1 then (0 : Int) else g) < 0
    · rw [if_pos hn] at h; simp at h
    · rw [if_neg hn] at h
      simp only [Except.ok.injEq] at h
      rw [← h, List.length_replicate]

theorem spanLength_succ (G : List Int) (n : Nat) (refI : Int) :
    spanLength G (n + 1) refI = spanLength G n refI + 1 + gapCount G (refI + n) := by
  induction n generalizing refI with
  | zero => simp [spanLength]
  | succ k ih =>
    rw [spanLength, ih (refI + 1), spanLength]
    have : refI + 1 + (k : Int) = refI + ((k + 1 : Nat) : Int) := by push_cast; ring
    rw [this]
    omega

theorem columnLengthCheck_ok (R : List Char) (idx : AlignmentIndex) (posI : Nat)
    (haps : List openHaplotype) (len : Nat) (init : Int)
    (hinit : init = -1 ∨ init = (len : Int))
    (hall : ∀ h ∈ haps, h.1.length = len) :
    columnLengthCheck R idx posI haps init = Except.ok () := by
  induction haps generalizing init with
  | nil => rfl
  | cons h rest ih =>
    unfold columnLengthCheck
    have hl : h.1.length = len := hall h (List.mem_cons_self _ _)
    have hassembled : (if init = -1 then (h.1.length : Int) else init) = (len : Int) := by
      rcases hinit with h1 | h1
      · rw [if_pos h1, hl]
      · by_cases h2 : init = -1
        · rw [if_pos h2, hl]
        · rw [if_neg h2, h1]
    rw [hl] at hassembled
    simp only [hl, hassembled, ne_eq, not_true_eq_false, if_false]
    exact ih (len : Int) (Or.inr rfl) (fun h1 hm => hall h1 (List.mem_cons_of_mem _ hm))

theorem keepFirstKeys_subset (haps : List openHaplotype) (keys : List (List Char)) :
    ∀ h ∈ keepFirstKeys haps keys, h ∈ haps := by
  induction haps generalizing keys with
  | nil => intro h hm; simp [keepFirstKeys] at hm
  | cons x rest ih =>
    intro h hm
    unfold keepFirstKeys at hm
    by_cases hk : haplotype_key x ∈ keys
    · rw [if_pos hk] at hm
      exact List.mem_cons_of_mem _ (ih _ h hm)
    · rw [if_neg hk] at hm
      rcases List.mem_cons.1 hm with rfl | hm1
      · exact List.mem_cons_self _ _
      · exact List.mem_cons_of_mem _ (ih _ h hm1)

theorem deduplicate_subset (st : EnumeratorState) :
    ∀ h ∈ (deduplicate st).open_haplotypes, h ∈ st.open_haplotypes := by
  intro h hm
  unfold deduplicate at hm
  by_cases h1 : st.modifiedLastPos = true
  · rw [if_pos h1] at hm
    simp only at hm
    by_cases h2 : countDuplicated st.open_haplotypes [] 0 ≠ 0
    · rw [if_pos h2] at hm
      exact keepFirstKeys_subset _ _ h hm
    · rw [if_neg h2] at hm
      exact hm
  · rw [if_neg h1] at hm
    exact hm

theorem consumeRefGaps_run (query gs post : List Char) (y : Char) (nextPos : Nat)
    (ext : List Char) (hgs : ∀ z ∈ gs, isGapCharacter z = true) (hy : isGapCharacter y = false)
    (hq : nextPos + gs.length ≤ query.length) :
    ∃ ext1, consumeRefGaps query (gs ++ y :: post) nextPos ext
        = Except.ok (nextPos + gs.length, ext1) ∧
      ext1.length = ext.length + gs.length := by
  induction gs generalizing nextPos ext with
  | nil =>
    have hy2 := (isGapCharacter_eq_false_iff y).1 hy
    refine ⟨ext, ?_, by simp⟩
    simp only [List.nil_append, consumeRefGaps, List.length_nil, Nat.add_zero]
    rw [if_neg (by simp [hy2.1, hy2.2])]
  | cons g rest ih =>
    have hg := (isGapCharacter_eq_true_iff g).1 (hgs g (List.mem_cons_self _ _))
    simp only [List.length_cons] at hq
    have hlt : nextPos < query.length := by omega
    obtain ⟨ext1, h1, h2⟩ := ih (nextPos + 1) (ext ++ (query.drop nextPos).take 1)
      (fun z hz => hgs z (List.mem_cons_of_mem _ hz)) (by omega)
    refine ⟨ext1, ?_, ?_⟩
    · show consumeRefGaps query (g :: (rest ++ y :: post)) nextPos ext = _
      rw [consumeRefGaps, if_pos hg, if_neg (by omega), h1]
      simp only [List.length_cons]
      congr 2
      omega
    · rw [h2]
      simp only [List.length_append, List.length_take, List.length_drop, List.length_cons]
      omega

theorem drop_of_last (rs : List Char) (r : Char) (n : Nat) (hn : n ≤ rs.length)
    (hr : isGapCharacter r = false) : 1 ≤ nonGapCount ((rs ++ [r]).drop n) := by
  rw [List.drop_append_of_le_length hn, nonGapCount_append, nonGapCount_singleton r hr]
  omega

theorem gapCount_of_slot (G : List Int) (i : Int) (n : Nat)
    (h : vectorAt G i = some (n : Int)) : gapCount G i = n := by
  unfold gapCount
  rw [h]
  simp only
  rw [if_neg (by omega)]
  simp

theorem catchUpHaplotype_at (G : List Int) (posI : Nat) (h h1 : openHaplotype)
    (hat : HapAt G posI h) (hpos : 0 < posI ∨ h.2.1 = none)
    (hok : catchUpHaplotype G posI h = Except.ok h1) :
    h1.1.length = h.1.length + (if 0 < posI then gapCount G ((posI : Int) - 1) else 0) ∧
      HapMid G posI h1 := by
  obtain ⟨seq, src, c⟩ := h
  cases src with
  | none =>
    unfold catchUpHaplotype at hok
    simp only at hok
    by_cases hp : posI > 0
    · rw [if_pos hp] at hok
      cases hg : gapString 738 743 G ((posI : Int) - 1) with
      | error e => rw [hg] at hok; simp at hok
      | ok gaps =>
        rw [hg] at hok
        simp only [Except.ok.injEq] at hok
        subst hok
        refine ⟨?_, Or.inr (by simp [HapReady])⟩
        simp only [List.length_append, gapString_length _ _ _ _ _ hg]
        rw [if_pos hp]
    · rw [if_neg hp] at hok
      simp only [Except.ok.injEq] at hok
      subst hok
      refine ⟨?_, Or.inr (by simp [HapReady])⟩
      have : ¬ 0 < posI := hp
      rw [if_neg this]; rfl
  | some a =>
    have hp : 0 < posI := by
      rcases hpos with h | h
      · exact h
      · simp at h
    simp only [HapAt] at hat
    obtain ⟨hsync, hc0, x, hx, hxg, hidx⟩ := hat
    unfold catchUpHaplotype at hok
    simp only at hok
    by_cases hex : c = (a.obj.ref.length : Int) - 1
    · rw [if_pos hex] at hok
      cases hg : gapString 702 707 G ((posI : Int) - 1) with
      | error e => rw [hg] at hok; simp at hok
      | ok gaps =>
        rw [hg] at hok
        simp only [Except.ok.injEq] at hok
        subst hok
        refine ⟨?_, Or.inl (by simp [isExhausted, hex])⟩
        simp only [List.length_append, gapString_length _ _ _ _ _ hg]
        rw [if_pos hp]
    · rw [if_neg hex] at hok
      obtain ⟨cN, rfl⟩ : ∃ cN : Nat, c = (cN : Int) := ⟨c.toNat, (Int.toNat_of_nonneg hc0).symm⟩
      simp only [Int.toNat_ofNat] at hx hidx
      have hcN : cN < a.obj.ref.length := (List.getElem?_eq_some_iff.1 hx).1
      have hvx : vectorAt a.obj.ref (cN : Int) = some x := by
        unfold vectorAt
        rw [if_pos (by omega)]
        simpa using hx
      rw [hvx] at hok
      simp only at hok
      have e1 : ((cN : Int) + 1).toNat = cN + 1 := by omega
      rw [e1] at hok
      obtain ⟨rs, r, hlast, hr⟩ := hsync.last
      have hrs : cN + 1 ≤ rs.length := by
        have : a.obj.ref.length = rs.length + 1 := by rw [hlast]; simp
        omega
      have hlater : 1 ≤ nonGapCount (a.obj.ref.drop (cN + 1)) := by
        rw [hlast]; exact drop_of_last rs r _ hrs hr
      obtain ⟨gs, y, post, e, hgs, hy⟩ := cursor_decomp a.obj.ref cN x hx hlater
      have hprelen : (a.obj.ref.take cN).length = cN := by
        rw [List.length_take]; omega
      obtain ⟨d1, d2, d3, d4, d5, d6, d7, d8, d9⟩ :=
        decomp_index a.obj.ref (a.obj.ref.take cN) gs post x y e hxg hgs hy
      rw [hprelen] at d2 d3 d5 d8
      have hreflen : a.obj.ref.length = cN + 1 + gs.length + 1 + post.length := by
        conv_lhs => rw [e]
        simp only [List.length_append, List.length_cons, hprelen]
        omega
      obtain ⟨ext1, hrun, hext⟩ := consumeRefGaps_run a.obj.query gs post y (cN + 1) []
        hgs hy (by rw [← hsync.len]; omega)
      rw [d5, hrun] at hok
      simp only [Except.ok.injEq] at hok
      subst hok
      have hslot := hsync.slots (a.obj.ref.take cN) x gs y post e hxg hgs hy
      rw [← d3, hidx] at hslot
      refine ⟨?_, Or.inr ?_⟩
      · simp only [List.length_append, hext, List.length_nil, Nat.zero_add]
        rw [if_pos hp, gapCount_of_slot G _ _ hslot]
      · simp only [HapReady]
        have e2 : (((cN + 1 + gs.length : Nat) : Int) - 1 + 1).toNat = cN + 1 + gs.length := by
          omega
        rw [e2]
        refine ⟨hsync, by omega, y, d2, hy, ?_⟩
        rw [d8, ← d3]
        exact hidx

theorem catchUp_at (G : List Int) (posI : Nat) (haps caughtUp : List openHaplotype) (len : Nat)
    (hlen : ∀ h ∈ haps, h.1.length = len)
    (hat : ∀ h ∈ haps, HapAt G posI h)
    (hpos : 0 < posI ∨ ∀ h ∈ haps, h.2.1 = none)
    (hok : catchUp G posI haps = Except.ok caughtUp) :
    ∀ h ∈ caughtUp,
      h.1.length = len + (if 0 < posI then gapCount G ((posI : Int) - 1) else 0) ∧
        HapMid G posI h := by
  induction haps generalizing caughtUp with
  | nil =>
    simp only [catchUp, Except.ok.injEq] at hok
    subst hok
    intro h hm; simp at hm
  | cons x rest ih =>
    unfold catchUp at hok
    cases h1 : catchUpHaplotype G posI x with
    | error e => rw [h1] at hok; simp at hok
    | ok x1 =>
      rw [h1] at hok
      simp only at hok
      cases h2 : catchUp G posI rest with
      | error e => rw [h2] at hok; simp at hok
      | ok r1 =>
        rw [h2] at hok
        simp only [Except.ok.injEq] at hok
        subst hok
        intro h hm
        rcases List.mem_cons.1 hm with rfl | hm1
        · have := catchUpHaplotype_at G posI x h (hat x (List.mem_cons_self _ _))
            (hpos.imp id (fun hn => hn x (List.mem_cons_self _ _))) h1
          rw [hlen x (List.mem_cons_self _ _)] at this
          exact this
        · exact ih r1 (fun h hm => hlen h (List.mem_cons_of_mem _ hm))
            (fun h hm => hat h (List.mem_cons_of_mem _ hm))
            (hpos.imp id (fun hn h hm => hn h (List.mem_cons_of_mem _ hm))) h2 h hm1

theorem referenceExtractionLoop_length (R : List Char) (G : List Int) (n : Nat) (refI : Int)
    (acc out : List Char) (hok : referenceExtractionLoop R G n refI acc = Except.ok out) :
    out.length = acc.length + spanLength G n refI := by
  induction n generalizing refI acc with
  | zero =>
    simp only [referenceExtractionLoop, Except.ok.injEq] at hok
    subst hok
    simp [spanLength]
  | succ k ih =>
    unfold referenceExtractionLoop at hok
    cases hv : vectorAt R refI with
    | none => rw [hv] at hok; simp at hok
    | some c =>
      rw [hv] at hok
      simp only at hok
      cases hg : gapString 824 828 G refI with
      | error e => rw [hg] at hok; simp at hok
      | ok gaps =>
        rw [hg] at hok
        simp only at hok
        rw [ih _ _ hok, spanLength]
        simp only [List.length_append, List.length_singleton, gapString_length _ _ _ _ _ hg]
        omega

theorem hapReady_entering (G : List Int) (posI : Nat) (a : HapPtr) (seq : List Char)
    (hsync : Sync G a) (hstart : a.obj.aligment_start_pos = (posI : Int)) :
    HapReady G posI (seq, some a, -1) := by
  obtain ⟨r, rs, href, hr⟩ := hsync.head
  simp only [HapReady]
  refine ⟨hsync, le_refl _, r, ?_, hr, ?_⟩
  · rw [href]; simp
  · simp [nonGapCount, hstart]

theorem enterHaplotype_mid (max : Nat) (R : List Char) (G : List Int) (posI n s L : Nat)
    (st st1 : EnumeratorState) (a : HapPtr)
    (hs : st.start_open_haplotypes = (s : Int))
    (hL : s < posI → L = spanLength G (posI - s) (s : Int))
    (hsync : Sync G a) (hstart : a.obj.aligment_start_pos = (posI : Int))
    (hmid : MidAll G posI L st.open_haplotypes)
    (hok : enterHaplotype max R G posI n st a = Except.ok st1) :
    MidAll G posI L st1.open_haplotypes := by
  unfold enterHaplotype at hok
  by_cases h1 : st.open_haplotypes.length ≤ max
  · rw [if_pos h1] at hok
    by_cases h2 : n > 0
    · rw [if_pos h2] at hok
      simp only [bind_eq_ok, assertThat_eq_ok, pure_eq_ok] at hok
      obtain ⟨-, hge, ext, hext, rfl⟩ := hok
      rw [hs] at hge hext
      have hsp : s < posI := by omega
      have hn : ((posI : Int) - 1 - (s : Int) + 1).toNat = posI - s := by omega
      rw [hn] at hext
      have hlen := referenceExtractionLoop_length R G _ _ _ _ hext
      simp only [List.length_nil, Nat.zero_add] at hlen
      intro h hm
      simp only [List.mem_append, List.mem_map, List.mem_singleton] at hm
      rcases hm with (hm | ⟨e, he, rfl⟩) | rfl
      · exact hmid h hm
      · exact ⟨(hmid e (List.mem_of_mem_take he)).1,
          Or.inr (hapReady_entering G posI a _ hsync hstart)⟩
      · exact ⟨by rw [hlen, hL hsp], Or.inr (hapReady_entering G posI a _ hsync hstart)⟩
    · rw [if_neg h2, pure_eq_ok] at hok
      subst hok; exact hmid
  · rw [if_neg h1, pure_eq_ok] at hok
    subst hok; exact hmid

theorem enterHaplotypes_mid (max : Nat) (R : List Char) (G : List Int) (posI n s L : Nat)
    (new : List HapPtr) (st st1 : EnumeratorState)
    (hs : st.start_open_haplotypes = (s : Int))
    (hL : s < posI → L = spanLength G (posI - s) (s : Int))
    (hnew : ∀ a ∈ new, Sync G a ∧ a.obj.aligment_start_pos = (posI : Int))
    (hmid : MidAll G posI L st.open_haplotypes)
    (hok : enterHaplotypes max R G posI n new st = Except.ok st1) :
    MidAll G posI L st1.open_haplotypes := by
  induction new generalizing st with
  | nil =>
    simp only [enterHaplotypes, Except.ok.injEq] at hok
    subst hok; exact hmid
  | cons a rest ih =>
    unfold enterHaplotypes at hok
    cases h : enterHaplotype max R G posI n st a with
    | error e => rw [h] at hok; simp at hok
    | ok st2 =>
      rw [h] at hok
      simp only at hok
      obtain ⟨ha1, ha2⟩ := hnew a (List.mem_cons_self _ _)
      have hmid2 := enterHaplotype_mid max R G posI n s L st st2 a hs hL ha1 ha2 hmid h
      have hs2 : st2.start_open_haplotypes = (s : Int) := by
        rw [(enterHaplotype_output max R G posI n st st2 a h).2, hs]
      exact ih st2 hs2 (fun b hb => hnew b (List.mem_cons_of_mem _ hb)) hmid2 hok

theorem mem_of_getElem?_some {α : Type} (l : List α) (i : Nat) (x : α)
    (h : l[i]? = some x) : x ∈ l := by
  obtain ⟨hlt, hget⟩ := List.getElem?_eq_some_iff.1 h
  rw [← hget]
  exact List.getElem_mem hlt

theorem exitInner_inv (G : List Int) (posI L size : Nat) (done : Nat → Prop) (max outer : Nat)
    (es es1 : ExitState) (existingHaploI : Nat) (hinv : ExitInv G posI L size done es)
    (hok : exitInner max outer es existingHaploI = Except.ok es1) :
    ExitInv G posI L size done es1 := by
  unfold exitInner at hok
  cases ho : es.open_haplotypes[outer]? with
  | none => rw [ho] at hok; simp at hok
  | some haplotype =>
    rw [ho] at hok
    simp only at hok
    by_cases h1 : existingHaploI = outer
    · rw [if_pos h1] at hok
      simp only [Except.ok.injEq] at hok
      subst hok; exact hinv
    · rw [if_neg h1] at hok
      by_cases h2 : existingHaploI ∈ es.exitedHaplotype
      · rw [if_pos h2] at hok
        simp only [Except.ok.injEq] at hok
        subst hok; exact hinv
      · rw [if_neg h2] at hok
        cases he : es.open_haplotypes[existingHaploI]? with
        | none => rw [he] at hok; simp at hok
        | some existing =>
          rw [he] at hok
          simp only at hok
          by_cases h3 : isExhausted (haplotype.1, existing.2.1, existing.2.2) = false
          · rw [if_pos h3] at hok
            by_cases h4 : haplotype_key (haplotype.1, existing.2.1, existing.2.2)
                ∉ es.inner_open_haplotypes_keys
            · rw [if_pos h4] at hok
              by_cases h5 : es.open_haplotypes.length ≤ max
              · rw [if_pos h5] at hok
                simp only [Except.ok.injEq] at hok
                subst hok
                have hmo := hinv.mid haplotype (mem_of_getElem?_some _ _ _ ho)
                have hme := hinv.mid existing (mem_of_getElem?_some _ _ _ he)
                refine ⟨?_, ?_, ?_⟩
                · intro h hm
                  simp only [List.mem_append, List.mem_singleton] at hm
                  rcases hm with hm | rfl
                  · exact hinv.mid h hm
                  · refine ⟨hmo.1, ?_⟩
                    rcases hme.2 with hx | hr
                    · exact Or.inl hx
                    · exact Or.inr hr
                · simp only [List.length_append, List.length_singleton]
                  have := hinv.size_le
                  omega
                · intro i h hi hd
                  simp only at hi
                  by_cases hlt : i < es.open_haplotypes.length
                  · rw [List.getElem?_append_left hlt] at hi
                    exact hinv.visited i h hi hd
                  · have hge : es.open_haplotypes.length ≤ i := Nat.le_of_not_lt hlt
                    rw [List.getElem?_append_right hge] at hi
                    have hmem := mem_of_getElem?_some _ _ _ hi
                    simp only [List.mem_singleton] at hmem
                    subst hmem
                    exact h3
              · rw [if_neg h5] at hok
                simp only [Except.ok.injEq] at hok
                subst hok; exact hinv
            · rw [if_neg h4] at hok
              simp only [Except.ok.injEq] at hok
              subst hok; exact hinv
          · rw [if_neg h3] at hok
            simp only [Except.ok.injEq] at hok
            subst hok; exact hinv

theorem exitInnerLoop_inv (G : List Int) (posI L size : Nat) (done : Nat → Prop)
    (max outer : Nat) (ks : List Nat) (es es1 : ExitState)
    (hinv : ExitInv G posI L size done es)
    (hok : exitInnerLoop max outer ks es = Except.ok es1) :
    ExitInv G posI L size done es1 := by
  induction ks generalizing es with
  | nil =>
    simp only [exitInnerLoop, Except.ok.injEq] at hok
    subst hok; exact hinv
  | cons k rest ih =>
    unfold exitInnerLoop at hok
    cases h : exitInner max outer es k with
    | error e => rw [h] at hok; simp at hok
    | ok es2 =>
      rw [h] at hok
      simp only at hok
      exact ih es2 (exitInner_inv G posI L size done max outer es es2 k hinv h) hok

theorem exitOuter_inv (G : List Int) (posI L size : Nat) (done : Nat → Prop) (max n k : Nat)
    (es es1 : ExitState) (hk : k < size) (hinv : ExitInv G posI L size done es)
    (hok : exitOuter max n es k = Except.ok es1) :
    ExitInv G posI L size (fun i => done i ∨ i = k) es1 := by
  unfold exitOuter at hok
  cases ho : es.open_haplotypes[k]? with
  | none => rw [ho] at hok; simp at hok
  | some haplotype =>
    rw [ho] at hok
    simp only at hok
    by_cases hex : isExhausted haplotype = true
    · rw [if_pos hex] at hok
      have hmo := hinv.mid haplotype (mem_of_getElem?_some _ _ _ ho)
      have hinv1 : ExitInv G posI L size (fun i => done i ∨ i = k)
          { open_haplotypes := es.open_haplotypes.set k (haplotype.1, none, -1)
            inner_open_haplotypes_keys :=
              if es.inner_open_haplotypes_keys.length = 0 then allKeys es.open_haplotypes []
              else es.inner_open_haplotypes_keys
            exitedHaplotype := k :: es.exitedHaplotype
            modifiedLastPos := true } := by
        refine ⟨?_, ?_, ?_⟩
        · intro h hm
          simp only at hm
          rcases List.mem_or_eq_of_mem_set hm with hm1 | rfl
          · exact hinv.mid h hm1
          · exact ⟨hmo.1, Or.inr (by simp [HapReady])⟩
        · simp only [List.length_set]
          exact hinv.size_le
        · intro i h hi hd
          simp only at hi
          by_cases hik : i = k
          · subst hik
            have hlt : i < es.open_haplotypes.length := (List.getElem?_eq_some_iff.1 ho).1
            rw [List.getElem?_set_self hlt] at hi
            simp only [Option.some.injEq] at hi
            subst hi
            simp [isExhausted]
          · rw [List.getElem?_set_ne (Ne.symm hik)] at hi
            apply hinv.visited i h hi
            rcases hd with (hd | hd) | hd
            · exact Or.inl hd
            · exact absurd hd hik
            · exact Or.inr hd
      by_cases hmax : (es.open_haplotypes.set k (haplotype.1, none, -1)).length ≤ max
      · rw [if_pos hmax] at hok
        exact exitInnerLoop_inv G posI L size _ max k _ _ es1 hinv1 hok
      · rw [if_neg hmax] at hok
        simp only [Except.ok.injEq] at hok
        subst hok; exact hinv1
    · rw [if_neg hex] at hok
      simp only [Except.ok.injEq] at hok
      subst hok
      refine ⟨hinv.mid, hinv.size_le, ?_⟩
      intro i h hi hd
      rcases hd with (hd | hd) | hd
      · exact hinv.visited i h hi (Or.inl hd)
      · subst hd
        rw [ho] at hi
        simp only [Option.some.injEq] at hi
        subst hi
        simpa using hex
      · exact hinv.visited i h hi (Or.inr hd)

theorem exitOuterLoop_inv (G : List Int) (posI L size : Nat) (done : Nat → Prop) (max n : Nat)
    (ks : List Nat) (es es1 : ExitState) (hks : ∀ k ∈ ks, k < size)
    (hinv : ExitInv G posI L size done es)
    (hok : exitOuterLoop max n ks es = Except.ok es1) :
    ExitInv G posI L size (fun i => done i ∨ i ∈ ks) es1 := by
  induction ks generalizing es done with
  | nil =>
    simp only [exitOuterLoop, Except.ok.injEq] at hok
    subst hok
    refine ⟨hinv.mid, hinv.size_le, ?_⟩
    intro i h hi hd
    apply hinv.visited i h hi
    simpa using hd
  | cons k rest ih =>
    unfold exitOuterLoop at hok
    cases h : exitOuter max n es k with
    | error e => rw [h] at hok; simp at hok
    | ok es2 =>
      rw [h] at hok
      simp only at hok
      have h2 := exitOuter_inv G posI L size done max n k es es2
        (hks k (List.mem_cons_self _ _)) hinv h
      have h3 := ih (fun i => done i ∨ i = k) es2
        (fun j hj => hks j (List.mem_cons_of_mem _ hj)) h2 hok
      refine ⟨h3.mid, h3.size_le, ?_⟩
      intro i hh hi hd
      apply h3.visited i hh hi
      rcases hd with (hd | hd) | hd
      · exact Or.inl (Or.inl (Or.inl hd))
      · rcases List.mem_cons.1 hd with hd1 | hd1
        · exact Or.inl (Or.inl (Or.inr hd1))
        · exact Or.inl (Or.inr hd1)
      · exact Or.inr hd

theorem exitRecombination_ready (G : List Int) (posI L max : Nat) (st st1 : EnumeratorState)
    (hmid : MidAll G posI L st.open_haplotypes)
    (hok : exitRecombination max st = Except.ok st1) :
    ReadyAll G posI L st1.open_haplotypes := by
  unfold exitRecombination at hok
  cases h : exitOuterLoop max st.open_haplotypes.length (List.range st.open_haplotypes.length)
      { open_haplotypes := st.open_haplotypes
        inner_open_haplotypes_keys := []
        exitedHaplotype := []
        modifiedLastPos := st.modifiedLastPos } with
  | error e => rw [h] at hok; simp at hok
  | ok es =>
    rw [h] at hok
    simp only [Except.ok.injEq] at hok
    subst hok
    have hinv0 : ExitInv G posI L st.open_haplotypes.length (fun _ => False)
        { open_haplotypes := st.open_haplotypes
          inner_open_haplotypes_keys := []
          exitedHaplotype := []
          modifiedLastPos := st.modifiedLastPos } := by
      refine ⟨hmid, le_refl _, ?_⟩
      intro i hh hi hd
      simp only at hi
      have := (List.getElem?_eq_some_iff.1 hi).1
      rcases hd with hd | hd
      · exact absurd hd id
      · omega
    have hinv := exitOuterLoop_inv G posI L _ _ max _ _ _ es
      (fun k hk => List.mem_range.1 hk) hinv0 h
    intro hh hm
    simp only at hm
    obtain ⟨i, hi⟩ := List.getElem?_of_mem hm
    have hne : isExhausted hh = false := by
      apply hinv.visited i hh hi
      by_cases hlt : i < st.open_haplotypes.length
      · exact Or.inl (Or.inr (List.mem_range.2 hlt))
      · exact Or.inr (Nat.le_of_not_lt hlt)
    obtain ⟨hl, hmd⟩ := hinv.mid hh hm
    refine ⟨hl, hne, ?_⟩
    rcases hmd with hx | hr
    · rw [hne] at hx; simp at hx
    · exact hr

theorem alignmentExtension_ready (l1 l2 l3 : Nat) (a : HapPtr) (c : Int) (y : Char)
    (ext : List Char) (hc : -1 ≤ c) (hy : a.obj.ref[(c + 1).toNat]? = some y)
    (hyg : isGapCharacter y = false)
    (hok : alignmentExtension l1 l2 l3 a c = Except.ok ext) : ext.length = 1 := by
  unfold alignmentExtension at hok
  rw [if_neg (by omega)] at hok
  obtain ⟨hlt, hget⟩ := List.getElem?_eq_some_iff.1 hy
  rw [List.drop_eq_getElem_cons hlt, hget] at hok
  unfold extendColumns at hok
  cases hq : a.obj.query[(c + 1).toNat]? with
  | none => rw [hq] at hok; simp at hok
  | some hapC =>
    rw [hq] at hok
    simp only at hok
    have hy2 := (isGapCharacter_eq_false_iff y).1 hyg
    rw [if_pos hy2] at hok
    simp only [Except.ok.injEq] at hok
    subst hok
    simp

theorem extensionLength_ready (G : List Int) (posI L : Nat) (haps : List openHaplotype)
    (init len : Int) (hready : ReadyAll G posI L haps) (hinit : init = -1 ∨ init = 1)
    (hok : extensionLength haps init = Except.ok len) : len = -1 ∨ len = 1 := by
  induction haps generalizing init with
  | nil =>
    simp only [extensionLength, Except.ok.injEq] at hok
    subst hok; exact hinit
  | cons h rest ih =>
    have hrest : ReadyAll G posI L rest := fun x hx => hready x (List.mem_cons_of_mem _ hx)
    obtain ⟨-, -, hr⟩ := hready h (List.mem_cons_self _ _)
    unfold extensionLength at hok
    cases hsrc : h.2.1 with
    | none =>
      rw [hsrc] at hok
      simp only at hok
      exact ih init hrest hinit hok
    | some a =>
      rw [hsrc] at hok
      simp only at hok
      simp only [HapReady, hsrc] at hr
      obtain ⟨-, hc, y, hy, hyg, -⟩ := hr
      cases hext : alignmentExtension 1068 1069 1075 a h.2.2 with
      | error e => rw [hext] at hok; simp at hok
      | ok extension =>
        rw [hext] at hok
        simp only at hok
        have hl := alignmentExtension_ready _ _ _ a h.2.2 y extension hc hy hyg hext
        rw [hl] at hok
        simp only [ne_eq, one_ne_zero, not_false_eq_true, if_true, Nat.cast_one] at hok
        have hlen : (if init = -1 then (1 : Int) else init) = 1 := by
          rcases hinit with h1 | h1
          · rw [if_pos h1]
          · rw [h1]; simp
        rw [hlen] at hok
        simp only [if_true] at hok
        exact ih 1 hrest (Or.inr rfl) hok

theorem extendHaplotype_ready (G : List Int) (posI L : Nat) (refC : Char) (len : Int)
    (h h1 : openHaplotype) (e : List Char) (hl : h.1.length = L) (hr : HapReady G posI h)
    (hlen : len = -1 ∨ len = 1)
    (hok : extendHaplotype refC len h = Except.ok (h1, e)) :
    h1.1.length = L + 1 ∧ HapAt G (posI + 1) h1 := by
  obtain ⟨seq, src, c⟩ := h
  simp only at hl
  cases src with
  | none =>
    unfold extendHaplotype at hok
    simp only at hok
    by_cases hn : len ≠ -1
    · rw [if_pos hn] at hok
      have h1' : len = 1 := by
        rcases hlen with h | h
        · exact absurd h hn
        · exact h
      subst h1'
      simp only [sub_self, ge_iff_le, le_refl, if_true, Int.toNat_zero, List.replicate_zero,
        List.append_nil, Except.ok.injEq, Prod.mk.injEq] at hok
      obtain ⟨rfl, -⟩ := hok
      exact ⟨by simp [hl], by simp [HapAt]⟩
    · rw [if_neg hn] at hok
      simp only [Except.ok.injEq, Prod.mk.injEq] at hok
      obtain ⟨rfl, -⟩ := hok
      exact ⟨by simp [hl], by simp [HapAt]⟩
  | some a =>
    simp only [HapReady] at hr
    obtain ⟨hsync, hc, y, hy, hyg, hidx⟩ := hr
    unfold extendHaplotype at hok
    simp only at hok
    cases hext : alignmentExtension 1124 1125 1130 a c with
    | error e1 => rw [hext] at hok; simp at hok
    | ok extension =>
      rw [hext] at hok
      simp only [Except.ok.injEq, Prod.mk.injEq] at hok
      obtain ⟨rfl, -⟩ := hok
      have hl1 := alignmentExtension_ready _ _ _ a c y extension hc hy hyg hext
      refine ⟨by simp [hl, hl1], ?_⟩
      simp only [HapAt, hl1, Nat.cast_one]
      obtain ⟨hlt, hget⟩ := List.getElem?_eq_some_iff.1 hy
      refine ⟨hsync, by omega, y, hy, hyg, ?_⟩
      rw [List.take_succ, hy]
      simp only [Option.toList_some]
      rw [nonGapCount_append, nonGapCount_singleton y hyg]
      push_cast
      omega

theorem extendHaplotypes_ready (G : List Int) (posI L : Nat) (refC : Char) (len : Int)
    (haps extended : List openHaplotype) (exts extensions : List (List Char))
    (hready : ReadyAll G posI L haps) (hlen : len = -1 ∨ len = 1)
    (hok : extendHaplotypes refC len haps exts = Except.ok (extended, extensions)) :
    ∀ h ∈ extended, h.1.length = L + 1 ∧ HapAt G (posI + 1) h := by
  induction haps generalizing exts extended with
  | nil =>
    simp only [extendHaplotypes, Except.ok.injEq, Prod.mk.injEq] at hok
    obtain ⟨rfl, -⟩ := hok
    intro h hm; simp at hm
  | cons x rest ih =>
    unfold extendHaplotypes at hok
    cases h1 : extendHaplotype refC len x with
    | error e => rw [h1] at hok; simp at hok
    | ok r =>
      obtain ⟨x1, e1⟩ := r
      rw [h1] at hok
      simp only at hok
      cases h2 : extendHaplotypes refC len rest (setInsert e1 exts) with
      | error e => rw [h2] at hok; simp at hok
      | ok r2 =>
        obtain ⟨r1, exts1⟩ := r2
        rw [h2] at hok
        simp only [Except.ok.injEq, Prod.mk.injEq] at hok
        obtain ⟨rfl, rfl⟩ := hok
        obtain ⟨hxl, -, hxr⟩ := hready x (List.mem_cons_self _ _)
        intro h hm
        rcases List.mem_cons.1 hm with rfl | hm1
        · exact extendHaplotype_ready G posI L refC len x h e1 hxl hxr hlen h1
        · exact ih r1 _ (fun y hy => hready y (List.mem_cons_of_mem _ hy)) h2 h hm1

theorem flushHaplotypes_at (G : List Int) (n : Nat) (refseq : List Char) (span : Int)
    (haps : List openHaplotype) (alts uniq : List (List Char)) (acc : List openHaplotype)
    (alts1 : List (List Char)) (out : List openHaplotype)
    (hat : ∀ h ∈ haps, HapAt G n h)
    (hacc : ∀ h ∈ acc, h.1.length = 1 ∧ HapAt G n h)
    (hok : flushHaplotypes refseq span haps alts uniq acc = Except.ok (alts1, out)) :
    ∀ h ∈ out, h.1.length = 1 ∧ HapAt G n h := by
  induction haps generalizing alts uniq acc with
  | nil =>
    simp only [flushHaplotypes, Except.ok.injEq, Prod.mk.injEq] at hok
    obtain ⟨-, rfl⟩ := hok
    exact hacc
  | cons x rest ih =>
    obtain ⟨seq, src, c⟩ := x
    have hx : HapAt G n (seq, src, c) := hat _ (List.mem_cons_self _ _)
    have hrest : ∀ h ∈ rest, HapAt G n h := fun h hm => hat h (List.mem_cons_of_mem _ hm)
    unfold flushHaplotypes at hok
    by_cases h1 : (seq.length : Int) ≥ span + 1
    · rw [if_pos h1] at hok
      simp only at hok
      by_cases h2 : (seq.drop (seq.length - 1)).length = 1
      · rw [if_pos h2] at hok
        by_cases h3 : uniqueRemainerKey (seq.drop (seq.length - 1), src, c) ∉ uniq
        · rw [if_pos h3] at hok
          apply ih _ _ _ hrest _ hok
          intro h hm
          rcases List.mem_append.1 hm with hm1 | hm1
          · exact hacc h hm1
          · simp only [List.mem_singleton] at hm1
            subst hm1
            exact ⟨h2, hx⟩
        · rw [if_neg h3] at hok
          exact ih _ _ _ hrest hacc hok
      · rw [if_neg h2] at hok; simp at hok
    · rw [if_neg h1] at hok; simp at hok

theorem flush_before (G : List Int) (refID R : List Char) (posI : Nat)
    (st st1 : EnumeratorState)
    (hat : ∀ h ∈ st.open_haplotypes, HapAt G (posI + 1) h)
    (hok : flush refID R posI st = Except.ok st1) : Before G (posI + 1) st1 := by
  unfold flush at hok
  simp only [bind_eq_ok, assertThat_eq_ok, rangeCheck_eq_ok, pure_eq_ok] at hok
  obtain ⟨-, -, -, -, ⟨alts, haps⟩, hfl, lines, -, rfl⟩ := hok
  have hres := flushHaplotypes_at G (posI + 1) _ _ _ _ _ _ alts haps hat (by simp) hfl
  refine ⟨posI, 1, rfl, fun h hm => (hres h hm).1, fun h0 => absurd h0 (by omega), ?_,
    fun h hm => (hres h hm).2⟩
  intro _
  refine ⟨by omega, ?_⟩
  have : posI + 1 - 1 - posI = 0 := by omega
  rw [this]
  rfl

/-- The invariant `Before` passes from one iteration of the main loop to the
next, and in the iteration all open haplotypes have one length after the
catch-up. -/
theorem enumeratorStep_before (max : Nat) (refID R : List Char) (idx : AlignmentIndex)
    (G : List Int) (st st5 : EnumeratorState) (posI : Nat)
    (hsync : IndexSync G idx) (hb : Before G posI st)
    (hok : enumeratorStep max refID R idx G st posI = Except.ok st5) :
    Before G (posI + 1) st5 := by
  obtain ⟨caughtUp, refC, st2, st3, len1, extended, extensions, h1, -, -, h3, h4, h5, h6, h7⟩ :=
    enumeratorStep_ok max refID R idx G st st5 posI hok
  obtain ⟨s, len, hs, hlen, h0, hpos, hat⟩ := hb
  have hsub := deduplicate_subset st
  have hcu := catchUp_at G posI (deduplicate st).open_haplotypes caughtUp len
    (fun h hm => hlen h (hsub h hm)) (fun h hm => hat h (hsub h hm))
    (by
      rcases Nat.eq_zero_or_pos posI with hz | hp
      · exact Or.inr (fun h hm => (h0 hz).2.2 h (hsub h hm))
      · exact Or.inl hp) h1
  have hs1 : (deduplicate st).start_open_haplotypes = (s : Int) := by
    rw [(deduplicate_output st).2, hs]
  have hL : s < posI →
      len + (if 0 < posI then gapCount G ((posI : Int) - 1) else 0)
        = spanLength G (posI - s) (s : Int) := by
    intro hsp
    have hp : 0 < posI := by omega
    obtain ⟨-, hlen2⟩ := hpos hp
    rw [if_pos hp, hlen2]
    have e1 : posI - s = (posI - 1 - s) + 1 := by omega
    rw [e1, spanLength_succ]
    have e2 : (s : Int) + ((posI - 1 - s : Nat) : Int) = (posI : Int) - 1 := by omega
    rw [e2]
  have hmid2 := enterHaplotypes_mid max R G posI caughtUp.length s _ (indexAt idx posI)
    { deduplicate st with open_haplotypes := caughtUp } st2 hs1 hL
    (fun a ha => hsync posI a ha) hcu h3
  have hs2 : st2.start_open_haplotypes = (s : Int) := by
    rw [(enterHaplotypes_output _ _ _ _ _ _ _ _ h3).2]; exact hs1
  have hready := exitRecombination_ready G posI _ max st2 st3 hmid2 h4
  have hs3 : st3.start_open_haplotypes = (s : Int) := by
    rw [(exitRecombination_output _ _ _ h4).2]; exact hs2
  have hlen1 := extensionLength_ready G posI _ st3.open_haplotypes (-1) len1 hready
    (Or.inl rfl) h5
  have hext := extendHaplotypes_ready G posI _ refC len1 st3.open_haplotypes extended []
    extensions hready hlen1 h6
  by_cases hc : decide (extensions.length = 1 ∧ [refC] ∈ extensions) = true ∧ posI > 0
  · rw [if_pos hc] at h7
    exact flush_before G refID R posI _ st5 (fun h hm => (hext h hm).2) h7
  · rw [if_neg hc, pure_eq_ok] at h7
    subst h7
    refine ⟨s, _, hs3, fun h hm => (hext h hm).1, fun h0 => absurd h0 (by omega), ?_,
      fun h hm => (hext h hm).2⟩
    intro _
    rcases Nat.eq_zero_or_pos posI with hz | hp
    · obtain ⟨hs0, hl0, -⟩ := h0 hz
      subst hz
      subst hs0
      subst hl0
      refine ⟨by omega, ?_⟩
      simp [spanLength]
    · obtain ⟨hsp, -⟩ := hpos hp
      refine ⟨by omega, ?_⟩
      rw [hL hsp]
      have : posI + 1 - 1 - s = posI - s := by omega
      rw [this]

theorem before_init (G : List Int) : Before G 0 enumeratorInit := by
  refine ⟨0, 0, rfl, ?_, ?_, fun h => absurd h (by omega), ?_⟩
  · intro h hm
    simp only [enumeratorInit, List.mem_singleton] at hm
    subst hm; rfl
  · intro _
    refine ⟨rfl, rfl, ?_⟩
    intro h hm
    simp only [enumeratorInit, List.mem_singleton] at hm
    subst hm; rfl
  · intro h hm
    simp only [enumeratorInit, List.mem_singleton] at hm
    subst hm
    simp [HapAt]

theorem enumeratorLoop_append (max : Nat) (refID R : List Char) (idx : AlignmentIndex)
    (G : List Int) (ps qs : List Nat) (st : EnumeratorState) :
    enumeratorLoop max refID R idx G (ps ++ qs) st
      = match enumeratorLoop max refID R idx G ps st with
        | Except.ok st1 => enumeratorLoop max refID R idx G qs st1
        | Except.error e => Except.error e := by
  induction ps generalizing st with
  | nil => rfl
  | cons p rest ih =>
    simp only [List.cons_append, enumeratorLoop]
    cases h : enumeratorStep max refID R idx G st p with
    | error e => rfl
    | ok st2 => exact ih st2

theorem enumeratorLoop_before (max : Nat) (refID R : List Char) (idx : AlignmentIndex)
    (G : List Int) (hsync : IndexSync G idx) (n : Nat) (st : EnumeratorState)
    (hok : enumeratorLoop max refID R idx G (List.range n) enumeratorInit = Except.ok st) :
    Before G n st := by
  induction n generalizing st with
  | zero =>
    simp only [List.range_zero, enumeratorLoop, Except.ok.injEq] at hok
    subst hok
    exact before_init G
  | succ k ih =>
    rw [List.range_succ, enumeratorLoop_append] at hok
    cases h : enumeratorLoop max refID R idx G (List.range k) enumeratorInit with
    | error e => rw [h] at hok; simp at hok
    | ok st1 =>
      rw [h] at hok
      simp only [enumeratorLoop] at hok
      cases h2 : enumeratorStep max refID R idx G st1 k with
      | error e => rw [h2] at hok; simp at hok
      | ok st2 =>
        rw [h2] at hok
        simp only [Except.ok.injEq] at hok
        subst hok
        exact enumeratorStep_before max refID R idx G st1 st2 k hsync (ih st1 h) h2

theorem before_caughtUp (R : List Char) (idx : AlignmentIndex) (G : List Int) (posI : Nat)
    (st : EnumeratorState)
    (caughtUp : List openHaplotype) (hb : Before G posI st)
    (hok : catchUp G posI (deduplicate st).open_haplotypes = Except.ok caughtUp) :
    (∀ h ∈ caughtUp, ∀ h1 ∈ caughtUp, h.1.length = h1.1.length) ∧
      columnLengthCheck R idx posI caughtUp (-1) = Except.ok () := by
  obtain ⟨s, len, hs, hlen, h0, hpos, hat⟩ := hb
  have hsub := deduplicate_subset st
  have hcu := catchUp_at G posI (deduplicate st).open_haplotypes caughtUp len
    (fun h hm => hlen h (hsub h hm)) (fun h hm => hat h (hsub h hm))
    (by
      rcases Nat.eq_zero_or_pos posI with hz | hp
      · exact Or.inr (fun h hm => (h0 hz).2.2 h (hsub h hm))
      · exact Or.inl hp) hok
  refine ⟨fun h hm h1 hm1 => by rw [(hcu h hm).1, (hcu h1 hm1).1], ?_⟩
  exact columnLengthCheck_ok R idx posI caughtUp _ (-1) (Or.inl rfl) (fun h hm => (hcu h hm).1)

theorem gapString_error (l1 l2 : Nat) (G : List Int) (i : Int) (e : Failure)
    (h : gapString l1 l2 G i = Except.error e) : e ≠ Failure.assertion 769 := by
  unfold gapString at h
  cases hv : vectorAt G i with
  | none =>
    rw [hv] at h
    simp only [Except.error.injEq] at h
    subst h; simp
  | some g =>
    rw [hv] at h
    simp only at h
    by_cases hn : (if g = -1 then (0 : Int) else g) < 0
    · rw [if_pos hn] at h
      simp only [Except.error.injEq] at h
      subst h; simp
    · rw [if_neg hn] at h; simp at h

theorem consumeRefGaps_error (query rs : List Char) (nextPos : Nat) (ext : List Char)
    (e : Failure) (h : consumeRefGaps query rs nextPos ext = Except.error e) :
    e ≠ Failure.assertion 769 := by
  induction rs generalizing nextPos ext with
  | nil => simp [consumeRefGaps] at h
  | cons r rest ih =>
    unfold consumeRefGaps at h
    by_cases h1 : r = '-' ∨ r = '*'
    · rw [if_pos h1] at h
      by_cases h2 : nextPos > query.length
      · rw [if_pos h2] at h
        simp only [Except.error.injEq] at h
        subst h; simp
      · rw [if_neg h2] at h
        exact ih _ _ h
    · rw [if_neg h1] at h; simp at h

theorem catchUpHaplotype_error (G : List Int) (posI : Nat) (h : openHaplotype) (e : Failure)
    (herr : catchUpHaplotype G posI h = Except.error e) : e ≠ Failure.assertion 769 := by
  obtain ⟨seq, src, c⟩ := h
  cases src with
  | none =>
    unfold catchUpHaplotype at herr
    simp only at herr
    by_cases hp : posI > 0
    · rw [if_pos hp] at herr
      cases hg : gapString 738 743 G ((posI : Int) - 1) with
      | error e1 =>
        rw [hg] at herr
        simp only [Except.error.injEq] at herr
        subst herr
        exact gapString_error _ _ _ _ _ hg
      | ok gaps => rw [hg] at herr; simp at herr
    · rw [if_neg hp] at herr; simp at herr
  | some a =>
    unfold catchUpHaplotype at herr
    simp only at herr
    by_cases hex : c = (a.obj.ref.length : Int) - 1
    · rw [if_pos hex] at herr
      cases hg : gapString 702 707 G ((posI : Int) - 1) with
      | error e1 =>
        rw [hg] at herr
        simp only [Except.error.injEq] at herr
        subst herr
        exact gapString_error _ _ _ _ _ hg
      | ok gaps => rw [hg] at herr; simp at herr
    · rw [if_neg hex] at herr
      cases hv : vectorAt a.obj.ref c with
      | none =>
        rw [hv] at herr
        simp only [Except.error.injEq] at herr
        subst herr; simp
      | some x =>
        rw [hv] at herr
        simp only at herr
        cases hc : consumeRefGaps a.obj.query (a.obj.ref.drop (c + 1).toNat) (c + 1).toNat [] with
        | error e1 =>
          rw [hc] at herr
          simp only [Except.error.injEq] at herr
          subst herr
          exact consumeRefGaps_error _ _ _ _ _ hc
        | ok r => rw [hc] at herr; simp at herr

theorem catchUp_error (G : List Int) (posI : Nat) (haps : List openHaplotype) (e : Failure)
    (herr : catchUp G posI haps = Except.error e) : e ≠ Failure.assertion 769 := by
  induction haps with
  | nil => simp [catchUp] at herr
  | cons x rest ih =>
    unfold catchUp at herr
    cases h1 : catchUpHaplotype G posI x with
    | error e1 =>
      rw [h1] at herr
      simp only [Except.error.injEq] at herr
      subst herr
      exact catchUpHaplotype_error _ _ _ _ h1
    | ok x1 =>
      rw [h1] at herr
      simp only at herr
      cases h2 : catchUp G posI rest with
      | error e2 =>
        rw [h2] at herr
        simp only [Except.error.injEq] at herr
        subst herr
        exact ih h2
      | ok r1 => rw [h2] at herr; simp at herr

theorem referenceExtractionLoop_error (R : List Char) (G : List Int) (n : Nat) (refI : Int)
    (acc : List Char) (e : Failure)
    (herr : referenceExtractionLoop R G n refI acc = Except.error e) :
    e ≠ Failure.assertion 769 := by
  induction n generalizing refI acc with
  | zero => simp [referenceExtractionLoop] at herr
  | succ k ih =>
    unfold referenceExtractionLoop at herr
    cases hv : vectorAt R refI with
    | none =>
      rw [hv] at herr
      simp only [Except.error.injEq] at herr
      subst herr; simp
    | some c =>
      rw [hv] at herr
      simp only at herr
      cases hg : gapString 824 828 G refI with
      | error e1 =>
        rw [hg] at herr
        simp only [Except.error.injEq] at herr
        subst herr
        exact gapString_error _ _ _ _ _ hg
      | ok gaps =>
        rw [hg] at herr
        exact ih _ _ herr

theorem enterHaplotype_error (max : Nat) (R : List Char) (G : List Int) (posI n : Nat)
    (st : EnumeratorState) (a : HapPtr) (e : Failure)
    (herr : enterHaplotype max R G posI n st a = Except.error e) :
    e ≠ Failure.assertion 769 := by
  unfold enterHaplotype at herr
  by_cases h1 : st.open_haplotypes.length ≤ max
  · rw [if_pos h1] at herr
    by_cases h2 : n > 0
    · rw [if_pos h2] at herr
      simp only [bind_eq_error, assertThat_eq_error, assertThat_eq_ok, pure_ne_error,
        bind_eq_ok] at herr
      rcases herr with ⟨-, rfl⟩ | ⟨-, -, herr⟩
      · simp
      · rcases herr with herr | ⟨ext, -, herr⟩
        · exact referenceExtractionLoop_error _ _ _ _ _ _ herr
        · exact absurd herr (by simp)
    · rw [if_neg h2] at herr
      exact absurd herr (pure_ne_error _ _)
  · rw [if_neg h1] at herr
    exact absurd herr (pure_ne_error _ _)


theorem enterHaplotypes_error (max : Nat) (R : List Char) (G : List Int) (posI n : Nat)
    (new : List HapPtr) (st : EnumeratorState) (e : Failure)
    (herr : enterHaplotypes max R G posI n new st = Except.error e) :
    e ≠ Failure.assertion 769 := by
  induction new generalizing st with
  | nil => simp [enterHaplotypes] at herr
  | cons a rest ih =>
    unfold enterHaplotypes at herr
    cases h : enterHaplotype max R G posI n st a with
    | error e1 =>
      rw [h] at herr
      simp only [Except.error.injEq] at herr
      subst herr
      exact enterHaplotype_error _ _ _ _ _ _ _ _ h
    | ok st2 =>
      rw [h] at herr
      exact ih st2 herr

theorem exitInner_error (max outer : Nat) (es : ExitState) (k : Nat) (e : Failure)
    (herr : exitInner max outer es k = Except.error e) : e ≠ Failure.assertion 769 := by
  unfold exitInner at herr
  cases ho : es.open_haplotypes[outer]? with
  | none =>
    rw [ho] at herr
    simp only [Except.error.injEq] at herr
    subst herr; simp
  | some haplotype =>
    rw [ho] at herr
    simp only at herr
    by_cases h1 : k = outer
    · rw [if_pos h1] at herr; simp at herr
    · rw [if_neg h1] at herr
      by_cases h2 : k ∈ es.exitedHaplotype
      · rw [if_pos h2] at herr; simp at herr
      · rw [if_neg h2] at herr
        cases he : es.open_haplotypes[k]? with
        | none =>
          rw [he] at herr
          simp only [Except.error.injEq] at herr
          subst herr; simp
        | some existing =>
          rw [he] at herr
          simp only at herr
          split_ifs at herr

theorem exitInnerLoop_error (max outer : Nat) (ks : List Nat) (es : ExitState) (e : Failure)
    (herr : exitInnerLoop max outer ks es = Except.error e) : e ≠ Failure.assertion 769 := by
  induction ks generalizing es with
  | nil => simp [exitInnerLoop] at herr
  | cons k rest ih =>
    unfold exitInnerLoop at herr
    cases h : exitInner max outer es k with
    | error e1 =>
      rw [h] at herr
      simp only [Except.error.injEq] at herr
      subst herr
      exact exitInner_error _ _ _ _ _ h
    | ok es2 =>
      rw [h] at herr
      exact ih es2 herr

theorem exitOuter_error (max n : Nat) (es : ExitState) (k : Nat) (e : Failure)
    (herr : exitOuter max n es k = Except.error e) : e ≠ Failure.assertion 769 := by
  unfold exitOuter at herr
  cases ho : es.open_haplotypes[k]? with
  | none =>
    rw [ho] at herr
    simp only [Except.error.injEq] at herr
    subst herr; simp
  | some haplotype =>
    rw [ho] at herr
    simp only at herr
    by_cases hex : isExhausted haplotype = true
    · rw [if_pos hex] at herr
      by_cases hmax : (es.open_haplotypes.set k (haplotype.1, none, -1)).length ≤ max
      · rw [if_pos hmax] at herr
        exact exitInnerLoop_error _ _ _ _ _ herr
      · rw [if_neg hmax] at herr; simp at herr
    · rw [if_neg hex] at herr; simp at herr

theorem exitOuterLoop_error (max n : Nat) (ks : List Nat) (es : ExitState) (e : Failure)
    (herr : exitOuterLoop max n ks es = Except.error e) : e ≠ Failure.assertion 769 := by
  induction ks generalizing es with
  | nil => simp [exitOuterLoop] at herr
  | cons k rest ih =>
    unfold exitOuterLoop at herr
    cases h : exitOuter max n es k with
    | error e1 =>
      rw [h] at herr
      simp only [Except.error.injEq] at herr
      subst herr
      exact exitOuter_error _ _ _ _ _ h
    | ok es2 =>
      rw [h] at herr
      exact ih es2 herr

theorem exitRecombination_error (max : Nat) (st : EnumeratorState) (e : Failure)
    (herr : exitRecombination max st = Except.error e) : e ≠ Failure.assertion 769 := by
  unfold exitRecombination at herr
  split at herr
  · simp at herr
  · rename_i e1 h
    simp only [Except.error.injEq] at herr
    subst herr
    exact exitOuterLoop_error _ _ _ _ _ h

theorem extendColumns_error (l1 l3 : Nat) (query rs : List Char) (nextPos : Nat)
    (ext : List Char) (e : Failure) (hl : l1 ≠ 769)
    (herr : extendColumns l1 l3 query rs nextPos ext = Except.error e) :
    e ≠ Failure.assertion 769 := by
  induction rs generalizing nextPos ext with
  | nil =>
    simp only [extendColumns, Except.error.injEq] at herr
    subst herr
    simpa using hl
  | cons r rest ih =>
    unfold extendColumns at herr
    cases hq : query[nextPos]? with
    | none =>
      rw [hq] at herr
      simp only [Except.error.injEq] at herr
      subst herr; simp
    | some hapC =>
      rw [hq] at herr
      simp only at herr
      by_cases h1 : r ≠ '-' ∧ r ≠ '*'
      · rw [if_pos h1] at herr; simp at herr
      · rw [if_neg h1] at herr
        exact ih _ _ herr

theorem alignmentExtension_error (l1 l2 l3 : Nat) (a : HapPtr) (c : Int) (e : Failure)
    (hl : l1 ≠ 769) (herr : alignmentExtension l1 l2 l3 a c = Except.error e) :
    e ≠ Failure.assertion 769 := by
  unfold alignmentExtension at herr
  by_cases h1 : c + 1 < 0
  · rw [if_pos h1] at herr
    simp only [Except.error.injEq] at herr
    subst herr; simp
  · rw [if_neg h1] at herr
    exact extendColumns_error _ _ _ _ _ _ _ hl herr

theorem extensionLength_error (haps : List openHaplotype) (init : Int) (e : Failure)
    (herr : extensionLength haps init = Except.error e) : e ≠ Failure.assertion 769 := by
  induction haps generalizing init with
  | nil => simp [extensionLength] at herr
  | cons h rest ih =>
    unfold extensionLength at herr
    cases hsrc : h.2.1 with
    | none =>
      rw [hsrc] at herr
      exact ih _ herr
    | some a =>
      rw [hsrc] at herr
      simp only at herr
      cases hext : alignmentExtension 1068 1069 1075 a h.2.2 with
      | error e1 =>
        rw [hext] at herr
        simp only [Except.error.injEq] at herr
        subst herr
        exact alignmentExtension_error _ _ _ _ _ _ (by decide) hext
      | ok extension =>
        rw [hext] at herr
        simp only at herr
        by_cases h1 : extension.length ≠ 0
        · rw [if_pos h1] at herr
          by_cases h2 : (extension.length : Int)
              = (if init = -1 then (extension.length : Int) else init)
          · rw [if_pos h2] at herr
            exact ih _ herr
          · rw [if_neg h2] at herr
            simp only [Except.error.injEq] at herr
            subst herr; simp
        · rw [if_neg h1] at herr
          exact ih _ herr

theorem extendHaplotype_error (refC : Char) (len : Int) (h : openHaplotype) (e : Failure)
    (herr : extendHaplotype refC len h = Except.error e) : e ≠ Failure.assertion 769 := by
  obtain ⟨seq, src, c⟩ := h
  cases src with
  | none =>
    unfold extendHaplotype at herr
    simp only at herr
    by_cases hn : len ≠ -1
    · rw [if_pos hn] at herr
      by_cases hm : len - 1 ≥ 0
      · rw [if_pos hm] at herr; simp at herr
      · rw [if_neg hm] at herr
        simp only [Except.error.injEq] at herr
        subst herr; simp
    · rw [if_neg hn] at herr; simp at herr
  | some a =>
    unfold extendHaplotype at herr
    simp only at herr
    cases hext : alignmentExtension 1124 1125 1130 a c with
    | error e1 =>
      rw [hext] at herr
      simp only [Except.error.injEq] at herr
      subst herr
      exact alignmentExtension_error _ _ _ _ _ _ (by decide) hext
    | ok extension => rw [hext] at herr; simp at herr

theorem extendHaplotypes_error (refC : Char) (len : Int) (haps : List openHaplotype)
    (exts : List (List Char)) (e : Failure)
    (herr : extendHaplotypes refC len haps exts = Except.error e) :
    e ≠ Failure.assertion 769 := by
  induction haps generalizing exts with
  | nil => simp [extendHaplotypes] at herr
  | cons x rest ih =>
    unfold extendHaplotypes at herr
    cases h1 : extendHaplotype refC len x with
    | error e1 =>
      rw [h1] at herr
      simp only [Except.error.injEq] at herr
      subst herr
      exact extendHaplotype_error _ _ _ _ h1
    | ok r =>
      obtain ⟨x1, e1⟩ := r
      rw [h1] at herr
      simp only at herr
      cases h2 : extendHaplotypes refC len rest (setInsert e1 exts) with
      | error e2 =>
        rw [h2] at herr
        simp only [Except.error.injEq] at herr
        subst herr
        exact ih _ h2
      | ok r2 => rw [h2] at herr; simp at herr

theorem flushHaplotypes_error (refseq : List Char) (span : Int) (haps : List openHaplotype)
    (alts uniq : List (List Char)) (acc : List openHaplotype) (e : Failure)
    (herr : flushHaplotypes refseq span haps alts uniq acc = Except.error e) :
    e ≠ Failure.assertion 769 := by
  induction haps generalizing alts uniq acc with
  | nil => simp [flushHaplotypes] at herr
  | cons x rest ih =>
    obtain ⟨seq, src, c⟩ := x
    unfold flushHaplotypes at herr
    by_cases h1 : (seq.length : Int) ≥ span + 1
    · rw [if_pos h1] at herr
      simp only at herr
      by_cases h2 : (seq.drop (seq.length - 1)).length = 1
      · rw [if_pos h2] at herr
        by_cases h3 : uniqueRemainerKey (seq.drop (seq.length - 1), src, c) ∉ uniq
        · rw [if_pos h3] at herr
          exact ih _ _ _ herr
        · rw [if_neg h3] at herr
          exact ih _ _ _ herr
      · rw [if_neg h2] at herr
        simp only [Except.error.injEq] at herr
        subst herr; simp
    · rw [if_neg h1] at herr
      simp only [Except.error.injEq] at herr
      subst herr; simp

theorem checkFirstCharacters_error (refseq : List Char) (alts : List (List Char)) (e : Failure)
    (herr : checkFirstCharacters refseq alts = Except.error e) :
    e ≠ Failure.assertion 769 := by
  induction alts with
  | nil => simp [checkFirstCharacters] at herr
  | cons a rest ih =>
    unfold checkFirstCharacters at herr
    by_cases h1 : a.take 1 = refseq.take 1
    · rw [if_pos h1] at herr
      exact ih herr
    · rw [if_neg h1] at herr
      simp only [Except.error.injEq] at herr
      subst herr; simp

theorem vcfOutput_error (refID : List Char) (start : Int) (refseq : List Char)
    (alts : List (List Char)) (e : Failure)
    (herr : vcfOutput refID start refseq alts = Except.error e) :
    e ≠ Failure.assertion 769 := by
  unfold vcfOutput at herr
  by_cases h1 : alts.length ≠ 0
  · rw [if_pos h1] at herr
    dsimp only at herr
    by_cases h2 : refseq.length = 2 ∧ (alts.all fun a => decide (a.length = 2)) = true
    · rw [if_pos h2] at herr
      cases hc : checkFirstCharacters refseq alts with
      | error e1 =>
        rw [hc] at herr
        simp only [Except.error.injEq] at herr
        subst herr
        exact checkFirstCharacters_error _ _ _ hc
      | ok u => rw [hc] at herr; simp at herr
    · rw [if_neg h2] at herr; simp at herr
  · rw [if_neg h1] at herr; simp at herr

theorem flush_error (refID R : List Char) (posI : Nat) (st : EnumeratorState) (e : Failure)
    (herr : flush refID R posI st = Except.error e) : e ≠ Failure.assertion 769 := by
  unfold flush at herr
  simp only [bind_eq_error, bind_eq_ok, assertThat_eq_error, assertThat_eq_ok,
    rangeCheck_eq_error, rangeCheck_eq_ok, pure_ne_error] at herr
  rcases herr with ⟨-, rfl⟩ | ⟨-, -, herr⟩
  · simp
  · rcases herr with ⟨-, rfl⟩ | ⟨-, -, herr⟩
    · simp
    · rcases herr with herr | ⟨⟨alts, haps⟩, -, herr⟩
      · exact flushHaplotypes_error _ _ _ _ _ _ _ herr
      · rcases herr with herr | ⟨lines, -, herr⟩
        · exact vcfOutput_error _ _ _ _ _ herr
        · exact absurd herr (by simp)

theorem enumeratorStep_error (max : Nat) (refID R : List Char) (idx : AlignmentIndex)
    (G : List Int) (st : EnumeratorState) (posI : Nat) (e : Failure)
    (hb : Before G posI st)
    (herr : enumeratorStep max refID R idx G st posI = Except.error e) :
    e ≠ Failure.assertion 769 := by
  unfold enumeratorStep at herr
  simp only [bind_eq_error, bind_eq_ok] at herr
  rcases herr with herr | ⟨caughtUp, hcu, herr⟩
  · exact catchUp_error _ _ _ _ herr
  · have hcheck := (before_caughtUp R idx G posI st caughtUp hb hcu).2
    rcases herr with herr | ⟨u, -, herr⟩
    · rw [hcheck] at herr; simp at herr
    · cases hr : R[posI]? with
      | none =>
        rw [hr] at herr
        simp only [throw, throwThe, MonadExceptOf.throw, Except.error.injEq] at herr
        subst herr; simp
      | some refC =>
        rw [hr] at herr
        simp only [bind_eq_error, bind_eq_ok, assertThat_eq_error, assertThat_eq_ok] at herr
        rcases herr with herr | ⟨st2, -, herr⟩
        · exact enterHaplotypes_error _ _ _ _ _ _ _ _ herr
        · rcases herr with herr | ⟨st3, -, herr⟩
          · exact exitRecombination_error _ _ _ herr
          · rcases herr with herr | ⟨len, -, herr⟩
            · exact extensionLength_error _ _ _ herr
            · rcases herr with herr | ⟨⟨extended, extensions⟩, -, herr⟩
              · exact extendHaplotypes_error _ _ _ _ _ herr
              · rcases herr with ⟨-, rfl⟩ | ⟨-, -, herr⟩
                · simp
                · rcases herr with ⟨-, rfl⟩ | ⟨-, -, herr⟩
                  · simp
                  · split_ifs at herr with hc
                    · exact flush_error _ _ _ _ _ herr
                    · exact absurd herr (pure_ne_error _ _)

theorem enumeratorLoop_error (max : Nat) (refID R : List Char) (idx : AlignmentIndex)
    (G : List Int) (hsync : IndexSync G idx) (n : Nat) (e : Failure)
    (herr : enumeratorLoop max refID R idx G (List.range n) enumeratorInit = Except.error e) :
    e ≠ Failure.assertion 769 := by
  induction n with
  | zero => simp [enumeratorLoop] at herr
  | succ k ih =>
    rw [List.range_succ, enumeratorLoop_append] at herr
    cases h : enumeratorLoop max refID R idx G (List.range k) enumeratorInit with
    | error e1 =>
      rw [h] at herr
      simp only [Except.error.injEq] at herr
      subst herr
      exact ih h
    | ok st1 =>
      rw [h] at herr
      simp only [enumeratorLoop] at herr
      cases h2 : enumeratorStep max refID R idx G st1 k with
      | error e2 =>
        rw [h2] at herr
        simp only [Except.error.injEq] at herr
        subst herr
        exact enumeratorStep_error max refID R idx G st1 k _
          (enumeratorLoop_before max refID R idx G hsync k st1 h) h2
      | ok st2 => rw [h2] at herr; simp at herr

theorem toUnsignedInt_lt (x : Int) : toUnsignedInt x < UINT_RANGE := by
  unfold toUnsignedInt
  have h1 : (0 : Int) < (UINT_RANGE : Int) := by decide
  have h2 := Int.emod_lt_of_pos x h1
  have h3 := Int.emod_nonneg x (ne_of_gt h1)
  omega

theorem indexSync_of_loaded (max_gap_length : Int) (lines : List AlignmentLine)
    (lst : LoaderState) (R : List Char) (G C : List Int)
    (hload : loader max_gap_length lines = Except.ok lst)
    (hbuild : buildGapStructure R lst.alignments_starting_at = Except.ok (G, C)) :
    IndexSync G lst.alignments_starting_at := by
  intro posI a ha
  obtain ⟨v, hm, hv⟩ := mem_indexAt _ posI a ha
  have hpub := loader_published max_gap_length lines lst hload posI v hm a hv
  obtain ⟨hwalked, -, -, hslots, -⟩ := buildGapStructure_ok R _ G C hbuild
  have hw := hwalked posI v hm a hv
  obtain ⟨r, rs, href, hr⟩ := goodPart_ref_head _ _ hpub.good
  have hc1 : 1 ≤ nonGapCount a.obj.ref := by
    rw [href, nonGapCount_cons, hr]; simp only [if_true]; omega
  obtain ⟨hstart, -⟩ := walked_start R posI a hw hc1
  have hlt : posI < UINT_RANGE := by rw [hpub.key_eq]; exact toUnsignedInt_lt _
  have hkey := hw.key_eq
  rw [Nat.mod_eq_of_lt hlt] at hkey
  refine ⟨⟨hpub.good.len, ⟨r, rs, href, hr⟩, goodPart_ref_last _ _ hpub.good, ?_⟩, hkey.symm⟩
  intro pre x gs y post e hx hgs hy
  have hs : (castToInt posI - 1 + (nonGapCount (pre ++ [x]) : Int), (gs.length : Int))
      ∈ alignmentSlots posI a :=
    (mem_alignmentSlots posI a _ _).2 ⟨pre, x, gs, y, post, e, hx, hgs, hy, rfl, rfl⟩
  have := hslots _ ((mem_indexSlots _ _).2 ⟨posI, v, a, hm, hv, hs⟩)
  simp only at this
  rw [hstart] at this
  exact this

/-- C1. Column synchrony: for an index that the loader published and the
gap-structure builder accepted, at every iteration `posI` that the enumerator
reaches, all open haplotypes have the same length after the gap catch-up and
the column-length check passes; hence `produceVCF` never stops at the
`assert(2 == 4)` of line 769. -/
theorem column_synchrony (max_gap_length : Int) (lines : List AlignmentLine)
    (lst : LoaderState) (max_running_haplotypes_before_add : Nat) (refID R : List Char)
    (G C : List Int)
    (hload : loader max_gap_length lines = Except.ok lst)
    (hbuild : buildGapStructure R lst.alignments_starting_at = Except.ok (G, C)) :
    (∀ posI st caughtUp,
      enumeratorLoop max_running_haplotypes_before_add refID R lst.alignments_starting_at G
        (List.range posI) enumeratorInit = Except.ok st →
      catchUp G posI (deduplicate st).open_haplotypes = Except.ok caughtUp →
      (∀ h ∈ caughtUp, ∀ h1 ∈ caughtUp, h.1.length = h1.1.length) ∧
        columnLengthCheck R lst.alignments_starting_at posI caughtUp (-1) = Except.ok ()) ∧
    produceVCF max_running_haplotypes_before_add refID R lst.alignments_starting_at
      ≠ Except.error (Failure.assertion 769) := by
  have hsync := indexSync_of_loaded max_gap_length lines lst R G C hload hbuild
  constructor
  · intro posI st caughtUp hloop hcu
    exact before_caughtUp R lst.alignments_starting_at G posI st caughtUp
      (enumeratorLoop_before _ refID R _ G hsync posI st hloop) hcu
  · intro herr
    unfold produceVCF at herr
    rw [hbuild] at herr
    simp only at herr
    cases hl : enumeratorLoop max_running_haplotypes_before_add refID R
        lst.alignments_starting_at G (List.range R.length) enumeratorInit with
    | error e =>
      rw [hl] at herr
      simp only [Except.error.injEq] at herr
      exact enumeratorLoop_error _ refID R _ G hsync R.length e hl herr
    | ok st => rw [hl] at herr; simp at herr

/-- The run of `produceVCF` for `exampleTwoLines` on the reference `TACGTA`
goes through all iterations and writes one line. -/
theorem exampleTwoLines_run :
    produceVCF 5000 "chr".toList "TACGTA".toList exampleTwoLoaded.alignments_starting_at
      = Except.ok
        [{ chrom := "chr".toList, pos := 2, id := ['.'], ref := "AC".toList,
           alt := "ACT,AG".toList, qual := ['.'], filter := "PASS".toList, info := ['.'] }] := by
  rfl

/-- C1 at `exampleTwoLines` with the reference `TACGTA`. -/
theorem column_synchrony_witness :
    loader 5000 exampleTwoLines = Except.ok exampleTwoLoaded ∧
    buildGapStructure "TACGTA".toList exampleTwoLoaded.alignments_starting_at
      = Except.ok ([-1, 0, 1, 0, -1, -1], [0, 2, 2, 2, 2, 0]) ∧
    ((∀ posI st caughtUp,
        enumeratorLoop 5000 "chr".toList "TACGTA".toList exampleTwoLoaded.alignments_starting_at
          [-1, 0, 1, 0, -1, -1] (List.range posI) enumeratorInit = Except.ok st →
        catchUp [-1, 0, 1, 0, -1, -1] posI (deduplicate st).open_haplotypes
          = Except.ok caughtUp →
        (∀ h ∈ caughtUp, ∀ h1 ∈ caughtUp, h.1.length = h1.1.length) ∧
          columnLengthCheck "TACGTA".toList exampleTwoLoaded.alignments_starting_at posI caughtUp
            (-1) = Except.ok ()) ∧
      produceVCF 5000 "chr".toList "TACGTA".toList exampleTwoLoaded.alignments_starting_at
        ≠ Except.error (Failure.assertion 769)) :=
  ⟨rfl, rfl,
    column_synchrony 5000 exampleTwoLines exampleTwoLoaded 5000 "chr".toList "TACGTA".toList
      [-1, 0, 1, 0, -1, -1] [0, 2, 2, 2, 2, 0] rfl rfl⟩

/-! ## Scenarios: the reference aligned against itself -/

theorem expectedAllelesScan_self (ref name : List Char) (s e : Int) :
    expectedAllelesScan { ref := ref, query := ref, query_name := name,
                          aligment_start_pos := s, alignment_last_pos := e } = Except.ok [] := by
  obtain ⟨st1, h1, h2⟩ := scanColumns_eq_snpEvents ref ref
    { runningRefC_0based := s - 1
      runningRefAllele := []
      runningQueryAllele := []
      expectedAlleles := [] } none (le_refl _) ⟨rfl, rfl⟩
  have hnil : snpEvents (s - 1) none ref ref = [] := by
    apply List.eq_nil_iff_forall_not_mem.2
    rintro ⟨p, q⟩ hm
    rcases (mem_snpEvents _ _ _ _ _ _).1 hm with
      ⟨pr, pq, r, hp, -⟩ | ⟨j, rj, rj1, qj, e1, e2, e3, -, -, -, -, hne, -⟩
    · simp at hp
    · rw [e1] at e3
      simp only [Option.some.injEq] at e3
      exact hne e3.symm
  simp only [expectedAllelesScan, h1, h2, hnil, List.append_nil]

/-- The splitter loop over match columns only, after the first: nothing is
closed. -/
theorem splitterLoop_allMatch (max_gap_length : Int) (h : startingHaplotype) (len : Nat)
    (hmax : 0 ≤ max_gap_length) :
    ∀ (cs : List Char) (i : Nat) (lc fm rp : Int) (rr rq : List Char)
      (parts : List startingHaplotype) (cr cq : List Char),
      (∀ c ∈ cs, c ≠ '-' ∧ c ≠ '*') → fm ≠ -1 →
      splitterLoop max_gap_length h len i cs cs
        { lastPos_control := lc, firstMatchPos_reference := fm, lastMatchPos_reference := rp,
          running_ref := rr, running_query := rq, runningNonMatchPositions := 0,
          runningRefGapCharacters := 0, runningQueryGapCharacters := 0, runningRefPos := rp,
          haplotype_parts := parts, reconstituted_ref := cr, reconstituted_query := cq }
        = Except.ok
        { lastPos_control := lc + (cs.length : Int), firstMatchPos_reference := fm,
          lastMatchPos_reference := rp + (cs.length : Int),
          running_ref := rr ++ cs, running_query := rq ++ cs, runningNonMatchPositions := 0,
          runningRefGapCharacters := 0, runningQueryGapCharacters := 0,
          runningRefPos := rp + (cs.length : Int),
          haplotype_parts := parts, reconstituted_ref := cr, reconstituted_query := cq }
  | [], i, lc, fm, rp, rr, rq, parts, cr, cq, _, _ => by
    simp [splitterLoop]
  | c :: cs, i, lc, fm, rp, rr, rq, parts, cr, cq, hcs, hfm => by
    have hc := hcs c (List.mem_cons_self _ _)
    have hng : ¬ (0 : Int) > max_gap_length := by omega
    rw [splitterLoop]
    have hcol : splitterColumn max_gap_length h len i c c
        { lastPos_control := lc, firstMatchPos_reference := fm, lastMatchPos_reference := rp,
          running_ref := rr, running_query := rq, runningNonMatchPositions := 0,
          runningRefGapCharacters := 0, runningQueryGapCharacters := 0, runningRefPos := rp,
          haplotype_parts := parts, reconstituted_ref := cr, reconstituted_query := cq }
        = Except.ok
        { lastPos_control := lc + 1, firstMatchPos_reference := fm,
          lastMatchPos_reference := rp + 1,
          running_ref := rr ++ [c], running_query := rq ++ [c], runningNonMatchPositions := 0,
          runningRefGapCharacters := 0, runningQueryGapCharacters := 0,
          runningRefPos := rp + 1,
          haplotype_parts := parts, reconstituted_ref := cr, reconstituted_query := cq } := by
      unfold splitterColumn
      simp only [hc, ne_eq, not_false_eq_true, and_self, if_true, implies_true,
        assertThat, if_neg hng, decide_True, bind, Except.bind, pure, Except.pure, if_neg hfm]
    rw [hcol]
    simp only
    rw [splitterLoop_allMatch max_gap_length h len hmax cs (i + 1) _ _ _ _ _ _ _ _
      (fun x hx => hcs x (List.mem_cons_of_mem _ hx)) hfm]
    simp only [List.length_cons, Nat.cast_add, Nat.cast_one, List.append_assoc,
      List.singleton_append, Except.ok.injEq, SplitterState.mk.injEq, true_and, and_true]
    omega

/-- The splitter returns an alignment without gap characters as one part. -/
theorem splitAlignment_allMatch (max_gap_length : Int) (h : startingHaplotype)
    (hmax : 0 ≤ max_gap_length) (hq : h.ref = h.query) (hne : h.ref ≠ [])
    (hplain : ∀ c ∈ h.ref, c ≠ '-' ∧ c ≠ '*') (hstart : 0 ≤ h.aligment_start_pos)
    (hlast : h.aligment_start_pos - 1 + (h.ref.length : Int) = h.alignment_last_pos) :
    splitAlignment max_gap_length h = Except.ok
      [{ ref := h.ref, query := h.query, query_name := "_part0".toList,
         aligment_start_pos := h.aligment_start_pos,
         alignment_last_pos := h.alignment_last_pos }] := by
  obtain ⟨ref, query, name, s, e⟩ := h
  simp only at hq hne hplain hstart hlast
  subst hq
  simp only
  cases ref with
  | nil => exact absurd rfl hne
  | cons c cs =>
    have hc := hplain c (List.mem_cons_self _ _)
    have hng : ¬ (0 : Int) > max_gap_length := by omega
    unfold splitAlignment
    simp only [splitterInit]
    rw [splitterLoop]
    have hcol : splitterColumn max_gap_length
        { ref := c :: cs, query := c :: cs, query_name := name, aligment_start_pos := s,
          alignment_last_pos := e } (c :: cs).length 0 c c
        { lastPos_control := s - 1, firstMatchPos_reference := -1,
          lastMatchPos_reference := -1,
          running_ref := [], running_query := [], runningNonMatchPositions := 0,
          runningRefGapCharacters := 0, runningQueryGapCharacters := 0, runningRefPos := s - 1,
          haplotype_parts := [], reconstituted_ref := [], reconstituted_query := [] }
        = Except.ok
        { lastPos_control := s - 1 + 1, firstMatchPos_reference := s - 1 + 1,
          lastMatchPos_reference := s - 1 + 1,
          running_ref := [c], running_query := [c], runningNonMatchPositions := 0,
          runningRefGapCharacters := 0, runningQueryGapCharacters := 0,
          runningRefPos := s - 1 + 1,
          haplotype_parts := [], reconstituted_ref := [], reconstituted_query := [] } := by
      unfold splitterColumn
      simp only [hc, ne_eq, not_false_eq_true, and_self, if_true, implies_true,
        assertThat, if_neg hng, decide_True, bind, Except.bind, pure, Except.pure,
        List.nil_append]
    rw [hcol]
    simp only
    rw [splitterLoop_allMatch max_gap_length _ _ hmax cs 1 _ _ _ _ _ _ _ _
      (fun x hx => hplain x (List.mem_cons_of_mem _ hx)) (by omega)]
    simp only [List.length_cons, Nat.cast_add, Nat.cast_one] at hlast
    unfold splitterFinish
    simp only [assertThat, bind, Except.bind, pure, Except.pure, List.singleton_append,
      List.length_cons, List.nil_append, List.length_nil]
    have e1 : s - 1 + 1 + (cs.length : Int) = e := by omega
    simp [e1, hmax, to_string]
    have e2 : s + (cs.length : Int) = e := by omega
    rw [if_pos e2, e2]
    rfl


theorem loader_selfLine (max_gap_length : Int) (R name : List Char)
    (hmax : 0 ≤ max_gap_length) (hplain : Plain R)
    (h2 : 2 ≤ R.length) (hlt : R.length ≤ UINT_RANGE) :
    loader max_gap_length [selfLine R name] = Except.ok (selfLoaded R name) := by
  have hU : UINT_RANGE = 4294967296 := rfl
  have hlast : ((R.length - 2) % UINT_RANGE + 1) % UINT_RANGE = R.length - 1 := by
    rw [hU] at hlt ⊢
    omega
  have hscan := expectedAllelesScan_self R name ((0 % UINT_RANGE : Nat) : Int)
    ((((R.length - 2) % UINT_RANGE + 1) % UINT_RANGE : Nat) : Int)
  obtain ⟨c0, c1, rest, hR⟩ : ∃ c0 c1 rest, R = c0 :: c1 :: rest := by
    match R, h2 with
    | c0 :: c1 :: rest, _ => exact ⟨c0, c1, rest, rfl⟩
  have hc1 : c1 ≠ '-' ∧ c1 ≠ '*' ∧ c1 ≠ '_' := hplain c1 (by rw [hR]; simp)
  have hhack : startZeroHack (newStartingHaplotype (selfLine R name)) = Except.ok
      { ref := R.drop 1, query := R.drop 1, query_name := name,
        aligment_start_pos := 1, alignment_last_pos := (R.length : Int) - 1 } := by
    simp only [startZeroHack, newStartingHaplotype, selfLine, hlast]
    subst hR
    simp [hc1.1]
  have hsplit := splitAlignment_allMatch max_gap_length
    { ref := R.drop 1, query := R.drop 1, query_name := name,
      aligment_start_pos := 1, alignment_last_pos := (R.length : Int) - 1 } hmax rfl
    (by subst hR; simp)
    (fun c hc => ⟨(hplain c (List.mem_of_mem_drop hc)).1, (hplain c (List.mem_of_mem_drop hc)).2.1⟩)
    (by simp) (by simp only [List.length_drop]; omega)
  unfold loader loadLines loadLine
  simp only [newStartingHaplotype, selfLine] at hscan hhack ⊢
  simp only [hscan, hhack, hsplit, bind, Except.bind, pure, Except.pure, loadLines]
  rfl

/-- The walk of the gap-structure builder over columns without gap characters
that agree with the reference succeeds, when the entries of `gap_structure`
from `ref_pos` on are unset. -/
theorem gapWalkColumns_plain (R : List Char) (start_pos : Int) :
    ∀ (cs : List Char) (p : Nat) (G C : List Int),
      (∀ c ∈ cs, c ≠ '-' ∧ c ≠ '*') → (∀ c ∈ cs, c.toNat < 128) →
      (∀ j c, cs[j]? = some c → R[p + 1 + j]? = some c) →
      G.length = R.length → C.length = R.length →
      (∀ i, p ≤ i → i < G.length → G[i]? = some (-1)) →
      ∃ G1 C1, gapWalkColumns R start_pos cs
          { ref_pos := (p : Int), running_gaps := 0, gap_structure := G, coverage_structure := C }
        = Except.ok { ref_pos := (p : Int) + (cs.length : Int), running_gaps := 0,
                      gap_structure := G1, coverage_structure := C1 }
  | [], p, G, C, _, _, _, _, _, _ => ⟨G, C, by simp [gapWalkColumns]⟩
  | c :: cs, p, G, C, hcs, hlow, hR, hG, hC, hunset => by
    have hc := hcs c (List.mem_cons_self _ _)
    have hc7 := hlow c (List.mem_cons_self _ _)
    have hRp : R[p + 1]? = some c := by simpa using hR 0 c (by simp)
    have hp1 : p + 1 < R.length := (List.getElem?_eq_some_iff.1 hRp).1
    have hstore : ∃ G1, storeGaps start_pos
        { ref_pos := (p : Int), running_gaps := 0, gap_structure := G, coverage_structure := C }
          = Except.ok G1 ∧ G1.length = R.length ∧
          ∀ i, p + 1 ≤ i → i < G1.length → G1[i]? = some (-1) := by
      unfold storeGaps
      by_cases hs : (p : Int) ≠ start_pos
      · rw [if_pos hs]
        have hv : vectorAt G (p : Int) = some (-1) := by
          unfold vectorAt
          rw [if_pos (by omega)]
          simpa using hunset p (le_refl _) (by omega)
        simp only [hv, if_true, Int.toNat_ofNat]
        refine ⟨_, rfl, by simp [hG], ?_⟩
        intro i hi hlt
        rw [List.length_set] at hlt
        rw [List.getElem?_set_ne (by omega)]
        exact hunset i (by omega) hlt
      · rw [if_neg hs]
        exact ⟨G, rfl, hG, fun i hi hlt => hunset i (by omega) hlt⟩
    obtain ⟨G1, hst, hG1, hunset1⟩ := hstore
    have hcov : ∃ n, vectorAt C ((p : Int) + 1) = some n := by
      unfold vectorAt
      rw [if_pos (by omega)]
      have : ((p : Int) + 1).toNat < C.length := by omega
      exact ⟨_, List.getElem?_eq_getElem this⟩
    obtain ⟨n, hn⟩ := hcov
    have hrv : vectorAt R ((p : Int) + 1) = some c := by
      unfold vectorAt
      rw [if_pos (by omega)]
      have : ((p : Int) + 1).toNat = p + 1 := by omega
      rw [this]; exact hRp
    obtain ⟨G2, C2, ih⟩ := gapWalkColumns_plain R start_pos cs (p + 1) G1
      (C.set ((p : Int) + 1).toNat (n + 1))
      (fun x hx => hcs x (List.mem_cons_of_mem _ hx))
      (fun x hx => hlow x (List.mem_cons_of_mem _ hx))
      (fun j x hj => by
        have := hR (j + 1) x (by simpa using hj)
        rw [← this]; congr 1; omega)
      hG1 (by simp [hC]) hunset1
    refine ⟨G2, C2, ?_⟩
    rw [gapWalkColumns]
    have hcol : gapWalkColumn R start_pos
        { ref_pos := (p : Int), running_gaps := 0, gap_structure := G, coverage_structure := C } c
        = Except.ok { ref_pos := (p : Int) + 1, running_gaps := 0, gap_structure := G1,
                      coverage_structure := C.set ((p : Int) + 1).toNat (n + 1) } := by
      unfold gapWalkColumn
      rw [if_neg (by simp [hc.1, hc.2])]
      simp only [hst, hn, hrv, hc7, and_self, if_true]
    rw [hcol]
    simp only
    have e1 : ((p + 1 : Nat) : Int) = (p : Int) + 1 := by push_cast; rfl
    rw [e1] at ih
    rw [ih]
    simp only [List.length_cons, Nat.cast_add, Nat.cast_one, Except.ok.injEq, GapWalk.mk.injEq,
      and_true]
    omega

theorem buildGapStructure_self (R name : List Char) (hplain : Plain R)
    (hlow : ∀ c ∈ R, c.toNat < 128) (h2 : 2 ≤ R.length) :
    ∃ G C, buildGapStructure R [(1, [selfAlignment R name])] = Except.ok (G, C) := by
  obtain ⟨G1, C1, hwalk⟩ := gapWalkColumns_plain R 0 (R.drop 1) 0
    (List.replicate R.length (-1)) (List.replicate R.length 0)
    (fun c hc => ⟨(hplain c (List.mem_of_mem_drop hc)).1, (hplain c (List.mem_of_mem_drop hc)).2.1⟩)
    (fun c hc => hlow c (List.mem_of_mem_drop hc))
    (fun j c hj => by
      rw [List.getElem?_drop] at hj
      rw [← hj])
    (by simp) (by simp)
    (fun i _ hi => by
      rw [List.length_replicate] at hi
      simp [List.getElem?_replicate, hi])
  refine ⟨G1, C1, ?_⟩
  unfold buildGapStructure
  simp only [gapWalkIndex, gapWalkVector, gapWalkAlignment, selfAlignment, castToInt]
  have hk : (1 : Nat) % UINT_RANGE = 1 := by decide
  simp only [hk, Nat.cast_one, Nat.one_lt_ofNat, if_true, sub_self, assertThat, bind,
    Except.bind, pure, Except.pure]
  simp only [Nat.cast_zero] at hwalk
  rw [hwalk]
  simp only [List.length_drop, zero_add]
  have : ((R.length - 1 : Nat) : Int) = (R.length : Int) - 1 := by omega
  simp [this]


/-- An index of alignments without ref gaps leaves no gap column in the gap
structure. -/
theorem gapString_of_plain (R : List Char) (idx : AlignmentIndex) (G C : List Int)
    (hok : buildGapStructure R idx = Except.ok (G, C))
    (hplain : ∀ key v a, (key, v) ∈ idx → a ∈ v → ∀ c ∈ a.obj.ref, isGapCharacter c = false)
    (l1 l2 : Nat) (i : Nat) (hi : i < R.length) :
    gapString l1 l2 G (i : Int) = Except.ok [] := by
  obtain ⟨-, hlen, -, -, hjust⟩ := buildGapStructure_ok R idx G C hok
  have hlt : i < G.length := by omega
  have hv : vectorAt G (i : Int) = some G[i] := by
    unfold vectorAt
    rw [if_pos (by omega)]
    simp [List.getElem?_eq_getElem hlt]
  unfold gapString
  rw [hv]
  simp only
  by_cases hg : G[i] = -1
  · simp [hg]
  · obtain ⟨key, v, a, hm, ha, hs⟩ := (mem_indexSlots idx _).1 (hjust _ _ hv hg)
    obtain ⟨pre, x, gs, y, post, e, -, hgs, -, -, hgl⟩ := (mem_alignmentSlots key a _ _).1 hs
    have hnil : gs = [] := by
      cases gs with
      | nil => rfl
      | cons z zs =>
        have h1 := hgs z (List.mem_cons_self _ _)
        have h2 := hplain key v a hm ha z (by rw [e]; simp)
        rw [h1] at h2
        exact absurd h2 (by simp)
    rw [hnil] at hgl
    simp only [List.length_nil, Nat.cast_zero] at hgl
    simp [hgl]

theorem haplotype_key_ne (seq : List Char) (a : HapPtr) (c1 c2 : Int) :
    haplotype_key (seq, none, c1) ≠ haplotype_key (seq, some a, c2) := by
  simp [haplotype_key, pointerText]

theorem uniqueRemainerKey_ne (seq : List Char) (a : HapPtr) (c1 c2 : Int) :
    uniqueRemainerKey (seq, none, c1) ≠ uniqueRemainerKey (seq, some a, c2) := by
  simp [uniqueRemainerKey, pointerText]

theorem deduplicate_pair (seq : List Char) (a : HapPtr) (c : Int) (s : Int) (m : Bool)
    (out : List VCFLine) :
    deduplicate { open_haplotypes := [(seq, none, -1), (seq, some a, c)],
                  start_open_haplotypes := s, modifiedLastPos := m, outputStream := out }
      = { open_haplotypes := [(seq, none, -1), (seq, some a, c)],
          start_open_haplotypes := s, modifiedLastPos := false, outputStream := out } := by
  unfold deduplicate
  cases m with
  | false => simp
  | true =>
    have h := haplotype_key_ne seq a (-1) c
    simp [countDuplicated, setInsert, keepFirstKeys, h, Ne.symm h]


theorem catchUp_pair (R : List Char) (G : List Int) (a : HapPtr) (hs : SelfRun R G a)
    (k : Nat) (c0 c1 : Char) (hc1 : R[k + 2]? = some c1) :
    catchUp G (k + 2) [([c0], none, -1), ([c0], some a, (k : Int))]
      = Except.ok [([c0], none, -1), ([c0], some a, (k : Int))] := by
  have hlt : k + 2 < R.length := (List.getElem?_eq_some_iff.1 hc1).1
  have hg1 := hs.no_gaps 738 743 (k + 1) (by omega)
  have e1 : (((k + 2 : Nat) : Int) - 1) = ((k + 1 : Nat) : Int) := by omega
  have hp1 := hs.plain c1 (mem_of_getElem?_some _ _ _ hc1)
  have hnot : ¬ ((k : Int) = (a.obj.ref.length : Int) - 1) := by
    rw [hs.ref_eq, List.length_drop]; omega
  have hk : k < a.obj.ref.length := by
    rw [hs.ref_eq, List.length_drop]; omega
  have hv : vectorAt a.obj.ref (k : Int) = some a.obj.ref[k] := by
    unfold vectorAt
    rw [if_pos (by omega)]
    simp
  have hdrop : a.obj.ref.drop ((k : Int) + 1).toNat = c1 :: R.drop (k + 3) := by
    have : ((k : Int) + 1).toNat = k + 1 := by omega
    rw [this, hs.ref_eq, List.drop_drop]
    have : 1 + (k + 1) = k + 2 := by omega
    rw [this, List.drop_eq_getElem_cons hlt]
    congr 1
    have := List.getElem?_eq_getElem hlt
    rw [hc1] at this
    exact (Option.some.inj this).symm
  simp only [catchUp, catchUpHaplotype, e1, hg1, List.append_nil, if_neg hnot, hv, hdrop,
    consumeRefGaps, Nat.succ_pos, gt_iff_lt, Nat.zero_lt_succ, if_true]
  rw [if_neg (by simp [hp1.1, hp1.2.1])]
  simp only [List.append_nil, Except.ok.injEq, List.cons.injEq, Prod.mk.injEq, true_and,
    and_true]
  omega


theorem exitOuterLoop_none_exhausted (max n : Nat) (ks : List Nat) (es : ExitState)
    (hks : ∀ k ∈ ks, k < es.open_haplotypes.length)
    (hne : ∀ h ∈ es.open_haplotypes, isExhausted h = false) :
    exitOuterLoop max n ks es = Except.ok es := by
  induction ks with
  | nil => rfl
  | cons k rest ih =>
    have hk := hks k (List.mem_cons_self _ _)
    have hget : es.open_haplotypes[k]? = some es.open_haplotypes[k] :=
      List.getElem?_eq_getElem hk
    have hx := hne _ (List.getElem_mem hk)
    rw [exitOuterLoop]
    have : exitOuter max n es k = Except.ok es := by
      unfold exitOuter
      rw [hget]
      simp only [hx, Bool.false_eq_true, if_false]
    rw [this]
    exact ih (fun j hj => hks j (List.mem_cons_of_mem _ hj))

theorem exitRecombination_none_exhausted (max : Nat) (st : EnumeratorState)
    (hne : ∀ h ∈ st.open_haplotypes, isExhausted h = false) :
    exitRecombination max st = Except.ok st := by
  unfold exitRecombination
  have h := exitOuterLoop_none_exhausted max st.open_haplotypes.length
    (List.range st.open_haplotypes.length)
    { open_haplotypes := st.open_haplotypes, inner_open_haplotypes_keys := [],
      exitedHaplotype := [], modifiedLastPos := st.modifiedLastPos }
    (fun k hk => List.mem_range.1 hk) hne
  rw [h]

theorem alignmentExtension_self (R : List Char) (G : List Int) (a : HapPtr)
    (hs : SelfRun R G a) (l1 l2 l3 : Nat) (c : Int) (j : Nat) (c1 : Char)
    (hj : c + 1 = (j : Int)) (hc1 : R[j + 1]? = some c1) :
    alignmentExtension l1 l2 l3 a c = Except.ok [c1] := by
  have hlt : j + 1 < R.length := (List.getElem?_eq_some_iff.1 hc1).1
  have hp1 := hs.plain c1 (mem_of_getElem?_some _ _ _ hc1)
  have hget : R[j + 1] = c1 := by
    have := List.getElem?_eq_getElem hlt
    rw [hc1] at this
    exact (Option.some.inj this).symm
  unfold alignmentExtension
  rw [if_neg (by omega), hj, Int.toNat_ofNat, hs.ref_eq, hs.query_eq, List.drop_drop]
  have e1 : 1 + j = j + 1 := by omega
  rw [e1, List.drop_eq_getElem_cons hlt, extendColumns, List.getElem?_drop, e1, hc1, hget]
  simp [hp1.1, hp1.2.1]


theorem stringLess_irrefl (x : List Char) : stringLess x x = false := by
  induction x with
  | nil => rfl
  | cons c cs ih => simp [stringLess, ih]

theorem setInsert_self (x : List Char) : setInsert x [x] = [x] := by
  simp [setInsert, stringLess_irrefl]

theorem mem_setInsert (x y : List Char) (s : List (List Char)) :
    x ∈ setInsert y s ↔ x = y ∨ x ∈ s := by
  induction s with
  | nil => simp [setInsert]
  | cons z zs ih =>
    unfold setInsert
    by_cases h1 : stringLess y z = true
    · rw [if_pos h1]; simp
    · rw [if_neg h1]
      by_cases h2 : y = z
      · rw [if_pos h2]
        subst h2
        simp
      · rw [if_neg h2]
        simp only [List.mem_cons, ih]
        tauto

theorem removeGaps_plain (R : List Char) (hplain : Plain R) (c : Char) (hc : c ∈ R) :
    removeGaps [c] = [c] := by
  have h := hplain c hc
  simp [removeGaps, h.1, h.2.1, h.2.2]

theorem flush_pair (refID R : List Char) (G : List Int) (a : HapPtr) (hs : SelfRun R G a)
    (j : Nat) (c0 c1 : Char) (cur : Int) (m : Bool)
    (hc0 : R[j]? = some c0) :
    flush refID R (j + 1)
      { open_haplotypes := [([c0, c1], none, -1), ([c0, c1], some a, cur)],
        start_open_haplotypes := (j : Int), modifiedLastPos := m, outputStream := [] }
      = Except.ok
      { open_haplotypes := [([c1], none, -1), ([c1], some a, cur)],
        start_open_haplotypes := ((j + 1 : Nat) : Int), modifiedLastPos := m,
        outputStream := [] } := by
  have hlt : j < R.length := (List.getElem?_eq_some_iff.1 hc0).1
  have hget : R[j] = c0 := by
    have := List.getElem?_eq_getElem hlt
    rw [hc0] at this
    exact (Option.some.inj this).symm
  have hrg := removeGaps_plain R hs.plain c0 (mem_of_getElem?_some _ _ _ hc0)
  have hkey := uniqueRemainerKey_ne [c1] a (-1) cur
  have hspan : ((j + 1 : Nat) : Int) - (j : Int) = 1 := by omega
  have hrefseq : (R.drop j).take 1 = [c0] := by
    rw [List.drop_eq_getElem_cons hlt, hget]; rfl
  unfold flush
  simp only [hspan, assertThat, rangeCheck, bind, Except.bind, pure, Except.pure,
    Int.toNat_ofNat, Int.toNat_one, hrefseq]
  have h0 : (0 : Int) ≤ (j : Int) ∧ (j : Int) ≤ (R.length : Int) := by omega
  simp only [gt_iff_lt, zero_lt_one, if_true, h0, and_self]
  simp [flushHaplotypes, hrg, mem_setInsert, hkey, Ne.symm hkey, vcfOutput]

theorem flush_triple (refID R : List Char) (G : List Int) (a : HapPtr) (hs : SelfRun R G a)
    (j : Nat) (c0 c1 : Char) (cur : Int) (m : Bool)
    (hc0 : R[j]? = some c0) :
    flush refID R (j + 1)
      { open_haplotypes :=
          [([c0, c1], none, -1), ([c0, c1], some a, cur), ([c0, c1], some a, cur)],
        start_open_haplotypes := (j : Int), modifiedLastPos := m, outputStream := [] }
      = Except.ok
      { open_haplotypes := [([c1], none, -1), ([c1], some a, cur)],
        start_open_haplotypes := ((j + 1 : Nat) : Int), modifiedLastPos := m,
        outputStream := [] } := by
  have hlt : j < R.length := (List.getElem?_eq_some_iff.1 hc0).1
  have hget : R[j] = c0 := by
    have := List.getElem?_eq_getElem hlt
    rw [hc0] at this
    exact (Option.some.inj this).symm
  have hrg := removeGaps_plain R hs.plain c0 (mem_of_getElem?_some _ _ _ hc0)
  have hkey := uniqueRemainerKey_ne [c1] a (-1) cur
  have hspan : ((j + 1 : Nat) : Int) - (j : Int) = 1 := by omega
  have hrefseq : (R.drop j).take 1 = [c0] := by
    rw [List.drop_eq_getElem_cons hlt, hget]; rfl
  unfold flush
  simp only [hspan, assertThat, rangeCheck, bind, Except.bind, pure, Except.pure,
    Int.toNat_ofNat, Int.toNat_one, hrefseq]
  have h0 : (0 : Int) ≤ (j : Int) ∧ (j : Int) ≤ (R.length : Int) := by omega
  simp only [gt_iff_lt, zero_lt_one, if_true, h0, and_self]
  simp [flushHaplotypes, hrg, mem_setInsert, hkey, Ne.symm hkey, vcfOutput]


/-- Iteration `k + 2` of the main loop for the reference aligned against
itself: the two open haplotypes advance by one column and nothing is written. -/
theorem enumeratorStep_self (max : Nat) (refID R : List Char) (G : List Int) (a : HapPtr)
    (hs : SelfRun R G a) (k : Nat) (c0 c1 : Char) (m : Bool)
    (hc0 : R[k + 1]? = some c0) (hc1 : R[k + 2]? = some c1) :
    enumeratorStep max refID R [(1, [a])] G
      { open_haplotypes := [([c0], none, -1), ([c0], some a, (k : Int))],
        start_open_haplotypes := ((k + 1 : Nat) : Int), modifiedLastPos := m, outputStream := [] }
      (k + 2)
      = Except.ok
      { open_haplotypes := [([c1], none, -1), ([c1], some a, ((k + 1 : Nat) : Int))],
        start_open_haplotypes := ((k + 2 : Nat) : Int), modifiedLastPos := false,
        outputStream := [] } := by
  have hlt : k + 2 < R.length := (List.getElem?_eq_some_iff.1 hc1).1
  have hnot : ¬ ((k : Int) = (a.obj.ref.length : Int) - 1) := by
    rw [hs.ref_eq, List.length_drop]; omega
  have hexit : exitRecombination max
      { open_haplotypes := [([c0], none, -1), ([c0], some a, (k : Int))],
        start_open_haplotypes := ((k + 1 : Nat) : Int), modifiedLastPos := false,
        outputStream := [] }
      = Except.ok
      { open_haplotypes := [([c0], none, -1), ([c0], some a, (k : Int))],
        start_open_haplotypes := ((k + 1 : Nat) : Int), modifiedLastPos := false,
        outputStream := [] } := by
    apply exitRecombination_none_exhausted
    intro h hm
    simp only [List.mem_cons, List.mem_singleton, List.not_mem_nil, or_false] at hm
    rcases hm with rfl | rfl
    · rfl
    · simp [isExhausted, hnot]
  have hext := alignmentExtension_self R G a hs 1068 1069 1075 (k : Int) (k + 1) c1
    (by push_cast; ring) hc1
  have hext2 := alignmentExtension_self R G a hs 1124 1125 1130 (k : Int) (k + 1) c1
    (by push_cast; ring) hc1
  have hidx : indexAt [(1, [a])] (k + 2) = [] := by
    simp [indexAt]
  have hflush := flush_pair refID R G a hs (k + 1) c0 c1 ((k : Int) + 1) false hc0
  unfold enumeratorStep
  simp only [deduplicate_pair, catchUp_pair R G a hs k c0 c1 hc1, bind, Except.bind,
    columnLengthCheck, hc1, hidx, enterHaplotypes, hexit, extensionLength, hext,
    extendHaplotypes, extendHaplotype, hext2, assertThat, pure, Except.pure]
  simp only [setInsert, setInsert_self]
  simp only [Nat.cast_add, Nat.cast_one, Nat.cast_ofNat] at hflush ⊢
  have e2 : (k : Int) + 1 + 1 = (k : Int) + 2 := by ring
  rw [e2] at hflush
  simp [hflush, stringLess_irrefl]


theorem enumeratorStep_self_zero (max : Nat) (refID R : List Char) (G : List Int) (a : HapPtr)
    (c0 : Char) (hc0 : R[0]? = some c0) :
    enumeratorStep max refID R [(1, [a])] G enumeratorInit 0
      = Except.ok
      { open_haplotypes := [([c0], none, -1)], start_open_haplotypes := 0,
        modifiedLastPos := false, outputStream := [] } := by
  have hexit : exitRecombination max
      { open_haplotypes := [([], none, -1)], start_open_haplotypes := 0,
        modifiedLastPos := false, outputStream := [] }
      = Except.ok
      { open_haplotypes := [([], none, -1)], start_open_haplotypes := 0,
        modifiedLastPos := false, outputStream := [] } := by
    apply exitRecombination_none_exhausted
    intro h hm
    simp only [List.mem_singleton] at hm
    subst hm
    rfl
  unfold enumeratorStep
  simp only [deduplicate, enumeratorInit, catchUp, catchUpHaplotype, bind, Except.bind,
    columnLengthCheck, hc0, indexAt, enterHaplotypes, hexit, extensionLength,
    extendHaplotypes, extendHaplotype, assertThat, pure, Except.pure, setInsert]
  simp [columnLengthCheck, hexit, extensionLength, extendHaplotypes, extendHaplotype, setInsert]

theorem enumeratorStep_self_one (max : Nat) (refID R : List Char) (G : List Int) (a : HapPtr)
    (hs : SelfRun R G a) (hmax : 1 ≤ max) (c0 c1 : Char)
    (hc0 : R[0]? = some c0) (hc1 : R[1]? = some c1) :
    enumeratorStep max refID R [(1, [a])] G
      { open_haplotypes := [([c0], none, -1)], start_open_haplotypes := 0,
        modifiedLastPos := false, outputStream := [] } 1
      = Except.ok
      { open_haplotypes := [([c1], none, -1), ([c1], some a, 0)],
        start_open_haplotypes := 1, modifiedLastPos := true, outputStream := [] } := by
  have hlt : 1 < R.length := (List.getElem?_eq_some_iff.1 hc1).1
  have hg1 := hs.no_gaps 738 743 0 (by omega)
  have hg2 := hs.no_gaps 824 828 0 (by omega)
  have hv0 : vectorAt R 0 = some c0 := by
    unfold vectorAt
    simpa using hc0
  have hnot : ¬ ((-1 : Int) = (a.obj.ref.length : Int) - 1) := by
    rw [hs.ref_eq, List.length_drop]; omega
  have hexit : exitRecombination max
      { open_haplotypes := [([c0], none, -1), ([c0], some a, -1), ([c0], some a, -1)],
        start_open_haplotypes := 0, modifiedLastPos := true, outputStream := [] }
      = Except.ok
      { open_haplotypes := [([c0], none, -1), ([c0], some a, -1), ([c0], some a, -1)],
        start_open_haplotypes := 0, modifiedLastPos := true, outputStream := [] } := by
    apply exitRecombination_none_exhausted
    intro h hm
    simp only [List.mem_cons, List.mem_singleton, List.not_mem_nil, or_false] at hm
    rcases hm with rfl | rfl | rfl
    · rfl
    · simp [isExhausted, hnot]
    · simp [isExhausted, hnot]
  have hext := alignmentExtension_self R G a hs 1068 1069 1075 (-1) 0 c1 (by norm_num) hc1
  have hext2 := alignmentExtension_self R G a hs 1124 1125 1130 (-1) 0 c1 (by norm_num) hc1
  have hflush := flush_triple refID R G a hs 0 c0 c1 0 true hc0
  unfold enumeratorStep
  simp only [deduplicate, catchUp, catchUpHaplotype, bind, Except.bind, Nat.cast_one, sub_self,
    columnLengthCheck, hc1, indexAt, enterHaplotypes, enterHaplotype, referenceExtractionLoop,
    hv0, extensionLength, extendHaplotypes, extendHaplotype, assertThat, pure, Except.pure]
  simp only [Nat.cast_zero] at hg1 hg2
  simp [hg1, hg2, hmax, referenceExtractionLoop, hv0, hexit, extensionLength, hext, hext2,
    extendHaplotypes, extendHaplotype, setInsert, stringLess_irrefl, columnLengthCheck]
  simpa using hflush


theorem enumeratorLoop_self (max : Nat) (refID R : List Char) (G : List Int) (a : HapPtr)
    (hs : SelfRun R G a) (hmax : 1 ≤ max) :
    ∀ j : Nat, j + 1 < R.length →
      ∃ (m : Bool) (c : Char), R[j + 1]? = some c ∧
        enumeratorLoop max refID R [(1, [a])] G (List.range (j + 2)) enumeratorInit
          = Except.ok
          { open_haplotypes := [([c], none, -1), ([c], some a, (j : Int))],
            start_open_haplotypes := ((j + 1 : Nat) : Int), modifiedLastPos := m,
            outputStream := [] }
  | 0, hj => by
    have h0 : R[0]? = some R[0] := List.getElem?_eq_getElem (by omega)
    have h1 : R[1]? = some R[1] := List.getElem?_eq_getElem (by omega)
    refine ⟨true, R[1], h1, ?_⟩
    have hr : List.range 2 = [0, 1] := rfl
    rw [hr]
    simp only [enumeratorLoop, enumeratorStep_self_zero max refID R G a R[0] h0,
      enumeratorStep_self_one max refID R G a hs hmax R[0] R[1] h0 h1]
    rfl
  | j + 1, hj => by
    obtain ⟨m, c, hc, hloop⟩ := enumeratorLoop_self max refID R G a hs hmax j (by omega)
    have h1 : R[j + 2]? = some R[j + 2] := List.getElem?_eq_getElem (by omega)
    refine ⟨false, R[j + 2], h1, ?_⟩
    rw [List.range_succ, enumeratorLoop_append, hloop]
    simp only [enumeratorLoop]
    rw [enumeratorStep_self max refID R G a hs j c R[j + 2] m hc h1]

/-- C11 (amended). If the only input alignment is the reference against
itself, given with the coordinates that the loader accepts (ref = query = R
with at least two characters, none of them `-`, `*` or `_` and all of them
with a value below 128, start 0 and inclusive end `|R| - 2`), the run completes
without a fatal error, writes no VCF line and records no expected SNP. -/
theorem reference_round_trip (referenceSequenceID R name : List Char)
    (hplain : ∀ c ∈ R, c ≠ '-' ∧ c ≠ '*' ∧ c ≠ '_') (hlow : ∀ c ∈ R, c.toNat < 128)
    (h2 : 2 ≤ R.length) (hlt : R.length ≤ UINT_RANGE) :
    main 5000 5000 referenceSequenceID R
      [{ ref := R, query := R, query_name := name, start := 0, last := R.length - 2 }]
      = Except.ok ([], []) := by
  have hload := loader_selfLine 5000 R name (by norm_num) hplain h2 hlt
  obtain ⟨G, C, hbuild⟩ := buildGapStructure_self R name hplain hlow h2
  have hs : SelfRun R G (selfAlignment R name) := by
    refine ⟨hplain, rfl, rfl, ?_⟩
    intro l1 l2 i hi
    apply gapString_of_plain R _ G C hbuild _ l1 l2 i hi
    intro key v a hm ha c hc
    simp only [List.mem_singleton, Prod.mk.injEq] at hm
    obtain ⟨-, rfl⟩ := hm
    simp only [List.mem_singleton] at ha
    subst ha
    have := hplain c (List.mem_of_mem_drop hc)
    simp [isGapCharacter, this.1, this.2.1]
  obtain ⟨m, c, -, hloop⟩ := enumeratorLoop_self 5000 referenceSequenceID R G
    (selfAlignment R name) hs (by norm_num) (R.length - 2) (by omega)
  have hn : R.length - 2 + 2 = R.length := by omega
  rw [hn] at hloop
  unfold main
  simp only [selfLine] at hload
  rw [hload]
  simp only [selfLoaded, produceVCF, hbuild, hloop]
  rfl

/-- The amended C11 at `R = ACGT`. -/
theorem reference_round_trip_witness :
    (∀ c ∈ "ACGT".toList, c ≠ '-' ∧ c ≠ '*' ∧ c ≠ '_') ∧
    (∀ c ∈ "ACGT".toList, c.toNat < 128) ∧ 2 ≤ "ACGT".toList.length ∧
    "ACGT".toList.length ≤ UINT_RANGE ∧
    main 5000 5000 "chr".toList "ACGT".toList
      [{ ref := "ACGT".toList, query := "ACGT".toList, query_name := "h1".toList, start := 0,
         last := "ACGT".toList.length - 2 }]
      = Except.ok ([], []) :=
  ⟨by decide, by decide, by decide, by decide,
    reference_round_trip "chr".toList "ACGT".toList "h1".toList (by decide) (by decide)
      (by decide) (by decide)⟩

/-- C11 fails as stated. With start 1 and last 4 the loader stops at the
assertion of line 325 on the alignment `ACGT` / `ACGT`; and for the reference
`A_GT` aligned against itself, with coordinates that the loader accepts, a VCF
line with an empty ALT field is written; and for the reference `A` the
start-zero hack reads past the end of the alignment; and for a reference with
a character of value 233 the gap-structure builder stops at the assertion of
line 527, whose two sides are an `unsigned char` and a `char`. -/
theorem reference_round_trip_fails :
    main 5000 5000 "chr".toList "ACGT".toList
        [{ ref := "ACGT".toList, query := "ACGT".toList, query_name := "h1".toList,
           start := 1, last := 4 }]
      = Except.error (Failure.assertion 325) ∧
    main 5000 5000 "chr".toList "A_GT".toList
        [{ ref := "A_GT".toList, query := "A_GT".toList, query_name := "h1".toList,
           start := 0, last := 2 }]
      = Except.ok
        ([{ chrom := "chr".toList, pos := 2, id := ['.'], ref := ['_'], alt := [],
            qual := ['.'], filter := "PASS".toList, info := ['.'] }], []) ∧
    main 5000 5000 "chr".toList ['A']
        [{ ref := ['A'], query := ['A'], query_name := "h1".toList, start := 0, last := 0 }]
      = Except.error (Failure.outOfRange 183) ∧
    main 5000 5000 "chr".toList ['A', Char.ofNat 233, 'G', 'T']
        [{ ref := ['A', Char.ofNat 233, 'G', 'T'], query := ['A', Char.ofNat 233, 'G', 'T'],
           query_name := "h1".toList, start := 0, last := 2 }]
      = Except.error (Failure.assertion 527) :=
  ⟨rfl, rfl, rfl, rfl⟩

/-! ## The runs dropped by the splitter -/

theorem splitterInv_running_ne_nil (max_gap_length : Int) (len : Nat) (pr pq : List Char)
    (st : SplitterState) (hinv : SplitterInv max_gap_length len pr pq st) (hpr : pr ≠ []) :
    st.running_ref ≠ [] := by
  obtain ⟨core, tail, s1, -, -, -, -, s6⟩ := hinv.shape
  obtain ⟨-, -, c0, c1, hc0, -⟩ := s6 hpr
  rw [s1]
  cases core with
  | nil => simp at hc0
  | cons a as => simp

/-- The close branch of the splitter (lines 228-285), at a match column that
follows a run with more than `max_gap_length` query-gap columns: the running
buffers are a kept prefix `core`, which becomes a sub-alignment, and the run
`tail`, which is dropped; the new running buffers hold the match column. -/
theorem splitterColumn_close (max_gap_length : Int) (h : startingHaplotype) (len : Nat)
    (pr pq : List Char) (r q : Char) (st st1 : SplitterState)
    (hinv : SplitterInv max_gap_length len pr pq st)
    (hm : isMatchColumn (r, q) = true)
    (hclose : st.runningQueryGapCharacters > max_gap_length)
    (hok : splitterColumn max_gap_length h len pr.length r q st = Except.ok st1) :
    ∃ core tail : List (Char × Char),
      pr ≠ [] ∧ core ≠ [] ∧
      st.running_ref = (core ++ tail).map Prod.fst ∧
      st.running_query = (core ++ tail).map Prod.snd ∧
      (∀ c ∈ tail, isMatchColumn c = false) ∧
      st.runningQueryGapCharacters = (tail.countP isQueryOnlyGap : Int) ∧
      (∃ c1, core.getLast? = some c1 ∧ isMatchColumn c1 = true) ∧
      st1.reconstituted_ref = st.reconstituted_ref ++ core.map Prod.fst ++ tail.map Prod.fst ∧
      st1.reconstituted_query =
        st.reconstituted_query ++ core.map Prod.snd ++ tail.map Prod.snd ∧
      st1.running_ref = [r] ∧ st1.running_query = [q] ∧
      st1.haplotype_parts = st.haplotype_parts ++
        [{ ref := core.map Prod.fst
           query := core.map Prod.snd
           query_name := h.query_name ++ "_part".toList ++ to_string st.haplotype_parts.length
           aligment_start_pos := st.firstMatchPos_reference
           alignment_last_pos := st.lastMatchPos_reference }] ∧
      st1.firstMatchPos_reference = st.runningRefPos + 1 ∧
      st1.runningRefPos = st.runningRefPos + 1 := by
  obtain ⟨stc, hc, e1, e2, e3, e4, e5, e6, -, e8, e9, e10, -⟩ :=
    splitterColumn_match max_gap_length h len pr.length r q st st1 hm hok
  obtain ⟨core, tail, s1, s2, s3, s4, s5, s6⟩ := hinv.shape
  rw [if_pos hclose] at hc
  obtain ⟨hfirst, -, hstc⟩ := closeSubAlignment_ok h st stc hc
  have hpr : pr ≠ [] := fun hnil => hfirst (hinv.fresh hnil)
  obtain ⟨hmax, hruns, c0, c1, hc0, hm0, hc1, hm1⟩ := s6 hpr
  have hcore : core ≠ [] := by
    intro hnil; simp [hnil] at hc0
  have hlen : ((st.running_ref.length : Int) - st.runningNonMatchPositions).toNat
      = core.length := by
    rw [s1, s3]; simp
  have htake_r : st.running_ref.take core.length = core.map Prod.fst := by
    rw [s1]; simp [List.take_append_eq_append_take]
  have htake_q : st.running_query.take core.length = core.map Prod.snd := by
    rw [s2]; simp [List.take_append_eq_append_take]
  have hdrop_r : (if st.runningNonMatchPositions > 0 then st.running_ref.drop core.length
      else []) = tail.map Prod.fst := by
    split_ifs with hn
    · rw [s1]; simp [List.drop_append_eq_append_drop]
    · have : tail = [] := by
        apply List.eq_nil_of_length_eq_zero
        rw [s3] at hn; omega
      simp [this]
  have hdrop_q : (if st.runningNonMatchPositions > 0 then st.running_query.drop core.length
      else []) = tail.map Prod.snd := by
    split_ifs with hn
    · rw [s2]; simp [List.drop_append_eq_append_drop]
    · have : tail = [] := by
        apply List.eq_nil_of_length_eq_zero
        rw [s3] at hn; omega
      simp [this]
  rw [hlen, htake_r, htake_q, hdrop_r, hdrop_q] at hstc
  have hne : (core.map Prod.fst).length ≠ 0 := by
    simp [hcore]
  rw [if_pos hne] at hstc
  subst hstc
  simp only at e1 e2 e3 e4 e5 e6
  refine ⟨core, tail, hpr, hcore, s1, s2, s4, s5, ⟨c1, hc1, hm1⟩, e1, e2, ?_, ?_, e5, ?_, e10⟩
  · rw [e3]; rfl
  · rw [e4]; rfl
  · rw [e6]; simp

theorem dropInv_column (max_gap_length : Int) (h : startingHaplotype) (len : Nat)
    (base : List startingHaplotype) (r0 q0 : List Char)
    (pr pq : List Char) (r q : Char) (st st1 : SplitterState)
    (hinv : SplitterInv max_gap_length len pr pq st)
    (hd : DropInv max_gap_length base r0 q0 st)
    (hok : splitterColumn max_gap_length h len pr.length r q st = Except.ok st1) :
    DropInv max_gap_length base r0 q0 st1 := by
  cases hm : isMatchColumn (r, q) with
  | false =>
    obtain ⟨-, e1, e2, -, -, e5, -⟩ :=
      splitterColumn_nonmatch max_gap_length h len pr.length r q st st1 hm hok
    unfold DropInv
    rw [e5, e1, e2]; exact hd
  | true =>
    by_cases hclose : st.runningQueryGapCharacters > max_gap_length
    · obtain ⟨core, tail, -, -, -, -, s4, s5, -, e1, e2, -, -, e5, -, -⟩ :=
        splitterColumn_close max_gap_length h len pr pq r q st st1 hinv hm hclose hok
      obtain ⟨ps, dropped, d0, d1, d2, d3, d4⟩ := hd
      refine ⟨ps ++ [{ ref := core.map Prod.fst
                       query := core.map Prod.snd
                       query_name :=
                         h.query_name ++ "_part".toList ++ to_string st.haplotype_parts.length
                       aligment_start_pos := st.firstMatchPos_reference
                       alignment_last_pos := st.lastMatchPos_reference }],
        dropped ++ [(tail.map Prod.fst, tail.map Prod.snd)], ?_, ?_, ?_, ?_, ?_⟩
      · rw [e5, d0, List.append_assoc]
      · simp [d1]
      · intro d hd
        rcases List.mem_append.1 hd with hd | hd
        · exact d2 d hd
        · rw [List.mem_singleton.1 hd]
          refine ⟨by simp, ?_, ?_⟩
          · simpa [zip_map_fst_snd] using s4
          · simp only [zip_map_fst_snd]
            rw [← s5]; exact hclose
      · rw [e1, d3]
        simp only [List.map_append, List.map_cons, List.map_nil]
        rw [interleave_snoc _ _ _ _ (by simp [d1])]
        simp only [List.append_assoc]
      · rw [e2, d4]
        simp only [List.map_append, List.map_cons, List.map_nil]
        rw [interleave_snoc _ _ _ _ (by simp [d1])]
        simp only [List.append_assoc]
    · obtain ⟨stc, hc, e1, e2, -, -, e5, -⟩ :=
        splitterColumn_match max_gap_length h len pr.length r q st st1 hm hok
      rw [if_neg hclose] at hc
      rw [hc] at e1 e2 e5
      unfold DropInv
      rw [e5, e1, e2]; exact hd

theorem startInv_column (max_gap_length : Int) (h : startingHaplotype) (len : Nat)
    (pr pq : List Char) (r q : Char) (st st1 : SplitterState)
    (hinv : SplitterInv max_gap_length len pr pq st) (hs : StartInv h st)
    (hok : splitterColumn max_gap_length h len pr.length r q st = Except.ok st1) :
    StartInv h st1 := by
  have hpos := hs.pos
  have hrl := hs.recon_len
  cases hm : isMatchColumn (r, q) with
  | false =>
    obtain ⟨hi, e1, e2, e3, e4, e5, e6, -, e8, e9, e10, -⟩ :=
      splitterColumn_nonmatch max_gap_length h len pr.length r q st st1 hm hok
    have hpr : pr ≠ [] := by
      intro hnil; apply hi; left; simp [hnil]
    refine ⟨?_, ?_, ?_, ?_⟩
    · rw [e10]
      split_ifs <;> omega
    · rw [e5]; exact hs.starts
    · intro _
      rw [e6]
      exact hs.first (splitterInv_running_ne_nil max_gap_length len pr pq st hinv hpr)
    · rw [e1, e2]; exact hrl
  | true =>
    by_cases hclose : st.runningQueryGapCharacters > max_gap_length
    · obtain ⟨core, tail, hpr, -, -, -, -, -, -, e1, e2, -, -, e5, e6, e10⟩ :=
        splitterColumn_close max_gap_length h len pr pq r q st st1 hinv hm hclose hok
      have hf := hs.first (splitterInv_running_ne_nil max_gap_length len pr pq st hinv hpr)
      refine ⟨?_, ?_, ?_, ?_⟩
      · rw [e10]; omega
      · rw [e5]
        intro P hP
        rcases List.mem_append.1 hP with hP | hP
        · exact hs.starts P hP
        · rw [List.mem_singleton.1 hP]
          exact hf
      · intro _
        rw [e6]; omega
      · rw [e1, e2]
        simp [hrl]
    · obtain ⟨stc, hc, e1, e2, -, -, e5, e6, -, -, -, e10, -⟩ :=
        splitterColumn_match max_gap_length h len pr.length r q st st1 hm hok
      rw [if_neg hclose] at hc
      rw [hc] at e1 e2 e5 e6
      refine ⟨?_, ?_, ?_, ?_⟩
      · rw [e10]; omega
      · rw [e5]; exact hs.starts
      · intro _
        rw [e6]
        by_cases hf : st.firstMatchPos_reference = -1
        · rw [if_pos hf]; omega
        · rw [if_neg hf]
          apply hs.first
          by_cases hpr : pr = []
          · exact absurd (hinv.fresh hpr) hf
          · exact splitterInv_running_ne_nil max_gap_length len pr pq st hinv hpr
      · rw [e1, e2]; exact hrl

theorem startInv_init (h : startingHaplotype) : StartInv h (splitterInit h) := by
  refine ⟨?_, by simp [splitterInit], ?_, rfl⟩
  · simp [splitterInit]
  · intro hne; exact absurd rfl hne

theorem splitterLoop_dropInv (max_gap_length : Int) (h : startingHaplotype) (len : Nat)
    (base : List startingHaplotype) (r0 q0 : List Char) :
    ∀ (rs qs pr pq : List Char) (st st1 : SplitterState),
      SplitterInv max_gap_length len pr pq st →
      DropInv max_gap_length base r0 q0 st → StartInv h st →
      splitterLoop max_gap_length h len pr.length rs qs st = Except.ok st1 →
      DropInv max_gap_length base r0 q0 st1 ∧ StartInv h st1
  | [], qs, pr, pq, st, st1, hinv, hd, hs, hok => by
    simp only [splitterLoop, Except.ok.injEq] at hok
    subst hok
    exact ⟨hd, hs⟩
  | r :: rs, [], pr, pq, st, st1, hinv, hd, hs, hok => by
    simp [splitterLoop] at hok
  | r :: rs, q :: qs, pr, pq, st, st1, hinv, hd, hs, hok => by
    simp only [splitterLoop] at hok
    cases hcol : splitterColumn max_gap_length h len pr.length r q st with
    | error e => rw [hcol] at hok; simp at hok
    | ok st2 =>
      rw [hcol] at hok
      simp only at hok
      have hinv2 := splitterInv_column max_gap_length h len pr pq r q st st2 hinv hcol
      have hd2 := dropInv_column max_gap_length h len base r0 q0 pr pq r q st st2 hinv hd hcol
      have hs2 := startInv_column max_gap_length h len pr pq r q st st2 hinv hs hcol
      have hlen : (pr ++ [r]).length = pr.length + 1 := by simp
      rw [← hlen] at hok
      exact splitterLoop_dropInv max_gap_length h len base r0 q0 rs qs (pr ++ [r]) (pq ++ [q])
        st2 st1 hinv2 hd2 hs2 hok

/-- The decomposition of an alignment by the splitter: the parts alternate
with the dropped runs, every dropped run consists of non-match columns of
which more than `max_gap_length` have a gap in the query only, and no part
starts before the alignment. -/
theorem splitAlignment_dropped (max_gap_length : Int) (h : startingHaplotype)
    (parts : List startingHaplotype) (hok : splitAlignment max_gap_length h = Except.ok parts)
    (hne : h.ref ≠ []) :
    (∃ dropped : List (List Char × List Char),
      dropped.length + 1 = parts.length ∧
      (∀ d ∈ dropped, d.1.length = d.2.length ∧
        (∀ c ∈ List.zip d.1 d.2, isMatchColumn c = false) ∧
        max_gap_length < ((List.zip d.1 d.2).countP isQueryOnlyGap : Int)) ∧
      interleave (parts.map startingHaplotype.ref) (dropped.map Prod.fst) = h.ref ∧
      interleave (parts.map startingHaplotype.query) (dropped.map Prod.snd) = h.query) ∧
    ∀ P ∈ parts, h.aligment_start_pos ≤ P.aligment_start_pos := by
  unfold splitAlignment at hok
  cases hloop : splitterLoop max_gap_length h h.ref.length 0 h.ref h.query (splitterInit h) with
  | error e => rw [hloop] at hok; simp at hok
  | ok st =>
    rw [hloop] at hok
    simp only at hok
    obtain ⟨-, hinv⟩ := splitterLoop_inv max_gap_length h h.ref.length h.ref h.query [] []
      (splitterInit h) st (splitterInv_init max_gap_length h h.ref.length) hloop
    obtain ⟨hd, hs⟩ := splitterLoop_dropInv max_gap_length h h.ref.length [] [] []
      h.ref h.query [] []
      (splitterInit h) st (splitterInv_init max_gap_length h h.ref.length)
      ⟨[], [], rfl, rfl, by simp, rfl, rfl⟩ (startInv_init h) hloop
    simp only [List.nil_append] at hinv
    obtain ⟨-, -, -, hparts, hr, hq⟩ := splitterFinish_ok max_gap_length h st parts hok
    have hrun : st.running_ref ≠ [] :=
      splitterInv_running_ne_nil max_gap_length _ _ _ st hinv hne
    have hrun2 : st.running_ref.length ≠ 0 := by
      intro h0; exact hrun (List.eq_nil_of_length_eq_zero h0)
    rw [if_pos hrun2] at hparts hr hq
    obtain ⟨ps, dropped, d0, d1, d2, d3, d4⟩ := hd
    simp only [List.nil_append] at d0 d3 d4
    rw [d0] at hparts
    refine ⟨⟨dropped, by rw [hparts]; simp [d1], d2, ?_, ?_⟩, ?_⟩
    · rw [hparts]
      simp only [List.map_append, List.map_cons, List.map_nil]
      rw [interleave_last _ _ _ (by simp [d1]), ← d3]
      exact hr
    · rw [hparts]
      simp only [List.map_append, List.map_cons, List.map_nil]
      rw [interleave_last _ _ _ (by simp [d1]), ← d4]
      exact hq
    · intro P hP
      rw [hparts] at hP
      rcases List.mem_append.1 hP with hP | hP
      · rw [← d0] at hP; exact hs.starts P hP
      · rw [List.mem_singleton.1 hP]
        exact hs.first hrun

theorem splitterLoop_append (max_gap_length : Int) (h : startingHaplotype) (len : Nat) :
    ∀ (cs : List (Char × Char)) (rs qs : List Char) (i : Nat) (st stF : SplitterState),
      splitterLoop max_gap_length h len i (cs.map Prod.fst ++ rs) (cs.map Prod.snd ++ qs) st
        = Except.ok stF →
      ∃ stm, splitterLoop max_gap_length h len i (cs.map Prod.fst) (cs.map Prod.snd) st
          = Except.ok stm ∧
        splitterLoop max_gap_length h len (i + cs.length) rs qs stm = Except.ok stF
  | [], rs, qs, i, st, stF, hok => ⟨st, by simp [splitterLoop], by simpa using hok⟩
  | c :: cs, rs, qs, i, st, stF, hok => by
    simp only [List.map_cons, List.cons_append, splitterLoop] at hok ⊢
    cases hcol : splitterColumn max_gap_length h len i c.1 c.2 st with
    | error e => rw [hcol] at hok; simp at hok
    | ok st2 =>
      rw [hcol] at hok
      simp only [List.append_eq] at hok ⊢
      obtain ⟨stm, h1, h2⟩ :=
        splitterLoop_append max_gap_length h len cs rs qs (i + 1) st2 stF hok
      refine ⟨stm, h1, ?_⟩
      have : i + (c :: cs).length = i + 1 + cs.length := by simp; omega
      rw [this]; exact h2

theorem nonmatch_suffix_unique (a b t u : List (Char × Char)) (h : a ++ t = b ++ u)
    (ha : ∃ c, a.getLast? = some c ∧ isMatchColumn c = true)
    (hb : ∃ c, b.getLast? = some c ∧ isMatchColumn c = true)
    (ht : ∀ c ∈ t, isMatchColumn c = false) (hu : ∀ c ∈ u, isMatchColumn c = false) :
    a = b ∧ t = u := by
  rcases List.append_eq_append_iff.1 h with ⟨a', rfl, rfl⟩ | ⟨c', rfl, rfl⟩
  · rcases List.eq_nil_or_concat a' with rfl | ⟨L, x, rfl⟩
    · simp
    · exfalso
      obtain ⟨c, hc, hmc⟩ := hb
      have hx : c = x := by
        simp [List.getLast?_append] at hc
        exact hc.symm
      have := ht c (by rw [hx]; simp)
      rw [this] at hmc; exact absurd hmc (by simp)
  · rcases List.eq_nil_or_concat c' with rfl | ⟨L, x, rfl⟩
    · simp
    · exfalso
      obtain ⟨c, hc, hmc⟩ := ha
      have hx : c = x := by
        simp [List.getLast?_append] at hc
        exact hc.symm
      have := hu c (by rw [hx]; simp)
      rw [this] at hmc; exact absurd hmc (by simp)

theorem running_run_unique (st : SplitterState) (pre run core tail : List (Char × Char))
    (hr : st.reconstituted_ref ++ st.running_ref = (pre ++ run).map Prod.fst)
    (hq : st.reconstituted_query ++ st.running_query = (pre ++ run).map Prod.snd)
    (hl : st.reconstituted_ref.length = st.reconstituted_query.length)
    (s1 : st.running_ref = (core ++ tail).map Prod.fst)
    (s2 : st.running_query = (core ++ tail).map Prod.snd)
    (s4 : ∀ c ∈ tail, isMatchColumn c = false)
    (hc : ∃ c1, core.getLast? = some c1 ∧ isMatchColumn c1 = true)
    (hpre : ∃ c, pre.getLast? = some c ∧ isMatchColumn c = true)
    (hrun : ∀ c ∈ run, isMatchColumn c = false) :
    tail = run ∧ st.reconstituted_ref ++ core.map Prod.fst = pre.map Prod.fst ∧
      st.reconstituted_query ++ core.map Prod.snd = pre.map Prod.snd := by
  have hz : List.zip (st.reconstituted_ref ++ st.running_ref)
      (st.reconstituted_query ++ st.running_query) = pre ++ run := by
    rw [hr, hq, zip_map_fst_snd]
  rw [List.zip_append hl, s1, s2, zip_map_fst_snd, ← List.append_assoc] at hz
  have hlast : ∃ c, (List.zip st.reconstituted_ref st.reconstituted_query ++ core).getLast?
      = some c ∧ isMatchColumn c = true := by
    obtain ⟨c1, h1, h2⟩ := hc
    refine ⟨c1, ?_, h2⟩
    rw [List.getLast?_append, h1]; rfl
  obtain ⟨e1, e2⟩ := nonmatch_suffix_unique _ _ _ _ hz hlast hpre s4 hrun
  refine ⟨e2, ?_, ?_⟩
  · rw [← e1, List.map_append, List.map_fst_zip _ _ (le_of_eq hl)]
  · rw [← e1, List.map_append, List.map_snd_zip _ _ (le_of_eq hl.symm)]

/-- The splitter at a long run. If the columns of `h` are `pre`, then a run of
non-match columns of which more than `max_gap_length` have a gap in the query
only, then a match column and `post`, the sub-alignments before the run cover
`pre`, those after it cover the match column and `post`. -/
theorem splitAlignment_at_long_run (max_gap_length : Int) (h : startingHaplotype)
    (parts : List startingHaplotype) (pre run post : List (Char × Char)) (r q : Char)
    (hok : splitAlignment max_gap_length h = Except.ok parts)
    (href : h.ref = (pre ++ run ++ (r, q) :: post).map Prod.fst)
    (hquery : h.query = (pre ++ run ++ (r, q) :: post).map Prod.snd)
    (hpre : ∃ c, pre.getLast? = some c ∧ isMatchColumn c = true)
    (hrun : ∀ c ∈ run, isMatchColumn c = false)
    (hcount : max_gap_length < (run.countP isQueryOnlyGap : Int))
    (hm : isMatchColumn (r, q) = true) :
    ∃ (ps1 ps2 : List startingHaplotype) (ds1 ds2 : List (List Char × List Char)),
      parts = ps1 ++ ps2 ∧ ds1.length + 1 = ps1.length ∧ ds2.length + 1 = ps2.length ∧
      interleave (ps1.map startingHaplotype.ref) (ds1.map Prod.fst) = pre.map Prod.fst ∧
      interleave (ps1.map startingHaplotype.query) (ds1.map Prod.snd) = pre.map Prod.snd ∧
      interleave (ps2.map startingHaplotype.ref) (ds2.map Prod.fst)
        = ((r, q) :: post).map Prod.fst ∧
      interleave (ps2.map startingHaplotype.query) (ds2.map Prod.snd)
        = ((r, q) :: post).map Prod.snd := by
  unfold splitAlignment at hok
  cases hloop : splitterLoop max_gap_length h h.ref.length 0 h.ref h.query (splitterInit h) with
  | error e => rw [hloop] at hok; simp at hok
  | ok stF =>
    rw [hloop] at hok
    simp only at hok
    obtain ⟨-, -, -, hparts, hr, hq⟩ := splitterFinish_ok max_gap_length h stF parts hok
    have er : h.ref = (pre ++ run).map Prod.fst ++ r :: post.map Prod.fst := by
      rw [href]; simp
    have eq : h.query = (pre ++ run).map Prod.snd ++ q :: post.map Prod.snd := by
      rw [hquery]; simp
    generalize hlen : h.ref.length = len at hloop
    rw [er, eq] at hloop
    obtain ⟨st, h1, h2⟩ := splitterLoop_append max_gap_length h len (pre ++ run)
      (r :: post.map Prod.fst) (q :: post.map Prod.snd) 0 (splitterInit h) stF hloop
    have hidx : 0 + (pre ++ run).length = ((pre ++ run).map Prod.fst).length := by simp
    have h0 : 0 = ([] : List Char).length := rfl
    rw [h0] at h1
    obtain ⟨-, hinv⟩ := splitterLoop_inv max_gap_length h len _ _ [] [] (splitterInit h) st
      (splitterInv_init max_gap_length h len) h1
    obtain ⟨hd, hs⟩ := splitterLoop_dropInv max_gap_length h len [] [] [] _ _ [] []
      (splitterInit h) st (splitterInv_init max_gap_length h len)
      ⟨[], [], rfl, rfl, by simp, rfl, rfl⟩ (startInv_init h) h1
    have htake : ((pre ++ run).map Prod.snd).take ((pre ++ run).map Prod.fst).length
        = (pre ++ run).map Prod.snd := by
      apply List.take_of_length_le; simp
    rw [htake] at hinv
    simp only [List.nil_append] at hinv
    rw [hidx] at h2
    simp only [splitterLoop] at h2
    cases hcol : splitterColumn max_gap_length h len ((pre ++ run).map Prod.fst).length r q st with
    | error e => rw [hcol] at h2; simp at h2
    | ok st1 =>
      rw [hcol] at h2
      simp only at h2
      -- the run is the tail of the running buffers
      have hprne : (pre ++ run).map Prod.fst ≠ [] := by
        obtain ⟨c, hc, -⟩ := hpre
        cases pre with
        | nil => simp at hc
        | cons a as => simp
      obtain ⟨core0, tail0, s1, s2, -, s4, s5, s6⟩ := hinv.shape
      obtain ⟨-, -, -, c1, -, -, hc1, hm1⟩ := s6 hprne
      obtain ⟨et, -, -⟩ := running_run_unique st pre run core0 tail0 hinv.recon_ref
        hinv.recon_query hs.recon_len s1 s2 s4 ⟨c1, hc1, hm1⟩ hpre hrun
      have hclose : st.runningQueryGapCharacters > max_gap_length := by
        rw [s5, et]; exact hcount
      obtain ⟨core, tail, -, -, t1, t2, t4, -, tc, e1, e2, e3, e4, e5, -, -⟩ :=
        splitterColumn_close max_gap_length h len _ _ r q st st1 hinv hm hclose hcol
      obtain ⟨et2, hpr, hpq⟩ := running_run_unique st pre run core tail hinv.recon_ref
        hinv.recon_query hs.recon_len t1 t2 t4 tc hpre hrun
      subst et2
      -- the columns after the run
      have hinv1 := splitterInv_column max_gap_length h len _ _ r q st st1 hinv hcol
      have hs1 := startInv_column max_gap_length h len _ _ r q st st1 hinv hs hcol
      have hidx1 : ((pre ++ tail).map Prod.fst).length + 1
          = ((pre ++ tail).map Prod.fst ++ [r]).length := by simp; omega
      rw [hidx1] at h2
      obtain ⟨-, hinvF⟩ := splitterLoop_inv max_gap_length h len _ _ _ _ st1 stF hinv1 h2
      obtain ⟨hdF, -⟩ := splitterLoop_dropInv max_gap_length h len st1.haplotype_parts
        st1.reconstituted_ref st1.reconstituted_query _ _ _ _ st1 stF hinv1
        ⟨[], [], by simp, rfl, by simp, by simp [interleave], by simp [interleave]⟩ hs1 h2
      have hrun : stF.running_ref ≠ [] :=
        splitterInv_running_ne_nil max_gap_length _ _ _ stF hinvF (by simp)
      have hrun2 : stF.running_ref.length ≠ 0 := by
        intro h0; exact hrun (List.eq_nil_of_length_eq_zero h0)
      rw [if_pos hrun2] at hparts hr hq
      obtain ⟨ps0, dropped0, a0, a1, -, a3, a4⟩ := hd
      obtain ⟨ps, ds, b0, b1, -, b3, b4⟩ := hdF
      simp only [List.nil_append] at a0 a3 a4
      refine ⟨st1.haplotype_parts, ps ++
        [{ ref := stF.running_ref
           query := stF.running_query
           query_name := ([] : List Char) ++ "_part".toList ++ to_string stF.haplotype_parts.length
           aligment_start_pos := stF.firstMatchPos_reference
           alignment_last_pos := stF.lastMatchPos_reference }], dropped0, ds, ?_, ?_, ?_, ?_, ?_,
        ?_, ?_⟩
      · rw [hparts, b0, List.append_assoc]
      · rw [e5, a0]; simp [a1]
      · simp [b1]
      · rw [e5, a0]
        simp only [List.map_append, List.map_cons, List.map_nil]
        rw [interleave_last _ _ _ (by simp [a1]), ← a3]
        exact hpr
      · rw [e5, a0]
        simp only [List.map_append, List.map_cons, List.map_nil]
        rw [interleave_last _ _ _ (by simp [a1]), ← a4]
        exact hpq
      · simp only [List.map_append, List.map_cons, List.map_nil]
        rw [interleave_last _ _ _ (by simp [b1])]
        rw [b3, e1, hpr, er, List.append_assoc] at hr
        have : (pre ++ tail).map Prod.fst = pre.map Prod.fst ++ tail.map Prod.fst := by simp
        rw [this] at hr
        exact List.append_cancel_left hr
      · simp only [List.map_append, List.map_cons, List.map_nil]
        rw [interleave_last _ _ _ (by simp [b1])]
        rw [b4, e2, hpq, eq, List.append_assoc] at hq
        have : (pre ++ tail).map Prod.snd = pre.map Prod.snd ++ tail.map Prod.snd := by simp
        rw [this] at hq
        exact List.append_cancel_left hq

/-! ## C15: the split at a long deletion -/

/-- C15. Whenever the splitter reaches a match column `m` after a run of
non-match columns of which more than `max_gap_length` are query-gap columns
(a gap in the query, a base in the ref: the columns that line 304 counts), it
closes the current sub-alignment before the run and starts a new one at `m`:
the sub-alignments of a successful split fall into those before the run, which
with the runs dropped between them make up exactly the columns `pre` in front
of the run, and those after it, which make up exactly `m` and the columns
`post` behind it, so that no column of the run is in a sub-alignment. In the
example (`max_gap_length` 5, ref twelve `A`, query `A----------A`, start 1 and
end 11, on a reference of thirteen `A`) two sub-alignments `A` / `A` are
published and no VCF line is written. -/
theorem long_deletion_split :
    (∀ (max_gap_length : Int) (h : startingHaplotype) (parts : List startingHaplotype)
        (pre run post : List (Char × Char)) (m : Char × Char),
      splitAlignment max_gap_length h = Except.ok parts →
      h.ref.length = h.query.length →
      columns h = pre ++ run ++ m :: post →
      (∃ c, pre.getLast? = some c ∧ isMatchColumn c = true) →
      (∀ c ∈ run, isMatchColumn c = false) →
      max_gap_length < (run.countP isQueryOnlyGap : Int) →
      isMatchColumn m = true →
      ∃ (ps1 ps2 : List startingHaplotype) (ds1 ds2 : List (List Char × List Char)),
        parts = ps1 ++ ps2 ∧ ds1.length + 1 = ps1.length ∧ ds2.length + 1 = ps2.length ∧
        interleave (ps1.map startingHaplotype.ref) (ds1.map Prod.fst) = pre.map Prod.fst ∧
        interleave (ps1.map startingHaplotype.query) (ds1.map Prod.snd) = pre.map Prod.snd ∧
        interleave (ps2.map startingHaplotype.ref) (ds2.map Prod.fst)
          = (m :: post).map Prod.fst ∧
        interleave (ps2.map startingHaplotype.query) (ds2.map Prod.snd)
          = (m :: post).map Prod.snd) ∧
    loader 5 [exampleLongDeletionLine] = Except.ok exampleLongDeletionLoaded ∧
    exampleLongDeletionLoaded.alignments_starting_at =
      [(1, [{ addr := 1,
              obj := { ref := ['A'], query := ['A'], query_name := "h1_part0".toList,
                       aligment_start_pos := 1, alignment_last_pos := 1 } }]),
       (12, [{ addr := 2,
               obj := { ref := ['A'], query := ['A'], query_name := "_part1".toList,
                        aligment_start_pos := 12, alignment_last_pos := 12 } }])] ∧
    main 5 5000 "chr".toList (List.replicate 13 'A') [exampleLongDeletionLine]
      = Except.ok ([], []) := by
  refine ⟨?_, rfl, rfl, rfl⟩
  intro max_gap_length h parts pre run post m hok hlen hcols hpre hrun hcount hm
  obtain ⟨r, q⟩ := m
  have href : h.ref = (pre ++ run ++ (r, q) :: post).map Prod.fst := by
    rw [← hcols, columns, List.map_fst_zip _ _ (le_of_eq hlen)]
  have hquery : h.query = (pre ++ run ++ (r, q) :: post).map Prod.snd := by
    rw [← hcols, columns, List.map_snd_zip _ _ (le_of_eq hlen.symm)]
  exact splitAlignment_at_long_run max_gap_length h parts pre run post r q hok href hquery
    hpre hrun hcount hm

/-- C15 at the example: the ten columns `A` / `-` of `exampleLongDeletion` are
in neither of its two sub-alignments. -/
theorem long_deletion_split_witness :
    splitAlignment 5 exampleLongDeletion = Except.ok exampleLongDeletionParts ∧
    columns exampleLongDeletion
      = [('A', 'A')] ++ List.replicate 10 ('A', '-') ++ ('A', 'A') :: [] ∧
    ∃ (ps1 ps2 : List startingHaplotype) (ds1 ds2 : List (List Char × List Char)),
      exampleLongDeletionParts = ps1 ++ ps2 ∧ ds1.length + 1 = ps1.length ∧
      ds2.length + 1 = ps2.length ∧
      interleave (ps1.map startingHaplotype.ref) (ds1.map Prod.fst) = ['A'] ∧
      interleave (ps1.map startingHaplotype.query) (ds1.map Prod.snd) = ['A'] ∧
      interleave (ps2.map startingHaplotype.ref) (ds2.map Prod.fst) = ['A'] ∧
      interleave (ps2.map startingHaplotype.query) (ds2.map Prod.snd) = ['A'] :=
  ⟨rfl, rfl,
    long_deletion_split.1 5 exampleLongDeletion exampleLongDeletionParts [('A', 'A')]
      (List.replicate 10 ('A', '-')) [] ('A', 'A') rfl rfl rfl ⟨('A', 'A'), rfl, rfl⟩
      (by decide) (by decide) rfl⟩

/-! ## The iteration in front of the flush -/

theorem enumeratorStep_eq (max : Nat) (refID R : List Char) (idx : AlignmentIndex)
    (G : List Int) (st : EnumeratorState) (posI : Nat) :
    enumeratorStep max refID R idx G st posI =
      (stepBeforeFlush max R idx G st posI).bind (fun x =>
        if decide (x.2.1.length = 1 ∧ [x.2.2] ∈ x.2.1) = true ∧ posI > 0 then
          flush refID R posI x.1
        else Except.ok x.1) := by
  unfold enumeratorStep stepBeforeFlush
  simp only [bind, Except.bind]
  cases h1 : catchUp G posI (deduplicate st).open_haplotypes with
  | error e => rfl
  | ok caughtUp =>
    simp only
    cases h2 : columnLengthCheck R idx posI caughtUp (-1) with
    | error e => rfl
    | ok u =>
      simp only
      cases hr : R[posI]? with
      | none => rfl
      | some refC =>
        simp only
        cases h3 : enterHaplotypes max R G posI caughtUp.length (indexAt idx posI)
            { deduplicate st with open_haplotypes := caughtUp } with
        | error e => rfl
        | ok st2 =>
          simp only
          cases h4 : exitRecombination max st2 with
          | error e => rfl
          | ok st3 =>
            simp only
            cases h5 : extensionLength st3.open_haplotypes (-1) with
            | error e => rfl
            | ok len =>
              simp only
              cases h6 : extendHaplotypes refC len st3.open_haplotypes [] with
              | error e => rfl
              | ok ee =>
                obtain ⟨extended, extensions⟩ := ee
                simp only
                simp only [assertThat, pure, Except.pure]
                by_cases a1 : extensions.length ≠ 0
                · rw [if_pos a1]
                  simp only
                  by_cases a2 : posI = 0 →
                      decide (extensions.length = 1 ∧ [refC] ∈ extensions) = true
                  · rw [if_pos a2]
                  · rw [if_neg a2]
                · rw [if_neg a1]

/-! ## Scenarios: the coordinates of a single alignment -/

theorem length_le_interleave :
    ∀ (ps ds : List (List Char)), ds.length ≤ ps.length → ∀ d ∈ ds,
      d.length ≤ (interleave ps ds).length
  | [], [], _, d, hd => by simp at hd
  | [], _ :: _, h, _, _ => by simp at h
  | p :: ps, [], _, d, hd => by simp at hd
  | p :: ps, d0 :: ds, h, d, hd => by
    simp only [interleave, List.length_append]
    rcases List.mem_cons.1 hd with rfl | hd
    · omega
    · have := length_le_interleave ps ds (by simpa using h) d hd
      omega

/-- An alignment with at most `max_gap_length` columns is not split. -/
theorem splitAlignment_short (max_gap_length : Int) (h : startingHaplotype)
    (parts : List startingHaplotype) (hok : splitAlignment max_gap_length h = Except.ok parts)
    (hne : h.ref ≠ []) (hlen : (h.ref.length : Int) ≤ max_gap_length) : parts.length = 1 := by
  obtain ⟨⟨dropped, d1, d2, d3, -⟩, -⟩ := splitAlignment_dropped max_gap_length h parts hok hne
  cases dropped with
  | nil => simpa using d1.symm
  | cons d ds =>
    exfalso
    obtain ⟨-, -, hcount⟩ := d2 d (List.mem_cons_self _ _)
    have h1 : (List.zip d.1 d.2).countP isQueryOnlyGap ≤ (List.zip d.1 d.2).length :=
      List.countP_le_length _
    have h2 : (List.zip d.1 d.2).length ≤ d.1.length := by
      rw [List.length_zip]; exact Nat.min_le_left _ _
    have h3 := length_le_interleave (parts.map startingHaplotype.ref)
      ((d :: ds).map Prod.fst) (by simp at d1 ⊢; omega) d.1 (by simp)
    rw [d3] at h3
    omega

theorem loader_single (max_gap_length : Int) (l : AlignmentLine) :
    loader max_gap_length [l] = loadLine max_gap_length loaderInit l := by
  simp only [loader, loadLines]
  cases loadLine max_gap_length loaderInit l <;> rfl

/-- An alignment whose first reference base is not the base of the reference
at its start position is rejected. -/
theorem main_start_mismatch (max_gap_length : Int) (max_running : Nat) (refID R : List Char)
    (l : AlignmentLine) (c : Char)
    (hc : l.ref[0]? = some c) (hg : isGapCharacter c = false)
    (hlen : (l.ref.length : Int) ≤ max_gap_length)
    (hs : l.start % UINT_RANGE ≠ 0) (hR : R[l.start % UINT_RANGE]? ≠ some c) :
    ∃ e, main max_gap_length max_running refID R [l] = Except.error e := by
  cases hm : main max_gap_length max_running refID R [l] with
  | error e => exact ⟨e, rfl⟩
  | ok v =>
    exfalso
    unfold main at hm
    rw [loader_single] at hm
    cases hl : loadLine max_gap_length loaderInit l with
    | error e => rw [hl] at hm; simp at hm
    | ok ld =>
      rw [hl] at hm
      simp only at hm
      cases hp : produceVCF max_running refID R ld.alignments_starting_at with
      | error e => rw [hp] at hm; simp at hm
      | ok vcf =>
        unfold produceVCF at hp
        cases hb : buildGapStructure R ld.alignments_starting_at with
        | error e => rw [hb] at hp; simp at hp
        | ok GC =>
          obtain ⟨G, C⟩ := GC
          have hw := (buildGapStructure_ok R _ G C hb).1
          obtain ⟨alleles, h, parts, -, hhack, hsplit, hpne, -, hcase⟩ :=
            loadLine_ok max_gap_length loaderInit ld l hl
          have hs0 : (newStartingHaplotype l).aligment_start_pos ≠ 0 := by
            simp only [newStartingHaplotype]
            exact_mod_cast hs
          obtain ⟨-, e2, e3, -, -⟩ := startZeroHack_ok _ h hhack
          rw [if_neg hs0] at e2 e3
          have href : h.ref = l.ref := e3
          have hstart : h.aligment_start_pos = ((l.start % UINT_RANGE : Nat) : Int) := e2
          have hne : h.ref ≠ [] := by
            rw [href]; intro hnil; rw [hnil] at hc; simp at hc
          have hone := splitAlignment_short max_gap_length h parts hsplit hne
            (by rw [href]; exact hlen)
          rcases hcase with ⟨hgt, -⟩ | ⟨-, hidx, -⟩
          · omega
          · have hwalk : Walked R (toUnsignedInt h.aligment_start_pos)
                { addr := loaderInit.allocations + 1, obj := h } := by
              apply hw (toUnsignedInt h.aligment_start_pos)
                [{ addr := loaderInit.allocations + 1, obj := h }]
              · rw [hidx]; simp [loaderInit, indexPushBack]
              · simp
            obtain ⟨as, hr⟩ : ∃ as, h.ref = c :: as := by
              rw [href]
              cases hr : l.ref with
              | nil => rw [hr] at hc; simp at hc
              | cons a as =>
                rw [hr] at hc
                simp only [List.getElem?_cons_zero, Option.some.injEq] at hc
                subst hc
                exact ⟨as, rfl⟩
            have hch := hwalk.chars 0 c (by simp [hr]) hg
            have hws := walked_start R _ _ hwalk (by
              simp only [hr, nonGapCount, List.countP_cons, hg]
              simp)
            simp only [hr, List.take_succ_cons, List.take_zero, nonGapCount, List.countP_cons,
              List.countP_nil, hg, zero_add] at hch
            rw [hws.1, hstart] at hch
            simp [vectorAt] at hch
            have h3 : ((l.start : Int) % (UINT_RANGE : Int)).toNat = l.start % UINT_RANGE := by
              rw [← Int.natCast_mod]; exact Int.toNat_natCast _
            rw [h3] at hch
            exact hR hch.2

theorem main_congr (max_gap_length : Int) (max_running : Nat) (refID R : List Char)
    (l l0 : AlignmentLine) (hl : newStartingHaplotype l = newStartingHaplotype l0) :
    main max_gap_length max_running refID R [l] = main max_gap_length max_running refID R [l0] := by
  unfold main
  rw [loader_single, loader_single]
  unfold loadLine
  rw [hl]

/-- If the run on one alignment completes and the first reference base of the
alignment occurs in the reference at index 0 only, the start position is 0 and
the end position is the one that the loader computes. -/
theorem main_of_first_column (max_gap_length : Int) (max_running : Nat) (refID R : List Char)
    (l : AlignmentLine) (c : Char)
    (hc : l.ref[0]? = some c) (hg : isGapCharacter c = false)
    (hlen : (l.ref.length : Int) ≤ max_gap_length)
    (hR : ∀ n, n ≠ 0 → R[n]? ≠ some c)
    (v : List VCFLine × List (List Char × Int × List Char))
    (hm : main max_gap_length max_running refID R [l] = Except.ok v) :
    l.start % UINT_RANGE = 0 ∧
    (((l.last % UINT_RANGE + 1) % UINT_RANGE : Nat) : Int) = (nonGapCount (l.ref.drop 1) : Int) := by
  have hs : l.start % UINT_RANGE = 0 := by
    by_contra hs
    obtain ⟨e, he⟩ := main_start_mismatch max_gap_length max_running refID R l c hc hg hlen hs
      (hR _ hs)
    rw [he] at hm; cases hm
  refine ⟨hs, ?_⟩
  unfold main at hm
  rw [loader_single] at hm
  cases hl : loadLine max_gap_length loaderInit l with
  | error e => rw [hl] at hm; simp at hm
  | ok ld =>
    obtain ⟨h, hhack, hcount, -⟩ := loadLine_count max_gap_length loaderInit ld l hl
    obtain ⟨e1, e2, e3, -, -⟩ := startZeroHack_ok _ h hhack
    have hs0 : (newStartingHaplotype l).aligment_start_pos = 0 := by
      simp only [newStartingHaplotype]
      exact_mod_cast hs
    rw [if_pos hs0] at e2 e3
    rw [e1, e2, e3] at hcount
    simp only [newStartingHaplotype] at hcount
    rw [← hcount]; simp

/-! ## C12: the single SNP scenario -/

theorem acgt_first_base (n : Nat) (hn : n ≠ 0) : "ACGT".toList[n]? ≠ some 'A' := by
  have e : "ACGT".toList = ['A', 'C', 'G', 'T'] := rfl
  rw [e]
  match n, hn with
  | 0, hn => exact absurd rfl hn
  | 1, _ => decide
  | 2, _ => decide
  | 3, _ => decide
  | n + 4, _ => simp

/-- C12 (amended). For the reference `ACGT` and the single alignment `ACGT` /
`AGGT` given with the coordinates that the loader accepts, start 0 and end 2,
the program writes exactly one VCF line, with POS 2, REF `C` and ALT `G`, and
one expected SNP, `chr` / 2 / `G`. The line is written on the SNP path: the
iterations 0 and 1 write nothing, and the flush of iteration 2 has
`start_open_haplotypes = 0`, the reference sequence `AC` and the one
alternative `AG`, both of length 2, so that POS is `start_open_haplotypes + 2`
and REF and ALT are their second characters. -/
theorem single_snp_scenario :
    main 5000 5000 "chr".toList "ACGT".toList
        [{ ref := "ACGT".toList, query := "AGGT".toList, query_name := "h1".toList,
           start := 0, last := 2 }]
      = Except.ok
          ([{ chrom := "chr".toList, pos := 2, id := ['.'], ref := ['C'], alt := ['G'],
              qual := ['.'], filter := "PASS".toList, info := ['.'] }],
           [("chr".toList, 2, ['G'])]) ∧
    ∃ ld G C st st4 opens,
      loader 5000
        [{ ref := "ACGT".toList, query := "AGGT".toList, query_name := "h1".toList,
           start := 0, last := 2 }] = Except.ok ld ∧
      buildGapStructure "ACGT".toList ld.alignments_starting_at = Except.ok (G, C) ∧
      enumeratorLoop 5000 "chr".toList "ACGT".toList ld.alignments_starting_at G [0, 1]
        enumeratorInit = Except.ok st ∧
      st.outputStream = [] ∧
      stepBeforeFlush 5000 "ACGT".toList ld.alignments_starting_at G st 2
        = Except.ok (st4, [['G']], 'G') ∧
      st4.start_open_haplotypes = 0 ∧
      flushHaplotypes "AC".toList 2 st4.open_haplotypes [] [] []
        = Except.ok (["AG".toList], opens) ∧
      vcfOutput "chr".toList 0 "AC".toList ["AG".toList]
        = Except.ok
          [{ chrom := "chr".toList, pos := 0 + 2, id := ['.'], ref := ['C'], alt := ['G'],
             qual := ['.'], filter := "PASS".toList, info := ['.'] }] :=
  ⟨rfl, _, _, _, _, _, _, rfl, rfl, rfl, rfl, rfl, rfl, rfl, rfl⟩

/-- C12 fails as stated: with start 1 and end 4 the loader stops at the
assertion of line 325, and the program accepts the alignment with no start
field other than 0. -/
theorem single_snp_scenario_fails :
    main 5000 5000 "chr".toList "ACGT".toList
        [{ ref := "ACGT".toList, query := "AGGT".toList, query_name := "h1".toList,
           start := 1, last := 4 }]
      = Except.error (Failure.assertion 325) ∧
    ∀ start last : Nat, start % UINT_RANGE ≠ 0 → ∃ e,
      main 5000 5000 "chr".toList "ACGT".toList
          [{ ref := "ACGT".toList, query := "AGGT".toList, query_name := "h1".toList,
             start := start, last := last }] = Except.error e :=
  ⟨rfl, fun start last hs =>
    main_start_mismatch 5000 5000 "chr".toList "ACGT".toList
      { ref := "ACGT".toList, query := "AGGT".toList, query_name := "h1".toList,
        start := start, last := last } 'A' rfl rfl
      (by show (("ACGT".toList.length : Nat) : Int) ≤ 5000; decide) hs (acgt_first_base _ hs)⟩

/-! ## C13 and C14: the insertion and the deletion scenario -/

/-- C13 (amended). For the reference `ACGT` and the single alignment `AC-GT` /
`ACTGT` given with the coordinates that the loader accepts, start 0 and end 2,
the program writes exactly one VCF line, with POS 2, REF `C` and ALT `CT`, and
records no expected SNP. The line is written on the general path: the
iterations 0 and 1 write nothing, and the flush of iteration 2 has
`start_open_haplotypes = 1`, the reference sequence `C` and the one
alternative `CT`, so that POS is `start_open_haplotypes + 1` and REF and ALT
are the two sequences. -/
theorem insertion_scenario :
    main 5000 5000 "chr".toList "ACGT".toList
        [{ ref := "AC-GT".toList, query := "ACTGT".toList, query_name := "h1".toList,
           start := 0, last := 2 }]
      = Except.ok
          ([{ chrom := "chr".toList, pos := 2, id := ['.'], ref := ['C'], alt := "CT".toList,
              qual := ['.'], filter := "PASS".toList, info := ['.'] }],
           []) ∧
    ∃ ld G C st st4 opens,
      loader 5000
        [{ ref := "AC-GT".toList, query := "ACTGT".toList, query_name := "h1".toList,
           start := 0, last := 2 }] = Except.ok ld ∧
      buildGapStructure "ACGT".toList ld.alignments_starting_at = Except.ok (G, C) ∧
      enumeratorLoop 5000 "chr".toList "ACGT".toList ld.alignments_starting_at G [0, 1]
        enumeratorInit = Except.ok st ∧
      st.outputStream = [] ∧
      stepBeforeFlush 5000 "ACGT".toList ld.alignments_starting_at G st 2
        = Except.ok (st4, [['G']], 'G') ∧
      st4.start_open_haplotypes = 1 ∧
      flushHaplotypes ['C'] 1 st4.open_haplotypes [] [] []
        = Except.ok (["CT".toList], opens) ∧
      vcfOutput "chr".toList 1 ['C'] ["CT".toList]
        = Except.ok
          [{ chrom := "chr".toList, pos := 1 + 1, id := ['.'], ref := ['C'], alt := "CT".toList,
             qual := ['.'], filter := "PASS".toList, info := ['.'] }] :=
  ⟨rfl, _, _, _, _, _, _, rfl, rfl, rfl, rfl, rfl, rfl, rfl, rfl⟩

/-- C13 fails as stated: with start 1 and end 4 the loader stops at the
assertion of line 325; and whatever the start and end fields are, a run that
completes writes the line with REF `C` and ALT `CT`, not REF `CG` and ALT
`CTG`. -/
theorem insertion_scenario_fails :
    main 5000 5000 "chr".toList "ACGT".toList
        [{ ref := "AC-GT".toList, query := "ACTGT".toList, query_name := "h1".toList,
           start := 1, last := 4 }]
      = Except.error (Failure.assertion 325) ∧
    ∀ (start last : Nat) (v : List VCFLine × List (List Char × Int × List Char)),
      main 5000 5000 "chr".toList "ACGT".toList
          [{ ref := "AC-GT".toList, query := "ACTGT".toList, query_name := "h1".toList,
             start := start, last := last }] = Except.ok v →
      v.1 = [{ chrom := "chr".toList, pos := 2, id := ['.'], ref := ['C'], alt := "CT".toList,
               qual := ['.'], filter := "PASS".toList, info := ['.'] }] := by
  refine ⟨rfl, ?_⟩
  intro start last v hm
  obtain ⟨h1, h2⟩ := main_of_first_column 5000 5000 "chr".toList "ACGT".toList
    { ref := "AC-GT".toList, query := "ACTGT".toList, query_name := "h1".toList,
      start := start, last := last } 'A' rfl rfl
    (by show (("AC-GT".toList.length : Nat) : Int) ≤ 5000; decide) acgt_first_base v hm
  have e : newStartingHaplotype
      { ref := "AC-GT".toList, query := "ACTGT".toList, query_name := "h1".toList,
        start := start, last := last }
      = newStartingHaplotype
      { ref := "AC-GT".toList, query := "ACTGT".toList, query_name := "h1".toList,
        start := 0, last := 2 } := by
    simp only [newStartingHaplotype] at h1 h2 ⊢
    rw [h1, h2]
    rfl
  rw [main_congr _ _ _ _ _ _ e] at hm
  have hv : Except.ok v = (Except.ok
      ([{ chrom := "chr".toList, pos := 2, id := ['.'], ref := ['C'], alt := "CT".toList,
          qual := ['.'], filter := "PASS".toList, info := ['.'] }], []) :
      Run (List VCFLine × List (List Char × Int × List Char))) := hm.symm.trans rfl
  injection hv with hv
  rw [hv]

/-- C14 (amended). For the reference `TACGT` and the single alignment `ACGT` /
`A--T` with start 1 and end 3, the program writes exactly one VCF line, with
POS 2, REF `ACG` and ALT `A`. The line is written on the general path: the
iterations 0 to 3 write nothing, and the flush of iteration 4 has
`start_open_haplotypes = 1`, the reference sequence `ACG` and the one
alternative `A`, so that POS is `start_open_haplotypes + 1` and REF and ALT
are the two sequences. -/
theorem deletion_scenario :
    main 5000 5000 "chr".toList "TACGT".toList
        [{ ref := "ACGT".toList, query := "A--T".toList, query_name := "h1".toList,
           start := 1, last := 3 }]
      = Except.ok
          ([{ chrom := "chr".toList, pos := 2, id := ['.'], ref := "ACG".toList, alt := ['A'],
              qual := ['.'], filter := "PASS".toList, info := ['.'] }],
           []) ∧
    ∃ ld G C st st4 opens,
      loader 5000
        [{ ref := "ACGT".toList, query := "A--T".toList, query_name := "h1".toList,
           start := 1, last := 3 }] = Except.ok ld ∧
      buildGapStructure "TACGT".toList ld.alignments_starting_at = Except.ok (G, C) ∧
      enumeratorLoop 5000 "chr".toList "TACGT".toList ld.alignments_starting_at G [0, 1, 2, 3]
        enumeratorInit = Except.ok st ∧
      st.outputStream = [] ∧
      stepBeforeFlush 5000 "TACGT".toList ld.alignments_starting_at G st 4
        = Except.ok (st4, [['T']], 'T') ∧
      st4.start_open_haplotypes = 1 ∧
      flushHaplotypes "ACG".toList 3 st4.open_haplotypes [] [] []
        = Except.ok ([['A']], opens) ∧
      vcfOutput "chr".toList 1 "ACG".toList [['A']]
        = Except.ok
          [{ chrom := "chr".toList, pos := 1 + 1, id := ['.'], ref := "ACG".toList,
             alt := ['A'], qual := ['.'], filter := "PASS".toList, info := ['.'] }] :=
  ⟨rfl, _, _, _, _, _, _, rfl, rfl, rfl, rfl, rfl, rfl, rfl, rfl⟩

theorem startZeroHack_query_gap (h0 : startingHaplotype) (r1 : Char)
    (hs : h0.aligment_start_pos = 0) (hr : h0.ref[1]? = some r1) (hr1 : r1 ≠ '-')
    (hq : h0.query[1]? = some '-') :
    startZeroHack h0 = Except.error (Failure.assertion 184) := by
  unfold startZeroHack
  rw [if_pos hs]
  simp only [hr, hq, if_neg hr1, if_true]

/-- C14 fails as stated: with start 1 and end 4 the loader stops at the
assertion of line 325, and with the reference `ACGT` no start and end fields
make the program accept the alignment `ACGT` / `A--T`. -/
theorem deletion_scenario_fails :
    main 5000 5000 "chr".toList "ACGT".toList
        [{ ref := "ACGT".toList, query := "A--T".toList, query_name := "h1".toList,
           start := 1, last := 4 }]
      = Except.error (Failure.assertion 325) ∧
    ∀ start last : Nat, ∃ e,
      main 5000 5000 "chr".toList "ACGT".toList
          [{ ref := "ACGT".toList, query := "A--T".toList, query_name := "h1".toList,
             start := start, last := last }] = Except.error e := by
  refine ⟨rfl, ?_⟩
  intro start last
  by_cases hs : start % UINT_RANGE = 0
  · cases hm : main 5000 5000 "chr".toList "ACGT".toList
        [{ ref := "ACGT".toList, query := "A--T".toList, query_name := "h1".toList,
           start := start, last := last }] with
    | error e => exact ⟨e, rfl⟩
    | ok v =>
      exfalso
      unfold main at hm
      rw [loader_single] at hm
      cases hl : loadLine 5000 loaderInit
          { ref := "ACGT".toList, query := "A--T".toList, query_name := "h1".toList,
            start := start, last := last } with
      | error e => rw [hl] at hm; simp at hm
      | ok ld =>
        obtain ⟨alleles, h, parts, -, hhack, -⟩ := loadLine_ok 5000 loaderInit ld _ hl
        rw [startZeroHack_query_gap (newStartingHaplotype
          { ref := "ACGT".toList, query := "A--T".toList, query_name := "h1".toList,
            start := start, last := last }) 'C'
          (by simp only [newStartingHaplotype]; exact_mod_cast hs) rfl (by decide) rfl] at hhack
        cases hhack
  · exact main_start_mismatch 5000 5000 "chr".toList "ACGT".toList
      { ref := "ACGT".toList, query := "A--T".toList, query_name := "h1".toList,
        start := start, last := last } 'A' rfl rfl
      (by show (("ACGT".toList.length : Nat) : Int) ≤ 5000; decide) hs (acgt_first_base _ hs)

/-! ## C18: the threshold on entry -/

theorem vectorAt_of_lt {α : Type} (v : List α) (i : Int) (h0 : 0 ≤ i) (h1 : i < v.length) :
    ∃ x, vectorAt v i = some x ∧ x ∈ v := by
  have hlt : i.toNat < v.length := by omega
  refine ⟨v[i.toNat], ?_, List.getElem_mem _⟩
  unfold vectorAt
  rw [if_pos h0, List.getElem?_eq_getElem hlt]

theorem gapString_total (l1 l2 : Nat) (G : List Int) (i : Int) (h0 : 0 ≤ i)
    (h1 : i < G.length) (hG : ∀ g ∈ G, -1 ≤ g) : ∃ gaps, gapString l1 l2 G i = Except.ok gaps := by
  obtain ⟨g, hg, hmem⟩ := vectorAt_of_lt G i h0 h1
  have := hG g hmem
  unfold gapString
  rw [hg]
  simp only
  by_cases h : g = -1
  · simp [h]
  · rw [if_neg h, if_neg (by omega)]
    exact ⟨_, rfl⟩

/-- The reference extraction of lines 820-831 succeeds when the positions that
it reads are positions of the reference and of the gap structure. -/
theorem referenceExtractionLoop_total (R : List Char) (G : List Int) (hG : ∀ g ∈ G, -1 ≤ g) :
    ∀ (n : Nat) (refI : Int) (acc : List Char), 0 ≤ refI → refI + n ≤ R.length →
      refI + n ≤ G.length → ∃ ext, referenceExtractionLoop R G n refI acc = Except.ok ext
  | 0, _, acc, _, _, _ => ⟨acc, rfl⟩
  | n + 1, refI, acc, h0, h1, h2 => by
    obtain ⟨c, hc, -⟩ := vectorAt_of_lt R refI h0 (by push_cast at h1; omega)
    obtain ⟨gaps, hgaps⟩ := gapString_total 824 828 G refI h0 (by push_cast at h2; omega) hG
    simp only [referenceExtractionLoop, hc, hgaps]
    exact referenceExtractionLoop_total R G hG n (refI + 1) _ (by omega)
      (by push_cast at h1; omega) (by push_cast at h2; omega)

/-- C18. When a new alignment is considered for entry while there are more
than `max_running_haplotypes_before_add` open haplotypes, the enumerator state,
with the open haplotypes and the flag `modifiedLastPos`, is left as it was.
When there are at most that many and the snapshot taken at line 789 is not
empty, the alignment is entered: a copy of every haplotype of the snapshot and
the reference extraction, all three with the new alignment as source and the
cursor `-1`, are appended, and the flag is set. The entry succeeds when the
extraction reads positions of the reference and of the gap structure. -/
theorem threshold_skip (max_running_haplotypes_before_add : Nat) (R : List Char)
    (G : List Int) (posI open_haplotypes_size : Nat) (st : EnumeratorState) (a : HapPtr) :
    (max_running_haplotypes_before_add < st.open_haplotypes.length →
      enterHaplotype max_running_haplotypes_before_add R G posI open_haplotypes_size st a
        = Except.ok st) ∧
    (st.open_haplotypes.length ≤ max_running_haplotypes_before_add →
      0 < open_haplotypes_size →
      0 ≤ st.start_open_haplotypes → st.start_open_haplotypes ≤ (posI : Int) - 1 →
      posI ≤ R.length → posI ≤ G.length → (∀ g ∈ G, -1 ≤ g) →
      ∃ referenceExtraction,
        referenceExtractionLoop R G ((posI : Int) - 1 - st.start_open_haplotypes + 1).toNat
          st.start_open_haplotypes [] = Except.ok referenceExtraction ∧
        enterHaplotype max_running_haplotypes_before_add R G posI open_haplotypes_size st a
          = Except.ok
            { st with
              open_haplotypes :=
                st.open_haplotypes ++
                  (st.open_haplotypes.take open_haplotypes_size).map
                    (fun existing => (existing.1, some a, (-1 : Int))) ++
                  [(referenceExtraction, some a, -1)]
              modifiedLastPos := true }) := by
  constructor
  · intro h
    unfold enterHaplotype
    rw [if_neg (by omega)]
    rfl
  · intro h hsize h0 hstart hR hGl hG
    obtain ⟨ext, hext⟩ := referenceExtractionLoop_total R G hG
      ((posI : Int) - 1 - st.start_open_haplotypes + 1).toNat st.start_open_haplotypes [] h0
      (by omega) (by omega)
    refine ⟨ext, hext, ?_⟩
    unfold enterHaplotype
    rw [if_pos h, if_pos hsize]
    simp only [bind_eq_ok, assertThat_eq_ok, pure_eq_ok, exists_const, hext, Except.ok.injEq,
      exists_eq_left']
    exact ⟨hstart, trivial⟩

/-- C18 at `exampleTwoOpen`, iteration 2 on the reference `TACG`: with the
threshold 1 the state is unchanged, with the threshold 5000 three haplotypes
are appended. -/
theorem threshold_skip_witness :
    enterHaplotype 1 exampleReference [-1, 0, 0, -1] 2 2 exampleTwoOpen exampleWithInsertion
      = Except.ok exampleTwoOpen ∧
    ∃ referenceExtraction,
      referenceExtractionLoop exampleReference [-1, 0, 0, -1]
          (((2 : Nat) : Int) - 1 - exampleTwoOpen.start_open_haplotypes + 1).toNat
          exampleTwoOpen.start_open_haplotypes [] = Except.ok referenceExtraction ∧
      enterHaplotype 5000 exampleReference [-1, 0, 0, -1] 2 2 exampleTwoOpen
          exampleWithInsertion
        = Except.ok
          { exampleTwoOpen with
            open_haplotypes :=
              exampleTwoOpen.open_haplotypes ++
                (exampleTwoOpen.open_haplotypes.take 2).map
                  (fun existing => (existing.1, some exampleWithInsertion, (-1 : Int))) ++
                [(referenceExtraction, some exampleWithInsertion, -1)]
            modifiedLastPos := true } :=
  ⟨(threshold_skip 1 exampleReference [-1, 0, 0, -1] 2 2 exampleTwoOpen exampleWithInsertion).1
      (by decide),
    (threshold_skip 5000 exampleReference [-1, 0, 0, -1] 2 2 exampleTwoOpen
      exampleWithInsertion).2 (by decide) (by decide) (by decide) (by decide) (by decide)
      (by decide) (by decide)⟩

/-! ## C19: counters and publication -/

theorem keys_indexPushBack (idx : AlignmentIndex) (key : Nat) (p : HapPtr) (k : Nat) :
    k ∈ (indexPushBack idx key p).map Prod.fst ↔ k = key ∨ k ∈ idx.map Prod.fst := by
  induction idx with
  | nil => simp [indexPushBack]
  | cons e rest ih =>
    obtain ⟨k0, v⟩ := e
    unfold indexPushBack
    by_cases h1 : key < k0
    · rw [if_pos h1]; simp
    · rw [if_neg h1]
      by_cases h2 : key = k0
      · rw [if_pos h2]; subst h2; simp
      · rw [if_neg h2]
        simp only [List.map_cons, List.mem_cons, ih]
        tauto

theorem indexPushBack_sorted (idx : AlignmentIndex) (key : Nat) (p : HapPtr)
    (hs : IndexSorted idx) : IndexSorted (indexPushBack idx key p) := by
  unfold IndexSorted at hs ⊢
  induction idx with
  | nil => simp [indexPushBack]
  | cons e rest ih =>
    obtain ⟨k0, v⟩ := e
    simp only [List.map_cons, List.pairwise_cons] at hs
    unfold indexPushBack
    by_cases h1 : key < k0
    · rw [if_pos h1]
      simp only [List.map_cons, List.pairwise_cons, List.mem_cons]
      refine ⟨?_, hs.1, hs.2⟩
      intro k hk
      rcases hk with rfl | hk
      · exact h1
      · exact lt_trans h1 (hs.1 k hk)
    · rw [if_neg h1]
      by_cases h2 : key = k0
      · rw [if_pos h2]
        simp only [List.map_cons, List.pairwise_cons]
        exact hs
      · rw [if_neg h2]
        simp only [List.map_cons, List.pairwise_cons]
        refine ⟨?_, ih hs.2⟩
        intro k hk
        rcases (keys_indexPushBack rest key p k).1 hk with rfl | hk
        · omega
        · exact hs.1 k hk

theorem indexAt_eq_nil (idx : AlignmentIndex) (key : Nat) (h : key ∉ idx.map Prod.fst) :
    indexAt idx key = [] := by
  induction idx with
  | nil => rfl
  | cons e rest ih =>
    obtain ⟨k0, v⟩ := e
    simp only [List.map_cons, List.mem_cons, not_or] at h
    unfold indexAt
    rw [if_neg h.1]
    exact ih h.2

/-- The statement `m[key].push_back(p)` appends `p` to the vector at `key` and
changes no other vector. -/
theorem indexAt_indexPushBack (idx : AlignmentIndex) (key : Nat) (p : HapPtr)
    (hs : IndexSorted idx) (k : Nat) :
    indexAt (indexPushBack idx key p) k
      = indexAt idx k ++ (if k = key then [p] else []) := by
  unfold IndexSorted at hs
  induction idx with
  | nil =>
    simp only [indexPushBack, indexAt]
    by_cases h : k = key <;> simp [h]
  | cons e rest ih =>
    obtain ⟨k0, v⟩ := e
    simp only [List.map_cons, List.pairwise_cons] at hs
    unfold indexPushBack
    by_cases h1 : key < k0
    · rw [if_pos h1]
      by_cases h : k = key
      · subst h
        have hnil : indexAt ((k0, v) :: rest) k = [] := by
          apply indexAt_eq_nil
          simp only [List.map_cons, List.mem_cons, not_or]
          refine ⟨by omega, ?_⟩
          intro hk
          have := hs.1 k hk
          omega
        rw [hnil]
        simp [indexAt]
      · conv_lhs => unfold indexAt
        rw [if_neg h, if_neg h]
        simp
    · rw [if_neg h1]
      by_cases h2 : key = k0
      · rw [if_pos h2]
        subst h2
        unfold indexAt
        by_cases h : k = key
        · simp [h]
        · simp [h]
      · rw [if_neg h2]
        unfold indexAt
        by_cases h : k = k0
        · have : k ≠ key := by omega
          simp [h, Ne.symm h2]
        · rw [if_neg h, if_neg h]
          exact ih hs.2

theorem publishParts_sorted :
    ∀ (parts : List startingHaplotype) (idx : AlignmentIndex) (allocations : Nat),
      IndexSorted idx → IndexSorted (publishParts parts idx allocations)
  | [], _, _, hs => hs
  | hP :: rest, idx, allocations, hs => by
    simp only [publishParts]
    exact publishParts_sorted rest _ _ (indexPushBack_sorted idx _ _ hs)

/-- The loop of lines 367-371 appends to the vector at every key the pointers
to the parts with that key, in the order of the parts, and nothing else. -/
theorem indexAt_publishParts :
    ∀ (parts : List startingHaplotype) (idx : AlignmentIndex) (allocations : Nat),
      IndexSorted idx → ∀ k,
      indexAt (publishParts parts idx allocations) k
        = indexAt idx k ++
          ((partPointers parts allocations).filter (fun e => decide (e.1 = k))).map Prod.snd
  | [], idx, _, _, k => by simp [publishParts, partPointers]
  | hP :: rest, idx, allocations, hs, k => by
    simp only [publishParts, partPointers]
    rw [indexAt_publishParts rest _ _ (indexPushBack_sorted idx _ _ hs) k,
      indexAt_indexPushBack idx _ _ hs k]
    by_cases h : k = toUnsignedInt hP.aligment_start_pos
    · subst h
      simp [List.filter_cons]
    · rw [if_neg h]
      simp [List.filter_cons, Ne.symm h]

theorem partPointers_obj :
    ∀ (parts : List startingHaplotype) (allocations : Nat),
      (partPointers parts allocations).map (fun e => e.2.obj) = parts ∧
      (partPointers parts allocations).map (fun e => e.1)
        = parts.map (fun hP => toUnsignedInt hP.aligment_start_pos) ∧
      (partPointers parts allocations).map (fun e => e.2.addr)
        = (List.range parts.length).map (fun i => allocations + 1 + i)
  | [], _ => by simp [partPointers]
  | hP :: rest, allocations => by
    obtain ⟨h1, h2, h3⟩ := partPointers_obj rest (allocations + 1)
    simp only [partPointers, List.map_cons, h1, h2, h3, List.length_cons, List.range_succ_eq_map,
      List.map_map, true_and]
    congr 1
    apply List.map_congr_left
    intro i _
    simp only [Function.comp]
    omega

theorem loadLine_sorted_count (max_gap_length : Int) (st st1 : LoaderState) (l : AlignmentLine)
    (hs : IndexSorted st.alignments_starting_at)
    (hok : loadLine max_gap_length st l = Except.ok st1) :
    IndexSorted st1.alignments_starting_at ∧
    st1.n_alignments_loaded + st1.n_alignments_split
      = st.n_alignments_loaded + st.n_alignments_split + 1 := by
  obtain ⟨alleles, h, parts, -, -, -, -, -, hcase⟩ := loadLine_ok max_gap_length st st1 l hok
  rcases hcase with ⟨-, hidx, c1, c2, -, -⟩ | ⟨-, hidx, c1, c2, -, -⟩
  · rw [hidx, c1, c2]
    exact ⟨publishParts_sorted parts _ _ hs, by ring⟩
  · rw [hidx, c1, c2]
    exact ⟨indexPushBack_sorted _ _ _ hs, by ring⟩

theorem loadLines_sorted_count (max_gap_length : Int) :
    ∀ (lines : List AlignmentLine) (st stF : LoaderState),
      IndexSorted st.alignments_starting_at →
      loadLines max_gap_length lines st = Except.ok stF →
      IndexSorted stF.alignments_starting_at ∧
      stF.n_alignments_loaded + stF.n_alignments_split
        = st.n_alignments_loaded + st.n_alignments_split + (lines.length : Int)
  | [], st, stF, hs, hok => by
    simp only [loadLines, Except.ok.injEq] at hok
    subst hok
    exact ⟨hs, by simp⟩
  | l :: rest, st, stF, hs, hok => by
    simp only [loadLines] at hok
    cases hl : loadLine max_gap_length st l with
    | error e => rw [hl] at hok; simp at hok
    | ok st1 =>
      rw [hl] at hok
      simp only at hok
      obtain ⟨h1, h2⟩ := loadLine_sorted_count max_gap_length st st1 l hs hl
      obtain ⟨h3, h4⟩ := loadLines_sorted_count max_gap_length rest st1 stF h1 hok
      refine ⟨h3, ?_⟩
      rw [h4, h2]
      simp only [List.length_cons]
      push_cast
      ring

theorem loader_sorted_count (max_gap_length : Int) (lines : List AlignmentLine)
    (st : LoaderState) (hok : loader max_gap_length lines = Except.ok st) :
    IndexSorted st.alignments_starting_at ∧
    st.n_alignments_loaded + st.n_alignments_split = (lines.length : Int) := by
  obtain ⟨h1, h2⟩ := loadLines_sorted_count max_gap_length lines loaderInit st
    (by simp [IndexSorted, loaderInit]) hok
  refine ⟨h1, ?_⟩
  rw [h2]
  simp [loaderInit]

/-- C19. For every line that the loader processes, with `st` the state after
the lines `pre` before it: either the splitter produced one part, and the
record `h` of the line (as the start-zero hack leaves it, the record of the
line itself when its start is not 0) is appended to the vector at the key of
its start position, no other vector changes, and `n_alignments_loaded`
increases by 1; or it produced `k >= 2` parts, and to the vector at every key
the parts with that start position are appended, in the order of the parts,
`n_alignments_split` increases by 1 and `n_alignments_sub` by `k`. Hence after
the load `n_alignments_loaded + n_alignments_split` is the number of lines. -/
theorem counters_and_publication :
    (∀ (max_gap_length : Int) (pre : List AlignmentLine) (l : AlignmentLine)
        (st st1 : LoaderState),
      loader max_gap_length pre = Except.ok st →
      loadLine max_gap_length st l = Except.ok st1 →
      ∃ h parts,
        startZeroHack (newStartingHaplotype l) = Except.ok h ∧
        (l.start % UINT_RANGE ≠ 0 → h = newStartingHaplotype l) ∧
        splitAlignment max_gap_length h = Except.ok parts ∧
        ((parts.length = 1 ∧
            (∀ k, indexAt st1.alignments_starting_at k
              = indexAt st.alignments_starting_at k ++
                (if k = toUnsignedInt h.aligment_start_pos then
                  [{ addr := st.allocations + 1, obj := h }] else [])) ∧
            st1.n_alignments_loaded = st.n_alignments_loaded + 1 ∧
            st1.n_alignments_split = st.n_alignments_split ∧
            st1.n_alignments_sub = st.n_alignments_sub) ∨
          (2 ≤ parts.length ∧
            (∀ k, indexAt st1.alignments_starting_at k
              = indexAt st.alignments_starting_at k ++
                ((partPointers parts st.allocations).filter
                  (fun e => decide (e.1 = k))).map Prod.snd) ∧
            (partPointers parts st.allocations).map (fun e => e.2.obj) = parts ∧
            (partPointers parts st.allocations).map (fun e => e.1)
              = parts.map (fun hP => toUnsignedInt hP.aligment_start_pos) ∧
            st1.n_alignments_loaded = st.n_alignments_loaded ∧
            st1.n_alignments_split = st.n_alignments_split + 1 ∧
            st1.n_alignments_sub = st.n_alignments_sub + parts.length))) ∧
    (∀ (max_gap_length : Int) (lines : List AlignmentLine) (st : LoaderState),
      loader max_gap_length lines = Except.ok st →
      st.n_alignments_loaded + st.n_alignments_split = (lines.length : Int)) := by
  refine ⟨?_, fun max_gap_length lines st hok =>
    (loader_sorted_count max_gap_length lines st hok).2⟩
  intro max_gap_length pre l st st1 hpre hok
  have hs := (loader_sorted_count max_gap_length pre st hpre).1
  obtain ⟨alleles, h, parts, -, hhack, hsplit, -, -, hcase⟩ :=
    loadLine_ok max_gap_length st st1 l hok
  refine ⟨h, parts, hhack, ?_, hsplit, ?_⟩
  · intro hne
    have hs0 : ¬ (newStartingHaplotype l).aligment_start_pos = 0 := by
      simp only [newStartingHaplotype]
      exact_mod_cast hne
    unfold startZeroHack at hhack
    rw [if_neg hs0] at hhack
    exact (Except.ok.inj hhack).symm
  · rcases hcase with ⟨hlen, hidx, c1, c2, c3, -⟩ | ⟨hlen, hidx, c1, c2, c3, -⟩
    · right
      refine ⟨by omega, ?_, (partPointers_obj parts _).1, (partPointers_obj parts _).2.1,
        c1, c2, c3⟩
      intro k
      rw [hidx]
      exact indexAt_publishParts parts _ _ hs k
    · left
      refine ⟨hlen, ?_, c1, c2, c3⟩
      intro k
      rw [hidx]
      exact indexAt_indexPushBack _ _ _ hs k

/-- C19 at `exampleLongDeletionLine`, the first line of a load with
`max_gap_length = 5`: two parts are published and counted. -/
theorem counters_and_publication_witness :
    loader 5 [] = Except.ok loaderInit ∧
    loadLine 5 loaderInit exampleLongDeletionLine = Except.ok exampleLongDeletionLoaded ∧
    (∃ h parts,
      startZeroHack (newStartingHaplotype exampleLongDeletionLine) = Except.ok h ∧
      (exampleLongDeletionLine.start % UINT_RANGE ≠ 0 →
        h = newStartingHaplotype exampleLongDeletionLine) ∧
      splitAlignment 5 h = Except.ok parts ∧
      ((parts.length = 1 ∧
          (∀ k, indexAt exampleLongDeletionLoaded.alignments_starting_at k
            = indexAt loaderInit.alignments_starting_at k ++
              (if k = toUnsignedInt h.aligment_start_pos then
                [{ addr := loaderInit.allocations + 1, obj := h }] else [])) ∧
          exampleLongDeletionLoaded.n_alignments_loaded = loaderInit.n_alignments_loaded + 1 ∧
          exampleLongDeletionLoaded.n_alignments_split = loaderInit.n_alignments_split ∧
          exampleLongDeletionLoaded.n_alignments_sub = loaderInit.n_alignments_sub) ∨
        (2 ≤ parts.length ∧
          (∀ k, indexAt exampleLongDeletionLoaded.alignments_starting_at k
            = indexAt loaderInit.alignments_starting_at k ++
              ((partPointers parts loaderInit.allocations).filter
                (fun e => decide (e.1 = k))).map Prod.snd) ∧
          (partPointers parts loaderInit.allocations).map (fun e => e.2.obj) = parts ∧
          (partPointers parts loaderInit.allocations).map (fun e => e.1)
            = parts.map (fun hP => toUnsignedInt hP.aligment_start_pos) ∧
          exampleLongDeletionLoaded.n_alignments_loaded = loaderInit.n_alignments_loaded ∧
          exampleLongDeletionLoaded.n_alignments_split = loaderInit.n_alignments_split + 1 ∧
          exampleLongDeletionLoaded.n_alignments_sub
            = loaderInit.n_alignments_sub + parts.length))) ∧
    exampleLongDeletionLoaded.n_alignments_loaded + exampleLongDeletionLoaded.n_alignments_split
      = (([exampleLongDeletionLine].length : Nat) : Int) :=
  ⟨rfl, rfl,
    counters_and_publication.1 5 [] exampleLongDeletionLine loaderInit
      exampleLongDeletionLoaded rfl rfl,
    counters_and_publication.2 5 [exampleLongDeletionLine] exampleLongDeletionLoaded rfl⟩

/-! ## What the blocks of an iteration do to the open haplotypes -/

theorem consumeRefGaps_chars (query : List Char) :
    ∀ (rs : List Char) (nextPos : Nat) (acc : List Char) (n1 : Nat) (ext : List Char),
      consumeRefGaps query rs nextPos acc = Except.ok (n1, ext) →
      ∃ add, ext = acc ++ add ∧ ∀ c ∈ add, c ∈ query
  | [], nextPos, acc, n1, ext, hok => by
    simp only [consumeRefGaps, Except.ok.injEq, Prod.mk.injEq] at hok
    exact ⟨[], by simp [hok.2], by simp⟩
  | r :: rs, nextPos, acc, n1, ext, hok => by
    unfold consumeRefGaps at hok
    by_cases hr : r = '-' ∨ r = '*'
    · rw [if_pos hr] at hok
      by_cases hn : nextPos > query.length
      · rw [if_pos hn] at hok; cases hok
      · rw [if_neg hn] at hok
        obtain ⟨add, h1, h2⟩ := consumeRefGaps_chars query rs _ _ n1 ext hok
        refine ⟨(query.drop nextPos).take 1 ++ add, by rw [h1]; simp, ?_⟩
        intro c hc
        rcases List.mem_append.1 hc with hc | hc
        · exact List.mem_of_mem_drop (List.mem_of_mem_take hc)
        · exact h2 c hc
    · rw [if_neg hr] at hok
      simp only [Except.ok.injEq, Prod.mk.injEq] at hok
      exact ⟨[], by simp [hok.2], by simp⟩

theorem gapString_dashes (l1 l2 : Nat) (G : List Int) (i : Int) (gaps : List Char)
    (hok : gapString l1 l2 G i = Except.ok gaps) : ∃ n, gaps = List.replicate n '-' := by
  unfold gapString at hok
  cases hv : vectorAt G i with
  | none => rw [hv] at hok; cases hok
  | some g =>
    rw [hv] at hok
    simp only at hok
    split_ifs at hok
    · exact ⟨_, (Except.ok.inj hok).symm⟩
    · exact ⟨_, (Except.ok.inj hok).symm⟩

theorem catchUpHaplotype_all (P : List Char → Prop) (Q : Option HapPtr → Prop)
    (c1 : ∀ seq n, P seq → P (seq ++ List.replicate n '-'))
    (c2 : ∀ seq a add, P seq → Q (some a) → (∀ c ∈ add, c ∈ a.obj.query) → P (seq ++ add))
    (G : List Int) (posI : Nat) (h h1 : openHaplotype) (hP : P h.1 ∧ Q h.2.1)
    (hok : catchUpHaplotype G posI h = Except.ok h1) :
    P h1.1 ∧ Q h1.2.1 := by
  obtain ⟨seq, src, cursor⟩ := h
  cases src with
  | none =>
    simp only [catchUpHaplotype] at hok
    by_cases hp : posI > 0
    · rw [if_pos hp] at hok
      cases hg : gapString 738 743 G ((posI : Int) - 1) with
      | error e => rw [hg] at hok; cases hok
      | ok gaps =>
        rw [hg] at hok
        obtain ⟨n, rfl⟩ := gapString_dashes _ _ _ _ _ hg
        simp only [Except.ok.injEq] at hok
        subst hok
        exact ⟨c1 _ _ hP.1, hP.2⟩
    · rw [if_neg hp] at hok
      simp only [Except.ok.injEq] at hok
      subst hok
      exact hP
  | some a =>
    simp only [catchUpHaplotype] at hok
    by_cases hc : cursor = (a.obj.ref.length : Int) - 1
    · rw [if_pos hc] at hok
      cases hg : gapString 702 707 G ((posI : Int) - 1) with
      | error e => rw [hg] at hok; cases hok
      | ok gaps =>
        rw [hg] at hok
        obtain ⟨n, rfl⟩ := gapString_dashes _ _ _ _ _ hg
        simp only [Except.ok.injEq] at hok
        subst hok
        exact ⟨c1 _ _ hP.1, hP.2⟩
    · rw [if_neg hc] at hok
      cases hv : vectorAt a.obj.ref cursor with
      | none => rw [hv] at hok; cases hok
      | some x =>
        rw [hv] at hok
        simp only at hok
        cases hcr : consumeRefGaps a.obj.query (a.obj.ref.drop (cursor + 1).toNat)
            (cursor + 1).toNat [] with
        | error e => rw [hcr] at hok; cases hok
        | ok res =>
          obtain ⟨n1, ext⟩ := res
          rw [hcr] at hok
          simp only [Except.ok.injEq] at hok
          subst hok
          obtain ⟨add, h1, h2⟩ := consumeRefGaps_chars _ _ _ _ _ _ hcr
          simp only [List.nil_append] at h1
          subst h1
          exact ⟨c2 _ _ _ hP.1 hP.2 h2, hP.2⟩

theorem catchUp_all (P : List Char → Prop) (Q : Option HapPtr → Prop)
    (c1 : ∀ seq n, P seq → P (seq ++ List.replicate n '-'))
    (c2 : ∀ seq a add, P seq → Q (some a) → (∀ c ∈ add, c ∈ a.obj.query) → P (seq ++ add))
    (G : List Int) (posI : Nat) :
    ∀ (haps out : List openHaplotype), AllOpen P Q haps →
      catchUp G posI haps = Except.ok out → AllOpen P Q out
  | [], out, _, hok => by
    simp only [catchUp, Except.ok.injEq] at hok
    subst hok
    intro h hm; simp at hm
  | x :: rest, out, hall, hok => by
    unfold catchUp at hok
    cases h1 : catchUpHaplotype G posI x with
    | error e => rw [h1] at hok; simp at hok
    | ok x1 =>
      rw [h1] at hok
      simp only at hok
      cases h2 : catchUp G posI rest with
      | error e => rw [h2] at hok; simp at hok
      | ok r1 =>
        rw [h2] at hok
        simp only [Except.ok.injEq] at hok
        subst hok
        intro h hm
        rcases List.mem_cons.1 hm with rfl | hm1
        · exact catchUpHaplotype_all P Q c1 c2 G posI x h (hall x (List.mem_cons_self _ _)) h1
        · exact catchUp_all P Q c1 c2 G posI rest r1
            (fun h hm => hall h (List.mem_cons_of_mem _ hm)) h2 h hm1

theorem enterHaplotype_all (P : List Char → Prop) (Q : Option HapPtr → Prop)
    (max : Nat) (R : List Char) (G : List Int) (posI size : Nat) (st st1 : EnumeratorState)
    (a : HapPtr) (hQ : Q (some a))
    (c4 : ∀ ext, st.start_open_haplotypes ≤ (posI : Int) - 1 →
      referenceExtractionLoop R G ((posI : Int) - 1 - st.start_open_haplotypes + 1).toNat
        st.start_open_haplotypes [] = Except.ok ext → P ext)
    (hall : AllOpen P Q st.open_haplotypes)
    (hok : enterHaplotype max R G posI size st a = Except.ok st1) :
    AllOpen P Q st1.open_haplotypes ∧ st1.start_open_haplotypes = st.start_open_haplotypes ∧
    ∃ news, st1.open_haplotypes = st.open_haplotypes ++ news := by
  unfold enterHaplotype at hok
  by_cases h1 : st.open_haplotypes.length ≤ max
  · rw [if_pos h1] at hok
    by_cases h2 : size > 0
    · rw [if_pos h2] at hok
      simp only [bind_eq_ok, assertThat_eq_ok, pure_eq_ok, exists_const] at hok
      obtain ⟨hstart, ext, hext, rfl⟩ := hok
      refine ⟨?_, rfl, ⟨(st.open_haplotypes.take size).map
        (fun existing => (existing.1, some a, (-1 : Int))) ++ [(ext, some a, -1)],
        by simp only [List.append_assoc]⟩⟩
      intro h hm
      simp only [List.mem_append, List.mem_map, List.mem_singleton] at hm
      rcases hm with (hm | ⟨e, he, rfl⟩) | rfl
      · exact hall h hm
      · exact ⟨(hall e (List.mem_of_mem_take he)).1, hQ⟩
      · exact ⟨c4 ext hstart hext, hQ⟩
    · rw [if_neg h2] at hok
      simp only [pure_eq_ok] at hok
      subst hok
      exact ⟨hall, rfl, ⟨[], by simp⟩⟩
  · rw [if_neg h1] at hok
    simp only [pure_eq_ok] at hok
    subst hok
    exact ⟨hall, rfl, ⟨[], by simp⟩⟩

theorem enterHaplotypes_all (P : List Char → Prop) (Q : Option HapPtr → Prop)
    (max : Nat) (R : List Char) (G : List Int) (posI size : Nat) :
    ∀ (news : List HapPtr) (st st1 : EnumeratorState),
      (∀ a ∈ news, Q (some a)) →
      (∀ ext, st.start_open_haplotypes ≤ (posI : Int) - 1 →
        referenceExtractionLoop R G ((posI : Int) - 1 - st.start_open_haplotypes + 1).toNat
          st.start_open_haplotypes [] = Except.ok ext → P ext) →
      AllOpen P Q st.open_haplotypes →
      enterHaplotypes max R G posI size news st = Except.ok st1 →
      AllOpen P Q st1.open_haplotypes ∧
      ∃ added, st1.open_haplotypes = st.open_haplotypes ++ added
  | [], st, st1, _, _, hall, hok => by
    simp only [enterHaplotypes, Except.ok.injEq] at hok
    subst hok
    exact ⟨hall, ⟨[], by simp⟩⟩
  | a :: rest, st, st1, hQ, c4, hall, hok => by
    simp only [enterHaplotypes] at hok
    cases h1 : enterHaplotype max R G posI size st a with
    | error e => rw [h1] at hok; simp at hok
    | ok st2 =>
      rw [h1] at hok
      simp only at hok
      obtain ⟨hall2, hs, n1, hn1⟩ := enterHaplotype_all P Q max R G posI size st st2 a
        (hQ a (List.mem_cons_self _ _)) c4 hall h1
      obtain ⟨hall3, n2, hn2⟩ := enterHaplotypes_all P Q max R G posI size rest st2 st1
        (fun b hb => hQ b (List.mem_cons_of_mem _ hb)) (by rw [hs]; exact c4) hall2 hok
      exact ⟨hall3, ⟨n1 ++ n2, by rw [hn2, hn1, List.append_assoc]⟩⟩

theorem exitInner_all (P : List Char → Prop) (Q : Option HapPtr → Prop)
    (max outer : Nat) (es es1 : ExitState) (i : Nat)
    (hall : AllOpen P Q es.open_haplotypes)
    (hok : exitInner max outer es i = Except.ok es1) :
    AllOpen P Q es1.open_haplotypes ∧
    ∃ added, es1.open_haplotypes = es.open_haplotypes ++ added := by
  unfold exitInner at hok
  cases ho : es.open_haplotypes[outer]? with
  | none => rw [ho] at hok; cases hok
  | some haplotype =>
    rw [ho] at hok
    simp only at hok
    by_cases h1 : i = outer
    · rw [if_pos h1] at hok
      cases hok
      exact ⟨hall, [], by simp⟩
    · rw [if_neg h1] at hok
      by_cases h2 : i ∈ es.exitedHaplotype
      · rw [if_pos h2] at hok
        cases hok
        exact ⟨hall, [], by simp⟩
      · rw [if_neg h2] at hok
        cases he : es.open_haplotypes[i]? with
        | none => rw [he] at hok; cases hok
        | some existing =>
          rw [he] at hok
          simp only at hok
          by_cases c1 : isExhausted (haplotype.1, existing.2.1, existing.2.2) = false
          · rw [if_pos c1] at hok
            by_cases c2 : haplotype_key (haplotype.1, existing.2.1, existing.2.2)
                ∉ es.inner_open_haplotypes_keys
            · rw [if_pos c2] at hok
              by_cases c3 : es.open_haplotypes.length ≤ max
              · rw [if_pos c3] at hok
                cases hok
                refine ⟨?_, [(haplotype.1, existing.2.1, existing.2.2)], rfl⟩
                intro h hm
                rcases List.mem_append.1 hm with hm | hm
                · exact hall h hm
                · rw [List.mem_singleton.1 hm]
                  exact ⟨(hall _ (mem_of_getElem?_some _ _ _ ho)).1,
                    (hall _ (mem_of_getElem?_some _ _ _ he)).2⟩
              · rw [if_neg c3] at hok
                cases hok
                exact ⟨hall, [], by simp⟩
            · rw [if_neg c2] at hok
              cases hok
              exact ⟨hall, [], by simp⟩
          · rw [if_neg c1] at hok
            cases hok
            exact ⟨hall, [], by simp⟩

theorem exitInnerLoop_all (P : List Char → Prop) (Q : Option HapPtr → Prop)
    (max outer : Nat) :
    ∀ (is : List Nat) (es es1 : ExitState), AllOpen P Q es.open_haplotypes →
      exitInnerLoop max outer is es = Except.ok es1 →
      AllOpen P Q es1.open_haplotypes ∧
      ∃ added, es1.open_haplotypes = es.open_haplotypes ++ added
  | [], es, es1, hall, hok => by
    simp only [exitInnerLoop, Except.ok.injEq] at hok
    subst hok
    exact ⟨hall, [], by simp⟩
  | i :: rest, es, es1, hall, hok => by
    simp only [exitInnerLoop] at hok
    cases h1 : exitInner max outer es i with
    | error e => rw [h1] at hok; simp at hok
    | ok es2 =>
      rw [h1] at hok
      simp only at hok
      obtain ⟨hall2, a1, ha1⟩ := exitInner_all P Q max outer es es2 i hall h1
      obtain ⟨hall3, a2, ha2⟩ := exitInnerLoop_all P Q max outer rest es2 es1 hall2 hok
      exact ⟨hall3, a1 ++ a2, by rw [ha2, ha1, List.append_assoc]⟩

theorem exitOuter_all (P : List Char → Prop) (Q : Option HapPtr → Prop) (hQ : Q none)
    (max size : Nat) (es es1 : ExitState) (outer : Nat)
    (hall : AllOpen P Q es.open_haplotypes)
    (hok : exitOuter max size es outer = Except.ok es1) :
    AllOpen P Q es1.open_haplotypes ∧
    ∀ x rest, es.open_haplotypes = x :: rest → isExhausted x = false →
      ∃ rest1, es1.open_haplotypes = x :: rest1 := by
  unfold exitOuter at hok
  cases ho : es.open_haplotypes[outer]? with
  | none => rw [ho] at hok; cases hok
  | some haplotype =>
    rw [ho] at hok
    simp only at hok
    by_cases hex : isExhausted haplotype = true
    · rw [if_pos hex] at hok
      have hset : AllOpen P Q (es.open_haplotypes.set outer (haplotype.1, none, -1)) := by
        intro h hm
        rcases List.mem_or_eq_of_mem_set hm with hm | rfl
        · exact hall h hm
        · exact ⟨(hall _ (mem_of_getElem?_some _ _ _ ho)).1, hQ⟩
      have hhead : ∀ x rest, es.open_haplotypes = x :: rest → isExhausted x = false →
          ∃ rest1, es.open_haplotypes.set outer (haplotype.1, none, -1) = x :: rest1 := by
        intro x rest hx hnx
        cases outer with
        | zero =>
          rw [hx] at ho
          simp only [List.getElem?_cons_zero, Option.some.injEq] at ho
          subst ho
          rw [hnx] at hex; cases hex
        | succ k => rw [hx]; exact ⟨_, rfl⟩
      by_cases c3 : (es.open_haplotypes.set outer (haplotype.1, none, -1)).length ≤ max
      · rw [if_pos c3] at hok
        obtain ⟨hall2, added, hadd⟩ := exitInnerLoop_all P Q max outer _ _ es1 hset hok
        refine ⟨hall2, ?_⟩
        intro x rest hx hnx
        obtain ⟨rest1, hr⟩ := hhead x rest hx hnx
        simp only at hadd
        rw [hadd, hr]
        exact ⟨_, rfl⟩
      · rw [if_neg c3] at hok
        cases hok
        exact ⟨hset, hhead⟩
    · rw [if_neg hex] at hok
      cases hok
      exact ⟨hall, fun x rest hx _ => ⟨rest, hx⟩⟩

theorem exitOuterLoop_all (P : List Char → Prop) (Q : Option HapPtr → Prop) (hQ : Q none)
    (max size : Nat) :
    ∀ (is : List Nat) (es es1 : ExitState), AllOpen P Q es.open_haplotypes →
      exitOuterLoop max size is es = Except.ok es1 →
      AllOpen P Q es1.open_haplotypes ∧
      ∀ x rest, es.open_haplotypes = x :: rest → isExhausted x = false →
        ∃ rest1, es1.open_haplotypes = x :: rest1
  | [], es, es1, hall, hok => by
    simp only [exitOuterLoop, Except.ok.injEq] at hok
    subst hok
    exact ⟨hall, fun x rest hx _ => ⟨rest, hx⟩⟩
  | i :: rest, es, es1, hall, hok => by
    simp only [exitOuterLoop] at hok
    cases h1 : exitOuter max size es i with
    | error e => rw [h1] at hok; simp at hok
    | ok es2 =>
      rw [h1] at hok
      simp only at hok
      obtain ⟨hall2, hh2⟩ := exitOuter_all P Q hQ max size es es2 i hall h1
      obtain ⟨hall3, hh3⟩ := exitOuterLoop_all P Q hQ max size rest es2 es1 hall2 hok
      refine ⟨hall3, ?_⟩
      intro x r hx hnx
      obtain ⟨r1, hr1⟩ := hh2 x r hx hnx
      exact hh3 x r1 hr1 hnx

theorem exitRecombination_all (P : List Char → Prop) (Q : Option HapPtr → Prop) (hQ : Q none)
    (max : Nat) (st st1 : EnumeratorState) (hall : AllOpen P Q st.open_haplotypes)
    (hok : exitRecombination max st = Except.ok st1) :
    AllOpen P Q st1.open_haplotypes ∧
    st1.start_open_haplotypes = st.start_open_haplotypes ∧
    ∀ x rest, st.open_haplotypes = x :: rest → isExhausted x = false →
      ∃ rest1, st1.open_haplotypes = x :: rest1 := by
  unfold exitRecombination at hok
  cases h1 : exitOuterLoop max st.open_haplotypes.length (List.range st.open_haplotypes.length)
      { open_haplotypes := st.open_haplotypes
        inner_open_haplotypes_keys := []
        exitedHaplotype := []
        modifiedLastPos := st.modifiedLastPos } with
  | error e => rw [h1] at hok; simp at hok
  | ok es =>
    rw [h1] at hok
    simp only [Except.ok.injEq] at hok
    subst hok
    obtain ⟨h2, h3⟩ := exitOuterLoop_all P Q hQ max _ _ _ es hall h1
    exact ⟨h2, rfl, h3⟩

theorem extendColumns_chars (l1 l2 : Nat) (query : List Char) :
    ∀ (rs : List Char) (nextPos : Nat) (acc ext : List Char),
      extendColumns l1 l2 query rs nextPos acc = Except.ok ext →
      ∃ add, ext = acc ++ add ∧ ∀ c ∈ add, c ∈ query
  | [], _, _, _, hok => by simp [extendColumns] at hok
  | r :: rs, nextPos, acc, ext, hok => by
    unfold extendColumns at hok
    cases hq : query[nextPos]? with
    | none => rw [hq] at hok; cases hok
    | some hapC =>
      rw [hq] at hok
      simp only at hok
      have hmem : hapC ∈ query := mem_of_getElem?_some _ _ _ hq
      by_cases hr : r ≠ '-' ∧ r ≠ '*'
      · rw [if_pos hr] at hok
        cases hok
        exact ⟨[hapC], rfl, by simpa using hmem⟩
      · rw [if_neg hr] at hok
        obtain ⟨add, h1, h2⟩ := extendColumns_chars l1 l2 query rs _ _ ext hok
        refine ⟨hapC :: add, by rw [h1]; simp, ?_⟩
        intro c hc
        rcases List.mem_cons.1 hc with rfl | hc
        · exact hmem
        · exact h2 c hc

theorem alignmentExtension_chars (l1 l2 l3 : Nat) (a : HapPtr) (cursor : Int) (ext : List Char)
    (hok : alignmentExtension l1 l2 l3 a cursor = Except.ok ext) :
    ∀ c ∈ ext, c ∈ a.obj.query := by
  unfold alignmentExtension at hok
  split_ifs at hok
  obtain ⟨add, h1, h2⟩ := extendColumns_chars _ _ _ _ _ _ _ hok
  simp only [List.nil_append] at h1
  subst h1
  exact h2

/-- What the extension of lines 1104-1137 does to one open haplotype: it
appends the string `extension`, which for a haplotype on the reference is
`refC` and a padding of `*`, and else consists of characters of the query of
its alignment. -/
theorem extendHaplotype_shape (refC : Char) (len : Int) (h h1 : openHaplotype)
    (ext : List Char) (hok : extendHaplotype refC len h = Except.ok (h1, ext)) :
    h1.1 = h.1 ++ ext ∧ h1.2.1 = h.2.1 ∧
    (h.2.1 = none → h1.2.2 = h.2.2 ∧ ∃ n, ext = refC :: List.replicate n '*') ∧
    (∀ a, h.2.1 = some a → ∀ c ∈ ext, c ∈ a.obj.query) := by
  obtain ⟨seq, src, cursor⟩ := h
  cases src with
  | none =>
    simp only [extendHaplotype] at hok
    split_ifs at hok
    · simp only [Except.ok.injEq, Prod.mk.injEq] at hok
      obtain ⟨rfl, rfl⟩ := hok
      exact ⟨rfl, rfl, fun _ => ⟨rfl, _, rfl⟩, fun a ha => by cases ha⟩
    · simp only [Except.ok.injEq, Prod.mk.injEq] at hok
      obtain ⟨rfl, rfl⟩ := hok
      exact ⟨rfl, rfl, fun _ => ⟨rfl, 0, rfl⟩, fun a ha => by cases ha⟩
  | some a =>
    simp only [extendHaplotype] at hok
    cases he : alignmentExtension 1124 1125 1130 a cursor with
    | error e => rw [he] at hok; cases hok
    | ok extension =>
      rw [he] at hok
      simp only [Except.ok.injEq, Prod.mk.injEq] at hok
      obtain ⟨rfl, rfl⟩ := hok
      refine ⟨rfl, rfl, fun hn => absurd hn (by simp), ?_⟩
      intro b hb
      simp only [Option.some.injEq] at hb
      subst hb
      exact alignmentExtension_chars _ _ _ _ _ _ he

/-- The loop of lines 1102-1138: every open haplotype is extended by a string
of the set `extensions`, and the set holds these strings and those that it
held before. -/
theorem extendHaplotypes_shape (refC : Char) (len : Int) :
    ∀ (haps out : List openHaplotype) (exts0 exts : List (List Char)),
      extendHaplotypes refC len haps exts0 = Except.ok (out, exts) →
      List.Forall₂ (fun h h1 => ∃ ext, ext ∈ exts ∧
        extendHaplotype refC len h = Except.ok (h1, ext)) haps out ∧
      (∀ e, e ∈ exts ↔ e ∈ exts0 ∨ ∃ h h1, h ∈ haps ∧
        extendHaplotype refC len h = Except.ok (h1, e))
  | [], out, exts0, exts, hok => by
    simp only [extendHaplotypes, Except.ok.injEq, Prod.mk.injEq] at hok
    obtain ⟨rfl, rfl⟩ := hok
    exact ⟨List.Forall₂.nil, by simp⟩
  | x :: rest, out, exts0, exts, hok => by
    simp only [extendHaplotypes] at hok
    cases h1 : extendHaplotype refC len x with
    | error e => rw [h1] at hok; simp at hok
    | ok res =>
      obtain ⟨x1, ext⟩ := res
      rw [h1] at hok
      simp only at hok
      cases h2 : extendHaplotypes refC len rest (setInsert ext exts0) with
      | error e => rw [h2] at hok; simp at hok
      | ok res2 =>
        obtain ⟨r1, exts1⟩ := res2
        rw [h2] at hok
        simp only [Except.ok.injEq, Prod.mk.injEq] at hok
        obtain ⟨rfl, rfl⟩ := hok
        obtain ⟨f, m⟩ := extendHaplotypes_shape refC len rest r1 _ _ h2
        have hext : ext ∈ exts1 := (m ext).2 (Or.inl ((mem_setInsert _ _ _).2 (Or.inl rfl)))
        refine ⟨List.Forall₂.cons ⟨ext, hext, h1⟩ f, ?_⟩
        intro e
        rw [m e, mem_setInsert]
        constructor
        · rintro ((rfl | h0) | ⟨h, h1', hm, he⟩)
          · exact Or.inr ⟨x, x1, List.mem_cons_self _ _, h1⟩
          · exact Or.inl h0
          · exact Or.inr ⟨h, h1', List.mem_cons_of_mem _ hm, he⟩
        · rintro (h0 | ⟨h, h1', hm, he⟩)
          · exact Or.inl (Or.inr h0)
          · rcases List.mem_cons.1 hm with rfl | hm
            · rw [h1] at he
              simp only [Except.ok.injEq, Prod.mk.injEq] at he
              exact Or.inl (Or.inl he.2.symm)
            · exact Or.inr ⟨h, h1', hm, he⟩

theorem deduplicate_head (st : EnumeratorState) (x : openHaplotype) (rest : List openHaplotype)
    (hx : st.open_haplotypes = x :: rest) :
    (∃ rest1, (deduplicate st).open_haplotypes = x :: rest1) ∧
    (deduplicate st).start_open_haplotypes = st.start_open_haplotypes ∧
    (deduplicate st).outputStream = st.outputStream := by
  unfold deduplicate
  by_cases h1 : st.modifiedLastPos = true
  · rw [if_pos h1]
    simp only
    refine ⟨?_, trivial, trivial⟩
    by_cases h2 : countDuplicated st.open_haplotypes [] 0 ≠ 0
    · rw [if_pos h2, hx]
      simp only [keepFirstKeys, List.not_mem_nil, if_false]
      exact ⟨_, rfl⟩
    · rw [if_neg h2]
      exact ⟨rest, hx⟩
  · rw [if_neg h1]
    exact ⟨⟨rest, hx⟩, rfl, rfl⟩

theorem catchUp_head (G : List Int) (posI : Nat) (seq : List Char) (cur : Int)
    (rest out : List openHaplotype)
    (hok : catchUp G posI ((seq, none, cur) :: rest) = Except.ok out) :
    ∃ n rest1, out = (seq ++ List.replicate n '-', none, cur) :: rest1 := by
  unfold catchUp at hok
  cases h1 : catchUpHaplotype G posI (seq, none, cur) with
  | error e => rw [h1] at hok; simp at hok
  | ok x1 =>
    rw [h1] at hok
    simp only at hok
    cases h2 : catchUp G posI rest with
    | error e => rw [h2] at hok; simp at hok
    | ok r1 =>
      rw [h2] at hok
      simp only [Except.ok.injEq] at hok
      subst hok
      simp only [catchUpHaplotype] at h1
      by_cases hp : posI > 0
      · rw [if_pos hp] at h1
        cases hg : gapString 738 743 G ((posI : Int) - 1) with
        | error e => rw [hg] at h1; cases h1
        | ok gaps =>
          rw [hg] at h1
          obtain ⟨n, rfl⟩ := gapString_dashes _ _ _ _ _ hg
          simp only [Except.ok.injEq] at h1
          subst h1
          exact ⟨n, r1, rfl⟩
      · rw [if_neg hp] at h1
        simp only [Except.ok.injEq] at h1
        subst h1
        exact ⟨0, r1, by simp⟩

theorem extendHaplotypes_head (refC : Char) (len : Int) (seq : List Char) (cur : Int)
    (rest out : List openHaplotype) (exts0 exts : List (List Char))
    (hok : extendHaplotypes refC len ((seq, none, cur) :: rest) exts0 = Except.ok (out, exts)) :
    ∃ m rest1, out = (seq ++ refC :: List.replicate m '*', none, cur) :: rest1 ∧
      refC :: List.replicate m '*' ∈ exts := by
  obtain ⟨f, -⟩ := extendHaplotypes_shape refC len _ _ _ _ hok
  cases f with
  | cons hx hrest =>
    obtain ⟨ext, hmem, he⟩ := hx
    obtain ⟨e1, e2, e3, -⟩ := extendHaplotype_shape refC len _ _ _ he
    obtain ⟨e4, m, rfl⟩ := e3 rfl
    rename_i b l
    obtain ⟨s1, src1, c1⟩ := b
    simp only at e1 e2 e4
    subst e1 e2 e4
    exact ⟨m, _, rfl, hmem⟩

/-- The blocks of `stepBeforeFlush`, for a successful run. -/
theorem stepBeforeFlush_ok (max : Nat) (R : List Char) (idx : AlignmentIndex) (G : List Int)
    (st st4 : EnumeratorState) (posI : Nat) (exts : List (List Char)) (refC : Char)
    (hok : stepBeforeFlush max R idx G st posI = Except.ok (st4, exts, refC)) :
    ∃ caughtUp st2 st3 len,
      catchUp G posI (deduplicate st).open_haplotypes = Except.ok caughtUp ∧
      columnLengthCheck R idx posI caughtUp (-1) = Except.ok () ∧
      R[posI]? = some refC ∧
      enterHaplotypes max R G posI caughtUp.length (indexAt idx posI)
        { deduplicate st with open_haplotypes := caughtUp } = Except.ok st2 ∧
      exitRecombination max st2 = Except.ok st3 ∧
      extensionLength st3.open_haplotypes (-1) = Except.ok len ∧
      extendHaplotypes refC len st3.open_haplotypes [] = Except.ok (st4.open_haplotypes, exts) ∧
      st4 = { st3 with open_haplotypes := st4.open_haplotypes } ∧
      exts.length ≠ 0 ∧ (posI = 0 → exts.length = 1 ∧ [refC] ∈ exts) := by
  unfold stepBeforeFlush at hok
  simp only [bind_eq_ok] at hok
  obtain ⟨caughtUp, h1, u, h2, hrest⟩ := hok
  cases hr : R[posI]? with
  | none => rw [hr] at hrest; simp [throw, throwThe, MonadExceptOf.throw] at hrest
  | some c =>
    rw [hr] at hrest
    simp only [bind_eq_ok, assertThat_eq_ok, pure_eq_ok, Except.ok.injEq, Prod.mk.injEq]
      at hrest
    obtain ⟨st2, h3, st3, h4, len, h5, ⟨extended, extensions⟩, h6, -, a1, -, a2, e1, e2, e3⟩ :=
      hrest
    simp only at e1 e2 a1 a2
    subst e1 e2 e3
    exact ⟨caughtUp, st2, st3, len, h1, h2, rfl, h3, h4, h5, h6, rfl, a1,
      by simpa using a2⟩

theorem forall₂_mem_right {α β : Type} (r : α → β → Prop) :
    ∀ (l1 : List α) (l2 : List β), List.Forall₂ r l1 l2 → ∀ b ∈ l2, ∃ a ∈ l1, r a b
  | _, _, List.Forall₂.nil, b, hb => by simp at hb
  | _, _, List.Forall₂.cons h t, b, hb => by
    rcases List.mem_cons.1 hb with rfl | hb
    · exact ⟨_, List.mem_cons_self _ _, h⟩
    · obtain ⟨a, ha, hr⟩ := forall₂_mem_right r _ _ t b hb
      exact ⟨a, List.mem_cons_of_mem _ ha, hr⟩

/-- One iteration in front of the flush keeps a property `P` of the sequences
and a property `Q` of the sources of all open haplotypes, when `P` is kept by
what the blocks append; and it keeps a first open haplotype that is on the
reference, appending dashes, `refC` and a padding of `*` to it. -/
theorem stepBeforeFlush_all (P : List Char → Prop) (Q : Option HapPtr → Prop)
    (max : Nat) (R : List Char) (idx : AlignmentIndex) (G : List Int)
    (st st4 : EnumeratorState) (posI : Nat) (exts : List (List Char)) (refC : Char)
    (c1 : ∀ seq n, P seq → P (seq ++ List.replicate n '-'))
    (c2 : ∀ seq a add, P seq → Q (some a) → (∀ c ∈ add, c ∈ a.obj.query) → P (seq ++ add))
    (c3 : ∀ seq n, P seq → P (seq ++ refC :: List.replicate n '*'))
    (c4 : ∀ ext, st.start_open_haplotypes ≤ (posI : Int) - 1 →
      referenceExtractionLoop R G ((posI : Int) - 1 - st.start_open_haplotypes + 1).toNat
        st.start_open_haplotypes [] = Except.ok ext → P ext)
    (q1 : Q none) (q2 : ∀ a ∈ indexAt idx posI, Q (some a))
    (hall : AllOpen P Q st.open_haplotypes)
    (hok : stepBeforeFlush max R idx G st posI = Except.ok (st4, exts, refC)) :
    AllOpen P Q st4.open_haplotypes ∧
    st4.start_open_haplotypes = st.start_open_haplotypes ∧
    st4.outputStream = st.outputStream ∧
    (∀ seq cur rest, st.open_haplotypes = (seq, none, cur) :: rest →
      ∃ n m rest1, st4.open_haplotypes
          = (seq ++ List.replicate n '-' ++ refC :: List.replicate m '*', none, cur) :: rest1 ∧
        refC :: List.replicate m '*' ∈ exts) ∧
    (∀ h ∈ st4.open_haplotypes, ∃ pre ext, ext ∈ exts ∧ h.1 = pre ++ ext) := by
  obtain ⟨caughtUp, st2, st3, len, h1, -, -, h3, h4, -, h6, h7, -, -⟩ :=
    stepBeforeFlush_ok max R idx G st st4 posI exts refC hok
  have hd := deduplicate_output st
  have hall0 : AllOpen P Q (deduplicate st).open_haplotypes :=
    fun h hm => hall h (deduplicate_subset st h hm)
  have hall1 := catchUp_all P Q c1 c2 G posI _ _ hall0 h1
  obtain ⟨hall2, added, hadd⟩ := enterHaplotypes_all P Q max R G posI caughtUp.length _
    { deduplicate st with open_haplotypes := caughtUp } st2 q2
    (by simp only [hd.2]; exact c4) hall1 h3
  have ho2 := enterHaplotypes_output _ _ _ _ _ _ _ _ h3
  obtain ⟨hall3, hs3, hhead3⟩ := exitRecombination_all P Q q1 max st2 st3 hall2 h4
  have ho3 := exitRecombination_output _ _ _ h4
  obtain ⟨f, m⟩ := extendHaplotypes_shape refC len _ _ _ _ h6
  have hrel := forall₂_mem_right _ _ _ f
  refine ⟨?_, ?_, ?_, ?_, ?_⟩
  · intro h hm
    obtain ⟨h0, hm0, ext, -, he⟩ := hrel h hm
    obtain ⟨e1, e2, e3, e4⟩ := extendHaplotype_shape refC len _ _ _ he
    obtain ⟨hP, hQ⟩ := hall3 h0 hm0
    rw [e1, e2]
    refine ⟨?_, hQ⟩
    cases hsrc : h0.2.1 with
    | none =>
      obtain ⟨-, n, rfl⟩ := e3 hsrc
      exact c3 _ _ hP
    | some a =>
      rw [hsrc] at hQ
      exact c2 _ _ _ hP hQ (e4 a hsrc)
  · rw [h7]
    simp only
    rw [ho3.2, ho2.2]
    exact hd.2
  · rw [h7]
    simp only
    rw [ho3.1, ho2.1]
    exact hd.1
  · intro seq cur rest hx
    obtain ⟨⟨r0, hr0⟩, -, -⟩ := deduplicate_head st _ _ hx
    rw [hr0] at h1
    obtain ⟨n, r1, hr1⟩ := catchUp_head G posI seq cur r0 caughtUp h1
    simp only at hadd
    rw [hr1] at hadd
    obtain ⟨r3, hr3⟩ := hhead3 _ _ hadd rfl
    rw [hr3] at h6
    obtain ⟨mm, r4, hr4, hmem⟩ := extendHaplotypes_head refC len _ cur r3 _ [] exts h6
    exact ⟨n, mm, r4, hr4, hmem⟩
  · intro h hm
    obtain ⟨h0, -, ext, hext, he⟩ := hrel h hm
    obtain ⟨e1, -⟩ := extendHaplotype_shape refC len _ _ _ he
    exact ⟨h0.1, ext, hext, e1⟩

/-! ## The keys of the open haplotypes -/

theorem digitValue_digitChar (d : Nat) (h : d < 16) : digitValue (Nat.digitChar d) = d := by
  interval_cases d <;> rfl

theorem digitChar_plain (d : Nat) (h : d < 16) :
    Nat.digitChar d ≠ '/' ∧ Nat.digitChar d ≠ '-' := by
  interval_cases d <;> exact ⟨by decide, by decide⟩

theorem digitsValue_append (b : Nat) (cs : List Char) (c : Char) :
    digitsValue b (cs ++ [c]) = digitsValue b cs * b + digitValue c := by
  simp [digitsValue, List.foldl_append]

theorem toDigitsCore_spec (b : Nat) (hb : 2 ≤ b) (hb16 : b ≤ 16) :
    ∀ (fuel n : Nat) (ds : List Char), n < fuel →
      ∃ pre, Nat.toDigitsCore b fuel n ds = pre ++ ds ∧ pre ≠ [] ∧ digitsValue b pre = n ∧
        ∀ c ∈ pre, c ≠ '/' ∧ c ≠ '-'
  | 0, n, ds, h => by omega
  | fuel + 1, n, ds, h => by
    have hmod : n % b < 16 := lt_of_lt_of_le (Nat.mod_lt _ (by omega)) hb16
    unfold Nat.toDigitsCore
    simp only
    by_cases h0 : n / b = 0
    · rw [if_pos h0]
      refine ⟨[Nat.digitChar (n % b)], rfl, by simp, ?_, ?_⟩
      · have hlt : n < b := (Nat.div_eq_zero_iff (by omega)).1 h0
        have hmod2 := digitValue_digitChar _ hmod
        rw [Nat.mod_eq_of_lt hlt] at hmod2 ⊢
        simp [digitsValue, hmod2]
      · intro c hc
        rw [List.mem_singleton.1 hc]
        exact digitChar_plain _ hmod
    · rw [if_neg h0]
      have hlt : n / b < fuel := by
        have : n / b < n := Nat.div_lt_self (by
          rcases Nat.eq_zero_or_pos n with h1 | h1
          · subst h1; simp at h0
          · exact h1) hb
        omega
      obtain ⟨pre, h1, -, h3, h4⟩ := toDigitsCore_spec b hb hb16 fuel (n / b)
        (Nat.digitChar (n % b) :: ds) hlt
      refine ⟨pre ++ [Nat.digitChar (n % b)], by rw [h1]; simp, by simp, ?_, ?_⟩
      · rw [digitsValue_append, h3, digitValue_digitChar _ hmod]
        exact Nat.div_add_mod' n b
      · intro c hc
        rcases List.mem_append.1 hc with hc | hc
        · exact h4 c hc
        · rw [List.mem_singleton.1 hc]
          exact digitChar_plain _ hmod

theorem toDigits_spec (b : Nat) (hb : 2 ≤ b) (hb16 : b ≤ 16) (n : Nat) :
    Nat.toDigits b n ≠ [] ∧ digitsValue b (Nat.toDigits b n) = n ∧
      ∀ c ∈ Nat.toDigits b n, c ≠ '/' ∧ c ≠ '-' := by
  obtain ⟨pre, h1, h2, h3, h4⟩ := toDigitsCore_spec b hb hb16 (n + 1) n [] (by omega)
  unfold Nat.toDigits
  rw [h1, List.append_nil]
  exact ⟨h2, h3, h4⟩

theorem toDigits_injective (b : Nat) (hb : 2 ≤ b) (hb16 : b ≤ 16) (n m : Nat)
    (h : Nat.toDigits b n = Nat.toDigits b m) : n = m := by
  rw [← (toDigits_spec b hb hb16 n).2.1, h, (toDigits_spec b hb hb16 m).2.1]

theorem integerText_injective (x y : Int) (h : integerText x = integerText y) : x = y := by
  cases x with
  | ofNat n =>
    cases y with
    | ofNat m =>
      simp only [integerText] at h
      rw [toDigits_injective 10 (by omega) (by omega) n m h]
    | negSucc m =>
      exfalso
      simp only [integerText] at h
      obtain ⟨hne, -, hc⟩ := toDigits_spec 10 (by omega) (by omega) n
      rw [h] at hc
      exact (hc '-' (List.mem_cons_self _ _)).2 rfl
  | negSucc n =>
    cases y with
    | ofNat m =>
      exfalso
      simp only [integerText] at h
      obtain ⟨hne, -, hc⟩ := toDigits_spec 10 (by omega) (by omega) m
      rw [← h] at hc
      exact (hc '-' (List.mem_cons_self _ _)).2 rfl
    | negSucc m =>
      simp only [integerText, List.cons.injEq, true_and] at h
      have := toDigits_injective 10 (by omega) (by omega) _ _ h
      have : n = m := by omega
      rw [this]

theorem pointerText_no_slash (p : Option HapPtr) : '/' ∉ pointerText p := by
  cases p with
  | none => simp [pointerText]
  | some a =>
    simp only [pointerText, List.mem_cons, not_or]
    refine ⟨by decide, by decide, ?_⟩
    intro hc
    exact ((toDigits_spec 16 (by omega) (by omega) a.addr).2.2 '/' hc).1 rfl

theorem pointerText_injective (p q : Option HapPtr) (h : pointerText p = pointerText q) :
    p.map (fun a => a.addr) = q.map (fun a => a.addr) := by
  cases p with
  | none =>
    cases q with
    | none => rfl
    | some b => simp [pointerText] at h
  | some a =>
    cases q with
    | none => simp [pointerText] at h
    | some b =>
      simp only [pointerText, List.cons.injEq, true_and] at h
      simp only [Option.map_some', Option.some.injEq]
      exact toDigits_injective 16 (by omega) (by omega) _ _ h

theorem split_at_unique (c : Char) (a a1 b b1 : List Char) (ha : c ∉ a) (ha1 : c ∉ a1)
    (h : a ++ c :: b = a1 ++ c :: b1) : a = a1 ∧ b = b1 := by
  induction a generalizing a1 with
  | nil =>
    cases a1 with
    | nil => simpa using h
    | cons y ys =>
      simp only [List.nil_append, List.cons_append, List.cons.injEq] at h
      exact absurd (by rw [← h.1]; exact List.mem_cons_self _ _) ha1
  | cons x xs ih =>
    cases a1 with
    | nil =>
      simp only [List.nil_append, List.cons_append, List.cons.injEq] at h
      exact absurd (by rw [h.1]; exact List.mem_cons_self _ _) ha
    | cons y ys =>
      simp only [List.cons_append, List.cons.injEq] at h
      obtain ⟨e1, e2⟩ := ih ys (fun hm => ha (List.mem_cons_of_mem _ hm))
        (fun hm => ha1 (List.mem_cons_of_mem _ hm)) h.2
      exact ⟨by rw [h.1, e1], e2⟩

/-- The key of lines 1194-1197 identifies the sequence, the source and the
cursor of an open haplotype whose sequence is one character. -/
theorem uniqueRemainerKey_eq_iff (h h1 : openHaplotype) (hl : h.1.length = 1)
    (hl1 : h1.1.length = 1) :
    uniqueRemainerKey h = uniqueRemainerKey h1 ↔ haplotypeIdentity h = haplotypeIdentity h1 := by
  obtain ⟨s, p, c⟩ := h
  obtain ⟨s1, p1, c1⟩ := h1
  simp only at hl hl1
  constructor
  · intro hk
    simp only [uniqueRemainerKey, List.append_assoc] at hk
    obtain ⟨e1, e2⟩ := List.append_inj hk (by rw [hl, hl1])
    simp only [List.cons_append, List.nil_append, List.cons.injEq, true_and] at e2
    obtain ⟨e3, e4⟩ := split_at_unique '/' _ _ _ _ (pointerText_no_slash p)
      (pointerText_no_slash p1) e2
    simp only [List.cons.injEq, true_and] at e4
    simp only [haplotypeIdentity, Prod.mk.injEq]
    exact ⟨e1, pointerText_injective _ _ e3, integerText_injective _ _ e4⟩
  · intro hi
    simp only [haplotypeIdentity, Prod.mk.injEq] at hi
    obtain ⟨rfl, e2, rfl⟩ := hi
    have : pointerText p = pointerText p1 := by
      cases p with
      | none =>
        cases p1 with
        | none => rfl
        | some b => simp at e2
      | some a =>
        cases p1 with
        | none => simp at e2
        | some b =>
          simp only [Option.map_some', Option.some.injEq] at e2
          simp only [pointerText, e2]
    simp only [uniqueRemainerKey, this]

/-! ## The flush -/

theorem keepFirstOccurrences_sublist :
    ∀ (haps : List openHaplotype) (seen : List (List Char × Option Nat × Int)),
      (keepFirstOccurrences haps seen).Sublist haps
  | [], _ => by simp [keepFirstOccurrences]
  | h :: rest, seen => by
    unfold keepFirstOccurrences
    split_ifs
    · exact (keepFirstOccurrences_sublist rest seen).cons _
    · exact (keepFirstOccurrences_sublist rest _).cons₂ _

theorem keepFirstOccurrences_fresh :
    ∀ (haps : List openHaplotype) (seen : List (List Char × Option Nat × Int)),
      ∀ h ∈ keepFirstOccurrences haps seen, haplotypeIdentity h ∉ seen
  | [], _, h, hm => by simp [keepFirstOccurrences] at hm
  | x :: rest, seen, h, hm => by
    unfold keepFirstOccurrences at hm
    by_cases hx : haplotypeIdentity x ∈ seen
    · rw [if_pos hx] at hm
      exact keepFirstOccurrences_fresh rest seen h hm
    · rw [if_neg hx] at hm
      rcases List.mem_cons.1 hm with rfl | hm
      · exact hx
      · have := keepFirstOccurrences_fresh rest _ h hm
        exact fun hs => this (List.mem_cons_of_mem _ hs)

theorem keepFirstOccurrences_nodup :
    ∀ (haps : List openHaplotype) (seen : List (List Char × Option Nat × Int)),
      ((keepFirstOccurrences haps seen).map haplotypeIdentity).Nodup
  | [], _ => by simp [keepFirstOccurrences]
  | x :: rest, seen => by
    unfold keepFirstOccurrences
    by_cases hx : haplotypeIdentity x ∈ seen
    · rw [if_pos hx]
      exact keepFirstOccurrences_nodup rest seen
    · rw [if_neg hx]
      simp only [List.map_cons, List.nodup_cons, List.mem_map, not_exists, not_and]
      refine ⟨?_, keepFirstOccurrences_nodup rest _⟩
      intro h hm he
      exact keepFirstOccurrences_fresh rest _ h hm (by rw [he]; exact List.mem_cons_self _ _)

theorem keepFirstOccurrences_covers :
    ∀ (haps : List openHaplotype) (seen : List (List Char × Option Nat × Int)),
      ∀ h ∈ haps, haplotypeIdentity h ∈ seen ∨
        ∃ h1 ∈ keepFirstOccurrences haps seen, haplotypeIdentity h1 = haplotypeIdentity h
  | [], _, h, hm => by simp at hm
  | x :: rest, seen, h, hm => by
    unfold keepFirstOccurrences
    by_cases hx : haplotypeIdentity x ∈ seen
    · rw [if_pos hx]
      rcases List.mem_cons.1 hm with rfl | hm
      · exact Or.inl hx
      · exact keepFirstOccurrences_covers rest seen h hm
    · rw [if_neg hx]
      rcases List.mem_cons.1 hm with rfl | hm
      · exact Or.inr ⟨h, List.mem_cons_self _ _, rfl⟩
      · rcases keepFirstOccurrences_covers rest _ h hm with h1 | ⟨h1, h2, h3⟩
        · rcases List.mem_cons.1 h1 with h1 | h1
          · exact Or.inr ⟨x, List.mem_cons_self _ _, h1.symm⟩
          · exact Or.inl h1
        · exact Or.inr ⟨h1, List.mem_cons_of_mem _ h2, h3⟩

/-- The loop of lines 1179-1208: every haplotype is at least `ref_span + 1`
long; the new open haplotypes are the first occurrences among the haplotypes
cut down to their last character; and the alternative sequences are the covered
sequences that differ from the reference sequence. -/
theorem flushHaplotypes_spec (ref : List Char) (span : Int) :
    ∀ (haps : List openHaplotype) (alts uniq : List (List Char)) (acc : List openHaplotype)
      (alts1 : List (List Char)) (out : List openHaplotype)
      (seen : List (List Char × Option Nat × Int)),
      (∀ h : openHaplotype, h.1.length = 1 →
        (uniqueRemainerKey h ∈ uniq ↔ haplotypeIdentity h ∈ seen)) →
      flushHaplotypes ref span haps alts uniq acc = Except.ok (alts1, out) →
      out = acc ++ keepFirstOccurrences (haps.map trimToLast) seen ∧
      (∀ h ∈ haps, span + 1 ≤ (h.1.length : Int) ∧ (trimToLast h).1.length = 1) ∧
      (∀ a, a ∈ alts1 ↔ a ∈ alts ∨ ∃ h ∈ haps, a = coveredSequence h ∧ a ≠ ref)
  | [], alts, uniq, acc, alts1, out, seen, _, hok => by
    simp only [flushHaplotypes, Except.ok.injEq, Prod.mk.injEq] at hok
    obtain ⟨rfl, rfl⟩ := hok
    simp [keepFirstOccurrences]
  | (seq, src, cur) :: rest, alts, uniq, acc, alts1, out, seen, hseen, hok => by
    unfold flushHaplotypes at hok
    by_cases h1 : (seq.length : Int) ≥ span + 1
    · rw [if_pos h1] at hok
      simp only at hok
      by_cases h2 : (seq.drop (seq.length - 1)).length = 1
      · rw [if_pos h2] at hok
        have hrec := flushHaplotypes_spec ref span rest
        have hmem : ∀ a alts0, (a ∈ (if removeGaps (seq.take (seq.length - 1)) ≠ ref then
            setInsert (removeGaps (seq.take (seq.length - 1))) alts0 else alts0)) ↔
            (a ∈ alts0 ∨ (a = coveredSequence (seq, src, cur) ∧ a ≠ ref)) := by
          intro a alts0
          by_cases hne : removeGaps (seq.take (seq.length - 1)) ≠ ref
          · rw [if_pos hne, mem_setInsert]
            simp only [coveredSequence]
            constructor
            · rintro (rfl | h)
              · exact Or.inr ⟨rfl, hne⟩
              · exact Or.inl h
            · rintro (h | ⟨rfl, -⟩)
              · exact Or.inr h
              · exact Or.inl rfl
          · rw [if_neg hne]
            simp only [coveredSequence]
            constructor
            · exact Or.inl
            · rintro (h | ⟨rfl, hx⟩)
              · exact h
              · exact absurd hx hne
        have hkey : uniqueRemainerKey (seq.drop (seq.length - 1), src, cur) ∈ uniq ↔
            haplotypeIdentity (trimToLast (seq, src, cur)) ∈ seen := hseen _ h2
        by_cases h3 : uniqueRemainerKey (seq.drop (seq.length - 1), src, cur) ∉ uniq
        · rw [if_pos h3] at hok
          have hseen2 : ∀ h : openHaplotype, h.1.length = 1 →
              (uniqueRemainerKey h ∈
                  setInsert (uniqueRemainerKey (seq.drop (seq.length - 1), src, cur)) uniq ↔
                haplotypeIdentity h ∈ haplotypeIdentity (trimToLast (seq, src, cur)) :: seen) := by
            intro h hl
            rw [mem_setInsert, List.mem_cons, hseen h hl]
            exact or_congr_left (uniqueRemainerKey_eq_iff h _ hl h2)
          obtain ⟨e1, e2, e3⟩ := hrec _ _ _ _ _ _ hseen2 hok
          refine ⟨?_, ?_, ?_⟩
          · rw [e1]
            simp only [List.map_cons, keepFirstOccurrences]
            rw [if_neg (fun hx => h3 (hkey.2 hx))]
            simp [trimToLast]
          · intro h hm
            rcases List.mem_cons.1 hm with rfl | hm
            · exact ⟨h1, h2⟩
            · exact e2 h hm
          · intro a
            rw [e3 a, hmem a alts]
            simp only [List.mem_cons, exists_eq_or_imp]
            tauto
        · rw [if_neg h3] at hok
          obtain ⟨e1, e2, e3⟩ := hrec _ _ _ _ _ _ hseen hok
          refine ⟨?_, ?_, ?_⟩
          · rw [e1]
            simp only [List.map_cons, keepFirstOccurrences]
            rw [if_pos (hkey.1 (not_not.1 h3))]
          · intro h hm
            rcases List.mem_cons.1 hm with rfl | hm
            · exact ⟨h1, h2⟩
            · exact e2 h hm
          · intro a
            rw [e3 a, hmem a alts]
            simp only [List.mem_cons, exists_eq_or_imp]
            tauto
      · rw [if_neg h2] at hok
        cases hok
    · rw [if_neg h1] at hok
      cases hok

/-- The loop of lines 1179-1208 fails on no haplotype that is at least
`ref_span + 1` long and not empty. -/
theorem flushHaplotypes_total (ref : List Char) (span : Int) :
    ∀ (haps : List openHaplotype) (alts uniq : List (List Char)) (acc : List openHaplotype),
      (∀ h ∈ haps, span + 1 ≤ (h.1.length : Int) ∧ 1 ≤ h.1.length) →
      ∃ r, flushHaplotypes ref span haps alts uniq acc = Except.ok r
  | [], alts, uniq, acc, _ => ⟨_, rfl⟩
  | (seq, src, cur) :: rest, alts, uniq, acc, hall => by
    obtain ⟨h1, h2⟩ := hall _ (List.mem_cons_self _ _)
    simp only at h1 h2
    unfold flushHaplotypes
    rw [if_pos (by omega)]
    simp only
    rw [if_pos (by rw [List.length_drop]; omega)]
    split_ifs <;>
      exact flushHaplotypes_total ref span rest _ _ _
        (fun h hm => hall h (List.mem_cons_of_mem _ hm))

/-- The blocks of the flush, for a successful run. -/
theorem flush_ok (refID R : List Char) (posI : Nat) (st st1 : EnumeratorState)
    (hok : flush refID R posI st = Except.ok st1) :
    ∃ alts opens lines,
      (posI : Int) - st.start_open_haplotypes > 0 ∧
      0 ≤ st.start_open_haplotypes ∧ st.start_open_haplotypes ≤ (R.length : Int) ∧
      flushHaplotypes
        ((R.drop st.start_open_haplotypes.toNat).take
          ((posI : Int) - st.start_open_haplotypes).toNat)
        ((posI : Int) - st.start_open_haplotypes) st.open_haplotypes [] [] []
          = Except.ok (alts, opens) ∧
      vcfOutput refID st.start_open_haplotypes
        ((R.drop st.start_open_haplotypes.toNat).take
          ((posI : Int) - st.start_open_haplotypes).toNat) alts = Except.ok lines ∧
      st1 = { st with
        open_haplotypes := opens
        outputStream := st.outputStream ++ lines
        start_open_haplotypes := (posI : Int) } := by
  unfold flush at hok
  simp only [bind_eq_ok, assertThat_eq_ok, rangeCheck_eq_ok, pure_eq_ok] at hok
  obtain ⟨-, h1, -, h2, ⟨alts, opens⟩, h3, lines, h4, h5⟩ := hok
  exact ⟨alts, opens, lines, h1, h2.1, h2.2, h3, h4, h5.symm⟩

/-! ## The first characters of the open haplotypes -/

theorem removeGaps_append (a b : List Char) :
    removeGaps (a ++ b) = removeGaps a ++ removeGaps b := by
  induction a with
  | nil => rfl
  | cons c cs ih =>
    simp only [List.cons_append, removeGaps]
    split_ifs
    · simp only [List.append_eq] at ih ⊢
      rw [ih]; rfl
    · simpa only [List.append_eq] using ih

theorem removeGaps_dashes (n : Nat) : removeGaps (List.replicate n '-') = [] := by
  induction n with
  | zero => rfl
  | succ k ih =>
    simp only [List.replicate_succ, removeGaps]
    rw [if_neg (by decide)]
    exact ih

theorem removeGaps_stars (n : Nat) : removeGaps (List.replicate n '*') = [] := by
  induction n with
  | zero => rfl
  | succ k ih =>
    simp only [List.replicate_succ, removeGaps]
    rw [if_neg (by decide)]
    exact ih

theorem referenceExtractionLoop_prefix (R : List Char) (G : List Int) :
    ∀ (n : Nat) (refI : Int) (acc ext : List Char),
      referenceExtractionLoop R G n refI acc = Except.ok ext → ∃ add, ext = acc ++ add
  | 0, _, acc, ext, hok => by
    simp only [referenceExtractionLoop, Except.ok.injEq] at hok
    exact ⟨[], by simp [hok]⟩
  | n + 1, refI, acc, ext, hok => by
    unfold referenceExtractionLoop at hok
    cases hv : vectorAt R refI with
    | none => rw [hv] at hok; cases hok
    | some c =>
      rw [hv] at hok
      simp only at hok
      cases hg : gapString 824 828 G refI with
      | error e => rw [hg] at hok; cases hok
      | ok gaps =>
        rw [hg] at hok
        simp only at hok
        obtain ⟨add, h⟩ := referenceExtractionLoop_prefix R G n _ _ ext hok
        exact ⟨[c] ++ gaps ++ add, by rw [h]; simp⟩

theorem referenceExtractionLoop_head (R : List Char) (G : List Int) (n : Nat) (s : Nat)
    (c0 : Char) (ext : List Char) (hn : 0 < n) (hc : R[s]? = some c0)
    (hok : referenceExtractionLoop R G n (s : Int) [] = Except.ok ext) :
    ∃ t, ext = c0 :: t := by
  cases n with
  | zero => omega
  | succ k =>
    unfold referenceExtractionLoop at hok
    have hv : vectorAt R (s : Int) = some c0 := by
      unfold vectorAt
      rw [if_pos (by omega)]
      simpa using hc
    rw [hv] at hok
    simp only at hok
    cases hg : gapString 824 828 G (s : Int) with
    | error e => rw [hg] at hok; cases hok
    | ok gaps =>
      rw [hg] at hok
      simp only at hok
      obtain ⟨add, h⟩ := referenceExtractionLoop_prefix R G k _ _ ext hok
      exact ⟨gaps ++ add, by rw [h]; simp⟩

/-- The state in front of the flush of iteration `posI`, for an anchored
state: the first open haplotype is on the reference and ends with the extension
`refC` and a padding; without its gap characters it is the reference from
`start_open_haplotypes` to `posI`; every sequence starts with the reference
character at `start_open_haplotypes` and ends with an element of
`extensions`. -/
theorem anchored_beforeFlush (max : Nat) (R : List Char) (idx : AlignmentIndex) (G : List Int)
    (st st4 : EnumeratorState) (posI : Nat) (exts : List (List Char)) (refC : Char)
    (ha : Anchored R posI st)
    (hok : stepBeforeFlush max R idx G st posI = Except.ok (st4, exts, refC)) :
    ∃ (s : Nat) (c0 : Char) (seq : List Char) (m : Nat) (cur : Int) (rest : List openHaplotype),
      st4.start_open_haplotypes = (s : Int) ∧ s < posI ∧ R[s]? = some c0 ∧
      R[posI]? = some refC ∧
      st4.open_haplotypes = (seq ++ refC :: List.replicate m '*', none, cur) :: rest ∧
      refC :: List.replicate m '*' ∈ exts ∧
      removeGaps seq = removeGaps ((R.drop s).take (posI - s)) ∧
      (∀ h ∈ st4.open_haplotypes, ∃ t, h.1 = c0 :: t) ∧
      (∀ h ∈ st4.open_haplotypes, ∃ pre ext, ext ∈ exts ∧ h.1 = pre ++ ext) ∧
      st4.outputStream = st.outputStream := by
  obtain ⟨s, c0, seq, cur, rest, hs, hlt, hc0, hopen, hseq, hfirst⟩ := ha
  obtain ⟨-, -, -, -, -, -, hR, -⟩ := stepBeforeFlush_ok max R idx G st st4 posI exts refC hok
  obtain ⟨h1, h2, h3, h4, h5⟩ := stepBeforeFlush_all (fun q => ∃ t, q = c0 :: t)
    (fun _ => True) max R idx G st st4 posI exts refC
    (fun q n ⟨t, ht⟩ => ⟨t ++ List.replicate n '-', by rw [ht]; rfl⟩)
    (fun q a add ⟨t, ht⟩ _ _ => ⟨t ++ add, by rw [ht]; rfl⟩)
    (fun q n ⟨t, ht⟩ => ⟨t ++ refC :: List.replicate n '*', by rw [ht]; rfl⟩)
    (by
      intro ext hle hext
      rw [hs] at hext
      exact referenceExtractionLoop_head R G _ s c0 ext (by rw [hs] at hle; omega) hc0 hext)
    trivial (fun _ _ => trivial) (fun h hm => ⟨hfirst h hm, trivial⟩) hok
  obtain ⟨n, m, rest1, hopen4, hmem⟩ := h4 seq cur rest hopen
  refine ⟨s, c0, seq ++ List.replicate n '-', m, cur, rest1, by rw [h2, hs], hlt, hc0, hR,
    hopen4, hmem, ?_, fun h hm => (h1 h hm).1, h5, h3⟩
  rw [removeGaps_append, removeGaps_dashes, List.append_nil, hseq]

theorem take_succ_of_getElem? (l : List Char) (k : Nat) (c : Char) (h : l[k]? = some c) :
    l.take (k + 1) = l.take k ++ [c] := by
  rw [List.take_succ, h]; rfl

theorem drop_take_one (R : List Char) (k : Nat) (c : Char) (h : R[k]? = some c) :
    (R.drop k).take 1 = [c] := by
  have h0 : (R.drop k)[0]? = some c := by rw [List.getElem?_drop]; simpa using h
  have := take_succ_of_getElem? (R.drop k) 0 c h0
  simpa using this

theorem eq_singleton_of_length_one (exts : List (List Char)) (x : List Char)
    (h : exts.length = 1 ∧ x ∈ exts) : exts = [x] := by
  obtain ⟨h1, h2⟩ := h
  match exts, h1, h2 with
  | [y], _, h2 =>
    simp only [List.mem_singleton] at h2
    rw [h2]

theorem trimToLast_append_singleton (pre : List Char) (c : Char) (src : Option HapPtr)
    (cur : Int) : trimToLast (pre ++ [c], src, cur) = ([c], src, cur) := by
  simp [trimToLast]

/-- The result of a flush after a step in which every extension is `refC`. -/
theorem flush_after_equal (refID R : List Char) (posI : Nat) (st4 st5 : EnumeratorState)
    (refC : Char)
    (hext : ∀ h ∈ st4.open_haplotypes, ∃ pre, h.1 = pre ++ [refC])
    (hok : flush refID R posI st4 = Except.ok st5) :
    st5.open_haplotypes = keepFirstOccurrences (st4.open_haplotypes.map trimToLast) [] ∧
    (∀ h ∈ st5.open_haplotypes, h.1 = [refC]) ∧
    st5.start_open_haplotypes = (posI : Int) := by
  obtain ⟨alts, opens, lines, -, -, -, h3, -, h5⟩ := flush_ok refID R posI st4 st5 hok
  obtain ⟨e1, -, -⟩ := flushHaplotypes_spec _ _ _ _ _ _ _ _ [] (by simp) h3
  simp only [List.nil_append] at e1
  subst h5
  refine ⟨e1, ?_, rfl⟩
  intro h hm
  simp only at hm
  rw [e1] at hm
  have hm2 := (keepFirstOccurrences_sublist _ _).subset hm
  obtain ⟨h0, hm0, rfl⟩ := List.mem_map.1 hm2
  obtain ⟨pre, hp⟩ := hext h0 hm0
  obtain ⟨q, src, cur⟩ := h0
  simp only at hp
  subst hp
  rw [trimToLast_append_singleton]

theorem anchored_step (max : Nat) (refID R : List Char) (idx : AlignmentIndex) (G : List Int)
    (st st5 : EnumeratorState) (posI : Nat) (ha : Anchored R posI st)
    (hok : enumeratorStep max refID R idx G st posI = Except.ok st5) :
    Anchored R (posI + 1) st5 := by
  rw [enumeratorStep_eq] at hok
  cases hb : stepBeforeFlush max R idx G st posI with
  | error e => rw [hb] at hok; cases hok
  | ok x =>
    obtain ⟨st4, exts, refC⟩ := x
    rw [hb] at hok
    simp only [Except.bind] at hok
    obtain ⟨s, c0, seq, m, cur, rest, hs, hlt, hc0, hR, hopen, hmem, hseq, hfirst, hlast, -⟩ :=
      anchored_beforeFlush max R idx G st st4 posI exts refC ha hb
    by_cases hc : decide (exts.length = 1 ∧ [refC] ∈ exts) = true ∧ posI > 0
    · rw [if_pos hc] at hok
      have hexts : exts = [[refC]] :=
        eq_singleton_of_length_one exts [refC] (by simpa using hc.1)
      subst hexts
      have hext : ∀ h ∈ st4.open_haplotypes, ∃ pre, h.1 = pre ++ [refC] := by
        intro h hm
        obtain ⟨pre, ext, he, hp⟩ := hlast h hm
        rw [List.mem_singleton.1 he] at hp
        exact ⟨pre, hp⟩
      obtain ⟨e1, e2, e3⟩ := flush_after_equal refID R posI st4 st5 refC hext hok
      have hm0 : m = 0 := by
        have := List.mem_singleton.1 hmem
        simp only [List.cons.injEq, true_and] at this
        cases m with
        | zero => rfl
        | succ k => simp [List.replicate_succ] at this
      subst hm0
      refine ⟨posI, refC, [refC], cur,
        keepFirstOccurrences (rest.map trimToLast)
          [haplotypeIdentity (([refC], none, cur) : openHaplotype)],
        e3, by omega, hR, ?_, ?_, ?_⟩
      · rw [e1, hopen]
        simp only [List.map_cons, keepFirstOccurrences, List.not_mem_nil, if_false,
          List.replicate_zero]
        rw [trimToLast_append_singleton]
      · have : posI + 1 - posI = 1 := by omega
        rw [this, drop_take_one R posI refC hR]
      · intro h hm
        exact ⟨[], e2 h hm⟩
    · rw [if_neg hc] at hok
      simp only [Except.ok.injEq] at hok
      subst hok
      refine ⟨s, c0, _, cur, rest, hs, by omega, hc0, hopen, ?_, hfirst⟩
      have e : posI + 1 - s = (posI - s) + 1 := by omega
      have hk : (R.drop s)[posI - s]? = some refC := by
        rw [List.getElem?_drop]
        have : s + (posI - s) = posI := by omega
        rw [this]; exact hR
      rw [e, take_succ_of_getElem? _ _ _ hk, removeGaps_append, removeGaps_append, hseq]
      congr 1
      have : refC :: List.replicate m '*' = [refC] ++ List.replicate m '*' := rfl
      rw [this, removeGaps_append, removeGaps_stars, List.append_nil]

theorem enterHaplotypes_zero (max : Nat) (R : List Char) (G : List Int) (size : Nat) :
    ∀ (news : List HapPtr) (st st1 : EnumeratorState), st.start_open_haplotypes = 0 →
      enterHaplotypes max R G 0 size news st = Except.ok st1 → st1 = st
  | [], st, st1, _, hok => by
    simp only [enterHaplotypes, Except.ok.injEq] at hok
    exact hok.symm
  | a :: rest, st, st1, hs, hok => by
    simp only [enterHaplotypes] at hok
    cases h1 : enterHaplotype max R G 0 size st a with
    | error e => rw [h1] at hok; simp at hok
    | ok st2 =>
      rw [h1] at hok
      simp only at hok
      have e2 : st2 = st := by
        unfold enterHaplotype at h1
        split_ifs at h1
        · simp only [bind_eq_ok, assertThat_eq_ok, pure_eq_ok, exists_const] at h1
          obtain ⟨hge, -⟩ := h1
          rw [hs] at hge
          simp at hge
        · exact ((pure_eq_ok _ _).1 h1).symm
        · exact ((pure_eq_ok _ _).1 h1).symm
      subst e2
      exact enterHaplotypes_zero max R G size rest _ st1 hs hok

/-- The state after iteration 0: one open haplotype, on the reference, with
the first reference character. -/
theorem enumeratorStep_zero (max : Nat) (refID R : List Char) (idx : AlignmentIndex)
    (G : List Int) (st1 : EnumeratorState)
    (hok : enumeratorStep max refID R idx G enumeratorInit 0 = Except.ok st1) :
    ∃ c0, R[0]? = some c0 ∧
      st1 = { open_haplotypes := [([c0], none, -1)], start_open_haplotypes := 0,
              modifiedLastPos := false, outputStream := [] } := by
  obtain ⟨caughtUp, refC, st2, st3, len, extended, extensions, h1, -, hR, h3, h4, h5, h6, h7⟩ :=
    enumeratorStep_ok max refID R idx G enumeratorInit st1 0 hok
  have hd : deduplicate enumeratorInit = enumeratorInit := rfl
  rw [hd] at h1 h3
  have hcu : caughtUp = [([], none, -1)] := by
    simp [enumeratorInit, catchUp, catchUpHaplotype] at h1
    exact h1.symm
  subst hcu
  have e2 := enterHaplotypes_zero max R G _ _ _ st2 rfl h3
  subst e2
  have e3 : st3 = enumeratorInit := by
    simp [exitRecombination, exitOuterLoop, exitOuter, isExhausted, enumeratorInit,
      List.range_succ] at h4
    rw [← h4]; rfl
  subst e3
  have e5 : len = -1 := by
    simp [enumeratorInit, extensionLength] at h5
    exact h5.symm
  subst e5
  simp [enumeratorInit, extendHaplotypes, extendHaplotype, setInsert] at h6
  obtain ⟨rfl, rfl⟩ := h6
  simp [pure, Except.pure] at h7
  exact ⟨refC, hR, h7.symm⟩

theorem anchored_loop (max : Nat) (refID R : List Char) (idx : AlignmentIndex) (G : List Int) :
    ∀ (n : Nat) (st : EnumeratorState),
      enumeratorLoop max refID R idx G (List.range (n + 1)) enumeratorInit = Except.ok st →
      Anchored R (n + 1) st
  | 0, st, hok => by
    simp only [List.range_succ, List.range_zero, List.nil_append, enumeratorLoop] at hok
    cases h1 : enumeratorStep max refID R idx G enumeratorInit 0 with
    | error e => rw [h1] at hok; simp at hok
    | ok st1 =>
      rw [h1] at hok
      simp only [Except.ok.injEq] at hok
      subst hok
      obtain ⟨c0, hc0, rfl⟩ := enumeratorStep_zero max refID R idx G st1 h1
      refine ⟨0, c0, [c0], -1, [], rfl, by omega, hc0, rfl, ?_, ?_⟩
      · have := drop_take_one R 0 c0 hc0
        simp only [List.drop_zero] at this
        simp [this]
      · intro h hm
        simp only [List.mem_singleton] at hm
        subst hm
        exact ⟨[], rfl⟩
  | n + 1, st, hok => by
    rw [List.range_succ, enumeratorLoop_append] at hok
    cases h1 : enumeratorLoop max refID R idx G (List.range (n + 1)) enumeratorInit with
    | error e => rw [h1] at hok; simp at hok
    | ok st1 =>
      rw [h1] at hok
      simp only [enumeratorLoop] at hok
      cases h2 : enumeratorStep max refID R idx G st1 (n + 1) with
      | error e => rw [h2] at hok; simp at hok
      | ok st2 =>
        rw [h2] at hok
        simp only [Except.ok.injEq] at hok
        subst hok
        exact anchored_step max refID R idx G st1 st2 (n + 1)
          (anchored_loop max refID R idx G n st1 h1) h2

/-! ## The line written at a flush -/

theorem joinLoop_eq (delim : List Char) :
    ∀ (rest : List (List Char)) (ret : List Char),
      joinLoop delim rest ret = ret ++ (rest.map (fun p => delim ++ p)).flatten
  | [], ret => by simp [joinLoop]
  | p :: rest, ret => by
    simp only [joinLoop, List.map_cons, List.flatten_cons]
    rw [joinLoop_eq delim rest]
    simp only [List.append_assoc]

/-- Function `join` puts the delimiter between the parts. -/
theorem join_eq_intercalate (parts : List (List Char)) (delim : List Char) :
    join parts delim = List.intercalate delim parts := by
  cases parts with
  | nil => rfl
  | cons first rest =>
    simp only [join, joinLoop_eq]
    induction rest generalizing first with
    | nil => simp [List.intercalate]
    | cons p ps ih =>
      simp only [List.map_cons, List.flatten_cons, List.intercalate, List.intersperse_cons_cons]
      have := ih p
      simp only [List.intercalate] at this
      rw [← this]
      simp only [List.append_assoc]

theorem checkFirstCharacters_ok (ref : List Char) :
    ∀ (alts : List (List Char)), (∀ a ∈ alts, a.take 1 = ref.take 1) →
      checkFirstCharacters ref alts = Except.ok ()
  | [], _ => rfl
  | a :: rest, h => by
    unfold checkFirstCharacters
    rw [if_pos (h a (List.mem_cons_self _ _))]
    exact checkFirstCharacters_ok ref rest (fun b hb => h b (List.mem_cons_of_mem _ hb))

theorem checkFirstCharacters_fails (ref : List Char) :
    ∀ (alts : List (List Char)), ¬ (∀ a ∈ alts, a.take 1 = ref.take 1) →
      checkFirstCharacters ref alts = Except.error (Failure.assertion 1229)
  | [], h => absurd (fun a ha => by simp at ha) h
  | a :: rest, h => by
    unfold checkFirstCharacters
    by_cases ha : a.take 1 = ref.take 1
    · rw [if_pos ha]
      apply checkFirstCharacters_fails ref rest
      intro hall
      apply h
      intro b hb
      rcases List.mem_cons.1 hb with rfl | hb
      · exact ha
      · exact hall b hb
    · rw [if_neg ha]

/-- Lines 1214-1262, case by case. -/
theorem vcfOutput_eq (refID : List Char) (start : Int) (ref : List Char)
    (alts : List (List Char)) :
    vcfOutput refID start ref alts =
      if alts = [] then Except.ok []
      else if ref.length = 2 ∧ ∀ a ∈ alts, a.length = 2 then
        if ∀ a ∈ alts, a.take 1 = ref.take 1 then
          Except.ok
            [{ chrom := refID, pos := start + 2, id := ['.'], ref := (ref.drop 1).take 1,
               alt := List.intercalate [','] (alts.map (fun a => (a.drop 1).take 1)),
               qual := ['.'], filter := "PASS".toList, info := ['.'] }]
        else Except.error (Failure.assertion 1229)
      else
        Except.ok
          [{ chrom := refID, pos := start + 1, id := ['.'], ref := ref,
             alt := List.intercalate [','] alts,
             qual := ['.'], filter := "PASS".toList, info := ['.'] }] := by
  unfold vcfOutput
  by_cases h0 : alts = []
  · subst h0
    simp
  · rw [if_neg h0, if_pos (by simpa using h0)]
    simp only [List.all_eq_true, decide_eq_true_eq]
    by_cases h1 : ref.length = 2 ∧ ∀ a ∈ alts, a.length = 2
    · rw [if_pos h1, if_pos h1]
      by_cases h2 : ∀ a ∈ alts, a.take 1 = ref.take 1
      · rw [if_pos h2, checkFirstCharacters_ok ref alts h2]
        simp only [join_eq_intercalate]
      · rw [if_neg h2, checkFirstCharacters_fails ref alts h2]
    · rw [if_neg h1, if_neg h1]
      simp only [join_eq_intercalate]

theorem removeGaps_sublist : ∀ l : List Char, (removeGaps l).Sublist l
  | [] => List.Sublist.slnil
  | c :: rest => by
    unfold removeGaps
    split_ifs
    · exact (removeGaps_sublist rest).cons₂ _
    · exact (removeGaps_sublist rest).cons _

theorem removeGaps_cons_eq (c : Char) (l : List Char) (h : removeGaps (c :: l) = c :: l) :
    c ≠ '_' ∧ c ≠ '-' ∧ c ≠ '*' := by
  by_contra hc
  unfold removeGaps at h
  rw [if_neg hc] at h
  have := (removeGaps_sublist l).length_le
  rw [h] at this
  simp at this

theorem coveredSequence_cons (c0 : Char) (t : List Char) (src : Option HapPtr) (cur : Int)
    (hc : c0 ≠ '_' ∧ c0 ≠ '-' ∧ c0 ≠ '*') (ht : 1 ≤ t.length) :
    (coveredSequence (c0 :: t, src, cur)).take 1 = [c0] := by
  simp only [coveredSequence, List.length_cons, Nat.add_sub_cancel]
  obtain ⟨k, hk⟩ : ∃ k, t.length = k + 1 := ⟨t.length - 1, by omega⟩
  rw [hk, List.take_succ_cons, removeGaps, if_pos hc]
  rfl

/-- At a flush of a run the assertion of line 1229 holds: when the reference
sequence and all alternative sequences have length 2, the alternative
sequences start with the first character of the reference sequence. -/
theorem flush_first_characters (max : Nat) (refID R : List Char) (idx : AlignmentIndex)
    (G : List Int) (posI : Nat) (st st4 : EnumeratorState) (refC : Char)
    (alts : List (List Char)) (opens : List openHaplotype)
    (hloop : enumeratorLoop max refID R idx G (List.range posI) enumeratorInit = Except.ok st)
    (hstep : stepBeforeFlush max R idx G st posI = Except.ok (st4, [[refC]], refC))
    (hpos : 0 < posI)
    (hhaps : flushHaplotypes
      ((R.drop st4.start_open_haplotypes.toNat).take
        ((posI : Int) - st4.start_open_haplotypes).toNat)
      ((posI : Int) - st4.start_open_haplotypes) st4.open_haplotypes [] [] []
        = Except.ok (alts, opens))
    (hlen : ((R.drop st4.start_open_haplotypes.toNat).take
        ((posI : Int) - st4.start_open_haplotypes).toNat).length = 2)
    (hall : ∀ a ∈ alts, a.length = 2) :
    ∀ a ∈ alts, a.take 1 = ((R.drop st4.start_open_haplotypes.toNat).take
        ((posI : Int) - st4.start_open_haplotypes).toNat).take 1 := by
  obtain ⟨n, rfl⟩ : ∃ n, posI = n + 1 := ⟨posI - 1, by omega⟩
  have ha := anchored_loop max refID R idx G n st hloop
  obtain ⟨s, c0, seq, m, cur, rest, hs, hlt, hc0, hR, hopen, hmem, hseq, hfirst, -, -⟩ :=
    anchored_beforeFlush max R idx G st st4 (n + 1) [[refC]] refC ha hstep
  have hm0 : m = 0 := by
    have := List.mem_singleton.1 hmem
    simp only [List.cons.injEq, true_and] at this
    cases m with
    | zero => rfl
    | succ k => simp [List.replicate_succ] at this
  subst hm0
  have e1 : st4.start_open_haplotypes.toNat = s := by rw [hs]; simp
  have e2 : (((n + 1 : Nat) : Int) - st4.start_open_haplotypes).toNat = n + 1 - s := by
    rw [hs]; omega
  rw [e1, e2] at hhaps hlen ⊢
  obtain ⟨-, hlens, hmemalts⟩ := flushHaplotypes_spec _ _ _ _ _ _ _ _ [] (by simp) hhaps
  have hcov0 : coveredSequence (seq ++ refC :: List.replicate 0 '*', none, cur)
      = removeGaps ((R.drop s).take (n + 1 - s)) := by
    simp [coveredSequence, hseq]
  have hrr : removeGaps ((R.drop s).take (n + 1 - s)) = (R.drop s).take (n + 1 - s) := by
    by_contra hne
    have hin : removeGaps ((R.drop s).take (n + 1 - s)) ∈ alts :=
      (hmemalts _).2 (Or.inr ⟨_, by rw [hopen]; exact List.mem_cons_self _ _, hcov0.symm, hne⟩)
    exact hne ((removeGaps_sublist _).eq_of_length (by rw [hall _ hin, hlen]))
  have hhead : ∃ t, (R.drop s).take (n + 1 - s) = c0 :: t := by
    have h0 : (R.drop s)[0]? = some c0 := by rw [List.getElem?_drop]; simpa using hc0
    cases hd : R.drop s with
    | nil => rw [hd] at h0; simp at h0
    | cons x xs =>
      rw [hd] at h0
      simp only [List.getElem?_cons_zero, Option.some.injEq] at h0
      subst h0
      obtain ⟨k, hk⟩ : ∃ k, n + 1 - s = k + 1 := ⟨n - s, by omega⟩
      rw [hk, List.take_succ_cons]
      exact ⟨_, rfl⟩
  obtain ⟨t0, ht0⟩ := hhead
  rw [ht0] at hrr hlen ⊢
  have hplain := removeGaps_cons_eq c0 t0 hrr
  intro a hmem
  rcases (hmemalts a).1 hmem with h | ⟨h, hm, rfl, -⟩
  · simp at h
  · obtain ⟨t, ht⟩ := hfirst h hm
    obtain ⟨hl, -⟩ := hlens h hm
    obtain ⟨q, src, c⟩ := h
    simp only at ht hl
    subst ht
    have hspan : ((n + 1 : Nat) : Int) - st4.start_open_haplotypes = ((n + 1 - s : Nat) : Int) := by
      rw [hs]; omega
    rw [hspan] at hl
    have hn2 : n + 1 - s = 2 := by
      have := congrArg List.length ht0
      rw [hlen] at this
      have h3 : ((R.drop s).take (n + 1 - s)).length ≤ n + 1 - s := List.length_take_le _ _
      have h4 : ((R.drop s).take (n + 1 - s)).length = 2 := by rw [ht0]; exact hlen
      have h5 : n + 1 - s ≤ (R.drop s).length ∨ (R.drop s).length < n + 1 - s := le_or_lt _ _
      rw [List.length_take] at h4
      have hRlen : n + 1 < R.length := (List.getElem?_eq_some_iff.1 hR).1
      rw [List.length_drop] at h4
      omega
    rw [coveredSequence_cons c0 t src c hplain (by
      simp only [List.length_cons] at hl
      omega)]
    rfl

/-! ## C17: the path of the VCF emitter -/

/-- C17. At a flush of a run (iteration `posI > 0`, every extension equal to
`refC`), with `reference_sequence` the reference from `start_open_haplotypes`
to `posI - 1` and `A` the set of alternative sequences that the loop of lines
1179-1208 computes: if `A` is empty no line is written; if
`reference_sequence` and every element of `A` have length 2 the line has POS
`start_open_haplotypes + 2`, REF the second character of `reference_sequence`
and ALT the second characters of the elements of `A`, joined by commas;
otherwise it has POS `start_open_haplotypes + 1`, REF `reference_sequence` and
ALT the elements of `A`, joined by commas. The other fields are `.`, `.`,
`PASS`, `.`. In particular the emitter does not fail. -/
theorem vcf_path_selection (max_running_haplotypes_before_add : Nat) (refID R : List Char)
    (idx : AlignmentIndex) (G : List Int) (posI : Nat) (st st4 : EnumeratorState) (refC : Char)
    (reference_sequence : List Char) (A : List (List Char)) (opens : List openHaplotype)
    (hloop : enumeratorLoop max_running_haplotypes_before_add refID R idx G (List.range posI)
      enumeratorInit = Except.ok st)
    (hstep : stepBeforeFlush max_running_haplotypes_before_add R idx G st posI
      = Except.ok (st4, [[refC]], refC))
    (hpos : 0 < posI)
    (href : reference_sequence = (R.drop st4.start_open_haplotypes.toNat).take
      ((posI : Int) - st4.start_open_haplotypes).toNat)
    (hA : flushHaplotypes reference_sequence ((posI : Int) - st4.start_open_haplotypes)
      st4.open_haplotypes [] [] [] = Except.ok (A, opens)) :
    vcfOutput refID st4.start_open_haplotypes reference_sequence A =
      Except.ok
        (if A = [] then []
         else if reference_sequence.length = 2 ∧ ∀ a ∈ A, a.length = 2 then
           [{ chrom := refID, pos := st4.start_open_haplotypes + 2, id := ['.'],
              ref := (reference_sequence.drop 1).take 1,
              alt := List.intercalate [','] (A.map (fun a => (a.drop 1).take 1)),
              qual := ['.'], filter := "PASS".toList, info := ['.'] }]
         else
           [{ chrom := refID, pos := st4.start_open_haplotypes + 1, id := ['.'],
              ref := reference_sequence,
              alt := List.intercalate [','] A,
              qual := ['.'], filter := "PASS".toList, info := ['.'] }]) := by
  rw [vcfOutput_eq]
  by_cases h0 : A = []
  · rw [if_pos h0, if_pos h0]
  · rw [if_neg h0, if_neg h0]
    by_cases h1 : reference_sequence.length = 2 ∧ ∀ a ∈ A, a.length = 2
    · rw [if_pos h1, if_pos h1]
      subst href
      rw [if_pos (flush_first_characters max_running_haplotypes_before_add refID R idx G posI st
        st4 refC A opens hloop hstep hpos hA h1.1 h1.2)]
    · rw [if_neg h1, if_neg h1]

theorem exampleVariantState_reached :
    enumeratorLoop 5000 "chr".toList "TACGTA".toList exampleVariantIndex [-1, 0, 0, 1, -1, -1]
      (List.range 3) enumeratorInit = Except.ok exampleVariantState := rfl

theorem exampleVariantExtended_reached :
    stepBeforeFlush 5000 "TACGTA".toList exampleVariantIndex [-1, 0, 0, 1, -1, -1]
      exampleVariantState 3 = Except.ok (exampleVariantExtended, [['G']], 'G') := rfl

theorem exampleVariantExtended_flushed :
    flushHaplotypes "AC".toList (((3 : Nat) : Int) - exampleVariantExtended.start_open_haplotypes)
      exampleVariantExtended.open_haplotypes [] [] []
      = Except.ok (["AT".toList], keepFirstOccurrences
          (exampleVariantExtended.open_haplotypes.map trimToLast) []) := rfl

/-- C17 at `exampleVariantIndex`, iteration 3: the reference sequence is `AC`,
the only alternative sequence is `AT`, and the line is written on the SNP
path. -/
theorem vcf_path_selection_witness :
    enumeratorLoop 5000 "chr".toList "TACGTA".toList exampleVariantIndex [-1, 0, 0, 1, -1, -1]
      (List.range 3) enumeratorInit = Except.ok exampleVariantState ∧
    stepBeforeFlush 5000 "TACGTA".toList exampleVariantIndex [-1, 0, 0, 1, -1, -1]
      exampleVariantState 3 = Except.ok (exampleVariantExtended, [['G']], 'G') ∧
    "AC".toList = ("TACGTA".toList.drop exampleVariantExtended.start_open_haplotypes.toNat).take
      (((3 : Nat) : Int) - exampleVariantExtended.start_open_haplotypes).toNat ∧
    flushHaplotypes "AC".toList (((3 : Nat) : Int) - exampleVariantExtended.start_open_haplotypes)
      exampleVariantExtended.open_haplotypes [] [] []
      = Except.ok (["AT".toList], keepFirstOccurrences
          (exampleVariantExtended.open_haplotypes.map trimToLast) []) ∧
    vcfOutput "chr".toList exampleVariantExtended.start_open_haplotypes "AC".toList
        ["AT".toList] =
      Except.ok
        [{ chrom := "chr".toList, pos := 3, id := ['.'], ref := ['C'], alt := ['T'],
           qual := ['.'], filter := "PASS".toList, info := ['.'] }] :=
  ⟨exampleVariantState_reached, exampleVariantExtended_reached, rfl,
    exampleVariantExtended_flushed,
    (vcf_path_selection 5000 "chr".toList "TACGTA".toList exampleVariantIndex
      [-1, 0, 0, 1, -1, -1] 3 exampleVariantState exampleVariantExtended 'G' "AC".toList
      ["AT".toList] _ exampleVariantState_reached exampleVariantExtended_reached (by decide) rfl
      exampleVariantExtended_flushed).trans rfl⟩

/-! ## C20: the flush -/

theorem spanLength_ge (G : List Int) : ∀ (n : Nat) (i : Int), n ≤ spanLength G n i
  | 0, _ => Nat.le_refl 0
  | n + 1, i => by
    have := spanLength_ge G n (i + 1)
    simp only [spanLength]
    omega

/-- The lengths of the open haplotypes in front of the flush of iteration
`posI`: one length, which is more than the number of reference positions since
`start_open_haplotypes`. -/
theorem stepBeforeFlush_lengths (max : Nat) (R : List Char) (idx : AlignmentIndex)
    (G : List Int) (st st4 : EnumeratorState) (posI : Nat) (exts : List (List Char))
    (refC : Char) (hsync : IndexSync G idx) (hb : Before G posI st)
    (hok : stepBeforeFlush max R idx G st posI = Except.ok (st4, exts, refC)) :
    ∃ s L : Nat, st4.start_open_haplotypes = (s : Int) ∧ (0 < posI → s < posI ∧ posI - s ≤ L) ∧
      ∀ h ∈ st4.open_haplotypes, h.1.length = L + 1 := by
  obtain ⟨caughtUp, st2, st3, len1, h1, -, -, h3, h4, h5, h6, h7, -, -⟩ :=
    stepBeforeFlush_ok max R idx G st st4 posI exts refC hok
  obtain ⟨s, len, hs, hlen, h0, hpos, hat⟩ := hb
  have hsub := deduplicate_subset st
  have hcu := catchUp_at G posI (deduplicate st).open_haplotypes caughtUp len
    (fun h hm => hlen h (hsub h hm)) (fun h hm => hat h (hsub h hm))
    (by
      rcases Nat.eq_zero_or_pos posI with hz | hp
      · exact Or.inr (fun h hm => (h0 hz).2.2 h (hsub h hm))
      · exact Or.inl hp) h1
  have hs1 : (deduplicate st).start_open_haplotypes = (s : Int) := by
    rw [(deduplicate_output st).2, hs]
  have hL : s < posI →
      len + (if 0 < posI then gapCount G ((posI : Int) - 1) else 0)
        = spanLength G (posI - s) (s : Int) := by
    intro hsp
    have hp : 0 < posI := by omega
    obtain ⟨-, hlen2⟩ := hpos hp
    rw [if_pos hp, hlen2]
    have e1 : posI - s = (posI - 1 - s) + 1 := by omega
    rw [e1, spanLength_succ]
    have e2 : (s : Int) + ((posI - 1 - s : Nat) : Int) = (posI : Int) - 1 := by omega
    rw [e2]
  have hmid2 := enterHaplotypes_mid max R G posI caughtUp.length s _ (indexAt idx posI)
    { deduplicate st with open_haplotypes := caughtUp } st2 hs1 hL
    (fun a ha => hsync posI a ha) hcu h3
  have hs2 : st2.start_open_haplotypes = (s : Int) := by
    rw [(enterHaplotypes_output _ _ _ _ _ _ _ _ h3).2]; exact hs1
  have hready := exitRecombination_ready G posI _ max st2 st3 hmid2 h4
  have hs3 : st3.start_open_haplotypes = (s : Int) := by
    rw [(exitRecombination_output _ _ _ h4).2]; exact hs2
  have hlen1 := extensionLength_ready G posI _ st3.open_haplotypes (-1) len1 hready
    (Or.inl rfl) h5
  have hext := extendHaplotypes_ready G posI _ refC len1 st3.open_haplotypes _ []
    exts hready hlen1 h6
  refine ⟨s, _, by rw [h7]; exact hs3, ?_, fun h hm => (hext h hm).1⟩
  intro hp
  obtain ⟨hsp, -⟩ := hpos hp
  refine ⟨hsp, ?_⟩
  rw [hL hsp]
  exact spanLength_ge G _ _

theorem singleton_iff (l : List (List Char)) (x : List Char) :
    (l.length = 1 ∧ x ∈ l) ↔ l = [x] := by
  constructor
  · exact eq_singleton_of_length_one l x
  · rintro rfl
    simp

/-- An iteration of the main loop is its part in front of the flush, followed
by the flush if `posI > 0` and the set `extensions` is `{refC}`. -/
theorem enumeratorStep_flush_iff (max : Nat) (refID R : List Char) (idx : AlignmentIndex)
    (G : List Int) (st : EnumeratorState) (posI : Nat) :
    enumeratorStep max refID R idx G st posI =
      (stepBeforeFlush max R idx G st posI).bind (fun x =>
        if 0 < posI ∧ x.2.1 = [[x.2.2]] then flush refID R posI x.1 else Except.ok x.1) := by
  rw [enumeratorStep_eq]
  congr 1
  funext x
  apply if_congr _ rfl rfl
  rw [decide_eq_true_eq, singleton_iff]
  exact and_comm

/-- The flush does not fail in a run on an index that satisfies `IndexSync`. -/
theorem flush_total (max : Nat) (refID R : List Char) (idx : AlignmentIndex) (G : List Int)
    (posI : Nat) (st st4 : EnumeratorState) (refC : Char) (hsync : IndexSync G idx)
    (hloop : enumeratorLoop max refID R idx G (List.range posI) enumeratorInit = Except.ok st)
    (hstep : stepBeforeFlush max R idx G st posI = Except.ok (st4, [[refC]], refC))
    (hpos : 0 < posI) :
    ∃ st5, flush refID R posI st4 = Except.ok st5 := by
  have hb := enumeratorLoop_before max refID R idx G hsync posI st hloop
  obtain ⟨s, L, hs, hsL, hlen⟩ := stepBeforeFlush_lengths max R idx G st st4 posI _ refC hsync
    hb hstep
  obtain ⟨hsp, hL⟩ := hsL hpos
  obtain ⟨-, -, -, -, -, -, hR, -⟩ := stepBeforeFlush_ok max R idx G st st4 posI _ refC hstep
  have hRlen : posI < R.length := (List.getElem?_eq_some_iff.1 hR).1
  obtain ⟨⟨alts, opens⟩, hflush⟩ := flushHaplotypes_total
    ((R.drop st4.start_open_haplotypes.toNat).take
      ((posI : Int) - st4.start_open_haplotypes).toNat)
    ((posI : Int) - st4.start_open_haplotypes) st4.open_haplotypes [] [] []
    (by
      intro h hm
      rw [hlen h hm, hs]
      constructor <;> omega)
  have hv := vcfOutput_eq refID st4.start_open_haplotypes
    ((R.drop st4.start_open_haplotypes.toNat).take
      ((posI : Int) - st4.start_open_haplotypes).toNat) alts
  have hlines : ∃ lines, vcfOutput refID st4.start_open_haplotypes
      ((R.drop st4.start_open_haplotypes.toNat).take
        ((posI : Int) - st4.start_open_haplotypes).toNat) alts = Except.ok lines := by
    rw [hv]
    by_cases h0 : alts = []
    · rw [if_pos h0]; exact ⟨_, rfl⟩
    · rw [if_neg h0]
      by_cases h1 : ((R.drop st4.start_open_haplotypes.toNat).take
          ((posI : Int) - st4.start_open_haplotypes).toNat).length = 2 ∧ ∀ a ∈ alts, a.length = 2
      · rw [if_pos h1, if_pos (flush_first_characters max refID R idx G posI st st4 refC alts
          opens hloop hstep hpos hflush h1.1 h1.2)]
        exact ⟨_, rfl⟩
      · rw [if_neg h1]; exact ⟨_, rfl⟩
  obtain ⟨lines, hlines⟩ := hlines
  refine ⟨{ st4 with
    open_haplotypes := opens
    outputStream := st4.outputStream ++ lines
    start_open_haplotypes := (posI : Int) }, ?_⟩
  unfold flush
  simp only [bind_eq_ok, assertThat_eq_ok, rangeCheck_eq_ok, pure_eq_ok]
  exact ⟨(), by rw [hs]; omega, (), ⟨by rw [hs]; omega, by rw [hs]; omega⟩, (alts, opens),
    hflush, lines, hlines, rfl⟩

theorem exampleVariantFlushed_reached :
    flush "chr".toList "TACGTA".toList 3 exampleVariantExtended
      = Except.ok exampleVariantFlushed := rfl

/-- C20. An iteration of the main loop flushes if and only if `posI > 0` and
the set `extensions` is `{refC}`, the one-character string of the reference
character at `posI`; the set holds exactly the strings that the extension of
this iteration appends to the open haplotypes. After a flush the sequence of
every open haplotype is that character, the open haplotypes are the first
occurrences, in their order, among the haplotypes cut down to their last
character, so that no two have the same sequence, source and cursor, and
`start_open_haplotypes` is `posI`. Without a flush the state that the extension
leaves is the result of the iteration. In a run of the program the flush does
not fail. -/
theorem flush_condition_and_effect :
    (∀ (max : Nat) (refID R : List Char) (idx : AlignmentIndex) (G : List Int)
        (st : EnumeratorState) (posI : Nat),
      enumeratorStep max refID R idx G st posI =
        (stepBeforeFlush max R idx G st posI).bind (fun x =>
          if 0 < posI ∧ x.2.1 = [[x.2.2]] then flush refID R posI x.1 else Except.ok x.1)) ∧
    (∀ (max : Nat) (R : List Char) (idx : AlignmentIndex) (G : List Int)
        (st st4 : EnumeratorState) (posI : Nat) (extensions : List (List Char)) (refC : Char),
      stepBeforeFlush max R idx G st posI = Except.ok (st4, extensions, refC) →
      R[posI]? = some refC ∧
      ∃ (st3 : EnumeratorState) (len : Int),
        st4.start_open_haplotypes = st3.start_open_haplotypes ∧
        List.Forall₂ (fun h h1 => ∃ e, e ∈ extensions ∧
          extendHaplotype refC len h = Except.ok (h1, e) ∧ h1.1 = h.1 ++ e)
          st3.open_haplotypes st4.open_haplotypes ∧
        ∀ e, e ∈ extensions ↔ ∃ h h1, h ∈ st3.open_haplotypes ∧
          extendHaplotype refC len h = Except.ok (h1, e)) ∧
    (∀ (max : Nat) (refID R : List Char) (idx : AlignmentIndex) (G : List Int)
        (st st4 st5 : EnumeratorState) (posI : Nat) (refC : Char),
      stepBeforeFlush max R idx G st posI = Except.ok (st4, [[refC]], refC) →
      flush refID R posI st4 = Except.ok st5 →
      R[posI]? = some refC ∧
      (∀ h ∈ st5.open_haplotypes, h.1 = [refC]) ∧
      st5.open_haplotypes = keepFirstOccurrences (st4.open_haplotypes.map trimToLast) [] ∧
      (st5.open_haplotypes.map haplotypeIdentity).Nodup ∧
      st5.open_haplotypes.Sublist (st4.open_haplotypes.map trimToLast) ∧
      st5.start_open_haplotypes = (posI : Int)) ∧
    (∀ (max_gap_length : Int) (lines : List AlignmentLine) (lst : LoaderState) (max : Nat)
        (refID R : List Char) (G C : List Int) (st st4 : EnumeratorState) (posI : Nat)
        (refC : Char),
      loader max_gap_length lines = Except.ok lst →
      buildGapStructure R lst.alignments_starting_at = Except.ok (G, C) →
      enumeratorLoop max refID R lst.alignments_starting_at G (List.range posI) enumeratorInit
        = Except.ok st →
      stepBeforeFlush max R lst.alignments_starting_at G st posI
        = Except.ok (st4, [[refC]], refC) →
      0 < posI →
      ∃ st5, flush refID R posI st4 = Except.ok st5) := by
  refine ⟨enumeratorStep_flush_iff, ?_, ?_, ?_⟩
  · intro max R idx G st st4 posI extensions refC hok
    obtain ⟨caughtUp, st2, st3, len, -, -, hR, -, -, -, h6, h7, -, -⟩ :=
      stepBeforeFlush_ok max R idx G st st4 posI extensions refC hok
    obtain ⟨f, m⟩ := extendHaplotypes_shape refC len _ _ _ _ h6
    refine ⟨hR, st3, len, by rw [h7], ?_, ?_⟩
    · refine f.imp ?_
      rintro h h1 ⟨e, he, hx⟩
      exact ⟨e, he, hx, (extendHaplotype_shape refC len h h1 e hx).1⟩
    · intro e
      rw [m e]
      simp
  · intro max refID R idx G st st4 st5 posI refC hstep hflush
    obtain ⟨-, -, -, -, -, -, hR, -⟩ := stepBeforeFlush_ok max R idx G st st4 posI _ refC hstep
    obtain ⟨-, -, h3, -, h5⟩ := stepBeforeFlush_all (fun _ => True) (fun _ => True) max R idx G
      st st4 posI [[refC]] refC (fun _ _ _ => trivial) (fun _ _ _ _ _ _ => trivial)
      (fun _ _ _ => trivial) (fun _ _ _ => trivial) trivial (fun _ _ => trivial)
      (fun _ _ => ⟨trivial, trivial⟩) hstep
    have hext : ∀ h ∈ st4.open_haplotypes, ∃ pre, h.1 = pre ++ [refC] := by
      intro h hm
      obtain ⟨pre, ext, he, hp⟩ := h5 h hm
      rw [List.mem_singleton.1 he] at hp
      exact ⟨pre, hp⟩
    obtain ⟨e1, e2, e3⟩ := flush_after_equal refID R posI st4 st5 refC hext hflush
    refine ⟨hR, e2, e1, ?_, ?_, e3⟩
    · rw [e1]; exact keepFirstOccurrences_nodup _ _
    · rw [e1]; exact keepFirstOccurrences_sublist _ _
  · intro max_gap_length lines lst max refID R G C st st4 posI refC hload hbuild hloop hstep hpos
    exact flush_total max refID R _ G posI st st4 refC
      (indexSync_of_loaded max_gap_length lines lst R G C hload hbuild) hloop hstep hpos

/-- C20 at iteration 3 of the run on `exampleVariantIndex`: the five open
haplotypes end with `G`, and the flush keeps three of them. -/
theorem flush_condition_and_effect_witness :
    stepBeforeFlush 5000 "TACGTA".toList exampleVariantIndex [-1, 0, 0, 1, -1, -1]
      exampleVariantState 3 = Except.ok (exampleVariantExtended, [['G']], 'G') ∧
    flush "chr".toList "TACGTA".toList 3 exampleVariantExtended
      = Except.ok exampleVariantFlushed ∧
    "TACGTA".toList[3]? = some 'G' ∧
    (∀ h ∈ exampleVariantFlushed.open_haplotypes, h.1 = ['G']) ∧
    exampleVariantFlushed.open_haplotypes
      = keepFirstOccurrences (exampleVariantExtended.open_haplotypes.map trimToLast) [] ∧
    (exampleVariantFlushed.open_haplotypes.map haplotypeIdentity).Nodup ∧
    exampleVariantFlushed.open_haplotypes.Sublist
      (exampleVariantExtended.open_haplotypes.map trimToLast) ∧
    exampleVariantFlushed.start_open_haplotypes = ((3 : Nat) : Int) :=
  ⟨exampleVariantExtended_reached, exampleVariantFlushed_reached,
    flush_condition_and_effect.2.2.1 5000 "chr".toList "TACGTA".toList exampleVariantIndex
      [-1, 0, 0, 1, -1, -1] exampleVariantState exampleVariantExtended exampleVariantFlushed 3
      'G' exampleVariantExtended_reached exampleVariantFlushed_reached⟩

/-! ## The characters of the covered sequences -/

theorem referenceExtractionLoop_chars (R : List Char) (G : List Int) :
    ∀ (n : Nat) (refI : Int) (acc ext : List Char),
      referenceExtractionLoop R G n refI acc = Except.ok ext →
      ∀ c ∈ ext, c ∈ acc ∨ c ∈ R ∨ c = '-'
  | 0, _, acc, ext, hok, c, hc => by
    simp only [referenceExtractionLoop, Except.ok.injEq] at hok
    subst hok
    exact Or.inl hc
  | n + 1, refI, acc, ext, hok, c, hc => by
    unfold referenceExtractionLoop at hok
    cases hv : vectorAt R refI with
    | none => rw [hv] at hok; cases hok
    | some x =>
      rw [hv] at hok
      simp only at hok
      cases hg : gapString 824 828 G refI with
      | error e => rw [hg] at hok; cases hok
      | ok gaps =>
        rw [hg] at hok
        simp only at hok
        obtain ⟨k, rfl⟩ := gapString_dashes _ _ _ _ _ hg
        have hx : x ∈ R := by
          unfold vectorAt at hv
          split_ifs at hv
          exact mem_of_getElem?_some _ _ _ hv
        rcases referenceExtractionLoop_chars R G n _ _ ext hok c hc with h | h | h
        · simp only [List.mem_append, List.mem_singleton] at h
          rcases h with (h | rfl) | h
          · exact Or.inl h
          · exact Or.inr (Or.inl hx)
          · exact Or.inr (Or.inr (List.eq_of_mem_replicate h))
        · exact Or.inr (Or.inl h)
        · exact Or.inr (Or.inr h)

theorem removeGaps_mem (l : List Char) (c : Char) (hc : c ∈ removeGaps l) :
    c ∈ l ∧ c ≠ '_' ∧ c ≠ '-' ∧ c ≠ '*' := by
  induction l with
  | nil => simp [removeGaps] at hc
  | cons x xs ih =>
    unfold removeGaps at hc
    by_cases hx : x ≠ '_' ∧ x ≠ '-' ∧ x ≠ '*'
    · rw [if_pos hx] at hc
      rcases List.mem_cons.1 hc with rfl | hc
      · exact ⟨List.mem_cons_self _ _, hx⟩
      · exact ⟨List.mem_cons_of_mem _ (ih hc).1, (ih hc).2⟩
    · rw [if_neg hx] at hc
      exact ⟨List.mem_cons_of_mem _ (ih hc).1, (ih hc).2⟩

/-- One iteration keeps that the open haplotypes are made of characters of
the input. -/
theorem fromInput_beforeFlush (max : Nat) (R : List Char) (idx : AlignmentIndex) (G : List Int)
    (st st4 : EnumeratorState) (posI : Nat) (exts : List (List Char)) (refC : Char)
    (hall : AllOpen (fun q => ∀ c ∈ q, FromInput R idx c) (FromIndex idx) st.open_haplotypes)
    (hok : stepBeforeFlush max R idx G st posI = Except.ok (st4, exts, refC)) :
    AllOpen (fun q => ∀ c ∈ q, FromInput R idx c) (FromIndex idx) st4.open_haplotypes := by
  obtain ⟨-, -, -, -, -, -, hR, -⟩ := stepBeforeFlush_ok max R idx G st st4 posI exts refC hok
  have hrefC : refC ∈ R := mem_of_getElem?_some _ _ _ hR
  refine (stepBeforeFlush_all _ _ max R idx G st st4 posI exts refC ?_ ?_ ?_ ?_ ?_ ?_ hall
    hok).1
  · intro q n hq c hc
    rcases List.mem_append.1 hc with hc | hc
    · exact hq c hc
    · exact Or.inr (Or.inl (List.eq_of_mem_replicate hc))
  · intro q a add hq hQ hadd c hc
    rcases List.mem_append.1 hc with hc | hc
    · exact hq c hc
    · obtain ⟨key, hk⟩ := hQ a rfl
      exact Or.inr (Or.inr (Or.inr ⟨key, a, hk, hadd c hc⟩))
  · intro q n hq c hc
    rcases List.mem_append.1 hc with hc | hc
    · exact hq c hc
    · rcases List.mem_cons.1 hc with rfl | hc
      · exact Or.inl hrefC
      · exact Or.inr (Or.inr (Or.inl (List.eq_of_mem_replicate hc)))
  · intro ext _ hext c hc
    rcases referenceExtractionLoop_chars R G _ _ _ ext hext c hc with h | h | h
    · simp at h
    · exact Or.inl h
    · exact Or.inr (Or.inl h)
  · intro a ha; cases ha
  · intro a ha b hb
    simp only [Option.some.injEq] at hb
    subst hb
    exact ⟨posI, ha⟩

theorem fromInput_step (max : Nat) (refID R : List Char) (idx : AlignmentIndex) (G : List Int)
    (st st5 : EnumeratorState) (posI : Nat)
    (hall : AllOpen (fun q => ∀ c ∈ q, FromInput R idx c) (FromIndex idx) st.open_haplotypes)
    (hok : enumeratorStep max refID R idx G st posI = Except.ok st5) :
    AllOpen (fun q => ∀ c ∈ q, FromInput R idx c) (FromIndex idx) st5.open_haplotypes := by
  rw [enumeratorStep_eq] at hok
  cases hb : stepBeforeFlush max R idx G st posI with
  | error e => rw [hb] at hok; cases hok
  | ok x =>
    obtain ⟨st4, exts, refC⟩ := x
    rw [hb] at hok
    simp only [Except.bind] at hok
    have h4 := fromInput_beforeFlush max R idx G st st4 posI exts refC hall hb
    by_cases hc : decide (exts.length = 1 ∧ [refC] ∈ exts) = true ∧ posI > 0
    · rw [if_pos hc] at hok
      obtain ⟨alts, opens, lines, -, -, -, h3, -, h5⟩ := flush_ok refID R posI st4 st5 hok
      obtain ⟨e1, -, -⟩ := flushHaplotypes_spec _ _ _ _ _ _ _ _ [] (by simp) h3
      simp only [List.nil_append] at e1
      subst h5
      intro h hm
      simp only at hm
      rw [e1] at hm
      have hm2 := (keepFirstOccurrences_sublist _ _).subset hm
      obtain ⟨h0, hm0, rfl⟩ := List.mem_map.1 hm2
      obtain ⟨hP, hQ⟩ := h4 h0 hm0
      exact ⟨fun c hc => hP c (List.mem_of_mem_drop hc), hQ⟩
    · rw [if_neg hc] at hok
      simp only [Except.ok.injEq] at hok
      subst hok
      exact h4

theorem fromInput_loop (max : Nat) (refID R : List Char) (idx : AlignmentIndex) (G : List Int) :
    ∀ (n : Nat) (st : EnumeratorState),
      enumeratorLoop max refID R idx G (List.range n) enumeratorInit = Except.ok st →
      AllOpen (fun q => ∀ c ∈ q, FromInput R idx c) (FromIndex idx) st.open_haplotypes
  | 0, st, hok => by
    simp only [List.range_zero, enumeratorLoop, Except.ok.injEq] at hok
    subst hok
    intro h hm
    simp only [enumeratorInit, List.mem_singleton] at hm
    subst hm
    exact ⟨fun c hc => by simp at hc, fun a ha => by cases ha⟩
  | n + 1, st, hok => by
    rw [List.range_succ, enumeratorLoop_append] at hok
    cases h1 : enumeratorLoop max refID R idx G (List.range n) enumeratorInit with
    | error e => rw [h1] at hok; simp at hok
    | ok st1 =>
      rw [h1] at hok
      simp only [enumeratorLoop] at hok
      cases h2 : enumeratorStep max refID R idx G st1 n with
      | error e => rw [h2] at hok; simp at hok
      | ok st2 =>
        rw [h2] at hok
        simp only [Except.ok.injEq] at hok
        subst hok
        exact fromInput_step max refID R idx G st1 st2 n
          (fromInput_loop max refID R idx G n st1 h1) h2

theorem mem_interleave (c : Char) :
    ∀ (ps ds : List (List Char)) (p : List Char), p ∈ ps → c ∈ p → c ∈ interleave ps ds
  | [], _, p, hp, _ => by simp at hp
  | q :: ps, [], p, hp, hc => by
    simp only [interleave, List.mem_append]
    rcases List.mem_cons.1 hp with rfl | hp
    · exact Or.inl hc
    · exact Or.inr (mem_interleave c ps [] p hp hc)
  | q :: ps, d :: ds, p, hp, hc => by
    simp only [interleave, List.mem_append]
    rcases List.mem_cons.1 hp with rfl | hp
    · exact Or.inl (Or.inl hc)
    · exact Or.inr (mem_interleave c ps ds p hp hc)

theorem loadLine_fromLine (max_gap_length : Int) (lines : List AlignmentLine)
    (st st1 : LoaderState) (l : AlignmentLine) (hl : l ∈ lines)
    (hidx : IndexAll (FromLine lines) st.alignments_starting_at)
    (hok : loadLine max_gap_length st l = Except.ok st1) :
    IndexAll (FromLine lines) st1.alignments_starting_at := by
  obtain ⟨alleles, h, parts, -, hhack, hsplit, hne, -, hcase⟩ :=
    loadLine_ok max_gap_length st st1 l hok
  obtain ⟨-, -, -, e4, -⟩ := startZeroHack_ok _ h hhack
  have hq : ∀ c ∈ h.query, c ∈ l.query := by
    intro c hc
    rw [e4] at hc
    split_ifs at hc
    · exact List.mem_of_mem_drop hc
    · exact hc
  rcases hcase with ⟨-, hi, -⟩ | ⟨-, hi, -⟩
  · rw [hi]
    apply indexAll_publishParts _ _ _ _ hidx
    intro hP hmem addr
    refine ⟨l, hl, ?_⟩
    intro c hc
    obtain ⟨dropped, -, -, -, d4⟩ := splitAlignment_interleave max_gap_length h parts hsplit
      (splitAlignment_ref_ne_nil max_gap_length h parts hsplit hne)
    apply hq
    rw [← d4]
    exact mem_interleave c _ _ hP.query (List.mem_map_of_mem _ hmem) hc
  · rw [hi]
    apply indexAll_pushBack _ _ _ _ hidx
    exact ⟨l, hl, hq⟩

theorem loadLines_fromLine (max_gap_length : Int) (lines : List AlignmentLine) :
    ∀ (rest : List AlignmentLine) (st st1 : LoaderState), (∀ l ∈ rest, l ∈ lines) →
      IndexAll (FromLine lines) st.alignments_starting_at →
      loadLines max_gap_length rest st = Except.ok st1 →
      IndexAll (FromLine lines) st1.alignments_starting_at
  | [], st, st1, _, hidx, hok => by
    simp only [loadLines, Except.ok.injEq] at hok
    rw [← hok]; exact hidx
  | l :: rest, st, st1, hsub, hidx, hok => by
    simp only [loadLines] at hok
    cases hl : loadLine max_gap_length st l with
    | error e => rw [hl] at hok; simp at hok
    | ok st2 =>
      rw [hl] at hok
      exact loadLines_fromLine max_gap_length lines rest st2 st1
        (fun x hx => hsub x (List.mem_cons_of_mem _ hx))
        (loadLine_fromLine max_gap_length lines st st2 l (hsub l (List.mem_cons_self _ _))
          hidx hl) hok

theorem loader_fromLine (max_gap_length : Int) (lines : List AlignmentLine) (st : LoaderState)
    (hok : loader max_gap_length lines = Except.ok st) :
    IndexAll (FromLine lines) st.alignments_starting_at :=
  loadLines_fromLine max_gap_length lines lines loaderInit st (fun _ h => h)
    (by intro key v hm; simp [loaderInit] at hm) hok

/-- In front of the flush test of every iteration of a run, every character
of a covered sequence occurs in the reference or in the query string of an
input line. -/
theorem covered_characters (max_gap_length : Int) (lines : List AlignmentLine)
    (lst : LoaderState) (max_running_haplotypes_before_add : Nat) (refID R : List Char)
    (G : List Int) (posI : Nat) (st st4 : EnumeratorState) (extensions : List (List Char))
    (refC : Char)
    (hload : loader max_gap_length lines = Except.ok lst)
    (hloop : enumeratorLoop max_running_haplotypes_before_add refID R
      lst.alignments_starting_at G (List.range posI) enumeratorInit = Except.ok st)
    (hstep : stepBeforeFlush max_running_haplotypes_before_add R lst.alignments_starting_at G
      st posI = Except.ok (st4, extensions, refC)) :
    ∀ O ∈ st4.open_haplotypes,
      ∀ c ∈ removeGaps (O.1.take (O.1.length - 1)), c ∈ R ∨ ∃ l ∈ lines, c ∈ l.query := by
  intro O hO c hc
  have hall := fromInput_beforeFlush max_running_haplotypes_before_add R _ G st st4 posI
    extensions refC (fromInput_loop max_running_haplotypes_before_add refID R _ G posI st hloop)
    hstep
  obtain ⟨hmem, h1, h2, h3⟩ := removeGaps_mem _ c hc
  rcases (hall O hO).1 c (List.mem_of_mem_take hmem) with h | h | h | ⟨key, a, ha, hq⟩
  · exact Or.inl h
  · exact absurd h h2
  · exact absurd h h3
  · obtain ⟨v, hv, hav⟩ := mem_indexAt _ _ _ ha
    obtain ⟨l, hl, hlq⟩ := loader_fromLine max_gap_length lines lst hload key v hv a hav
    exact Or.inr ⟨l, hl, hlq c hq⟩

theorem exampleVariantLoaded_reached :
    loader 5000 exampleVariantInput = Except.ok exampleVariantLoaded := rfl

/-! ## C27: the names of the sub-alignments -/

theorem namesInv_column (max_gap_length : Int) (h : startingHaplotype) (len : Nat)
    (pr pq : List Char) (r q : Char) (st st1 : SplitterState)
    (hinv : SplitterInv max_gap_length len pr pq st) (hn : NamesInv h st)
    (hok : splitterColumn max_gap_length h len pr.length r q st = Except.ok st1) :
    NamesInv h st1 := by
  cases hm : isMatchColumn (r, q) with
  | false =>
    obtain ⟨-, -, -, -, -, e5, -⟩ :=
      splitterColumn_nonmatch max_gap_length h len pr.length r q st st1 hm hok
    intro i P hP
    rw [e5] at hP
    exact hn i P hP
  | true =>
    by_cases hclose : st.runningQueryGapCharacters > max_gap_length
    · obtain ⟨core, tail, -, -, -, -, -, -, -, -, -, -, -, e5, -, -⟩ :=
        splitterColumn_close max_gap_length h len pr pq r q st st1 hinv hm hclose hok
      intro i P hP
      rw [e5] at hP
      by_cases hi : i < st.haplotype_parts.length
      · rw [List.getElem?_append_left hi] at hP
        exact hn i P hP
      · rw [List.getElem?_append_right (by omega)] at hP
        have hi0 : i - st.haplotype_parts.length = 0 := by
          by_contra hne
          rw [List.getElem?_eq_none (by simp; omega)] at hP
          simp at hP
        rw [hi0] at hP
        simp only [List.getElem?_cons_zero, Option.some.injEq] at hP
        have hieq : i = st.haplotype_parts.length := by omega
        rw [← hP, hieq]
    · obtain ⟨stc, hc, -, -, -, -, e5, -⟩ :=
        splitterColumn_match max_gap_length h len pr.length r q st st1 hm hok
      rw [if_neg hclose] at hc
      rw [hc] at e5
      intro i P hP
      rw [e5] at hP
      exact hn i P hP

theorem splitterLoop_names (max_gap_length : Int) (h : startingHaplotype) (len : Nat) :
    ∀ (rs qs pr pq : List Char) (st st1 : SplitterState),
      SplitterInv max_gap_length len pr pq st → NamesInv h st →
      splitterLoop max_gap_length h len pr.length rs qs st = Except.ok st1 →
      NamesInv h st1
  | [], qs, pr, pq, st, st1, hinv, hn, hok => by
    simp only [splitterLoop, Except.ok.injEq] at hok
    subst hok
    exact hn
  | r :: rs, [], pr, pq, st, st1, hinv, hn, hok => by
    simp [splitterLoop] at hok
  | r :: rs, q :: qs, pr, pq, st, st1, hinv, hn, hok => by
    simp only [splitterLoop] at hok
    cases hcol : splitterColumn max_gap_length h len pr.length r q st with
    | error e => rw [hcol] at hok; simp at hok
    | ok st2 =>
      rw [hcol] at hok
      simp only at hok
      have hinv2 := splitterInv_column max_gap_length h len pr pq r q st st2 hinv hcol
      have hn2 := namesInv_column max_gap_length h len pr pq r q st st2 hinv hn hcol
      have hlen : (pr ++ [r]).length = pr.length + 1 := by simp
      rw [← hlen] at hok
      exact splitterLoop_names max_gap_length h len rs qs (pr ++ [r]) (pq ++ [q])
        st2 st1 hinv2 hn2 hok

/-- The names of the parts that the splitter returns: every part but the last
has the name of the alignment, `_part` and its number; the last part has
`_part` and its number only (line 343 reads the name of the new record). -/
theorem splitAlignment_names (max_gap_length : Int) (h : startingHaplotype)
    (parts : List startingHaplotype) (hok : splitAlignment max_gap_length h = Except.ok parts) :
    ∀ i P, parts[i]? = some P →
      P.query_name =
        (if i + 1 < parts.length then h.query_name else []) ++ "_part".toList ++ to_string i := by
  obtain ⟨st, hinv, -, hloop, hfin⟩ := splitAlignment_ok max_gap_length h parts hok
  have hn : NamesInv h st :=
    splitterLoop_names max_gap_length h h.ref.length h.ref h.query [] [] (splitterInit h) st
      (splitterInv_init max_gap_length h h.ref.length) (by intro i P hP; simp [splitterInit] at hP)
      hloop
  obtain ⟨-, -, -, hparts, -, -⟩ := splitterFinish_ok max_gap_length h st parts hfin
  intro i P hP
  by_cases hne : st.running_ref.length ≠ 0
  · rw [if_pos hne] at hparts
    rw [hparts] at hP ⊢
    simp only [List.length_append, List.length_singleton]
    by_cases hi : i < st.haplotype_parts.length
    · rw [List.getElem?_append_left hi] at hP
      rw [if_pos (by omega)]
      exact hn i P hP
    · rw [List.getElem?_append_right (by omega)] at hP
      have hi0 : i - st.haplotype_parts.length = 0 := by
        by_contra hne0
        rw [List.getElem?_eq_none (by simp; omega)] at hP
        simp at hP
      rw [hi0] at hP
      simp only [List.getElem?_cons_zero, Option.some.injEq] at hP
      have hieq : i = st.haplotype_parts.length := by omega
      rw [if_neg (by omega), ← hP, hieq]
  · rw [if_neg hne] at hparts
    have hpr : h.ref = [] := by
      by_contra hr
      exact hne (by
        have := splitterInv_running_ne_nil max_gap_length _ _ _ st hinv hr
        intro h0
        exact this (List.eq_nil_of_length_eq_zero h0))
    have hnil : st.haplotype_parts = [] := by
      obtain ⟨dropped, d1, -, d3, -⟩ := hinv.drops
      have hrec := hinv.recon_ref
      rw [hpr] at hrec
      have h1 := (List.append_eq_nil.1 hrec).1
      rw [d3] at h1
      cases hp : st.haplotype_parts with
      | nil => rfl
      | cons P0 rest =>
        have hg := goodPart_ref_ne_nil max_gap_length P0 (hinv.parts P0 (by rw [hp]; simp))
        rw [hp] at h1
        cases hd : dropped.map Prod.fst with
        | nil => rw [hd] at h1; simp [interleave] at h1; exact absurd h1.1 hg
        | cons d ds => rw [hd] at h1; simp [interleave] at h1; exact absurd h1.1 hg
    rw [hparts, hnil] at hP
    simp at hP

/-- C27. When the splitter returns `k >= 2` parts for an alignment named `N`,
the part with index `i < k - 1` is named `N`, `_part` and the decimal `i`, and
the last part is named `_part` and the decimal `k - 1`, without `N`. So the
last parts of two alignments that are split into the same number of parts have
the same name, whatever the names of the alignments are; the loader publishes
the parts under these names. -/
theorem sub_alignment_names :
    (∀ (max_gap_length : Int) (h : startingHaplotype) (parts : List startingHaplotype),
      splitAlignment max_gap_length h = Except.ok parts → 2 ≤ parts.length →
      (∀ i P, i + 1 < parts.length → parts[i]? = some P →
        P.query_name = h.query_name ++ "_part".toList ++ (Nat.repr i).toList) ∧
      (∃ P, parts.getLast? = some P ∧
        P.query_name = "_part".toList ++ (Nat.repr (parts.length - 1)).toList)) ∧
    (∀ (max1 max2 : Int) (h1 h2 : startingHaplotype) (parts1 parts2 : List startingHaplotype),
      splitAlignment max1 h1 = Except.ok parts1 → splitAlignment max2 h2 = Except.ok parts2 →
      2 ≤ parts1.length → parts1.length = parts2.length →
      ∃ P1 P2, parts1.getLast? = some P1 ∧ parts2.getLast? = some P2 ∧
        P1.query_name = P2.query_name) ∧
    (∃ lst, loader 5 exampleTwoParents = Except.ok lst ∧
      (indexAt lst.alignments_starting_at 1).map (fun p => p.obj.query_name)
        = ["h1_part0".toList, "h2_part0".toList] ∧
      (indexAt lst.alignments_starting_at 12).map (fun p => p.obj.query_name)
        = ["_part1".toList, "_part1".toList]) := by
  have key : ∀ (max_gap_length : Int) (h : startingHaplotype) (parts : List startingHaplotype),
      splitAlignment max_gap_length h = Except.ok parts → 2 ≤ parts.length →
      ∃ P, parts.getLast? = some P ∧
        P.query_name = "_part".toList ++ (Nat.repr (parts.length - 1)).toList := by
    intro max_gap_length h parts hok hk
    have hne : parts ≠ [] := by intro h0; rw [h0] at hk; simp at hk
    refine ⟨parts.getLast hne, List.getLast?_eq_getLast _ hne, ?_⟩
    have hl : parts[parts.length - 1]? = some (parts.getLast hne) := by
      rw [List.getLast_eq_getElem]
      exact List.getElem?_eq_getElem _
    have := splitAlignment_names max_gap_length h parts hok _ _ hl
    rw [if_neg (by omega)] at this
    exact this
  refine ⟨?_, ?_, ?_⟩
  · intro max_gap_length h parts hok hk
    refine ⟨?_, key max_gap_length h parts hok hk⟩
    intro i P hi hP
    have := splitAlignment_names max_gap_length h parts hok i P hP
    rw [if_pos hi] at this
    exact this
  · intro max1 max2 h1 h2 parts1 parts2 hok1 hok2 hk hlen
    obtain ⟨P1, hP1, hn1⟩ := key max1 h1 parts1 hok1 hk
    obtain ⟨P2, hP2, hn2⟩ := key max2 h2 parts2 hok2 (by omega)
    exact ⟨P1, P2, hP1, hP2, by rw [hn1, hn2, hlen]⟩
  · exact ⟨_, rfl, rfl, rfl⟩

/-- C27 at `exampleLongDeletion`, which is split into two parts: `h1_part0`
and `_part1`. -/
theorem sub_alignment_names_witness :
    splitAlignment 5 exampleLongDeletion = Except.ok exampleLongDeletionParts ∧
    (∀ i P, i + 1 < exampleLongDeletionParts.length → exampleLongDeletionParts[i]? = some P →
      P.query_name = exampleLongDeletion.query_name ++ "_part".toList ++ (Nat.repr i).toList) ∧
    (∃ P, exampleLongDeletionParts.getLast? = some P ∧
      P.query_name = "_part".toList ++ (Nat.repr (exampleLongDeletionParts.length - 1)).toList) :=
  ⟨exampleLongDeletion_split,
    sub_alignment_names.1 5 exampleLongDeletion exampleLongDeletionParts
      exampleLongDeletion_split (by decide)⟩

/-! ## C26: the start-zero hack -/

theorem drop_one_of_getElem? (s : List Char) (c : Char) (h : s[1]? = some c) :
    ∃ t, s.drop 1 = c :: t := by
  cases s with
  | nil => simp at h
  | cons a t =>
    cases t with
    | nil => simp at h
    | cons b u =>
      simp only [List.getElem?_cons_succ, List.getElem?_cons_zero, Option.some.injEq] at h
      exact ⟨u, by simp [h]⟩

theorem startZeroHack_drops (l : AlignmentLine) (r1 q1 : Char)
    (hs : l.start % UINT_RANGE = 0) (hr : l.ref[1]? = some r1) (hq : l.query[1]? = some q1)
    (hr1 : r1 ≠ '-') (hq1 : q1 ≠ '-') :
    startZeroHack (newStartingHaplotype l) = Except.ok (afterStartZeroHack l) := by
  have hs0 : (newStartingHaplotype l).aligment_start_pos = 0 := by
    simp only [newStartingHaplotype]
    exact_mod_cast hs
  unfold startZeroHack
  rw [if_pos hs0]
  have hr2 : (newStartingHaplotype l).ref[1]? = some r1 := hr
  have hq2 : (newStartingHaplotype l).query[1]? = some q1 := hq
  simp only [hr2, hq2, if_neg hr1, if_neg hq1]
  rfl

/-- The splitter rejects an alignment whose first column is not a match
column, at the assertion of line 223. -/
theorem splitAlignment_first_column (max_gap_length : Int) (h : startingHaplotype)
    (r q : Char) (rs qs : List Char) (hr : h.ref = r :: rs) (hq : h.query = q :: qs)
    (hm : isMatchColumn (r, q) = false) :
    ∃ e, splitAlignment max_gap_length h = Except.error e := by
  cases hsplit : splitAlignment max_gap_length h with
  | error e => exact ⟨e, rfl⟩
  | ok parts =>
    exfalso
    obtain ⟨st, -, -, hloop, -⟩ := splitAlignment_ok max_gap_length h parts hsplit
    rw [hr, hq] at hloop
    simp only [splitterLoop] at hloop
    cases hcol : splitterColumn max_gap_length h (r :: rs).length 0 r q (splitterInit h) with
    | error e => rw [hcol] at hloop; simp at hloop
    | ok st2 =>
      obtain ⟨h0, -⟩ := splitterColumn_nonmatch max_gap_length h _ 0 r q _ st2 hm hcol
      exact h0 (Or.inl rfl)

/-- C26. For an input line with start 0 whose second ref and query characters
are not gap characters, the start-zero hack returns the alignment without its
first column, with start 1 and the end unchanged, and this is the alignment
that the splitter processes and whose record or parts are published. A line
with start 0 whose second ref or query character is `-` or `*` is rejected:
the load of the line fails. -/
theorem start_zero_hack :
    (∀ (max_gap_length : Int) (st : LoaderState) (l : AlignmentLine) (r1 q1 : Char),
      l.start % UINT_RANGE = 0 → l.ref[1]? = some r1 → l.query[1]? = some q1 →
      isGapCharacter r1 = false → isGapCharacter q1 = false →
      startZeroHack (newStartingHaplotype l) = Except.ok (afterStartZeroHack l) ∧
      (∀ st1, loadLine max_gap_length st l = Except.ok st1 →
        ∃ parts, splitAlignment max_gap_length (afterStartZeroHack l) = Except.ok parts ∧
          st1.alignments_starting_at =
            (if 1 < parts.length then
              publishParts parts st.alignments_starting_at st.allocations
            else
              indexPushBack st.alignments_starting_at 1
                { addr := st.allocations + 1, obj := afterStartZeroHack l })) ∧
      (∀ e, splitAlignment max_gap_length (afterStartZeroHack l) = Except.error e →
        ∃ e1, loadLine max_gap_length st l = Except.error e1)) ∧
    (∀ (max_gap_length : Int) (st : LoaderState) (l : AlignmentLine) (r1 q1 : Char),
      l.start % UINT_RANGE = 0 → l.ref[1]? = some r1 → l.query[1]? = some q1 →
      isGapCharacter r1 = true ∨ isGapCharacter q1 = true →
      ∃ e, loadLine max_gap_length st l = Except.error e) := by
  constructor
  · intro max_gap_length st l r1 q1 hs hr hq hr1 hq1
    have hr2 := ((isGapCharacter_eq_false_iff r1).1 hr1).1
    have hq2 := ((isGapCharacter_eq_false_iff q1).1 hq1).1
    have hhack := startZeroHack_drops l r1 q1 hs hr hq hr2 hq2
    refine ⟨hhack, ?_, ?_⟩
    · intro st1 hok
      obtain ⟨alleles, h, parts, -, h2, h3, -, -, hcase⟩ := loadLine_ok max_gap_length st st1 l hok
      rw [hhack] at h2
      have hh : h = afterStartZeroHack l := (Except.ok.inj h2).symm
      subst hh
      refine ⟨parts, h3, ?_⟩
      rcases hcase with ⟨hlen, hidx, -⟩ | ⟨hlen, hidx, -⟩
      · rw [if_pos hlen]; exact hidx
      · rw [if_neg (by omega)]; exact hidx
    · intro e herr
      cases hl : loadLine max_gap_length st l with
      | error e1 => exact ⟨e1, rfl⟩
      | ok st1 =>
        obtain ⟨alleles, h, parts, -, h2, h3, -⟩ := loadLine_ok max_gap_length st st1 l hl
        rw [hhack] at h2
        have hh : h = afterStartZeroHack l := (Except.ok.inj h2).symm
        subst hh
        rw [herr] at h3
        cases h3
  · intro max_gap_length st l r1 q1 hs hr hq hgap
    cases hl : loadLine max_gap_length st l with
    | error e1 => exact ⟨e1, rfl⟩
    | ok st1 =>
      exfalso
      obtain ⟨alleles, h, parts, -, h2, h3, -⟩ := loadLine_ok max_gap_length st st1 l hl
      have hs0 : (newStartingHaplotype l).aligment_start_pos = 0 := by
        simp only [newStartingHaplotype]
        exact_mod_cast hs
      have hr0 : (newStartingHaplotype l).ref[1]? = some r1 := hr
      have hq0 : (newStartingHaplotype l).query[1]? = some q1 := hq
      by_cases hr1 : r1 = '-'
      · unfold startZeroHack at h2
        rw [if_pos hs0] at h2
        simp only [hr0, if_pos hr1] at h2
        cases h2
      · by_cases hq1 : q1 = '-'
        · unfold startZeroHack at h2
          rw [if_pos hs0] at h2
          simp only [hr0, hq0, if_neg hr1, if_pos hq1] at h2
          cases h2
        · have hhack := startZeroHack_drops l r1 q1 hs hr hq hr1 hq1
          rw [hhack] at h2
          have hh : h = afterStartZeroHack l := (Except.ok.inj h2).symm
          subst hh
          obtain ⟨rs, hrs⟩ := drop_one_of_getElem? l.ref r1 hr
          obtain ⟨qs, hqs⟩ := drop_one_of_getElem? l.query q1 hq
          have hm : isMatchColumn (r1, q1) = false := by
            simp only [isMatchColumn]
            rcases hgap with hg | hg <;> simp [hg]
          obtain ⟨e, he⟩ := splitAlignment_first_column max_gap_length (afterStartZeroHack l)
            r1 q1 rs qs hrs hqs hm
          rw [he] at h3
          cases h3

/-- C26 at `exampleStartZeroLine`, the line `TACG` / `TAGG` with start 0: the
record `ACG` / `AGG` with start 1 is published. -/
theorem start_zero_hack_witness :
    startZeroHack (newStartingHaplotype exampleStartZeroLine)
      = Except.ok (afterStartZeroHack exampleStartZeroLine) ∧
    afterStartZeroHack exampleStartZeroLine =
      { ref := "ACG".toList, query := "AGG".toList, query_name := "h1".toList,
        aligment_start_pos := 1, alignment_last_pos := 3 } ∧
    loadLine 5000 loaderInit exampleStartZeroLine =
      Except.ok
        { alignments_starting_at :=
            [(1, [{ addr := 1, obj := afterStartZeroHack exampleStartZeroLine }])]
          n_alignments_loaded := 1
          n_alignments_split := 0
          n_alignments_sub := 0
          expectedAlleles := [(2, ['G'])]
          allocations := 1 } ∧
    (∃ e, loadLine 5000 loaderInit
      { ref := "T*CG".toList, query := "TAGG".toList, query_name := "h1".toList,
        start := 0, last := 1 } = Except.error e) :=
  ⟨(start_zero_hack.1 5000 loaderInit exampleStartZeroLine 'A' 'A' (by decide) rfl rfl
      (by decide) (by decide)).1, rfl, rfl,
    start_zero_hack.2 5000 loaderInit _ '*' 'A' (by decide) rfl rfl (Or.inl (by decide))⟩

/-! ## C29: the span of the published alignments -/

theorem nonGapCount_one (r : Char) :
    (nonGapCount [r] : Int) = if isGapCharacter r = false then 1 else 0 := by
  by_cases hr : isGapCharacter r = false <;> simp [nonGapCount, hr]

theorem posInv_column (max_gap_length : Int) (h : startingHaplotype) (len : Nat)
    (pr : List Char) (r q : Char) (st st1 : SplitterState)
    (h0 : 0 ≤ h.aligment_start_pos) (hinv : PosInv h pr st)
    (hok : splitterColumn max_gap_length h len pr.length r q st = Except.ok st1) :
    PosInv h (pr ++ [r]) st1 := by
  obtain ⟨hb0, hb1⟩ := hinv.bounds
  have hne1 : pr ++ [r] ≠ [] := by simp
  cases hm : isMatchColumn (r, q) with
  | false =>
    obtain ⟨hi, e1, -, e3, -, e5, e6, e7, e8, -, e10, -⟩ :=
      splitterColumn_nonmatch max_gap_length h len pr.length r q st st1 hm hok
    have hpr : pr ≠ [] := by
      intro hnil; apply hi; left; simp [hnil]
    refine ⟨?_, fun hnil => absurd hnil hne1, ?_, ?_, ?_, ?_, ?_, ?_⟩
    · rw [e1, e3, ← List.append_assoc, hinv.recon]
    · intro _; rw [e3]; simp
    · rw [e8, e3]
      simp only [List.length_append, List.length_singleton]
      push_cast
      omega
    · rw [e10, hinv.run, nonGapCount_append]
      push_cast
      rw [nonGapCount_one]
      split_ifs <;> omega
    · intro _; rw [e6, e1]; exact hinv.first hpr
    · intro _
      rw [e7, e1, e3, e8, hinv.last hpr]
      have hk : (st.running_ref ++ [r]).length - (st.runningNonMatchPositions + 1).toNat
          = st.running_ref.length - st.runningNonMatchPositions.toNat := by
        simp only [List.length_append, List.length_singleton]
        omega
      rw [hk, List.take_append_of_le_length (by omega)]
    · intro P hP
      rw [e5] at hP
      obtain ⟨pre, post, hp, hs, hl⟩ := hinv.parts P hP
      exact ⟨pre, post ++ [r], by rw [hp]; simp, hs, hl⟩
  | true =>
    have hr : isGapCharacter r = false := by
      simp only [isMatchColumn, Bool.and_eq_true, Bool.not_eq_true'] at hm
      exact hm.1
    obtain ⟨stc, hc, e1, -, e3, -, e5, e6, e7, e8, -, e10, -⟩ :=
      splitterColumn_match max_gap_length h len pr.length r q st st1 hm hok
    have hrun : st1.runningRefPos
        = h.aligment_start_pos - 1 + (nonGapCount (pr ++ [r]) : Int) := by
      rw [e10, hinv.run, nonGapCount_append]
      push_cast
      rw [nonGapCount_one, if_pos hr]
      ring
    by_cases hclose : st.runningQueryGapCharacters > max_gap_length
    · rw [if_pos hclose] at hc
      obtain ⟨hfirst, hnn, hstc⟩ := closeSubAlignment_ok h st stc hc
      have hpr : pr ≠ [] := fun hnil => hfirst (hinv.fresh hnil)
      have hn : ((st.running_ref.length : Int) - st.runningNonMatchPositions).toNat
          = st.running_ref.length - st.runningNonMatchPositions.toNat := by omega
      have hrc : stc.reconstituted_ref = pr := by
        rw [hstc]
        simp only
        rw [hn]
        by_cases hk : st.runningNonMatchPositions > 0
        · rw [if_pos hk, List.append_assoc, List.take_append_drop, hinv.recon]
        · have hk0 : st.runningNonMatchPositions.toNat = 0 := by omega
          rw [if_neg hk, hk0]
          simp [hinv.recon]
      have hrun0 : stc.running_ref = [] := by rw [hstc]
      have hf0 : stc.firstMatchPos_reference = -1 := by rw [hstc]
      refine ⟨?_, fun hnil => absurd hnil hne1, ?_, ?_, hrun, ?_, ?_, ?_⟩
      · rw [e1, e3, hrc, hrun0]; simp
      · intro _; rw [e3]; simp
      · rw [e8, e3]; simp; omega
      · intro _
        rw [e6, if_pos hf0, e1, hrc, hinv.run]
        ring
      · intro _
        rw [e7, e1, e3, e8, hrc, hrun0, hinv.run]
        simp only [List.nil_append, List.length_singleton, Int.toNat_zero, Nat.sub_zero,
          List.take_succ_cons, List.take_zero]
        rw [nonGapCount_append]
        push_cast
        rw [nonGapCount_one, if_pos hr]
        ring
      · intro P hP
        rw [e5, hstc] at hP
        simp only at hP
        rw [hn] at hP
        have hold : ∀ P ∈ st.haplotype_parts, ∃ pre post, pr ++ [r] = pre ++ P.ref ++ post ∧
            P.aligment_start_pos = h.aligment_start_pos + (nonGapCount pre : Int) ∧
            P.alignment_last_pos
              = h.aligment_start_pos - 1 + (nonGapCount (pre ++ P.ref) : Int) := by
          intro P hP
          obtain ⟨pre, post, hp, hs, hl⟩ := hinv.parts P hP
          exact ⟨pre, post ++ [r], by rw [hp]; simp, hs, hl⟩
        by_cases hlen : (st.running_ref.take
            (st.running_ref.length - st.runningNonMatchPositions.toNat)).length ≠ 0
        · rw [if_pos hlen] at hP
          rcases List.mem_append.1 hP with hP | hP
          · exact hold P hP
          · rw [List.mem_singleton.1 hP]
            refine ⟨st.reconstituted_ref,
              st.running_ref.drop (st.running_ref.length - st.runningNonMatchPositions.toNat)
                ++ [r], ?_, hinv.first hpr, hinv.last hpr⟩
            simp only
            rw [← hinv.recon]
            simp only [List.append_assoc]
            rw [← List.append_assoc (List.take _ _), List.take_append_drop]
        · rw [if_neg hlen] at hP
          exact hold P hP
    · rw [if_neg hclose] at hc
      subst hc
      refine ⟨?_, fun hnil => absurd hnil hne1, ?_, ?_, hrun, ?_, ?_, ?_⟩
      · rw [e1, e3, ← List.append_assoc, hinv.recon]
      · intro _; rw [e3]; simp
      · rw [e8, e3]; simp; omega
      · intro _
        rw [e1]
        by_cases hpr : pr = []
        · have hnil := hinv.recon
          rw [hpr] at hnil
          rw [e6, if_pos (hinv.fresh hpr), (List.append_eq_nil.1 hnil).1, hinv.run, hpr]
          simp [nonGapCount]
        · have hf := hinv.first hpr
          rw [e6, if_neg (by omega), hf]
      · intro _
        rw [e7, e1, e3, e8, hinv.run]
        simp only [Int.toNat_zero, Nat.sub_zero, List.take_length]
        rw [← List.append_assoc, hinv.recon, nonGapCount_append]
        push_cast
        rw [nonGapCount_one, if_pos hr]
        ring
      · intro P hP
        rw [e5] at hP
        obtain ⟨pre, post, hp, hs, hl⟩ := hinv.parts P hP
        exact ⟨pre, post ++ [r], by rw [hp]; simp, hs, hl⟩

theorem posInv_init (h : startingHaplotype) : PosInv h [] (splitterInit h) := by
  refine ⟨rfl, fun _ => rfl, fun hne => absurd rfl hne, ⟨le_refl _, by simp [splitterInit]⟩, ?_,
    fun hne => absurd rfl hne, fun hne => absurd rfl hne, ?_⟩
  · simp [splitterInit, nonGapCount]
  · intro P hP; simp [splitterInit] at hP

theorem splitterLoop_posInv (max_gap_length : Int) (h : startingHaplotype) (len : Nat)
    (h0 : 0 ≤ h.aligment_start_pos) :
    ∀ (rs qs pr : List Char) (st st1 : SplitterState),
      PosInv h pr st →
      splitterLoop max_gap_length h len pr.length rs qs st = Except.ok st1 →
      PosInv h (pr ++ rs) st1
  | [], qs, pr, st, st1, hinv, hok => by
    simp only [splitterLoop, Except.ok.injEq] at hok
    subst hok
    simpa using hinv
  | r :: rs, [], pr, st, st1, hinv, hok => by
    simp [splitterLoop] at hok
  | r :: rs, q :: qs, pr, st, st1, hinv, hok => by
    simp only [splitterLoop] at hok
    cases hcol : splitterColumn max_gap_length h len pr.length r q st with
    | error e => rw [hcol] at hok; simp at hok
    | ok st2 =>
      rw [hcol] at hok
      simp only at hok
      have hinv2 := posInv_column max_gap_length h len pr r q st st2 h0 hinv hcol
      have hlen : (pr ++ [r]).length = pr.length + 1 := by simp
      rw [← hlen] at hok
      have := splitterLoop_posInv max_gap_length h len h0 rs qs (pr ++ [r]) st2 st1 hinv2 hok
      simpa using this

/-- Every part that the splitter returns for an alignment `h` is a block of
columns of `h`, and its start and last positions are the reference positions
of the first and of the last column of the block. -/
theorem splitAlignment_positions (max_gap_length : Int) (h : startingHaplotype)
    (parts : List startingHaplotype) (h0 : 0 ≤ h.aligment_start_pos)
    (hok : splitAlignment max_gap_length h = Except.ok parts) :
    ∀ P ∈ parts, ∃ pre post, h.ref = pre ++ P.ref ++ post ∧
      P.aligment_start_pos = h.aligment_start_pos + (nonGapCount pre : Int) ∧
      P.alignment_last_pos = h.aligment_start_pos - 1 + (nonGapCount (pre ++ P.ref) : Int) := by
  obtain ⟨st, hsinv, -, hloop, hfin⟩ := splitAlignment_ok max_gap_length h parts hok
  have hinv : PosInv h h.ref st := by
    have := splitterLoop_posInv max_gap_length h h.ref.length h0 h.ref h.query [] _ st
      (posInv_init h) hloop
    simpa using this
  obtain ⟨-, -, -, hparts, -, -⟩ := splitterFinish_ok max_gap_length h st parts hfin
  intro P hP
  rw [hparts] at hP
  by_cases hne : st.running_ref.length ≠ 0
  · rw [if_pos hne] at hP
    rcases List.mem_append.1 hP with hP | hP
    · exact hinv.parts P hP
    · rw [List.mem_singleton.1 hP]
      have hpr : h.ref ≠ [] := by
        intro hnil
        have := hinv.recon
        rw [hnil] at this
        exact hne (by rw [(List.append_eq_nil.1 this).2]; rfl)
      have hn := hsinv.finished rfl hpr
      have hl := hinv.last hpr
      rw [hn] at hl
      simp only [Int.toNat_zero, Nat.sub_zero, List.take_length] at hl
      exact ⟨st.reconstituted_ref, [], by simp [hinv.recon], hinv.first hpr, hl⟩
  · rw [if_neg hne] at hP
    exact hinv.parts P hP

theorem startZeroHack_start_nonneg (l : AlignmentLine) (h : startingHaplotype)
    (hok : startZeroHack (newStartingHaplotype l) = Except.ok h) :
    0 ≤ h.aligment_start_pos := by
  obtain ⟨-, e2, -⟩ := startZeroHack_ok _ h hok
  rw [e2]
  simp only [newStartingHaplotype]
  split_ifs
  · decide
  · exact Int.natCast_nonneg _

theorem loadLine_spanned (max_gap_length : Int) (st st1 : LoaderState) (l : AlignmentLine)
    (hidx : IndexAll Spanned st.alignments_starting_at)
    (hok : loadLine max_gap_length st l = Except.ok st1) :
    IndexAll Spanned st1.alignments_starting_at := by
  obtain ⟨alleles, h, parts, -, hhack, hsplit, hne, -, hcase⟩ :=
    loadLine_ok max_gap_length st st1 l hok
  rcases hcase with ⟨-, hi, -⟩ | ⟨hlen, hi, -⟩
  · rw [hi]
    apply indexAll_publishParts _ _ _ _ hidx
    intro hP hmem addr
    obtain ⟨pre, post, -, hs, hl⟩ := splitAlignment_positions max_gap_length h parts
      (startZeroHack_start_nonneg l h hhack) hsplit hP hmem
    show (nonGapCount hP.ref : Int) = hP.alignment_last_pos - hP.aligment_start_pos + 1
    rw [hs, hl, nonGapCount_append]
    push_cast
    ring
  · rw [hi]
    apply indexAll_pushBack _ _ _ _ hidx
    obtain ⟨h1, hhack1, hcount, -⟩ := loadLine_count max_gap_length st st1 l hok
    rw [hhack] at hhack1
    have hh : h1 = h := (Except.ok.inj hhack1).symm
    subst hh
    show (nonGapCount h1.ref : Int) = h1.alignment_last_pos - h1.aligment_start_pos + 1
    omega

theorem loadLines_spanned (max_gap_length : Int) :
    ∀ (lines : List AlignmentLine) (st st1 : LoaderState),
      IndexAll Spanned st.alignments_starting_at →
      loadLines max_gap_length lines st = Except.ok st1 →
      IndexAll Spanned st1.alignments_starting_at
  | [], st, st1, hidx, hok => by
    simp only [loadLines, Except.ok.injEq] at hok
    rw [← hok]; exact hidx
  | l :: rest, st, st1, hidx, hok => by
    simp only [loadLines] at hok
    cases hl : loadLine max_gap_length st l with
    | error e => rw [hl] at hok; simp at hok
    | ok st2 =>
      rw [hl] at hok
      exact loadLines_spanned max_gap_length rest st2 st1
        (loadLine_spanned max_gap_length st st2 l hidx hl) hok

theorem loader_spanned (max_gap_length : Int) (lines : List AlignmentLine) (st : LoaderState)
    (hok : loader max_gap_length lines = Except.ok st) :
    IndexAll Spanned st.alignments_starting_at := by
  apply loadLines_spanned max_gap_length lines loaderInit st _ hok
  intro key v hmem
  simp [loaderInit] at hmem

theorem gapWalkColumn_error_line (R : List Char) (start_pos : Int) (w : GapWalk) (c : Char)
    (e : Failure) (herr : gapWalkColumn R start_pos w c = Except.error e) :
    e ≠ Failure.assertion 532 := by
  unfold gapWalkColumn at herr
  split_ifs at herr
  cases hs : storeGaps start_pos w with
  | error e1 =>
    rw [hs] at herr
    simp only [Except.error.injEq] at herr
    subst herr
    rcases storeGaps_error start_pos w e1 hs with h | ⟨h, -⟩ <;> rw [h] <;> simp
  | ok G1 =>
    rw [hs] at herr
    simp only at herr
    cases hv : vectorAt w.coverage_structure (w.ref_pos + 1) with
    | none => rw [hv] at herr; simp only [Except.error.injEq] at herr; rw [← herr]; simp
    | some n =>
      rw [hv] at herr
      simp only at herr
      cases hr : vectorAt R (w.ref_pos + 1) with
      | none => rw [hr] at herr; simp only [Except.error.injEq] at herr; rw [← herr]; simp
      | some x =>
        rw [hr] at herr
        simp only at herr
        split_ifs at herr
        simp only [Except.error.injEq] at herr
        rw [← herr]; simp

theorem gapWalkColumns_error_line (R : List Char) (start_pos : Int) :
    ∀ (cs : List Char) (w : GapWalk) (e : Failure),
      gapWalkColumns R start_pos cs w = Except.error e → e ≠ Failure.assertion 532
  | [], w, e, herr => by simp [gapWalkColumns] at herr
  | c :: cs, w, e, herr => by
    simp only [gapWalkColumns] at herr
    cases hc : gapWalkColumn R start_pos w c with
    | error e1 =>
      rw [hc] at herr
      simp only [Except.error.injEq] at herr
      subst herr
      exact gapWalkColumn_error_line R start_pos w c e1 hc
    | ok w1 =>
      rw [hc] at herr
      exact gapWalkColumns_error_line R start_pos cs w1 e herr

/-- The walk of the gap-structure builder over an alignment whose ref string
has `last_pos - start_pos + 1` non-gap characters, at least one, does not stop
at the assertion of line 532. -/
theorem gapWalkAlignment_last (R : List Char) (key : Nat) (a : HapPtr)
    (vs : List Int × List Int) (hsp : Spanned key a) (hcount : 1 ≤ nonGapCount a.obj.ref) :
    gapWalkAlignment R key a vs ≠ Except.error (Failure.assertion 532) := by
  intro herr
  unfold gapWalkAlignment at herr
  simp only [bind_eq_error, assertThat_eq_error, assertThat_eq_ok, exists_const,
    pure_ne_error, or_false, and_false] at herr
  rcases herr with h | ⟨hkey, h | ⟨w, hw, h⟩⟩
  · simp at h
  · exact gapWalkColumns_error_line R _ _ _ _ h rfl
  · obtain ⟨-, -, -, h4, h5, -⟩ := gapWalkColumns_ok R (castToInt key - 1) a.obj.ref _ w
      (by simp) hw
    simp only at h4 h5
    obtain ⟨gs, y, post, e, h1, h2⟩ := gap_prefix_decomp a.obj.ref hcount
    have hy : a.obj.ref[gs.length]? = some y := by
      rw [e]; exact getElem?_append_cons_length _ _ _
    have htake : a.obj.ref.take (gs.length + 1) = gs ++ [y] := by
      rw [e]
      have : gs ++ y :: post = (gs ++ [y]) ++ post := by simp
      rw [this, List.take_left' (by simp)]
    have hch := h5 gs.length y hy h2
    rw [htake, nonGapCount_append, nonGapCount_gaps gs h1, nonGapCount_singleton y h2] at hch
    have hnn := (vectorAt_nonneg _ _ _ hch).1
    simp only [zero_add, Nat.cast_one] at hnn
    have hk := castToInt_of_nonneg key (by omega)
    apply h.1
    rw [h4, hk, hkey]
    unfold Spanned at hsp
    omega

theorem gapWalkVector_last (R : List Char) (key : Nat) :
    ∀ (v : List HapPtr) (vs : List Int × List Int),
      (∀ a ∈ v, Spanned key a ∧ 1 ≤ nonGapCount a.obj.ref) →
      gapWalkVector R key v vs ≠ Except.error (Failure.assertion 532)
  | [], vs, _ => by simp [gapWalkVector]
  | a :: rest, vs, hv => by
    simp only [gapWalkVector]
    cases ha : gapWalkAlignment R key a vs with
    | error e =>
      simp only
      intro herr
      simp only [Except.error.injEq] at herr
      rw [herr] at ha
      exact gapWalkAlignment_last R key a vs (hv a (List.mem_cons_self _ _)).1
        (hv a (List.mem_cons_self _ _)).2 ha
    | ok vs2 =>
      exact gapWalkVector_last R key rest vs2 (fun x hx => hv x (List.mem_cons_of_mem _ hx))

theorem gapWalkIndex_last (R : List Char) :
    ∀ (idx : AlignmentIndex) (vs : List Int × List Int),
      IndexAll (fun key a => Spanned key a ∧ 1 ≤ nonGapCount a.obj.ref) idx →
      gapWalkIndex R idx vs ≠ Except.error (Failure.assertion 532)
  | [], vs, _ => by simp [gapWalkIndex]
  | (key, v) :: rest, vs, hidx => by
    simp only [gapWalkIndex]
    cases hv : gapWalkVector R key v vs with
    | error e =>
      simp only
      intro herr
      simp only [Except.error.injEq] at herr
      rw [herr] at hv
      exact gapWalkVector_last R key v vs (hidx key v (List.mem_cons_self _ _)) hv
    | ok vs2 =>
      exact gapWalkIndex_last R rest vs2
        (fun k w hm => hidx k w (List.mem_cons_of_mem _ hm))


/-- C29. Every alignment and sub-alignment that the loader publishes has
`last_pos - start_pos + 1` non-gap characters in its ref string. For the parts
that the splitter returns, which are blocks of columns of the alignment with a
match column first and last, `start_pos` and `last_pos` are the running
reference positions of the first and of the last column of the block. So on an
index published by the loader the gap-structure builder does not stop at the
assertion `ref_pos == alignment_last_pos` of line 532. -/
theorem published_span :
    (∀ (max_gap_length : Int) (lines : List AlignmentLine) (lst : LoaderState),
      loader max_gap_length lines = Except.ok lst →
      ∀ key v, (key, v) ∈ lst.alignments_starting_at → ∀ p ∈ v,
        (nonGapCount p.obj.ref : Int)
          = p.obj.alignment_last_pos - p.obj.aligment_start_pos + 1) ∧
    (∀ (max_gap_length : Int) (l : AlignmentLine) (h : startingHaplotype)
        (parts : List startingHaplotype),
      startZeroHack (newStartingHaplotype l) = Except.ok h →
      splitAlignment max_gap_length h = Except.ok parts →
      ∀ P ∈ parts, ∃ pre post, h.ref = pre ++ P.ref ++ post ∧
        (∃ c, (columns P).head? = some c ∧ isMatchColumn c = true) ∧
        (∃ c, (columns P).getLast? = some c ∧ isMatchColumn c = true) ∧
        P.aligment_start_pos = refIndexOfColumn h pre.length ∧
        P.alignment_last_pos = refIndexOfColumn h (pre.length + P.ref.length - 1)) ∧
    (∀ (max_gap_length : Int) (lines : List AlignmentLine) (lst : LoaderState) (R : List Char),
      loader max_gap_length lines = Except.ok lst →
      buildGapStructure R lst.alignments_starting_at
        ≠ Except.error (Failure.assertion 532)) := by
  refine ⟨?_, ?_, ?_⟩
  · intro max_gap_length lines lst hload key v hm p hp
    exact loader_spanned max_gap_length lines lst hload key v hm p hp
  · intro max_gap_length l h parts hhack hsplit P hP
    obtain ⟨pre, post, hp, hs, hl⟩ := splitAlignment_positions max_gap_length h parts
      (startZeroHack_start_nonneg l h hhack) hsplit P hP
    have hg := splitAlignment_goodParts max_gap_length h parts hsplit P hP
    obtain ⟨r, rs, hr, hgap⟩ := goodPart_ref_head max_gap_length P hg
    refine ⟨pre, post, hp, hg.first, hg.last, ?_, ?_⟩
    · rw [hs]
      unfold refIndexOfColumn
      have : h.ref.take (pre.length + 1) = pre ++ [r] := by
        rw [hp, hr]
        have : pre ++ r :: rs ++ post = (pre ++ [r]) ++ (rs ++ post) := by simp
        rw [this, List.take_left' (by simp)]
      rw [this, nonGapCount_append, nonGapCount_singleton r hgap]
      push_cast
      ring
    · rw [hl]
      unfold refIndexOfColumn
      have hlen : 1 ≤ P.ref.length := by rw [hr]; simp
      have : h.ref.take (pre.length + P.ref.length - 1 + 1) = pre ++ P.ref := by
        rw [hp, List.take_left' (by simp; omega)]
      rw [this]
  · intro max_gap_length lines lst R hload
    unfold buildGapStructure
    apply gapWalkIndex_last
    intro key v hm p hp
    refine ⟨loader_spanned max_gap_length lines lst hload key v hm p hp, ?_⟩
    have hpub := loader_published max_gap_length lines lst hload key v hm p hp
    obtain ⟨r, rs, hr, hgap⟩ := goodPart_ref_head max_gap_length p.obj hpub.good
    rw [hr, nonGapCount_cons, if_pos hgap]
    omega

/-- C29 at `exampleLongDeletionLine`, which is published as two parts: the
part under the key 12 has one non-gap ref character, and it starts and ends at
position 12. -/
theorem published_span_witness :
    loader 5 [exampleLongDeletionLine] = Except.ok exampleLongDeletionLoaded ∧
    (∀ key v, (key, v) ∈ exampleLongDeletionLoaded.alignments_starting_at → ∀ p ∈ v,
      (nonGapCount p.obj.ref : Int)
        = p.obj.alignment_last_pos - p.obj.aligment_start_pos + 1) ∧
    (∃ G C, buildGapStructure (List.replicate 13 'A')
      exampleLongDeletionLoaded.alignments_starting_at = Except.ok (G, C)) :=
  ⟨exampleLongDeletionLine_loaded,
    published_span.1 5 [exampleLongDeletionLine] exampleLongDeletionLoaded
      exampleLongDeletionLine_loaded, _, _, rfl⟩

/-! ## C24: the keys of the deduplication -/

theorem digitChar_no_semicolon (d : Nat) (h : d < 16) : Nat.digitChar d ≠ ';' := by
  interval_cases d <;> decide

theorem toDigitsCore_no_semicolon (b : Nat) (hb : 0 < b) (hb16 : b ≤ 16) :
    ∀ (fuel n : Nat) (ds : List Char), (∀ c ∈ ds, c ≠ ';') →
      ∀ c ∈ Nat.toDigitsCore b fuel n ds, c ≠ ';'
  | 0, n, ds, hds => by
    unfold Nat.toDigitsCore
    exact hds
  | fuel + 1, n, ds, hds => by
    have hmod : n % b < 16 := lt_of_lt_of_le (Nat.mod_lt _ hb) hb16
    have hds1 : ∀ c ∈ Nat.digitChar (n % b) :: ds, c ≠ ';' := by
      intro c hc
      rcases List.mem_cons.1 hc with rfl | hc
      · exact digitChar_no_semicolon _ hmod
      · exact hds c hc
    unfold Nat.toDigitsCore
    simp only
    by_cases h0 : n / b = 0
    · rw [if_pos h0]; exact hds1
    · rw [if_neg h0]
      exact toDigitsCore_no_semicolon b hb hb16 fuel (n / b) _ hds1

theorem toDigits_no_semicolon (b : Nat) (hb : 0 < b) (hb16 : b ≤ 16) (n : Nat) :
    ';' ∉ Nat.toDigits b n := by
  intro hc
  exact toDigitsCore_no_semicolon b hb hb16 (n + 1) n [] (by simp) ';' hc rfl

theorem pointerText_no_semicolon (p : Option HapPtr) : ';' ∉ pointerText p := by
  cases p with
  | none => simp [pointerText]
  | some a =>
    simp only [pointerText, List.mem_cons, not_or]
    exact ⟨by decide, by decide, toDigits_no_semicolon 16 (by omega) (by omega) a.addr⟩

theorem integerText_no_semicolon (x : Int) : ';' ∉ integerText x := by
  cases x with
  | ofNat n => exact toDigits_no_semicolon 10 (by omega) (by omega) n
  | negSucc n =>
    simp only [integerText, List.mem_cons, not_or]
    exact ⟨by decide, toDigits_no_semicolon 10 (by omega) (by omega) (n + 1)⟩

theorem pointerText_congr (p q : Option HapPtr)
    (h : p.map (fun a => a.addr) = q.map (fun a => a.addr)) : pointerText p = pointerText q := by
  cases p with
  | none =>
    cases q with
    | none => rfl
    | some b => simp at h
  | some a =>
    cases q with
    | none => simp at h
    | some b =>
      simp only [Option.map_some', Option.some.injEq] at h
      simp only [pointerText, h]

/-- The key of lines 655-659 identifies the sequence, the address of the
source and the cursor of an open haplotype, whatever characters the sequence
holds: the texts of the pointer and of the cursor hold no `;`, so the key is
split at its last two `;`. -/
theorem haplotype_key_eq_iff (h h1 : openHaplotype) :
    haplotype_key h = haplotype_key h1 ↔ haplotypeIdentity h = haplotypeIdentity h1 := by
  obtain ⟨s, p, c⟩ := h
  obtain ⟨s1, p1, c1⟩ := h1
  constructor
  · intro hk
    have hrev : ∀ (s : List Char) (p : Option HapPtr) (c : Int),
        (haplotype_key (s, p, c)).reverse
          = (integerText c).reverse ++ ';' :: ((pointerText p).reverse ++ ';' :: s.reverse) := by
      intro s p c
      simp [haplotype_key]
    have hr := congrArg List.reverse hk
    rw [hrev, hrev] at hr
    obtain ⟨e1, e2⟩ := split_at_unique ';' _ _ _ _
      (by simpa using integerText_no_semicolon c) (by simpa using integerText_no_semicolon c1) hr
    obtain ⟨e3, e4⟩ := split_at_unique ';' _ _ _ _
      (by simpa using pointerText_no_semicolon p) (by simpa using pointerText_no_semicolon p1) e2
    simp only [haplotypeIdentity, Prod.mk.injEq]
    exact ⟨List.reverse_injective e4, pointerText_injective _ _ (List.reverse_injective e3),
      integerText_injective _ _ (List.reverse_injective e1)⟩
  · intro hi
    simp only [haplotypeIdentity, Prod.mk.injEq] at hi
    obtain ⟨rfl, e2, rfl⟩ := hi
    simp only [haplotype_key, pointerText_congr p p1 e2]

theorem keepFirstKeys_eq :
    ∀ (haps : List openHaplotype) (keys : List (List Char))
      (seen : List (List Char × Option Nat × Int)),
      (∀ h : openHaplotype, haplotype_key h ∈ keys ↔ haplotypeIdentity h ∈ seen) →
      keepFirstKeys haps keys = keepFirstOccurrences haps seen
  | [], _, _, _ => rfl
  | x :: rest, keys, seen, hks => by
    have hnext : ∀ h : openHaplotype, haplotype_key h ∈ setInsert (haplotype_key x) keys ↔
        haplotypeIdentity h ∈ haplotypeIdentity x :: seen := by
      intro h
      rw [mem_setInsert, List.mem_cons, haplotype_key_eq_iff, hks]
    unfold keepFirstKeys keepFirstOccurrences
    by_cases hx : haplotype_key x ∈ keys
    · rw [if_pos hx, if_pos ((hks x).1 hx)]
      have hsame : ∀ h : openHaplotype, haplotype_key h ∈ setInsert (haplotype_key x) keys ↔
          haplotypeIdentity h ∈ seen := by
        intro h
        rw [mem_setInsert, hks]
        constructor
        · rintro (he | hm)
          · rw [(haplotype_key_eq_iff h x).1 he]
            exact (hks x).1 hx
          · exact hm
        · exact Or.inr
      exact keepFirstKeys_eq rest _ seen hsame
    · rw [if_neg hx, if_neg (fun hs => hx ((hks x).2 hs))]
      rw [keepFirstKeys_eq rest _ _ hnext]

theorem countDuplicated_ge :
    ∀ (haps : List openHaplotype) (keys : List (List Char)) (d : Int),
      d ≤ countDuplicated haps keys d
  | [], _, d => le_refl d
  | x :: rest, keys, d => by
    unfold countDuplicated
    split_ifs
    · have := countDuplicated_ge rest (setInsert (haplotype_key x) keys) (d + 1)
      omega
    · exact countDuplicated_ge rest _ d

theorem keepFirstKeys_of_count :
    ∀ (haps : List openHaplotype) (keys : List (List Char)) (d : Int),
      countDuplicated haps keys d = d → keepFirstKeys haps keys = haps
  | [], _, _, _ => rfl
  | x :: rest, keys, d, hd => by
    unfold countDuplicated at hd
    unfold keepFirstKeys
    by_cases hx : haplotype_key x ∈ keys
    · rw [if_pos hx] at hd
      have := countDuplicated_ge rest (setInsert (haplotype_key x) keys) (d + 1)
      omega
    · rw [if_neg hx] at hd
      rw [if_neg hx, keepFirstKeys_of_count rest _ d hd]

/-- Lines 649-689: when `modifiedLastPos` is set the open haplotypes become
their first occurrences; otherwise nothing changes. -/
theorem deduplicate_eq (st : EnumeratorState) :
    deduplicate st =
      if st.modifiedLastPos = true then
        { st with
          open_haplotypes := keepFirstOccurrences st.open_haplotypes []
          modifiedLastPos := false }
      else st := by
  unfold deduplicate
  by_cases hm : st.modifiedLastPos = true
  · rw [if_pos hm, if_pos hm]
    have hk := keepFirstKeys_eq st.open_haplotypes [] [] (by simp)
    by_cases hc : countDuplicated st.open_haplotypes [] 0 ≠ 0
    · rw [if_pos hc, hk]
    · rw [if_neg hc, ← hk, keepFirstKeys_of_count st.open_haplotypes [] 0 (by simpa using hc)]
  · rw [if_neg hm, if_neg hm]

theorem keepFirstOccurrences_of_nodup :
    ∀ (haps : List openHaplotype) (seen : List (List Char × Option Nat × Int)),
      (haps.map haplotypeIdentity).Nodup → (∀ h ∈ haps, haplotypeIdentity h ∉ seen) →
      keepFirstOccurrences haps seen = haps
  | [], _, _, _ => rfl
  | x :: rest, seen, hn, hs => by
    unfold keepFirstOccurrences
    rw [if_neg (hs x (List.mem_cons_self _ _))]
    simp only [List.map_cons, List.nodup_cons, List.mem_map, not_exists, not_and] at hn
    rw [keepFirstOccurrences_of_nodup rest _ hn.2]
    intro h hm hc
    rcases List.mem_cons.1 hc with hc | hc
    · exact hn.1 h hm hc
    · exact hs h (List.mem_cons_of_mem _ hm) hc

theorem keepFirstOccurrences_idem (haps : List openHaplotype) :
    keepFirstOccurrences (keepFirstOccurrences haps []) [] = keepFirstOccurrences haps [] :=
  keepFirstOccurrences_of_nodup _ [] (keepFirstOccurrences_nodup haps []) (by simp)

theorem keepFirstOccurrences_snoc :
    ∀ (pre : List openHaplotype) (h : openHaplotype)
      (seen : List (List Char × Option Nat × Int)),
      keepFirstOccurrences (pre ++ [h]) seen =
        keepFirstOccurrences pre seen ++
          (if haplotypeIdentity h ∈ seen ∨ haplotypeIdentity h ∈ pre.map haplotypeIdentity
            then [] else [h])
  | [], h, seen => by
    simp only [List.nil_append, keepFirstOccurrences, List.map_nil, List.not_mem_nil, or_false]
  | x :: rest, h, seen => by
    simp only [List.cons_append, List.map_cons, List.mem_cons]
    unfold keepFirstOccurrences
    by_cases hx : haplotypeIdentity x ∈ seen
    · rw [if_pos hx, if_pos hx, keepFirstOccurrences_snoc rest h seen]
      congr 1
      by_cases hh : haplotypeIdentity h = haplotypeIdentity x
      · rw [if_pos (Or.inl (by rw [hh]; exact hx)), if_pos (Or.inl (by rw [hh]; exact hx))]
      · simp only [hh, false_or]
    · rw [if_neg hx, if_neg hx, keepFirstOccurrences_snoc rest h _]
      simp only [List.cons_append, List.mem_cons]
      congr 2
      split_ifs with h1 h2 h2
      · rfl
      · exact absurd (by tauto) h2
      · exact absurd (by tauto) h1
      · rfl

theorem addrUnique_pushBack (n : Nat) (idx : AlignmentIndex) (key : Nat) (p : HapPtr)
    (h : AddrUnique n idx) (hp : p.addr = n + 1) :
    AddrUnique (n + 1) (indexPushBack idx key p) := by
  constructor
  · intro k v hm x hx
    rcases mem_indexPushBack idx key p k v hm x hx with ⟨rfl, -⟩ | ⟨v0, h1, h2⟩
    · omega
    · have := h.1 k v0 h1 x h2
      omega
  · intro k v k1 v1 x x1 hm hx hm1 hx1 he
    rcases mem_indexPushBack idx key p k v hm x hx with ⟨rfl, -⟩ | ⟨v0, h1, h2⟩
    · rcases mem_indexPushBack idx key x k1 v1 hm1 x1 hx1 with ⟨rfl, -⟩ | ⟨v2, h3, h4⟩
      · rfl
      · have := h.1 k1 v2 h3 x1 h4
        omega
    · rcases mem_indexPushBack idx key p k1 v1 hm1 x1 hx1 with ⟨rfl, -⟩ | ⟨v2, h3, h4⟩
      · have := h.1 k v0 h1 x h2
        omega
      · exact h.2 k v0 k1 v2 x x1 h1 h2 h3 h4 he

theorem addrUnique_publishParts :
    ∀ (parts : List startingHaplotype) (idx : AlignmentIndex) (n : Nat),
      AddrUnique n idx → AddrUnique (n + parts.length) (publishParts parts idx n)
  | [], idx, n, h => by simpa [publishParts] using h
  | hP :: rest, idx, n, h => by
    simp only [publishParts, List.length_cons]
    have := addrUnique_publishParts rest _ (n + 1)
      (addrUnique_pushBack n idx (toUnsignedInt hP.aligment_start_pos)
        { addr := n + 1, obj := hP } h rfl)
    have e : n + (rest.length + 1) = n + 1 + rest.length := by omega
    rw [e]
    exact this

theorem loadLine_addrUnique (max_gap_length : Int) (st st1 : LoaderState) (l : AlignmentLine)
    (h : AddrUnique st.allocations st.alignments_starting_at)
    (hok : loadLine max_gap_length st l = Except.ok st1) :
    AddrUnique st1.allocations st1.alignments_starting_at := by
  obtain ⟨alleles, h0, parts, -, -, -, -, -, hcase⟩ := loadLine_ok max_gap_length st st1 l hok
  rcases hcase with ⟨-, hi, -, -, -, ha⟩ | ⟨-, hi, -, -, -, ha⟩
  · rw [hi, ha]
    exact addrUnique_publishParts parts _ _ h
  · rw [hi, ha]
    exact addrUnique_pushBack _ _ _ _ h rfl

theorem loadLines_addrUnique (max_gap_length : Int) :
    ∀ (lines : List AlignmentLine) (st st1 : LoaderState),
      AddrUnique st.allocations st.alignments_starting_at →
      loadLines max_gap_length lines st = Except.ok st1 →
      AddrUnique st1.allocations st1.alignments_starting_at
  | [], st, st1, h, hok => by
    simp only [loadLines, Except.ok.injEq] at hok
    rw [← hok]; exact h
  | l :: rest, st, st1, h, hok => by
    simp only [loadLines] at hok
    cases hl : loadLine max_gap_length st l with
    | error e => rw [hl] at hok; simp at hok
    | ok st2 =>
      rw [hl] at hok
      exact loadLines_addrUnique max_gap_length rest st2 st1
        (loadLine_addrUnique max_gap_length st st2 l h hl) hok

theorem loader_addrUnique (max_gap_length : Int) (lines : List AlignmentLine) (st : LoaderState)
    (hok : loader max_gap_length lines = Except.ok st) :
    AddrUnique st.allocations st.alignments_starting_at := by
  apply loadLines_addrUnique max_gap_length lines loaderInit st _ hok
  constructor
  · intro key v hm; simp [loaderInit] at hm
  · intro key v key1 v1 p p1 hm; simp [loaderInit] at hm

/-- Two open haplotypes whose sources are records of an index with unique
addresses have the same sequence, address and cursor only if they are the same
triple. -/
theorem haplotypeIdentity_eq_iff (n : Nat) (idx : AlignmentIndex) (hu : AddrUnique n idx)
    (h h1 : openHaplotype) (hs : FromIndex idx h.2.1) (hs1 : FromIndex idx h1.2.1) :
    haplotypeIdentity h = haplotypeIdentity h1 ↔ h = h1 := by
  constructor
  · intro hi
    obtain ⟨s, p, c⟩ := h
    obtain ⟨s1, p1, c1⟩ := h1
    simp only [haplotypeIdentity, Prod.mk.injEq] at hi
    obtain ⟨rfl, e2, rfl⟩ := hi
    have hp : p = p1 := by
      cases p with
      | none =>
        cases p1 with
        | none => rfl
        | some b => simp at e2
      | some a =>
        cases p1 with
        | none => simp at e2
        | some b =>
          simp only [Option.map_some', Option.some.injEq] at e2
          obtain ⟨key, ha⟩ := hs a rfl
          obtain ⟨key1, hb⟩ := hs1 b rfl
          obtain ⟨v, hv, hav⟩ := mem_indexAt idx key a ha
          obtain ⟨v1, hv1, hbv⟩ := mem_indexAt idx key1 b hb
          rw [hu.2 key v key1 v1 a b hv hav hv1 hbv e2]
    rw [hp]
  · intro he; rw [he]

/-- C24. The key `seq;source;cursor` of lines 655-659 is the same for two open
haplotypes if and only if they have the same sequence, the same source address
and the same cursor, for every sequence (a sequence with `;` included); in a
run on an index published by the loader this holds if and only if the two
haplotypes are the same triple. When `modifiedLastPos` is set, step 1 leaves
the first occurrences of the open haplotypes, in their order: a haplotype is
kept if and only if no haplotype in front of it has the same triple, so the
result is a sublist in which no triple occurs twice and every triple of the
input occurs. Deduplicating twice is deduplicating once. -/
theorem deduplication_keys :
    (∀ h h1 : openHaplotype,
      haplotype_key h = haplotype_key h1 ↔ haplotypeIdentity h = haplotypeIdentity h1) ∧
    (∀ (max_gap_length : Int) (lines : List AlignmentLine) (lst : LoaderState) (max : Nat)
        (refID R : List Char) (G : List Int) (posI : Nat) (st : EnumeratorState),
      loader max_gap_length lines = Except.ok lst →
      enumeratorLoop max refID R lst.alignments_starting_at G (List.range posI) enumeratorInit
        = Except.ok st →
      ∀ h ∈ st.open_haplotypes, ∀ h1 ∈ st.open_haplotypes,
        (haplotype_key h = haplotype_key h1 ↔ h = h1)) ∧
    (∀ st : EnumeratorState,
      deduplicate st =
        if st.modifiedLastPos = true then
          { st with
            open_haplotypes := keepFirstOccurrences st.open_haplotypes []
            modifiedLastPos := false }
        else st) ∧
    (∀ (pre : List openHaplotype) (h : openHaplotype),
      keepFirstOccurrences (pre ++ [h]) [] =
        keepFirstOccurrences pre [] ++
          (if haplotypeIdentity h ∈ pre.map haplotypeIdentity then [] else [h])) ∧
    (∀ haps : List openHaplotype,
      (keepFirstOccurrences haps []).Sublist haps ∧
      ((keepFirstOccurrences haps []).map haplotypeIdentity).Nodup ∧
      ∀ h ∈ haps, ∃ h1 ∈ keepFirstOccurrences haps [],
        haplotypeIdentity h1 = haplotypeIdentity h) ∧
    (∀ haps : List openHaplotype,
      keepFirstKeys (keepFirstKeys haps []) [] = keepFirstKeys haps []) ∧
    (∀ st : EnumeratorState, deduplicate (deduplicate st) = deduplicate st) := by
  refine ⟨haplotype_key_eq_iff, ?_, deduplicate_eq, ?_, ?_, ?_, ?_⟩
  · intro max_gap_length lines lst max refID R G posI st hload hloop h hm h1 hm1
    have hall := fromInput_loop max refID R lst.alignments_starting_at G posI st hloop
    rw [haplotype_key_eq_iff]
    exact haplotypeIdentity_eq_iff _ _ (loader_addrUnique max_gap_length lines lst hload) h h1
      (hall h hm).2 (hall h1 hm1).2
  · intro pre h
    rw [keepFirstOccurrences_snoc]
    congr 1
    simp only [List.not_mem_nil, false_or]
  · intro haps
    refine ⟨keepFirstOccurrences_sublist haps [], keepFirstOccurrences_nodup haps [], ?_⟩
    intro h hm
    rcases keepFirstOccurrences_covers haps [] h hm with hc | hc
    · simp at hc
    · exact hc
  · intro haps
    rw [keepFirstKeys_eq haps [] [] (by simp), keepFirstKeys_eq _ [] [] (by simp)]
    exact keepFirstOccurrences_idem haps
  · intro st
    rw [deduplicate_eq st]
    by_cases hm : st.modifiedLastPos = true
    · rw [if_pos hm, deduplicate_eq]
      simp
    · rw [if_neg hm, deduplicate_eq, if_neg hm]

/-- C24 at `exampleDuplicates` and in the run on `exampleVariantInput`. -/
theorem deduplication_keys_witness :
    (deduplicate exampleDuplicates).open_haplotypes
      = [("A;C".toList, none, -1), ("A".toList, none, -1)] ∧
    loader 5000 exampleVariantInput = Except.ok exampleVariantLoaded ∧
    enumeratorLoop 5000 "chr".toList "TACGTA".toList exampleVariantLoaded.alignments_starting_at
      [-1, 0, 0, 1, -1, -1] (List.range 3) enumeratorInit = Except.ok exampleVariantState ∧
    ∀ h ∈ exampleVariantState.open_haplotypes, ∀ h1 ∈ exampleVariantState.open_haplotypes,
      (haplotype_key h = haplotype_key h1 ↔ h = h1) :=
  ⟨by rw [deduplication_keys.2.2.1]; rfl, exampleVariantLoaded_reached,
    exampleVariantState_reached,
    deduplication_keys.2.1 5000 exampleVariantInput exampleVariantLoaded 5000 "chr".toList
      "TACGTA".toList [-1, 0, 0, 1, -1, -1] 3 exampleVariantState exampleVariantLoaded_reached
      exampleVariantState_reached⟩

/-! ## C23: the entry recombination -/

theorem gapString_eq (l1 l2 : Nat) (G : List Int) (i : Int) (h0 : 0 ≤ i)
    (h1 : i < G.length) (hG : ∀ g ∈ G, -1 ≤ g) :
    gapString l1 l2 G i = Except.ok (List.replicate (gapCount G i) '-') := by
  obtain ⟨g, hg, hmem⟩ := vectorAt_of_lt G i h0 h1
  have := hG g hmem
  unfold gapString gapCount
  rw [hg]
  simp only
  by_cases h : g = -1
  · simp [h]
  · rw [if_neg h, if_neg (by omega)]

theorem referenceExtractionLoop_eq (R : List Char) (G : List Int) (hG : ∀ g ∈ G, -1 ≤ g) :
    ∀ (n s : Nat) (acc : List Char), s + n ≤ R.length → s + n ≤ G.length →
      referenceExtractionLoop R G n (s : Int) acc
        = Except.ok (acc ++ (List.range' s n).flatMap
            (fun i => R[i]?.toList ++ List.replicate (gapCount G (i : Int)) '-'))
  | 0, s, acc, _, _ => by simp [referenceExtractionLoop]
  | n + 1, s, acc, h1, h2 => by
    have hs : s < R.length := by omega
    have hv : vectorAt R (s : Int) = some R[s] := by
      unfold vectorAt
      rw [if_pos (Int.natCast_nonneg _)]
      simp [List.getElem?_eq_getElem hs]
    have hg := gapString_eq 824 828 G (s : Int) (Int.natCast_nonneg _) (by omega) hG
    simp only [referenceExtractionLoop, hv, hg]
    have := referenceExtractionLoop_eq R G hG n (s + 1)
      (acc ++ [R[s]] ++ List.replicate (gapCount G (s : Int)) '-') (by omega) (by omega)
    rw [show ((s : Int) + 1) = ((s + 1 : Nat) : Int) by push_cast; rfl, this]
    simp [List.range'_succ, List.flatMap_cons, List.getElem?_eq_getElem hs]

theorem enterHaplotype_accepted (max : Nat) (R : List Char) (G : List Int) (posI size s : Nat)
    (st : EnumeratorState) (H : HapPtr)
    (hcap : st.open_haplotypes.length ≤ max) (hsize : 0 < size)
    (hs : st.start_open_haplotypes = (s : Int)) (hlt : s < posI)
    (hR : posI ≤ R.length) (hGl : posI ≤ G.length) (hG : ∀ g ∈ G, -1 ≤ g) :
    enterHaplotype max R G posI size st H =
      Except.ok
        { st with
          open_haplotypes :=
            st.open_haplotypes ++
              entriesFor (st.open_haplotypes.take size) (referenceSlice R G s posI) H
          modifiedLastPos := true } := by
  have hn : ((posI : Int) - 1 - (s : Int) + 1).toNat = posI - s := by omega
  have hloop := referenceExtractionLoop_eq R G hG (posI - s) s [] (by omega) (by omega)
  unfold enterHaplotype
  rw [if_pos hcap, if_pos hsize]
  simp only [bind, Except.bind, assertThat, hs, hn, hloop]
  rw [if_pos (by omega)]
  simp [pure, Except.pure, entriesFor, referenceSlice]

/-- The loop of lines 790-852 when every incoming alignment is accepted: the
entries are made from the snapshot `base` of the open haplotypes taken at line
789, not from the entries made for an earlier incoming alignment. -/
theorem enterHaplotypes_accepted (max : Nat) (R : List Char) (G : List Int) (posI s : Nat)
    (base : List openHaplotype) (hbase : 0 < base.length) (hlt : s < posI)
    (hR : posI ≤ R.length) (hGl : posI ≤ G.length) (hG : ∀ g ∈ G, -1 ≤ g) :
    ∀ (news : List HapPtr) (st : EnumeratorState),
      st.open_haplotypes.take base.length = base →
      st.start_open_haplotypes = (s : Int) →
      (∀ j < news.length, st.open_haplotypes.length + j * (base.length + 1) ≤ max) →
      enterHaplotypes max R G posI base.length news st =
        Except.ok
          { st with
            open_haplotypes :=
              st.open_haplotypes ++
                news.flatMap (entriesFor base (referenceSlice R G s posI))
            modifiedLastPos := st.modifiedLastPos || !news.isEmpty }
  | [], st, _, _, _ => by
    simp [enterHaplotypes]
  | H :: rest, st, htake, hs, hcap => by
    have h0 := hcap 0 (by simp)
    simp only [Nat.zero_mul, Nat.add_zero] at h0
    have hone := enterHaplotype_accepted max R G posI base.length s st H h0 hbase hs hlt hR hGl hG
    rw [htake] at hone
    simp only [enterHaplotypes, hone]
    have hle : base.length ≤ st.open_haplotypes.length := by
      have := congrArg List.length htake
      rw [List.length_take] at this
      omega
    have hrest := enterHaplotypes_accepted max R G posI s base hbase hlt hR hGl hG rest
      { st with
        open_haplotypes :=
          st.open_haplotypes ++ entriesFor base (referenceSlice R G s posI) H
        modifiedLastPos := true }
      (by
        simp only
        rw [List.take_append_of_le_length hle, htake])
      hs
      (by
        intro j hj
        have := hcap (j + 1) (by simp; omega)
        simp only [List.length_append, entriesFor, List.length_map, List.length_singleton]
        have e : (j + 1) * (base.length + 1) = j * (base.length + 1) + (base.length + 1) := by
          ring
        omega)
    rw [hrest]
    simp [List.flatMap_cons, List.append_assoc]

theorem length_flatMap_entriesFor (base : List openHaplotype) (P : List Char) :
    ∀ news : List HapPtr,
      (news.flatMap (entriesFor base P)).length = news.length * (base.length + 1)
  | [] => by simp
  | H :: rest => by
    rw [List.flatMap_cons, List.length_append, length_flatMap_entriesFor base P rest]
    simp only [entriesFor, List.length_append, List.length_map, List.length_singleton,
      List.length_cons, List.length_nil]
    ring

theorem gapStructure_ge (R : List Char) (idx : AlignmentIndex) (G C : List Int)
    (hok : buildGapStructure R idx = Except.ok (G, C)) : ∀ g ∈ G, -1 ≤ g := by
  obtain ⟨-, -, -, -, h5⟩ := buildGapStructure_ok R idx G C hok
  intro g hg
  by_cases hne : g = -1
  · omega
  · obtain ⟨i, hi, hgi⟩ := List.getElem_of_mem hg
    have hv : vectorAt G (i : Int) = some g := by
      unfold vectorAt
      rw [if_pos (Int.natCast_nonneg _)]
      simp [List.getElem?_eq_getElem hi, hgi]
    have hm := h5 _ g hv hne
    obtain ⟨key, v, a, -, -, hs⟩ := (mem_indexSlots _ _).1 hm
    have := gapSlots_nonneg _ _ _ 0 (le_refl 0) _ hs
    simp only at this
    omega

theorem loadLine_start_pos (max_gap_length : Int) (st st1 : LoaderState) (l : AlignmentLine)
    (hidx : IndexAll (fun _ p => 1 ≤ p.obj.aligment_start_pos) st.alignments_starting_at)
    (hok : loadLine max_gap_length st l = Except.ok st1) :
    IndexAll (fun _ p => 1 ≤ p.obj.aligment_start_pos) st1.alignments_starting_at := by
  obtain ⟨alleles, h, parts, -, hhack, hsplit, hne, -, hcase⟩ :=
    loadLine_ok max_gap_length st st1 l hok
  have hge : 1 ≤ h.aligment_start_pos := by
    obtain ⟨-, e2, -⟩ := startZeroHack_ok _ h hhack
    rw [e2]
    simp only [newStartingHaplotype]
    split_ifs with hz
    · exact le_refl 1
    · have : (0 : Int) ≤ ((l.start % UINT_RANGE : Nat) : Int) := Int.natCast_nonneg _
      omega
  rcases hcase with ⟨-, hi, -⟩ | ⟨hlen, hi, -⟩
  · rw [hi]
    apply indexAll_publishParts _ _ _ _ hidx
    intro hP hmem addr
    obtain ⟨pre, post, -, hs, -⟩ := splitAlignment_positions max_gap_length h parts
      (by omega) hsplit hP hmem
    show 1 ≤ hP.aligment_start_pos
    rw [hs]
    have : (0 : Int) ≤ (nonGapCount pre : Int) := Int.natCast_nonneg _
    omega
  · rw [hi]
    exact indexAll_pushBack _ _ _ _ hidx hge

theorem loadLines_start_pos (max_gap_length : Int) :
    ∀ (lines : List AlignmentLine) (st st1 : LoaderState),
      IndexAll (fun _ p => 1 ≤ p.obj.aligment_start_pos) st.alignments_starting_at →
      loadLines max_gap_length lines st = Except.ok st1 →
      IndexAll (fun _ p => 1 ≤ p.obj.aligment_start_pos) st1.alignments_starting_at
  | [], st, st1, hidx, hok => by
    simp only [loadLines, Except.ok.injEq] at hok
    rw [← hok]; exact hidx
  | l :: rest, st, st1, hidx, hok => by
    simp only [loadLines] at hok
    cases hl : loadLine max_gap_length st l with
    | error e => rw [hl] at hok; simp at hok
    | ok st2 =>
      rw [hl] at hok
      exact loadLines_start_pos max_gap_length rest st2 st1
        (loadLine_start_pos max_gap_length st st2 l hidx hl) hok

/-- No alignment of an index that the loader published and the gap-structure
builder accepted starts at position 0. -/
theorem indexAt_zero (max_gap_length : Int) (lines : List AlignmentLine) (lst : LoaderState)
    (R : List Char) (G C : List Int)
    (hload : loader max_gap_length lines = Except.ok lst)
    (hbuild : buildGapStructure R lst.alignments_starting_at = Except.ok (G, C)) :
    indexAt lst.alignments_starting_at 0 = [] := by
  apply List.eq_nil_iff_forall_not_mem.2
  intro a ha
  have hsync := (indexSync_of_loaded max_gap_length lines lst R G C hload hbuild 0 a ha).2
  obtain ⟨v, hm, hv⟩ := mem_indexAt _ 0 a ha
  have hstart : IndexAll (fun _ p => 1 ≤ p.obj.aligment_start_pos) lst.alignments_starting_at :=
    loadLines_start_pos max_gap_length lines loaderInit lst
      (by intro key v hmem; simp [loaderInit] at hmem) hload
  have := hstart 0 v hm a hv
  simp only at this
  rw [hsync] at this
  simp at this

/-- What the entry recombination needs holds in every iteration `posI > 0` of
a run: the open haplotypes start before `posI`, there is at least one, and the
gap structure has the length of the reference and no count below `-1`. -/
theorem entry_preconditions (max_gap_length : Int) (lines : List AlignmentLine)
    (lst : LoaderState) (max : Nat) (refID R : List Char) (G C : List Int) (posI : Nat)
    (st : EnumeratorState) (caughtUp : List openHaplotype)
    (hload : loader max_gap_length lines = Except.ok lst)
    (hbuild : buildGapStructure R lst.alignments_starting_at = Except.ok (G, C))
    (hloop : enumeratorLoop max refID R lst.alignments_starting_at G (List.range posI)
      enumeratorInit = Except.ok st)
    (hcu : catchUp G posI (deduplicate st).open_haplotypes = Except.ok caughtUp)
    (hpos : 0 < posI) :
    (∃ s : Nat, (deduplicate st).start_open_haplotypes = (s : Int) ∧ s < posI) ∧
    0 < caughtUp.length ∧ G.length = R.length ∧ ∀ g ∈ G, -1 ≤ g := by
  have hsync := indexSync_of_loaded max_gap_length lines lst R G C hload hbuild
  obtain ⟨s, len, hs, -, -, hp, -⟩ :=
    enumeratorLoop_before max refID R _ G hsync posI st hloop
  obtain ⟨-, hGl, -⟩ := buildGapStructure_ok R _ G C hbuild
  refine ⟨⟨s, by rw [(deduplicate_output st).2, hs], (hp hpos).1⟩, ?_, hGl,
    gapStructure_ge R _ G C hbuild⟩
  obtain ⟨n, rfl⟩ : ∃ n, posI = n + 1 := ⟨posI - 1, by omega⟩
  obtain ⟨s1, c0, seq, cur, rest, -, -, -, hopen, -⟩ :=
    anchored_loop max refID R _ G n st hloop
  obtain ⟨⟨rest1, hd⟩, -, -⟩ := deduplicate_head st _ _ hopen
  rw [hd] at hcu
  obtain ⟨k, rest2, hout⟩ := catchUp_head G (n + 1) seq cur rest1 caughtUp hcu
  rw [hout]
  simp


/-- C23. With `n > 0` open haplotypes before step 4 and `m` incoming alignments
that are all accepted (the cap test of line 792 passes for each), step 4
appends, for each incoming alignment `H` in the order of the index, the `n`
triples `(seq of the i-th open haplotype, H, -1)` and then `(P, H, -1)`, where
`P` is `referenceSlice`: the characters `R[i]` for `i` from
`start_open_haplotypes` to `posI - 1`, each followed by `G[i]` dashes. The open
haplotypes that were there stay in front, unchanged, the copies are made from
them only, and the size becomes `n + m (n + 1)`. In a run of the program on a
loaded index the conditions of the block hold, so step 4 returns this
result. -/
theorem entry_recombination :
    (∀ (max : Nat) (R : List Char) (G : List Int) (posI s : Nat) (st : EnumeratorState)
        (news : List HapPtr),
      st.start_open_haplotypes = (s : Int) → s < posI → posI ≤ R.length → posI ≤ G.length →
      (∀ g ∈ G, -1 ≤ g) → 0 < st.open_haplotypes.length →
      (∀ j < news.length,
        st.open_haplotypes.length + j * (st.open_haplotypes.length + 1) ≤ max) →
      enterHaplotypes max R G posI st.open_haplotypes.length news st =
        Except.ok
          { st with
            open_haplotypes :=
              st.open_haplotypes ++
                news.flatMap (entriesFor st.open_haplotypes (referenceSlice R G s posI))
            modifiedLastPos := st.modifiedLastPos || !news.isEmpty } ∧
      (st.open_haplotypes ++
          news.flatMap (entriesFor st.open_haplotypes (referenceSlice R G s posI))).length
        = st.open_haplotypes.length + news.length * (st.open_haplotypes.length + 1)) ∧
    (∀ (max_gap_length : Int) (lines : List AlignmentLine) (lst : LoaderState) (max : Nat)
        (refID R : List Char) (G C : List Int) (posI : Nat) (st : EnumeratorState)
        (caughtUp : List openHaplotype) (refC : Char),
      loader max_gap_length lines = Except.ok lst →
      buildGapStructure R lst.alignments_starting_at = Except.ok (G, C) →
      enumeratorLoop max refID R lst.alignments_starting_at G (List.range posI) enumeratorInit
        = Except.ok st →
      catchUp G posI (deduplicate st).open_haplotypes = Except.ok caughtUp →
      R[posI]? = some refC →
      (∀ j < (indexAt lst.alignments_starting_at posI).length,
        caughtUp.length + j * (caughtUp.length + 1) ≤ max) →
      ∃ s : Nat, (deduplicate st).start_open_haplotypes = (s : Int) ∧
        enterHaplotypes max R G posI caughtUp.length (indexAt lst.alignments_starting_at posI)
            { deduplicate st with open_haplotypes := caughtUp } =
          Except.ok
            { deduplicate st with
              open_haplotypes :=
                caughtUp ++
                  (indexAt lst.alignments_starting_at posI).flatMap
                    (entriesFor caughtUp (referenceSlice R G s posI))
              modifiedLastPos :=
                (deduplicate st).modifiedLastPos ||
                  !(indexAt lst.alignments_starting_at posI).isEmpty }) := by
  constructor
  · intro max R G posI s st news hs hlt hR hGl hG hn hcap
    refine ⟨enterHaplotypes_accepted max R G posI s st.open_haplotypes hn hlt hR hGl hG news st
      (List.take_length _) hs hcap, ?_⟩
    rw [List.length_append, length_flatMap_entriesFor]
  · intro max_gap_length lines lst max refID R G C posI st caughtUp refC hload hbuild hloop hcu
      hR hcap
    rcases Nat.eq_zero_or_pos posI with hz | hpos
    · subst hz
      have hsync := indexSync_of_loaded max_gap_length lines lst R G C hload hbuild
      obtain ⟨s, len, hs, -, -, -, -⟩ :=
        enumeratorLoop_before max refID R _ G hsync 0 st hloop
      refine ⟨s, by rw [(deduplicate_output st).2, hs], ?_⟩
      rw [indexAt_zero max_gap_length lines lst R G C hload hbuild]
      simp [enterHaplotypes]
    · obtain ⟨⟨s, hs, hlt⟩, hn, hGl, hG⟩ := entry_preconditions max_gap_length lines lst max
        refID R G C posI st caughtUp hload hbuild hloop hcu hpos
      have hRl : posI < R.length := (List.getElem?_eq_some_iff.1 hR).1
      refine ⟨s, hs, ?_⟩
      exact enterHaplotypes_accepted max R G posI s caughtUp hn hlt (by omega) (by omega) hG
        (indexAt lst.alignments_starting_at posI)
        { deduplicate st with open_haplotypes := caughtUp } (List.take_length _) hs hcap


/-- C23 at iteration 3 of the run on `exampleVariantIndex`: two open
haplotypes and one incoming alignment give five open haplotypes, and the
reference sequence of the last one is `AC`. -/
theorem entry_recombination_witness :
    exampleVariantState.start_open_haplotypes = ((1 : Nat) : Int) ∧
    referenceSlice "TACGTA".toList [-1, 0, 0, 1, -1, -1] 1 3 = "AC".toList ∧
    (enterHaplotypes 5000 "TACGTA".toList [-1, 0, 0, 1, -1, -1] 3
        exampleVariantState.open_haplotypes.length (indexAt exampleVariantIndex 3)
        exampleVariantState =
      Except.ok
        { exampleVariantState with
          open_haplotypes :=
            exampleVariantState.open_haplotypes ++
              (indexAt exampleVariantIndex 3).flatMap
                (entriesFor exampleVariantState.open_haplotypes
                  (referenceSlice "TACGTA".toList [-1, 0, 0, 1, -1, -1] 1 3))
          modifiedLastPos :=
            exampleVariantState.modifiedLastPos || !(indexAt exampleVariantIndex 3).isEmpty } ∧
      (exampleVariantState.open_haplotypes ++
          (indexAt exampleVariantIndex 3).flatMap
            (entriesFor exampleVariantState.open_haplotypes
              (referenceSlice "TACGTA".toList [-1, 0, 0, 1, -1, -1] 1 3))).length
        = exampleVariantState.open_haplotypes.length +
            (indexAt exampleVariantIndex 3).length *
              (exampleVariantState.open_haplotypes.length + 1)) :=
  ⟨rfl, rfl,
    entry_recombination.1 5000 "TACGTA".toList [-1, 0, 0, 1, -1, -1] 3 1 exampleVariantState
      (indexAt exampleVariantIndex 3) rfl (by decide) (by decide) (by decide) (by decide)
      (by decide) (by decide)⟩

/-! ## The exit recombination, step by step -/

theorem mem_allKeys : ∀ (haps : List openHaplotype) (keys : List (List Char)) (key : List Char),
    key ∈ allKeys haps keys ↔ key ∈ keys ∨ key ∈ haps.map haplotype_key
  | [], keys, key => by simp [allKeys]
  | h :: rest, keys, key => by
    rw [allKeys, mem_allKeys rest, mem_setInsert]
    simp only [List.map_cons, List.mem_cons]
    tauto

theorem exitTrace_congr (max : Nat) (snap : List openHaplotype) (flag : Bool)
    (done : Nat → Prop) (cand cand1 : Nat → Nat → Prop) (es : ExitState)
    (added : List openHaplotype)
    (h1 : ∀ k j x, cand k j → RecombinantOf snap k j x → cand1 k j)
    (h2 : ∀ k j x, cand1 k j → RecombinantOf snap k j x → cand k j)
    (htr : ExitTrace max snap flag done cand es added) :
    ExitTrace max snap flag done cand1 es added := by
  refine ⟨htr.kept, htr.switched, htr.appended, htr.size, htr.exited, htr.keys, htr.fresh, ?_, ?_,
    htr.flagged⟩
  · intro x hx
    obtain ⟨k, j, hc, hr⟩ := htr.recombinant x hx
    exact ⟨k, j, h1 k j x hc hr, hr⟩
  · intro hsz k j x hc hr
    exact htr.complete hsz k j x (h2 k j x hc hr) hr

/-- One pass through the inner loop of the exit recombination (lines 913-982)
for the exhausted haplotype `k` and the index `j`: it does not fail, and it
appends the recombinant of `k` and `j` when `j` is another haplotype that is
not exhausted, the key of the recombinant is new and the cap allows it. -/
theorem exitInner_trace (max : Nat) (snap : List openHaplotype) (flag : Bool)
    (done : Nat → Prop) (cand : Nat → Nat → Prop) (es : ExitState) (added : List openHaplotype)
    (k j : Nat) (hk : k < snap.length) (hj : j < snap.length) (hdk : done k)
    (hxk : isExhausted snap[k] = true)
    (htr : ExitTrace max snap flag done cand es added) :
    ∃ es1 added1, exitInner max k es j = Except.ok es1 ∧
      ExitTrace max snap flag done (fun k1 j1 => cand k1 j1 ∨ (k1 = k ∧ j1 = j)) es1 added1 := by
  have hsk : snap[k]? = some snap[k] := List.getElem?_eq_getElem hk
  have hsj : snap[j]? = some snap[j] := List.getElem?_eq_getElem hj
  have hgk := htr.switched k _ hsk hdk hxk
  -- the state is unchanged and the pair needs nothing
  have same : (∀ x, RecombinantOf snap k j x → es.open_haplotypes.length ≤ max →
        haplotype_key x ∈ (snap ++ added).map haplotype_key) →
      ExitTrace max snap flag done (fun k1 j1 => cand k1 j1 ∨ (k1 = k ∧ j1 = j)) es added := by
    intro hnew
    refine ⟨htr.kept, htr.switched, htr.appended, htr.size, htr.exited, htr.keys, htr.fresh,
      ?_, ?_, htr.flagged⟩
    · intro x hx
      obtain ⟨k1, j1, hc, hr⟩ := htr.recombinant x hx
      exact ⟨k1, j1, Or.inl hc, hr⟩
    · intro hsz k1 j1 x hc hr
      rcases hc with hc | ⟨rfl, rfl⟩
      · exact htr.complete hsz k1 j1 x hc hr
      · exact hnew x hr hsz
  unfold exitInner
  rw [hgk]
  simp only
  by_cases hjk : j = k
  · rw [if_pos hjk]
    refine ⟨es, added, rfl, same ?_⟩
    rintro x ⟨hk1, hj1, -, -, hne, -⟩
    exact absurd hjk hne
  · rw [if_neg hjk]
    by_cases hex : j ∈ es.exitedHaplotype
    · rw [if_pos hex]
      refine ⟨es, added, rfl, same ?_⟩
      rintro x ⟨hk1, hj1, -, -, -, hsj1, hnx, -⟩
      obtain ⟨-, h, hsh, hxh⟩ := (htr.exited j).1 hex
      rw [hsj1] at hsh
      rw [Option.some.inj hsh, hxh] at hnx
      cases hnx
    · rw [if_neg hex]
      have hnd : ¬ (done j ∧ isExhausted snap[j] = true) := by
        intro hd
        exact hex ((htr.exited j).2 ⟨hd.1, _, hsj, hd.2⟩)
      have hgj := htr.kept j _ hsj hnd
      rw [hgj]
      simp only [switchToReference]
      by_cases hxj : isExhausted ((snap[k]).1, (snap[j]).2.1, (snap[j]).2.2) = false
      · rw [if_pos hxj]
        have hrec : RecombinantOf snap k j ((snap[k]).1, (snap[j]).2.1, (snap[j]).2.2) :=
          ⟨_, _, hsk, hxk, hjk, hsj, hxj, rfl⟩
        have huniq : ∀ x, RecombinantOf snap k j x →
            x = ((snap[k]).1, (snap[j]).2.1, (snap[j]).2.2) := by
          rintro x ⟨hk1, hj1, h1, -, -, h2, -, rfl⟩
          rw [hsk] at h1
          rw [hsj] at h2
          rw [← Option.some.inj h1, ← Option.some.inj h2]
        have hkeys : es.inner_open_haplotypes_keys ≠ [] ∧
            ∀ key, key ∈ es.inner_open_haplotypes_keys ↔
              key ∈ (snap ++ added).map haplotype_key := by
          rcases htr.keys with ⟨-, -, hnone⟩ | h
          · have := (htr.exited k).2 ⟨hdk, _, hsk, hxk⟩
            rw [hnone] at this
            simp at this
          · exact h
        by_cases hin : haplotype_key ((snap[k]).1, (snap[j]).2.1, (snap[j]).2.2)
            ∈ es.inner_open_haplotypes_keys
        · rw [if_neg (by simpa using hin)]
          refine ⟨es, added, rfl, same ?_⟩
          intro x hx _
          rw [huniq x hx]
          exact (hkeys.2 _).1 hin
        · rw [if_pos hin]
          by_cases hcap : es.open_haplotypes.length ≤ max
          · rw [if_pos hcap]
            refine ⟨_, added ++ [((snap[k]).1, (snap[j]).2.1, (snap[j]).2.2)], rfl, ?_⟩
            have hlt : ∀ i, i < snap.length → i < es.open_haplotypes.length :=
              fun i hi => lt_of_lt_of_le hi htr.size
            refine ⟨?_, ?_, ?_, ?_, htr.exited, Or.inr ⟨?_, ?_⟩, ?_, ?_, ?_, htr.flagged⟩
            · intro i h hi hn
              have hil := (List.getElem?_eq_some_iff.1 hi).1
              show (es.open_haplotypes ++ _)[i]? = _
              rw [List.getElem?_append_left (hlt i hil)]
              exact htr.kept i h hi hn
            · intro i h hi hd hx
              have hil := (List.getElem?_eq_some_iff.1 hi).1
              show (es.open_haplotypes ++ _)[i]? = _
              rw [List.getElem?_append_left (hlt i hil)]
              exact htr.switched i h hi hd hx
            · show (es.open_haplotypes ++ _).drop snap.length = _
              rw [List.drop_append_of_le_length htr.size, htr.appended]
            · show snap.length ≤ (es.open_haplotypes ++ _).length
              rw [List.length_append]
              have := htr.size
              omega
            · show setInsert _ es.inner_open_haplotypes_keys ≠ []
              intro hnil
              have : haplotype_key ((snap[k]).1, (snap[j]).2.1, (snap[j]).2.2)
                  ∈ setInsert (haplotype_key ((snap[k]).1, (snap[j]).2.1, (snap[j]).2.2))
                      es.inner_open_haplotypes_keys :=
                (mem_setInsert _ _ _).2 (Or.inl rfl)
              rw [hnil] at this
              simp at this
            · intro key
              show key ∈ setInsert _ es.inner_open_haplotypes_keys ↔ _
              rw [mem_setInsert, hkeys.2]
              simp only [List.map_append, List.mem_append, List.map_cons, List.map_nil,
                List.mem_singleton]
              tauto
            · intro pre x post he
              rcases List.eq_nil_or_concat post with hp | ⟨post1, y, hp⟩
              · subst hp
                have he2 : added ++ [((snap[k]).1, (snap[j]).2.1, (snap[j]).2.2)]
                    = pre ++ [x] := he
                obtain ⟨e1, e2⟩ := List.append_inj' he2 rfl
                simp only [List.cons.injEq, and_true] at e2
                rw [← e1, ← e2]
                intro hm
                exact hin ((hkeys.2 _).2 hm)
              · subst hp
                have he2 : added ++ [((snap[k]).1, (snap[j]).2.1, (snap[j]).2.2)]
                    = (pre ++ x :: post1) ++ [y] := by
                  rw [he]; simp
                obtain ⟨e1, -⟩ := List.append_inj' he2 rfl
                exact htr.fresh pre x post1 e1
            · intro x hx
              rcases List.mem_append.1 hx with hx | hx
              · obtain ⟨k1, j1, hc, hr⟩ := htr.recombinant x hx
                exact ⟨k1, j1, Or.inl hc, hr⟩
              · rw [List.mem_singleton.1 hx]
                exact ⟨k, j, Or.inr ⟨rfl, rfl⟩, hrec⟩
            · intro hsz k1 j1 x hc hr
              have hsz0 : es.open_haplotypes.length ≤ max := hcap
              rcases hc with hc | ⟨rfl, rfl⟩
              · have := htr.complete hsz0 k1 j1 x hc hr
                simp only [List.map_append, List.mem_append] at this ⊢
                tauto
              · rw [huniq x hr]
                simp
          · rw [if_neg hcap]
            refine ⟨es, added, rfl, same ?_⟩
            intro x _ hsz
            exact absurd hsz hcap
      · rw [if_neg hxj]
        refine ⟨es, added, rfl, same ?_⟩
        rintro x ⟨hk1, hj1, -, -, -, hsj1, hnx, -⟩ _
        rw [hsj] at hsj1
        rw [← Option.some.inj hsj1] at hnx
        exact absurd hnx hxj

theorem exitInnerLoop_trace (max : Nat) (snap : List openHaplotype) (flag : Bool)
    (done : Nat → Prop) (k : Nat) (hk : k < snap.length) (hdk : done k)
    (hxk : isExhausted snap[k] = true) :
    ∀ (js : List Nat) (cand : Nat → Nat → Prop) (es : ExitState) (added : List openHaplotype),
      (∀ j ∈ js, j < snap.length) →
      ExitTrace max snap flag done cand es added →
      ∃ es1 added1, exitInnerLoop max k js es = Except.ok es1 ∧
        ExitTrace max snap flag done (fun k1 j1 => cand k1 j1 ∨ (k1 = k ∧ j1 ∈ js)) es1 added1
  | [], cand, es, added, _, htr => by
    refine ⟨es, added, rfl, ?_⟩
    exact exitTrace_congr max snap flag done cand _ es added
      (fun _ _ _ hc _ => Or.inl hc)
      (fun _ _ _ hc _ => by
        rcases hc with hc | ⟨-, hc⟩
        · exact hc
        · simp at hc) htr
  | j :: rest, cand, es, added, hjs, htr => by
    obtain ⟨es1, added1, h1, htr1⟩ := exitInner_trace max snap flag done cand es added k j hk
      (hjs j (List.mem_cons_self _ _)) hdk hxk htr
    obtain ⟨es2, added2, h2, htr2⟩ := exitInnerLoop_trace max snap flag done k hk hdk hxk rest _
      es1 added1 (fun x hx => hjs x (List.mem_cons_of_mem _ hx)) htr1
    refine ⟨es2, added2, ?_, ?_⟩
    · simp only [exitInnerLoop, h1, h2]
    · refine exitTrace_congr max snap flag done _ _ es2 added2 ?_ ?_ htr2
      · intro k1 j1 _ hc _
        rcases hc with (hc | ⟨e1, e2⟩) | ⟨e1, e2⟩
        · exact Or.inl hc
        · exact Or.inr ⟨e1, by rw [e2]; exact List.mem_cons_self _ _⟩
        · exact Or.inr ⟨e1, List.mem_cons_of_mem _ e2⟩
      · intro k1 j1 _ hc _
        rcases hc with hc | ⟨e1, e2⟩
        · exact Or.inl (Or.inl hc)
        · rcases List.mem_cons.1 e2 with e2 | e2
          · exact Or.inl (Or.inr ⟨e1, e2⟩)
          · exact Or.inr ⟨e1, e2⟩

/-- One pass through the outer loop of the exit recombination (lines 877-992)
at the index `k` of the snapshot: it does not fail; an exhausted haplotype is
switched to the reference in place and the inner loop runs when the cap allows
it; a haplotype that is not exhausted is left as it is. -/
theorem exitOuter_trace (max : Nat) (snap : List openHaplotype) (flag : Bool)
    (done : Nat → Prop) (es : ExitState) (added : List openHaplotype) (k : Nat)
    (hk : k < snap.length)
    (htr : ExitTrace max snap flag done (fun k1 _ => done k1) es added) :
    ∃ es1 added1, exitOuter max snap.length es k = Except.ok es1 ∧
      ExitTrace max snap flag (fun i => done i ∨ i = k) (fun k1 _ => done k1 ∨ k1 = k)
        es1 added1 := by
  have hsk : snap[k]? = some snap[k] := List.getElem?_eq_getElem hk
  have hkl : k < es.open_haplotypes.length := lt_of_lt_of_le hk htr.size
  unfold exitOuter
  by_cases hcase : done k ∧ isExhausted snap[k] = true
  · -- visited before: the haplotype is on the reference already
    rw [htr.switched k _ hsk hcase.1 hcase.2]
    simp only [switchToReference, isExhausted, Bool.false_eq_true, if_false]
    refine ⟨es, added, rfl, ?_⟩
    refine ⟨?_, ?_, htr.appended, htr.size, ?_, htr.keys, htr.fresh, ?_, ?_, htr.flagged⟩
    · intro i h hi hn
      exact htr.kept i h hi (fun hd => hn ⟨Or.inl hd.1, hd.2⟩)
    · intro i h hi hd hx
      rcases hd with hd | rfl
      · exact htr.switched i h hi hd hx
      · exact htr.switched i h hi hcase.1 hx
    · intro i
      rw [htr.exited i]
      constructor
      · rintro ⟨hd, hh⟩
        exact ⟨Or.inl hd, hh⟩
      · rintro ⟨hd | rfl, hh⟩
        · exact ⟨hd, hh⟩
        · exact ⟨hcase.1, hh⟩
    · intro x hx
      obtain ⟨k1, j1, hc, hr⟩ := htr.recombinant x hx
      exact ⟨k1, j1, Or.inl hc, hr⟩
    · intro hsz k1 j1 x hc hr
      rcases hc with hc | rfl
      · exact htr.complete hsz k1 j1 x hc hr
      · exact htr.complete hsz k1 j1 x hcase.1 hr
  · rw [htr.kept k _ hsk hcase]
    simp only
    by_cases hx : isExhausted snap[k] = true
    · rw [if_pos hx]
      have hnd : ¬ done k := fun hd => hcase ⟨hd, hx⟩
      -- the state after the switch
      have htr1 : ExitTrace max snap flag (fun i => done i ∨ i = k) (fun k1 _ => done k1)
          { open_haplotypes := es.open_haplotypes.set k ((snap[k]).1, none, -1)
            inner_open_haplotypes_keys :=
              if es.inner_open_haplotypes_keys.length = 0 then allKeys es.open_haplotypes []
              else es.inner_open_haplotypes_keys
            exitedHaplotype := k :: es.exitedHaplotype
            modifiedLastPos := true } added := by
        refine ⟨?_, ?_, ?_, ?_, ?_, Or.inr ⟨?_, ?_⟩, htr.fresh, htr.recombinant, ?_, ?_⟩
        · intro i h hi hn
          have hik : k ≠ i := by
            rintro rfl
            rw [hsk] at hi
            exact hn ⟨Or.inr rfl, by rw [← Option.some.inj hi]; exact hx⟩
          show (es.open_haplotypes.set k _)[i]? = _
          rw [List.getElem?_set_ne hik]
          exact htr.kept i h hi (fun hd => hn ⟨Or.inl hd.1, hd.2⟩)
        · intro i h hi hd hxh
          show (es.open_haplotypes.set k _)[i]? = _
          by_cases hik : k = i
          · subst hik
            rw [hsk] at hi
            rw [List.getElem?_set_self hkl, ← Option.some.inj hi]
            rfl
          · rw [List.getElem?_set_ne hik]
            rcases hd with hd | hd
            · exact htr.switched i h hi hd hxh
            · exact absurd hd.symm hik
        · show (es.open_haplotypes.set k _).drop snap.length = _
          rw [List.drop_set_of_lt _ _ hk]
          exact htr.appended
        · show snap.length ≤ (es.open_haplotypes.set k _).length
          rw [List.length_set]
          exact htr.size
        · intro i
          show i ∈ k :: es.exitedHaplotype ↔ _
          rw [List.mem_cons, htr.exited i]
          constructor
          · rintro (rfl | ⟨hd, hh⟩)
            · exact ⟨Or.inr rfl, _, hsk, hx⟩
            · exact ⟨Or.inl hd, hh⟩
          · rintro ⟨hd | rfl, hh⟩
            · exact Or.inr ⟨hd, hh⟩
            · exact Or.inl rfl
        · show (if es.inner_open_haplotypes_keys.length = 0 then allKeys es.open_haplotypes []
              else es.inner_open_haplotypes_keys) ≠ []
          rcases htr.keys with ⟨h1, h2, -⟩ | ⟨h1, -⟩
          · rw [h1, h2]
            simp only [List.length_nil, if_true]
            intro hnil
            have : haplotype_key snap[k] ∈ allKeys snap [] :=
              (mem_allKeys _ _ _).2 (Or.inr (List.mem_map_of_mem _ (List.getElem_mem hk)))
            rw [hnil] at this
            simp at this
          · rw [if_neg (fun h0 => h1 (List.eq_nil_of_length_eq_zero h0))]
            exact h1
        · intro key
          show key ∈ (if es.inner_open_haplotypes_keys.length = 0 then
              allKeys es.open_haplotypes [] else es.inner_open_haplotypes_keys) ↔ _
          rcases htr.keys with ⟨h1, h2, -⟩ | ⟨h1, h3⟩
          · have ha : added = [] := by
              rw [← htr.appended, h2]
              simp
            rw [h1, h2, ha]
            simp only [List.length_nil, if_true, List.append_nil]
            rw [mem_allKeys]
            simp
          · rw [if_neg (fun h0 => h1 (List.eq_nil_of_length_eq_zero h0))]
            exact h3 key
        · intro hsz k1 j1 x hc hr
          have hsz0 : es.open_haplotypes.length ≤ max := by
            have : (es.open_haplotypes.set k ((snap[k]).1, none, -1)).length ≤ max := hsz
            rw [List.length_set] at this
            exact this
          exact htr.complete hsz0 k1 j1 x hc hr
        · show true = (flag || !(k :: es.exitedHaplotype).isEmpty)
          simp
      by_cases hcap : (es.open_haplotypes.set k ((snap[k]).1, none, -1)).length ≤ max
      · rw [if_pos hcap]
        obtain ⟨es2, added2, h2, htr2⟩ := exitInnerLoop_trace max snap flag
          (fun i => done i ∨ i = k) k hk (Or.inr rfl) hx (List.range snap.length) _ _ added
          (fun j hj => List.mem_range.1 hj) htr1
        refine ⟨es2, added2, h2, ?_⟩
        refine exitTrace_congr max snap flag _ _ _ es2 added2 ?_ ?_ htr2
        · intro k1 j1 _ hc _
          rcases hc with hc | ⟨e1, -⟩
          · exact Or.inl hc
          · exact Or.inr e1
        · rintro k1 j1 x hc ⟨hk1, hj1, -, -, -, hsj, -, -⟩
          rcases hc with hc | hc
          · exact Or.inl hc
          · exact Or.inr ⟨hc, List.mem_range.2 (List.getElem?_eq_some_iff.1 hsj).1⟩
      · rw [if_neg hcap]
        refine ⟨_, added, rfl, ?_⟩
        refine ⟨htr1.kept, htr1.switched, htr1.appended, htr1.size, htr1.exited, htr1.keys,
          htr1.fresh, ?_, ?_, htr1.flagged⟩
        · intro x hx1
          obtain ⟨k1, j1, hc, hr⟩ := htr1.recombinant x hx1
          exact ⟨k1, j1, Or.inl hc, hr⟩
        · intro hsz
          exact absurd hsz hcap
    · rw [if_neg hx]
      refine ⟨es, added, rfl, ?_⟩
      refine ⟨?_, ?_, htr.appended, htr.size, ?_, htr.keys, htr.fresh, ?_, ?_, htr.flagged⟩
      · intro i h hi hn
        apply htr.kept i h hi
        exact fun hd => hn ⟨Or.inl hd.1, hd.2⟩
      · intro i h hi hd hxh
        rcases hd with hd | rfl
        · exact htr.switched i h hi hd hxh
        · rw [hsk] at hi
          rw [← Option.some.inj hi] at hxh
          exact absurd hxh hx
      · intro i
        rw [htr.exited i]
        constructor
        · rintro ⟨hd, hh⟩
          exact ⟨Or.inl hd, hh⟩
        · rintro ⟨hd | rfl, h, hi, hxh⟩
          · exact ⟨hd, h, hi, hxh⟩
          · rw [hsk] at hi
            rw [← Option.some.inj hi] at hxh
            exact absurd hxh hx
      · intro x hx1
        obtain ⟨k1, j1, hc, hr⟩ := htr.recombinant x hx1
        exact ⟨k1, j1, Or.inl hc, hr⟩
      · rintro hsz k1 j1 x hc ⟨hk1, hj1, hsk1, hxk1, hne, hsj, hxj, rfl⟩
        rcases hc with hc | rfl
        · exact htr.complete hsz k1 j1 _ hc ⟨hk1, hj1, hsk1, hxk1, hne, hsj, hxj, rfl⟩
        · rw [hsk] at hsk1
          rw [← Option.some.inj hsk1] at hxk1
          exact absurd hxk1 hx

theorem exitOuterLoop_trace (max : Nat) (snap : List openHaplotype) (flag : Bool) :
    ∀ (ks : List Nat) (done : Nat → Prop) (es : ExitState) (added : List openHaplotype),
      (∀ k ∈ ks, k < snap.length) →
      ExitTrace max snap flag done (fun k1 _ => done k1) es added →
      ∃ es1 added1, exitOuterLoop max snap.length ks es = Except.ok es1 ∧
        ExitTrace max snap flag (fun i => done i ∨ i ∈ ks) (fun k1 _ => done k1 ∨ k1 ∈ ks)
          es1 added1
  | [], done, es, added, _, htr => by
    refine ⟨es, added, rfl, ?_⟩
    have e : (fun i => done i ∨ i ∈ ([] : List Nat)) = done := by
      funext i; simp
    have e2 : (fun k1 (_ : Nat) => done k1 ∨ k1 ∈ ([] : List Nat)) = (fun k1 _ => done k1) := by
      funext k1 _; simp
    rw [e, e2]
    exact htr
  | k :: rest, done, es, added, hks, htr => by
    obtain ⟨es1, added1, h1, htr1⟩ := exitOuter_trace max snap flag done es added k
      (hks k (List.mem_cons_self _ _)) htr
    obtain ⟨es2, added2, h2, htr2⟩ := exitOuterLoop_trace max snap flag rest _ es1 added1
      (fun x hx => hks x (List.mem_cons_of_mem _ hx)) htr1
    refine ⟨es2, added2, ?_, ?_⟩
    · simp only [exitOuterLoop, h1, h2]
    · have e : (fun i => (done i ∨ i = k) ∨ i ∈ rest) = (fun i => done i ∨ i ∈ k :: rest) := by
        funext i; simp [or_assoc]
      have e2 : (fun k1 (_ : Nat) => (done k1 ∨ k1 = k) ∨ k1 ∈ rest)
          = (fun k1 _ => done k1 ∨ k1 ∈ k :: rest) := by
        funext k1 _; simp [or_assoc]
      rw [← e, ← e2]
      exact htr2

/-- Lines 871-993: the exit recombination does not fail. Every exhausted
haplotype of the open set `snap` at its start is switched to the reference in
place, the others stay as they are, and recombinants are appended behind
them. -/
theorem exitRecombination_trace (max : Nat) (st : EnumeratorState) :
    ∃ st1 added, exitRecombination max st = Except.ok st1 ∧
      st1.open_haplotypes =
        st.open_haplotypes.map (fun h => if isExhausted h = true then switchToReference h else h)
          ++ added ∧
      st1.start_open_haplotypes = st.start_open_haplotypes ∧
      st1.outputStream = st.outputStream ∧
      st1.modifiedLastPos = (st.modifiedLastPos || st.open_haplotypes.any isExhausted) ∧
      (∀ x ∈ added, ∃ k j, RecombinantOf st.open_haplotypes k j x) ∧
      (∀ pre x post, added = pre ++ x :: post →
        haplotype_key x ∉ (st.open_haplotypes ++ pre).map haplotype_key) ∧
      (st1.open_haplotypes.length ≤ max → ∀ k j x, RecombinantOf st.open_haplotypes k j x →
        haplotype_key x ∈ (st.open_haplotypes ++ added).map haplotype_key) := by
  have h0 : ExitTrace max st.open_haplotypes st.modifiedLastPos (fun _ => False)
      (fun _ _ => False)
      { open_haplotypes := st.open_haplotypes
        inner_open_haplotypes_keys := []
        exitedHaplotype := []
        modifiedLastPos := st.modifiedLastPos } [] := by
    refine ⟨fun i h hi _ => hi, fun i h _ hd _ => absurd hd id, by simp, le_refl _, by simp,
      Or.inl ⟨rfl, rfl, rfl⟩, ?_, by simp, fun _ k j x hc _ => absurd hc id, by simp⟩
    intro pre x post he
    simp at he
  obtain ⟨es, added, hloop, htr⟩ := exitOuterLoop_trace max st.open_haplotypes st.modifiedLastPos
    (List.range st.open_haplotypes.length) _ _ [] (fun k hk => List.mem_range.1 hk) h0
  have hdone : ∀ i h, st.open_haplotypes[i]? = some h → (False ∨ i ∈ List.range
      st.open_haplotypes.length) := by
    intro i h hi
    exact Or.inr (List.mem_range.2 (List.getElem?_eq_some_iff.1 hi).1)
  refine ⟨{ st with open_haplotypes := es.open_haplotypes, modifiedLastPos := es.modifiedLastPos },
    added, ?_, ?_, rfl, rfl, ?_, ?_, htr.fresh, ?_⟩
  · unfold exitRecombination
    rw [hloop]
  · show es.open_haplotypes = _
    rw [← List.take_append_drop st.open_haplotypes.length es.open_haplotypes, htr.appended]
    congr 1
    apply List.ext_getElem?
    intro i
    rw [List.getElem?_take, List.getElem?_map]
    by_cases hi : i < st.open_haplotypes.length
    · rw [if_pos hi]
      have hsi : st.open_haplotypes[i]? = some st.open_haplotypes[i] :=
        List.getElem?_eq_getElem hi
      rw [hsi]
      simp only [Option.map_some']
      by_cases hx : isExhausted st.open_haplotypes[i] = true
      · rw [if_pos hx]
        exact htr.switched i _ hsi (hdone i _ hsi) hx
      · rw [if_neg hx]
        exact htr.kept i _ hsi (fun hd => hx hd.2)
    · rw [if_neg hi, List.getElem?_eq_none (by omega)]
      rfl
  · show es.modifiedLastPos = _
    rw [htr.flagged]
    congr 1
    cases hany : st.open_haplotypes.any isExhausted with
    | true =>
      obtain ⟨x, hx, hxx⟩ := List.any_eq_true.1 hany
      obtain ⟨i, hi, hgi⟩ := List.getElem_of_mem hx
      have hsi : st.open_haplotypes[i]? = some x := by
        rw [List.getElem?_eq_getElem hi, hgi]
      have := (htr.exited i).2 ⟨hdone i x hsi, x, hsi, hxx⟩
      cases he : es.exitedHaplotype with
      | nil => rw [he] at this; simp at this
      | cons a b => rfl
    | false =>
      cases he : es.exitedHaplotype with
      | nil => rfl
      | cons a b =>
        exfalso
        have ha : a ∈ es.exitedHaplotype := by rw [he]; exact List.mem_cons_self _ _
        obtain ⟨-, h, hsh, hxh⟩ := (htr.exited a).1 ha
        have : st.open_haplotypes.any isExhausted = true :=
          List.any_eq_true.2 ⟨h, mem_of_getElem?_some _ _ _ hsh, hxh⟩
        rw [hany] at this
        cases this
  · intro x hx
    obtain ⟨k, j, -, hr⟩ := htr.recombinant x hx
    exact ⟨k, j, hr⟩
  · intro hsz k j x hr
    have hr1 := hr
    obtain ⟨hk, hj, hsk, -⟩ := hr1
    exact htr.complete hsz k j x (hdone k hk hsk) hr

/-! ## The extension of the haplotypes that are ready -/

/-- The open haplotypes after the exit recombination of iteration `posI` of a
run: none is exhausted, and every one that copies from an alignment is in front
of a column with a non-gap ref character. -/
theorem ready_after_exit (max : Nat) (R : List Char) (idx : AlignmentIndex) (G : List Int)
    (st st2 st3 : EnumeratorState) (posI : Nat) (caughtUp : List openHaplotype)
    (hsync : IndexSync G idx) (hb : Before G posI st)
    (h1 : catchUp G posI (deduplicate st).open_haplotypes = Except.ok caughtUp)
    (h3 : enterHaplotypes max R G posI caughtUp.length (indexAt idx posI)
      { deduplicate st with open_haplotypes := caughtUp } = Except.ok st2)
    (h4 : exitRecombination max st2 = Except.ok st3) :
    ∃ L, ReadyAll G posI L st3.open_haplotypes := by
  obtain ⟨s, len, hs, hlen, h0, hpos, hat⟩ := hb
  have hsub := deduplicate_subset st
  have hcu := catchUp_at G posI (deduplicate st).open_haplotypes caughtUp len
    (fun h hm => hlen h (hsub h hm)) (fun h hm => hat h (hsub h hm))
    (by
      rcases Nat.eq_zero_or_pos posI with hz | hp
      · exact Or.inr (fun h hm => (h0 hz).2.2 h (hsub h hm))
      · exact Or.inl hp) h1
  have hs1 : (deduplicate st).start_open_haplotypes = (s : Int) := by
    rw [(deduplicate_output st).2, hs]
  have hL : s < posI →
      len + (if 0 < posI then gapCount G ((posI : Int) - 1) else 0)
        = spanLength G (posI - s) (s : Int) := by
    intro hsp
    have hp : 0 < posI := by omega
    obtain ⟨-, hlen2⟩ := hpos hp
    rw [if_pos hp, hlen2]
    have e1 : posI - s = (posI - 1 - s) + 1 := by omega
    rw [e1, spanLength_succ]
    have e2 : (s : Int) + ((posI - 1 - s : Nat) : Int) = (posI : Int) - 1 := by omega
    rw [e2]
  have hmid2 := enterHaplotypes_mid max R G posI caughtUp.length s _ (indexAt idx posI)
    { deduplicate st with open_haplotypes := caughtUp } st2 hs1 hL
    (fun a ha => hsync posI a ha) hcu h3
  exact ⟨_, exitRecombination_ready G posI _ max st2 st3 hmid2 h4⟩

theorem alignmentExtension_value (l1 l2 l3 : Nat) (a : HapPtr) (c : Int) (y : Char)
    (hlen : a.obj.ref.length = a.obj.query.length) (hc : -1 ≤ c)
    (hy : a.obj.ref[(c + 1).toNat]? = some y) (hyg : isGapCharacter y = false) :
    ∃ q, a.obj.query[(c + 1).toNat]? = some q ∧
      alignmentExtension l1 l2 l3 a c = Except.ok [q] := by
  obtain ⟨hlt, hget⟩ := List.getElem?_eq_some_iff.1 hy
  have hq : (c + 1).toNat < a.obj.query.length := by omega
  refine ⟨a.obj.query[(c + 1).toNat], List.getElem?_eq_getElem hq, ?_⟩
  unfold alignmentExtension
  rw [if_neg (by omega), List.drop_eq_getElem_cons hlt, hget]
  unfold extendColumns
  rw [List.getElem?_eq_getElem hq]
  simp only
  rw [if_pos ((isGapCharacter_eq_false_iff y).1 hyg)]
  rfl

theorem extensionLength_total (G : List Int) (posI L : Nat) :
    ∀ (haps : List openHaplotype) (init : Int), ReadyAll G posI L haps →
      init = -1 ∨ init = 1 →
      ∃ len, extensionLength haps init = Except.ok len ∧ (len = -1 ∨ len = 1)
  | [], init, _, hinit => ⟨init, rfl, hinit⟩
  | h :: rest, init, hready, hinit => by
    have hrest : ReadyAll G posI L rest := fun x hx => hready x (List.mem_cons_of_mem _ hx)
    obtain ⟨-, -, hr⟩ := hready h (List.mem_cons_self _ _)
    unfold extensionLength
    cases hsrc : h.2.1 with
    | none =>
      simp only
      exact extensionLength_total G posI L rest init hrest hinit
    | some a =>
      simp only
      simp only [HapReady, hsrc] at hr
      obtain ⟨hsync, hc, y, hy, hyg, -⟩ := hr
      obtain ⟨q, -, hext⟩ := alignmentExtension_value 1068 1069 1075 a h.2.2 y hsync.len hc hy hyg
      rw [hext]
      simp only [List.length_singleton, ne_eq, one_ne_zero, not_false_eq_true, if_true,
        Nat.cast_one]
      have hlen : (if init = -1 then (1 : Int) else init) = 1 := by
        rcases hinit with h1 | h1
        · rw [if_pos h1]
        · rw [h1]; simp
      rw [hlen]
      simp only [if_true]
      exact extensionLength_total G posI L rest 1 hrest (Or.inr rfl)

/-- Lines 1104-1137 for a haplotype that is ready: the extension does not
fail and is one character, the reference character for a haplotype on the
reference. -/
theorem extendHaplotype_value (G : List Int) (posI : Nat) (refC : Char) (len : Int)
    (h : openHaplotype) (hr : HapReady G posI h) (hlen : len = -1 ∨ len = 1) :
    ∃ h1 e, extendHaplotype refC len h = Except.ok (h1, e) ∧ e.length = 1 ∧
      (h.2.1 = none → e = [refC]) := by
  obtain ⟨seq, src, c⟩ := h
  cases src with
  | none =>
    unfold extendHaplotype
    simp only
    rcases hlen with h1 | h1
    · subst h1
      simp
    · subst h1
      simp
  | some a =>
    simp only [HapReady] at hr
    obtain ⟨hsync, hc, y, hy, hyg, -⟩ := hr
    obtain ⟨q, -, hext⟩ := alignmentExtension_value 1124 1125 1130 a c y hsync.len hc hy hyg
    unfold extendHaplotype
    simp only [hext]
    exact ⟨_, _, rfl, by simp, by simp⟩

theorem extendHaplotypes_total (G : List Int) (posI L : Nat) (refC : Char) (len : Int)
    (hlen : len = -1 ∨ len = 1) :
    ∀ (haps : List openHaplotype) (exts0 : List (List Char)), ReadyAll G posI L haps →
      ∃ out exts, extendHaplotypes refC len haps exts0 = Except.ok (out, exts)
  | [], exts0, _ => ⟨[], exts0, rfl⟩
  | h :: rest, exts0, hready => by
    obtain ⟨h1, e, he, -, -⟩ := extendHaplotype_value G posI refC len h
      (hready h (List.mem_cons_self _ _)).2.2 hlen
    obtain ⟨out, exts, hrest⟩ := extendHaplotypes_total G posI L refC len hlen rest
      (setInsert e exts0) (fun x hx => hready x (List.mem_cons_of_mem _ hx))
    refine ⟨h1 :: out, exts, ?_⟩
    simp only [extendHaplotypes, he, hrest]

/-! ## C21 and C22: the exit recombination -/

theorem exampleExitState_reached :
    loader 5000 [exampleExitLine] =
      Except.ok
        { alignments_starting_at := [(1, [exampleExitAlignment])]
          n_alignments_loaded := 1
          n_alignments_split := 0
          n_alignments_sub := 0
          expectedAlleles := []
          allocations := 1 } ∧
    buildGapStructure "TACT".toList [(1, [exampleExitAlignment])]
      = Except.ok ([-1, 0, -1, -1], [0, 1, 1, 0]) ∧
    enumeratorLoop 5000 "chr".toList "TACT".toList [(1, [exampleExitAlignment])] [-1, 0, -1, -1]
      (List.range 3) enumeratorInit = Except.ok exampleExitState ∧
    catchUp [-1, 0, -1, -1] 3 (deduplicate exampleExitState).open_haplotypes
      = Except.ok exampleExitState.open_haplotypes ∧
    enterHaplotypes 5000 "TACT".toList [-1, 0, -1, -1] 3 exampleExitState.open_haplotypes.length
      (indexAt [(1, [exampleExitAlignment])] 3)
      { deduplicate exampleExitState with open_haplotypes := exampleExitState.open_haplotypes }
      = Except.ok exampleExitState :=
  ⟨rfl, rfl, rfl, rfl, rfl⟩

theorem exampleExitResult_reached :
    exitRecombination 5000 exampleExitState = Except.ok exampleExitResult := rfl

theorem mem_map_key_iff (x : openHaplotype) (l : List openHaplotype) :
    haplotype_key x ∈ l.map haplotype_key ↔
      ∃ y ∈ l, haplotypeIdentity y = haplotypeIdentity x := by
  simp only [List.mem_map]
  constructor
  · rintro ⟨y, hy, hk⟩
    exact ⟨y, hy, (haplotype_key_eq_iff y x).1 hk⟩
  · rintro ⟨y, hy, hi⟩
    exact ⟨y, hy, (haplotype_key_eq_iff y x).2 hi⟩

/-- C21. Step 5 does not fail. Every open haplotype that is exhausted when the
step starts (it copies from an alignment and its cursor is `|ref| - 1`) is
changed in place to the source reference and the cursor `-1`, with its sequence
unchanged; the haplotypes that are not exhausted are unchanged, none is removed
and the new haplotypes are appended behind them. Every appended haplotype is a
recombinant `(seq of k, source of j, cursor of j)` of an exhausted haplotype `k`
and another haplotype `j` that is not exhausted (so has not exited). While the
size stays within the cap every such recombinant is considered: it is appended
unless a haplotype with the same sequence, source and cursor was in the set at
the start of the step or was appended before. -/
theorem exit_recombination (max : Nat) (st : EnumeratorState) :
    ∃ st1 added, exitRecombination max st = Except.ok st1 ∧
      st1.open_haplotypes =
        st.open_haplotypes.map (fun h => if isExhausted h = true then switchToReference h else h)
          ++ added ∧
      (∀ x ∈ added, ∃ k j, RecombinantOf st.open_haplotypes k j x) ∧
      (st1.open_haplotypes.length ≤ max → ∀ k j x, RecombinantOf st.open_haplotypes k j x →
        ∃ y ∈ st.open_haplotypes ++ added, haplotypeIdentity y = haplotypeIdentity x) ∧
      st1.start_open_haplotypes = st.start_open_haplotypes ∧
      st1.outputStream = st.outputStream ∧
      st1.modifiedLastPos = (st.modifiedLastPos || st.open_haplotypes.any isExhausted) := by
  obtain ⟨st1, added, h1, h2, h3, h4, h5, h6, -, h8⟩ := exitRecombination_trace max st
  refine ⟨st1, added, h1, h2, h6, ?_, h3, h4, h5⟩
  intro hsz k j x hr
  exact (mem_map_key_iff x _).1 (h8 hsz k j x hr)

/-- C21 at `exampleExitState`: the exhausted haplotype `(AG, h1, 1)` becomes
`(AG, reference, -1)`, and its recombinant with the first haplotype is
appended. -/
theorem exit_recombination_witness :
    exitRecombination 5000 exampleExitState = Except.ok exampleExitResult ∧
    ∃ st1 added, exitRecombination 5000 exampleExitState = Except.ok st1 ∧
      st1.open_haplotypes =
        exampleExitState.open_haplotypes.map
          (fun h => if isExhausted h = true then switchToReference h else h) ++ added ∧
      (∀ x ∈ added, ∃ k j, RecombinantOf exampleExitState.open_haplotypes k j x) ∧
      (st1.open_haplotypes.length ≤ 5000 → ∀ k j x,
        RecombinantOf exampleExitState.open_haplotypes k j x →
        ∃ y ∈ exampleExitState.open_haplotypes ++ added,
          haplotypeIdentity y = haplotypeIdentity x) ∧
      st1.start_open_haplotypes = exampleExitState.start_open_haplotypes ∧
      st1.outputStream = exampleExitState.outputStream ∧
      st1.modifiedLastPos =
        (exampleExitState.modifiedLastPos || exampleExitState.open_haplotypes.any isExhausted) :=
  ⟨exampleExitResult_reached, exit_recombination 5000 exampleExitState⟩

/-- C22 (amended). Every recombinant that step 5 appends differs in sequence,
source or cursor from every open haplotype that was in the set at the start of
the step and from every recombinant that the step appended before it. -/
theorem exit_recombinants_fresh (max : Nat) (st st1 : EnumeratorState)
    (hok : exitRecombination max st = Except.ok st1) :
    ∃ added,
      st1.open_haplotypes =
        st.open_haplotypes.map (fun h => if isExhausted h = true then switchToReference h else h)
          ++ added ∧
      ∀ pre x post, added = pre ++ x :: post →
        ∀ y ∈ st.open_haplotypes ++ pre, haplotypeIdentity y ≠ haplotypeIdentity x := by
  obtain ⟨st2, added, h1, h2, -, -, -, -, h7, -⟩ := exitRecombination_trace max st
  rw [hok] at h1
  have he : st1 = st2 := Except.ok.inj h1
  subst he
  refine ⟨added, h2, ?_⟩
  intro pre x post hadd y hy hi
  exact h7 pre x post hadd ((mem_map_key_iff x _).2 ⟨y, hy, hi⟩)

/-- C22 (amended) at `exampleExitState`. -/
theorem exit_recombinants_fresh_witness :
    exitRecombination 5000 exampleExitState = Except.ok exampleExitResult ∧
    ∃ added,
      exampleExitResult.open_haplotypes =
        exampleExitState.open_haplotypes.map
          (fun h => if isExhausted h = true then switchToReference h else h) ++ added ∧
      ∀ pre x post, added = pre ++ x :: post →
        ∀ y ∈ exampleExitState.open_haplotypes ++ pre,
          haplotypeIdentity y ≠ haplotypeIdentity x :=
  ⟨exampleExitResult_reached,
    exit_recombinants_fresh 5000 exampleExitState exampleExitResult exampleExitResult_reached⟩

/-- C22 as stated fails. In iteration 3 of the run on the reference `TACT` and
the alignment `AC` / `AG` at position 1, step 5 starts with the open haplotypes
`(AC, reference, -1)` and `(AG, h1, 1)`. The second is exhausted and is switched
in place to `(AG, reference, -1)`; its recombinant with the first haplotype is
`(AG, reference, -1)` too, and it is appended, because the key set was built
before the switch. So the appended recombinant is equal to an open haplotype
that is in the set when it is appended. -/
theorem exit_recombinant_repeats_exited :
    loader 5000 [exampleExitLine] =
      Except.ok
        { alignments_starting_at := [(1, [exampleExitAlignment])]
          n_alignments_loaded := 1
          n_alignments_split := 0
          n_alignments_sub := 0
          expectedAlleles := []
          allocations := 1 } ∧
    buildGapStructure "TACT".toList [(1, [exampleExitAlignment])]
      = Except.ok ([-1, 0, -1, -1], [0, 1, 1, 0]) ∧
    enumeratorLoop 5000 "chr".toList "TACT".toList [(1, [exampleExitAlignment])] [-1, 0, -1, -1]
      (List.range 3) enumeratorInit = Except.ok exampleExitState ∧
    catchUp [-1, 0, -1, -1] 3 (deduplicate exampleExitState).open_haplotypes
      = Except.ok exampleExitState.open_haplotypes ∧
    enterHaplotypes 5000 "TACT".toList [-1, 0, -1, -1] 3 exampleExitState.open_haplotypes.length
      (indexAt [(1, [exampleExitAlignment])] 3)
      { deduplicate exampleExitState with open_haplotypes := exampleExitState.open_haplotypes }
      = Except.ok exampleExitState ∧
    exitRecombination 5000 exampleExitState = Except.ok exampleExitResult ∧
    exampleExitResult.open_haplotypes =
      [("AC".toList, none, -1), switchToReference ("AG".toList, some exampleExitAlignment, 1)]
        ++ [("AG".toList, none, -1)] ∧
    ("AG".toList, (none : Option HapPtr), (-1 : Int))
      ∈ [("AC".toList, none, -1), switchToReference ("AG".toList, some exampleExitAlignment, 1)] :=
  ⟨rfl, rfl, rfl, rfl, rfl, rfl, rfl, by decide⟩

/-! ## C28 and C30: the extension after the exit recombination -/

/-- C28. After the exit recombination no open haplotype is exhausted, whether
it was open before, entered in this iteration or is a recombinant. In a run on
an index that the loader published, every open haplotype that copies from an
alignment then has its next position `cursor + 1` inside the ref string, at a
column with a non-gap ref character, so the extension loops of lines 1043-1138
end at that column, the assertions `nextPosToConsume < |ref|` hold, and the
extension step returns. -/
theorem extensible_after_exit :
    (∀ (max : Nat) (st st1 : EnumeratorState), exitRecombination max st = Except.ok st1 →
      ∀ h ∈ st1.open_haplotypes, isExhausted h = false) ∧
    (∀ (max_gap_length : Int) (lines : List AlignmentLine) (lst : LoaderState) (max : Nat)
        (refID R : List Char) (G C : List Int) (posI : Nat) (st st2 st3 : EnumeratorState)
        (caughtUp : List openHaplotype) (refC : Char),
      loader max_gap_length lines = Except.ok lst →
      buildGapStructure R lst.alignments_starting_at = Except.ok (G, C) →
      enumeratorLoop max refID R lst.alignments_starting_at G (List.range posI) enumeratorInit
        = Except.ok st →
      catchUp G posI (deduplicate st).open_haplotypes = Except.ok caughtUp →
      enterHaplotypes max R G posI caughtUp.length (indexAt lst.alignments_starting_at posI)
        { deduplicate st with open_haplotypes := caughtUp } = Except.ok st2 →
      exitRecombination max st2 = Except.ok st3 →
      (∀ h ∈ st3.open_haplotypes, ∀ a, h.2.1 = some a →
        -1 ≤ h.2.2 ∧ h.2.2 + 1 < (a.obj.ref.length : Int) ∧
        a.obj.ref.length = a.obj.query.length ∧
        ∃ y, a.obj.ref[(h.2.2 + 1).toNat]? = some y ∧ isGapCharacter y = false) ∧
      ∃ len extended extensions,
        extensionLength st3.open_haplotypes (-1) = Except.ok len ∧
        extendHaplotypes refC len st3.open_haplotypes [] = Except.ok (extended, extensions)) := by
  constructor
  · intro max st st1 hok h hm
    obtain ⟨st2, added, h1, h2, -, -, -, h6, -, -⟩ := exitRecombination_trace max st
    rw [hok] at h1
    have he : st1 = st2 := Except.ok.inj h1
    subst he
    rw [h2] at hm
    rcases List.mem_append.1 hm with hm | hm
    · obtain ⟨x, -, hx⟩ := List.mem_map.1 hm
      by_cases hxx : isExhausted x = true
      · rw [if_pos hxx] at hx
        rw [← hx]
        rfl
      · rw [if_neg hxx] at hx
        rw [← hx]
        simpa using hxx
    · obtain ⟨k, j, hk, hj, -, -, -, -, hxj, rfl⟩ := h6 h hm
      exact hxj
  · intro max_gap_length lines lst max refID R G C posI st st2 st3 caughtUp refC hload hbuild
      hloop h1 h3 h4
    have hsync := indexSync_of_loaded max_gap_length lines lst R G C hload hbuild
    have hb := enumeratorLoop_before max refID R _ G hsync posI st hloop
    obtain ⟨L, hready⟩ := ready_after_exit max R _ G st st2 st3 posI caughtUp hsync hb h1 h3 h4
    constructor
    · intro h hm a ha
      obtain ⟨-, -, hr⟩ := hready h hm
      simp only [HapReady, ha] at hr
      obtain ⟨hs, hc, y, hy, hyg, -⟩ := hr
      have hlt := (List.getElem?_eq_some_iff.1 hy).1
      exact ⟨hc, by omega, hs.len, y, hy, hyg⟩
    · obtain ⟨len, hlen, hl⟩ := extensionLength_total G posI L st3.open_haplotypes (-1) hready
        (Or.inl rfl)
      obtain ⟨out, exts, hext⟩ := extendHaplotypes_total G posI L refC len hl
        st3.open_haplotypes [] hready
      exact ⟨len, out, exts, hlen, hext⟩

/-- C28 at `exampleExitState`: after the exit recombination none of the three
open haplotypes is exhausted. -/
theorem extensible_after_exit_witness :
    exitRecombination 5000 exampleExitState = Except.ok exampleExitResult ∧
    ∀ h ∈ exampleExitResult.open_haplotypes, isExhausted h = false :=
  ⟨exampleExitResult_reached,
    extensible_after_exit.1 5000 exampleExitState exampleExitResult exampleExitResult_reached⟩

/-- C30. In a run on an index that the loader published, in every iteration
each open haplotype is extended by a string of length 1: the value of
`extensions_nonRef_length` is 1 or unset, a haplotype on the reference is
extended by the reference character alone, without a `*`, and every element of
the set `extensions` has length 1. -/
theorem extension_length_one (max_gap_length : Int) (lines : List AlignmentLine)
    (lst : LoaderState) (max : Nat) (refID R : List Char) (G C : List Int) (posI : Nat)
    (st st4 : EnumeratorState) (extensions : List (List Char)) (refC : Char)
    (hload : loader max_gap_length lines = Except.ok lst)
    (hbuild : buildGapStructure R lst.alignments_starting_at = Except.ok (G, C))
    (hloop : enumeratorLoop max refID R lst.alignments_starting_at G (List.range posI)
      enumeratorInit = Except.ok st)
    (hstep : stepBeforeFlush max R lst.alignments_starting_at G st posI
      = Except.ok (st4, extensions, refC)) :
    (∀ e ∈ extensions, e.length = 1) ∧
    ∃ (st3 : EnumeratorState) (extensions_nonRef_length : Int),
      extensionLength st3.open_haplotypes (-1) = Except.ok extensions_nonRef_length ∧
      (extensions_nonRef_length = -1 ∨ extensions_nonRef_length = 1) ∧
      extendHaplotypes refC extensions_nonRef_length st3.open_haplotypes []
        = Except.ok (st4.open_haplotypes, extensions) ∧
      ∀ h ∈ st3.open_haplotypes, ∃ h1 e,
        extendHaplotype refC extensions_nonRef_length h = Except.ok (h1, e) ∧ e.length = 1 ∧
        (h.2.1 = none → e = [refC]) := by
  obtain ⟨caughtUp, st2, st3, len, h1, -, -, h3, h4, h5, h6, -, -, -⟩ :=
    stepBeforeFlush_ok max R _ G st st4 posI extensions refC hstep
  have hsync := indexSync_of_loaded max_gap_length lines lst R G C hload hbuild
  have hb := enumeratorLoop_before max refID R _ G hsync posI st hloop
  obtain ⟨L, hready⟩ := ready_after_exit max R _ G st st2 st3 posI caughtUp hsync hb h1 h3 h4
  have hlen := extensionLength_ready G posI L st3.open_haplotypes (-1) len hready (Or.inl rfl) h5
  have hall : ∀ h ∈ st3.open_haplotypes, ∃ h1 e,
      extendHaplotype refC len h = Except.ok (h1, e) ∧ e.length = 1 ∧
      (h.2.1 = none → e = [refC]) :=
    fun h hm => extendHaplotype_value G posI refC len h (hready h hm).2.2 hlen
  refine ⟨?_, st3, len, h5, hlen, h6, hall⟩
  intro e he
  obtain ⟨-, hiff⟩ := extendHaplotypes_shape refC len _ _ _ _ h6
  rcases (hiff e).1 he with hnil | ⟨h, hx, hm, hex⟩
  · simp at hnil
  · obtain ⟨hx1, e1, hval, hl1, -⟩ := hall h hm
    rw [hval] at hex
    simp only [Except.ok.injEq, Prod.mk.injEq] at hex
    rw [← hex.2]
    exact hl1

/-- C30 at iteration 3 of the run on `exampleVariantInput`. -/
theorem extension_length_one_witness :
    loader 5000 exampleVariantInput = Except.ok exampleVariantLoaded ∧
    buildGapStructure "TACGTA".toList exampleVariantLoaded.alignments_starting_at
      = Except.ok ([-1, 0, 0, 1, -1, -1], [0, 1, 1, 2, 1, 0]) ∧
    enumeratorLoop 5000 "chr".toList "TACGTA".toList exampleVariantLoaded.alignments_starting_at
      [-1, 0, 0, 1, -1, -1] (List.range 3) enumeratorInit = Except.ok exampleVariantState ∧
    stepBeforeFlush 5000 "TACGTA".toList exampleVariantLoaded.alignments_starting_at
      [-1, 0, 0, 1, -1, -1] exampleVariantState 3
      = Except.ok (exampleVariantExtended, [['G']], 'G') ∧
    (∀ e ∈ [['G']], e.length = 1) ∧
    ∃ (st3 : EnumeratorState) (extensions_nonRef_length : Int),
      extensionLength st3.open_haplotypes (-1) = Except.ok extensions_nonRef_length ∧
      (extensions_nonRef_length = -1 ∨ extensions_nonRef_length = 1) ∧
      extendHaplotypes 'G' extensions_nonRef_length st3.open_haplotypes []
        = Except.ok (exampleVariantExtended.open_haplotypes, [['G']]) ∧
      ∀ h ∈ st3.open_haplotypes, ∃ h1 e,
        extendHaplotype 'G' extensions_nonRef_length h = Except.ok (h1, e) ∧ e.length = 1 ∧
        (h.2.1 = none → e = ['G']) :=
  ⟨exampleVariantLoaded_reached, rfl, exampleVariantState_reached,
    exampleVariantExtended_reached,
    extension_length_one 5000 exampleVariantInput exampleVariantLoaded 5000 "chr".toList
      "TACGTA".toList [-1, 0, 0, 1, -1, -1] [0, 1, 1, 2, 1, 0] 3 exampleVariantState
      exampleVariantExtended [['G']] 'G' exampleVariantLoaded_reached rfl
      exampleVariantState_reached exampleVariantExtended_reached⟩

/-! ## C25: the first character of the alternative sequences -/

theorem eq_cons_of_take_one (a : List Char) (c : Char) (h : a.take 1 = [c]) :
    ∃ t, a = c :: t := by
  cases a with
  | nil => simp at h
  | cons x xs =>
    simp only [List.take_succ_cons, List.take_zero, List.cons.injEq, and_true] at h
    exact ⟨xs, by rw [h]⟩

/-- C25. If the reference holds none of `-`, `*`, `_`, then at every flush of a
run every alternative sequence that the loop of lines 1179-1208 collects is
non-empty and begins with the reference character at `start_open_haplotypes`,
which is the first character of `reference_sequence`; so the check of lines
1227-1230 on the first characters passes, and the assertion of line 1229 does
not fail. -/
theorem anchor_base (max : Nat) (refID R : List Char) (idx : AlignmentIndex) (G : List Int)
    (posI : Nat) (st st4 : EnumeratorState) (refC : Char) (alts : List (List Char))
    (opens : List openHaplotype)
    (hplain : ∀ c ∈ R, c ≠ '-' ∧ c ≠ '*' ∧ c ≠ '_')
    (hloop : enumeratorLoop max refID R idx G (List.range posI) enumeratorInit = Except.ok st)
    (hstep : stepBeforeFlush max R idx G st posI = Except.ok (st4, [[refC]], refC))
    (hpos : 0 < posI)
    (hhaps : flushHaplotypes
      ((R.drop st4.start_open_haplotypes.toNat).take
        ((posI : Int) - st4.start_open_haplotypes).toNat)
      ((posI : Int) - st4.start_open_haplotypes) st4.open_haplotypes [] [] []
        = Except.ok (alts, opens)) :
    ∃ c0, R[st4.start_open_haplotypes.toNat]? = some c0 ∧
      ((R.drop st4.start_open_haplotypes.toNat).take
        ((posI : Int) - st4.start_open_haplotypes).toNat).take 1 = [c0] ∧
      (∀ a ∈ alts, ∃ t, a = c0 :: t) ∧
      checkFirstCharacters
        ((R.drop st4.start_open_haplotypes.toNat).take
          ((posI : Int) - st4.start_open_haplotypes).toNat) alts = Except.ok () := by
  obtain ⟨n, rfl⟩ : ∃ n, posI = n + 1 := ⟨posI - 1, by omega⟩
  have ha := anchored_loop max refID R idx G n st hloop
  obtain ⟨s, c0, seq, m, cur, rest, hs, hlt, hc0, -, -, -, -, hall, -, -⟩ :=
    anchored_beforeFlush max R idx G st st4 (n + 1) [[refC]] refC ha hstep
  rw [hs] at hhaps ⊢
  simp only [Int.toNat_ofNat] at hhaps ⊢
  have hspan : (((n + 1 : Nat) : Int) - (s : Int)).toNat = n + 1 - s := by omega
  rw [hspan] at hhaps ⊢
  obtain ⟨hsl, hget⟩ := List.getElem?_eq_some_iff.1 hc0
  have hc : c0 ≠ '_' ∧ c0 ≠ '-' ∧ c0 ≠ '*' := by
    have := hplain c0 (by rw [← hget]; exact List.getElem_mem _)
    exact ⟨this.2.2, this.1, this.2.1⟩
  have href : ((R.drop s).take (n + 1 - s)).take 1 = [c0] := by
    rw [List.drop_eq_getElem_cons hsl, hget]
    obtain ⟨k, hk⟩ : ∃ k, n + 1 - s = k + 1 := ⟨n - s, by omega⟩
    rw [hk]
    simp
  obtain ⟨-, hlen, halts⟩ := flushHaplotypes_spec _ _ st4.open_haplotypes [] [] [] alts opens []
    (by intro h _; simp) hhaps
  have hstart : ∀ a ∈ alts, a.take 1 = [c0] := by
    intro a hm
    rcases (halts a).1 hm with hnil | ⟨h, hh, rfl, -⟩
    · simp at hnil
    · obtain ⟨t, ht⟩ := hall h hh
      obtain ⟨hl, -⟩ := hlen h hh
      obtain ⟨hseq, src, c⟩ := h
      simp only at ht hl
      subst ht
      have ht1 : 1 ≤ t.length := by
        simp only [List.length_cons] at hl
        push_cast at hl
        omega
      exact coveredSequence_cons c0 t src c hc ht1
  refine ⟨c0, hc0, href, fun a hm => eq_cons_of_take_one a c0 (hstart a hm), ?_⟩
  apply checkFirstCharacters_ok
  intro a hm
  rw [hstart a hm, href]

/-- C25 at iteration 3 of the run on `exampleVariantIndex`: the reference
sequence is `AC` and the alternative sequence `AT` begins with `A`. -/
theorem anchor_base_witness :
    (∀ c ∈ "TACGTA".toList, c ≠ '-' ∧ c ≠ '*' ∧ c ≠ '_') ∧
    enumeratorLoop 5000 "chr".toList "TACGTA".toList exampleVariantIndex [-1, 0, 0, 1, -1, -1]
      (List.range 3) enumeratorInit = Except.ok exampleVariantState ∧
    stepBeforeFlush 5000 "TACGTA".toList exampleVariantIndex [-1, 0, 0, 1, -1, -1]
      exampleVariantState 3 = Except.ok (exampleVariantExtended, [['G']], 'G') ∧
    flushHaplotypes
      (("TACGTA".toList.drop exampleVariantExtended.start_open_haplotypes.toNat).take
        (((3 : Nat) : Int) - exampleVariantExtended.start_open_haplotypes).toNat)
      (((3 : Nat) : Int) - exampleVariantExtended.start_open_haplotypes)
      exampleVariantExtended.open_haplotypes [] [] []
        = Except.ok (["AT".toList], keepFirstOccurrences
            (exampleVariantExtended.open_haplotypes.map trimToLast) []) ∧
    ∃ c0, "TACGTA".toList[exampleVariantExtended.start_open_haplotypes.toNat]? = some c0 ∧
      (("TACGTA".toList.drop exampleVariantExtended.start_open_haplotypes.toNat).take
        (((3 : Nat) : Int) - exampleVariantExtended.start_open_haplotypes).toNat).take 1 = [c0] ∧
      (∀ a ∈ ["AT".toList], ∃ t, a = c0 :: t) ∧
      checkFirstCharacters
        (("TACGTA".toList.drop exampleVariantExtended.start_open_haplotypes.toNat).take
          (((3 : Nat) : Int) - exampleVariantExtended.start_open_haplotypes).toNat)
        ["AT".toList] = Except.ok () :=
  ⟨by decide, exampleVariantState_reached, exampleVariantExtended_reached,
    exampleVariantExtended_flushed,
    anchor_base 5000 "chr".toList "TACGTA".toList exampleVariantIndex [-1, 0, 0, 1, -1, -1] 3
      exampleVariantState exampleVariantExtended 'G' ["AT".toList] _ (by decide)
      exampleVariantState_reached exampleVariantExtended_reached (by decide)
      exampleVariantExtended_flushed⟩

/-! ## Gap stripping as a filter (C36) -/

theorem removeGaps_eq_filter : ∀ s : List Char,
    removeGaps s = s.filter (fun c => decide (c ≠ '_' ∧ c ≠ '-' ∧ c ≠ '*'))
  | [] => rfl
  | c :: rest => by
    unfold removeGaps
    by_cases h : c ≠ '_' ∧ c ≠ '-' ∧ c ≠ '*'
    · rw [if_pos h, List.filter_cons_of_pos (by simpa using h), removeGaps_eq_filter rest]
    · rw [if_neg h, List.filter_cons_of_neg (by simpa using h), removeGaps_eq_filter rest]

/-- C36. The function `removeGaps` of lines 1455-1467 returns its argument with
exactly the characters `_`, `-` and `*` deleted, the other characters in their
order: it is the filter of the list by the test of line 1461. It is idempotent
and distributes over concatenation. -/
theorem removeGaps_properties :
    (∀ s : List Char,
      removeGaps s = s.filter (fun c => decide (c ≠ '_' ∧ c ≠ '-' ∧ c ≠ '*'))) ∧
    (∀ s : List Char, ∀ c, c ∈ removeGaps s ↔ c ∈ s ∧ c ≠ '_' ∧ c ≠ '-' ∧ c ≠ '*') ∧
    (∀ s : List Char, (removeGaps s).Sublist s) ∧
    (∀ s : List Char, removeGaps (removeGaps s) = removeGaps s) ∧
    (∀ a b : List Char, removeGaps (a ++ b) = removeGaps a ++ removeGaps b) := by
  refine ⟨removeGaps_eq_filter, ?_, ?_, ?_, removeGaps_append⟩
  · intro s c
    rw [removeGaps_eq_filter, List.mem_filter]
    simp
  · intro s
    rw [removeGaps_eq_filter]
    exact List.filter_sublist s
  · intro s
    rw [removeGaps_eq_filter, removeGaps_eq_filter, List.filter_filter]
    congr 1
    funext c
    simp

/-! ## Positions of the written lines (C33) -/

theorem vcfOutput_length (refID : List Char) (start : Int) (refseq : List Char)
    (alts : List (List Char)) (lines : List VCFLine)
    (hok : vcfOutput refID start refseq alts = Except.ok lines) : lines.length ≤ 1 := by
  unfold vcfOutput at hok
  by_cases h1 : alts.length ≠ 0
  · rw [if_pos h1] at hok
    dsimp only at hok
    by_cases h2 : refseq.length = 2 ∧ (alts.all fun a => decide (a.length = 2)) = true
    · rw [if_pos h2] at hok
      cases hc : checkFirstCharacters refseq alts with
      | error e => rw [hc] at hok; simp at hok
      | ok u =>
        rw [hc] at hok
        simp only [Except.ok.injEq] at hok
        subst hok
        simp
    · rw [if_neg h2] at hok
      simp only [Except.ok.injEq] at hok
      subst hok
      simp
  · rw [if_neg h1] at hok
    simp only [Except.ok.injEq] at hok
    subst hok
    simp

theorem flush_positions (refID R : List Char) (posI : Nat) (st st1 : EnumeratorState)
    (hok : flush refID R posI st = Except.ok st1) :
    st1.start_open_haplotypes = (posI : Int) ∧
    ∃ new, st1.outputStream = st.outputStream ++ new ∧ new.length ≤ 1 ∧
      ∀ line ∈ new, st.start_open_haplotypes < line.pos ∧ line.pos ≤ (posI : Int) := by
  unfold flush at hok
  simp only [bind_eq_ok, assertThat_eq_ok, rangeCheck_eq_ok, pure_eq_ok] at hok
  obtain ⟨-, hspan, -, ⟨h0, hlen⟩, ⟨alts, haps⟩, hfl, lines, hvcf, rfl⟩ := hok
  refine ⟨rfl, lines, rfl, vcfOutput_length _ _ _ _ _ hvcf, ?_⟩
  intro line hl
  rcases vcfOutput_lines _ _ _ _ _ hvcf line hl with ⟨hp, h2, -⟩ | ⟨hp, -⟩
  · rw [List.length_take] at h2
    have : 2 ≤ ((posI : Int) - st.start_open_haplotypes).toNat := by omega
    omega
  · omega

theorem positionsIncrease_flush (refID R : List Char) (posI : Nat) (st st1 : EnumeratorState)
    (hok : flush refID R posI st = Except.ok st1) (hst : PositionsIncrease st) :
    PositionsIncrease st1 := by
  obtain ⟨hs, new, hout, hlen, hnew⟩ := flush_positions refID R posI st st1 hok
  obtain ⟨h1, h2⟩ := hst
  unfold PositionsIncrease
  rw [hout, hs]
  constructor
  · rw [List.map_append, List.pairwise_append]
    refine ⟨h1, ?_, ?_⟩
    · match new, hlen with
      | [], _ => simp
      | [x], _ => simp
    · intro a ha b hb
      rw [List.mem_map] at ha hb
      obtain ⟨la, hla, rfl⟩ := ha
      obtain ⟨lb, hlb, rfl⟩ := hb
      have := h2 la hla
      have := (hnew lb hlb).1
      omega
  · intro line hl
    rw [List.mem_append] at hl
    rcases hl with hl | hl
    · have := h2 line hl
      have hlt := (flush_lines refID R posI st st1 hok).2.1
      omega
    · exact (hnew line hl).2

theorem positionsIncrease_step (max : Nat) (refID R : List Char) (idx : AlignmentIndex)
    (G : List Int) (st st5 : EnumeratorState) (posI : Nat)
    (hok : enumeratorStep max refID R idx G st posI = Except.ok st5)
    (hst : PositionsIncrease st) : PositionsIncrease st5 := by
  obtain ⟨caughtUp, refC, st2, st3, len, extended, extensions, -, -, -, h3, h4, -, -, h7⟩ :=
    enumeratorStep_ok max refID R idx G st st5 posI hok
  have e2 := enterHaplotypes_output _ _ _ _ _ _ _ _ h3
  have e3 := exitRecombination_output _ _ _ h4
  have e0 : st3.outputStream = st.outputStream := by
    rw [e3.1, e2.1]; exact (deduplicate_output st).1
  have s0 : st3.start_open_haplotypes = st.start_open_haplotypes := by
    rw [e3.2, e2.2]; exact (deduplicate_output st).2
  have h3inv : PositionsIncrease { st3 with open_haplotypes := extended } := by
    unfold PositionsIncrease
    simp only [e0, s0]
    exact hst
  by_cases hc : decide (extensions.length = 1 ∧ [refC] ∈ extensions) = true ∧ posI > 0
  · rw [if_pos hc] at h7
    exact positionsIncrease_flush refID R posI _ st5 h7 h3inv
  · rw [if_neg hc, pure_eq_ok] at h7
    subst h7
    exact h3inv

theorem positionsIncrease_loop (max : Nat) (refID R : List Char) (idx : AlignmentIndex)
    (G : List Int) (positions : List Nat) (st st1 : EnumeratorState)
    (hok : enumeratorLoop max refID R idx G positions st = Except.ok st1)
    (hst : PositionsIncrease st) : PositionsIncrease st1 := by
  induction positions generalizing st with
  | nil =>
    simp only [enumeratorLoop, Except.ok.injEq] at hok
    subst hok; exact hst
  | cons posI rest ih =>
    unfold enumeratorLoop at hok
    cases h : enumeratorStep max refID R idx G st posI with
    | error e => rw [h] at hok; simp at hok
    | ok st2 =>
      rw [h] at hok
      simp only at hok
      exact ih st2 hok (positionsIncrease_step max refID R idx G st st2 posI h hst)

theorem positionsIncrease_init : PositionsIncrease enumeratorInit :=
  ⟨List.Pairwise.nil, fun _ h => absurd h (List.not_mem_nil _)⟩

/-- C33. The positions of the lines written by one run increase strictly in the
order of writing: at every flush the line written, if any, has a position
above `start_open_haplotypes` and at most `posI`, the new value of
`start_open_haplotypes`; hence in every state the main loop reaches from its
initial state, whatever gap structure it is given and whatever prefix of the
positions it has visited, and in the result of `produceVCF`, the sequence of
positions is strictly increasing. -/
theorem positions_strictly_increasing (max : Nat) (refID R : List Char)
    (idx : AlignmentIndex) :
    (∀ posI st st1, flush refID R posI st = Except.ok st1 →
      st1.start_open_haplotypes = (posI : Int) ∧
      ∃ new, st1.outputStream = st.outputStream ++ new ∧ new.length ≤ 1 ∧
        ∀ line ∈ new, st.start_open_haplotypes < line.pos ∧ line.pos ≤ (posI : Int)) ∧
    (∀ G positions st,
      enumeratorLoop max refID R idx G positions enumeratorInit = Except.ok st →
      (st.outputStream.map (fun line => line.pos)).Pairwise (fun a b => a < b)) ∧
    (∀ lines, produceVCF max refID R idx = Except.ok lines →
      (lines.map (fun line => line.pos)).Pairwise (fun a b => a < b)) := by
  refine ⟨fun posI st st1 h => flush_positions refID R posI st st1 h, ?_, ?_⟩
  · intro G positions st hok
    exact (positionsIncrease_loop max refID R idx G positions _ st hok positionsIncrease_init).1
  · intro lines hok
    unfold produceVCF at hok
    cases hb : buildGapStructure R idx with
    | error e => rw [hb] at hok; simp at hok
    | ok GC =>
      obtain ⟨G, C⟩ := GC
      rw [hb] at hok
      simp only at hok
      cases hl : enumeratorLoop max refID R idx G (List.range R.length) enumeratorInit with
      | error e => rw [hl] at hok; simp at hok
      | ok st =>
        rw [hl] at hok
        simp only [Except.ok.injEq] at hok
        subst hok
        exact (positionsIncrease_loop max refID R idx G _ _ st hl positionsIncrease_init).1

/-- C33 on the run of `produceVCF` for `exampleVariantIndex`, which writes two
lines, at the positions 3 and 4. -/
theorem positions_strictly_increasing_witness :
    produceVCF 5000 "chr".toList "TACGTA".toList exampleVariantIndex
      = Except.ok exampleVariantLines ∧
    exampleVariantLines.map (fun line => line.pos) = [3, 4] ∧
    (exampleVariantLines.map (fun line => line.pos)).Pairwise (fun a b => a < b) :=
  ⟨rfl, rfl, (positions_strictly_increasing 5000 "chr".toList "TACGTA".toList
    exampleVariantIndex).2.2 exampleVariantLines rfl⟩

/-! ## Cursor and position (C31) -/

theorem nonGapCount_take_lt (s : List Char) (j : Nat) (r : Char)
    (hlast : ∃ rs, s = rs ++ [r]) (hr : isGapCharacter r = false) (hj : j + 1 < s.length) :
    nonGapCount (s.take (j + 1)) < nonGapCount s := by
  obtain ⟨rs, rfl⟩ := hlast
  have hlen : j + 1 ≤ rs.length := by
    rw [List.length_append, List.length_singleton] at hj; omega
  rw [List.take_append_of_le_length hlen, nonGapCount_append, nonGapCount_singleton r hr]
  have : nonGapCount (rs.take (j + 1)) ≤ nonGapCount rs := by
    unfold nonGapCount
    exact List.Sublist.countP_le _ (List.take_sublist _ _)
  omega

theorem hapAt_exhausted (G : List Int) (posI : Nat) (seq : List Char) (H : HapPtr) (c : Int)
    (hat : HapAt G (posI + 1) (seq, some H, c)) (hspan : Spanned 0 H) :
    0 ≤ c ∧ (∃ x, H.obj.ref[c.toNat]? = some x ∧ isGapCharacter x = false) ∧
    (nonGapCount (H.obj.ref.take (c.toNat + 1)) : Int)
      = (posI : Int) - H.obj.aligment_start_pos + 1 ∧
    (isExhausted (seq, some H, c) = true ↔ (posI : Int) = H.obj.alignment_last_pos) := by
  unfold HapAt at hat
  simp only at hat
  obtain ⟨hsync, h0, x, hx, hgx, hcount⟩ := hat
  unfold Spanned at hspan
  refine ⟨h0, ⟨x, hx, hgx⟩, by omega, ?_⟩
  have hlt : c.toNat < H.obj.ref.length := by
    rcases Nat.lt_or_ge c.toNat H.obj.ref.length with h | h
    · exact h
    · rw [List.getElem?_eq_none h] at hx; cases hx
  unfold isExhausted
  simp only [decide_eq_true_eq]
  constructor
  · intro he
    have e1 : c.toNat + 1 = H.obj.ref.length := by omega
    rw [e1, List.take_length] at hcount
    omega
  · intro he
    by_contra hne
    have hj : c.toNat + 1 < H.obj.ref.length := by omega
    obtain ⟨rs, r, hrs, hr⟩ := hsync.last
    have := nonGapCount_take_lt H.obj.ref c.toNat r ⟨rs, hrs⟩ hr hj
    omega

/-- C31. In a run on an index that the loader published and the builder
accepted, after every iteration `posI` that returns, every open haplotype
`(seq, H, c)` that copies from an alignment `H` has a cursor `c ≥ 0` at a
column of `H.ref` with a non-gap character, the number of non-gap characters
of `H.ref[0..c]` is `posI - H.start_pos + 1`, and the haplotype is exhausted
(the cursor is at the last column) if and only if `posI = H.last_pos`. -/
theorem cursor_position_invariant (max_gap_length : Int) (lines : List AlignmentLine)
    (lst : LoaderState) (max : Nat) (refID R : List Char) (G C : List Int) (posI : Nat)
    (st : EnumeratorState)
    (hload : loader max_gap_length lines = Except.ok lst)
    (hbuild : buildGapStructure R lst.alignments_starting_at = Except.ok (G, C))
    (hrun : enumeratorLoop max refID R lst.alignments_starting_at G (List.range (posI + 1))
      enumeratorInit = Except.ok st) :
    ∀ seq H c, (seq, some H, c) ∈ st.open_haplotypes →
      0 ≤ c ∧ (∃ x, H.obj.ref[c.toNat]? = some x ∧ isGapCharacter x = false) ∧
      (nonGapCount (H.obj.ref.take (c.toNat + 1)) : Int)
        = (posI : Int) - H.obj.aligment_start_pos + 1 ∧
      (isExhausted (seq, some H, c) = true ↔ (posI : Int) = H.obj.alignment_last_pos) := by
  intro seq H c hm
  have hsync := indexSync_of_loaded max_gap_length lines lst R G C hload hbuild
  obtain ⟨s, len, -, -, -, -, hat⟩ :=
    enumeratorLoop_before max refID R _ G hsync (posI + 1) st hrun
  have hfrom := (fromInput_loop max refID R lst.alignments_starting_at G (posI + 1) st hrun
    _ hm).2 H rfl
  obtain ⟨key, hkey⟩ := hfrom
  obtain ⟨v, hv, hH⟩ := mem_indexAt _ key H hkey
  have hspan : Spanned 0 H := loader_spanned max_gap_length lines lst hload key v hv H hH
  exact hapAt_exhausted G posI seq H c (hat _ hm) hspan

theorem exampleVariantFlushed_run :
    enumeratorLoop 5000 "chr".toList "TACGTA".toList exampleVariantLoaded.alignments_starting_at
      [-1, 0, 0, 1, -1, -1] (List.range (3 + 1)) enumeratorInit
      = Except.ok exampleVariantFlushed := rfl

theorem exampleVariantBuilt :
    buildGapStructure "TACGTA".toList exampleVariantLoaded.alignments_starting_at
      = Except.ok ([-1, 0, 0, 1, -1, -1], [0, 1, 1, 2, 1, 0]) := rfl

/-- C31 after iteration 3 of the run on `exampleVariantInput`: the haplotype
that copies from the first alignment (positions 1 to 3) is at its last column,
the haplotypes that copy from the second (positions 3 to 4) are at its first
column. -/
theorem cursor_position_invariant_witness :
    loader 5000 exampleVariantInput = Except.ok exampleVariantLoaded ∧
    buildGapStructure "TACGTA".toList exampleVariantLoaded.alignments_starting_at
      = Except.ok ([-1, 0, 0, 1, -1, -1], [0, 1, 1, 2, 1, 0]) ∧
    enumeratorLoop 5000 "chr".toList "TACGTA".toList exampleVariantLoaded.alignments_starting_at
      [-1, 0, 0, 1, -1, -1] (List.range (3 + 1)) enumeratorInit
      = Except.ok exampleVariantFlushed ∧
    exampleVariantFlushed.open_haplotypes.map (fun h => (h.2.1.map (fun a => a.addr), h.2.2))
      = [(none, -1), (some 1, 2), (some 2, 0)] ∧
    ∀ seq H c, (seq, some H, c) ∈ exampleVariantFlushed.open_haplotypes →
      0 ≤ c ∧ (∃ x, H.obj.ref[c.toNat]? = some x ∧ isGapCharacter x = false) ∧
      (nonGapCount (H.obj.ref.take (c.toNat + 1)) : Int)
        = ((3 : Nat) : Int) - H.obj.aligment_start_pos + 1 ∧
      (isExhausted (seq, some H, c) = true ↔ ((3 : Nat) : Int) = H.obj.alignment_last_pos) :=
  ⟨exampleVariantLoaded_reached, exampleVariantBuilt, exampleVariantFlushed_run, rfl,
    cursor_position_invariant 5000 exampleVariantInput exampleVariantLoaded 5000 "chr".toList
      "TACGTA".toList [-1, 0, 0, 1, -1, -1] [0, 1, 1, 2, 1, 0] 3 exampleVariantFlushed
      exampleVariantLoaded_reached exampleVariantBuilt exampleVariantFlushed_run⟩

/-! ## The first reference character (C35) -/

theorem gapWalkColumn_coverage_zero (R : List Char) (start_pos : Int) (w w1 : GapWalk)
    (c : Char) (hpos : 0 ≤ w.ref_pos) (hok : gapWalkColumn R start_pos w c = Except.ok w1) :
    w1.coverage_structure[0]? = w.coverage_structure[0]? ∧ 0 ≤ w1.ref_pos := by
  unfold gapWalkColumn at hok
  by_cases hc : c = '-' ∨ c = '*'
  · rw [if_pos hc] at hok
    simp only [Except.ok.injEq] at hok
    subst hok
    exact ⟨rfl, hpos⟩
  · rw [if_neg hc] at hok
    cases hs : storeGaps start_pos w with
    | error e => rw [hs] at hok; simp at hok
    | ok gs =>
      rw [hs] at hok
      simp only at hok
      cases hv : vectorAt w.coverage_structure (w.ref_pos + 1) with
      | none => rw [hv] at hok; simp at hok
      | some n =>
        rw [hv] at hok
        simp only at hok
        cases hr : vectorAt R (w.ref_pos + 1) with
        | none => rw [hr] at hok; simp at hok
        | some r =>
          rw [hr] at hok
          simp only at hok
          by_cases hcr : c = r ∧ r.toNat < 128
          · rw [if_pos hcr] at hok
            simp only [Except.ok.injEq] at hok
            subst hok
            refine ⟨?_, by simp only; omega⟩
            simp only
            rw [List.getElem?_set_ne]
            omega
          · rw [if_neg hcr] at hok; simp at hok

theorem gapWalkColumns_coverage_zero (R : List Char) (start_pos : Int) :
    ∀ (cs : List Char) (w w1 : GapWalk), 0 ≤ w.ref_pos →
      gapWalkColumns R start_pos cs w = Except.ok w1 →
      w1.coverage_structure[0]? = w.coverage_structure[0]?
  | [], w, w1, _, hok => by
    simp only [gapWalkColumns, Except.ok.injEq] at hok
    rw [hok]
  | c :: cs, w, w1, hpos, hok => by
    simp only [gapWalkColumns] at hok
    cases hc : gapWalkColumn R start_pos w c with
    | error e => rw [hc] at hok; simp at hok
    | ok w2 =>
      rw [hc] at hok
      simp only at hok
      obtain ⟨h1, h2⟩ := gapWalkColumn_coverage_zero R start_pos w w2 c hpos hc
      rw [gapWalkColumns_coverage_zero R start_pos cs w2 w1 h2 hok, h1]

theorem gapWalkAlignment_coverage_zero (R : List Char) (key : Nat) (a : HapPtr)
    (vs vs1 : List Int × List Int)
    (hstart : 1 ≤ a.obj.aligment_start_pos) (hcount : 1 ≤ nonGapCount a.obj.ref)
    (hok : gapWalkAlignment R key a vs = Except.ok vs1) :
    vs1.2[0]? = vs.2[0]? := by
  have hw := (gapWalkAlignment_ok R key a vs vs1 hok).1
  have hkey := (walked_start R key a hw hcount).1
  unfold gapWalkAlignment at hok
  simp only [bind_eq_ok, assertThat_eq_ok, pure_eq_ok, exists_const] at hok
  obtain ⟨-, w, hwalk, -, rfl⟩ := hok
  exact gapWalkColumns_coverage_zero R _ _ _ w (by simp only; omega) hwalk

theorem gapWalkVector_coverage_zero (R : List Char) (key : Nat) :
    ∀ (v : List HapPtr) (vs vs1 : List Int × List Int),
      (∀ a ∈ v, 1 ≤ a.obj.aligment_start_pos ∧ 1 ≤ nonGapCount a.obj.ref) →
      gapWalkVector R key v vs = Except.ok vs1 → vs1.2[0]? = vs.2[0]?
  | [], vs, vs1, _, hok => by
    simp only [gapWalkVector, Except.ok.injEq] at hok
    rw [hok]
  | a :: rest, vs, vs1, hall, hok => by
    simp only [gapWalkVector] at hok
    cases ha : gapWalkAlignment R key a vs with
    | error e => rw [ha] at hok; simp at hok
    | ok vs2 =>
      rw [ha] at hok
      simp only at hok
      have h1 := hall a (List.mem_cons_self _ _)
      rw [gapWalkVector_coverage_zero R key rest vs2 vs1
        (fun x hx => hall x (List.mem_cons_of_mem _ hx)) hok,
        gapWalkAlignment_coverage_zero R key a vs vs2 h1.1 h1.2 ha]

theorem gapWalkIndex_coverage_zero (R : List Char) :
    ∀ (idx : AlignmentIndex) (vs vs1 : List Int × List Int),
      IndexAll (fun _ a => 1 ≤ a.obj.aligment_start_pos ∧ 1 ≤ nonGapCount a.obj.ref) idx →
      gapWalkIndex R idx vs = Except.ok vs1 → vs1.2[0]? = vs.2[0]?
  | [], vs, vs1, _, hok => by
    simp only [gapWalkIndex, Except.ok.injEq] at hok
    rw [hok]
  | (key, v) :: rest, vs, vs1, hall, hok => by
    simp only [gapWalkIndex] at hok
    cases ha : gapWalkVector R key v vs with
    | error e => rw [ha] at hok; simp at hok
    | ok vs2 =>
      rw [ha] at hok
      simp only at hok
      rw [gapWalkIndex_coverage_zero R rest vs2 vs1
        (fun k v0 hm => hall k v0 (List.mem_cons_of_mem _ hm)) hok,
        gapWalkVector_coverage_zero R key v vs vs2
          (fun a ha0 => hall key v (List.mem_cons_self _ _) a ha0) ha]

/-- What holds of every alignment of an index that the loader published and
the builder accepted: it starts at a position from 1 on, and its first and
last ref columns hold the reference characters at its start and last
positions. -/
theorem published_ends (max_gap_length : Int) (lines : List AlignmentLine) (lst : LoaderState)
    (R : List Char) (G C : List Int)
    (hload : loader max_gap_length lines = Except.ok lst)
    (hbuild : buildGapStructure R lst.alignments_starting_at = Except.ok (G, C))
    (key : Nat) (v : List HapPtr) (hm : (key, v) ∈ lst.alignments_starting_at)
    (a : HapPtr) (ha : a ∈ v) :
    1 ≤ a.obj.aligment_start_pos ∧ a.obj.alignment_last_pos < (R.length : Int) ∧
    1 ≤ nonGapCount a.obj.ref ∧
    (∃ r rs, a.obj.ref = r :: rs ∧ isGapCharacter r = false ∧
      R[a.obj.aligment_start_pos.toNat]? = some r) ∧
    (∃ rs r, a.obj.ref = rs ++ [r] ∧ isGapCharacter r = false ∧
      R[a.obj.alignment_last_pos.toNat]? = some r) := by
  have hpub := loader_published max_gap_length lines lst hload key v hm a ha
  have hstart : IndexAll (fun _ p => 1 ≤ p.obj.aligment_start_pos) lst.alignments_starting_at :=
    loadLines_start_pos max_gap_length lines loaderInit lst
      (by intro key v hmem; simp [loaderInit] at hmem) hload
  have h1 := hstart key v hm a ha
  simp only at h1
  have hw := (buildGapStructure_ok R _ G C hbuild).1 key v hm a ha
  obtain ⟨r, rs, hr, hgr⟩ := goodPart_ref_head max_gap_length a.obj hpub.good
  obtain ⟨rs1, r1, hr1, hgr1⟩ := goodPart_ref_last max_gap_length a.obj hpub.good
  have hcount : 1 ≤ nonGapCount a.obj.ref := by
    rw [hr, nonGapCount_cons, if_pos hgr]; omega
  have hkey := (walked_start R key a hw hcount).1
  have hfirst := hw.chars 0 r (by rw [hr]; simp) hgr
  rw [hr] at hfirst
  simp only [zero_add, List.take_succ_cons, List.take_zero] at hfirst
  rw [nonGapCount_singleton r hgr, hkey] at hfirst
  have hlast := hw.chars rs1.length r1 (by rw [hr1]; simp) hgr1
  rw [List.take_of_length_le (by rw [hr1]; simp), hw.last_eq] at hlast
  have hl := vectorAt_nonneg _ _ _ hlast
  refine ⟨h1, by omega, hcount, ⟨r, rs, hr, hgr, ?_⟩, ⟨rs1, r1, hr1, hgr1, ?_⟩⟩
  · unfold vectorAt at hfirst
    rw [if_pos (by omega)] at hfirst
    simpa using hfirst
  · unfold vectorAt at hlast
    rw [if_pos hl.1] at hlast
    exact hlast

theorem stepBeforeFlush_zero (max : Nat) (R : List Char) (idx : AlignmentIndex) (G : List Int)
    (c0 : Char) (hR : R[0]? = some c0) (hidx : indexAt idx 0 = []) :
    stepBeforeFlush max R idx G enumeratorInit 0
      = Except.ok ({ open_haplotypes := [([c0], none, -1)], start_open_haplotypes := 0,
                     modifiedLastPos := false, outputStream := [] }, [[c0]], c0) := by
  have hd : deduplicate enumeratorInit = enumeratorInit := rfl
  have hex : exitRecombination max enumeratorInit = Except.ok enumeratorInit :=
    exitRecombination_none_exhausted max enumeratorInit (by
      intro h hm
      simp only [enumeratorInit, List.mem_singleton] at hm
      subst hm; rfl)
  unfold stepBeforeFlush
  simp only [hd, hR, hidx]
  have hcu : catchUp G 0 enumeratorInit.open_haplotypes = Except.ok enumeratorInit.open_haplotypes :=
    rfl
  rw [hcu]
  simp only [bind, Except.bind]
  have hcl : columnLengthCheck R idx 0 enumeratorInit.open_haplotypes (-1) = Except.ok () :=
    rfl
  rw [hcl]
  simp only [enterHaplotypes]
  have hst : ({ enumeratorInit with open_haplotypes := enumeratorInit.open_haplotypes } :
      EnumeratorState) = enumeratorInit := rfl
  rw [hst, hex]
  simp only
  have hlen : extensionLength enumeratorInit.open_haplotypes (-1) = Except.ok (-1) := rfl
  rw [hlen]
  simp only
  have hext : extendHaplotypes c0 (-1) enumeratorInit.open_haplotypes []
      = Except.ok ([([c0], none, -1)], [[c0]]) := rfl
  rw [hext]
  simp [assertThat, enumeratorInit, pure, Except.pure]

theorem enumeratorStep_at_zero (max : Nat) (refID R : List Char) (idx : AlignmentIndex)
    (G : List Int) (c0 : Char) (hR : R[0]? = some c0) (hidx : indexAt idx 0 = []) :
    enumeratorStep max refID R idx G enumeratorInit 0
      = Except.ok { open_haplotypes := [([c0], none, -1)], start_open_haplotypes := 0,
                    modifiedLastPos := false, outputStream := [] } := by
  rw [enumeratorStep_eq, stepBeforeFlush_zero max R idx G c0 hR hidx]
  simp [bind, Except.bind, pure, Except.pure]

/-- C35. For an index that the loader published and the gap-structure builder
accepted: every alignment has `start_pos ≥ 1` and `last_pos < |R|`, its first
ref column is a non-gap character equal to `R[start_pos]` and its last one a
non-gap character equal to `R[last_pos]`; the coverage of position 0 is 0 when
`R` is not empty; no alignment enters at `posI = 0`; and for a non-empty `R`
iteration 0 returns with the reference as the only open haplotype and the set
`extensions` equal to `{refC}`, so that the assertion of line 1153 holds. -/
theorem first_reference_character_uncovered (max_gap_length : Int)
    (lines : List AlignmentLine) (lst : LoaderState) (max : Nat) (refID R : List Char)
    (G C : List Int)
    (hload : loader max_gap_length lines = Except.ok lst)
    (hbuild : buildGapStructure R lst.alignments_starting_at = Except.ok (G, C)) :
    (∀ key v, (key, v) ∈ lst.alignments_starting_at → ∀ a ∈ v,
      1 ≤ a.obj.aligment_start_pos ∧ a.obj.alignment_last_pos < (R.length : Int) ∧
      (∃ r rs, a.obj.ref = r :: rs ∧ isGapCharacter r = false ∧
        R[a.obj.aligment_start_pos.toNat]? = some r) ∧
      (∃ rs r, a.obj.ref = rs ++ [r] ∧ isGapCharacter r = false ∧
        R[a.obj.alignment_last_pos.toNat]? = some r)) ∧
    (R ≠ [] → C[0]? = some 0) ∧
    indexAt lst.alignments_starting_at 0 = [] ∧
    (∀ c0, R[0]? = some c0 →
      stepBeforeFlush max R lst.alignments_starting_at G enumeratorInit 0
        = Except.ok ({ open_haplotypes := [([c0], none, -1)], start_open_haplotypes := 0,
                       modifiedLastPos := false, outputStream := [] }, [[c0]], c0) ∧
      enumeratorStep max refID R lst.alignments_starting_at G enumeratorInit 0
        = Except.ok { open_haplotypes := [([c0], none, -1)], start_open_haplotypes := 0,
                      modifiedLastPos := false, outputStream := [] }) := by
  have hz := indexAt_zero max_gap_length lines lst R G C hload hbuild
  refine ⟨?_, ?_, hz, ?_⟩
  · intro key v hm a ha
    obtain ⟨h1, h2, -, h4, h5⟩ :=
      published_ends max_gap_length lines lst R G C hload hbuild key v hm a ha
    exact ⟨h1, h2, h4, h5⟩
  · intro hne
    have hall : IndexAll (fun _ a => 1 ≤ a.obj.aligment_start_pos ∧ 1 ≤ nonGapCount a.obj.ref)
        lst.alignments_starting_at := by
      intro key v hm a ha
      obtain ⟨h1, -, h3, -, -⟩ :=
        published_ends max_gap_length lines lst R G C hload hbuild key v hm a ha
      exact ⟨h1, h3⟩
    have h := gapWalkIndex_coverage_zero R _ _ _ hall hbuild
    simp only at h
    rw [h]
    cases R with
    | nil => exact absurd rfl hne
    | cons c cs => simp [List.replicate_succ]
  · intro c0 hR
    exact ⟨stepBeforeFlush_zero max R _ G c0 hR hz,
      enumeratorStep_at_zero max refID R _ G c0 hR hz⟩

/-- C35 on `exampleVariantInput` and the reference `TACGTA`: the coverage of
position 0 is 0 and iteration 0 leaves the reference as the only open
haplotype. -/
theorem first_reference_character_uncovered_witness :
    loader 5000 exampleVariantInput = Except.ok exampleVariantLoaded ∧
    buildGapStructure "TACGTA".toList exampleVariantLoaded.alignments_starting_at
      = Except.ok ([-1, 0, 0, 1, -1, -1], [0, 1, 1, 2, 1, 0]) ∧
    ([0, 1, 1, 2, 1, 0] : List Int)[0]? = some 0 ∧
    enumeratorStep 5000 "chr".toList "TACGTA".toList exampleVariantLoaded.alignments_starting_at
        [-1, 0, 0, 1, -1, -1] enumeratorInit 0
      = Except.ok { open_haplotypes := [(['T'], none, -1)], start_open_haplotypes := 0,
                    modifiedLastPos := false, outputStream := [] } :=
  ⟨exampleVariantLoaded_reached, exampleVariantBuilt,
    (first_reference_character_uncovered 5000 exampleVariantInput exampleVariantLoaded 5000
      "chr".toList "TACGTA".toList [-1, 0, 0, 1, -1, -1] [0, 1, 1, 2, 1, 0]
      exampleVariantLoaded_reached exampleVariantBuilt).2.1 (by decide),
    ((first_reference_character_uncovered 5000 exampleVariantInput exampleVariantLoaded 5000
      "chr".toList "TACGTA".toList [-1, 0, 0, 1, -1, -1] [0, 1, 1, 2, 1, 0]
      exampleVariantLoaded_reached exampleVariantBuilt).2.2.2 'T' rfl).2⟩

/-! ## Order of the alternative alleles (C34) -/

theorem char_eq_of_toNat (a b : Char) (h : a.toNat = b.toNat) : a = b := by
  have := congrArg Char.ofNat h
  simpa using this

theorem stringLess_cons (a b : Char) (as bs : List Char) :
    stringLess (a :: as) (b :: bs) = true ↔
      a.toNat < b.toNat ∨ (a = b ∧ stringLess as bs = true) := by
  have e : stringLess (a :: as) (b :: bs) =
      if a.toNat < b.toNat then true
      else if b.toNat < a.toNat then false else stringLess as bs := by
    rw [stringLess]
  rw [e]
  by_cases h1 : a.toNat < b.toNat
  · rw [if_pos h1]; simp [h1]
  · rw [if_neg h1]
    by_cases h2 : b.toNat < a.toNat
    · rw [if_pos h2]
      simp only [Bool.false_eq_true, h1, false_or, false_iff, not_and]
      intro hab
      rw [hab] at h2
      omega
    · rw [if_neg h2]
      have hab : a = b := char_eq_of_toNat a b (by omega)
      simp [h1, hab]

theorem stringLess_trans : ∀ (x y z : List Char),
    stringLess x y = true → stringLess y z = true → stringLess x z = true
  | [], [], _, h, _ => by simp [stringLess] at h
  | [], _ :: _, [], _, h => by simp [stringLess] at h
  | [], _ :: _, _ :: _, _, _ => by simp [stringLess]
  | _ :: _, [], _, h, _ => by simp [stringLess] at h
  | _ :: _, _ :: _, [], _, h => by simp [stringLess] at h
  | a :: as, b :: bs, c :: cs, h1, h2 => by
    rw [stringLess_cons] at h1 h2 ⊢
    rcases h1 with h1 | ⟨rfl, h1⟩
    · rcases h2 with h2 | ⟨rfl, h2⟩
      · left; omega
      · left; exact h1
    · rcases h2 with h2 | ⟨rfl, h2⟩
      · left; exact h2
      · right; exact ⟨rfl, stringLess_trans as bs cs h1 h2⟩

theorem stringLess_total : ∀ (x y : List Char),
    stringLess x y = false → x ≠ y → stringLess y x = true
  | [], [], _, h => absurd rfl h
  | [], _ :: _, h, _ => by simp [stringLess] at h
  | _ :: _, [], _, _ => by simp [stringLess]
  | a :: as, b :: bs, h1, h2 => by
    rw [stringLess_cons]
    have h3 : ¬ (a.toNat < b.toNat ∨ (a = b ∧ stringLess as bs = true)) := by
      rw [← stringLess_cons, h1]; simp
    simp only [not_or, not_and] at h3
    by_cases hab : a = b
    · subst hab
      right
      refine ⟨rfl, stringLess_total as bs ?_ ?_⟩
      · simpa using h3.2 rfl
      · intro e; exact h2 (by rw [e])
    · left
      have : a.toNat ≠ b.toNat := fun e => hab (char_eq_of_toNat a b e)
      omega

theorem stringLess_ne (x y : List Char) (h : stringLess x y = true) : x ≠ y := by
  intro e
  rw [e, stringLess_irrefl] at h
  cases h

theorem setInsert_ascending (x : List Char) :
    ∀ (s : List (List Char)), s.Pairwise (fun a b => stringLess a b = true) →
      (setInsert x s).Pairwise (fun a b => stringLess a b = true)
  | [], _ => by simp [setInsert]
  | y :: ys, hs => by
    rw [List.pairwise_cons] at hs
    unfold setInsert
    by_cases h1 : stringLess x y = true
    · rw [if_pos h1]
      refine List.pairwise_cons.2 ⟨?_, List.pairwise_cons.2 hs⟩
      intro z hz
      rcases List.mem_cons.1 hz with rfl | hz
      · exact h1
      · exact stringLess_trans _ _ _ h1 (hs.1 z hz)
    · rw [if_neg h1]
      by_cases h2 : x = y
      · rw [if_pos h2]
        exact List.pairwise_cons.2 hs
      · rw [if_neg h2]
        refine List.pairwise_cons.2 ⟨?_, setInsert_ascending x ys hs.2⟩
        intro z hz
        rcases (mem_setInsert z x ys).1 hz with rfl | hz
        · exact stringLess_total _ _ (by simpa using h1) h2
        · exact hs.1 z hz

theorem ascending_nodup (s : List (List Char))
    (hs : s.Pairwise (fun a b => stringLess a b = true)) : s.Nodup :=
  hs.imp (fun h => stringLess_ne _ _ h)

theorem flushHaplotypes_ascending (ref : List Char) (span : Int) :
    ∀ (haps : List openHaplotype) (alts uniq : List (List Char)) (acc : List openHaplotype)
      (alts1 : List (List Char)) (out : List openHaplotype),
      alts.Pairwise (fun a b => stringLess a b = true) →
      flushHaplotypes ref span haps alts uniq acc = Except.ok (alts1, out) →
      alts1.Pairwise (fun a b => stringLess a b = true)
  | [], alts, uniq, acc, alts1, out, hs, hok => by
    simp only [flushHaplotypes, Except.ok.injEq, Prod.mk.injEq] at hok
    rw [← hok.1]; exact hs
  | (seq, src, cur) :: rest, alts, uniq, acc, alts1, out, hs, hok => by
    unfold flushHaplotypes at hok
    by_cases h1 : (seq.length : Int) ≥ span + 1
    · rw [if_pos h1] at hok
      simp only at hok
      by_cases h2 : (seq.drop (seq.length - 1)).length = 1
      · rw [if_pos h2] at hok
        split_ifs at hok
        all_goals
          first
          | exact flushHaplotypes_ascending ref span rest _ _ _ alts1 out
              (setInsert_ascending _ _ hs) hok
          | exact flushHaplotypes_ascending ref span rest _ _ _ alts1 out hs hok
      · rw [if_neg h2] at hok
        simp at hok
    · rw [if_neg h1] at hok
      simp at hok

theorem two_characters (a : List Char) (h : a.length = 2) : ∃ x y, a = [x, y] := by
  match a, h with
  | [x, y], _ => exact ⟨x, y, rfl⟩

theorem second_character_less (a b : List Char) (ha : a.length = 2) (hb : b.length = 2)
    (hfirst : a.take 1 = b.take 1) (hless : stringLess a b = true) :
    stringLess ((a.drop 1).take 1) ((b.drop 1).take 1) = true := by
  obtain ⟨x, y, rfl⟩ := two_characters a ha
  obtain ⟨u, v, rfl⟩ := two_characters b hb
  simp only [List.take_succ_cons, List.take_zero, List.cons.injEq, and_true] at hfirst
  subst hfirst
  rw [stringLess_cons] at hless
  rcases hless with h | ⟨-, h⟩
  · omega
  · simpa using h

theorem second_character_ne (a b : List Char) (ha : a.length = 2) (hb : b.length = 2)
    (hfirst : a.take 1 = b.take 1) (hne : a ≠ b) :
    (a.drop 1).take 1 ≠ (b.drop 1).take 1 := by
  obtain ⟨x, y, rfl⟩ := two_characters a ha
  obtain ⟨u, v, rfl⟩ := two_characters b hb
  simp only [List.take_succ_cons, List.take_zero, List.cons.injEq, and_true] at hfirst
  subst hfirst
  intro e
  apply hne
  simp only [List.drop_succ_cons, List.drop_zero, List.take_succ_cons, List.take_zero,
    List.cons.injEq, and_true] at e
  rw [e]

/-- The lines of lines 1214-1262 for a set of alternative sequences that
ascends strictly and does not hold the reference sequence. -/
theorem vcfOutput_alleles (refID : List Char) (start : Int) (ref : List Char)
    (alts : List (List Char)) (lines : List VCFLine)
    (hasc : alts.Pairwise (fun a b => stringLess a b = true))
    (hne : ∀ a ∈ alts, a ≠ ref)
    (hok : vcfOutput refID start ref alts = Except.ok lines) :
    ∀ line ∈ lines, alts ≠ [] ∧
      ∃ alleles : List (List Char),
        ((alleles = alts ∧ line.ref = ref) ∨
          (alleles = alts.map (fun a => (a.drop 1).take 1) ∧
            line.ref = (ref.drop 1).take 1 ∧ ref.length = 2 ∧
            ∀ a ∈ alts, a.length = 2 ∧ a.take 1 = ref.take 1)) ∧
        line.alt = join alleles [','] ∧
        alleles.Pairwise (fun a b => stringLess a b = true) ∧ alleles.Nodup ∧
        ∀ a ∈ alleles, a ≠ line.ref := by
  rw [vcfOutput_eq] at hok
  intro line hl
  by_cases h0 : alts = []
  · rw [if_pos h0] at hok
    simp only [Except.ok.injEq] at hok
    subst hok
    simp at hl
  · rw [if_neg h0] at hok
    refine ⟨h0, ?_⟩
    by_cases h2 : ref.length = 2 ∧ ∀ a ∈ alts, a.length = 2
    · rw [if_pos h2] at hok
      by_cases h3 : ∀ a ∈ alts, a.take 1 = ref.take 1
      · rw [if_pos h3] at hok
        simp only [Except.ok.injEq] at hok
        subst hok
        simp only [List.mem_singleton] at hl
        subst hl
        have hp : (alts.map (fun a => (a.drop 1).take 1)).Pairwise
            (fun a b => stringLess a b = true) := by
          rw [List.pairwise_map]
          refine hasc.imp_of_mem ?_
          intro a b ha hb hab
          exact second_character_less a b (h2.2 a ha) (h2.2 b hb)
            (by rw [h3 a ha, h3 b hb]) hab
        refine ⟨_, Or.inr ⟨rfl, rfl, h2.1, fun a ha => ⟨h2.2 a ha, h3 a ha⟩⟩, ?_, hp,
          ascending_nodup _ hp, ?_⟩
        · rw [join_eq_intercalate]
        · intro a ha
          rw [List.mem_map] at ha
          obtain ⟨f, hf, rfl⟩ := ha
          exact second_character_ne f ref (h2.2 f hf) h2.1 (h3 f hf) (hne f hf)
      · rw [if_neg h3] at hok
        simp at hok
    · rw [if_neg h2] at hok
      simp only [Except.ok.injEq] at hok
      subst hok
      simp only [List.mem_singleton] at hl
      subst hl
      exact ⟨alts, Or.inl ⟨rfl, rfl⟩, by rw [join_eq_intercalate], hasc,
        ascending_nodup _ hasc, hne⟩

/-- The set `alternativeSequences` at the end of the loop of lines 1179-1208
ascends strictly and does not hold the reference sequence. -/
theorem flushHaplotypes_set (ref : List Char) (span : Int) (haps : List openHaplotype)
    (alts : List (List Char)) (opens : List openHaplotype)
    (hok : flushHaplotypes ref span haps [] [] [] = Except.ok (alts, opens)) :
    alts.Pairwise (fun a b => stringLess a b = true) ∧ alts.Nodup ∧
    (∀ a, a ∈ alts ↔ ∃ h ∈ haps, a = coveredSequence h ∧ a ≠ ref) := by
  have hasc := flushHaplotypes_ascending ref span haps [] [] [] alts opens List.Pairwise.nil hok
  refine ⟨hasc, ascending_nodup _ hasc, ?_⟩
  intro a
  have h := (flushHaplotypes_spec ref span haps [] [] [] alts opens []
    (by intro h _; simp) hok).2.2 a
  simpa using h

theorem flush_alleles (refID R : List Char) (posI : Nat) (st st1 : EnumeratorState)
    (hok : flush refID R posI st = Except.ok st1) :
    ∃ new, st1.outputStream = st.outputStream ++ new ∧ ∀ line ∈ new, AllelesOrdered line := by
  obtain ⟨alts, opens, lines, -, -, -, hfl, hvcf, rfl⟩ := flush_ok refID R posI st st1 hok
  obtain ⟨hasc, -, hmem⟩ := flushHaplotypes_set _ _ _ _ _ hfl
  refine ⟨lines, rfl, ?_⟩
  intro line hl
  obtain ⟨h0, alleles, hcase, hjoin, hp, hnd, hne⟩ :=
    vcfOutput_alleles _ _ _ _ _ hasc
      (fun a ha => by obtain ⟨h, -, -, h2⟩ := (hmem a).1 ha; exact h2) hvcf line hl
  refine ⟨alts, alleles, h0, hasc, ?_, hjoin, hp, hnd, hne⟩
  rcases hcase with ⟨h, -⟩ | ⟨h, -⟩
  · exact Or.inl h
  · exact Or.inr h

theorem allelesOrdered_step (max : Nat) (refID R : List Char) (idx : AlignmentIndex)
    (G : List Int) (st st5 : EnumeratorState) (posI : Nat)
    (hok : enumeratorStep max refID R idx G st posI = Except.ok st5)
    (hst : ∀ line ∈ st.outputStream, AllelesOrdered line) :
    ∀ line ∈ st5.outputStream, AllelesOrdered line := by
  obtain ⟨caughtUp, refC, st2, st3, len, extended, extensions, -, -, -, h3, h4, -, -, h7⟩ :=
    enumeratorStep_ok max refID R idx G st st5 posI hok
  have e2 := (enterHaplotypes_output _ _ _ _ _ _ _ _ h3).1
  have e3 := (exitRecombination_output _ _ _ h4).1
  have e0 : st3.outputStream = st.outputStream := by
    rw [e3, e2]; exact (deduplicate_output st).1
  by_cases hc : decide (extensions.length = 1 ∧ [refC] ∈ extensions) = true ∧ posI > 0
  · rw [if_pos hc] at h7
    obtain ⟨new, hnew, hlines⟩ := flush_alleles refID R posI _ st5 h7
    intro line hl
    rw [hnew, List.mem_append] at hl
    rcases hl with hl | hl
    · exact hst line (by rw [← e0]; exact hl)
    · exact hlines line hl
  · rw [if_neg hc, pure_eq_ok] at h7
    subst h7
    intro line hl
    exact hst line (by rw [← e0]; exact hl)

theorem allelesOrdered_loop (max : Nat) (refID R : List Char) (idx : AlignmentIndex)
    (G : List Int) (positions : List Nat) (st st1 : EnumeratorState)
    (hok : enumeratorLoop max refID R idx G positions st = Except.ok st1)
    (hst : ∀ line ∈ st.outputStream, AllelesOrdered line) :
    ∀ line ∈ st1.outputStream, AllelesOrdered line := by
  induction positions generalizing st with
  | nil =>
    simp only [enumeratorLoop, Except.ok.injEq] at hok
    subst hok; exact hst
  | cons posI rest ih =>
    unfold enumeratorLoop at hok
    cases h : enumeratorStep max refID R idx G st posI with
    | error e => rw [h] at hok; simp at hok
    | ok st2 =>
      rw [h] at hok
      simp only at hok
      exact ih st2 hok (allelesOrdered_step max refID R idx G st st2 posI h hst)

/-- C34. The ALT alleles of every written line are pairwise distinct, ascend
strictly in the order of `std::string` (as the full alternative sequences do,
in the same order), and none is the REF field of the line. At every flush the
set `alternativeSequences` ascends strictly and holds exactly the covered
sequences that differ from the reference sequence; the line joins its elements
and has the reference sequence as REF (general path), or joins their second
characters and has the second character of the reference sequence as REF (SNP
path, where all sequences have length 2 and the first character of the
reference sequence). Hence the property holds of every line of every state
that the main loop reaches and of every line that `produceVCF` returns. -/
theorem alt_alleles_ordered (max : Nat) (refID R : List Char) (idx : AlignmentIndex) :
    (∀ posI st st1, flush refID R posI st = Except.ok st1 →
      ∃ alts opens lines,
        flushHaplotypes
          ((R.drop st.start_open_haplotypes.toNat).take
            ((posI : Int) - st.start_open_haplotypes).toNat)
          ((posI : Int) - st.start_open_haplotypes) st.open_haplotypes [] [] []
            = Except.ok (alts, opens) ∧
        st1.outputStream = st.outputStream ++ lines ∧
        alts.Pairwise (fun a b => stringLess a b = true) ∧
        (∀ a, a ∈ alts ↔ ∃ h ∈ st.open_haplotypes, a = coveredSequence h ∧
          a ≠ (R.drop st.start_open_haplotypes.toNat).take
            ((posI : Int) - st.start_open_haplotypes).toNat) ∧
        ∀ line ∈ lines, alts ≠ [] ∧
          ∃ alleles : List (List Char),
            ((alleles = alts ∧
                line.ref = (R.drop st.start_open_haplotypes.toNat).take
                  ((posI : Int) - st.start_open_haplotypes).toNat) ∨
              (alleles = alts.map (fun a => (a.drop 1).take 1) ∧
                line.ref = (((R.drop st.start_open_haplotypes.toNat).take
                  ((posI : Int) - st.start_open_haplotypes).toNat).drop 1).take 1 ∧
                ((R.drop st.start_open_haplotypes.toNat).take
                  ((posI : Int) - st.start_open_haplotypes).toNat).length = 2 ∧
                ∀ a ∈ alts, a.length = 2 ∧
                  a.take 1 = ((R.drop st.start_open_haplotypes.toNat).take
                    ((posI : Int) - st.start_open_haplotypes).toNat).take 1)) ∧
            line.alt = join alleles [','] ∧
            alleles.Pairwise (fun a b => stringLess a b = true) ∧ alleles.Nodup ∧
            ∀ a ∈ alleles, a ≠ line.ref) ∧
    (∀ G positions st,
      enumeratorLoop max refID R idx G positions enumeratorInit = Except.ok st →
      ∀ line ∈ st.outputStream, AllelesOrdered line) ∧
    (∀ lines, produceVCF max refID R idx = Except.ok lines →
      ∀ line ∈ lines, AllelesOrdered line) := by
  refine ⟨?_, ?_, ?_⟩
  · intro posI st st1 hok
    obtain ⟨alts, opens, lines, -, -, -, hfl, hvcf, rfl⟩ := flush_ok refID R posI st st1 hok
    obtain ⟨hasc, -, hmem⟩ := flushHaplotypes_set _ _ _ _ _ hfl
    exact ⟨alts, opens, lines, hfl, rfl, hasc, hmem,
      vcfOutput_alleles _ _ _ _ _ hasc
        (fun a ha => by obtain ⟨h, -, -, h2⟩ := (hmem a).1 ha; exact h2) hvcf⟩
  · intro G positions st hok
    exact allelesOrdered_loop max refID R idx G positions _ st hok
      (fun _ h => absurd h (List.not_mem_nil _))
  · intro lines hok
    unfold produceVCF at hok
    cases hb : buildGapStructure R idx with
    | error e => rw [hb] at hok; simp at hok
    | ok GC =>
      obtain ⟨G, C⟩ := GC
      rw [hb] at hok
      simp only at hok
      cases hl : enumeratorLoop max refID R idx G (List.range R.length) enumeratorInit with
      | error e => rw [hl] at hok; simp at hok
      | ok st =>
        rw [hl] at hok
        simp only [Except.ok.injEq] at hok
        subst hok
        exact allelesOrdered_loop max refID R idx G _ _ st hl
          (fun _ h => absurd h (List.not_mem_nil _))

/-- C34 on the run of `produceVCF` for `exampleTwoAlleles`: the alignment with
the substitution `T` comes first in the index, the line lists `G` before
`T`. -/
theorem alt_alleles_ordered_witness :
    produceVCF 5000 "chr".toList "TACGTA".toList exampleTwoAlleles
      = Except.ok exampleTwoAllelesLines ∧
    exampleTwoAllelesLines.map (fun line => (line.ref, line.alt)) = [(['C'], "G,T".toList)] ∧
    ∀ line ∈ exampleTwoAllelesLines, AllelesOrdered line :=
  ⟨rfl, rfl, (alt_alleles_ordered 5000 "chr".toList "TACGTA".toList exampleTwoAlleles).2.2
    exampleTwoAllelesLines rfl⟩

/-! ## The reference-path recombinant (C32) -/

theorem referenceSlice_succ (R : List Char) (G : List Int) (s p : Nat) (h : s ≤ p) :
    referenceSlice R G s (p + 1)
      = referenceSlice R G s p ++ (R[p]?.toList ++ List.replicate (gapCount G (p : Int)) '-') := by
  unfold referenceSlice
  have e : p + 1 - s = (p - s) + 1 := by omega
  rw [e, List.range'_concat, List.flatMap_append]
  have e2 : s + (p - s) = p := by omega
  have e3 : (s : Int) + ((p - s : Nat) : Int) = (p : Int) := by omega
  simp [e2, e3]

theorem referenceSlice_self (R : List Char) (G : List Int) (s : Nat) :
    referenceSlice R G s s = [] := by
  simp [referenceSlice]

theorem headSequence_gaps (R : List Char) (G : List Int) (s posI : Nat) (h : s < posI) :
    headSequence R G s posI ++ List.replicate (gapCount G ((posI : Int) - 1)) '-'
      = referenceSlice R G s posI := by
  obtain ⟨p, rfl⟩ : ∃ p, posI = p + 1 := ⟨posI - 1, by omega⟩
  rw [referenceSlice_succ R G s p (by omega)]
  unfold headSequence
  have e : ((p + 1 : Nat) : Int) - 1 = (p : Int) := by push_cast; omega
  rw [e]
  simp

theorem gapString_value (l1 l2 : Nat) (G : List Int) (i : Int) (gaps : List Char)
    (h : gapString l1 l2 G i = Except.ok gaps) :
    gaps = List.replicate (gapCount G i) '-' := by
  unfold gapString at h
  unfold gapCount
  cases hv : vectorAt G i with
  | none => rw [hv] at h; simp at h
  | some g =>
    rw [hv] at h
    simp only at h ⊢
    by_cases hn : (if g = -1 then (0 : Int) else g) < 0
    · rw [if_pos hn] at h; simp at h
    · rw [if_neg hn] at h
      simp only [Except.ok.injEq] at h
      exact h.symm

theorem catchUp_head_exact (G : List Int) (posI : Nat) (seq : List Char) (cur : Int)
    (rest out : List openHaplotype) (hpos : 0 < posI)
    (hok : catchUp G posI ((seq, none, cur) :: rest) = Except.ok out) :
    ∃ rest1,
      out = (seq ++ List.replicate (gapCount G ((posI : Int) - 1)) '-', none, cur) :: rest1 := by
  unfold catchUp at hok
  cases h1 : catchUpHaplotype G posI (seq, none, cur) with
  | error e => rw [h1] at hok; simp at hok
  | ok x1 =>
    rw [h1] at hok
    simp only at hok
    cases h2 : catchUp G posI rest with
    | error e => rw [h2] at hok; simp at hok
    | ok r1 =>
      rw [h2] at hok
      simp only [Except.ok.injEq] at hok
      subst hok
      simp only [catchUpHaplotype] at h1
      rw [if_pos hpos] at h1
      cases hg : gapString 738 743 G ((posI : Int) - 1) with
      | error e => rw [hg] at h1; cases h1
      | ok gaps =>
        rw [hg] at h1
        simp only [Except.ok.injEq] at h1
        subst h1
        rw [gapString_value _ _ _ _ _ hg]
        exact ⟨r1, rfl⟩

theorem referenceExtractionLoop_value (R : List Char) (G : List Int) :
    ∀ (n s : Nat) (acc ext : List Char),
      referenceExtractionLoop R G n (s : Int) acc = Except.ok ext →
      ext = acc ++ (List.range' s n).flatMap
        (fun i => R[i]?.toList ++ List.replicate (gapCount G (i : Int)) '-')
  | 0, s, acc, ext, hok => by
    simp only [referenceExtractionLoop, Except.ok.injEq] at hok
    simp [hok]
  | n + 1, s, acc, ext, hok => by
    simp only [referenceExtractionLoop] at hok
    cases hv : vectorAt R (s : Int) with
    | none => rw [hv] at hok; simp at hok
    | some c =>
      rw [hv] at hok
      simp only at hok
      cases hg : gapString 824 828 G (s : Int) with
      | error e => rw [hg] at hok; simp at hok
      | ok gaps =>
        rw [hg] at hok
        simp only at hok
        have hc : R[s]? = some c := by
          unfold vectorAt at hv
          rw [if_pos (Int.natCast_nonneg _)] at hv
          simpa using hv
        rw [show ((s : Int) + 1) = ((s + 1 : Nat) : Int) by push_cast; rfl] at hok
        rw [referenceExtractionLoop_value R G n (s + 1) _ ext hok,
          gapString_value _ _ _ _ _ hg]
        simp [List.range'_succ, List.flatMap_cons, hc]

/-- Lines 792-851 for one incoming alignment, for a call that returns: it is
skipped, or its entries are appended. -/
theorem enterHaplotype_value (max : Nat) (R : List Char) (G : List Int) (posI size s : Nat)
    (st st1 : EnumeratorState) (H : HapPtr)
    (hs : st.start_open_haplotypes = (s : Int))
    (hok : enterHaplotype max R G posI size st H = Except.ok st1) :
    st1 = st ∨
      (st.open_haplotypes.length ≤ max ∧ s < posI ∧
        st1 = { st with
          open_haplotypes :=
            st.open_haplotypes ++
              entriesFor (st.open_haplotypes.take size) (referenceSlice R G s posI) H
          modifiedLastPos := true }) := by
  unfold enterHaplotype at hok
  by_cases h1 : st.open_haplotypes.length ≤ max
  · rw [if_pos h1] at hok
    by_cases h2 : size > 0
    · rw [if_pos h2] at hok
      simp only [bind_eq_ok, assertThat_eq_ok, pure_eq_ok] at hok
      obtain ⟨-, hge, ext, hext, rfl⟩ := hok
      right
      rw [hs] at hge hext
      have hlt : s < posI := by omega
      have hn : ((posI : Int) - 1 - (s : Int) + 1).toNat = posI - s := by omega
      rw [hn] at hext
      have := referenceExtractionLoop_value R G _ _ _ _ hext
      simp only [List.nil_append] at this
      refine ⟨h1, hlt, ?_⟩
      simp [entriesFor, referenceSlice, this]
    · rw [if_neg h2, pure_eq_ok] at hok
      left; exact hok.symm
  · rw [if_neg h1, pure_eq_ok] at hok
    left; exact hok.symm

/-- The loop of lines 790-852, for a call that returns: the entries of the
alignments that were not skipped are appended, all made from the snapshot
`base` of line 789. -/
theorem enterHaplotypes_entered (max : Nat) (R : List Char) (G : List Int) (posI s : Nat)
    (base : List openHaplotype) :
    ∀ (news : List HapPtr) (st st2 : EnumeratorState),
      st.open_haplotypes.take base.length = base →
      st.start_open_haplotypes = (s : Int) →
      enterHaplotypes max R G posI base.length news st = Except.ok st2 →
      ∃ entered : List HapPtr, entered.Sublist news ∧
        st2.open_haplotypes =
          st.open_haplotypes ++ entered.flatMap (entriesFor base (referenceSlice R G s posI)) ∧
        st2.start_open_haplotypes = st.start_open_haplotypes ∧
        st2.outputStream = st.outputStream ∧
        st2.modifiedLastPos = (st.modifiedLastPos || !entered.isEmpty)
  | [], st, st2, _, _, hok => by
    simp only [enterHaplotypes, Except.ok.injEq] at hok
    subst hok
    exact ⟨[], List.Sublist.refl _, by simp, rfl, rfl, by simp⟩
  | H :: rest, st, st2, htake, hs, hok => by
    simp only [enterHaplotypes] at hok
    cases h1 : enterHaplotype max R G posI base.length st H with
    | error e => rw [h1] at hok; simp at hok
    | ok st1 =>
      rw [h1] at hok
      simp only at hok
      rcases enterHaplotype_value max R G posI base.length s st st1 H hs h1 with rfl | ⟨-, -, rfl⟩
      · obtain ⟨entered, hsub, hopen, h3, h4, h5⟩ :=
          enterHaplotypes_entered max R G posI s base rest _ st2 htake hs hok
        exact ⟨entered, hsub.cons _, hopen, h3, h4, h5⟩
      · have hle : base.length ≤ st.open_haplotypes.length := by
          have := congrArg List.length htake
          rw [List.length_take] at this
          omega
        obtain ⟨entered, hsub, hopen, h3, h4, h5⟩ :=
          enterHaplotypes_entered max R G posI s base rest _ st2
            (by
              simp only
              rw [List.take_append_of_le_length hle, htake])
            (by simpa using hs) hok
        refine ⟨H :: entered, hsub.cons₂ _, ?_, h3, h4, ?_⟩
        · rw [hopen, htake]
          simp [List.flatMap_cons]
        · rw [h5]; simp

theorem forall₂_decompose {α β : Type} (r : α → β → Prop) :
    ∀ (A : List α) (y : α) (B : List α) (out : List β), List.Forall₂ r (A ++ y :: B) out →
      ∃ A1 x B1, out = A1 ++ x :: B1 ∧ List.Forall₂ r A A1 ∧ r y x ∧ List.Forall₂ r B B1
  | [], y, B, out, h => by
    cases h with
    | cons hx ht => exact ⟨[], _, _, rfl, List.Forall₂.nil, hx, ht⟩
  | a :: A, y, B, out, h => by
    cases h with
    | cons hx ht =>
      obtain ⟨A1, x, B1, e, h1, h2, h3⟩ := forall₂_decompose r A y B _ ht
      exact ⟨_ :: A1, x, B1, by rw [e]; rfl, List.Forall₂.cons hx h1, h2, h3⟩

theorem forall₂_mem_left {α β : Type} (r : α → β → Prop) :
    ∀ (l1 : List α) (l2 : List β), List.Forall₂ r l1 l2 → ∀ a ∈ l1, ∃ b ∈ l2, r a b
  | _, _, List.Forall₂.nil, a, ha => by simp at ha
  | _, _, List.Forall₂.cons h t, a, ha => by
    rcases List.mem_cons.1 ha with rfl | ha
    · exact ⟨_, List.mem_cons_self _ _, h⟩
    · obtain ⟨b, hb, hr⟩ := forall₂_mem_left r _ _ t a ha
      exact ⟨b, List.mem_cons_of_mem _ hb, hr⟩

theorem keepFirstOccurrences_remove :
    ∀ (A : List openHaplotype) (x : openHaplotype) (B : List openHaplotype)
      (seen : List (List Char × Option Nat × Int)),
      (haplotypeIdentity x ∈ seen ∨ ∃ a ∈ A, haplotypeIdentity a = haplotypeIdentity x) →
      keepFirstOccurrences (A ++ x :: B) seen = keepFirstOccurrences (A ++ B) seen
  | [], x, B, seen, h => by
    have hx : haplotypeIdentity x ∈ seen := by
      rcases h with h | ⟨a, ha, -⟩
      · exact h
      · simp at ha
    simp only [List.nil_append]
    rw [keepFirstOccurrences, if_pos hx]
  | a :: A, x, B, seen, h => by
    simp only [List.cons_append]
    unfold keepFirstOccurrences
    by_cases ha : haplotypeIdentity a ∈ seen
    · rw [if_pos ha, if_pos ha]
      apply keepFirstOccurrences_remove A x B seen
      rcases h with h | ⟨b, hb, he⟩
      · exact Or.inl h
      · rcases List.mem_cons.1 hb with rfl | hb
        · left; rw [← he]; exact ha
        · exact Or.inr ⟨b, hb, he⟩
    · rw [if_neg ha, if_neg ha]
      congr 1
      apply keepFirstOccurrences_remove A x B
      rcases h with h | ⟨b, hb, he⟩
      · exact Or.inl (List.mem_cons_of_mem _ h)
      · rcases List.mem_cons.1 hb with rfl | hb
        · left; rw [← he]; exact List.mem_cons_self _ _
        · exact Or.inr ⟨b, hb, he⟩

/-- The blocks of an iteration `posI >= 1` of a run in front of the flush. -/
theorem stepBeforeFlush_anatomy (max : Nat) (R : List Char) (idx : AlignmentIndex)
    (G : List Int) (st st4 : EnumeratorState) (posI : Nat) (exts : List (List Char))
    (refC : Char) (hsync : IndexSync G idx) (hb : Before G posI st)
    (hh : HeadSlice R G posI st)
    (hok : stepBeforeFlush max R idx G st posI = Except.ok (st4, exts, refC)) :
    ∃ (s : Nat) (rest : List openHaplotype) (entered : List HapPtr)
      (added : List openHaplotype) (len : Int) (st2 : EnumeratorState),
      (deduplicate st).start_open_haplotypes = (s : Int) ∧ s < posI ∧ R[posI]? = some refC ∧
      catchUp G posI (deduplicate st).open_haplotypes
        = Except.ok ((referenceSlice R G s posI, none, -1) :: rest) ∧
      enterHaplotypes max R G posI (rest.length + 1) (indexAt idx posI)
        { deduplicate st with
          open_haplotypes := (referenceSlice R G s posI, none, -1) :: rest } = Except.ok st2 ∧
      entered.Sublist (indexAt idx posI) ∧
      st2.open_haplotypes =
        ((referenceSlice R G s posI, none, -1) :: rest) ++
          entered.flatMap (entriesFor ((referenceSlice R G s posI, none, -1) :: rest)
            (referenceSlice R G s posI)) ∧
      (len = -1 ∨ len = 1) ∧
      List.Forall₂ (fun h h1 => ∃ e, extendHaplotype refC len h = Except.ok (h1, e))
        (st2.open_haplotypes.map exitSwitch ++ added) st4.open_haplotypes ∧
      st4.start_open_haplotypes = (s : Int) ∧
      (entered ≠ [] → st4.modifiedLastPos = true) := by
  obtain ⟨caughtUp, st2, st3, len, h1, -, hR, h3, h4, h5, h6, h7, -, -⟩ :=
    stepBeforeFlush_ok max R idx G st st4 posI exts refC hok
  obtain ⟨s, rest0, hs, hlt, hopen⟩ := hh
  obtain ⟨⟨rest1, hd1⟩, hd2, -⟩ := deduplicate_head st _ rest0 hopen
  rw [hd1] at h1
  obtain ⟨rest, hcu⟩ := catchUp_head_exact G posI _ _ _ _ (by omega) h1
  rw [headSequence_gaps R G s posI hlt] at hcu
  subst hcu
  rw [← hd1] at h1
  obtain ⟨entered, hsub, hopen2, hs2, -, hm2⟩ :=
    enterHaplotypes_entered max R G posI s ((referenceSlice R G s posI, none, -1) :: rest)
      (indexAt idx posI)
      { deduplicate st with open_haplotypes := (referenceSlice R G s posI, none, -1) :: rest }
      st2 (List.take_length _)
      (by show (deduplicate st).start_open_haplotypes = _; rw [hd2, hs]) h3
  simp only at hopen2 hs2 hm2
  obtain ⟨st3a, added, he, hopen3, hs3, -, hm3, -⟩ := exitRecombination_trace max st2
  rw [h4] at he
  simp only [Except.ok.injEq] at he
  subst he
  obtain ⟨L, hready⟩ := ready_after_exit max R idx G st st2 st3 posI _ hsync hb h1 h3 h4
  obtain ⟨len1, hl1, hl2⟩ := extensionLength_total G posI L st3.open_haplotypes (-1) hready
    (Or.inl rfl)
  rw [h5] at hl1
  simp only [Except.ok.injEq] at hl1
  subst hl1
  have hf := (extendHaplotypes_shape refC len _ _ _ _ h6).1
  refine ⟨s, rest, entered, added, len, st2, by rw [hd2, hs], hlt, hR, h1, h3, hsub, hopen2, hl2,
    ?_, ?_, ?_⟩
  · have e3 : st2.open_haplotypes.map exitSwitch ++ added = st3.open_haplotypes := by
      rw [hopen3]; rfl
    rw [e3]
    exact hf.imp (fun _ _ ⟨e, _, h⟩ => ⟨e, h⟩)
  · rw [h7]
    simp only
    rw [hs3, hs2, hd2, hs]
  · intro hne
    rw [h7]
    simp only
    rw [hm3, hm2]
    cases entered with
    | nil => exact absurd rfl hne
    | cons a l => simp

theorem keepFirstOccurrences_head (x : openHaplotype) (rest : List openHaplotype) :
    keepFirstOccurrences (x :: rest) []
      = x :: keepFirstOccurrences rest [haplotypeIdentity x] := by
  rw [keepFirstOccurrences, if_neg (List.not_mem_nil _)]

theorem flush_open (refID R : List Char) (posI : Nat) (st4 st5 : EnumeratorState)
    (hok : flush refID R posI st4 = Except.ok st5) :
    st5.open_haplotypes = keepFirstOccurrences (st4.open_haplotypes.map trimToLast) [] ∧
    st5.start_open_haplotypes = (posI : Int) := by
  obtain ⟨alts, opens, lines, -, -, -, h3, -, h5⟩ := flush_ok refID R posI st4 st5 hok
  obtain ⟨e1, -, -⟩ := flushHaplotypes_spec _ _ _ _ _ _ _ _ [] (by simp) h3
  simp only [List.nil_append] at e1
  subst h5
  exact ⟨e1, rfl⟩

theorem extendHaplotype_reference (refC : Char) (len : Int) (seq : List Char) (cur : Int)
    (hlen : len = -1 ∨ len = 1) :
    extendHaplotype refC len (seq, none, cur) = Except.ok ((seq ++ [refC], none, cur), [refC]) := by
  unfold extendHaplotype
  rcases hlen with h | h
  · subst h; simp
  · subst h; simp

theorem headSlice_step (max : Nat) (refID R : List Char) (idx : AlignmentIndex) (G : List Int)
    (st st5 : EnumeratorState) (posI : Nat) (hsync : IndexSync G idx) (hb : Before G posI st)
    (hh : HeadSlice R G posI st)
    (hok : enumeratorStep max refID R idx G st posI = Except.ok st5) :
    HeadSlice R G (posI + 1) st5 := by
  rw [enumeratorStep_eq] at hok
  cases hbf : stepBeforeFlush max R idx G st posI with
  | error e => rw [hbf] at hok; cases hok
  | ok x =>
    obtain ⟨st4, exts, refC⟩ := x
    rw [hbf] at hok
    simp only [Except.bind] at hok
    obtain ⟨s, rest, entered, added, len, st2, -, hlt, hR, -, -, -, hopen2, hlen, hf, hs4, -⟩ :=
      stepBeforeFlush_anatomy max R idx G st st4 posI exts refC hsync hb hh hbf
    have hhead : ∃ rest4, st4.open_haplotypes
        = (referenceSlice R G s posI ++ [refC], none, -1) :: rest4 := by
      rw [hopen2] at hf
      simp only [List.cons_append, List.map_cons] at hf
      rw [List.forall₂_cons_left_iff] at hf
      obtain ⟨b, u, ⟨e, he⟩, -, hu⟩ := hf
      have hsw : exitSwitch (referenceSlice R G s posI, none, -1)
          = (referenceSlice R G s posI, none, -1) := rfl
      rw [hsw, extendHaplotype_reference refC len _ _ hlen] at he
      simp only [Except.ok.injEq, Prod.mk.injEq] at he
      exact ⟨u, by rw [hu, ← he.1]⟩
    obtain ⟨rest4, hopen4⟩ := hhead
    by_cases hc : decide (exts.length = 1 ∧ [refC] ∈ exts) = true ∧ posI > 0
    · rw [if_pos hc] at hok
      obtain ⟨e1, e2⟩ := flush_open refID R posI st4 st5 hok
      rw [hopen4, List.map_cons, keepFirstOccurrences_head, trimToLast_append_singleton] at e1
      refine ⟨posI, keepFirstOccurrences (rest4.map trimToLast)
        [haplotypeIdentity ([refC], none, -1)], e2, by omega, ?_⟩
      rw [e1]
      unfold headSequence
      simp [referenceSlice_self, hR]
    · rw [if_neg hc] at hok
      simp only [Except.ok.injEq] at hok
      subst hok
      refine ⟨s, rest4, hs4, by omega, ?_⟩
      rw [hopen4]
      unfold headSequence
      simp [hR]

theorem headSlice_loop (max : Nat) (refID R : List Char) (idx : AlignmentIndex) (G : List Int)
    (hsync : IndexSync G idx) :
    ∀ (n : Nat) (st : EnumeratorState),
      enumeratorLoop max refID R idx G (List.range (n + 1)) enumeratorInit = Except.ok st →
      HeadSlice R G (n + 1) st
  | 0, st, hok => by
    simp only [List.range_succ, List.range_zero, List.nil_append, enumeratorLoop] at hok
    cases h1 : enumeratorStep max refID R idx G enumeratorInit 0 with
    | error e => rw [h1] at hok; simp at hok
    | ok st1 =>
      rw [h1] at hok
      simp only [Except.ok.injEq] at hok
      subst hok
      obtain ⟨c0, hc0, rfl⟩ := enumeratorStep_zero max refID R idx G st1 h1
      refine ⟨0, [], rfl, by omega, ?_⟩
      unfold headSequence
      simp [referenceSlice_self, hc0]
  | n + 1, st, hok => by
    rw [List.range_succ, enumeratorLoop_append] at hok
    cases h1 : enumeratorLoop max refID R idx G (List.range (n + 1)) enumeratorInit with
    | error e => rw [h1] at hok; simp at hok
    | ok st1 =>
      rw [h1] at hok
      simp only [enumeratorLoop] at hok
      cases h2 : enumeratorStep max refID R idx G st1 (n + 1) with
      | error e => rw [h2] at hok; simp at hok
      | ok st2 =>
        rw [h2] at hok
        simp only [Except.ok.injEq] at hok
        subst hok
        exact headSlice_step max refID R idx G st1 st2 (n + 1) hsync
          (enumeratorLoop_before max refID R idx G hsync (n + 1) st1 h1)
          (headSlice_loop max refID R idx G hsync n st1 h1) h2

theorem exitSwitch_entry (P : List Char) (H : HapPtr) (href : H.obj.ref ≠ []) :
    exitSwitch (P, some H, -1) = (P, some H, -1) := by
  unfold exitSwitch isExhausted
  simp only
  rw [if_neg]
  simp only [decide_eq_true_eq]
  have : 0 < H.obj.ref.length := List.length_pos.2 href
  omega

theorem extendHaplotype_entry (refC : Char) (len : Int) (P : List Char) (H : HapPtr)
    (x : openHaplotype) (e : List Char)
    (h : extendHaplotype refC len (P, some H, -1) = Except.ok (x, e)) :
    alignmentExtension 1124 1125 1130 H (-1) = Except.ok e ∧
      x = (P ++ e, some H, -1 + (e.length : Int)) := by
  unfold extendHaplotype at h
  simp only at h
  cases ha : alignmentExtension 1124 1125 1130 H (-1) with
  | error err => rw [ha] at h; simp at h
  | ok ext =>
    rw [ha] at h
    simp only [Except.ok.injEq, Prod.mk.injEq] at h
    obtain ⟨h1, h2⟩ := h
    subst h2
    exact ⟨rfl, h1.symm⟩

/-- The extension of the triple added last for the incoming alignment `H`
stands in the open haplotypes after the extension, and so does, further to the
front, the extension of the copy of the first open haplotype, which is the
same triple. -/
theorem entry_duplicate_extended (refC : Char) (len : Int) (P : List Char)
    (rest : List openHaplotype) (entered pre post : List HapPtr) (H : HapPtr)
    (added open2 open4 : List openHaplotype)
    (hopen2 : open2 = ((P, none, -1) :: rest) ++
      entered.flatMap (entriesFor ((P, none, -1) :: rest) P))
    (he : entered = pre ++ H :: post) (href : H.obj.ref ≠ [])
    (hf : List.Forall₂ (fun h h1 => ∃ e, extendHaplotype refC len h = Except.ok (h1, e))
      (open2.map exitSwitch ++ added) open4) :
    ∃ (A : List openHaplotype) (x : openHaplotype) (B : List openHaplotype) (e : List Char),
      open4 = A ++ x :: B ∧
      A.length = (rest.length + 1) + pre.length * (rest.length + 2) + (rest.length + 1) ∧
      alignmentExtension 1124 1125 1130 H (-1) = Except.ok e ∧
      x = (P ++ e, some H, -1 + (e.length : Int)) ∧
      A[(rest.length + 1) + pre.length * (rest.length + 2)]? = some x := by
  have hsplit : open2.map exitSwitch ++ added =
      (((P, none, -1) :: rest) ++ pre.flatMap (entriesFor ((P, none, -1) :: rest) P)).map
          exitSwitch ++
        (P, some H, -1) ::
          ((rest.map (fun existing => (existing.1, some H, (-1 : Int)))).map exitSwitch ++
            (P, some H, -1) ::
              ((post.flatMap (entriesFor ((P, none, -1) :: rest) P)).map exitSwitch ++ added)) := by
    rw [hopen2, he]
    simp only [List.flatMap_append, List.flatMap_cons, entriesFor, List.map_append, List.map_cons,
      List.map_nil, exitSwitch_entry P H href, List.append_assoc, List.cons_append,
      List.nil_append, List.singleton_append]
  rw [hsplit] at hf
  obtain ⟨Aa, x1, T, e1, f1, ⟨ex1, hx1⟩, f2⟩ := forall₂_decompose _ _ _ _ _ hf
  obtain ⟨Ab, x, B, e2, f3, ⟨ex, hx⟩, -⟩ := forall₂_decompose _ _ _ _ _ f2
  have hsame : x1 = x := by
    rw [hx] at hx1
    simp only [Except.ok.injEq, Prod.mk.injEq] at hx1
    exact hx1.1.symm
  subst hsame
  obtain ⟨h1, h2⟩ := extendHaplotype_entry refC len P H x1 ex hx
  have hla : Aa.length = (rest.length + 1) + pre.length * (rest.length + 2) := by
    rw [← f1.length_eq, List.length_map, List.length_append, length_flatMap_entriesFor]
    simp only [List.length_cons]
  have hlb : Ab.length = rest.length := by
    rw [← f3.length_eq]; simp
  refine ⟨Aa ++ x1 :: Ab, x1, B, ex, ?_, ?_, h1, h2, ?_⟩
  · rw [e1, e2]; simp
  · rw [List.length_append, List.length_cons, hla, hlb]
  · rw [← hla, List.getElem?_append_right (le_refl _)]
    simp

theorem exampleEntryLoaded_reached :
    loader 5000 exampleEntryInput = Except.ok exampleEntryLoaded := rfl

theorem exampleEntryBuilt :
    buildGapStructure "TACGTA".toList exampleEntryLoaded.alignments_starting_at
      = Except.ok ([-1, 0, 0, -1, -1, -1], [0, 1, 2, 2, 0, 0]) := rfl

theorem exampleEntryState_reached :
    enumeratorLoop 5000 "chr".toList "TACGTA".toList exampleEntryLoaded.alignments_starting_at
      [-1, 0, 0, -1, -1, -1] (List.range 2) enumeratorInit = Except.ok exampleEntryState := rfl

theorem exampleEntryExtended_reached :
    enumeratorStep 5000 "chr".toList "TACGTA".toList exampleEntryLoaded.alignments_starting_at
      [-1, 0, 0, -1, -1, -1] exampleEntryState 2 = Except.ok exampleEntryExtended := rfl

theorem exampleEntryExtended_deduplicated :
    (deduplicate exampleEntryExtended).open_haplotypes
      = exampleEntryExtended.open_haplotypes.take 3 := by decide

theorem exampleVariantFlushed_step :
    enumeratorStep 5000 "chr".toList "TACGTA".toList exampleVariantLoaded.alignments_starting_at
      [-1, 0, 0, 1, -1, -1] exampleVariantState 3 = Except.ok exampleVariantFlushed := rfl

theorem exampleVariantEntered :
    catchUp [-1, 0, 0, 1, -1, -1] 3 (deduplicate exampleVariantState).open_haplotypes
      = Except.ok exampleVariantState.open_haplotypes ∧
    indexAt exampleVariantLoaded.alignments_starting_at 3 = [exampleVariantEntering] ∧
    enterHaplotypes 5000 "TACGTA".toList [-1, 0, 0, 1, -1, -1] 3
        exampleVariantState.open_haplotypes.length
        (indexAt exampleVariantLoaded.alignments_starting_at 3)
        { deduplicate exampleVariantState with
          open_haplotypes := exampleVariantState.open_haplotypes }
      = Except.ok
        { exampleVariantState with
          open_haplotypes :=
            exampleVariantState.open_haplotypes ++
              [("AC".toList, some exampleVariantEntering, -1),
               ("AT".toList, some exampleVariantEntering, -1),
               ("AC".toList, some exampleVariantEntering, -1)]
          modifiedLastPos := true } := ⟨rfl, rfl, rfl⟩

theorem exampleVariantFlushed_deduplicated :
    countDuplicated exampleVariantFlushed.open_haplotypes [] 0 = 0 ∧
    (deduplicate exampleVariantFlushed).open_haplotypes
      = exampleVariantFlushed.open_haplotypes ∧
    exampleVariantFlushed.open_haplotypes.length = 3 ∧
    exampleVariantExtended.open_haplotypes[4]? = exampleVariantExtended.open_haplotypes[2]?
    := by decide

theorem keepFirstOccurrences_remove_mem (A : List openHaplotype) (x : openHaplotype)
    (B : List openHaplotype) (hx : x ∈ A) :
    keepFirstOccurrences (A ++ x :: B) [] = keepFirstOccurrences (A ++ B) [] ∧
    keepFirstOccurrences ((A ++ x :: B).map trimToLast) []
      = keepFirstOccurrences ((A ++ B).map trimToLast) [] := by
  constructor
  · exact keepFirstOccurrences_remove A x B [] (Or.inr ⟨x, hx, rfl⟩)
  · rw [List.map_append, List.map_cons, List.map_append]
    exact keepFirstOccurrences_remove _ _ _ [] (Or.inr ⟨_, List.mem_map_of_mem _ hx, rfl⟩)

/-- C32 (amended). In a run on an index that the loader published and the
builder accepted, in every iteration `posI` that returns: after the catch-up
the first open haplotype is on the reference and its sequence is the padded
reference slice `P` (`referenceSlice`); the entry recombination appends, for
every incoming alignment `H` that is not skipped, the copies of the open
haplotypes and then `(P, H, -1)`, which is equal to the first of these copies;
after the extension the two are still equal, and the later one, at the place of
the triple added last, is removed as a duplicate: by the flush of the same
iteration when the iteration flushes, and by the next deduplication (which
runs, `modifiedLastPos` being set) when it does not. In both cases the result
is what it would be had the triple not been added. -/
theorem reference_recombinant_redundant (max_gap_length : Int) (lines : List AlignmentLine)
    (lst : LoaderState) (max : Nat) (refID R : List Char) (G C : List Int) (posI : Nat)
    (st st5 : EnumeratorState)
    (hload : loader max_gap_length lines = Except.ok lst)
    (hbuild : buildGapStructure R lst.alignments_starting_at = Except.ok (G, C))
    (hloop : enumeratorLoop max refID R lst.alignments_starting_at G (List.range posI)
      enumeratorInit = Except.ok st)
    (hstep : enumeratorStep max refID R lst.alignments_starting_at G st posI = Except.ok st5) :
    ∃ (s : Nat) (rest : List openHaplotype) (entered : List HapPtr)
      (st2 st4 : EnumeratorState) (exts : List (List Char)) (refC : Char),
      (deduplicate st).start_open_haplotypes = (s : Int) ∧
      catchUp G posI (deduplicate st).open_haplotypes
        = Except.ok ((referenceSlice R G s posI, none, -1) :: rest) ∧
      enterHaplotypes max R G posI (rest.length + 1) (indexAt lst.alignments_starting_at posI)
        { deduplicate st with
          open_haplotypes := (referenceSlice R G s posI, none, -1) :: rest } = Except.ok st2 ∧
      entered.Sublist (indexAt lst.alignments_starting_at posI) ∧
      st2.open_haplotypes =
        ((referenceSlice R G s posI, none, -1) :: rest) ++
          entered.flatMap (entriesFor ((referenceSlice R G s posI, none, -1) :: rest)
            (referenceSlice R G s posI)) ∧
      (∀ H, entriesFor ((referenceSlice R G s posI, none, -1) :: rest)
          (referenceSlice R G s posI) H
        = (referenceSlice R G s posI, some H, -1) ::
            (rest.map (fun existing => (existing.1, some H, (-1 : Int))) ++
              [(referenceSlice R G s posI, some H, -1)])) ∧
      stepBeforeFlush max R lst.alignments_starting_at G st posI = Except.ok (st4, exts, refC) ∧
      ∀ pre H post, entered = pre ++ H :: post →
        ∃ (A : List openHaplotype) (x : openHaplotype) (B : List openHaplotype) (e : List Char),
          st4.open_haplotypes = A ++ x :: B ∧
          A.length = (rest.length + 1) + pre.length * (rest.length + 2) + (rest.length + 1) ∧
          alignmentExtension 1124 1125 1130 H (-1) = Except.ok e ∧
          x = (referenceSlice R G s posI ++ e, some H, -1 + (e.length : Int)) ∧
          A[(rest.length + 1) + pre.length * (rest.length + 2)]? = some x ∧
          (if decide (exts.length = 1 ∧ [refC] ∈ exts) = true ∧ posI > 0 then
            st5.open_haplotypes = keepFirstOccurrences ((A ++ x :: B).map trimToLast) [] ∧
            st5.open_haplotypes = keepFirstOccurrences ((A ++ B).map trimToLast) []
          else
            st5 = st4 ∧ st5.modifiedLastPos = true ∧
            (deduplicate st5).open_haplotypes = keepFirstOccurrences (A ++ x :: B) [] ∧
            (deduplicate st5).open_haplotypes = keepFirstOccurrences (A ++ B) []) := by
  have hsync := indexSync_of_loaded max_gap_length lines lst R G C hload hbuild
  rcases Nat.eq_zero_or_pos posI with hz | hpos
  · subst hz
    simp only [List.range_zero, enumeratorLoop, Except.ok.injEq] at hloop
    subst hloop
    have hidx := indexAt_zero max_gap_length lines lst R G C hload hbuild
    obtain ⟨c0, hc0, -⟩ := enumeratorStep_zero max refID R _ G st5 hstep
    refine ⟨0, [], [], enumeratorInit, _, _, _, rfl, ?_, ?_, List.nil_sublist _, ?_, ?_,
      stepBeforeFlush_zero max R _ G c0 hc0 hidx, ?_⟩
    · rw [referenceSlice_self]; rfl
    · rw [hidx, referenceSlice_self]; rfl
    · rw [referenceSlice_self]; rfl
    · intro H; rfl
    · intro pre H post he
      simp at he
  · obtain ⟨n, rfl⟩ : ∃ n, posI = n + 1 := ⟨posI - 1, by omega⟩
    have hb := enumeratorLoop_before max refID R _ G hsync (n + 1) st hloop
    have hh := headSlice_loop max refID R _ G hsync n st hloop
    rw [enumeratorStep_eq] at hstep
    cases hbf : stepBeforeFlush max R lst.alignments_starting_at G st (n + 1) with
    | error e => rw [hbf] at hstep; cases hstep
    | ok x =>
      obtain ⟨st4, exts, refC⟩ := x
      rw [hbf] at hstep
      simp only [Except.bind] at hstep
      obtain ⟨s, rest, entered, added, len, st2, hs, hlt, hR, hcu, hent, hsub, hopen2, hlen, hf,
        hs4, hmod⟩ := stepBeforeFlush_anatomy max R _ G st st4 (n + 1) exts refC hsync hb hh hbf
      refine ⟨s, rest, entered, st2, st4, exts, refC, hs, hcu, hent, hsub, hopen2,
        fun H => rfl, rfl, ?_⟩
      intro pre H post he
      have hmem : H ∈ indexAt lst.alignments_starting_at (n + 1) :=
        hsub.subset (by rw [he]; simp)
      have href : H.obj.ref ≠ [] := by
        obtain ⟨r, rs, hr, -⟩ := (hsync (n + 1) H hmem).1.head
        rw [hr]; simp
      obtain ⟨A, x, B, e, h1, h2, h3, h4, h5⟩ :=
        entry_duplicate_extended refC len _ rest entered pre post H added _ _ hopen2 he href hf
      have hxA : x ∈ A := mem_of_getElem?_some _ _ _ h5
      obtain ⟨k1, k2⟩ := keepFirstOccurrences_remove_mem A x B hxA
      refine ⟨A, x, B, e, h1, h2, h3, h4, h5, ?_⟩
      by_cases hc : decide (exts.length = 1 ∧ [refC] ∈ exts) = true ∧ n + 1 > 0
      · rw [if_pos hc] at hstep ⊢
        obtain ⟨e1, -⟩ := flush_open refID R (n + 1) st4 st5 hstep
        rw [h1] at e1
        exact ⟨e1, by rw [e1, k2]⟩
      · rw [if_neg hc] at hstep ⊢
        simp only [Except.ok.injEq] at hstep
        subst hstep
        have hm : st4.modifiedLastPos = true := hmod (by rw [he]; simp)
        have hd : (deduplicate st4).open_haplotypes
            = keepFirstOccurrences st4.open_haplotypes [] := by
          rw [deduplicate_eq, if_pos hm]
        rw [h1] at hd
        exact ⟨rfl, hm, hd, by rw [hd, k1]⟩

/-- C32 (amended) at iteration 2 of the run on `exampleEntryInput`, which does
not flush: the second alignment enters, the open haplotypes after the iteration
hold the triple `(AC, h2, 0)` three times, and the next deduplication keeps the
first of them. -/
theorem reference_recombinant_redundant_witness :
    loader 5000 exampleEntryInput = Except.ok exampleEntryLoaded ∧
    buildGapStructure "TACGTA".toList exampleEntryLoaded.alignments_starting_at
      = Except.ok ([-1, 0, 0, -1, -1, -1], [0, 1, 2, 2, 0, 0]) ∧
    enumeratorLoop 5000 "chr".toList "TACGTA".toList exampleEntryLoaded.alignments_starting_at
      [-1, 0, 0, -1, -1, -1] (List.range 2) enumeratorInit = Except.ok exampleEntryState ∧
    enumeratorStep 5000 "chr".toList "TACGTA".toList exampleEntryLoaded.alignments_starting_at
      [-1, 0, 0, -1, -1, -1] exampleEntryState 2 = Except.ok exampleEntryExtended ∧
    (deduplicate exampleEntryExtended).open_haplotypes
      = exampleEntryExtended.open_haplotypes.take 3 ∧
    (∃ (s : Nat) (rest : List openHaplotype) (entered : List HapPtr)
      (st2 st4 : EnumeratorState) (exts : List (List Char)) (refC : Char),
      (deduplicate exampleEntryState).start_open_haplotypes = (s : Int) ∧
      catchUp [-1, 0, 0, -1, -1, -1] 2 (deduplicate exampleEntryState).open_haplotypes
        = Except.ok
          ((referenceSlice "TACGTA".toList [-1, 0, 0, -1, -1, -1] s 2, none, -1) :: rest) ∧
      enterHaplotypes 5000 "TACGTA".toList [-1, 0, 0, -1, -1, -1] 2 (rest.length + 1)
        (indexAt exampleEntryLoaded.alignments_starting_at 2)
        { deduplicate exampleEntryState with
          open_haplotypes :=
            (referenceSlice "TACGTA".toList [-1, 0, 0, -1, -1, -1] s 2, none, -1) :: rest }
        = Except.ok st2 ∧
      entered.Sublist (indexAt exampleEntryLoaded.alignments_starting_at 2) ∧
      st2.open_haplotypes =
        ((referenceSlice "TACGTA".toList [-1, 0, 0, -1, -1, -1] s 2, none, -1) :: rest) ++
          entered.flatMap (entriesFor
            ((referenceSlice "TACGTA".toList [-1, 0, 0, -1, -1, -1] s 2, none, -1) :: rest)
            (referenceSlice "TACGTA".toList [-1, 0, 0, -1, -1, -1] s 2)) ∧
      (∀ H, entriesFor
          ((referenceSlice "TACGTA".toList [-1, 0, 0, -1, -1, -1] s 2, none, -1) :: rest)
          (referenceSlice "TACGTA".toList [-1, 0, 0, -1, -1, -1] s 2) H
        = (referenceSlice "TACGTA".toList [-1, 0, 0, -1, -1, -1] s 2, some H, -1) ::
            (rest.map (fun existing => (existing.1, some H, (-1 : Int))) ++
              [(referenceSlice "TACGTA".toList [-1, 0, 0, -1, -1, -1] s 2, some H, -1)])) ∧
      stepBeforeFlush 5000 "TACGTA".toList exampleEntryLoaded.alignments_starting_at
        [-1, 0, 0, -1, -1, -1] exampleEntryState 2 = Except.ok (st4, exts, refC) ∧
      ∀ pre H post, entered = pre ++ H :: post →
        ∃ (A : List openHaplotype) (x : openHaplotype) (B : List openHaplotype) (e : List Char),
          st4.open_haplotypes = A ++ x :: B ∧
          A.length = (rest.length + 1) + pre.length * (rest.length + 2) + (rest.length + 1) ∧
          alignmentExtension 1124 1125 1130 H (-1) = Except.ok e ∧
          x = (referenceSlice "TACGTA".toList [-1, 0, 0, -1, -1, -1] s 2 ++ e, some H,
            -1 + (e.length : Int)) ∧
          A[(rest.length + 1) + pre.length * (rest.length + 2)]? = some x ∧
          (if decide (exts.length = 1 ∧ [refC] ∈ exts) = true ∧ 2 > 0 then
            exampleEntryExtended.open_haplotypes
              = keepFirstOccurrences ((A ++ x :: B).map trimToLast) [] ∧
            exampleEntryExtended.open_haplotypes
              = keepFirstOccurrences ((A ++ B).map trimToLast) []
          else
            exampleEntryExtended = st4 ∧ exampleEntryExtended.modifiedLastPos = true ∧
            (deduplicate exampleEntryExtended).open_haplotypes
              = keepFirstOccurrences (A ++ x :: B) [] ∧
            (deduplicate exampleEntryExtended).open_haplotypes
              = keepFirstOccurrences (A ++ B) [])) :=
  ⟨exampleEntryLoaded_reached, exampleEntryBuilt, exampleEntryState_reached,
    exampleEntryExtended_reached, exampleEntryExtended_deduplicated,
    reference_recombinant_redundant 5000 exampleEntryInput exampleEntryLoaded 5000 "chr".toList
      "TACGTA".toList [-1, 0, 0, -1, -1, -1] [0, 1, 2, 2, 0, 0] 2 exampleEntryState
      exampleEntryExtended exampleEntryLoaded_reached exampleEntryBuilt exampleEntryState_reached
      exampleEntryExtended_reached⟩

/-- C32 as stated fails. In the run on `exampleVariantInput` and the reference
`TACGTA`, the entry recombination of iteration 3 appends `(AC, h2, -1)`,
`(AT, h2, -1)` and, last, `(AC, h2, -1)` again; after the extension the open
haplotypes at the indices 2 and 4 are equal; the iteration flushes and its
flush leaves three open haplotypes; the next deduplication counts no duplicate
and removes nothing. -/
theorem reference_recombinant_removed_by_flush :
    loader 5000 exampleVariantInput = Except.ok exampleVariantLoaded ∧
    buildGapStructure "TACGTA".toList exampleVariantLoaded.alignments_starting_at
      = Except.ok ([-1, 0, 0, 1, -1, -1], [0, 1, 1, 2, 1, 0]) ∧
    enumeratorLoop 5000 "chr".toList "TACGTA".toList exampleVariantLoaded.alignments_starting_at
      [-1, 0, 0, 1, -1, -1] (List.range 3) enumeratorInit = Except.ok exampleVariantState ∧
    catchUp [-1, 0, 0, 1, -1, -1] 3 (deduplicate exampleVariantState).open_haplotypes
      = Except.ok exampleVariantState.open_haplotypes ∧
    indexAt exampleVariantLoaded.alignments_starting_at 3 = [exampleVariantEntering] ∧
    enterHaplotypes 5000 "TACGTA".toList [-1, 0, 0, 1, -1, -1] 3
        exampleVariantState.open_haplotypes.length
        (indexAt exampleVariantLoaded.alignments_starting_at 3)
        { deduplicate exampleVariantState with
          open_haplotypes := exampleVariantState.open_haplotypes }
      = Except.ok
        { exampleVariantState with
          open_haplotypes :=
            exampleVariantState.open_haplotypes ++
              [("AC".toList, some exampleVariantEntering, -1),
               ("AT".toList, some exampleVariantEntering, -1),
               ("AC".toList, some exampleVariantEntering, -1)]
          modifiedLastPos := true } ∧
    stepBeforeFlush 5000 "TACGTA".toList exampleVariantLoaded.alignments_starting_at
      [-1, 0, 0, 1, -1, -1] exampleVariantState 3
      = Except.ok (exampleVariantExtended, [['G']], 'G') ∧
    exampleVariantExtended.open_haplotypes[4]? = exampleVariantExtended.open_haplotypes[2]? ∧
    exampleVariantExtended.open_haplotypes.length = 5 ∧
    enumeratorStep 5000 "chr".toList "TACGTA".toList exampleVariantLoaded.alignments_starting_at
      [-1, 0, 0, 1, -1, -1] exampleVariantState 3 = Except.ok exampleVariantFlushed ∧
    exampleVariantFlushed.open_haplotypes.length = 3 ∧
    exampleVariantFlushed.modifiedLastPos = true ∧
    countDuplicated exampleVariantFlushed.open_haplotypes [] 0 = 0 ∧
    (deduplicate exampleVariantFlushed).open_haplotypes
      = exampleVariantFlushed.open_haplotypes :=
  ⟨exampleVariantLoaded_reached, exampleVariantBuilt, exampleVariantState_reached,
    exampleVariantEntered.1, exampleVariantEntered.2.1, exampleVariantEntered.2.2,
    exampleVariantExtended_reached, exampleVariantFlushed_deduplicated.2.2.2, rfl,
    exampleVariantFlushed_step, exampleVariantFlushed_deduplicated.2.2.1, rfl,
    exampleVariantFlushed_deduplicated.1, exampleVariantFlushed_deduplicated.2.1⟩

/-! ## The expected-SNPs file (C10) -/

theorem mem_alleleInsert (pos : Int) (a : List Char) (p : Int) (q : List Char) :
    ∀ m : List (Int × List (List Char)),
      (∃ s, (p, s) ∈ alleleInsert m pos a ∧ q ∈ s) ↔
        (∃ s, (p, s) ∈ m ∧ q ∈ s) ∨ (p = pos ∧ q = a)
  | [] => by
    simp only [alleleInsert, List.mem_singleton, Prod.mk.injEq, List.not_mem_nil, false_and,
      exists_false, false_or]
    constructor
    · rintro ⟨s, ⟨rfl, rfl⟩, hq⟩
      exact ⟨rfl, by simpa using hq⟩
    · rintro ⟨rfl, rfl⟩
      exact ⟨[q], ⟨rfl, rfl⟩, by simp⟩
  | (p0, s0) :: rest => by
    unfold alleleInsert
    by_cases h1 : pos < p0
    · rw [if_pos h1]
      constructor
      · rintro ⟨s, hs, hq⟩
        rcases List.mem_cons.1 hs with h | h
        · simp only [Prod.mk.injEq] at h
          obtain ⟨rfl, rfl⟩ := h
          right; exact ⟨rfl, by simpa using hq⟩
        · left; exact ⟨s, h, hq⟩
      · rintro (⟨s, hs, hq⟩ | ⟨rfl, rfl⟩)
        · exact ⟨s, List.mem_cons_of_mem _ hs, hq⟩
        · exact ⟨[q], List.mem_cons_self _ _, by simp⟩
    · rw [if_neg h1]
      by_cases h2 : pos = p0
      · rw [if_pos h2]
        subst h2
        constructor
        · rintro ⟨s, hs, hq⟩
          rcases List.mem_cons.1 hs with h | h
          · simp only [Prod.mk.injEq] at h
            obtain ⟨rfl, rfl⟩ := h
            rcases (mem_setInsert q a s0).1 hq with rfl | hq0
            · right; exact ⟨rfl, rfl⟩
            · left; exact ⟨s0, List.mem_cons_self _ _, hq0⟩
          · left; exact ⟨s, List.mem_cons_of_mem _ h, hq⟩
        · rintro (⟨s, hs, hq⟩ | ⟨rfl, rfl⟩)
          · rcases List.mem_cons.1 hs with h | h
            · simp only [Prod.mk.injEq] at h
              obtain ⟨rfl, rfl⟩ := h
              exact ⟨_, List.mem_cons_self _ _, (mem_setInsert q a s).2 (Or.inr hq)⟩
            · exact ⟨s, List.mem_cons_of_mem _ h, hq⟩
          · exact ⟨_, List.mem_cons_self _ _, (mem_setInsert q q s0).2 (Or.inl rfl)⟩
      · rw [if_neg h2]
        have ih := mem_alleleInsert pos a p q rest
        constructor
        · rintro ⟨s, hs, hq⟩
          rcases List.mem_cons.1 hs with h | h
          · left; exact ⟨s, by rw [h]; exact List.mem_cons_self _ _, hq⟩
          · rcases ih.1 ⟨s, h, hq⟩ with ⟨s1, hs1, hq1⟩ | hr
            · left; exact ⟨s1, List.mem_cons_of_mem _ hs1, hq1⟩
            · right; exact hr
        · rintro (⟨s, hs, hq⟩ | hr)
          · rcases List.mem_cons.1 hs with h | h
            · exact ⟨s, by rw [h]; exact List.mem_cons_self _ _, hq⟩
            · obtain ⟨s1, hs1, hq1⟩ := ih.2 (Or.inl ⟨s, h, hq⟩)
              exact ⟨s1, List.mem_cons_of_mem _ hs1, hq1⟩
          · obtain ⟨s1, hs1, hq1⟩ := ih.2 (Or.inr hr)
            exact ⟨s1, List.mem_cons_of_mem _ hs1, hq1⟩

theorem mem_allelesMap (p : Int) (q : List Char) :
    ∀ (events : List (Int × List Char)) (m : List (Int × List (List Char))),
      (∃ s, (p, s) ∈ allelesMap events m ∧ q ∈ s) ↔
        (∃ s, (p, s) ∈ m ∧ q ∈ s) ∨ (p, q) ∈ events
  | [], m => by simp [allelesMap]
  | e :: rest, m => by
    rw [allelesMap, mem_allelesMap p q rest, mem_alleleInsert]
    obtain ⟨e1, e2⟩ := e
    simp only [List.mem_cons, Prod.mk.injEq]
    generalize (∃ s, (p, s) ∈ m ∧ q ∈ s) = A
    tauto

/-- Lines 434-443: a line is written for exactly the inserted pairs, with the
position increased by 1. -/
theorem mem_expectedSNPs (referenceSequenceID : List Char) (events : List (Int × List Char))
    (id : List Char) (pos : Int) (q : List Char) :
    (id, pos, q) ∈ expectedSNPs referenceSequenceID events ↔
      id = referenceSequenceID ∧ ∃ p, (p, q) ∈ events ∧ pos = p + 1 := by
  have h := mem_allelesMap (pos - 1) q events []
  simp only [List.not_mem_nil, false_and, exists_false, false_or] at h
  unfold expectedSNPs
  simp only [List.mem_flatMap, List.mem_map, Prod.mk.injEq, Prod.exists]
  constructor
  · rintro ⟨p, s, hm, a, ha, rfl, rfl, rfl⟩
    refine ⟨rfl, p, ?_, rfl⟩
    have := (mem_allelesMap p a events []).1 ⟨s, hm, ha⟩
    simpa using this
  · rintro ⟨rfl, p, hp, rfl⟩
    have e : p + 1 - 1 = p := by omega
    rw [e] at h
    obtain ⟨s, hs, hq⟩ := h.2 hp
    exact ⟨p, s, hs, q, hq, rfl, rfl, rfl⟩

theorem scanColumns_length : ∀ (rs qs : List Char) (st st1 : AlleleScan),
    scanColumns rs qs st = Except.ok st1 → rs.length ≤ qs.length
  | [], _, _, _, _ => by simp
  | _ :: _, [], _, _, h => by simp [scanColumns] at h
  | r :: rs, q :: qs, st, st1, h => by
    simp only [scanColumns] at h
    have := scanColumns_length rs qs _ st1 h
    simpa using this

theorem expectedAllelesScan_length (h : startingHaplotype) (E : List (Int × List Char))
    (hok : expectedAllelesScan h = Except.ok E) : h.ref.length ≤ h.query.length := by
  unfold expectedAllelesScan at hok
  split at hok
  · rename_i st hst
    exact scanColumns_length _ _ _ st hst
  · cases hok

theorem loadLines_alleles (max_gap_length : Int) (p : Int) (q : List Char) :
    ∀ (lines : List AlignmentLine) (st st1 : LoaderState),
      loadLines max_gap_length lines st = Except.ok st1 →
      ((p, q) ∈ st1.expectedAlleles ↔
        (p, q) ∈ st.expectedAlleles ∨
          ∃ l ∈ lines, ∃ E, expectedAllelesScan (newStartingHaplotype l) = Except.ok E ∧
            (p, q) ∈ E)
  | [], st, st1, hok => by
    simp only [loadLines, Except.ok.injEq] at hok
    subst hok
    simp
  | l :: rest, st, st1, hok => by
    simp only [loadLines] at hok
    cases hl : loadLine max_gap_length st l with
    | error e => rw [hl] at hok; simp at hok
    | ok st2 =>
      rw [hl] at hok
      simp only at hok
      obtain ⟨alleles, h, parts, h1, -, -, -, h5, -⟩ := loadLine_ok max_gap_length st st2 l hl
      rw [loadLines_alleles max_gap_length p q rest st2 st1 hok, h5, List.mem_append]
      constructor
      · rintro ((h | h) | ⟨l1, hl1, E, hE, hm⟩)
        · exact Or.inl h
        · exact Or.inr ⟨l, List.mem_cons_self _ _, alleles, h1, h⟩
        · exact Or.inr ⟨l1, List.mem_cons_of_mem _ hl1, E, hE, hm⟩
      · rintro (h | ⟨l1, hl1, E, hE, hm⟩)
        · exact Or.inl (Or.inl h)
        · rcases List.mem_cons.1 hl1 with rfl | hl1
          · rw [h1] at hE
            simp only [Except.ok.injEq] at hE
            subst hE
            exact Or.inl (Or.inr hm)
          · exact Or.inr ⟨l1, hl1, E, hE, hm⟩

theorem loadLines_scanned (max_gap_length : Int) :
    ∀ (lines : List AlignmentLine) (st st1 : LoaderState),
      loadLines max_gap_length lines st = Except.ok st1 →
      ∀ l ∈ lines, ∃ E, expectedAllelesScan (newStartingHaplotype l) = Except.ok E
  | [], _, _, _, l, hl => by simp at hl
  | l0 :: rest, st, st1, hok, l, hl => by
    simp only [loadLines] at hok
    cases h0 : loadLine max_gap_length st l0 with
    | error e => rw [h0] at hok; simp at hok
    | ok st2 =>
      rw [h0] at hok
      simp only at hok
      rcases List.mem_cons.1 hl with rfl | hl
      · obtain ⟨alleles, -, -, h1, -⟩ := loadLine_ok max_gap_length st st2 l h0
        exact ⟨alleles, h1⟩
      · exact loadLines_scanned max_gap_length rest st2 st1 hok l hl

/-- C10. For an alignment whose query is at least as long as its ref, the
expected-alleles scan returns, and it inserts allele `q` at key `p` exactly
when some column `j` that is not the last has non-gap `ref[j]`, `ref[j+1]` and
`query[j]` with `query[j] ≠ ref[j]`, `q = query[j]` and
`p = start - 1 + ` (number of non-gap characters in `ref[0..j]`); so a
substitution in the last column, or one followed by a ref-gap column, is not
inserted. The expected-SNPs file has a line for exactly the inserted pairs,
with the position `p + 1`. Hence the lines of that file after a run of `main`
are `(referenceSequenceID, p + 1, q)` for the pairs `(p, q)` with such a
column in an input line, where `start` is the parsed start field. -/
theorem expectedAllelesScan_inserts :
    (∀ h : startingHaplotype, h.ref.length ≤ h.query.length →
      ∃ E, expectedAllelesScan h = Except.ok E ∧
        ∀ (p : Int) (q : List Char), (p, q) ∈ E ↔
          ∃ j rj rj1 qj, h.ref[j]? = some rj ∧ h.ref[j + 1]? = some rj1 ∧
            h.query[j]? = some qj ∧
            isGapCharacter rj = false ∧ isGapCharacter rj1 = false ∧
            isGapCharacter qj = false ∧ qj ≠ rj ∧ q = [qj] ∧
            p = h.aligment_start_pos - 1 + (nonGapCount (h.ref.take (j + 1)) : Int)) ∧
    (∀ (referenceSequenceID : List Char) (events : List (Int × List Char))
        (id : List Char) (pos : Int) (q : List Char),
      (id, pos, q) ∈ expectedSNPs referenceSequenceID events ↔
        id = referenceSequenceID ∧ ∃ p, (p, q) ∈ events ∧ pos = p + 1) ∧
    (∀ (max_gap_length : Int) (max : Nat) (referenceSequenceID R : List Char)
        (lines : List AlignmentLine) (vcf : List VCFLine)
        (side : List (List Char × Int × List Char)),
      main max_gap_length max referenceSequenceID R lines = Except.ok (vcf, side) →
      ∀ (id : List Char) (pos : Int) (q : List Char), (id, pos, q) ∈ side ↔
        id = referenceSequenceID ∧
        ∃ l ∈ lines, ∃ j rj rj1 qj, l.ref[j]? = some rj ∧ l.ref[j + 1]? = some rj1 ∧
          l.query[j]? = some qj ∧
          isGapCharacter rj = false ∧ isGapCharacter rj1 = false ∧
          isGapCharacter qj = false ∧ qj ≠ rj ∧ q = [qj] ∧
          pos = ((l.start % UINT_RANGE : Nat) : Int) - 1
            + (nonGapCount (l.ref.take (j + 1)) : Int) + 1) := by
  refine ⟨expectedAllelesScan_columns, mem_expectedSNPs, ?_⟩
  intro max_gap_length max referenceSequenceID R lines vcf side hmain id pos q
  unfold main at hmain
  cases hl : loader max_gap_length lines with
  | error e => rw [hl] at hmain; simp at hmain
  | ok st =>
    rw [hl] at hmain
    simp only at hmain
    cases hp : produceVCF max referenceSequenceID R st.alignments_starting_at with
    | error e => rw [hp] at hmain; simp at hmain
    | ok v =>
      rw [hp] at hmain
      simp only [Except.ok.injEq, Prod.mk.injEq] at hmain
      obtain ⟨-, rfl⟩ := hmain
      rw [mem_expectedSNPs]
      have hall := fun p => loadLines_alleles max_gap_length p q lines loaderInit st hl
      simp only [loaderInit, List.not_mem_nil, false_or] at hall
      constructor
      · rintro ⟨rfl, p, hp1, rfl⟩
        obtain ⟨l, hlm, E, hE, hm⟩ := (hall p).1 hp1
        obtain ⟨E1, hE1, hiff⟩ := expectedAllelesScan_columns (newStartingHaplotype l)
          (expectedAllelesScan_length _ E hE)
        rw [hE] at hE1
        simp only [Except.ok.injEq] at hE1
        subst hE1
        obtain ⟨j, rj, rj1, qj, e1, e2, e3, e4, e5, e6, e7, e8, e9⟩ := (hiff p q).1 hm
        exact ⟨rfl, l, hlm, j, rj, rj1, qj, e1, e2, e3, e4, e5, e6, e7, e8, by rw [e9]; rfl⟩
      · rintro ⟨rfl, l, hlm, j, rj, rj1, qj, e1, e2, e3, e4, e5, e6, e7, e8, e9⟩
        have hlen : (newStartingHaplotype l).ref.length ≤ (newStartingHaplotype l).query.length := by
          obtain ⟨alleles, hA⟩ := loadLines_scanned max_gap_length lines loaderInit st hl l hlm
          exact expectedAllelesScan_length _ alleles hA
        obtain ⟨E1, hE1, hiff⟩ := expectedAllelesScan_columns (newStartingHaplotype l) hlen
        refine ⟨rfl, _, (hall _).2 ⟨l, hlm, E1, hE1, (hiff _ q).2
          ⟨j, rj, rj1, qj, e1, e2, e3, e4, e5, e6, e7, e8, rfl⟩⟩, ?_⟩
        rw [e9]; rfl

/-- C10 at `exampleSubstitution` (`ACGT` / `AGGT`, start 1), whose scan inserts
`G` at key 2, and at the run of `main` on the same alignment with the parsed
start 0, whose expected-SNPs file has the one line `chr`, 2, `G`: key 1,
printed as 2. -/
theorem expectedAllelesScan_inserts_witness :
    exampleSubstitution.ref.length ≤ exampleSubstitution.query.length ∧
    expectedAllelesScan exampleSubstitution = Except.ok [(2, ['G'])] ∧
    (∃ E, expectedAllelesScan exampleSubstitution = Except.ok E ∧
      ∀ (p : Int) (q : List Char), (p, q) ∈ E ↔
        ∃ j rj rj1 qj, exampleSubstitution.ref[j]? = some rj ∧
          exampleSubstitution.ref[j + 1]? = some rj1 ∧ exampleSubstitution.query[j]? = some qj ∧
          isGapCharacter rj = false ∧ isGapCharacter rj1 = false ∧
          isGapCharacter qj = false ∧ qj ≠ rj ∧ q = [qj] ∧
          p = exampleSubstitution.aligment_start_pos - 1 +
            (nonGapCount (exampleSubstitution.ref.take (j + 1)) : Int)) ∧
    expectedSNPs "chr".toList [(1, ['G'])] = [("chr".toList, 2, ['G'])] ∧
    main 5000 5000 "chr".toList "ACGT".toList
        [{ ref := "ACGT".toList, query := "AGGT".toList, query_name := "h1".toList,
           start := 0, last := 2 }]
      = Except.ok
          ([{ chrom := "chr".toList, pos := 2, id := ['.'], ref := ['C'], alt := ['G'],
              qual := ['.'], filter := "PASS".toList, info := ['.'] }],
           [("chr".toList, 2, ['G'])]) ∧
    ∀ (id : List Char) (pos : Int) (q : List Char),
      (id, pos, q) ∈ [("chr".toList, (2 : Int), ['G'])] ↔
        id = "chr".toList ∧
        ∃ l ∈ [({ ref := "ACGT".toList, query := "AGGT".toList, query_name := "h1".toList,
                  start := 0, last := 2 } : AlignmentLine)],
          ∃ j rj rj1 qj, l.ref[j]? = some rj ∧ l.ref[j + 1]? = some rj1 ∧
            l.query[j]? = some qj ∧
            isGapCharacter rj = false ∧ isGapCharacter rj1 = false ∧
            isGapCharacter qj = false ∧ qj ≠ rj ∧ q = [qj] ∧
            pos = ((l.start % UINT_RANGE : Nat) : Int) - 1
              + (nonGapCount (l.ref.take (j + 1)) : Int) + 1 :=
  ⟨by decide, rfl, expectedAllelesScan_inserts.1 exampleSubstitution (by decide), rfl, rfl,
    expectedAllelesScan_inserts.2.2 5000 5000 "chr".toList "ACGT".toList _ _ _ rfl⟩

/-! ## The start position in the enumerator (C9) -/

theorem nonGapCount_take_pos (s : List Char) (c : Nat) (x : Char) (hx : s[c]? = some x)
    (hg : isGapCharacter x = false) : 1 ≤ nonGapCount (s.take (c + 1)) := by
  rw [take_succ_of_getElem? s c x hx, nonGapCount_append, nonGapCount_singleton x hg]
  omega

/-- Before iteration `posI`, every alignment that an open haplotype copies from
starts before `posI`. -/
theorem before_source_started (G : List Int) (posI : Nat) (st : EnumeratorState)
    (hb : Before G posI st) :
    ∀ h ∈ st.open_haplotypes, ∀ a, h.2.1 = some a → a.obj.aligment_start_pos < (posI : Int) := by
  obtain ⟨s, len, -, -, -, -, hat⟩ := hb
  intro h hm a ha
  have := hat h hm
  unfold HapAt at this
  rw [ha] at this
  simp only at this
  obtain ⟨-, -, x, hx, hg, he⟩ := this
  have := nonGapCount_take_pos _ _ x hx hg
  omega

/-- Lines 792-851 for one incoming alignment, for a call that returns: it is
skipped, because the open haplotypes are more than the cap or the snapshot was
empty, or its entries are appended. -/
theorem enterHaplotype_cases (max : Nat) (R : List Char) (G : List Int) (posI size s : Nat)
    (st st1 : EnumeratorState) (H : HapPtr)
    (hs : st.start_open_haplotypes = (s : Int))
    (hok : enterHaplotype max R G posI size st H = Except.ok st1) :
    (st1 = st ∧ (max < st.open_haplotypes.length ∨ size = 0)) ∨
      (st.open_haplotypes.length ≤ max ∧ s < posI ∧
        st1 = { st with
          open_haplotypes :=
            st.open_haplotypes ++
              entriesFor (st.open_haplotypes.take size) (referenceSlice R G s posI) H
          modifiedLastPos := true }) := by
  by_cases h1 : st.open_haplotypes.length ≤ max
  · by_cases h2 : size > 0
    · rcases enterHaplotype_value max R G posI size s st st1 H hs hok with h | h
      · unfold enterHaplotype at hok
        rw [if_pos h1, if_pos h2] at hok
        simp only [bind_eq_ok, assertThat_eq_ok, pure_eq_ok] at hok
        obtain ⟨-, -, ext, -, he⟩ := hok
        have hl := congrArg (fun x => x.open_haplotypes.length) he
        rw [h] at hl
        simp only [List.length_append, List.length_map, List.length_take, List.length_singleton]
          at hl
        omega
      · exact Or.inr h
    · unfold enterHaplotype at hok
      rw [if_pos h1, if_neg h2, pure_eq_ok] at hok
      exact Or.inl ⟨hok.symm, Or.inr (by omega)⟩
  · unfold enterHaplotype at hok
    rw [if_neg h1, pure_eq_ok] at hok
    exact Or.inl ⟨hok.symm, Or.inl (by omega)⟩

/-- The loop of lines 790-852, for a call that returns with a non-empty
snapshot: every incoming alignment has its reference entry among the open
haplotypes, unless the open haplotypes are more than the cap. -/
theorem enterHaplotypes_enters (max : Nat) (R : List Char) (G : List Int) (posI s : Nat)
    (base : List openHaplotype) (hbase : 0 < base.length) :
    ∀ (news : List HapPtr) (st st2 : EnumeratorState),
      st.open_haplotypes.take base.length = base →
      st.start_open_haplotypes = (s : Int) →
      enterHaplotypes max R G posI base.length news st = Except.ok st2 →
      st.open_haplotypes.length ≤ st2.open_haplotypes.length ∧
      ∀ H ∈ news, max < st2.open_haplotypes.length ∨
        (referenceSlice R G s posI, some H, (-1 : Int)) ∈ st2.open_haplotypes
  | [], st, st2, _, _, hok => by
    simp only [enterHaplotypes, Except.ok.injEq] at hok
    subst hok
    exact ⟨le_refl _, fun H hH => by simp at hH⟩
  | H0 :: rest, st, st2, htake, hs, hok => by
    simp only [enterHaplotypes] at hok
    cases h1 : enterHaplotype max R G posI base.length st H0 with
    | error e => rw [h1] at hok; simp at hok
    | ok st1 =>
      rw [h1] at hok
      simp only at hok
      rcases enterHaplotype_cases max R G posI base.length s st st1 H0 hs h1 with
        ⟨rfl, hskip⟩ | ⟨-, -, rfl⟩
      · obtain ⟨hle, hall⟩ :=
          enterHaplotypes_enters max R G posI s base hbase rest _ st2 htake hs hok
        refine ⟨hle, ?_⟩
        intro H hH
        rcases List.mem_cons.1 hH with rfl | hH
        · left
          rcases hskip with h | h
          · omega
          · omega
        · exact hall H hH
      · have hle0 : base.length ≤ st.open_haplotypes.length := by
          have := congrArg List.length htake
          rw [List.length_take] at this
          omega
        obtain ⟨hle, hall⟩ := enterHaplotypes_enters max R G posI s base hbase rest _ st2
          (by
            simp only
            rw [List.take_append_of_le_length hle0, htake])
          (by simpa using hs) hok
        obtain ⟨entered, -, hopen, -⟩ := enterHaplotypes_entered max R G posI s base rest _ st2
          (by
            simp only
            rw [List.take_append_of_le_length hle0, htake])
          (by simpa using hs) hok
        simp only at hle hopen
        refine ⟨by rw [List.length_append] at hle; omega, ?_⟩
        intro H hH
        rcases List.mem_cons.1 hH with rfl | hH
        · right
          rw [hopen, htake]
          simp [entriesFor]
        · exact hall H hH

/-- C9 (amended). Let `H` be an alignment of an index that the loader published
and the gap-structure builder accepted, and `s` its start_pos. The first
character `y` of its ref string is not a gap character and the builder checked
it against the character of `R` at the 0-based index `s`. The enumerator looks
`H` up at the iteration `posI = s` and at no other; before the iterations
`0, ..., s` no open haplotype copies from `H`; and the iteration `s`, when it
returns, has entered `H` unless the open haplotypes were more than the cap:
after its extension the open haplotype made of the reference slice and the
first query character of `H`, with source `H` and cursor 0, is in the open
set, and after the iteration an open haplotype with source `H`, cursor 0 and
that last character is. -/
theorem start_pos_is_first_reference_index (max_gap_length : Int) (lines : List AlignmentLine)
    (lst : LoaderState) (R : List Char) (G C : List Int)
    (hload : loader max_gap_length lines = Except.ok lst)
    (hbuild : buildGapStructure R lst.alignments_starting_at = Except.ok (G, C))
    (key : Nat) (v : List HapPtr) (H : HapPtr)
    (hm : (key, v) ∈ lst.alignments_starting_at) (hH : H ∈ v) :
    ∃ (s : Nat) (y : Char) (post : List Char) (q : Char),
      H.obj.aligment_start_pos = (s : Int) ∧
      H.obj.ref = y :: post ∧ isGapCharacter y = false ∧ R[s]? = some y ∧
      H.obj.query[0]? = some q ∧
      (∀ posI : Nat, H ∈ indexAt lst.alignments_starting_at posI ↔ posI = s) ∧
      (∀ (max : Nat) (refID : List Char) (posI : Nat) (st : EnumeratorState), posI ≤ s →
        enumeratorLoop max refID R lst.alignments_starting_at G (List.range posI) enumeratorInit
          = Except.ok st →
        ∀ h ∈ st.open_haplotypes, h.2.1 ≠ some H) ∧
      (∀ (max : Nat) (refID : List Char) (st st5 : EnumeratorState),
        enumeratorLoop max refID R lst.alignments_starting_at G (List.range s) enumeratorInit
          = Except.ok st →
        enumeratorStep max refID R lst.alignments_starting_at G st s = Except.ok st5 →
        ∃ (st4 : EnumeratorState) (exts : List (List Char)) (refC : Char) (t : Nat),
          stepBeforeFlush max R lst.alignments_starting_at G st s = Except.ok (st4, exts, refC) ∧
          st4.start_open_haplotypes = (t : Int) ∧
          (max < st4.open_haplotypes.length ∨
            ((referenceSlice R G t s ++ [q], some H, (0 : Int)) ∈ st4.open_haplotypes ∧
              ∃ seq, (seq ++ [q], some H, (0 : Int)) ∈ st5.open_haplotypes))) := by
  have hsync := indexSync_of_loaded max_gap_length lines lst R G C hload hbuild
  obtain ⟨h1, -, -, ⟨y, post, hy, hyg, hRy⟩, -⟩ :=
    published_ends max_gap_length lines lst R G C hload hbuild key v hm H hH
  obtain ⟨s, hs⟩ : ∃ s : Nat, H.obj.aligment_start_pos = (s : Int) :=
    ⟨H.obj.aligment_start_pos.toNat, by omega⟩
  have hs1 : 1 ≤ s := by omega
  rw [hs, Int.toNat_ofNat] at hRy
  -- the index gives `H` at `s`
  have hpub := loader_published max_gap_length lines lst hload key v hm H hH
  have hkey : key = s := by
    have hk := hpub.key_eq
    have hw := ((buildGapStructure_ok R _ G C hbuild).1 key v hm H hH).key_eq
    have hlt := toUnsignedInt_lt H.obj.aligment_start_pos
    rw [← hk] at hlt
    rw [Nat.mod_eq_of_lt hlt, hs] at hw
    exact_mod_cast hw
  subst hkey
  have hsorted := (loader_sorted_count max_gap_length lines lst hload).1
  have hnodup : (lst.alignments_starting_at.map Prod.fst).Nodup :=
    hsorted.imp (fun h => Nat.ne_of_lt h)
  have hin : H ∈ indexAt lst.alignments_starting_at key := by
    rw [indexAt_of_mem _ key v hnodup hm]; exact hH
  have hslen := (hsync key H hin).1.len
  obtain ⟨q, hq⟩ : ∃ q, H.obj.query[0]? = some q := by
    have : 0 < H.obj.query.length := by rw [← hslen, hy]; simp
    exact ⟨_, List.getElem?_eq_getElem this⟩
  have href : H.obj.ref ≠ [] := by rw [hy]; simp
  have hext : alignmentExtension 1124 1125 1130 H (-1) = Except.ok [q] := by
    obtain ⟨q1, hq1, he⟩ := alignmentExtension_value 1124 1125 1130 H (-1) y hslen (le_refl _)
      (by rw [hy]; simp) hyg
    have e0 : ((-1 : Int) + 1).toNat = 0 := rfl
    rw [e0, hq] at hq1
    rw [he, ← Option.some.inj hq1]
  refine ⟨key, y, post, q, hs, hy, hyg, hRy, hq, ?_, ?_, ?_⟩
  · intro posI
    constructor
    · intro hp
      have := (hsync posI H hp).2
      rw [hs] at this
      exact_mod_cast this.symm
    · rintro rfl
      exact hin
  · intro max refID posI st hle hloop h hmem hsrc
    have hb := enumeratorLoop_before max refID R _ G hsync posI st hloop
    have := before_source_started G posI st hb h hmem H hsrc
    omega
  · intro max refID st st5 hloop hstep
    obtain ⟨n, rfl⟩ : ∃ n, key = n + 1 := ⟨key - 1, by omega⟩
    have hb := enumeratorLoop_before max refID R _ G hsync (n + 1) st hloop
    have hh := headSlice_loop max refID R _ G hsync n st hloop
    have hstep0 := hstep
    rw [enumeratorStep_eq] at hstep
    cases hbf : stepBeforeFlush max R lst.alignments_starting_at G st (n + 1) with
    | error e => rw [hbf] at hstep; cases hstep
    | ok x =>
      obtain ⟨st4, exts, refC⟩ := x
      rw [hbf] at hstep
      simp only [Except.bind] at hstep
      obtain ⟨t, rest, entered, added, len, st2, ht, hlt, hR, hcu, hent, hsub, hopen2, hlen, hf,
        hs4, hmod⟩ := stepBeforeFlush_anatomy max R _ G st st4 (n + 1) exts refC hsync hb hh hbf
      refine ⟨st4, exts, refC, t, rfl, hs4, ?_⟩
      obtain ⟨hle2, hall⟩ := enterHaplotypes_enters max R G (n + 1) t
        ((referenceSlice R G t (n + 1), none, -1) :: rest) (by simp)
        (indexAt lst.alignments_starting_at (n + 1))
        { deduplicate st with
          open_haplotypes := (referenceSlice R G t (n + 1), none, -1) :: rest } st2
        (List.take_length _) ht hent
      have hlen4 : st2.open_haplotypes.length ≤ st4.open_haplotypes.length := by
        rw [← hf.length_eq, List.length_append, List.length_map]
        omega
      rcases hall H hin with hcap | hmem
      · left; omega
      · right
        have hmem3 : (referenceSlice R G t (n + 1), some H, (-1 : Int)) ∈
            st2.open_haplotypes.map exitSwitch ++ added := by
          apply List.mem_append_left
          rw [← exitSwitch_entry (referenceSlice R G t (n + 1)) H href]
          exact List.mem_map_of_mem _ hmem
        obtain ⟨b, hb4, e, he⟩ := forall₂_mem_left _ _ _ hf _ hmem3
        obtain ⟨he1, he2⟩ := extendHaplotype_entry refC len _ H b e he
        rw [hext] at he1
        simp only [Except.ok.injEq] at he1
        subst he1
        have hb' : b = (referenceSlice R G t (n + 1) ++ [q], some H, (0 : Int)) := by
          rw [he2]; rfl
        subst hb'
        refine ⟨hb4, ?_⟩
        by_cases hc : decide (exts.length = 1 ∧ [refC] ∈ exts) = true ∧ n + 1 > 0
        · rw [if_pos hc] at hstep
          obtain ⟨e1, -⟩ := flush_open refID R (n + 1) st4 st5 hstep
          have hloop5 : enumeratorLoop max refID R lst.alignments_starting_at G
              (List.range (n + 1 + 1)) enumeratorInit = Except.ok st5 := by
            rw [List.range_succ, enumeratorLoop_append, hloop]
            simp only [enumeratorLoop, hstep0]
          have hfrom := fromInput_loop max refID R lst.alignments_starting_at G (n + 1 + 1) st5
            hloop5
          have htrim : trimToLast (referenceSlice R G t (n + 1) ++ [q], some H, (0 : Int))
              ∈ st4.open_haplotypes.map trimToLast := List.mem_map_of_mem _ hb4
          rw [trimToLast_append_singleton] at htrim
          rcases keepFirstOccurrences_covers _ [] _ htrim with h0 | ⟨h1, hm1, hid⟩
          · simp at h0
          · rw [← e1] at hm1
            have := (haplotypeIdentity_eq_iff lst.allocations _
              (loader_addrUnique max_gap_length lines lst hload) h1 ([q], some H, (0 : Int))
              (hfrom h1 hm1).2 (fun a ha => by
                simp only [Option.some.injEq] at ha
                subst ha
                exact ⟨_, hin⟩)).1 hid
            rw [this] at hm1
            exact ⟨[], by simpa using hm1⟩
        · rw [if_neg hc] at hstep
          simp only [Except.ok.injEq] at hstep
          subst hstep
          exact ⟨_, hb4⟩

/-- C9 (amended) at the second alignment of `exampleEntryInput`, which starts at
position 2 of the reference `TACGTA`: before iteration 2 no open haplotype
copies from it, after iteration 2 the open haplotype `(AC, h2, 0)` does. -/
theorem start_pos_is_first_reference_index_witness :
    loader 5000 exampleEntryInput = Except.ok exampleEntryLoaded ∧
    buildGapStructure "TACGTA".toList exampleEntryLoaded.alignments_starting_at
      = Except.ok ([-1, 0, 0, -1, -1, -1], [0, 1, 2, 2, 0, 0]) ∧
    (2, [exampleEntering]) ∈ exampleEntryLoaded.alignments_starting_at ∧
    exampleEntering ∈ [exampleEntering] ∧
    exampleEntering.obj.aligment_start_pos = 2 ∧
    "TACGTA".toList[2]? = some 'C' ∧
    enumeratorLoop 5000 "chr".toList "TACGTA".toList exampleEntryLoaded.alignments_starting_at
      [-1, 0, 0, -1, -1, -1] (List.range 2) enumeratorInit = Except.ok exampleEntryState ∧
    (∀ h ∈ exampleEntryState.open_haplotypes, h.2.1 ≠ some exampleEntering) ∧
    enumeratorStep 5000 "chr".toList "TACGTA".toList exampleEntryLoaded.alignments_starting_at
      [-1, 0, 0, -1, -1, -1] exampleEntryState 2 = Except.ok exampleEntryExtended ∧
    ("AC".toList, some exampleEntering, (0 : Int)) ∈ exampleEntryExtended.open_haplotypes ∧
    (∃ (s : Nat) (y : Char) (post : List Char) (q : Char),
      exampleEntering.obj.aligment_start_pos = (s : Int) ∧
      exampleEntering.obj.ref = y :: post ∧ isGapCharacter y = false ∧
      "TACGTA".toList[s]? = some y ∧
      exampleEntering.obj.query[0]? = some q ∧
      (∀ posI : Nat,
        exampleEntering ∈ indexAt exampleEntryLoaded.alignments_starting_at posI ↔ posI = s) ∧
      (∀ (max : Nat) (refID : List Char) (posI : Nat) (st : EnumeratorState), posI ≤ s →
        enumeratorLoop max refID "TACGTA".toList exampleEntryLoaded.alignments_starting_at
            [-1, 0, 0, -1, -1, -1] (List.range posI) enumeratorInit
          = Except.ok st →
        ∀ h ∈ st.open_haplotypes, h.2.1 ≠ some exampleEntering) ∧
      (∀ (max : Nat) (refID : List Char) (st st5 : EnumeratorState),
        enumeratorLoop max refID "TACGTA".toList exampleEntryLoaded.alignments_starting_at
            [-1, 0, 0, -1, -1, -1] (List.range s) enumeratorInit
          = Except.ok st →
        enumeratorStep max refID "TACGTA".toList exampleEntryLoaded.alignments_starting_at
            [-1, 0, 0, -1, -1, -1] st s = Except.ok st5 →
        ∃ (st4 : EnumeratorState) (exts : List (List Char)) (refC : Char) (t : Nat),
          stepBeforeFlush max "TACGTA".toList exampleEntryLoaded.alignments_starting_at
              [-1, 0, 0, -1, -1, -1] st s = Except.ok (st4, exts, refC) ∧
          st4.start_open_haplotypes = (t : Int) ∧
          (max < st4.open_haplotypes.length ∨
            ((referenceSlice "TACGTA".toList [-1, 0, 0, -1, -1, -1] t s ++ [q],
                some exampleEntering, (0 : Int)) ∈ st4.open_haplotypes ∧
              ∃ seq, (seq ++ [q], some exampleEntering, (0 : Int)) ∈ st5.open_haplotypes)))) :=
  ⟨exampleEntryLoaded_reached, exampleEntryBuilt, by decide, by decide, rfl, rfl,
    exampleEntryState_reached, by decide, exampleEntryExtended_reached, by decide,
    start_pos_is_first_reference_index 5000 exampleEntryInput exampleEntryLoaded
      "TACGTA".toList [-1, 0, 0, -1, -1, -1] [0, 1, 2, 2, 0, 0] exampleEntryLoaded_reached
      exampleEntryBuilt 2 [exampleEntering] exampleEntering (by decide) (by decide)⟩

/-! ## The blocks of the covered sequences (C16) -/

theorem consumeRefGaps_value (query gs post : List Char) (y : Char) (nextPos : Nat)
    (ext : List Char) (hgs : ∀ z ∈ gs, isGapCharacter z = true) (hy : isGapCharacter y = false)
    (hq : nextPos + gs.length ≤ query.length) :
    consumeRefGaps query (gs ++ y :: post) nextPos ext
      = Except.ok (nextPos + gs.length, ext ++ (query.drop nextPos).take gs.length) := by
  induction gs generalizing nextPos ext with
  | nil =>
    have hy2 := (isGapCharacter_eq_false_iff y).1 hy
    simp only [List.nil_append, consumeRefGaps, List.length_nil, Nat.add_zero, List.take_zero,
      List.append_nil]
    rw [if_neg (by simp [hy2.1, hy2.2])]
  | cons g rest ih =>
    have hg := (isGapCharacter_eq_true_iff g).1 (hgs g (List.mem_cons_self _ _))
    simp only [List.length_cons] at hq
    have hlt : nextPos < query.length := by omega
    have h1 := ih (nextPos + 1) (ext ++ (query.drop nextPos).take 1)
      (fun z hz => hgs z (List.mem_cons_of_mem _ hz)) (by omega)
    show consumeRefGaps query (g :: (rest ++ y :: post)) nextPos ext = _
    rw [consumeRefGaps, if_pos hg, if_neg (by omega), h1]
    simp only [List.length_cons]
    have e1 : nextPos + 1 + rest.length = nextPos + (rest.length + 1) := by omega
    have e2 : ∀ (l : List Char) (n : Nat), l.take 1 ++ (l.drop 1).take n = l.take (n + 1) := by
      intro l n
      cases l with
      | nil => simp
      | cons a l => simp
    have e3 : query.drop (nextPos + 1) = (query.drop nextPos).drop 1 := by
      rw [List.drop_drop, Nat.add_comm]
    rw [e1, e3, List.append_assoc, e2]

theorem blocked_snoc (R : List Char) (G : List Int) (idx : AlignmentIndex) (s posI : Nat)
    (pre b : List Char) (hs : s < posI) (hpre : Blocked R G idx s (posI - 1) pre)
    (hb : BlockAt R G idx (posI - 1) b) : Blocked R G idx s posI (pre ++ b) := by
  obtain ⟨blocks, e, hlen, hall⟩ := hpre
  refine ⟨blocks ++ [b], by simp [e], by simp [hlen]; omega, ?_⟩
  intro k c hk
  rcases Nat.lt_or_ge k blocks.length with hlt | hge
  · rw [List.getElem?_append_left hlt] at hk
    exact hall k c hk
  · rw [List.getElem?_append_right hge] at hk
    have hk0 : k - blocks.length = 0 := by
      rcases Nat.eq_zero_or_pos (k - blocks.length) with h | h
      · exact h
      · rw [List.getElem?_eq_none (by simp; omega)] at hk; cases hk
    rw [hk0] at hk
    simp only [List.getElem?_cons_zero, Option.some.injEq] at hk
    subst hk
    have : s + k = posI - 1 := by omega
    rw [this]
    exact hb

theorem blocked_reference (R : List Char) (G : List Int) (idx : AlignmentIndex) (s posI : Nat) :
    Blocked R G idx s posI (referenceSlice R G s posI) := by
  refine ⟨(List.range' s (posI - s)).map (referenceBlock R G), ?_, by simp, ?_⟩
  · unfold referenceSlice
    rw [List.flatMap_def]
    rfl
  · intro k b hk
    rw [List.getElem?_map] at hk
    cases hr : (List.range' s (posI - s))[k]? with
    | none => rw [hr] at hk; cases hk
    | some i =>
      rw [hr] at hk
      simp only [Option.map_some', Option.some.injEq] at hk
      have := List.getElem?_eq_some_iff.1 hr
      obtain ⟨hlt, hget⟩ := this
      rw [List.getElem_range'] at hget
      left
      rw [← hk, ← hget]
      simp

theorem catchUpHaplotype_block (R : List Char) (G : List Int) (idx : AlignmentIndex) (posI : Nat)
    (h h1 : openHaplotype) (hat : HapAt G posI h) (hp : 0 < posI)
    (hfi : FromIndex idx h.2.1) (pre : List Char) (x : Char) (hseq : h.1 = pre ++ [x])
    (hhead : HeadChar R posI h x)
    (hok : catchUpHaplotype G posI h = Except.ok h1) :
    h1.2.1 = h.2.1 ∧ ∃ b, h1.1 = pre ++ b ∧ BlockAt R G idx (posI - 1) b := by
  obtain ⟨seq, src, c⟩ := h
  simp only at hseq
  subst hseq
  have ecast : ((posI : Int) - 1) = ((posI - 1 : Nat) : Int) := by omega
  cases src with
  | none =>
    unfold catchUpHaplotype at hok
    simp only at hok
    rw [if_pos hp] at hok
    cases hg : gapString 738 743 G ((posI : Int) - 1) with
    | error e => rw [hg] at hok; simp at hok
    | ok gaps =>
      rw [hg] at hok
      simp only [Except.ok.injEq] at hok
      subst hok
      refine ⟨rfl, [x] ++ gaps, by simp, Or.inl ?_⟩
      rw [gapString_value _ _ _ _ _ hg]
      simp only [HeadChar] at hhead
      unfold referenceBlock
      rw [hhead, ecast]
      rfl
  | some a =>
    simp only [HapAt] at hat
    obtain ⟨hsync, hc0, x0, hx, hxg, hidx⟩ := hat
    simp only [HeadChar] at hhead
    obtain ⟨key, hkey⟩ := hfi a rfl
    obtain ⟨cN, rfl⟩ : ∃ cN : Nat, c = (cN : Int) := ⟨c.toNat, (Int.toNat_of_nonneg hc0).symm⟩
    simp only [Int.toNat_ofNat] at hx hidx hhead
    have hcN : cN < a.obj.ref.length := (List.getElem?_eq_some_iff.1 hx).1
    have hqN : cN < a.obj.query.length := (List.getElem?_eq_some_iff.1 hhead).1
    have hqx : a.obj.query.drop cN = x :: a.obj.query.drop (cN + 1) := by
      rw [List.drop_eq_getElem_cons hqN]
      congr 1
      have := (List.getElem?_eq_some_iff.1 hhead).2
      exact this
    have hri : refIndexOfColumn a.obj cN = ((posI - 1 : Nat) : Int) := by
      unfold refIndexOfColumn
      rw [hidx, ecast]
    unfold catchUpHaplotype at hok
    simp only at hok
    by_cases hex : (cN : Int) = (a.obj.ref.length : Int) - 1
    · rw [if_pos hex] at hok
      cases hg : gapString 702 707 G ((posI : Int) - 1) with
      | error e => rw [hg] at hok; simp at hok
      | ok gaps =>
        rw [hg] at hok
        simp only [Except.ok.injEq] at hok
        subst hok
        refine ⟨rfl, [x] ++ gaps, by simp, Or.inr ⟨key, a, cN, x0, hkey, hx, hxg, hri, ?_⟩⟩
        rw [gapString_value _ _ _ _ _ hg]
        unfold alignmentBlock
        have hnil : a.obj.query.drop (cN + 1) = [] := by
          apply List.drop_eq_nil_of_le
          have := hsync.len
          omega
        rw [hqx, hnil, ecast, Nat.add_comm 1]
        simp
    · rw [if_neg hex] at hok
      have hvx : vectorAt a.obj.ref (cN : Int) = some x0 := by
        unfold vectorAt
        rw [if_pos (by omega)]
        simpa using hx
      rw [hvx] at hok
      simp only at hok
      have e1 : ((cN : Int) + 1).toNat = cN + 1 := by omega
      rw [e1] at hok
      obtain ⟨rs, r, hlast, hr⟩ := hsync.last
      have hrs : cN + 1 ≤ rs.length := by
        have : a.obj.ref.length = rs.length + 1 := by rw [hlast]; simp
        omega
      have hlater : 1 ≤ nonGapCount (a.obj.ref.drop (cN + 1)) := by
        rw [hlast]; exact drop_of_last rs r _ hrs hr
      obtain ⟨gs, y, post, e, hgs, hy⟩ := cursor_decomp a.obj.ref cN x0 hx hlater
      have hprelen : (a.obj.ref.take cN).length = cN := by
        rw [List.length_take]; omega
      obtain ⟨d1, d2, d3, d4, d5, d6, d7, d8, d9⟩ :=
        decomp_index a.obj.ref (a.obj.ref.take cN) gs post x0 y e hxg hgs hy
      rw [hprelen] at d2 d3 d5 d8
      have hreflen : a.obj.ref.length = cN + 1 + gs.length + 1 + post.length := by
        conv_lhs => rw [e]
        simp only [List.length_append, List.length_cons, hprelen]
        omega
      have hq2 : cN + 1 + gs.length ≤ a.obj.query.length := by rw [← hsync.len]; omega
      have hrun := consumeRefGaps_value a.obj.query gs post y (cN + 1) [] hgs hy hq2
      rw [d5, hrun] at hok
      simp only [Except.ok.injEq] at hok
      subst hok
      have hslot := hsync.slots (a.obj.ref.take cN) x0 gs y post e hxg hgs hy
      rw [← d3, hidx] at hslot
      have hgc := gapCount_of_slot G _ _ hslot
      refine ⟨rfl, [x] ++ (a.obj.query.drop (cN + 1)).take gs.length, by simp,
        Or.inr ⟨key, a, cN, x0, hkey, hx, hxg, hri, ?_⟩⟩
      unfold alignmentBlock
      rw [← ecast, hgc, hqx]
      have hl : (List.take gs.length (List.drop (cN + 1) a.obj.query)).length = gs.length := by
        rw [List.length_take, List.length_drop]; omega
      simp [Nat.add_comm 1 gs.length, List.take_succ_cons, hl]

theorem catchUp_mem (G : List Int) (posI : Nat) :
    ∀ (haps out : List openHaplotype), catchUp G posI haps = Except.ok out →
      ∀ h1 ∈ out, ∃ h ∈ haps, catchUpHaplotype G posI h = Except.ok h1
  | [], out, hok, h1, hm => by
    simp only [catchUp, Except.ok.injEq] at hok
    subst hok
    simp at hm
  | x :: rest, out, hok, h1, hm => by
    unfold catchUp at hok
    cases hx : catchUpHaplotype G posI x with
    | error e => rw [hx] at hok; simp at hok
    | ok x1 =>
      rw [hx] at hok
      simp only at hok
      cases h2 : catchUp G posI rest with
      | error e => rw [h2] at hok; simp at hok
      | ok r1 =>
        rw [h2] at hok
        simp only [Except.ok.injEq] at hok
        subst hok
        rcases List.mem_cons.1 hm with rfl | hm1
        · exact ⟨x, List.mem_cons_self _ _, hx⟩
        · obtain ⟨h, hh, he⟩ := catchUp_mem G posI rest r1 h2 h1 hm1
          exact ⟨h, List.mem_cons_of_mem _ hh, he⟩

theorem extendHaplotype_exact (R : List Char) (G : List Int) (posI : Nat) (refC : Char)
    (len : Int) (h h1 : openHaplotype) (e : List Char) (hr : HapReady G posI h)
    (hlen : len = -1 ∨ len = 1) (hR : R[posI]? = some refC)
    (hok : extendHaplotype refC len h = Except.ok (h1, e)) :
    h1.2.1 = h.2.1 ∧ ∃ x, h1.1 = h.1 ++ [x] ∧ HeadChar R (posI + 1) h1 x := by
  obtain ⟨seq, src, c⟩ := h
  cases src with
  | none =>
    rw [extendHaplotype_reference refC len seq c hlen] at hok
    simp only [Except.ok.injEq, Prod.mk.injEq] at hok
    obtain ⟨rfl, -⟩ := hok
    exact ⟨rfl, refC, rfl, by simpa [HeadChar] using hR⟩
  | some a =>
    simp only [HapReady] at hr
    obtain ⟨hsync, hc, y, hy, hyg, -⟩ := hr
    obtain ⟨q, hq, hext⟩ := alignmentExtension_value 1124 1125 1130 a c y hsync.len hc hy hyg
    unfold extendHaplotype at hok
    simp only [hext, Except.ok.injEq, Prod.mk.injEq] at hok
    obtain ⟨rfl, -⟩ := hok
    refine ⟨rfl, q, rfl, ?_⟩
    simpa [HeadChar] using hq

theorem provenance_beforeFlush (max : Nat) (R : List Char) (idx : AlignmentIndex) (G : List Int)
    (st st4 : EnumeratorState) (posI : Nat) (exts : List (List Char)) (refC : Char)
    (hsync : IndexSync G idx) (hb : Before G posI st) (hprov : Provenance R G idx posI st)
    (hok : stepBeforeFlush max R idx G st posI = Except.ok (st4, exts, refC)) :
    Provenance R G idx (posI + 1) st4 ∧ st4.start_open_haplotypes = st.start_open_haplotypes := by
  obtain ⟨caughtUp, st2, st3, len, h1, -, hR, h3, h4, h5, h6, h7, -, -⟩ :=
    stepBeforeFlush_ok max R idx G st st4 posI exts refC hok
  obtain ⟨s, hs, hlt, hall⟩ := hprov
  have hp : 0 < posI := by omega
  have hat : ∀ h ∈ st.open_haplotypes, HapAt G posI h := by
    obtain ⟨_, _, _, _, _, _, hat⟩ := hb
    exact hat
  have hsub := deduplicate_subset st
  have hs1 : (deduplicate st).start_open_haplotypes = (s : Int) := by
    rw [(deduplicate_output st).2, hs]
  have hcu : AllOpen (Blocked R G idx s posI) (FromIndex idx) caughtUp := by
    intro x1 hx1
    obtain ⟨x, hx, hcx⟩ := catchUp_mem G posI _ _ h1 x1 hx1
    obtain ⟨hfi, pre, c, hseq, hpre, hhead⟩ := hall x (hsub x hx)
    obtain ⟨esrc, b, hb1, hb2⟩ := catchUpHaplotype_block R G idx posI x x1 (hat x (hsub x hx)) hp
      hfi pre c hseq hhead hcx
    refine ⟨?_, by rw [esrc]; exact hfi⟩
    rw [hb1]
    exact blocked_snoc R G idx s posI pre b hlt hpre hb2
  obtain ⟨hall2, -⟩ := enterHaplotypes_all (Blocked R G idx s posI) (FromIndex idx) max R G posI
    caughtUp.length (indexAt idx posI) { deduplicate st with open_haplotypes := caughtUp } st2
    (by
      intro a ha b hb
      simp only [Option.some.injEq] at hb
      subst hb
      exact ⟨posI, ha⟩)
    (by
      intro ext _ hext
      simp only at hext
      rw [hs1] at hext
      have hn : ((posI : Int) - 1 - (s : Int) + 1).toNat = posI - s := by omega
      rw [hn] at hext
      have := referenceExtractionLoop_value R G _ _ _ _ hext
      simp only [List.nil_append] at this
      rw [this]
      exact blocked_reference R G idx s posI)
    hcu h3
  obtain ⟨hall3, hs3, -⟩ := exitRecombination_all (Blocked R G idx s posI) (FromIndex idx)
    (by intro a ha; cases ha) max st2 st3 hall2 h4
  have hs2 := (enterHaplotypes_output max R G posI _ _ _ _ h3).2
  simp only at hs2
  have hs4 : st4.start_open_haplotypes = (s : Int) := by
    rw [h7]
    simp only
    rw [hs3, hs2, hs1]
  obtain ⟨L, hready⟩ := ready_after_exit max R idx G st st2 st3 posI _ hsync hb h1 h3 h4
  obtain ⟨len1, hl1, hl2⟩ := extensionLength_total G posI L st3.open_haplotypes (-1) hready
    (Or.inl rfl)
  rw [h5] at hl1
  simp only [Except.ok.injEq] at hl1
  subst hl1
  have hf := (extendHaplotypes_shape refC len _ _ _ _ h6).1
  refine ⟨⟨s, hs4, by omega, ?_⟩, by rw [hs4, hs]⟩
  intro x4 hx4
  obtain ⟨x3, hx3, e, -, he⟩ := forall₂_mem_right _ _ _ hf x4 hx4
  obtain ⟨hP, hQ⟩ := hall3 x3 hx3
  obtain ⟨esrc, c, hseq, hhead⟩ := extendHaplotype_exact R G posI refC len x3 x4 e
    (hready x3 hx3).2.2 hl2 hR he
  refine ⟨by rw [esrc]; exact hQ, x3.1, c, hseq, ?_, hhead⟩
  simpa using hP

theorem provenance_step (max : Nat) (refID R : List Char) (idx : AlignmentIndex) (G : List Int)
    (st st5 : EnumeratorState) (posI : Nat)
    (hsync : IndexSync G idx) (hb : Before G posI st) (hprov : Provenance R G idx posI st)
    (hok : enumeratorStep max refID R idx G st posI = Except.ok st5) :
    Provenance R G idx (posI + 1) st5 := by
  rw [enumeratorStep_eq] at hok
  cases hbf : stepBeforeFlush max R idx G st posI with
  | error e => rw [hbf] at hok; cases hok
  | ok x =>
    obtain ⟨st4, exts, refC⟩ := x
    rw [hbf] at hok
    simp only [Except.bind] at hok
    obtain ⟨h4, -⟩ := provenance_beforeFlush max R idx G st st4 posI exts refC hsync hb hprov hbf
    by_cases hc : decide (exts.length = 1 ∧ [refC] ∈ exts) = true ∧ posI > 0
    · rw [if_pos hc] at hok
      obtain ⟨e1, e2⟩ := flush_open refID R posI st4 st5 hok
      obtain ⟨s, -, -, hall⟩ := h4
      refine ⟨posI, e2, by omega, ?_⟩
      intro h hm
      rw [e1] at hm
      have hm2 := (keepFirstOccurrences_sublist _ _).subset hm
      obtain ⟨h0, hm0, rfl⟩ := List.mem_map.1 hm2
      obtain ⟨hfi, pre, x, hseq, -, hhead⟩ := hall h0 hm0
      obtain ⟨seq, src, cur⟩ := h0
      simp only at hseq
      subst hseq
      rw [trimToLast_append_singleton]
      refine ⟨hfi, [], x, rfl, ⟨[], rfl, by simp, ?_⟩, hhead⟩
      intro k b hk
      simp at hk
    · rw [if_neg hc] at hok
      simp only [Except.ok.injEq] at hok
      subst hok
      exact h4

theorem provenance_loop (max : Nat) (refID R : List Char) (idx : AlignmentIndex) (G : List Int)
    (hsync : IndexSync G idx) :
    ∀ (n : Nat) (st : EnumeratorState),
      enumeratorLoop max refID R idx G (List.range (n + 1)) enumeratorInit = Except.ok st →
      Provenance R G idx (n + 1) st
  | 0, st, hok => by
    simp only [List.range_succ, List.range_zero, List.nil_append, enumeratorLoop] at hok
    cases h1 : enumeratorStep max refID R idx G enumeratorInit 0 with
    | error e => rw [h1] at hok; simp at hok
    | ok st1 =>
      rw [h1] at hok
      simp only [Except.ok.injEq] at hok
      subst hok
      obtain ⟨c0, hc0, rfl⟩ := enumeratorStep_zero max refID R idx G st1 h1
      refine ⟨0, rfl, by omega, ?_⟩
      intro h hm
      simp only [List.mem_singleton] at hm
      subst hm
      refine ⟨(fun a ha => by cases ha), [], c0, rfl, ⟨[], rfl, by simp, ?_⟩, ?_⟩
      · intro k b hk
        simp at hk
      · simpa [HeadChar] using hc0
  | n + 1, st, hok => by
    rw [List.range_succ, enumeratorLoop_append] at hok
    cases h1 : enumeratorLoop max refID R idx G (List.range (n + 1)) enumeratorInit with
    | error e => rw [h1] at hok; simp at hok
    | ok st1 =>
      rw [h1] at hok
      simp only [enumeratorLoop] at hok
      cases h2 : enumeratorStep max refID R idx G st1 (n + 1) with
      | error e => rw [h2] at hok; simp at hok
      | ok st2 =>
        rw [h2] at hok
        simp only [Except.ok.injEq] at hok
        subst hok
        exact provenance_step max refID R idx G st1 st2 (n + 1) hsync
          (enumeratorLoop_before max refID R idx G hsync (n + 1) st1 h1)
          (provenance_loop max refID R idx G hsync n st1 h1) h2

theorem exampleChimeraLoaded_reached :
    loader 5000 exampleChimeraInput = Except.ok exampleChimeraLoaded := rfl

theorem exampleChimeraBuilt :
    buildGapStructure "TACGTA".toList exampleChimeraLoaded.alignments_starting_at
      = Except.ok ([-1, 0, 0, 0, -1, -1], [0, 1, 1, 2, 1, 0]) := rfl

theorem exampleChimeraState_reached :
    enumeratorLoop 5000 "chr".toList "TACGTA".toList exampleChimeraLoaded.alignments_starting_at
      [-1, 0, 0, 0, -1, -1] (List.range 4) enumeratorInit = Except.ok exampleChimeraState := rfl

theorem exampleChimeraExtended_reached :
    stepBeforeFlush 5000 "TACGTA".toList exampleChimeraLoaded.alignments_starting_at
      [-1, 0, 0, 0, -1, -1] exampleChimeraState 4
      = Except.ok (exampleChimeraExtended, [['T']], 'T') := rfl

theorem exampleChimeraFlushed_reached :
    enumeratorStep 5000 "chr".toList "TACGTA".toList exampleChimeraLoaded.alignments_starting_at
      [-1, 0, 0, 0, -1, -1] exampleChimeraState 4
      = flush "chr".toList "TACGTA".toList 4 exampleChimeraExtended ∧
    flush "chr".toList "TACGTA".toList 4 exampleChimeraExtended
      = Except.ok exampleChimeraFlushed := ⟨rfl, rfl⟩

theorem interleave_infix (p : List Char) :
    ∀ (ps ds : List (List Char)), p ∈ ps → ∃ A B, interleave ps ds = A ++ p ++ B
  | [], _, hp => by simp at hp
  | q :: ps, [], hp => by
    rcases List.mem_cons.1 hp with rfl | hp
    · exact ⟨[], interleave ps [], by simp [interleave]⟩
    · obtain ⟨A, B, e⟩ := interleave_infix p ps [] hp
      exact ⟨q ++ A, B, by simp [interleave, e]⟩
  | q :: ps, d :: ds, hp => by
    rcases List.mem_cons.1 hp with rfl | hp
    · exact ⟨[], d ++ interleave ps ds, by simp [interleave]⟩
    · obtain ⟨A, B, e⟩ := interleave_infix p ps ds hp
      exact ⟨q ++ d ++ A, B, by simp [interleave, e]⟩

theorem loadLine_queryOfLine (max_gap_length : Int) (lines : List AlignmentLine)
    (st st1 : LoaderState) (l : AlignmentLine) (hl : l ∈ lines)
    (hidx : IndexAll (QueryOfLine lines) st.alignments_starting_at)
    (hok : loadLine max_gap_length st l = Except.ok st1) :
    IndexAll (QueryOfLine lines) st1.alignments_starting_at := by
  obtain ⟨alleles, h, parts, -, hhack, hsplit, hne, -, hcase⟩ :=
    loadLine_ok max_gap_length st st1 l hok
  obtain ⟨-, -, -, e4, -⟩ := startZeroHack_ok _ h hhack
  have hq : ∃ pre, l.query = pre ++ h.query := by
    rw [e4]
    split_ifs
    · exact ⟨l.query.take 1, (List.take_append_drop 1 l.query).symm⟩
    · exact ⟨[], rfl⟩
  obtain ⟨pre0, hpre0⟩ := hq
  rcases hcase with ⟨-, hi, -⟩ | ⟨-, hi, -⟩
  · rw [hi]
    apply indexAll_publishParts _ _ _ _ hidx
    intro hP hmem addr
    obtain ⟨dropped, -, -, -, d4⟩ := splitAlignment_interleave max_gap_length h parts hsplit
      (splitAlignment_ref_ne_nil max_gap_length h parts hsplit hne)
    obtain ⟨A, B, e⟩ := interleave_infix hP.query _ (dropped.map Prod.snd)
      (List.mem_map_of_mem startingHaplotype.query hmem)
    refine ⟨l, hl, pre0 ++ A, B, ?_⟩
    rw [hpre0, ← d4, e]
    simp
  · rw [hi]
    apply indexAll_pushBack _ _ _ _ hidx
    exact ⟨l, hl, pre0, [], by simpa using hpre0⟩

theorem loadLines_queryOfLine (max_gap_length : Int) (lines : List AlignmentLine) :
    ∀ (rest : List AlignmentLine) (st st1 : LoaderState), (∀ l ∈ rest, l ∈ lines) →
      IndexAll (QueryOfLine lines) st.alignments_starting_at →
      loadLines max_gap_length rest st = Except.ok st1 →
      IndexAll (QueryOfLine lines) st1.alignments_starting_at
  | [], st, st1, _, hidx, hok => by
    simp only [loadLines, Except.ok.injEq] at hok
    rw [← hok]; exact hidx
  | l :: rest, st, st1, hsub, hidx, hok => by
    simp only [loadLines] at hok
    cases hl : loadLine max_gap_length st l with
    | error e => rw [hl] at hok; simp at hok
    | ok st2 =>
      rw [hl] at hok
      exact loadLines_queryOfLine max_gap_length lines rest st2 st1
        (fun x hx => hsub x (List.mem_cons_of_mem _ hx))
        (loadLine_queryOfLine max_gap_length lines st st2 l (hsub l (List.mem_cons_self _ _))
          hidx hl) hok

theorem loader_queryOfLine (max_gap_length : Int) (lines : List AlignmentLine)
    (st : LoaderState) (hok : loader max_gap_length lines = Except.ok st) :
    IndexAll (QueryOfLine lines) st.alignments_starting_at :=
  loadLines_queryOfLine max_gap_length lines lines loaderInit st (fun _ h => h)
    (by intro key v hm; simp [loaderInit] at hm) hok

theorem removeGaps_flatten : ∀ blocks : List (List Char),
    removeGaps blocks.flatten = (blocks.map removeGaps).flatten
  | [] => by simp [removeGaps]
  | b :: bs => by
    simp only [List.flatten_cons, List.map_cons]
    rw [removeGaps_append, removeGaps_flatten bs]

theorem referenceBlock_sublist (R : List Char) (G : List Int) (i : Nat) :
    (removeGaps (referenceBlock R G i)).Sublist R := by
  unfold referenceBlock
  rw [removeGaps_append, removeGaps_dashes, List.append_nil]
  refine (removeGaps_sublist _).trans ?_
  cases h : R[i]? with
  | none => simp
  | some c =>
    simp only [Option.toList_some, List.singleton_sublist]
    exact mem_of_getElem?_some _ _ _ h

theorem alignmentBlock_sublist (a : startingHaplotype) (G : List Int) (j i : Nat) :
    (removeGaps (alignmentBlock a G j i)).Sublist a.query := by
  unfold alignmentBlock
  simp only
  rw [removeGaps_append, removeGaps_dashes, List.append_nil]
  exact (removeGaps_sublist _).trans ((List.take_sublist _ _).trans (List.drop_sublist _ _))

/-- The state in front of the flush test of an iteration of a run. -/
theorem provenance_reached (max : Nat) (refID R : List Char) (idx : AlignmentIndex)
    (G : List Int) (hsync : IndexSync G idx) (posI : Nat) (st st4 : EnumeratorState)
    (exts : List (List Char)) (refC : Char)
    (hloop : enumeratorLoop max refID R idx G (List.range posI) enumeratorInit = Except.ok st)
    (hstep : stepBeforeFlush max R idx G st posI = Except.ok (st4, exts, refC)) :
    Provenance R G idx (posI + 1) st4 := by
  cases posI with
  | zero =>
    simp only [List.range_zero, enumeratorLoop, Except.ok.injEq] at hloop
    subst hloop
    have hstep1 : enumeratorStep max refID R idx G enumeratorInit 0 = Except.ok st4 := by
      rw [enumeratorStep_eq, hstep]
      simp [Except.bind]
    exact provenance_loop max refID R idx G hsync 0 st4 (by
      simp only [List.range_succ, List.range_zero, List.nil_append, enumeratorLoop, hstep1])
  | succ n =>
    exact (provenance_beforeFlush max R idx G st st4 (n + 1) exts refC hsync
      (enumeratorLoop_before max refID R idx G hsync (n + 1) st hloop)
      (provenance_loop max refID R idx G hsync n st hloop) hstep).1

/-- C16 (amended). In front of the flush test of every iteration `posI` of a
run (so at every flush), with `s` the value of `start_open_haplotypes`, for
every open haplotype `O`: the sequence of `O` without its final character is
the concatenation of one block for each reference position `s, …, posI - 1`, in
this order, and the string obtained from it by removing `-`, `*` and `_` is the
concatenation of the blocks with these characters removed. The block of
position `i` is the block of the reference (the character `R[i]` and the dashes
of the gap columns of `i`), or the block of one alignment of the index, whose
query is a piece of the query string of an input alignment: the query
characters of its column at reference position `i` and of the gap columns after
it, in the order of the query. So every block without `-`, `*` and `_` is a
subsequence of the reference or of the query string of an input alignment;
blocks of different positions can come from different alignments. -/
theorem gap_stripping_blocks (max_gap_length : Int) (lines : List AlignmentLine)
    (lst : LoaderState) (max_running_haplotypes_before_add : Nat) (refID R : List Char)
    (G C : List Int) (posI : Nat) (st st4 : EnumeratorState) (extensions : List (List Char))
    (refC : Char)
    (hload : loader max_gap_length lines = Except.ok lst)
    (hbuild : buildGapStructure R lst.alignments_starting_at = Except.ok (G, C))
    (hloop : enumeratorLoop max_running_haplotypes_before_add refID R
      lst.alignments_starting_at G (List.range posI) enumeratorInit = Except.ok st)
    (hstep : stepBeforeFlush max_running_haplotypes_before_add R lst.alignments_starting_at G
      st posI = Except.ok (st4, extensions, refC)) :
    ∃ s : Nat, st4.start_open_haplotypes = (s : Int) ∧ s ≤ posI ∧
      ∀ O ∈ st4.open_haplotypes, ∃ blocks : List (List Char),
        blocks.length = posI - s ∧
        O.1.take (O.1.length - 1) = blocks.flatten ∧
        removeGaps (O.1.take (O.1.length - 1)) = (blocks.map removeGaps).flatten ∧
        ∀ (k : Nat) (b : List Char), blocks[k]? = some b →
          (b = referenceBlock R G (s + k) ∧ (removeGaps b).Sublist R) ∨
          ∃ (l : AlignmentLine) (key : Nat) (a : HapPtr) (j : Nat) (r : Char)
            (pre post : List Char),
            l ∈ lines ∧ a ∈ indexAt lst.alignments_starting_at key ∧
            l.query = pre ++ a.obj.query ++ post ∧
            a.obj.ref[j]? = some r ∧ isGapCharacter r = false ∧
            refIndexOfColumn a.obj j = ((s + k : Nat) : Int) ∧
            b = alignmentBlock a.obj G j (s + k) ∧ (removeGaps b).Sublist l.query := by
  have hsync := indexSync_of_loaded max_gap_length lines lst R G C hload hbuild
  obtain ⟨s, hs, hlt, hall⟩ := provenance_reached max_running_haplotypes_before_add refID R
    lst.alignments_starting_at G hsync posI st st4 extensions refC hloop hstep
  refine ⟨s, hs, by omega, ?_⟩
  intro O hO
  obtain ⟨-, pre, x, hseq, ⟨blocks, hflat, hlen, hblocks⟩, -⟩ := hall O hO
  have htake : O.1.take (O.1.length - 1) = blocks.flatten := by
    rw [hseq, ← hflat]
    simp
  refine ⟨blocks, by simpa using hlen, htake, by rw [htake, removeGaps_flatten], ?_⟩
  intro k b hk
  rcases hblocks k b hk with hb | ⟨key, a, j, r, hkey, hr, hrg, hri, hb⟩
  · left
    exact ⟨hb, by rw [hb]; exact referenceBlock_sublist R G _⟩
  · right
    obtain ⟨v, hv, hav⟩ := mem_indexAt _ _ _ hkey
    obtain ⟨l, hl, p1, p2, hq⟩ := loader_queryOfLine max_gap_length lines lst hload key v hv a hav
    refine ⟨l, key, a, j, r, p1, p2, hl, hkey, hq, hr, hrg, hri, hb, ?_⟩
    rw [hb, hq]
    refine (alignmentBlock_sublist a.obj G j _).trans ?_
    exact (List.sublist_append_right _ _).trans (List.sublist_append_left _ _)

/-- C16 at iteration 4 of the run on `exampleChimeraInput` and the reference
`TACGTA`, in front of the flush that writes the line of position 2. -/
theorem gap_stripping_blocks_witness :
    loader 5000 exampleChimeraInput = Except.ok exampleChimeraLoaded ∧
    buildGapStructure "TACGTA".toList exampleChimeraLoaded.alignments_starting_at
      = Except.ok ([-1, 0, 0, 0, -1, -1], [0, 1, 1, 2, 1, 0]) ∧
    enumeratorLoop 5000 "chr".toList "TACGTA".toList exampleChimeraLoaded.alignments_starting_at
      [-1, 0, 0, 0, -1, -1] (List.range 4) enumeratorInit = Except.ok exampleChimeraState ∧
    stepBeforeFlush 5000 "TACGTA".toList exampleChimeraLoaded.alignments_starting_at
      [-1, 0, 0, 0, -1, -1] exampleChimeraState 4
      = Except.ok (exampleChimeraExtended, [['T']], 'T') ∧
    ∃ s : Nat, exampleChimeraExtended.start_open_haplotypes = (s : Int) ∧ s ≤ 4 ∧
      ∀ O ∈ exampleChimeraExtended.open_haplotypes, ∃ blocks : List (List Char),
        blocks.length = 4 - s ∧
        O.1.take (O.1.length - 1) = blocks.flatten ∧
        removeGaps (O.1.take (O.1.length - 1)) = (blocks.map removeGaps).flatten ∧
        ∀ (k : Nat) (b : List Char), blocks[k]? = some b →
          (b = referenceBlock "TACGTA".toList [-1, 0, 0, 0, -1, -1] (s + k) ∧
            (removeGaps b).Sublist "TACGTA".toList) ∨
          ∃ (l : AlignmentLine) (key : Nat) (a : HapPtr) (j : Nat) (r : Char)
            (pre post : List Char),
            l ∈ exampleChimeraInput ∧
            a ∈ indexAt exampleChimeraLoaded.alignments_starting_at key ∧
            l.query = pre ++ a.obj.query ++ post ∧
            a.obj.ref[j]? = some r ∧ isGapCharacter r = false ∧
            refIndexOfColumn a.obj j = ((s + k : Nat) : Int) ∧
            b = alignmentBlock a.obj [-1, 0, 0, 0, -1, -1] j (s + k) ∧
            (removeGaps b).Sublist l.query :=
  ⟨exampleChimeraLoaded_reached, exampleChimeraBuilt, exampleChimeraState_reached,
    exampleChimeraExtended_reached,
    gap_stripping_blocks 5000 exampleChimeraInput exampleChimeraLoaded 5000 "chr".toList
      "TACGTA".toList [-1, 0, 0, 0, -1, -1] [0, 1, 1, 2, 1, 0] 4 exampleChimeraState
      exampleChimeraExtended [['T']] 'T' exampleChimeraLoaded_reached exampleChimeraBuilt
      exampleChimeraState_reached exampleChimeraExtended_reached⟩

/-- C16 as stated fails, and so does the statement that allows the reference
beside the queries. On the reference `TACGTA` with the two alignments of
`exampleChimeraInput` (`ACG` / `ATG` from position 1 and `GT` / `CT` from
position 3), iteration 4 flushes and writes the line of position 2 with the
alleles `ACC`, `ATC` and `ATG`. In front of that flush the open haplotype that
follows the reference has the sequence `ACGT`: dropping the final character and
removing the gap characters leaves `ACG`, a subsequence of neither query string.
The open haplotype with the sequence `ATCT` took `T` from the first alignment
and `C` from the second: `ATC` is a subsequence of neither query string and not
of the reference. -/
theorem gap_stripping_not_subsequence :
    loader 5000 exampleChimeraInput = Except.ok exampleChimeraLoaded ∧
    buildGapStructure "TACGTA".toList exampleChimeraLoaded.alignments_starting_at
      = Except.ok ([-1, 0, 0, 0, -1, -1], [0, 1, 1, 2, 1, 0]) ∧
    enumeratorLoop 5000 "chr".toList "TACGTA".toList exampleChimeraLoaded.alignments_starting_at
      [-1, 0, 0, 0, -1, -1] (List.range 4) enumeratorInit = Except.ok exampleChimeraState ∧
    stepBeforeFlush 5000 "TACGTA".toList exampleChimeraLoaded.alignments_starting_at
      [-1, 0, 0, 0, -1, -1] exampleChimeraState 4
      = Except.ok (exampleChimeraExtended, [['T']], 'T') ∧
    enumeratorStep 5000 "chr".toList "TACGTA".toList exampleChimeraLoaded.alignments_starting_at
      [-1, 0, 0, 0, -1, -1] exampleChimeraState 4
      = flush "chr".toList "TACGTA".toList 4 exampleChimeraExtended ∧
    flush "chr".toList "TACGTA".toList 4 exampleChimeraExtended
      = Except.ok exampleChimeraFlushed ∧
    main 5000 5000 "chr".toList "TACGTA".toList exampleChimeraInput
      = Except.ok (exampleChimeraFlushed.outputStream,
          [("chr".toList, 3, ['T']), ("chr".toList, 4, ['C'])]) ∧
    (∃ O ∈ exampleChimeraExtended.open_haplotypes,
      O.2.1 = none ∧
      removeGaps (O.1.take (O.1.length - 1)) = "ACG".toList ∧
      ∀ l ∈ exampleChimeraInput,
        ¬ List.Sublist (removeGaps (O.1.take (O.1.length - 1))) l.query) ∧
    (∃ O ∈ exampleChimeraExtended.open_haplotypes,
      removeGaps (O.1.take (O.1.length - 1)) = "ATC".toList ∧
      (∀ l ∈ exampleChimeraInput,
        ¬ List.Sublist (removeGaps (O.1.take (O.1.length - 1))) l.query) ∧
      ¬ List.Sublist (removeGaps (O.1.take (O.1.length - 1))) "TACGTA".toList) := by
  refine ⟨rfl, rfl, rfl, rfl, rfl, rfl, rfl,
    ⟨("ACGT".toList, none, -1), by decide, rfl, rfl, ?_⟩,
    ⟨("ATCT".toList, some exampleChimeraSecond, 1), by decide, rfl, ?_, by decide⟩⟩
  · intro l hl
    simp only [exampleChimeraInput, List.mem_cons, List.mem_singleton, List.not_mem_nil,
      or_false] at hl
    rcases hl with rfl | rfl <;> decide
  · intro l hl
    simp only [exampleChimeraInput, List.mem_cons, List.mem_singleton, List.not_mem_nil,
      or_false] at hl
    rcases hl with rfl | rfl <;> decide

end CRAM2VCF
